import Mathlib

/-! # osm2ch: a verification development

A shallow embedding of the graph-construction core of `osm2ch`
(`osm_loader.go`, `mesoscopic.go`, `microscopic.go`, `network_node.go`, `way.go`)
together with theorems about it.

Conventions of the embedding.

* Go `int`/`int64` identifiers and counters are `Int`; no counter of the program
  can reach the 64-bit range on an input that fits in memory.
* Go `float64` values (coordinates, lengths) are exact rationals `ℚ`.
* A Go `map` that is only looked up is a finite association list or a function
  into `Option`; a Go `map` that is iterated with `range` is an association list
  whose order is the iteration order, and theorems quantify over every order.
* Run-time panics (index out of range, slice bounds) and returned errors are
  `none` / `Except.error`.
-/

namespace Osm2ch

/-! ## Data model of `osm_loader.go` / `expanded_edge.go` -/

/-- A (longitude, latitude) pair. -/
structure GeoPoint where
  Lon : ℚ
  Lat : ℚ
deriving DecidableEq, Repr

/-- Go's zero value of `GeoPoint`. -/
def GeoPoint.zero : GeoPoint := ⟨0, 0⟩

/-- The type `ExpandedEdgeComponent` of `expanded_edge.go`. -/
structure ExpandedEdgeComponent where
  SourceNodeID : Int
  TargetNodeID : Int
  Tags : List (String × String)
  CostMeters : ℚ
deriving DecidableEq, Repr

/-- The type `ExpandedEdge` of `expanded_edge.go`. -/
structure ExpandedEdge where
  ID : Int
  Source : Int
  Target : Int
  SourceOSMWayID : Int
  TargetOSMWayID : Int
  SourceComponent : ExpandedEdgeComponent
  TargetComponent : ExpandedEdgeComponent
  WasOneway : Bool
  CostMeters : ℚ
  Geom : List GeoPoint
deriving DecidableEq, Repr

/-- The type `restrictionComponent` of `expanded_edge.go`: a member of a
restriction relation (`Typ` is the Go field `Type`). -/
structure restrictionComponent where
  ID : Int
  Typ : String
deriving DecidableEq, Repr

/-- The table `restrictions` of `ImportFromOSMFile`:
`map[tag]map[from]map[to]via`, listed in the order in which `range` visits it. -/
abbrev RestrictionTable :=
  List (String × List (restrictionComponent × List (restrictionComponent × restrictionComponent)))

/-! ## Turn-restriction stage (`osm_loader.go`, lines 337-424) -/

/-- The in-place filter idiom `temp := expandedEdges[:0]; for ... { if keep {
temp = append(temp, expEdge) } }; expandedEdges = temp`. -/
def filterInPlace (keep : ExpandedEdge → Bool) (expandedEdges : List ExpandedEdge) :
    List ExpandedEdge :=
  expandedEdges.foldl (fun temp expEdge => if keep expEdge then temp ++ [expEdge] else temp) []

/-- Edges kept by the deletion block of a `no_*` entry (line 368). -/
def keepNo (fromOSMWayID toOSMWayID : Int) (expEdge : ExpandedEdge) : Bool :=
  expEdge.SourceOSMWayID != fromOSMWayID || expEdge.TargetOSMWayID != toOSMWayID

/-- Edges kept by the deletion block of an `only_*` entry (line 410). -/
def keepOnly (fromOSMWayID toOSMWayID rvertexVia : Int) (expEdge : ExpandedEdge) : Bool :=
  !(expEdge.SourceOSMWayID == fromOSMWayID && expEdge.TargetOSMWayID != toOSMWayID
      && expEdge.SourceComponent.TargetNodeID == rvertexVia)

/-- The tags handled by the first loop (line 343). -/
def isNoTag (i : String) : Bool :=
  i == "no_left_turn" || i == "no_right_turn" || i == "no_straight_on"

/-- The tags handled by the second loop (line 385). -/
def isOnlyTag (i : String) : Bool :=
  i == "only_left_turn" || i == "only_right_turn" || i == "only_straight_on"

/-- Body of `for n := range v` in the `no_*` loop (lines 353-374). -/
def noStepTo (waysSeen : List Int) (fromOSMWayID : Int)
    (expandedEdges : List ExpandedEdge) (nv : restrictionComponent × restrictionComponent) :
    List ExpandedEdge :=
  if nv.1.Typ != "way" then expandedEdges
  else if nv.2.Typ != "node" then expandedEdges
  else if !(waysSeen.contains nv.1.ID) then expandedEdges
  else filterInPlace (keepNo fromOSMWayID nv.1.ID) expandedEdges

/-- Body of `for j, v := range k` in the `no_*` loop (lines 345-375). -/
def noStepFrom (waysSeen : List Int) (expandedEdges : List ExpandedEdge)
    (jv : restrictionComponent × List (restrictionComponent × restrictionComponent)) :
    List ExpandedEdge :=
  if jv.1.Typ != "way" then expandedEdges
  else if !(waysSeen.contains jv.1.ID) then expandedEdges
  else jv.2.foldl (noStepTo waysSeen jv.1.ID) expandedEdges

/-- Body of the first `for i, k := range restrictions` (lines 341-381). -/
def noStepTag (waysSeen : List Int) (expandedEdges : List ExpandedEdge)
    (ik : String × List (restrictionComponent × List (restrictionComponent × restrictionComponent))) :
    List ExpandedEdge :=
  if isNoTag ik.1 then ik.2.foldl (noStepFrom waysSeen) expandedEdges else expandedEdges

/-- Body of `for n := range v` in the `only_*` loop (lines 395-416). -/
def onlyStepTo (waysSeen : List Int) (fromOSMWayID : Int)
    (expandedEdges : List ExpandedEdge) (nv : restrictionComponent × restrictionComponent) :
    List ExpandedEdge :=
  if nv.1.Typ != "way" then expandedEdges
  else if nv.2.Typ != "node" then expandedEdges
  else if !(waysSeen.contains nv.1.ID) then expandedEdges
  else filterInPlace (keepOnly fromOSMWayID nv.1.ID nv.2.ID) expandedEdges

/-- Body of `for j, v := range k` in the `only_*` loop (lines 387-417). -/
def onlyStepFrom (waysSeen : List Int) (expandedEdges : List ExpandedEdge)
    (jv : restrictionComponent × List (restrictionComponent × restrictionComponent)) :
    List ExpandedEdge :=
  if jv.1.Typ != "way" then expandedEdges
  else if !(waysSeen.contains jv.1.ID) then expandedEdges
  else jv.2.foldl (onlyStepTo waysSeen jv.1.ID) expandedEdges

/-- Body of the second `for i, k := range restrictions` (lines 383-424). -/
def onlyStepTag (waysSeen : List Int) (expandedEdges : List ExpandedEdge)
    (ik : String × List (restrictionComponent × List (restrictionComponent × restrictionComponent))) :
    List ExpandedEdge :=
  if isOnlyTag ik.1 then ik.2.foldl (onlyStepFrom waysSeen) expandedEdges else expandedEdges

/-- The restriction stage of `ImportFromOSMFile`: the `no_*` loop, then the
`only_*` loop.  The two loops may visit the table in different orders. -/
def applyRestrictions (restrictionsNo restrictionsOnly : RestrictionTable) (waysSeen : List Int)
    (expandedEdges : List ExpandedEdge) : List ExpandedEdge :=
  restrictionsOnly.foldl (onlyStepTag waysSeen)
    (restrictionsNo.foldl (noStepTag waysSeen) expandedEdges)

/-! ## Edge slicing (`osm_loader.go`, lines 225-275) -/

/-- The type `Node` of `ImportFromOSMFile`: an OSM node with its use counter
(`Lon`, `Lat` are the coordinates of the embedded `osm.Node`). -/
structure Node where
  ID : Int
  useCount : Int
  Lon : ℚ
  Lat : ℚ
deriving DecidableEq, Repr

/-- Go's zero value of `Node`, the result of looking up an absent key. -/
def Node.zero : Node := ⟨0, 0, 0, 0⟩

/-- The type `Way` of `way.go` (`Nodes` holds the node IDs of `osm.WayNodes`). -/
structure Way where
  ID : Int
  Oneway : Bool
  Nodes : List Int
  TagMap : List (String × String)
deriving DecidableEq, Repr

/-- The type `Edge` built by edge slicing; its declaration is not part of the
sources at hand, its fields are those of the literals of lines 247-267. -/
structure Edge where
  ID : Int
  WayID : Int
  SourceNodeID : Int
  TargetNodeID : Int
  CostMeters : ℚ
  Geom : List GeoPoint
  WasOneway : Bool
deriving DecidableEq, Repr

/-- Modelled from the spec: `copyLine` is not among the sources; it returns a
copy of the geometry. -/
def copyLine (geometry : List GeoPoint) : List GeoPoint := geometry

/-- Modelled from the spec: `reverseLine` is not among the sources; the
reversed edge carries the geometry of the slice in reverse order. -/
def reverseLine (geometry : List GeoPoint) : List GeoPoint := geometry.reverse

/-- The forward edge literal of lines 247-255. -/
def forwardEdge (id : Int) (way : Way) (source target : Int) (cost : ℚ)
    (geometry : List GeoPoint) : Edge :=
  { ID := id, WayID := way.ID, SourceNodeID := source, TargetNodeID := target,
    CostMeters := cost, Geom := copyLine geometry, WasOneway := way.Oneway }

/-- The reversed edge literal of lines 259-267. -/
def reversedEdge (id : Int) (way : Way) (source target : Int) (cost : ℚ)
    (geometry : List GeoPoint) : Edge :=
  { ID := id, WayID := way.ID, SourceNodeID := target, TargetNodeID := source,
    CostMeters := cost, Geom := reverseLine geometry, WasOneway := false }

/-- The variables of the slicing loop: `edges`, `totalEdgesNum`, and the
per-way `source` and `geometry`  (`onewayEdges` and `notOnewayEdges` are only
printed). -/
structure SliceState where
  edges : List Edge
  totalEdgesNum : Int
  source : Int
  geometry : List GeoPoint
deriving DecidableEq, Repr

/-- Body of `for i, wayNode := range way.Nodes` (lines 236-273);
`getSphericalLength` is the external length primitive. -/
def sliceStep (getSphericalLength : List GeoPoint → ℚ) (nodes : Int → Option Node) (way : Way)
    (st : SliceState) (iw : Nat × Int) : SliceState :=
  let node := (nodes iw.2).getD Node.zero
  let geometry := st.geometry ++ [(⟨node.Lon, node.Lat⟩ : GeoPoint)]
  if iw.1 = 0 then
    { st with source := iw.2, geometry := geometry }
  else if node.useCount > 1 then
    let cost := getSphericalLength geometry
    let fwd := forwardEdge (st.totalEdgesNum + 1) way st.source iw.2 cost geometry
    if !way.Oneway then
      let rev := reversedEdge (st.totalEdgesNum + 2) way st.source iw.2 cost geometry
      { edges := st.edges ++ [fwd, rev], totalEdgesNum := st.totalEdgesNum + 2,
        source := iw.2, geometry := [⟨node.Lon, node.Lat⟩] }
    else
      { edges := st.edges ++ [fwd], totalEdgesNum := st.totalEdgesNum + 1,
        source := iw.2, geometry := [⟨node.Lon, node.Lat⟩] }
  else
    { st with geometry := geometry }

/-- Body of `for _, way := range ways` (lines 232-274): `source` and
`geometry` start afresh for every way. -/
def sliceWay (getSphericalLength : List GeoPoint → ℚ) (nodes : Int → Option Node)
    (acc : List Edge × Int) (way : Way) : List Edge × Int :=
  let st := way.Nodes.enum.foldl (sliceStep getSphericalLength nodes way)
    { edges := acc.1, totalEdgesNum := acc.2, source := 0, geometry := [] }
  (st.edges, st.totalEdgesNum)

/-- The edge list built by lines 225-275. -/
def prepareEdges (getSphericalLength : List GeoPoint → ℚ) (nodes : Int → Option Node)
    (ways : List Way) : List Edge :=
  (ways.foldl (sliceWay getSphericalLength nodes) ([], 0)).1

/-! ## Edge expansion (`osm_loader.go`, lines 287-335) -/

/-- The variables of the expansion loop. -/
structure ExpandState where
  cycles : Int
  expandedEdges : List ExpandedEdge
  expandedEdgesTotal : Int
deriving DecidableEq, Repr

/-- The test of line 300 for two edges with non-empty geometries. -/
def isCycle (edgeAsFromVertex edgeAsToVertex : Edge) : Bool :=
  edgeAsFromVertex.Geom.head? == edgeAsToVertex.Geom.getLast?
    && edgeAsFromVertex.Geom.getLast? == edgeAsToVertex.Geom.head?

/-- Power of two with an integer exponent. -/
def pow2 (k : Int) : ℚ :=
  if 0 ≤ k then ((2 ^ k.toNat : Nat) : ℚ) else 1 / ((2 ^ (-k).toNat : Nat) : ℚ)

/-- Position of the leading bit of `n`: the number of halvings that bring `n`
below 2, at most `fuel` of them. -/
def leadingBit : Nat → Nat → Nat
  | 0, _ => 0
  | fuel + 1, n => if 2 ≤ n then leadingBit fuel (n / 2) + 1 else 0

/-- Exponent `k` of the binade of a rational `x ≠ 0`: `2^k ≤ |x| < 2^(k+1)`. -/
def binade (x : ℚ) : Int :=
  let k : Int := (leadingBit x.num.natAbs x.num.natAbs : Int) - (leadingBit x.den x.den : Int)
  if pow2 k ≤ |x| then k else k - 1

/-- Nearest integer, ties to the even one. -/
def roundHalfEven (x : ℚ) : Int :=
  let f := ⌊x⌋
  if x - f < 1 / 2 then f
  else if 1 / 2 < x - f then f + 1
  else if f % 2 = 0 then f else f + 1

/-- Rounding of an exact result to `float64` (IEEE 754 binary64, round to
nearest, ties to even): a finite `float64` is a rational `m * 2^(e - 52)` with
`|m| < 2^53` and `-1022 ≤ e ≤ 1023`, and below `2^(-1022)` the spacing stays
`2^(-1074)`.  Finite `float64` values are the rationals they denote; a result of
magnitude `2^1024` and more, which `float64` turns into an infinity, has no
counterpart among the rationals and is left as the rounded rational. -/
def float64Round (x : ℚ) : ℚ :=
  if x = 0 then 0
  else
    let e := max (binade x) (-1022)
    (roundHalfEven (x / pow2 (e - 52)) : ℚ) * pow2 (e - 52)

/-- The sum `a + b` of two `float64` values: the exact sum, rounded. -/
def float64Add (a b : ℚ) : ℚ := float64Round (a + b)

/-- The quotient `a / b` of two `float64` values (`b ≠ 0`): the exact quotient, rounded. -/
def float64Div (a b : ℚ) : ℚ := float64Round (a / b)

/-- Lines 305-330: the expanded edge of a pair of edges.  `findMiddlePoint` is
not among the sources and is a parameter.  `CostMeters` is the `float64`
expression `(costMetersFromVertex + costMetersToVertex) / 2.0` of line 327: the
sum is rounded, then the quotient.  The slice expressions
`Geom[beforeFromIdx+1:len(Geom)]` and `Geom[:beforeToIdx+1]` panic (`none`) when
the index leaves the geometry (every geometry is allocated with the capacity of
its length). -/
def expandPair (findMiddlePoint : List GeoPoint → Int × GeoPoint) (id : Int)
    (edgeAsFromVertex edgeAsToVertex : Edge) : Option ExpandedEdge :=
  let beforeFromIdx := (findMiddlePoint edgeAsFromVertex.Geom).1
  let fromMiddlePoint := (findMiddlePoint edgeAsFromVertex.Geom).2
  if 0 ≤ beforeFromIdx + 1 ∧ beforeFromIdx + 1 ≤ edgeAsFromVertex.Geom.length then
    let fromGeomHalf := [fromMiddlePoint] ++ edgeAsFromVertex.Geom.drop (beforeFromIdx + 1).toNat
    let beforeToIdx := (findMiddlePoint edgeAsToVertex.Geom).1
    let toMiddlePoint := (findMiddlePoint edgeAsToVertex.Geom).2
    if 0 ≤ beforeToIdx + 1 ∧ beforeToIdx + 1 ≤ edgeAsToVertex.Geom.length then
      let toGeomHalf := edgeAsToVertex.Geom.take (beforeToIdx + 1).toNat ++ [toMiddlePoint]
      some
        { ID := id
          Source := edgeAsFromVertex.ID
          Target := edgeAsToVertex.ID
          SourceOSMWayID := edgeAsFromVertex.WayID
          TargetOSMWayID := edgeAsToVertex.WayID
          SourceComponent :=
            { SourceNodeID := edgeAsFromVertex.SourceNodeID
              TargetNodeID := edgeAsFromVertex.TargetNodeID, Tags := [], CostMeters := 0 }
          TargetComponent :=
            { SourceNodeID := edgeAsToVertex.SourceNodeID
              TargetNodeID := edgeAsToVertex.TargetNodeID, Tags := [], CostMeters := 0 }
          CostMeters := float64Div (float64Add edgeAsFromVertex.CostMeters edgeAsToVertex.CostMeters) 2
          WasOneway := edgeAsFromVertex.WasOneway
          Geom := fromGeomHalf ++ toGeomHalf }
    else none
  else none

/-- Body of `for _, outcomingEdge := range outcomingEdges` (lines 296-331).
`edges[outcomingEdge-1]` and `Geom[0]`, `Geom[len-1]` panic (`none`) out of
range. -/
def expandInner (findMiddlePoint : List GeoPoint → Int × GeoPoint) (edges : List Edge)
    (edgeAsFromVertex : Edge) (st : ExpandState) (outcomingEdge : Int) : Option ExpandState :=
  if 0 ≤ outcomingEdge - 1 then
    match edges[(outcomingEdge - 1).toNat]? with
    | none => none
    | some edgeAsToVertex =>
      if edgeAsFromVertex.Geom.isEmpty || edgeAsToVertex.Geom.isEmpty then none
      else if isCycle edgeAsFromVertex edgeAsToVertex then
        some { st with cycles := st.cycles + 1 }
      else
        match expandPair findMiddlePoint (st.expandedEdgesTotal + 1) edgeAsFromVertex
            edgeAsToVertex with
        | none => none
        | some expEdge =>
          some { st with expandedEdges := st.expandedEdges ++ [expEdge]
                         expandedEdgesTotal := st.expandedEdgesTotal + 1 }
  else none

/-- Body of `for _, edge := range edges` (lines 292-332); `findOutComingEdges`
is not among the sources and is a parameter. -/
def expandOuter (findOutComingEdges : Edge → List Edge → List Int)
    (findMiddlePoint : List GeoPoint → Int × GeoPoint) (edges : List Edge)
    (st : ExpandState) (edge : Edge) : Option ExpandState :=
  (findOutComingEdges edge edges).foldlM (expandInner findMiddlePoint edges edge) st

/-- The expanded edges built by lines 287-335, `none` if the loop panics. -/
def expandEdges (findOutComingEdges : Edge → List Edge → List Int)
    (findMiddlePoint : List GeoPoint → Int × GeoPoint) (edges : List Edge) :
    Option (List ExpandedEdge) :=
  (edges.foldlM (expandOuter findOutComingEdges findMiddlePoint edges)
    { cycles := 0, expandedEdges := [], expandedEdgesTotal := 0 }).map (fun st => st.expandedEdges)

/-! ## Go run-time model used by the network builders -/

/-- How a Go function fails: it returns an `error`, or it panics. -/
inductive Failure where
  | error
  | panic
deriving DecidableEq, Repr

/-- A Go `map` with integer keys: its entries, in the order in which `range`
visits them. -/
abbrev GoMap (V : Type) := List (Int × V)

/-- The lookup `m[k]` with its `ok` flag. -/
def mapGet? {V : Type} : GoMap V → Int → Option V
  | [], _ => none
  | (k', v) :: t, k => if k' = k then some v else mapGet? t k

/-- The assignment `m[k] = v`. -/
def mapSet {V : Type} : GoMap V → Int → V → GoMap V
  | [], k, v => [(k, v)]
  | (k', v') :: t, k, v => if k' = k then (k, v) :: t else (k', v') :: mapSet t k v

/-- The statement `delete(m, k)`. -/
def mapDelete {V : Type} (m : GoMap V) (k : Int) : GoMap V :=
  m.filter (fun p => p.1 != k)

/-- The index expression `s[i]`, which panics out of range. -/
def sliceAt {α : Type} (s : List α) (i : Int) : Except Failure α :=
  if 0 ≤ i then
    match s[i.toNat]? with
    | some a => .ok a
    | none => .error .panic
  else .error .panic

/-- The assignment `s[i] = a`, which panics out of range. -/
def sliceSet {α : Type} (s : List α) (i : Int) (a : α) : Except Failure (List α) :=
  if 0 ≤ i ∧ i < s.length then .ok (s.set i.toNat a) else .error .panic

/-- Go's `math.Round`: to the nearest integer, halves away from zero. -/
def goRound (x : ℚ) : Int :=
  if 0 ≤ x then ⌊x + 1 / 2⌋ else -⌊-x + 1 / 2⌋

/-! ## Data model of the three network levels -/

/-- An `orb.Point`. -/
abbrev Point := ℚ × ℚ

/-- An `orb.LineString`. -/
abbrev LineString := List Point

/-- Agent types; the constants other than the three named in `microscopic.go`
are not among the sources. -/
inductive AgentType where
  | AGENT_AUTO
  | AGENT_BIKE
  | AGENT_WALK
  | other (code : Nat)
deriving DecidableEq, Repr

/-- Boundary types; only `BOUNDARY_NONE` is named in the sources. -/
inductive BoundaryType where
  | BOUNDARY_NONE
  | other (code : Nat)
deriving DecidableEq, Repr

/-- Types of microscopic links. -/
inductive LinkType where
  | LINK_FORWARD
  | LINK_LANE_CHANGE
deriving DecidableEq, Repr

/-- The fields of a macroscopic `NetworkNode` read by the microscopic builder
(`network_node.go`). -/
structure NetworkNode where
  ID : Int
  incomingLinks : List Int
  outcomingLinks : List Int
  zoneID : Int
  boundaryType : BoundaryType
deriving DecidableEq, Repr

/-- The fields of a macroscopic `NetworkLink` used by `mesoscopic.go` and
`microscopic.go`; its declaration is not among the sources. -/
structure NetworkLink where
  ID : Int
  sourceNodeID : Int
  targetNodeID : Int
  allowedAgentTypes : List AgentType
  lengthMeters : ℚ
  breakpoints : List ℚ
  lanesList : List Int
  lanesChange : List (List Int)
  mesolinks : List Int
deriving DecidableEq, Repr

/-- The fields of a mesoscopic link used by `microscopic.go`; its declaration
is not among the sources. -/
structure NetworkLinkMesoscopic where
  ID : Int
  sourceNodeID : Int
  targetNodeID : Int
  lanesNum : Int
  lanesChange : List Int
  geom : LineString
  geomEuclidean : LineString
  lengthMeters : ℚ
  microNodesPerLane : List (List Int)
  microNodesBikeLane : List Int
  microNodesWalkLane : List Int
  movementID : Int
  movementLinkIncome : Int
  movementLinkOutcome : Int
  movementIncomeLaneStart : Int
  movementOutcomeLaneStart : Int
deriving DecidableEq, Repr

/-- The field of a node of the mesoscopic network read by `updateBoundaryType`. -/
structure NetworkNodeMesoscopic where
  ID : Int
  boundaryType : BoundaryType
deriving DecidableEq, Repr

/-- The type `NetworkNodeMicroscopic` as built by `microscopic.go`. -/
structure NetworkNodeMicroscopic where
  ID : Int
  geom : Point
  geomEuclidean : Point
  mesoLinkID : Int
  laneID : Int
  isLinkUpstreamTargetNode : Bool
  isLinkDownstreamTargetNode : Bool
  zoneID : Int
  boundaryType : BoundaryType
  incomingLinks : List Int
  outcomingLinks : List Int
deriving DecidableEq, Repr

/-- The type `NetworkLinkMicroscopic` as built by `microscopic.go`. -/
structure NetworkLinkMicroscopic where
  ID : Int
  sourceNodeID : Int
  targetNodeID : Int
  geom : LineString
  geomEuclidean : LineString
  mesoLinkID : Int
  microLinkType : LinkType
  allowedAgentTypes : List AgentType
  isFirstMovement : Bool
deriving DecidableEq, Repr

/-- The type `NetworkMicroscopic`. -/
structure NetworkMicroscopic where
  nodes : GoMap NetworkNodeMicroscopic
  links : GoMap NetworkLinkMicroscopic
  maxLinkID : Int
  maxNodeID : Int
deriving DecidableEq, Repr

/-- The geometric primitives and the lane width consumed by `microscopic.go`:
functions of the `orb` library and helpers that are not among the sources. -/
structure GeoPrims where
  laneWidth : ℚ
  offsetCurve : LineString → ℚ → LineString
  lineToSpherical : LineString → LineString
  pointToEuclidean : Point → Point
  pointAtDistanceAlongLine : LineString → ℚ → Point
  lengthHaversign : LineString → ℚ

/-! ## Mesoscopic segmentation (`mesoscopic.go`) -/

/-- The constant `resolution`. -/
def resolution : ℚ := 5

/-- One statement `breakpoints = append(breakpoints[:idx], breakpoints[idx+1:]...)`
of the removal loop (line 39); `breakpoints[idx+1:]` panics beyond the length. -/
def removeBreakpoint (breakpoints : List ℚ) (idx : Nat) : Except Failure (List ℚ) :=
  if idx + 1 ≤ breakpoints.length then .ok (breakpoints.take idx ++ breakpoints.drop (idx + 1))
  else .error .panic

/-- The loop `for len(breakpoints) != 0` (lines 29-41).  `order` is the order in
which `range remove` visits the index set; `fuel` bounds the number of
iterations, and running out of it is reported as a panic. -/
def reduceBreakpoints (order : List Nat → List Nat) :
    Nat → List ℚ → List ℚ → Except Failure (List ℚ)
  | 0, breakpoints, linkBreakpoints =>
    if breakpoints.length = 0 then .ok linkBreakpoints else .error .panic
  | fuel + 1, breakpoints, linkBreakpoints =>
    match breakpoints with
    | [] => .ok linkBreakpoints
    | target :: _ =>
      let remove := (List.range breakpoints.length).filter (fun idx =>
        decide (target - resolution ≤ breakpoints.getD idx 0
          ∧ breakpoints.getD idx 0 ≤ target + resolution))
      match (order remove).foldlM removeBreakpoint breakpoints with
      | .error e => .error e
      | .ok rest => reduceBreakpoints order fuel rest (linkBreakpoints ++ [target])

/-- Body of `for _, link := range net.links` (lines 24-50).  `GetLanes` is the
method of that name, which is not among the sources; it is called on the link
with its new breakpoints (line 44).  `make([]int, 0, n)` panics for negative
`n`. -/
def segmentLink (GetLanes : NetworkLink → Int) (order : List Nat → List Nat)
    (link : NetworkLink) : Except Failure NetworkLink :=
  let breakpoints : List ℚ := [0, link.lengthMeters]
  let reduced : Except Failure (List ℚ) :=
    if link.lengthMeters ≤ resolution then .ok (List.replicate breakpoints.length 0)
    else
      match reduceBreakpoints order (breakpoints.length + 1) breakpoints link.breakpoints with
      | .error e => .error e
      | .ok bs => .ok (bs.insertionSort (fun a b => a ≤ b))
  match reduced with
  | .error e => .error e
  | .ok linkBreakpoints =>
    let lanes := GetLanes { link with breakpoints := linkBreakpoints }
    if linkBreakpoints.length = 0 then .error .panic
    else
      .ok { link with
        breakpoints := linkBreakpoints
        lanesList := List.replicate (linkBreakpoints.length - 1) lanes
        lanesChange := link.lanesChange ++ List.replicate (linkBreakpoints.length - 1) [0, 0] }

/-- The method `genMesoscopicNetwork`: every link of the macroscopic network is
segmented in place (the returned mesoscopic network is empty); the result is
the table of links after the call. -/
def genMesoscopicNetwork (GetLanes : NetworkLink → Int) (order : List Nat → List Nat) :
    GoMap NetworkLink → Except Failure (GoMap NetworkLink)
  | [] => .ok []
  | (k, link) :: rest =>
    match segmentLink GetLanes order link with
    | .error e => .error e
    | .ok link' =>
      match genMesoscopicNetwork GetLanes order rest with
      | .error e => .error e
      | .ok rest' => .ok ((k, link') :: rest')

/-! ## Microscopic cell graph (`microscopic.go`) -/

/-- The constant `bikeLaneWidth`. -/
def bikeLaneWidth : ℚ := 1 / 2

/-- The constant `walkLaneWidth`. -/
def walkLaneWidth : ℚ := 1 / 2

/-- The constant `cellLength`. -/
def cellLength : ℚ := 9 / 2

/-- The expression `math.Max(1.0, math.Round(length/cellLength))` (lines 133, 609). -/
def cellsNumOf (length : ℚ) : Int := max 1 (goRound (length / cellLength))

/-- The function `prepareBikeWalkAgents` (lines 706-730). -/
def prepareBikeWalkAgents (agentTypes : List AgentType) : List AgentType × Bool × Bool :=
  if agentTypes.length = 0 then (agentTypes, false, false)
  else
    let auto := agentTypes.contains AgentType.AGENT_AUTO
    let bike := agentTypes.contains AgentType.AGENT_BIKE
    let walk := agentTypes.contains AgentType.AGENT_WALK
    if auto && bike then ([AgentType.AGENT_AUTO], true, false)
    else if auto && walk then ([AgentType.AGENT_AUTO], false, true)
    else if bike && walk then ([AgentType.AGENT_BIKE], false, true)
    else ([AgentType.AGENT_AUTO], true, true)

/-- The variables that `genMicroscopicNetwork` and `connectLinks` update: the
two tables of the microscopic network, the two counters, and the table
`mesoNet.links`, whose links are updated through pointers. -/
structure MicroBuild where
  nodes : GoMap NetworkNodeMicroscopic
  links : GoMap NetworkLinkMicroscopic
  lastNodeID : Int
  lastLinkID : Int
  mesoLinks : GoMap NetworkLinkMesoscopic
deriving DecidableEq, Repr

/-- The geometry of lane `i` (lines 70-82). -/
def laneGeometry (P : GeoPrims) (mesoLink : NetworkLinkMesoscopic) (lanesNumberInBetween : ℚ)
    (i : Nat) : LineString :=
  let laneOffset := (lanesNumberInBetween + (i : ℚ)) * P.laneWidth
  if laneOffset < -(1 / 100) ∨ laneOffset > 1 / 100 then
    P.lineToSpherical (P.offsetCurve mesoLink.geomEuclidean (-laneOffset))
  else mesoLink.geom

/-- The geometry of the bike or walk lane (lines 84-130): the three branches
compute each lane that is requested by the same formula, from the variable
`laneOffset` declared in line 67. -/
def sideGeometry (P : GeoPrims) (mesoLink : NetworkLinkMesoscopic) (laneOffset width : ℚ) :
    LineString :=
  let sideLaneOffset := laneOffset + width
  if sideLaneOffset < -(1 / 100) ∨ sideLaneOffset > 1 / 100 then
    P.lineToSpherical (P.offsetCurve mesoLink.geomEuclidean (-sideLaneOffset))
  else mesoLink.geom

/-- The points of a lane with their Euclidean images (lines 149-155). -/
def samplePoints (P : GeoPrims) (mesoLink : NetworkLinkMesoscopic) (cellsNum : Int)
    (laneGeom : LineString) : List (Point × Point) :=
  (List.range (cellsNum + 1).toNat).map (fun (i : Nat) =>
    let fraction := (i : ℚ) / (cellsNum : ℚ)
    let distance := mesoLink.lengthMeters * fraction
    let point := P.pointAtDistanceAlongLine laneGeom distance
    (point, P.pointToEuclidean point))

/-- The node literal of lines 182-192 (and 201-211, 219-229, 626-636). -/
def newMicroNode (id : Int) (pt : Point × Point) (mesoLinkID laneID : Int) :
    NetworkNodeMicroscopic :=
  { ID := id, geom := pt.1, geomEuclidean := pt.2, mesoLinkID := mesoLinkID, laneID := laneID,
    isLinkUpstreamTargetNode := false, isLinkDownstreamTargetNode := false, zoneID := -1,
    boundaryType := BoundaryType.BOUNDARY_NONE, incomingLinks := [], outcomingLinks := [] }

/-- One iteration of the loops that create the nodes of a lane (lines 181-196,
200-215, 218-233): the node gets the ID `lastNodeID`, which is appended to the
list of the lane. -/
def addLaneNode (mesoLinkID laneID : Int)
    (acc : GoMap NetworkNodeMicroscopic × Int × List Int) (pt : Point × Point) :
    GoMap NetworkNodeMicroscopic × Int × List Int :=
  (mapSet acc.1 acc.2.1 (newMicroNode acc.2.1 pt mesoLinkID laneID), acc.2.1 + 1,
    acc.2.2 ++ [acc.2.1])

/-- Body of `for i := 0; i < mesoLink.lanesNum; i++` (lines 179-198). -/
def addCarLane (microNodesGeometries : List (List (Point × Point)))
    (acc : GoMap NetworkNodeMicroscopic × Int × NetworkLinkMesoscopic) (i : Nat) :
    GoMap NetworkNodeMicroscopic × Int × NetworkLinkMesoscopic :=
  let r := (microNodesGeometries.getD i []).foldl (addLaneNode acc.2.2.ID ((i : Int) + 1))
    (acc.1, acc.2.1, [])
  (r.1, r.2.1, { acc.2.2 with microNodesPerLane := acc.2.2.microNodesPerLane ++ [r.2.2] })

/-- Lines 59-234: the geometries, the points and the nodes of the lanes of one
mesoscopic link; the result is the node table, the node counter and the
mesoscopic link with the node IDs of its lanes appended. -/
def buildMesoNodes (P : GeoPrims) (bike walk : Bool) (originalLanesNum : ℚ) (lanesChange0 : Int)
    (mesoLink : NetworkLinkMesoscopic) (nodes : GoMap NetworkNodeMicroscopic) (lastNodeID : Int) :
    GoMap NetworkNodeMicroscopic × Int × NetworkLinkMesoscopic :=
  let laneChangesLeft : ℚ := (lanesChange0 : ℚ)
  let lanesNumberInBetween := -1 * (originalLanesNum / 2 - 1 / 2 + laneChangesLeft)
  let laneGeometries := (List.range mesoLink.lanesNum.toNat).map
    (laneGeometry P mesoLink lanesNumberInBetween)
  let laneOffset : ℚ := 0
  let bikeGeometry := if bike then sideGeometry P mesoLink laneOffset bikeLaneWidth else []
  let walkGeometry := if walk then sideGeometry P mesoLink laneOffset walkLaneWidth else []
  let cellsNum := cellsNumOf mesoLink.lengthMeters
  let microNodesGeometries := laneGeometries.map (samplePoints P mesoLink cellsNum)
  let bikeMicroNodesGeometries :=
    if bike then samplePoints P mesoLink cellsNum bikeGeometry else []
  let walkMicroNodesGeometries :=
    if walk then samplePoints P mesoLink cellsNum walkGeometry else []
  let r1 := (List.range mesoLink.lanesNum.toNat).foldl (addCarLane microNodesGeometries)
    (nodes, lastNodeID, mesoLink)
  let r2 := bikeMicroNodesGeometries.foldl (addLaneNode mesoLink.ID (-1))
    (r1.1, r1.2.1, r1.2.2.microNodesBikeLane)
  let r3 := walkMicroNodesGeometries.foldl (addLaneNode mesoLink.ID (-2))
    (r2.1, r2.2.1, r1.2.2.microNodesWalkLane)
  (r3.1, r3.2.1, { r1.2.2 with microNodesBikeLane := r2.2.2, microNodesWalkLane := r3.2.2 })

/-- Body of the first `for _, mesoLinkID := range macroLink.mesolinks`
(lines 53-235): the nodes of every lane of a mesoscopic link. -/
def createMesoNodes (P : GeoPrims) (bike walk : Bool) (originalLanesNum : ℚ)
    (st : MicroBuild) (mesoLinkID : Int) : Except Failure MicroBuild :=
  match mapGet? st.mesoLinks mesoLinkID with
  | none => .error .error
  | some mesoLink =>
    match mesoLink.lanesChange.head? with
    | none => .error .panic
    | some lanesChange0 =>
      let r := buildMesoNodes P bike walk originalLanesNum lanesChange0 mesoLink st.nodes
        st.lastNodeID
      .ok { st with
        nodes := r.1
        lastNodeID := r.2.1
        mesoLinks := mapSet st.mesoLinks mesoLinkID r.2.2 }

/-- Lines 257-263 (and 268-274, 279-285): the node becomes an upstream target
node and takes the zone of the macroscopic source node. -/
def markUpstream (zoneID : Int) (st : MicroBuild) (firstNodeID : Int) :
    Except Failure MicroBuild :=
  match mapGet? st.nodes firstNodeID with
  | none => .error .error
  | some firstNode =>
    .ok { st with
      nodes := mapSet st.nodes firstNodeID
        { firstNode with isLinkUpstreamTargetNode := true, zoneID := zoneID } }

/-- Lines 301-306 (and 311-316, 321-326): the node becomes a downstream target
node and takes the zone of the macroscopic target node. -/
def markDownstream (zoneID : Int) (st : MicroBuild) (lastNodeID : Int) :
    Except Failure MicroBuild :=
  match mapGet? st.nodes lastNodeID with
  | none => .error .error
  | some lastNode =>
    .ok { st with
      nodes := mapSet st.nodes lastNodeID
        { lastNode with isLinkDownstreamTargetNode := true, zoneID := zoneID } }

/-- The first node of a lane, `microNodeLane[0]`, marked upstream. -/
def markLaneFirst (zoneID : Int) (st : MicroBuild) (microNodeLane : List Int) :
    Except Failure MicroBuild :=
  match microNodeLane.head? with
  | none => .error .panic
  | some firstNodeID => markUpstream zoneID st firstNodeID

/-- The last node of a lane, `microNodeLane[len(microNodeLane)-1]`, marked
downstream. -/
def markLaneLast (zoneID : Int) (st : MicroBuild) (microNodeLane : List Int) :
    Except Failure MicroBuild :=
  match microNodeLane.getLast? with
  | none => .error .panic
  | some lastNodeID => markDownstream zoneID st lastNodeID

/-- Lines 242-327: the upstream and downstream marks of a macroscopic link with
at least one mesoscopic link. -/
def markTargets (macroNodes : GoMap NetworkNode) (macroLink : NetworkLink) (bike walk : Bool)
    (st : MicroBuild) : Except Failure MicroBuild :=
  match macroLink.mesolinks.head? with
  | none => .error .panic
  | some firstMesoLinkID =>
  match mapGet? st.mesoLinks firstMesoLinkID with
  | none => .error .error
  | some firstMesoLink =>
  match mapGet? macroNodes macroLink.sourceNodeID with
  | none => .error .error
  | some macroSourceNode =>
    do
      let st1 ← firstMesoLink.microNodesPerLane.foldlM (markLaneFirst macroSourceNode.zoneID) st
      let st2 ← (if bike then
        markLaneFirst macroSourceNode.zoneID st1 firstMesoLink.microNodesBikeLane else .ok st1)
      let st3 ← (if walk then
        markLaneFirst macroSourceNode.zoneID st2 firstMesoLink.microNodesWalkLane else .ok st2)
      match macroLink.mesolinks.getLast? with
      | none => .error .panic
      | some lastMesoLinkID =>
      match mapGet? st3.mesoLinks lastMesoLinkID with
      | none => .error .error
      | some lastMesoLink =>
      match mapGet? macroNodes macroLink.targetNodeID with
      | none => .error .error
      | some macroTargetNode =>
        do
          let st4 ← lastMesoLink.microNodesPerLane.foldlM
            (markLaneLast macroTargetNode.zoneID) st3
          let st5 ← (if bike then
            markLaneLast macroTargetNode.zoneID st4 lastMesoLink.microNodesBikeLane else .ok st4)
          (if walk then
            markLaneLast macroTargetNode.zoneID st5 lastMesoLink.microNodesWalkLane else .ok st5)

/-- Body of `for j := 0; j < numberOfConnections; j++` (lines 351-358): the
last slot of the upstream lane takes the first node of the downstream lane, and
the former last node is deleted. -/
def stitchLane (upstreamMesolinkID downstreamMesolinkID upstreamLaneStart
    downstreamLaneStart : Int) (st : MicroBuild) (j : Nat) : Except Failure MicroBuild :=
  match mapGet? st.mesoLinks upstreamMesolinkID, mapGet? st.mesoLinks downstreamMesolinkID with
  | some upstreamMesolink, some downstreamMesolink =>
    let upstreamLane := upstreamLaneStart + (j : Int)
    let downstreamLane := downstreamLaneStart + (j : Int)
    do
      let upLane ← sliceAt upstreamMesolink.microNodesPerLane upstreamLane
      let upstreamMicroNodeID ← sliceAt upLane ((upLane.length : Int) - 1)
      let downLane ← sliceAt downstreamMesolink.microNodesPerLane downstreamLane
      let downstreamMicroNodeID ← sliceAt downLane 0
      let upLane' ← sliceSet upLane ((upLane.length : Int) - 1) downstreamMicroNodeID
      let lanes' ← sliceSet upstreamMesolink.microNodesPerLane upstreamLane upLane'
      .ok { st with
        mesoLinks := mapSet st.mesoLinks upstreamMesolinkID
          ({ upstreamMesolink with microNodesPerLane := lanes' })
        nodes := mapDelete st.nodes upstreamMicroNodeID }
  | _, _ => .error .error

/-- Lines 360-363: the bike lanes of two adjacent mesoscopic links are joined. -/
def stitchBike (upstreamMesolinkID downstreamMesolinkID : Int) (st : MicroBuild) :
    Except Failure MicroBuild :=
  match mapGet? st.mesoLinks upstreamMesolinkID, mapGet? st.mesoLinks downstreamMesolinkID with
  | some upstreamMesolink, some downstreamMesolink =>
    do
      let upstreamMicroNodeID ← sliceAt upstreamMesolink.microNodesBikeLane
        ((upstreamMesolink.microNodesBikeLane.length : Int) - 1)
      let downstreamMicroNodeID ← sliceAt downstreamMesolink.microNodesBikeLane 0
      let lane' ← sliceSet upstreamMesolink.microNodesBikeLane
        ((upstreamMesolink.microNodesBikeLane.length : Int) - 1) downstreamMicroNodeID
      .ok { st with
        mesoLinks := mapSet st.mesoLinks upstreamMesolinkID
          ({ upstreamMesolink with microNodesBikeLane := lane' })
        nodes := mapDelete st.nodes upstreamMicroNodeID }
  | _, _ => .error .error

/-- Lines 366-369: the walk lanes of two adjacent mesoscopic links are joined. -/
def stitchWalk (upstreamMesolinkID downstreamMesolinkID : Int) (st : MicroBuild) :
    Except Failure MicroBuild :=
  match mapGet? st.mesoLinks upstreamMesolinkID, mapGet? st.mesoLinks downstreamMesolinkID with
  | some upstreamMesolink, some downstreamMesolink =>
    do
      let upstreamMicroNodeID ← sliceAt upstreamMesolink.microNodesWalkLane
        ((upstreamMesolink.microNodesWalkLane.length : Int) - 1)
      let downstreamMicroNodeID ← sliceAt downstreamMesolink.microNodesWalkLane 0
      let lane' ← sliceSet upstreamMesolink.microNodesWalkLane
        ((upstreamMesolink.microNodesWalkLane.length : Int) - 1) downstreamMicroNodeID
      .ok { st with
        mesoLinks := mapSet st.mesoLinks upstreamMesolinkID
          ({ upstreamMesolink with microNodesWalkLane := lane' })
        nodes := mapDelete st.nodes upstreamMicroNodeID }
  | _, _ => .error .error

/-- The number of lanes joined between two adjacent mesoscopic links and the
lanes at which joining starts (lines 343-350). -/
def stitchRange (upstreamMesolink downstreamMesolink : NetworkLinkMesoscopic) :
    Except Failure (Int × Int × Int) :=
  match upstreamMesolink.lanesChange.head?, downstreamMesolink.lanesChange.head? with
  | some upstreamLeftLaneOriginal, some downstreamLeftLaneOriginal =>
    let minLeftLane := min upstreamLeftLaneOriginal downstreamLeftLaneOriginal
    let upstreamLaneStart := upstreamLeftLaneOriginal - minLeftLane
    let downstreamLaneStart := downstreamLeftLaneOriginal - minLeftLane
    let numberOfConnections := min (upstreamMesolink.lanesNum - upstreamLaneStart)
      (downstreamMesolink.lanesNum - downstreamLaneStart)
    .ok (upstreamLaneStart, downstreamLaneStart, numberOfConnections)
  | _, _ => .error .panic

/-- Body of `for i := 0; i < len(macroLink.mesolinks)-1; i++` (lines 330-371)
for the adjacent pair `(upstreamMesolinkID, downstreamMesolinkID)`. -/
def stitchPair (bike walk : Bool) (st : MicroBuild) (pair : Int × Int) :
    Except Failure MicroBuild :=
  match mapGet? st.mesoLinks pair.1 with
  | none => .error .error
  | some upstreamMesolink =>
  match mapGet? st.mesoLinks pair.2 with
  | none => .error .error
  | some downstreamMesolink =>
    do
      let r ← stitchRange upstreamMesolink downstreamMesolink
      let st1 ← (List.range r.2.2.toNat).foldlM (stitchLane pair.1 pair.2 r.1 r.2.1) st
      let st2 ← (if bike then stitchBike pair.1 pair.2 st1 else .ok st1)
      (if walk then stitchWalk pair.1 pair.2 st2 else .ok st2)

/-- Lines 392-407 (and the like): a microscopic link from `sourceNodeID` to
`targetNodeID` gets the ID `lastLinkID` and is entered into the incidence lists
of its two nodes. -/
def addMicroLink (mesoLinkID : Int) (microLinkType : LinkType)
    (allowedAgentTypes : List AgentType) (isFirstMovement : Bool) (st : MicroBuild)
    (sourceNodeID targetNodeID : Int) : Except Failure MicroBuild :=
  match mapGet? st.nodes sourceNodeID with
  | none => .error .error
  | some sourceNode =>
  match mapGet? st.nodes targetNodeID with
  | none => .error .error
  | some targetNode =>
    let microLink : NetworkLinkMicroscopic :=
      { ID := st.lastLinkID, sourceNodeID := sourceNodeID, targetNodeID := targetNodeID,
        geom := [sourceNode.geom, targetNode.geom],
        geomEuclidean := [sourceNode.geomEuclidean, targetNode.geomEuclidean],
        mesoLinkID := mesoLinkID, microLinkType := microLinkType,
        allowedAgentTypes := allowedAgentTypes, isFirstMovement := isFirstMovement }
    let nodes1 := mapSet st.nodes sourceNodeID
      ({ sourceNode with outcomingLinks := sourceNode.outcomingLinks ++ [microLink.ID] })
    match mapGet? nodes1 targetNodeID with
    | none => .error .error
    | some targetNode1 =>
      .ok { st with
        links := mapSet st.links st.lastLinkID microLink
        lastLinkID := st.lastLinkID + 1
        nodes := mapSet nodes1 targetNodeID
          ({ targetNode1 with incomingLinks := targetNode1.incomingLinks ++ [microLink.ID] }) }

/-- One iteration of a loop `for j := 0; j < len(lane)-1; j++` that links
`lane[j]` to `other[j+1]` (lines 381-408, 411-438, 442-469, 473-499, 502-528). -/
def linkCell (mesoLinkID : Int) (microLinkType : LinkType) (allowedAgentTypes : List AgentType)
    (lane other : List Int) (st : MicroBuild) (j : Nat) : Except Failure MicroBuild :=
  do
    let sourceNodeID ← sliceAt lane (j : Int)
    let targetNodeID ← sliceAt other ((j : Int) + 1)
    addMicroLink mesoLinkID microLinkType allowedAgentTypes false st sourceNodeID targetNodeID

/-- One iteration of a lane-change loop (lines 411-438, 442-469): the target
is taken from the lane `mesoLink.microNodesPerLane[neighbour]`. -/
def linkChange (mesoLinkID : Int) (mesoLink : NetworkLinkMesoscopic)
    (multiModalAgentTypes : List AgentType) (lane : List Int) (neighbour : Int)
    (st : MicroBuild) (j : Nat) : Except Failure MicroBuild :=
  do
    let sourceNodeID ← sliceAt lane (j : Int)
    let other ← sliceAt mesoLink.microNodesPerLane neighbour
    let targetNodeID ← sliceAt other ((j : Int) + 1)
    addMicroLink mesoLinkID LinkType.LINK_LANE_CHANGE multiModalAgentTypes false st sourceNodeID
      targetNodeID

/-- Body of `for i := 0; i < mesoLink.lanesNum; i++` (lines 379-471): the
forward links of lane `i` and its lane changes to the left and to the right. -/
def linkCarLane (mesoLinkID : Int) (mesoLink : NetworkLinkMesoscopic)
    (multiModalAgentTypes : List AgentType) (st : MicroBuild) (i : Nat) :
    Except Failure MicroBuild :=
  do
    let lane ← sliceAt mesoLink.microNodesPerLane (i : Int)
    let st1 ← (List.range (lane.length - 1)).foldlM
      (linkCell mesoLinkID LinkType.LINK_FORWARD multiModalAgentTypes lane lane) st
    let st2 ← (if (i : Int) ≤ mesoLink.lanesNum - 2 then
      (List.range (lane.length - 1)).foldlM
        (linkChange mesoLinkID mesoLink multiModalAgentTypes lane ((i : Int) + 1)) st1
      else .ok st1)
    (if (i : Int) ≥ 1 then
      (List.range (lane.length - 1)).foldlM
        (linkChange mesoLinkID mesoLink multiModalAgentTypes lane ((i : Int) - 1)) st2
      else .ok st2)

/-- Body of the last `for _, mesoLinkID := range macroLink.mesolinks`
(lines 374-530): the microscopic links of a mesoscopic link. -/
def createMesoLinks (multiModalAgentTypes : List AgentType) (bike walk : Bool)
    (st : MicroBuild) (mesoLinkID : Int) : Except Failure MicroBuild :=
  match mapGet? st.mesoLinks mesoLinkID with
  | none => .error .error
  | some mesoLink =>
    do
      let st1 ← (List.range mesoLink.lanesNum.toNat).foldlM
        (linkCarLane mesoLinkID mesoLink multiModalAgentTypes) st
      let st2 ← (if bike then
        (List.range (mesoLink.microNodesBikeLane.length - 1)).foldlM
          (linkCell mesoLinkID LinkType.LINK_FORWARD [AgentType.AGENT_BIKE]
            mesoLink.microNodesBikeLane mesoLink.microNodesBikeLane) st1
        else .ok st1)
      (if walk then
        (List.range (mesoLink.microNodesWalkLane.length - 1)).foldlM
          (linkCell mesoLinkID LinkType.LINK_FORWARD [AgentType.AGENT_WALK]
            mesoLink.microNodesWalkLane mesoLink.microNodesWalkLane) st2
        else .ok st2)

/-- The adjacent pairs `(mesolinks[i], mesolinks[i+1])`. -/
def adjacentPairs (mesolinks : List Int) : List (Int × Int) :=
  mesolinks.zip mesolinks.tail

/-- Body of `for _, macroLink := range macroNet.links` (lines 36-531). -/
def processMacroLink (P : GeoPrims) (macroNodes : GoMap NetworkNode) (separateBikeWalk : Bool)
    (st : MicroBuild) (macroLink : NetworkLink) : Except Failure MicroBuild :=
  let agentTypes := macroLink.allowedAgentTypes
  let prepared := if separateBikeWalk then prepareBikeWalkAgents agentTypes
    else (agentTypes, false, false)
  let multiModalAgentTypes := prepared.1
  let bike := prepared.2.1
  let walk := prepared.2.2
  match macroLink.lanesList.head? with
  | none => .error .panic
  | some lanes0 =>
    let originalLanesNum : ℚ := (lanes0 : ℚ)
    do
      let st1 ← macroLink.mesolinks.foldlM (createMesoNodes P bike walk originalLanesNum) st
      (if macroLink.mesolinks.length = 0 then .ok st1
       else do
        let st2 ← markTargets macroNodes macroLink bike walk st1
        let st3 ← (adjacentPairs macroLink.mesolinks).foldlM (stitchPair bike walk) st2
        macroLink.mesolinks.foldlM (createMesoLinks multiModalAgentTypes bike walk) st3)

/-- Lines 626-639: a new node of a movement lane gets the ID `lastNodeID`. -/
def insertMovementNode (mesoLinkID laneID : Int) (st : MicroBuild) (pt : Point × Point) :
    MicroBuild :=
  { st with
    nodes := mapSet st.nodes st.lastNodeID (newMicroNode st.lastNodeID pt mesoLinkID laneID)
    lastNodeID := st.lastNodeID + 1 }

/-- Line 695: the node IDs of a movement lane are appended to the lanes of the
movement link stored under `key`. -/
def appendLaneChain (key : Int) (mesoLink : NetworkLinkMesoscopic) (laneNodesIDs : List Int)
    (st : MicroBuild) : MicroBuild :=
  { st with
    mesoLinks := mapSet st.mesoLinks key
      { mesoLink with microNodesPerLane := mesoLink.microNodesPerLane ++ [laneNodesIDs] } }

/-- One iteration of `for geomIdx, nodeGeom := range laneNodes` (lines 624-668):
a new node, and the link from the previous node of the lane to it. -/
def connectCell (mesoLinkID laneID : Int)
    (acc : MicroBuild × Int × Bool × List Int) (pt : Point × Point) :
    Except Failure (MicroBuild × Int × Bool × List Int) :=
  let st := acc.1
  let lastMicroNodeID := acc.2.1
  let firstMovement := acc.2.2.1
  let laneNodesIDs := acc.2.2.2
  let microNodeID := st.lastNodeID
  let st1 := insertMovementNode mesoLinkID laneID st pt
  match addMicroLink mesoLinkID LinkType.LINK_FORWARD [] firstMovement st1 lastMicroNodeID
      microNodeID with
  | .error e => .error e
  | .ok st2 => .ok (st2, microNodeID, false, laneNodesIDs ++ [microNodeID])

/-- Body of `for i := 0; i < mesoLink.lanesNum; i++` in `connectLinks`
(lines 589-696) for the movement link stored under `key`. -/
def connectLane (P : GeoPrims) (key : Int) (st : MicroBuild) (i : Nat) :
    Except Failure MicroBuild :=
  match mapGet? st.mesoLinks key with
  | none => .error .error
  | some mesoLink =>
  match mapGet? st.mesoLinks mesoLink.movementLinkIncome,
      mapGet? st.mesoLinks mesoLink.movementLinkOutcome with
  | some incomingMesoLink, some outcomingMesoLink =>
    do
      let incomingMicroNodes ← sliceAt incomingMesoLink.microNodesPerLane
        (mesoLink.movementIncomeLaneStart + (i : Int))
      let outcomingMicroNodes ← sliceAt outcomingMesoLink.microNodesPerLane
        (mesoLink.movementOutcomeLaneStart + (i : Int))
      let startMicroNodeID ← sliceAt incomingMicroNodes ((incomingMicroNodes.length : Int) - 1)
      let endMicroNodeID ← sliceAt outcomingMicroNodes 0
      match mapGet? st.nodes startMicroNodeID, mapGet? st.nodes endMicroNodeID with
      | some startMicroNode, some endMicroNode =>
        let laneGeom : LineString := [startMicroNode.geom, endMicroNode.geom]
        let laneLength := P.lengthHaversign laneGeom
        let cellsNum := cellsNumOf laneLength
        let laneNodes : List (Point × Point) :=
          (List.range (cellsNum.toNat - 1)).map (fun j' =>
            let fraction := (((j' + 1 : Nat) : ℚ)) / (cellsNum : ℚ)
            let distance := mesoLink.lengthMeters * fraction
            let point := P.pointAtDistanceAlongLine laneGeom distance
            (point, P.pointToEuclidean point))
        let r ← laneNodes.foldlM (connectCell mesoLink.ID ((i : Int) + 1))
          (st, startMicroNodeID, true, [])
        let st2 ← addMicroLink mesoLink.ID LinkType.LINK_FORWARD [] r.2.2.1 r.1 r.2.1
          endMicroNodeID
        match mapGet? st2.mesoLinks key with
        | none => .error .error
        | some mesoLink2 => .ok (appendLaneChain key mesoLink2 r.2.2.2 st2)
      | _, _ => .error .error
  | _, _ => .error .error

/-- Body of `for _, mesoLink := range mesoNet.links` in `connectLinks`
(lines 572-698) for the link stored under `key`. -/
def connectMovement (P : GeoPrims) (st : MicroBuild) (key : Int) : Except Failure MicroBuild :=
  match mapGet? st.mesoLinks key with
  | none => .error .error
  | some mesoLink =>
    if mesoLink.movementID > -1 then
      if mesoLink.movementLinkIncome < 0 ∨ mesoLink.movementLinkOutcome < 0 then .error .error
      else if mesoLink.movementIncomeLaneStart < 0 ∨ mesoLink.movementOutcomeLaneStart < 0 then
        .error .error
      else
        match mapGet? st.mesoLinks mesoLink.movementLinkIncome with
        | none => .error .error
        | some _ =>
        match mapGet? st.mesoLinks mesoLink.movementLinkOutcome with
        | none => .error .error
        | some _ => (List.range mesoLink.lanesNum.toNat).foldlM (connectLane P key) st
    else .ok st

/-- The method `connectLinks` (lines 567-703); the counters `lastNodeID` and
`lastLinkID` of the state stand for `maxNodeID` and `maxLinkID`. -/
def connectLinks (P : GeoPrims) (st : MicroBuild) : Except Failure MicroBuild :=
  (st.mesoLinks.map (fun kv => kv.1)).foldlM (connectMovement P) st

/-- Body of `for _, microNode := range microNet.nodes` in `updateBoundaryType`
(lines 737-764) for the node stored under `key`. -/
def updateNodeBoundary (mesoLinks : GoMap NetworkLinkMesoscopic)
    (mesoNodes : GoMap NetworkNodeMesoscopic) (nodes : GoMap NetworkNodeMicroscopic)
    (key : Int) : Except Failure (GoMap NetworkNodeMicroscopic) :=
  match mapGet? nodes key with
  | none => .error .error
  | some microNode =>
    if microNode.mesoLinkID = -1 then
      .ok (mapSet nodes key { microNode with boundaryType := BoundaryType.BOUNDARY_NONE })
    else
      match mapGet? mesoLinks microNode.mesoLinkID with
      | none => .error .error
      | some mesoLink =>
        match mapGet? mesoNodes mesoLink.sourceNodeID with
        | none => .error .error
        | some mesoLinkSourceNode =>
          if microNode.isLinkUpstreamTargetNode then
            .ok (mapSet nodes key { microNode with boundaryType := mesoLinkSourceNode.boundaryType })
          else if microNode.isLinkDownstreamTargetNode then
            match mapGet? mesoNodes mesoLink.targetNodeID with
            | none => .error .error
            | some mesoLinkTargetNode =>
              .ok (mapSet nodes key
                { microNode with boundaryType := mesoLinkTargetNode.boundaryType })
          else
            .ok (mapSet nodes key { microNode with boundaryType := BoundaryType.BOUNDARY_NONE })

/-- The method `updateBoundaryType` (lines 736-766). -/
def updateBoundaryType (mesoLinks : GoMap NetworkLinkMesoscopic)
    (mesoNodes : GoMap NetworkNodeMesoscopic) (nodes : GoMap NetworkNodeMicroscopic) :
    Except Failure (GoMap NetworkNodeMicroscopic) :=
  (nodes.map (fun kv => kv.1)).foldlM (updateNodeBoundary mesoLinks mesoNodes) nodes

/-- The state of the build when `genMicroscopicNetwork` calls `connectLinks`
(lines 24-534). -/
def buildCells (P : GeoPrims) (macroLinks : GoMap NetworkLink) (macroNodes : GoMap NetworkNode)
    (mesoLinks : GoMap NetworkLinkMesoscopic) (separateBikeWalk : Bool) :
    Except Failure MicroBuild :=
  (macroLinks.map (fun kv => kv.2)).foldlM (processMacroLink P macroNodes separateBikeWalk)
    { nodes := [], links := [], lastNodeID := 0, lastLinkID := 0, mesoLinks := mesoLinks }

/-- The function `genMicroscopicNetwork` (lines 19-561).  It returns the
microscopic network together with the table `mesoNet.links`, which it updates
through pointers. -/
def genMicroscopicNetwork (P : GeoPrims) (macroLinks : GoMap NetworkLink)
    (macroNodes : GoMap NetworkNode) (mesoLinks : GoMap NetworkLinkMesoscopic)
    (mesoNodes : GoMap NetworkNodeMesoscopic) (separateBikeWalk : Bool) :
    Except Failure (NetworkMicroscopic × GoMap NetworkLinkMesoscopic) :=
  do
    let st ← buildCells P macroLinks macroNodes mesoLinks separateBikeWalk
    let st' ← connectLinks P st
    let nodes ← updateBoundaryType st'.mesoLinks mesoNodes st'.nodes
    .ok ({ nodes := nodes, links := st'.links, maxLinkID := st'.lastLinkID,
           maxNodeID := st'.lastNodeID }, st'.mesoLinks)

/-! ## Movements at a node (`network_node.go`) -/

/-- The fields of the `Movement` literal of lines 102-114 that are computed
from the data modelled here.  The type, the composite type and the geometry of
a movement (lines 115-116) come from helpers that are not among the sources. -/
structure Movement where
  ID : Int
  NodeID : Int
  IncomingLinkID : Int
  OutcomingLinkID : Int
  incomeLaneStart : Int
  incomeLaneEnd : Int
  outcomeLaneStart : Int
  outcomeLaneEnd : Int
  lanesNum : Int
  allowedAgentTypes : List AgentType
deriving DecidableEq, Repr

/-- How a loop of `genMovement` ends before its last iteration: by
`return false`, with the counter `*movementID` and the movements built so far,
or by a run-time panic. -/
inductive MovementStop where
  | returnFalse (movementID : Int) (built : List Movement)
  | panic
deriving DecidableEq, Repr

/-- Body of `for _, incomingLinkID := range node.incomingLinks` in the branch
`outcome == 1` (lines 63-71); `none` stands for `return false`. -/
def collectIncoming (links : GoMap NetworkLink) (outcomingLink : NetworkLink)
    (incomingLinksList : List Int) (incomingLinkID : Int) : Option (List Int) :=
  match mapGet? links incomingLinkID with
  | some incomingLink =>
    if incomingLink.sourceNodeID ≠ outcomingLink.targetNodeID then
      some (incomingLinksList ++ [incomingLinkID])
    else some incomingLinksList
  | none => none

/-- Body of `for _, outcomingLinkID := range node.outcomingLinks` (lines
81-89); `none` stands for `return false`. -/
def collectOutcoming (links : GoMap NetworkLink) (incomingLink : NetworkLink)
    (outcomingLinksList : List NetworkLink) (outcomingLinkID : Int) :
    Option (List NetworkLink) :=
  match mapGet? links outcomingLinkID with
  | some outcomingLink =>
    if incomingLink.sourceNodeID ≠ outcomingLink.targetNodeID then
      some (outcomingLinksList ++ [outcomingLink])
    else some outcomingLinksList
  | none => none

/-- Body of `for i, outcomingLink := range outcomingLinksList` (lines 94-118):
the movement gets the ID `*movementID`, which is then increased.  The state is
the counter and the list of the movements built; the function itself drops
them. -/
def buildMovement (nodeID incomingLinkID : Int) (incomingLink : NetworkLink)
    (connections : List (List (Int × Int))) (acc : Int × List Movement)
    (entry : Nat × NetworkLink) : Except Failure (Int × List Movement) :=
  do
    let connection ← sliceAt connections (entry.1 : Int)
    let income ← sliceAt connection 0
    let outcome ← sliceAt connection 1
    let incomeLaneStart := income.1 + 1
    let incomeLaneEnd := income.2 + 1
    let outcomeLaneStart := outcome.1 + 1
    let outcomeLaneEnd := outcome.2 + 1
    let lanesNum := incomeLaneEnd - incomeLaneStart + 1
    let mvmt : Movement :=
      { ID := acc.1, NodeID := nodeID, IncomingLinkID := incomingLinkID,
        OutcomingLinkID := entry.2.ID, incomeLaneStart := incomeLaneStart,
        incomeLaneEnd := incomeLaneEnd, outcomeLaneStart := outcomeLaneStart,
        outcomeLaneEnd := outcomeLaneEnd, lanesNum := lanesNum,
        allowedAgentTypes := incomingLink.allowedAgentTypes }
    .ok (acc.1 + 1, acc.2 ++ [mvmt])

/-- Body of `for _, incomingLinkID := range node.incomingLinks` in the branch
of several outgoing links (lines 78-122).  The helper
`getIntersectionsConnections` is not among the sources and is a parameter; an
entry of its result is the pair `first`, `second`. -/
def pairIncoming (getIntersectionsConnections : NetworkLink → List NetworkLink →
      List (List (Int × Int)))
    (node : NetworkNode) (links : GoMap NetworkLink) (acc : Int × List Movement)
    (incomingLinkID : Int) : Except MovementStop (Int × List Movement) :=
  match mapGet? links incomingLinkID with
  | none => .error (.returnFalse acc.1 acc.2)
  | some incomingLink =>
    match node.outcomingLinks.foldlM (collectOutcoming links incomingLink) [] with
    | none => .error (.returnFalse acc.1 acc.2)
    | some outcomingLinksList =>
      if outcomingLinksList.length = 0 then .error (.returnFalse acc.1 acc.2)
      else
        let connections := getIntersectionsConnections incomingLink outcomingLinksList
        match outcomingLinksList.enum.foldlM
          (buildMovement node.ID incomingLinkID incomingLink connections) acc with
        | .ok acc' => .ok acc'
        | .error _ => .error .panic

/-- The method `genMovement` (lines 50-125).  The pointer `movementID` is
`none` when nil; the result is the returned flag, the counter `*movementID`
after the call and the movements built, in the order in which they are built. -/
def genMovement (getIntersectionsConnections : NetworkLink → List NetworkLink →
      List (List (Int × Int)))
    (node : NetworkNode) (movementID : Option Int) (links : GoMap NetworkLink) :
    Except Failure (Bool × Option Int × List Movement) :=
  match movementID with
  | none => .ok (false, none, [])
  | some id =>
    let income := node.incomingLinks.length
    let outcome := node.outcomingLinks.length
    if income = 0 ∨ outcome = 0 then .ok (false, some id, [])
    else if outcome = 1 then
      match sliceAt node.outcomingLinks 0 with
      | .error e => .error e
      | .ok outcomingLinkID =>
        let collected : Option (List Int) :=
          match mapGet? links outcomingLinkID with
          | some outcomingLink =>
            node.incomingLinks.foldlM (collectIncoming links outcomingLink) []
          | none => some []
        match collected with
        | none => .ok (false, some id, [])
        | some incomingLinksList =>
          if incomingLinksList.length = 0 then .ok (false, some id, [])
          else .ok (true, some id, [])
    else
      match node.incomingLinks.foldlM (pairIncoming getIntersectionsConnections node links)
        (id, []) with
      | .ok r => .ok (true, some r.1, r.2)
      | .error (.returnFalse c built) => .ok (false, some c, built)
      | .error .panic => .error .panic

/-! ## The stages of `osm_loader.go` around the scans -/

/-- Body of `for i, wayNode := range way.Nodes` of the use-count stage
(`ImportFromOSMFile`, lines 209-221; `readOSM`, lines 726-738): the first and the
last node of a way count twice.  `none` stands for the `return nil, fmt.Errorf`
of a node that is not in the table. -/
def countStep (len : Nat) (nodes : GoMap Node) (iw : Nat × Int) : Option (GoMap Node) :=
  match mapGet? nodes iw.2 with
  | some node =>
    if iw.1 = 0 ∨ (iw.1 : Int) = (len : Int) - 1 then
      some (mapSet nodes iw.2 { node with useCount := node.useCount + 2 })
    else
      some (mapSet nodes iw.2 { node with useCount := node.useCount + 1 })
  | none => none

/-- Body of `for _, way := range ways` of the use-count stage; `wayNodes` are the
node IDs of the way. -/
def countWay (nodes : GoMap Node) (wayNodes : List Int) : Option (GoMap Node) :=
  wayNodes.enum.foldlM (countStep wayNodes.length) nodes

/-- The use-count stage (`ImportFromOSMFile`, lines 208-222; `readOSM`, lines
725-739) on the node lists of the accepted ways. -/
def countUseCases (nodes : GoMap Node) (ways : List (List Int)) : Option (GoMap Node) :=
  ways.foldlM countWay nodes

/-- `ImportFromOSMFile` from the end of the three scans on (lines 206-428):
use counts, edge slicing, edge expansion, restrictions.  The result is
`.error .error` for `return nil, fmt.Errorf(...)` and `.error .panic` for a
run-time panic.  The two loops over `restrictions` may visit the table in
different orders, `restrictionsNo` and `restrictionsOnly`. -/
def importFromScans (getSphericalLength : List GeoPoint → ℚ)
    (findOutComingEdges : Edge → List Edge → List Int)
    (findMiddlePoint : List GeoPoint → Int × GeoPoint)
    (ways : List Way) (nodes : GoMap Node) (restrictionsNo restrictionsOnly : RestrictionTable) :
    Except Failure (List ExpandedEdge) :=
  match countUseCases nodes (ways.map (fun way => way.Nodes)) with
  | none => .error .error
  | some counted =>
    let edges := prepareEdges getSphericalLength (mapGet? counted) ways
    match expandEdges findOutComingEdges findMiddlePoint edges with
    | none => .error .panic
    | some expandedEdges =>
      .ok (applyRestrictions restrictionsNo restrictionsOnly (ways.map (fun way => way.ID))
        expandedEdges)

/-! ## Way preparation of `readOSM` (`osm_loader.go`, lines 479-536; `way.go`) -/

/-- The fields of an `osm.Way` of the OSM library that `readOSM` reads. -/
structure OsmWay where
  ID : Int
  Nodes : List Int
  Tags : List (String × String)
deriving DecidableEq, Repr

/-- The method `Find` of `osm.Tags` (OSM library): the value of the first tag
with the key, the empty string when no tag has the key. -/
def Find (tags : List (String × String)) (key : String) : String :=
  match tags.find? (fun t => t.1 == key) with
  | some t => t.2
  | none => ""

/-- The type `WayWithNodes` of `way.go`. -/
structure WayWithNodes where
  ID : Int
  Oneway : Bool
  OnewayDefault : Bool
  IsReversed : Bool
  Nodes : List Int
  TagMap : List (String × String)
  name : String
  highway : String
  railway : String
  aeroway : String
  junction : String
  area : String
  motorVehicle : String
  motorcar : String
  service : String
  foot : String
  bicycle : String
  building : String
  amenity : String
  leisure : String
  turnLanes : String
  turnLanesForward : String
  turnLanesBackward : String
  maxSpeed : ℚ
  lanes : Int
  lanesForward : Int
  lanesBackward : Int
deriving DecidableEq, Repr

/-- The direction flags `oneway`, `onewayDefault`, `isReversed` of a way
(`readOSM`, lines 481-514).  The key sets `onewayReversible` and
`junctionTypes` are not among the sources and are parameters; a value that is
not handled only prints a warning. -/
def classifyOneway (onewayReversible junctionTypes : List String)
    (tags : List (String × String)) : Bool × Bool × Bool :=
  let onewayText := Find tags "oneway"
  if onewayText ≠ "" then
    if onewayText = "yes" ∨ onewayText = "1" then (true, false, false)
    else if onewayText = "no" ∨ onewayText = "0" then (false, false, false)
    else if onewayText = "-1" then (true, false, true)
    else if onewayReversible.contains onewayText then (false, false, false)
    else (false, false, false)
  else
    let junctionText := Find tags "junction"
    if junctionTypes.contains junctionText then (true, false, false)
    else (false, true, false)

/-- The longest match of `\d+\.?\d*` that starts at the head of the text, with
the text after it; `none` when the text does not start with a digit. -/
def matchNumber (cs : List Char) : Option (List Char × List Char) :=
  let digits := cs.takeWhile Char.isDigit
  if digits = [] then none
  else
    match cs.dropWhile Char.isDigit with
    | '.' :: rest => some (digits ++ '.' :: rest.takeWhile Char.isDigit, rest.dropWhile Char.isDigit)
    | rest => some (digits, rest)

/-- The leftmost match of `\d+\.?\d*` in the text, empty when there is none. -/
def findNumber : List Char → List Char
  | [] => []
  | c :: cs =>
    match matchNumber (c :: cs) with
    | some m => m.1
    | none => findNumber cs

/-- The leftmost match of `\d+\.?\d*` followed by the text `unit`, empty when
there is none.  After the longest number the unit has to follow: a shorter
number is followed by a digit or a dot, with which no unit starts. -/
def findWithUnit (unit : List Char) : List Char → List Char
  | [] => []
  | c :: cs =>
    match matchNumber (c :: cs) with
    | some m => if m.2.take unit.length = unit then m.1 ++ unit else findWithUnit unit cs
    | none => findWithUnit unit cs

/-- The call `lanesRegExp.FindString` for the pattern of `way.go`, line 53. -/
def lanesRegExpFindString (s : String) : String := String.mk (findNumber s.toList)

/-- The call `kmhRegExp.FindString` for the pattern of `way.go`, line 52. -/
def kmhRegExpFindString (s : String) : String :=
  String.mk (findWithUnit " km/h".toList s.toList)

/-- The call `mphRegExp.FindString` for the pattern of `way.go`, line 51. -/
def mphRegExpFindString (s : String) : String :=
  String.mk (findWithUnit " mph".toList s.toList)

/-- Go's `strconv.Atoi` with 64-bit `int`: an optional sign and decimal digits
only; `none` stands for a returned error (syntax or range). -/
def Atoi (s : String) : Option Int :=
  let signed : Bool × List Char :=
    match s.toList with
    | '+' :: t => (false, t)
    | '-' :: t => (true, t)
    | t => (false, t)
  if signed.2 = [] then none
  else if signed.2.all Char.isDigit then
    let n : Nat := signed.2.foldl (fun a c => 10 * a + (c.toNat - 48)) 0
    let v : Int := if signed.1 then -(n : Int) else (n : Int)
    if -(2 : Int) ^ 63 ≤ v ∧ v ≤ (2 : Int) ^ 63 - 1 then some v else none
  else none

/-- Lines 57-64 of `flattenTags`: the first seven string fields. -/
def flattenNames (way : WayWithNodes) : WayWithNodes :=
  { way with
    name := Find way.TagMap "name"
    highway := Find way.TagMap "highway"
    railway := Find way.TagMap "railway"
    aeroway := Find way.TagMap "aeroway"
    turnLanes := Find way.TagMap "turn:lanes"
    turnLanesForward := Find way.TagMap "turn:lanes:forward"
    turnLanesBackward := Find way.TagMap "turn:lanes:backward" }

/-- Lines 68-80 of `flattenTags`: the tag `lanes`.  The text handed to
`strconv.Atoi` is the tag value `lanes`. -/
def flattenLanes (way : WayWithNodes) : WayWithNodes :=
  let lanes := Find way.TagMap "lanes"
  if lanes ≠ "" then
    let lanesNum := lanesRegExpFindString lanes
    if lanesNum ≠ "" then
      match Atoi lanes with
      | some v => { way with lanes := v }
      | none => { way with lanes := -1 }
    else way
  else way

/-- Lines 82-91 of `flattenTags`: the tag `lanes:forward`. -/
def flattenLanesForward (way : WayWithNodes) : WayWithNodes :=
  let lanesForward := Find way.TagMap "lanes:forward"
  if lanesForward ≠ "" then
    match Atoi lanesForward with
    | some v => { way with lanesForward := v }
    | none => { way with lanesForward := -1 }
  else way

/-- Lines 93-102 of `flattenTags`: the tag `lanes:backward`. -/
def flattenLanesBackward (way : WayWithNodes) : WayWithNodes :=
  let lanesBackward := Find way.TagMap "lanes:backward"
  if lanesBackward ≠ "" then
    match Atoi lanesBackward with
    | some v => { way with lanesBackward := v }
    | none => { way with lanesBackward := -1 }
  else way

/-- Lines 104-129 of `flattenTags`: the tag `maxspeed`.  `strconv.ParseFloat`
with its error is the parameter `ParseFloat`; the text handed to it is the
match of the pattern. -/
def flattenMaxSpeed (ParseFloat : String → Option ℚ) (way : WayWithNodes) : WayWithNodes :=
  let maxSpeed := Find way.TagMap "maxspeed"
  if maxSpeed ≠ "" then
    let kmhMaxSpeed := kmhRegExpFindString maxSpeed
    let maxSpeedValue : ℚ :=
      if kmhMaxSpeed ≠ "" then
        match ParseFloat kmhMaxSpeed with
        | some v => v
        | none => -1
      else
        let mphMaxSpeed := mphRegExpFindString maxSpeed
        if mphMaxSpeed ≠ "" then
          match ParseFloat mphMaxSpeed with
          | some v => v
          | none => -1
        else -1
    { way with maxSpeed := maxSpeedValue }
  else way

/-- Lines 131-141 of `flattenTags`: the other string fields. -/
def flattenRest (way : WayWithNodes) : WayWithNodes :=
  { way with
    junction := Find way.TagMap "junction"
    area := Find way.TagMap "area"
    motorVehicle := Find way.TagMap "motor_vehicle"
    motorcar := Find way.TagMap "motorcar"
    service := Find way.TagMap "service"
    foot := Find way.TagMap "foot"
    bicycle := Find way.TagMap "bicycle"
    building := Find way.TagMap "building"
    amenity := Find way.TagMap "amenity"
    leisure := Find way.TagMap "leisure" }

/-- The method `flattenTags` (`way.go`, lines 56-142), its blocks one after
the other. -/
def flattenTags (ParseFloat : String → Option ℚ) (way : WayWithNodes) : WayWithNodes :=
  flattenRest (flattenMaxSpeed ParseFloat (flattenLanesBackward (flattenLanesForward
    (flattenLanes (flattenNames way)))))

/-- The way that the ways scan of `readOSM` appends for an `osm.Way` (lines
479-536): the direction flags, the literal of lines 515-527 with the node IDs
and the tags copied into it, `flattenTags` called on it. -/
def prepareWay (onewayReversible junctionTypes : List String) (ParseFloat : String → Option ℚ)
    (way : OsmWay) : WayWithNodes :=
  let flags := classifyOneway onewayReversible junctionTypes way.Tags
  flattenTags ParseFloat
    { ID := way.ID, Oneway := flags.1, OnewayDefault := flags.2.1, IsReversed := flags.2.2,
      Nodes := way.Nodes, TagMap := way.Tags,
      name := "", highway := "", railway := "", aeroway := "", junction := "", area := "",
      motorVehicle := "", motorcar := "", service := "", foot := "", bicycle := "",
      building := "", amenity := "", leisure := "", turnLanes := "", turnLanesForward := "",
      turnLanesBackward := "", maxSpeed := -1, lanes := -1, lanesForward := -1,
      lanesBackward := -1 }

/-- The type `OSMData` returned by `readOSM`. -/
structure OSMData where
  restrictions : RestrictionTable
  nodes : GoMap Node
  ways : List WayWithNodes

/-- `readOSM` from the end of the three scans on (lines 724-753): the use-count
stage and the returned data; `.error .error` stands for `return nil,
fmt.Errorf(...)`. -/
def readOSMFromScans (ways : List WayWithNodes) (nodes : GoMap Node)
    (restrictions : RestrictionTable) : Except Failure OSMData :=
  match countUseCases nodes (ways.map (fun way => way.Nodes)) with
  | none => .error .error
  | some counted => .ok { restrictions := restrictions, nodes := counted, ways := ways }


/-! ## The relations scan (`ImportFromOSMFile`, lines 120-201; `readOSM`, lines 631-714) -/

/-- The fields of an `osm.Member` of the OSM library that the scan reads. -/
structure Member where
  Role : String
  Ref : Int
  Typ : String
deriving DecidableEq, Repr

/-- An `osm.Relation` as the scan reads it: `restriction` is the value of the
tag `restriction` in `relation.TagMap()`, `none` when there is no such tag. -/
structure Relation where
  restriction : Option String
  Members : List Member
deriving DecidableEq, Repr

/-- The variables that the three `switch` blocks of the scan assign. -/
structure RoleVars where
  firstMember : restrictionComponent
  secondMember : restrictionComponent
  thirdMember : restrictionComponent
  unsupportedRestrictionRoles : Int
deriving DecidableEq, Repr

/-- The variables before the first `switch` block (lines 135-137), with the
counter at `c`. -/
def startVars (c : Int) : RoleVars :=
  { firstMember := ⟨-1, ""⟩, secondMember := ⟨-1, ""⟩, thirdMember := ⟨-1, ""⟩,
    unsupportedRestrictionRoles := c }

/-- One `switch members[i].Role` block (lines 138-152, 154-168, 170-184). -/
def memberStep (v : RoleVars) (member : Member) : RoleVars :=
  if member.Role = "from" then { v with firstMember := ⟨member.Ref, member.Typ⟩ }
  else if member.Role = "via" then { v with thirdMember := ⟨member.Ref, member.Typ⟩ }
  else if member.Role = "to" then { v with secondMember := ⟨member.Ref, member.Typ⟩ }
  else { v with unsupportedRestrictionRoles := v.unsupportedRestrictionRoles + 1 }

/-- The statement `if _, ok := m[k]; !ok { m[k] = v }` on a map given by its
entries; a new key goes to the end. -/
def putIfAbsent {κ V : Type} [DecidableEq κ] (m : List (κ × V)) (k : κ) (v : V) :
    List (κ × V) :=
  if m.any (fun kv => decide (kv.1 = k)) then m else m ++ [(k, v)]

/-- A change of the value that a map given by its entries has under the key `k`. -/
def modifyKey {κ V : Type} [DecidableEq κ] (m : List (κ × V)) (k : κ) (f : V → V) :
    List (κ × V) :=
  m.map (fun kv => if kv.1 = k then (kv.1, f kv.2) else kv)

/-- Lines 190-198: the maps under `tag` and under `firstMember` are made when
they are missing, and `thirdMember` is stored under `secondMember` unless that
key is taken. -/
def insertRestriction (restrictions : RestrictionTable) (tag : String)
    (firstMember secondMember thirdMember : restrictionComponent) : RestrictionTable :=
  modifyKey (putIfAbsent restrictions tag []) tag (fun k =>
    modifyKey (putIfAbsent k firstMember []) firstMember (fun v =>
      putIfAbsent v secondMember thirdMember))

/-- The variables of the relations scan that outlive an iteration (the table
`possibleRestrictionCombos` is only printed). -/
structure RelationScan where
  skippedRestrictions : Int
  unsupportedRestrictionRoles : Int
  restrictions : RestrictionTable
deriving DecidableEq, Repr

/-- Body of the relations scan for one relation (lines 122-199). -/
def scanRelation (st : RelationScan) (relation : Relation) : RelationScan :=
  match relation.restriction with
  | none => st
  | some tag =>
    match relation.Members with
    | [m0, m1, m2] =>
      let v := memberStep (memberStep (memberStep
        (startVars st.unsupportedRestrictionRoles) m0) m1) m2
      { st with
        unsupportedRestrictionRoles := v.unsupportedRestrictionRoles
        restrictions :=
          insertRestriction st.restrictions tag v.firstMember v.secondMember v.thirdMember }
    | _ => { st with skippedRestrictions := st.skippedRestrictions + 1 }

/-- The relations scan over the relations of the file, in file order. -/
def scanRelations (relations : List Relation) : RelationScan :=
  relations.foldl scanRelation
    { skippedRestrictions := 0, unsupportedRestrictionRoles := 0, restrictions := [] }
/-! ## `genMicroscopicNetwork` with the orders of iteration given -/

/-- The method `connectLinks` with the order given in which
`for _, mesoLink := range mesoNet.links` (line 572) visits the keys. -/
def connectLinksIn (P : GeoPrims) (mesoOrder : List Int) (st : MicroBuild) :
    Except Failure MicroBuild :=
  mesoOrder.foldlM (connectMovement P) st

/-- The function `genMicroscopicNetwork` with the orders given in which
`for _, macroLink := range macroNet.links` (line 36) visits the macroscopic
links and in which `connectLinks` visits the keys of `mesoNet.links`. -/
def genMicroscopicNetworkIn (P : GeoPrims) (macroOrder : List NetworkLink)
    (mesoOrder : List Int) (macroNodes : GoMap NetworkNode)
    (mesoLinks : GoMap NetworkLinkMesoscopic) (mesoNodes : GoMap NetworkNodeMesoscopic)
    (separateBikeWalk : Bool) :
    Except Failure (NetworkMicroscopic × GoMap NetworkLinkMesoscopic) :=
  do
    let st ← macroOrder.foldlM (processMacroLink P macroNodes separateBikeWalk)
      { nodes := [], links := [], lastNodeID := 0, lastLinkID := 0, mesoLinks := mesoLinks }
    let st' ← connectLinksIn P mesoOrder st
    let nodes ← updateBoundaryType st'.mesoLinks mesoNodes st'.nodes
    .ok ({ nodes := nodes, links := st'.links, maxLinkID := st'.lastLinkID,
           maxNodeID := st'.lastNodeID }, st'.mesoLinks)

/-! ## Specification predicates for `osm_loader.go` -/

/-- Entry `(from, (to, via))` of a `no_*` tag deletes `e`. -/
def dropNoTo (waysSeen : List Int) (fromOSMWayID : Int)
    (nv : restrictionComponent × restrictionComponent) (e : ExpandedEdge) : Bool :=
  nv.1.Typ == "way" && nv.2.Typ == "node" && waysSeen.contains nv.1.ID
    && !keepNo fromOSMWayID nv.1.ID e

/-- Some entry under `from`-key `jv.1` of a `no_*` tag deletes `e`. -/
def dropNoFrom (waysSeen : List Int)
    (jv : restrictionComponent × List (restrictionComponent × restrictionComponent))
    (e : ExpandedEdge) : Bool :=
  jv.1.Typ == "way" && waysSeen.contains jv.1.ID
    && jv.2.any (fun nv => dropNoTo waysSeen jv.1.ID nv e)

/-- Some entry of the tag `ik.1`, handled by the `no_*` loop, deletes `e`. -/
def dropNoTag (waysSeen : List Int)
    (ik : String × List (restrictionComponent × List (restrictionComponent × restrictionComponent)))
    (e : ExpandedEdge) : Bool :=
  isNoTag ik.1 && ik.2.any (fun jv => dropNoFrom waysSeen jv e)

/-- Entry `(from, (to, via))` of an `only_*` tag deletes `e`. -/
def dropOnlyTo (waysSeen : List Int) (fromOSMWayID : Int)
    (nv : restrictionComponent × restrictionComponent) (e : ExpandedEdge) : Bool :=
  nv.1.Typ == "way" && nv.2.Typ == "node" && waysSeen.contains nv.1.ID
    && !keepOnly fromOSMWayID nv.1.ID nv.2.ID e

/-- Some entry under `from`-key `jv.1` of an `only_*` tag deletes `e`. -/
def dropOnlyFrom (waysSeen : List Int)
    (jv : restrictionComponent × List (restrictionComponent × restrictionComponent))
    (e : ExpandedEdge) : Bool :=
  jv.1.Typ == "way" && waysSeen.contains jv.1.ID
    && jv.2.any (fun nv => dropOnlyTo waysSeen jv.1.ID nv e)

/-- Some entry of the tag `ik.1`, handled by the `only_*` loop, deletes `e`. -/
def dropOnlyTag (waysSeen : List Int)
    (ik : String × List (restrictionComponent × List (restrictionComponent × restrictionComponent)))
    (e : ExpandedEdge) : Bool :=
  isOnlyTag ik.1 && ik.2.any (fun jv => dropOnlyFrom waysSeen jv e)

/-- Edge `k` of the list has ID `k + 1`, and the counter is the length. -/
def IdsOk (edges : List Edge) (total : Int) : Prop :=
  total = edges.length ∧ ∀ (k : Nat) (e : Edge), edges[k]? = some e → e.ID = (k : Int) + 1

/-- The expanded edge `x` was emitted by the loop body for source edge `e`
and target edge `f = edges[o-1]`, `o` an ID returned by `findOutComingEdges`. -/
def EmittedFor (fo : Edge → List Edge → List Int) (fm : List GeoPoint → Int × GeoPoint)
    (edges : List Edge) (x : ExpandedEdge) (e f : Edge) : Prop :=
  e ∈ edges ∧ f ∈ edges ∧ (∃ o ∈ fo e edges, 0 ≤ o - 1 ∧ edges[(o - 1).toNat]? = some f)
    ∧ e.Geom ≠ [] ∧ f.Geom ≠ [] ∧ isCycle e f = false ∧ ∃ id, expandPair fm id e f = some x


/-- The restriction with tag `tag` and members `from`, `to`, `via` is of a kind
the restriction stage passes over: the tag is none of the six handled ones, or
`from` or `to` is not a way, or `via` is not a node, or one of the two ways is
not among the ways seen. -/
def RestrictionIgnored (waysSeen : List Int) (tag : String)
    (fromC toC via : restrictionComponent) : Prop :=
  (isNoTag tag = false ∧ isOnlyTag tag = false) ∨ fromC.Typ ≠ "way" ∨ toC.Typ ≠ "way"
    ∨ via.Typ ≠ "node" ∨ fromC.ID ∉ waysSeen ∨ toC.ID ∉ waysSeen

/-- The table without the restriction `(tag, from, to, via)`. -/
def removeEntry (T : RestrictionTable) (tag : String) (fromC toC via : restrictionComponent) :
    RestrictionTable :=
  T.map (fun ik =>
    if ik.1 = tag then
      (ik.1, ik.2.map (fun jv =>
        if jv.1 = fromC then (jv.1, jv.2.filter (fun nv => decide (nv ≠ (toC, via)))) else jv))
    else ik)
/-! ## Specification predicates for `microscopic.go` -/

/-- Every key of the table is a non-negative integer below `n`. -/
def KeysBelow {V : Type} (m : GoMap V) (n : Int) : Prop :=
  ∀ k, (mapGet? m k).isSome → 0 ≤ k ∧ k < n

/-- The keys of the table are exactly the integers `0, ..., n - 1`. -/
def KeysDense {V : Type} (m : GoMap V) (n : Int) : Prop :=
  ∀ k, (mapGet? m k).isSome ↔ 0 ≤ k ∧ k < n

/-- No key occurs in two entries of the table. -/
def KeysUnique {V : Type} (m : GoMap V) : Prop :=
  (m.map (fun kv => kv.1)).Nodup

/-- The ID invariant of the build: link IDs are exactly the integers below the
link counter, node IDs lie below the node counter, and no ID is used twice. -/
def IdsInv (st : MicroBuild) : Prop :=
  KeysDense st.links st.lastLinkID ∧ KeysBelow st.nodes st.lastNodeID
    ∧ KeysUnique st.links ∧ KeysUnique st.nodes ∧ 0 ≤ st.lastLinkID ∧ 0 ≤ st.lastNodeID

/-- The lane chains of a mesoscopic link: the entries of `microNodesPerLane`,
the bike chain and the walk chain. -/
def laneChains (ml : NetworkLinkMesoscopic) : List (List Int) :=
  ml.microNodesPerLane ++ [ml.microNodesBikeLane, ml.microNodesWalkLane]

/-- The node IDs `a` and `b` occur at consecutive positions of the chain. -/
def Consecutive (chain : List Int) (a b : Int) : Prop :=
  (a, b) ∈ chain.zip chain.tail

instance (chain : List Int) (a b : Int) : Decidable (Consecutive chain a b) := by
  unfold Consecutive
  infer_instance

/-- The source and the target of the microscopic link occur at consecutive
positions of a lane chain of the mesoscopic link that owns the link. -/
def InLaneChain (mesoLinks : GoMap NetworkLinkMesoscopic) (l : NetworkLinkMicroscopic) : Prop :=
  ∃ ml, mapGet? mesoLinks l.mesoLinkID = some ml
    ∧ ∃ chain ∈ laneChains ml, Consecutive chain l.sourceNodeID l.targetNodeID

/-- The mesoscopic link `ml'` is `ml` with lane chains appended. -/
def MesoExt (ml ml' : NetworkLinkMesoscopic) : Prop :=
  ∃ extra, ml' = { ml with microNodesPerLane := ml.microNodesPerLane ++ extra }

/-- The microscopic node `n'` is `n` up to its incidence lists. -/
def NodeSame (n n' : NetworkNodeMicroscopic) : Prop :=
  ∃ inc out, n' = { n with incomingLinks := inc, outcomingLinks := out }

/-- What every step of `connectLinks` keeps: the counters grow, the links below
the link counter stay as they are, the mesoscopic links only get lane chains
appended, and the nodes stay up to their incidence lists. -/
def Stable (s s' : MicroBuild) : Prop :=
  s.lastLinkID ≤ s'.lastLinkID ∧ s.lastNodeID ≤ s'.lastNodeID
    ∧ (∀ k, k < s.lastLinkID → mapGet? s'.links k = mapGet? s.links k)
    ∧ (∀ key ml, mapGet? s.mesoLinks key = some ml →
        ∃ ml', mapGet? s'.mesoLinks key = some ml' ∧ MesoExt ml ml')
    ∧ (∀ k n, mapGet? s.nodes k = some n → ∃ n', mapGet? s'.nodes k = some n' ∧ NodeSame n n')

/-- Every forward link of the build is owned by a mesoscopic link of `done` and
joins consecutive nodes of a lane chain of it. -/
def ForwardInChains (done : List Int) (s : MicroBuild) : Prop :=
  ∀ k l, mapGet? s.links k = some l → l.microLinkType = LinkType.LINK_FORWARD →
    l.mesoLinkID ∈ done ∧ InLaneChain s.mesoLinks l

/-- The microscopic path of one lane of a movement in the build `s`: the last
node `start` of lane `incomeLane` of the mesoscopic link `incomeKey`, a chain
of intermediate nodes that is one of the lane chains of the movement link
stored under `key`, and the first node `end` of lane `outcomeLane` of the
mesoscopic link `outcomeKey`; `cellsNum - 1` intermediate nodes, owned by the
movement link, with IDs not below `n0`; and `cellsNum` forward links with
consecutive IDs not below `l0`, the `q`-th from the `q`-th to the `q+1`-th node
of the path, all owned by the movement link, exactly the first one marked
`isFirstMovement`. -/
def MovementLane (P : GeoPrims) (s : MicroBuild) (mesoLinkID laneID incomeKey outcomeKey
    incomeLane outcomeLane key n0 l0 : Int) : Prop :=
  ∃ (incoming outgoing movement : NetworkLinkMesoscopic) (inLane outLane chain : List Int)
    (startID endID firstLinkID : Int) (startNode endNode : NetworkNodeMicroscopic),
    mapGet? s.mesoLinks incomeKey = some incoming
    ∧ 0 ≤ incomeLane ∧ incoming.microNodesPerLane[incomeLane.toNat]? = some inLane
    ∧ inLane.getLast? = some startID
    ∧ mapGet? s.mesoLinks outcomeKey = some outgoing
    ∧ 0 ≤ outcomeLane ∧ outgoing.microNodesPerLane[outcomeLane.toNat]? = some outLane
    ∧ outLane.head? = some endID
    ∧ mapGet? s.nodes startID = some startNode ∧ mapGet? s.nodes endID = some endNode
    ∧ (chain.length : Int) + 1 = cellsNumOf (P.lengthHaversign [startNode.geom, endNode.geom])
    ∧ mapGet? s.mesoLinks key = some movement ∧ chain ∈ movement.microNodesPerLane
    ∧ (∀ x ∈ chain, n0 ≤ x ∧ ∃ n, mapGet? s.nodes x = some n ∧ n.mesoLinkID = mesoLinkID
        ∧ n.laneID = laneID)
    ∧ l0 ≤ firstLinkID
    ∧ (∀ q : Nat, q ≤ chain.length → ∃ link, mapGet? s.links (firstLinkID + (q : Int)) = some link
        ∧ (startID :: chain)[q]? = some link.sourceNodeID
        ∧ (chain ++ [endID])[q]? = some link.targetNodeID
        ∧ link.mesoLinkID = mesoLinkID ∧ link.microLinkType = LinkType.LINK_FORWARD
        ∧ link.isFirstMovement = decide (q = 0))

/-- The invariant of the loop over the points of a movement lane, started in
the build `st0` at the node `startID`: the accumulator holds the build, the
previous node of the lane, the flag `firstMovement` and the node IDs of the
lane so far. -/
def PathInv (st0 : MicroBuild) (mID laneID startID : Int)
    (acc : MicroBuild × Int × Bool × List Int) : Prop :=
  IdsInv acc.1 ∧ Stable st0 acc.1
    ∧ acc.1.lastLinkID = st0.lastLinkID + (acc.2.2.2.length : Int)
    ∧ (startID :: acc.2.2.2).getLast? = some acc.2.1
    ∧ acc.2.2.1 = decide (acc.2.2.2.length = 0)
    ∧ (∀ x ∈ acc.2.2.2, st0.lastNodeID ≤ x ∧ ∃ n, mapGet? acc.1.nodes x = some n
        ∧ n.mesoLinkID = mID ∧ n.laneID = laneID)
    ∧ (∀ q : Nat, q < acc.2.2.2.length →
        ∃ link, mapGet? acc.1.links (st0.lastLinkID + (q : Int)) = some link
          ∧ (startID :: acc.2.2.2)[q]? = some link.sourceNodeID
          ∧ acc.2.2.2[q]? = some link.targetNodeID
          ∧ link.mesoLinkID = mID ∧ link.microLinkType = LinkType.LINK_FORWARD
          ∧ link.isFirstMovement = decide (q = 0))


/-- The microscopic link joins consecutive nodes of the path of a movement lane:
the nodes of a lane chain of a movement link `mv`, with the last node of a lane
of the income link of `mv` in front and the first node of a lane of the outcome
link of `mv` behind; `mv` owns the link. -/
def InMovementPath (mesoLinks : GoMap NetworkLinkMesoscopic) (l : NetworkLinkMicroscopic) :
    Prop :=
  ∃ (key : Int) (mv inc out : NetworkLinkMesoscopic) (chain inLane outLane : List Int)
    (startID endID : Int),
    mapGet? mesoLinks key = some mv ∧ mv.movementID > -1 ∧ chain ∈ mv.microNodesPerLane
    ∧ mapGet? mesoLinks mv.movementLinkIncome = some inc ∧ inLane ∈ inc.microNodesPerLane
    ∧ inLane.getLast? = some startID
    ∧ mapGet? mesoLinks mv.movementLinkOutcome = some out ∧ outLane ∈ out.microNodesPerLane
    ∧ outLane.head? = some endID
    ∧ l.mesoLinkID = mv.ID
    ∧ Consecutive (startID :: (chain ++ [endID])) l.sourceNodeID l.targetNodeID

/-- Every link of `s'` with an ID not below the link counter of `s` is a link of
the path of a movement lane. -/
def LinkCover (s s' : MicroBuild) : Prop :=
  ∀ k l, s.lastLinkID ≤ k → mapGet? s'.links k = some l →
    l.microLinkType = LinkType.LINK_FORWARD ∧ InMovementPath s'.mesoLinks l

/-- The node part of the ID invariant, for the loops that create the nodes of
a lane. -/
def NodeIdsInv (nodes : GoMap NetworkNodeMicroscopic) (n : Int) : Prop :=
  KeysBelow nodes n ∧ KeysUnique nodes ∧ 0 ≤ n

/-- The frame of the node phases of a macroscopic link: no link is created and
only the mesoscopic links of the macroscopic link change. -/
def NodePhase (ms : List Int) (s s' : MicroBuild) : Prop :=
  s'.links = s.links ∧ ∀ k, k ∉ ms → mapGet? s'.mesoLinks k = mapGet? s.mesoLinks k

/-- The frame of the link phase of a macroscopic link over the table `X` of
mesoscopic links: the table stays, and every new link is owned by a mesoscopic
link of the macroscopic link and, if forward, lies in one of its lane chains. -/
def LinkPhase (X : GoMap NetworkLinkMesoscopic) (ms : List Int) (s s' : MicroBuild) : Prop :=
  s.mesoLinks = X → s'.mesoLinks = X ∧ ∀ k l, mapGet? s'.links k = some l →
    (mapGet? s.links k = some l
      ∨ (l.mesoLinkID ∈ ms ∧ (l.microLinkType = LinkType.LINK_FORWARD → InLaneChain X l)))

/-- The node IDs of the list increase and lie between `lo` and `hi`, `hi`
excluded. -/
def FreshIDs (lo hi : Int) (ids : List Int) : Prop :=
  ids.Pairwise (· < ·) ∧ ∀ x ∈ ids, lo ≤ x ∧ x < hi

/-- No node ID occurs in two lane chains of the mesoscopic links `ms`: a node ID
that occurs in chain `q` of link `m` and in chain `q'` of link `m'` occurs in
one chain only. -/
def SlotsDistinct (tbl : GoMap NetworkLinkMesoscopic) (ms : List Int) : Prop :=
  ∀ (m m' : Int) (ml ml' : NetworkLinkMesoscopic) (q q' : Nat) (c c' : List Int) (x : Int),
    m ∈ ms → m' ∈ ms → mapGet? tbl m = some ml → mapGet? tbl m' = some ml' →
    (laneChains ml)[q]? = some c → (laneChains ml')[q']? = some c' → x ∈ c → x ∈ c' →
    m = m' ∧ q = q'

/-- The nodes of the mesoscopic links `ms` are created: no node ID occurs in
two lane chains, every link has as many lanes as `lanesNum`, every lane has at
least two nodes, and every node ID of a chain is in the node table and below
the node counter. -/
def ChainsBuilt (s : MicroBuild) (ms : List Int) : Prop :=
  SlotsDistinct s.mesoLinks ms
    ∧ ∀ m ∈ ms, ∃ ml, mapGet? s.mesoLinks m = some ml
      ∧ ml.microNodesPerLane.length = ml.lanesNum.toNat
      ∧ (∀ lane ∈ ml.microNodesPerLane, 2 ≤ lane.length)
      ∧ (∀ x ∈ (laneChains ml).flatten, (mapGet? s.nodes x).isSome ∧ x < s.lastNodeID)

/-- The mesoscopic links `ms` have no microscopic nodes yet. -/
def NoChains (tbl : GoMap NetworkLinkMesoscopic) (ms : List Int) : Prop :=
  ∀ m ∈ ms, ∀ ml, mapGet? tbl m = some ml →
    ml.microNodesPerLane = [] ∧ ml.microNodesBikeLane = [] ∧ ml.microNodesWalkLane = []

/-- What the stitching of the adjacent pair `(u, d)` does between the builds
`s` and `s'`, with `us`, `ds` and `k` for `upstreamLaneStart`,
`downstreamLaneStart` and `numberOfConnections`: only the link `u` changes; for
`j < k` lane `us + j` of `u` gets the first node of lane `ds + j` of `d` in its
last slot and its former last node is deleted; the other lanes of `u` stay; and
every node that is deleted was the last node of a joined lane, of the bike
chain or of the walk chain of `u`. -/
def PairStitched (s s' : MicroBuild) (u d : Int) (up down up' : NetworkLinkMesoscopic)
    (us ds k : Int) : Prop :=
  mapGet? s.mesoLinks u = some up ∧ mapGet? s.mesoLinks d = some down
    ∧ mapGet? s'.mesoLinks u = some up'
    ∧ (∀ key, key ≠ u → mapGet? s'.mesoLinks key = mapGet? s.mesoLinks key)
    ∧ up'.lanesNum = up.lanesNum ∧ up'.lanesChange = up.lanesChange
    ∧ up'.microNodesPerLane.length = up.microNodesPerLane.length
    ∧ (∀ j : Nat, (j : Int) < k → ∃ (upLane downLane : List Int) (old x : Int),
        up.microNodesPerLane[(us + (j : Int)).toNat]? = some upLane
        ∧ upLane.getLast? = some old
        ∧ down.microNodesPerLane[(ds + (j : Int)).toNat]? = some downLane
        ∧ downLane.head? = some x
        ∧ up'.microNodesPerLane[(us + (j : Int)).toNat]?
            = some (upLane.set (upLane.length - 1) x)
        ∧ mapGet? s'.nodes old = none)
    ∧ (∀ p : Nat, ((p : Int) < us ∨ us + k ≤ (p : Int)) →
        up'.microNodesPerLane[p]? = up.microNodesPerLane[p]?)
    ∧ (∀ y, mapGet? s'.nodes y = mapGet? s.nodes y
        ∨ (mapGet? s'.nodes y = none ∧ ∃ (q : Nat) (c : List Int),
            (laneChains up)[q]? = some c ∧ c.getLast? = some y
            ∧ (up.microNodesPerLane.length ≤ q ∨ (us ≤ (q : Int) ∧ (q : Int) < us + k))))

/-- The mesoscopic link `ml'` has the lanes of `ml` up to their last slots:
the same `lanesNum` and `lanesChange`, as many lanes of the same lengths, and a
lane of at least two nodes begins with the same node. -/
def LaneShape (ml ml' : NetworkLinkMesoscopic) : Prop :=
  ml'.lanesNum = ml.lanesNum ∧ ml'.lanesChange = ml.lanesChange
    ∧ ml'.microNodesPerLane.length = ml.microNodesPerLane.length
    ∧ ∀ (p : Nat) (lane : List Int), ml.microNodesPerLane[p]? = some lane →
        ∃ lane', ml'.microNodesPerLane[p]? = some lane' ∧ lane'.length = lane.length
          ∧ (2 ≤ lane.length → lane'.head? = lane.head?)

/-- What the stitching of pairs whose upstream links are `U` keeps between the
builds `s` and `s'`: the other mesoscopic links stay, every mesoscopic link
keeps the shape of its lanes, no node comes back, and a node that is deleted was
the last node of a lane chain of a link of `U`. -/
def StitchFrame (U : List Int) (s s' : MicroBuild) : Prop :=
  (∀ key, key ∉ U → mapGet? s'.mesoLinks key = mapGet? s.mesoLinks key)
    ∧ (∀ key ml, mapGet? s.mesoLinks key = some ml →
        ∃ ml', mapGet? s'.mesoLinks key = some ml' ∧ LaneShape ml ml')
    ∧ (∀ y, mapGet? s.nodes y = none → mapGet? s'.nodes y = none)
    ∧ (∀ y, mapGet? s'.nodes y = mapGet? s.nodes y
        ∨ ∃ key ∈ U, ∃ (ml : NetworkLinkMesoscopic) (q : Nat) (c : List Int),
            mapGet? s.mesoLinks key = some ml ∧ (laneChains ml)[q]? = some c
            ∧ c.getLast? = some y)

/-- The node stored under the ID `x` is the node literal of lines 182-192 (and
201-211, 219-229) with the ID `x`, the owner `mesoLinkID` and the lane ID
`laneID`, at some point: both target flags are false, the zone is -1, the
boundary type is none and there are no incident links. -/
def IsCellNode (nodes : GoMap NetworkNodeMicroscopic) (x mesoLinkID laneID : Int) : Prop :=
  ∃ pt, mapGet? nodes x = some (newMicroNode x pt mesoLinkID laneID)


/-- A microscopic link as the specification lists it: source node, target
node, type and allowed agent types. -/
abbrev LinkSpec := Int × Int × LinkType × List AgentType

/-- The links from `lane[j]` to `other[j+1]` for `j < len(lane) - 1`. -/
def specLinksBetween (lane other : List Int) (ty : LinkType) (ag : List AgentType) :
    List LinkSpec :=
  (List.range (lane.length - 1)).map
    (fun (j : Nat) => (lane.getD j 0, other.getD (j + 1) 0, ty, ag))

/-- The car links of lane `i` of a mesoscopic link as the specification lists
them: the forward links `node[i][j] -> node[i][j+1]`, the lane changes
`node[i][j] -> node[i+1][j+1]` if `i ≤ lanesNum - 2`, and the lane changes
`node[i][j] -> node[i-1][j+1]` if `i ≥ 1`. -/
def specLaneLinks (ml : NetworkLinkMesoscopic) (ag : List AgentType) (i : Nat) : List LinkSpec :=
  specLinksBetween (ml.microNodesPerLane.getD i []) (ml.microNodesPerLane.getD i [])
      LinkType.LINK_FORWARD ag
    ++ (if (i : Int) ≤ ml.lanesNum - 2 then
        specLinksBetween (ml.microNodesPerLane.getD i []) (ml.microNodesPerLane.getD (i + 1) [])
          LinkType.LINK_LANE_CHANGE ag
      else [])
    ++ (if (i : Int) ≥ 1 then
        specLinksBetween (ml.microNodesPerLane.getD i []) (ml.microNodesPerLane.getD (i - 1) [])
          LinkType.LINK_LANE_CHANGE ag
      else [])

/-- The car links of a mesoscopic link as the specification lists them. -/
def specCarLinks (ml : NetworkLinkMesoscopic) (ag : List AgentType) : List LinkSpec :=
  (List.range ml.lanesNum.toNat).flatMap (specLaneLinks ml ag)

/-- The links of a mesoscopic link as the specification lists them: the car
links, the forward links of the bike chain with the agent type bike, and the
forward links of the walk chain with the agent type walk. -/
def specCellLinks (ml : NetworkLinkMesoscopic) (ag : List AgentType) (bike walk : Bool) :
    List LinkSpec :=
  specCarLinks ml ag
    ++ (if bike then specLinksBetween ml.microNodesBikeLane ml.microNodesBikeLane
        LinkType.LINK_FORWARD [AgentType.AGENT_BIKE] else [])
    ++ (if walk then specLinksBetween ml.microNodesWalkLane ml.microNodesWalkLane
        LinkType.LINK_FORWARD [AgentType.AGENT_WALK] else [])

/-- Between the builds `s` and `s'` exactly the links of the list `L` are
created for the mesoscopic link `m`, in the order of the list and with the IDs
from the link counter on; the table of links is the same at every other ID,
and the node counter and the mesoscopic links stay. -/
def LinksAdded (m : Int) (L : List LinkSpec) (s s' : MicroBuild) : Prop :=
  s'.lastLinkID = s.lastLinkID + (L.length : Int)
    ∧ s'.lastNodeID = s.lastNodeID ∧ s'.mesoLinks = s.mesoLinks
    ∧ (∀ k, k < s.lastLinkID ∨ s'.lastLinkID ≤ k → mapGet? s'.links k = mapGet? s.links k)
    ∧ (∀ (q : Nat) (spec : LinkSpec), L[q]? = some spec →
        ∃ link, mapGet? s'.links (s.lastLinkID + (q : Int)) = some link
          ∧ link.ID = s.lastLinkID + (q : Int)
          ∧ link.sourceNodeID = spec.1 ∧ link.targetNodeID = spec.2.1
          ∧ link.microLinkType = spec.2.2.1 ∧ link.allowedAgentTypes = spec.2.2.2
          ∧ link.mesoLinkID = m ∧ link.isFirstMovement = false)


/-- The car nodes of a network, those with a lane ID from 1 on. -/
def carNodes (net : NetworkMicroscopic) : List (Int × NetworkNodeMicroscopic) :=
  net.nodes.filter (fun kv => decide (1 ≤ kv.2.laneID))

/-- The nodes of the bike chains, those with lane ID -1. -/
def bikeNodes (net : NetworkMicroscopic) : List (Int × NetworkNodeMicroscopic) :=
  net.nodes.filter (fun kv => decide (kv.2.laneID = -1))

/-- The nodes of the walk chains, those with lane ID -2. -/
def walkNodes (net : NetworkMicroscopic) : List (Int × NetworkNodeMicroscopic) :=
  net.nodes.filter (fun kv => decide (kv.2.laneID = -2))

/-- The forward links of a network that allow exactly the agent type `a`. -/
def forwardLinks (net : NetworkMicroscopic) (a : AgentType) :
    List (Int × NetworkLinkMicroscopic) :=
  net.links.filter (fun kv =>
    decide (kv.2.microLinkType = LinkType.LINK_FORWARD ∧ kv.2.allowedAgentTypes = [a]))

/-- The rule of `updateBoundaryType` read on a node: its boundary type is none
if it has no mesoscopic link; otherwise that of the source node of its
mesoscopic link if it is an upstream target node, else that of the target node
of the link if it is a downstream target node, else none. -/
def BoundaryRule (mesoLinks : GoMap NetworkLinkMesoscopic)
    (mesoNodes : GoMap NetworkNodeMesoscopic) (n : NetworkNodeMicroscopic) : Prop :=
  if n.mesoLinkID = -1 then n.boundaryType = BoundaryType.BOUNDARY_NONE
  else ∃ mesoLink, mapGet? mesoLinks n.mesoLinkID = some mesoLink ∧
    (if n.isLinkUpstreamTargetNode = true then
      ∃ source, mapGet? mesoNodes mesoLink.sourceNodeID = some source
        ∧ n.boundaryType = source.boundaryType
    else if n.isLinkDownstreamTargetNode = true then
      ∃ target, mapGet? mesoNodes mesoLink.targetNodeID = some target
        ∧ n.boundaryType = target.boundaryType
    else n.boundaryType = BoundaryType.BOUNDARY_NONE)

/-- The node `n'` is the node `n` up to its boundary type. -/
def SameButBoundary (n n' : NetworkNodeMicroscopic) : Prop :=
  n' = { n with boundaryType := n'.boundaryType }

/-- From the node table `s` to `s'` every key is kept, every node is kept up
to its boundary type, and a node that follows `BoundaryRule` still does. -/
def BoundaryStep (mesoLinks : GoMap NetworkLinkMesoscopic)
    (mesoNodes : GoMap NetworkNodeMesoscopic) (s s' : GoMap NetworkNodeMicroscopic) : Prop :=
  ∀ k, (mapGet? s k = none → mapGet? s' k = none)
    ∧ ∀ n, mapGet? s k = some n → ∃ n', mapGet? s' k = some n' ∧ SameButBoundary n n'
      ∧ (BoundaryRule mesoLinks mesoNodes n → BoundaryRule mesoLinks mesoNodes n')


/-- The node carries no target mark: both target flags are false and the zone
is -1, as in the node literal of lines 182-192. -/
def PlainNode (n : NetworkNodeMicroscopic) : Prop :=
  n.isLinkUpstreamTargetNode = false ∧ n.isLinkDownstreamTargetNode = false ∧ n.zoneID = -1

/-- The nodes `n` and `n'` have the same target flags and the same zone. -/
def FlagsSame (n n' : NetworkNodeMicroscopic) : Prop :=
  n'.isLinkUpstreamTargetNode = n.isLinkUpstreamTargetNode
    ∧ n'.isLinkDownstreamTargetNode = n.isLinkDownstreamTargetNode ∧ n'.zoneID = n.zoneID

/-- The node ID `x` is the first node of a lane chain of the mesoscopic link:
of a lane, of the bike chain or of the walk chain. -/
def ChainHead (ml : NetworkLinkMesoscopic) (x : Int) : Prop :=
  ∃ c ∈ laneChains ml, c.head? = some x

/-- The node ID `x` is the last node of a lane chain of the mesoscopic link. -/
def ChainLast (ml : NetworkLinkMesoscopic) (x : Int) : Prop :=
  ∃ c ∈ laneChains ml, c.getLast? = some x

/-- The chains whose ends `markTargets` marks: the lanes, the bike chain if
`bike` is set and the walk chain if `walk` is set. -/
def markedChains (bike walk : Bool) (ml : NetworkLinkMesoscopic) : List (List Int) :=
  ml.microNodesPerLane ++ ((if bike then [ml.microNodesBikeLane] else [])
    ++ (if walk then [ml.microNodesWalkLane] else []))

/-- The nodes with an ID below `n` are kept from the build `s` to the build
`s'`, if `n` is not above the node counter of `s`: none of these IDs is added,
none is removed, and the nodes keep their target flags and their zones.  The
node counter does not decrease. -/
def OldKept (n : Int) (s s' : MicroBuild) : Prop :=
  s.lastNodeID ≤ s'.lastNodeID
    ∧ (n ≤ s.lastNodeID → ∀ x, x < n →
      (mapGet? s.nodes x = none → mapGet? s'.nodes x = none)
        ∧ ∀ nd, mapGet? s.nodes x = some nd →
          ∃ nd', mapGet? s'.nodes x = some nd' ∧ FlagsSame nd nd')

/-- The mesoscopic links outside `ms` are the same in `s` and `s'`. -/
def MesoFrame (ms : List Int) (s s' : MicroBuild) : Prop :=
  ∀ k, k ∉ ms → mapGet? s'.mesoLinks k = mapGet? s.mesoLinks k

/-- The nodes of the mesoscopic links `ms` are created, with `bike` and `walk`
chains as asked for, from the node counter `n0` on: every lane has at least two
nodes, the bike and the walk chain have at least two nodes or, if not asked
for, none; no node ID occurs twice in the chains of a link; and every node of
a chain has an ID from `n0` up to the node counter and is in the node table
without target mark. -/
def CellsReady (bike walk : Bool) (n0 : Int) (s : MicroBuild) (ms : List Int) : Prop :=
  ∀ m ∈ ms, ∃ ml, mapGet? s.mesoLinks m = some ml
    ∧ (∀ c ∈ ml.microNodesPerLane, 2 ≤ c.length)
    ∧ (if bike then 2 ≤ ml.microNodesBikeLane.length else ml.microNodesBikeLane = [])
    ∧ (if walk then 2 ≤ ml.microNodesWalkLane.length else ml.microNodesWalkLane = [])
    ∧ (laneChains ml).flatten.Nodup
    ∧ ∀ x ∈ (laneChains ml).flatten, n0 ≤ x ∧ x < s.lastNodeID
      ∧ ∃ n, mapGet? s.nodes x = some n ∧ PlainNode n

/-- The node ID `x` occurs in a lane chain of one of the mesoscopic links `ms`
of the build. -/
def InChains (s : MicroBuild) (ms : List Int) (x : Int) : Prop :=
  ∃ m ∈ ms, ∃ ml, mapGet? s.mesoLinks m = some ml ∧ x ∈ (laneChains ml).flatten

/-- The lane chains of `ml'` have the lengths of those of `ml`, and a chain of
at least two nodes begins with the same node. -/
def ChainShape (ml ml' : NetworkLinkMesoscopic) : Prop :=
  (laneChains ml').length = (laneChains ml).length
    ∧ ∀ (q : Nat) (c : List Int), (laneChains ml)[q]? = some c →
      ∃ c', (laneChains ml')[q]? = some c' ∧ c'.length = c.length
        ∧ (2 ≤ c.length → c'.head? = c.head?)

/-- What every step of the stitching of the mesoscopic links `ms` keeps: the
node counter and the mesoscopic links outside `ms` stay, every mesoscopic link
keeps the shape of its chains, no node ID comes into the chains of `ms` that
was not in one of them, and a node is as it was or is deleted. -/
def StitchKeeps (ms : List Int) (s s' : MicroBuild) : Prop :=
  s'.lastNodeID = s.lastNodeID
    ∧ (∀ key ml, mapGet? s.mesoLinks key = some ml →
        ∃ ml', mapGet? s'.mesoLinks key = some ml' ∧ ChainShape ml ml')
    ∧ (∀ x, InChains s' ms x → InChains s ms x)
    ∧ (∀ y, mapGet? s'.nodes y = mapGet? s.nodes y ∨ mapGet? s'.nodes y = none)

/-- The target marks of a macroscopic link with the mesoscopic links `ms`, the
first of them `first` and the last `last`, in a node table and a table of
mesoscopic links: the first node of every chain of `first` is an upstream target
node in the zone `zs`, the last node of every chain of `last` is a downstream
target node in the zone `zt`, and every other node of a chain of a link of `ms`
that is in the node table has no target mark. -/
def TargetsMarked (nodes : GoMap NetworkNodeMicroscopic)
    (mesoLinks : GoMap NetworkLinkMesoscopic) (ms : List Int)
    (first last : NetworkLinkMesoscopic) (zs zt : Int) : Prop :=
  (∀ x, ChainHead first x → ∃ n, mapGet? nodes x = some n
      ∧ n.isLinkUpstreamTargetNode = true ∧ n.zoneID = zs)
    ∧ (∀ x, ChainLast last x → ∃ n, mapGet? nodes x = some n
      ∧ n.isLinkDownstreamTargetNode = true ∧ n.zoneID = zt)
    ∧ (∀ m ∈ ms, ∀ ml, mapGet? mesoLinks m = some ml → ∀ x ∈ (laneChains ml).flatten,
        ¬ ChainHead first x → ¬ ChainLast last x →
        ∀ n, mapGet? nodes x = some n → PlainNode n)

/-- The node after lines 257-263: an upstream target node in the zone `z`. -/
def markedUp (z : Int) (n : NetworkNodeMicroscopic) : NetworkNodeMicroscopic :=
  { n with isLinkUpstreamTargetNode := true, zoneID := z }

/-- The node after lines 301-306: a downstream target node in the zone `z`. -/
def markedDown (z : Int) (n : NetworkNodeMicroscopic) : NetworkNodeMicroscopic :=
  { n with isLinkDownstreamTargetNode := true, zoneID := z }

/-- What the creation of the links keeps: the mesoscopic links, the node
counter and the node table up to the incidence lists of the nodes. -/
def LinkKeeps (s s' : MicroBuild) : Prop :=
  s'.mesoLinks = s.mesoLinks ∧ s'.lastNodeID = s.lastNodeID
    ∧ ∀ x, (mapGet? s.nodes x = none → mapGet? s'.nodes x = none)
      ∧ ∀ nd, mapGet? s.nodes x = some nd →
        ∃ nd', mapGet? s'.nodes x = some nd' ∧ FlagsSame nd nd'

/-- A mesoscopic link that is not a movement link is the same in `s'` as in
`s`. -/
def MoveOnly (s s' : MicroBuild) : Prop :=
  ∀ k ml, mapGet? s.mesoLinks k = some ml → ¬ ml.movementID > -1 →
    mapGet? s'.mesoLinks k = some ml

/-- Every mesoscopic link of `s'` is in `s` under the same key and with the
same `movementID`. -/
def MoveIDBack (s s' : MicroBuild) : Prop :=
  ∀ k ml', mapGet? s'.mesoLinks k = some ml' →
    ∃ ml, mapGet? s.mesoLinks k = some ml ∧ ml.movementID = ml'.movementID


/-- The body of the loop over the macroscopic links does something for the
link: the link has mesoscopic links, or it has no entry in `lanesList` (then
the body panics). -/
def macroLinkActs (macroLink : NetworkLink) : Bool :=
  decide (macroLink.mesolinks ≠ [] ∨ macroLink.lanesList = [])

/-- The key is that of a movement link of the table. -/
def isMovementKey (mesoLinks : GoMap NetworkLinkMesoscopic) (key : Int) : Bool :=
  match mapGet? mesoLinks key with
  | some mesoLink => decide (mesoLink.movementID > -1)
  | none => false

/-- What every step of the build keeps of the table of mesoscopic links: the
keys in their order, and under every key the `ID` and the `movementID`. -/
def MesoSteady (s s' : MicroBuild) : Prop :=
  s'.mesoLinks.map (fun kv => kv.1) = s.mesoLinks.map (fun kv => kv.1)
    ∧ ∀ k ml, mapGet? s.mesoLinks k = some ml →
        ∃ ml', mapGet? s'.mesoLinks k = some ml' ∧ ml'.ID = ml.ID
          ∧ ml'.movementID = ml.movementID

/-- What the steps that leave the mesoscopic links alone keep: every node of
`s'` is in `s` under the same ID, with the same owner and the same lane ID. -/
def OwnerKept (s s' : MicroBuild) : Prop :=
  s'.mesoLinks = s.mesoLinks ∧ ∀ k n', mapGet? s'.nodes k = some n' →
    ∃ n, mapGet? s.nodes k = some n ∧ n.mesoLinkID = n'.mesoLinkID ∧ n.laneID = n'.laneID

/-- The lateral offset of car lane `i` of a mesoscopic link (lines 62-63 and
70): `(lanesNumberInBetween + i) * laneWidth` with `lanesNumberInBetween =
-1 * (originalLanesNum/2 - 0.5 + laneChangesLeft)`. -/
def carLaneOffset (P : GeoPrims) (originalLanesNum : ℚ) (lanesChange0 : Int) (i : Nat) : ℚ :=
  (-1 * (originalLanesNum / 2 - 1 / 2 + (lanesChange0 : ℚ)) + (i : ℚ)) * P.laneWidth

/-- The geometry of the link moved by `offset` to the right (lines 74-82,
87-95 and the like): the geometry of the link itself when the offset is within
a centimetre. -/
def offsetLine (P : GeoPrims) (mesoLink : NetworkLinkMesoscopic) (offset : ℚ) : LineString :=
  if offset < -(1 / 100) ∨ offset > 1 / 100 then
    P.lineToSpherical (P.offsetCurve mesoLink.geomEuclidean (-offset))
  else mesoLink.geom

/-- The point of cell `j` of a mesoscopic link on a line (lines 150-153). -/
def cellPoint (P : GeoPrims) (mesoLink : NetworkLinkMesoscopic) (line : LineString) (j : Nat) :
    Point :=
  P.pointAtDistanceAlongLine line
    (mesoLink.lengthMeters * ((j : ℚ) / (cellsNumOf mesoLink.lengthMeters : ℚ)))

/-- The node ID is the first node of a lane chain of one of the mesoscopic
links `ms` of the table. -/
def HeadIn (tbl : GoMap NetworkLinkMesoscopic) (ms : List Int) (x : Int) : Prop :=
  ∃ m ∈ ms, ∃ ml, mapGet? tbl m = some ml ∧ ChainHead ml x

/-- Chain by chain, the mesoscopic link `ml'` is `ml` up to last slots that
took a node ID with the property `H`: `lanesNum` and the number of lanes are
the same, and every chain is as it was or has such an ID in its last slot. -/
def ChainsSpliced (H : Int → Prop) (ml ml' : NetworkLinkMesoscopic) : Prop :=
  ml'.lanesNum = ml.lanesNum ∧ ml'.microNodesPerLane.length = ml.microNodesPerLane.length
    ∧ ∀ (q : Nat) (c : List Int), (laneChains ml)[q]? = some c →
        (laneChains ml')[q]? = some c
          ∨ ∃ x, H x ∧ (laneChains ml')[q]? = some (c.set (c.length - 1) x)

/-- The build `s` in the stitching loop over the mesoscopic links `ms` that
started from the build `b`, with `U` the upstream links done: the links outside
`U` are as in `b`; every mesoscopic link of `s` is the one of `b` up to last
slots that took the first node of a chain of `b`; and a node of `b` is in `s`
unless it was the last node of a chain of `b` whose last slot took the first
node of a chain of `b`. -/
def Spliced (ms U : List Int) (b s : MicroBuild) : Prop :=
  (∀ key, key ∉ U → mapGet? s.mesoLinks key = mapGet? b.mesoLinks key)
    ∧ (∀ key ml', mapGet? s.mesoLinks key = some ml' →
        ∃ ml, mapGet? b.mesoLinks key = some ml
          ∧ ChainsSpliced (HeadIn b.mesoLinks ms) ml ml')
    ∧ (∀ y, mapGet? s.nodes y = mapGet? b.nodes y
        ∨ ∃ key ∈ ms, ∃ (ml ml' : NetworkLinkMesoscopic) (q : Nat) (c : List Int) (x : Int),
            mapGet? b.mesoLinks key = some ml ∧ mapGet? s.mesoLinks key = some ml'
            ∧ (laneChains ml)[q]? = some c ∧ c.getLast? = some y
            ∧ HeadIn b.mesoLinks ms x
            ∧ (laneChains ml')[q]? = some (c.set (c.length - 1) x))

/-- Every node ID of a lane chain of the mesoscopic links `ms` is a key of the
node table. -/
def ChainNodesPresent (s : MicroBuild) (ms : List Int) : Prop :=
  ∀ m ∈ ms, ∀ ml, mapGet? s.mesoLinks m = some ml →
    ∀ c ∈ laneChains ml, ∀ x ∈ c, (mapGet? s.nodes x).isSome

/-- The lanes of each of the mesoscopic links `ms` have the same length. -/
def EvenLanes (tbl : GoMap NetworkLinkMesoscopic) (ms : List Int) : Prop :=
  ∀ m ∈ ms, ∀ ml, mapGet? tbl m = some ml →
    ∀ a ∈ ml.microNodesPerLane, ∀ c ∈ ml.microNodesPerLane, a.length = c.length

/-- The node `n'` has the ID and the incidence lists of the node `n`. -/
def EdgesSame (n n' : NetworkNodeMicroscopic) : Prop :=
  n'.ID = n.ID ∧ n'.incomingLinks = n.incomingLinks ∧ n'.outcomingLinks = n.outcomingLinks

/-- The node has the ID `x` and no incident links, as the node literals of
lines 182-192 and 626-636. -/
def BareNode (x : Int) (n : NetworkNodeMicroscopic) : Prop :=
  n.ID = x ∧ n.incomingLinks = [] ∧ n.outcomingLinks = []

/-- The incidence lists of the nodes agree with the links: every link is
stored under its ID, its ID occurs once in `outcomingLinks` of its source node
and once in `incomingLinks` of its target node; every node is stored under its
ID, and every ID in its `outcomingLinks` (`incomingLinks`) is the key of a link
whose source (target) it is. -/
def Incident (nodes : GoMap NetworkNodeMicroscopic) (links : GoMap NetworkLinkMicroscopic) :
    Prop :=
  (∀ k l, mapGet? links k = some l → l.ID = k
      ∧ (∃ n, mapGet? nodes l.sourceNodeID = some n ∧ n.outcomingLinks.count k = 1)
      ∧ (∃ n, mapGet? nodes l.targetNodeID = some n ∧ n.incomingLinks.count k = 1))
    ∧ (∀ x n, mapGet? nodes x = some n → n.ID = x
      ∧ (∀ k ∈ n.outcomingLinks, ∃ l, mapGet? links k = some l ∧ l.sourceNodeID = x)
      ∧ (∀ k ∈ n.incomingLinks, ∃ l, mapGet? links k = some l ∧ l.targetNodeID = x))

/-- The ID invariant of the build together with the agreement of the incidence
lists with the links. -/
def IncInv (s : MicroBuild) : Prop :=
  IdsInv s ∧ Incident s.nodes s.links

/-- The step from `s` to `s'` keeps `IncInv`. -/
def IncStep (s s' : MicroBuild) : Prop :=
  IncInv s → IncInv s'

/-- What the steps before the links of a macroscopic link are created keep: the
links and the link counter; a node stays with its ID and its incidence lists
unless it has no incident links; and a node of `s'` is a node of `s` with the
same ID and incidence lists or a node without incident links. -/
def NodeStep (s s' : MicroBuild) : Prop :=
  s'.links = s.links ∧ s'.lastLinkID = s.lastLinkID
    ∧ (∀ y n, mapGet? s.nodes y = some n →
        (∃ n', mapGet? s'.nodes y = some n' ∧ EdgesSame n n')
          ∨ (n.incomingLinks = [] ∧ n.outcomingLinks = []))
    ∧ (∀ y n', mapGet? s'.nodes y = some n' →
        (∃ n, mapGet? s.nodes y = some n ∧ EdgesSame n n') ∨ BareNode y n')
/-! ## Properties of the movements at a node -/

/-- The outgoing links that `genMovement` pairs with the incoming link
`incomingLink`: those that do not lead to its source node, in the order of
`outcomingLinks`. -/
def admissibleOutcoming (links : GoMap NetworkLink) (incomingLink : NetworkLink)
    (outcomingLinks : List Int) : List NetworkLink :=
  outcomingLinks.filterMap (fun outcomingLinkID =>
    match mapGet? links outcomingLinkID with
    | some outcomingLink =>
      if incomingLink.sourceNodeID ≠ outcomingLink.targetNodeID then some outcomingLink
      else none
    | none => none)

/-- The admissible pairs of a node: every incoming link ID with the ID of every
admissible outgoing link, incoming links first. -/
def admissiblePairs (node : NetworkNode) (links : GoMap NetworkLink) : List (Int × Int) :=
  node.incomingLinks.flatMap (fun incomingLinkID =>
    match mapGet? links incomingLinkID with
    | some incomingLink =>
      (admissibleOutcoming links incomingLink node.outcomingLinks).map
        (fun outcomingLink => (incomingLinkID, outcomingLink.ID))
    | none => [])

/-- The helper `getIntersectionsConnections` returns, for every outgoing link
of its list, an entry with the two lane ranges that `genMovement` reads. -/
def ConnectionsGiven (getIntersectionsConnections : NetworkLink → List NetworkLink →
    List (List (Int × Int))) : Prop :=
  ∀ incomingLink outcomingLinksList (i : Nat), i < outcomingLinksList.length →
    ∃ connection income outcome,
      (getIntersectionsConnections incomingLink outcomingLinksList)[i]? = some connection
        ∧ connection[0]? = some income ∧ connection[1]? = some outcome

/-! ## Specification predicates for the scans of `osm_loader.go` -/

/-- The two tables have the same keys. -/
def SameKeys (m m' : GoMap Node) : Prop :=
  ∀ k, mapGet? m k = none ↔ mapGet? m' k = none

/-- What a block of `flattenTags` leaves as it is: the direction flags, the
node list and the tags. -/
def SameWay (a b : WayWithNodes) : Prop :=
  b.Oneway = a.Oneway ∧ b.OnewayDefault = a.OnewayDefault ∧ b.IsReversed = a.IsReversed
    ∧ b.Nodes = a.Nodes ∧ b.TagMap = a.TagMap

/-- The number that a text of decimal digits stands for. -/
def decimalValue (cs : List Char) : Nat :=
  cs.foldl (fun a c => 10 * a + (c.toNat - 48)) 0

/-- The text `s` is a plain decimal integer, a non-empty run of digits, that
stands for the number `n` of the range of `int`. -/
def PlainInteger (s : String) (n : Int) : Prop :=
  s.toList ≠ [] ∧ s.toList.all Char.isDigit = true ∧ n = (decimalValue s.toList : Int)
    ∧ n ≤ (2 : Int) ^ 63 - 1

/-- The text `s` has no digit. -/
def NoDigit (s : String) : Prop := ∀ c ∈ s.toList, c.isDigit = false


/-- Every key of `m` is a key of `counted`, and no node of `m` has a larger use
count than in `counted`. -/
def CountedFrom (m counted : GoMap Node) : Prop :=
  ∀ k, (mapGet? m k = none → mapGet? counted k = none)
    ∧ ∀ n, mapGet? m k = some n →
        ∃ n', mapGet? counted k = some n' ∧ n.useCount ≤ n'.useCount

/-- No node of the table has a negative use count. -/
def CountsNonNeg (m : GoMap Node) : Prop :=
  ∀ k n, mapGet? m k = some n → 0 ≤ n.useCount

/-- The node `id` is in the table and is a split node: its use count is at
least 2. -/
def SplitIn (m : GoMap Node) (id : Int) : Prop :=
  ∃ n, mapGet? m id = some n ∧ 2 ≤ n.useCount

/-- The edges `F` lead from node `a` to node `b`: the first one starts at `a`,
every one ends where the next one starts, the last one ends at `b`. -/
def LeadsFrom : List Edge → Int → Int → Prop
  | [], a, b => a = b
  | e :: t, a, b => e.SourceNodeID = a ∧ LeadsFrom t e.TargetNodeID b

/-- The edge that follows a forward edge `e` of a way that is not one-way:
the next ID, source and target swapped, the same cost, the geometry
reversed by `reverseLine`. -/
def swappedEdge (e : Edge) : Edge :=
  { ID := e.ID + 1, WayID := e.WayID, SourceNodeID := e.TargetNodeID,
    TargetNodeID := e.SourceNodeID, CostMeters := e.CostMeters, Geom := reverseLine e.Geom,
    WasOneway := false }

/-- The edges emitted for a way with the forward edges `F`, in the order of
emission. -/
def emittedEdges (way : Way) (F : List Edge) : List Edge :=
  if way.Oneway then F else F.flatMap (fun e => [e, swappedEdge e])

/-- The invariant of the slicing loop of a way after its first node: the edges
emitted so far for the way are those of forward edges `F` that lead from the
first node to the current `source`, all their endpoints are split nodes, and so
is `source`. -/
def SliceInv (m : GoMap Node) (way : Way) (base : List Edge) (first : Int)
    (st : SliceState) : Prop :=
  ∃ F : List Edge, st.edges = base ++ emittedEdges way F ∧ LeadsFrom F first st.source
    ∧ (∀ e ∈ F, SplitIn m e.SourceNodeID ∧ SplitIn m e.TargetNodeID)
    ∧ SplitIn m st.source

/-- The member has a role other than `from`, `to` and `via`. -/
def UnsupportedRole (member : Member) : Prop :=
  member.Role ≠ "from" ∧ member.Role ≠ "via" ∧ member.Role ≠ "to"

instance (member : Member) : Decidable (UnsupportedRole member) := by
  unfold UnsupportedRole
  exact inferInstance

/-- The number of members with an unsupported role. -/
def unsupportedCount (members : List Member) : Int :=
  ((members.filter (fun member => decide (UnsupportedRole member))).length : Int)

/-- What the three `switch` blocks leave in `firstMember`, `secondMember` and
`thirdMember` for the members `m0`, `m1`, `m2`. -/
def memberVars (m0 m1 m2 : Member) : RoleVars :=
  memberStep (memberStep (memberStep (startVars 0) m0) m1) m2

/-- The key `(tag, from, to)` under which the scan stores a relation; `none`
for a relation that the scan passes over (no tag `restriction`, or not three
members). -/
def relationKey (relation : Relation) :
    Option (String × restrictionComponent × restrictionComponent) :=
  match relation.restriction, relation.Members with
  | some tag, [m0, m1, m2] =>
    some (tag, (memberVars m0 m1 m2).firstMember, (memberVars m0 m1 m2).secondMember)
  | _, _ => none

/-- The restriction `(tag, from, to, via)` is an entry of the table. -/
def EntryIn (T : RestrictionTable) (tag : String) (f t v : restrictionComponent) : Prop :=
  ∃ k vv, (tag, k) ∈ T ∧ (f, vv) ∈ k ∧ (t, v) ∈ vv

/-- The table has an entry under `(tag, from, to)`. -/
def KeyIn (T : RestrictionTable) (tag : String) (f t : restrictionComponent) : Prop :=
  ∃ v, EntryIn T tag f t v

/-- The table is a map of maps of maps: no key occurs twice in one map. -/
def WellKeyed (T : RestrictionTable) : Prop :=
  (T.map Prod.fst).Nodup
    ∧ ∀ p ∈ T, (p.2.map Prod.fst).Nodup ∧ ∀ q ∈ p.2, (q.2.map Prod.fst).Nodup

/-- How many of `firstMember`, `secondMember`, `thirdMember` were assigned a
value other than the start value. -/
def assignedVars (v : RoleVars) : Nat :=
  (if v.firstMember = ⟨-1, ""⟩ then 0 else 1) + (if v.secondMember = ⟨-1, ""⟩ then 0 else 1)
    + (if v.thirdMember = ⟨-1, ""⟩ then 0 else 1)
/-! ## Specification predicates for the use counts and the breakpoint loop -/

/-- The position `i` of a way with `len` nodes is the first or the last one
(`i == 0 || i == len(way.Nodes)-1`). -/
def isEndPosition (len : Nat) (i : Nat) : Bool :=
  decide (i = 0 ∨ i + 1 = len)

/-- The number of occurrences of the node `id` at interior positions of the
way. -/
def interiorUses (id : Int) (wayNodes : List Int) : Nat :=
  (wayNodes.enum.filter (fun iw =>
    decide (iw.2 = id) && !isEndPosition wayNodes.length iw.1)).length

/-- The number of positions of the way at which the node `id` is the first or
the last node; a position that is both counts once. -/
def endUses (id : Int) (wayNodes : List Int) : Nat :=
  (wayNodes.enum.filter (fun iw =>
    decide (iw.2 = id) && isEndPosition wayNodes.length iw.1)).length

/-- The use count of the node `id` as the specification gives it: over all
ways, its occurrences at interior positions plus twice the positions at which it
is the first or the last node. -/
def specUseCount (id : Int) (ways : List (List Int)) : Int :=
  (ways.map (fun w => (interiorUses id w : Int) + 2 * (endUses id w : Int))).sum

/-- The index set `remove` of one round of the loop of lines 29-41 for the
breakpoints that are left (lines 31-36): the indices of the breakpoints within
`resolution` of the first one, `target`. -/
def removeCandidates (breakpoints : List ℚ) : List Nat :=
  match breakpoints with
  | [] => []
  | target :: _ =>
    (List.range breakpoints.length).filter (fun idx =>
      decide (target - resolution ≤ breakpoints.getD idx 0
        ∧ breakpoints.getD idx 0 ≤ target + resolution))
/-! ## Example data for the restriction stage -/

/-- An expanded edge from way `sw` to way `tw` through node `via`. -/
def exEdge (id sw tw via : Int) : ExpandedEdge :=
  { ID := id, Source := id, Target := id + 1, SourceOSMWayID := sw, TargetOSMWayID := tw,
    SourceComponent := ⟨1, via, [], 0⟩, TargetComponent := ⟨via, 2, [], 0⟩,
    WasOneway := false, CostMeters := 1, Geom := [] }

/-- Four turns at a crossing of ways 10, 20 and 30; node 5 is the crossing. -/
def exEdges : List ExpandedEdge :=
  [exEdge 1 10 20 5, exEdge 2 10 30 5, exEdge 3 20 10 5, exEdge 4 10 30 6]

/-! ## Example data for edge slicing and edge expansion -/

/-- Modelled from the spec: `findOutComingEdges` is not among the sources; it
finds all outgoing edges `f` such that `e.target == f.source`.  The theorems
hold for every function in its place; the examples use this one. -/
def findOutComingEdges (edge : Edge) (edges : List Edge) : List Int :=
  (edges.filter (fun f => f.SourceNodeID == edge.TargetNodeID)).map (fun f => f.ID)

/-- A stand-in for `findMiddlePoint` on the examples: the middle of the first
segment.  The theorems hold for every function in its place. -/
def exFindMiddlePoint (g : List GeoPoint) : Int × GeoPoint :=
  match g with
  | a :: b :: _ => (0, ⟨(a.Lon + b.Lon) / 2, (a.Lat + b.Lat) / 2⟩)
  | _ => (0, GeoPoint.zero)

/-- A stand-in for `getSphericalLength` on the examples. -/
def exLength (g : List GeoPoint) : ℚ := (g.length : ℚ)

/-- Four nodes with the use counts of `exWays`. -/
def exNodes (id : Int) : Option Node :=
  if id = 1 then some ⟨1, 2, 0, 0⟩
  else if id = 2 then some ⟨2, 3, 2, 0⟩
  else if id = 3 then some ⟨3, 2, 4, 0⟩
  else if id = 4 then some ⟨4, 2, 2, 2⟩
  else none

/-- A bidirectional way 1-2-3 and a one-way way 2-4. -/
def exWays : List Way := [⟨10, false, [1, 2, 3], []⟩, ⟨20, true, [2, 4], []⟩]

/-- Three edges: 1 → 2 and back on way 10, and 2 → 4 on way 20. -/
def exSliced : List Edge :=
  [⟨1, 10, 1, 2, 2, [⟨0, 0⟩, ⟨2, 0⟩], false⟩, ⟨2, 10, 2, 1, 2, [⟨2, 0⟩, ⟨0, 0⟩], false⟩,
   ⟨3, 20, 2, 4, 4, [⟨2, 0⟩, ⟨2, 1⟩, ⟨2, 2⟩], true⟩]

/-- The one expanded edge of `exSliced`: the turn from edge 1 into edge 3. -/
def exExpanded : ExpandedEdge :=
  { ID := 1, Source := 1, Target := 3, SourceOSMWayID := 10, TargetOSMWayID := 20,
    SourceComponent := ⟨1, 2, [], 0⟩, TargetComponent := ⟨2, 4, [], 0⟩, WasOneway := false,
    CostMeters := float64Div (float64Add 2 4) 2,
    Geom := [⟨(0 + 2) / 2, (0 + 0) / 2⟩, ⟨2, 0⟩, ⟨2, 0⟩, ⟨(2 + 2) / 2, (0 + 1) / 2⟩] }

/-- The expanded edges of the sliced `exWays`. -/
def exWaysExpanded : List ExpandedEdge :=
  (expandEdges findOutComingEdges exFindMiddlePoint
    (prepareEdges exLength exNodes exWays)).getD []


/-- A restrictions table with a `no_left_turn` from way 10 to way 20 and an
`only_straight_on` from way 20 to way 10, both via node 5. -/
def exTurnTable : RestrictionTable :=
  [("no_left_turn", [(⟨10, "way"⟩, [(⟨20, "way"⟩, ⟨5, "node"⟩)])]),
   ("only_straight_on", [(⟨20, "way"⟩, [(⟨10, "way"⟩, ⟨5, "node"⟩)])])]
/-! ## Example data for the mesoscopic and microscopic builders -/

/-- A macroscopic link of 3 m with one lane, as in scenario S1 of the spec. -/
def exShortLink : NetworkLink :=
  { ID := 1, sourceNodeID := 1, targetNodeID := 2, allowedAgentTypes := [AgentType.AGENT_AUTO],
    lengthMeters := 3, breakpoints := [], lanesList := [], lanesChange := [], mesolinks := [] }

/-- A macroscopic link of 12 m with one lane and no breakpoints. -/
def exLongLink : NetworkLink :=
  { exShortLink with ID := 2, lengthMeters := 12 }

/-- Stand-ins for the geometric primitives on the examples: points move along
the x axis, offsets along the y axis.  The theorems hold for all primitives. -/
def exPrims : GeoPrims :=
  { laneWidth := 3
    offsetCurve := fun l d => l.map (fun p => (p.1, p.2 + d))
    lineToSpherical := fun l => l
    pointToEuclidean := fun p => p
    pointAtDistanceAlongLine := fun l d =>
      match l with
      | a :: _ => (a.1 + d, a.2)
      | [] => (d, 0)
    lengthHaversign := fun l =>
      match l with
      | [a, b] => |b.1 - a.1| + |b.2 - a.2|
      | _ => 0 }

/-- A mesoscopic link with `lanes` lanes, left lane change `left`, starting at
`x0` and `len` metres long, without microscopic nodes and without movement. -/
def exMeso (id : Int) (lanes : Int) (left : Int) (x0 len : ℚ) : NetworkLinkMesoscopic :=
  { ID := id, sourceNodeID := 1, targetNodeID := 2, lanesNum := lanes, lanesChange := [left, 0],
    geom := [(x0, 0), (x0 + len, 0)], geomEuclidean := [(x0, 0), (x0 + len, 0)],
    lengthMeters := len, microNodesPerLane := [], microNodesBikeLane := [],
    microNodesWalkLane := [], movementID := -1, movementLinkIncome := -1,
    movementLinkOutcome := -1, movementIncomeLaneStart := -1, movementOutcomeLaneStart := -1 }

/-- A macroscopic link from node 1 to node 2 with the given mesoscopic links. -/
def exMacro (id : Int) (lanes : Int) (mesos : List Int) (agents : List AgentType) : NetworkLink :=
  { ID := id, sourceNodeID := 1, targetNodeID := 2, allowedAgentTypes := agents,
    lengthMeters := 9, breakpoints := [], lanesList := [lanes], lanesChange := [],
    mesolinks := mesos }

/-- Two macroscopic nodes with zones 7 and 8. -/
def exMacroNodes : GoMap NetworkNode :=
  [(1, ⟨1, [], [], 7, BoundaryType.BOUNDARY_NONE⟩), (2, ⟨2, [], [], 8, BoundaryType.BOUNDARY_NONE⟩)]

/-- The two nodes of the mesoscopic network. -/
def exMesoNodes : GoMap NetworkNodeMesoscopic :=
  [(1, ⟨1, BoundaryType.BOUNDARY_NONE⟩), (2, ⟨2, BoundaryType.other 1⟩)]

/-- One macroscopic link of one lane cut into two mesoscopic links of 4 m. -/
def exTwoSegRun : Except Failure (NetworkMicroscopic × GoMap NetworkLinkMesoscopic) :=
  genMicroscopicNetwork exPrims [(100, exMacro 100 1 [10, 11] [AgentType.AGENT_AUTO])]
    exMacroNodes [(10, exMeso 10 1 0 0 4), (11, exMeso 11 1 0 4 4)] exMesoNodes false

/-- The result of `exTwoSegRun`. -/
def exTwoSegResult : NetworkMicroscopic × GoMap NetworkLinkMesoscopic :=
  match exTwoSegRun with
  | .ok r => r
  | .error _ => (⟨[], [], 0, 0⟩, [])

/-- A movement link of one lane from mesoscopic link 10 to mesoscopic link 11. -/
def exMove : NetworkLinkMesoscopic :=
  { exMeso 12 1 0 0 9 with
    movementID := 0, movementLinkIncome := 10, movementLinkOutcome := 11,
    movementIncomeLaneStart := 0, movementOutcomeLaneStart := 0 }

/-- Two macroscopic links of one mesoscopic link each. -/
def exMoveMacro : GoMap NetworkLink :=
  [(100, exMacro 100 1 [10] [AgentType.AGENT_AUTO]),
   (101, exMacro 101 1 [11] [AgentType.AGENT_AUTO])]

/-- The two mesoscopic links, 9 m apart, and the movement between them. -/
def exMoveMeso : GoMap NetworkLinkMesoscopic :=
  [(10, exMeso 10 1 0 0 4), (11, exMeso 11 1 0 13 4), (12, exMove)]

/-- The build of the movement example when `connectLinks` is called. -/
def exMoveMid : MicroBuild :=
  match buildCells exPrims exMoveMacro exMacroNodes exMoveMeso false with
  | .ok s => s
  | .error _ => ⟨[], [], 0, 0, []⟩

/-- The build of the movement example after `connectLinks`. -/
def exMoveBuilt : MicroBuild :=
  match connectLinks exPrims exMoveMid with
  | .ok s => s
  | .error _ => ⟨[], [], 0, 0, []⟩

/-- The network of the movement example. -/
def exMoveResult : NetworkMicroscopic × GoMap NetworkLinkMesoscopic :=
  match genMicroscopicNetwork exPrims exMoveMacro exMacroNodes exMoveMeso exMesoNodes false with
  | .ok r => r
  | .error _ => (⟨[], [], 0, 0⟩, [])

/-- One macroscopic link of three lanes cut into the mesoscopic links 10 and 11. -/
def exStitchMacro : NetworkLink :=
  exMacro 100 3 [10, 11] [AgentType.AGENT_AUTO]

/-- The build before the macroscopic link `exStitchMacro` is processed: two
mesoscopic links of three lanes and 4 m, with left lane changes 0 and 1. -/
def exStitch0 : MicroBuild :=
  { nodes := [], links := [], lastNodeID := 0, lastLinkID := 0,
    mesoLinks := [(10, exMeso 10 3 0 0 4), (11, exMeso 11 3 1 4 4)] }

/-- The build after the nodes of `exStitchMacro` are created. -/
def exStitch1 : MicroBuild :=
  match exStitchMacro.mesolinks.foldlM (createMesoNodes exPrims false false 3) exStitch0 with
  | .ok s => s
  | .error _ => exStitch0

/-- The build after the marks of `exStitchMacro`. -/
def exStitch2 : MicroBuild :=
  match markTargets exMacroNodes exStitchMacro false false exStitch1 with
  | .ok s => s
  | .error _ => exStitch0

/-- The build after the stitching loop of `exStitchMacro`. -/
def exStitch3 : MicroBuild :=
  match (adjacentPairs exStitchMacro.mesolinks).foldlM (stitchPair false false) exStitch2 with
  | .ok s => s
  | .error _ => exStitch0

/-- Two macroscopic links that both list the mesoscopic link 11. -/
def exSharedResult : NetworkMicroscopic × GoMap NetworkLinkMesoscopic :=
  match genMicroscopicNetwork exPrims
    [(100, exMacro 100 1 [10, 11] [AgentType.AGENT_AUTO]),
     (101, exMacro 101 1 [11, 12] [AgentType.AGENT_AUTO])]
    exMacroNodes [(10, exMeso 10 1 0 0 4), (11, exMeso 11 1 0 4 4), (12, exMeso 12 1 0 8 4)]
    exMesoNodes false with
  | .ok r => r
  | .error _ => (⟨[], [], 0, 0⟩, [])

/-- A mesoscopic link of 3 m with one lane, alone in its macroscopic link. -/
def exCellMacro : GoMap NetworkLink :=
  [(100, exMacro 100 1 [10] [AgentType.AGENT_AUTO])]

/-- The table of mesoscopic links of `exCellMacro`. -/
def exCellMeso : GoMap NetworkLinkMesoscopic :=
  [(10, exMeso 10 1 0 0 3)]

/-- The build before the nodes of `exCellMacro` are created. -/
def exCell0 : MicroBuild :=
  { nodes := [], links := [], lastNodeID := 0, lastLinkID := 0, mesoLinks := exCellMeso }

/-- The build after the nodes of the mesoscopic link 10 are created. -/
def exCell1 : MicroBuild :=
  match createMesoNodes exPrims false false 1 exCell0 10 with
  | .ok s => s
  | .error _ => exCell0

/-- The network of `exCellMacro`. -/
def exCellResult : NetworkMicroscopic × GoMap NetworkLinkMesoscopic :=
  match genMicroscopicNetwork exPrims exCellMacro exMacroNodes exCellMeso exMesoNodes false with
  | .ok r => r
  | .error _ => (⟨[], [], 0, 0⟩, [])


/-- The build after the links of the mesoscopic link 10 of `exStitchMacro`
are created. -/
def exStitchLinks : MicroBuild :=
  match createMesoLinks [AgentType.AGENT_AUTO] false false exStitch3 10 with
  | .ok s => s
  | .error _ => exStitch0

/-- The mesoscopic link 10 of `exStitchMacro` after the stitching loop. -/
def exStitchUp : NetworkLinkMesoscopic :=
  { exMeso 10 3 0 0 4 with microNodesPerLane := [[0, 8], [2, 10], [4, 5]] }

/-- A macroscopic link of one lane for auto, bike and walk with one mesoscopic
link. -/
def exTenMacro : GoMap NetworkLink :=
  [(100, exMacro 100 1 [10] [AgentType.AGENT_AUTO, AgentType.AGENT_BIKE, AgentType.AGENT_WALK])]

/-- The mesoscopic link of `exTenMacro`: one lane, 10 m. -/
def exTenMeso : GoMap NetworkLinkMesoscopic :=
  [(10, exMeso 10 1 0 0 10)]

/-- The network of `exTenMacro` with separate bike and walk lanes. -/
def exTenResult : NetworkMicroscopic × GoMap NetworkLinkMesoscopic :=
  match genMicroscopicNetwork exPrims exTenMacro exMacroNodes exTenMeso exMesoNodes true with
  | .ok r => r
  | .error _ => (⟨[], [], 0, 0⟩, [])

/-- Two mesoscopic nodes with different boundary types. -/
def exBoundaryMesoNodes : GoMap NetworkNodeMesoscopic :=
  [(1, ⟨1, BoundaryType.other 2⟩), (2, ⟨2, BoundaryType.other 1⟩)]

/-- A node table for `updateBoundaryType`: an upstream node, a downstream node
and an inner node of the mesoscopic link 10, and a node without mesoscopic
link; all come with the boundary type `other 9`. -/
def exBoundaryNodes : GoMap NetworkNodeMicroscopic :=
  [(0, { newMicroNode 0 ((0, 0), (0, 0)) 10 1 with
           isLinkUpstreamTargetNode := true, boundaryType := BoundaryType.other 9 }),
   (1, { newMicroNode 1 ((3, 0), (3, 0)) 10 1 with
           isLinkDownstreamTargetNode := true, boundaryType := BoundaryType.other 9 }),
   (2, { newMicroNode 2 ((1, 0), (1, 0)) 10 1 with boundaryType := BoundaryType.other 9 }),
   (3, { newMicroNode 3 ((2, 0), (2, 0)) (-1) 1 with
           isLinkUpstreamTargetNode := true, boundaryType := BoundaryType.other 9 })]

/-- The table `exBoundaryNodes` after `updateBoundaryType`. -/
def exBoundaryResult : GoMap NetworkNodeMicroscopic :=
  match updateBoundaryType exCellMeso exBoundaryMesoNodes exBoundaryNodes with
  | .ok r => r
  | .error _ => []


/-- A macroscopic link of two lanes for auto and bike, cut into two mesoscopic
links of 9 m. -/
def exMarkMacro : GoMap NetworkLink :=
  [(100, exMacro 100 2 [10, 11] [AgentType.AGENT_AUTO, AgentType.AGENT_BIKE])]

/-- The mesoscopic links of `exMarkMacro`. -/
def exMarkMeso : GoMap NetworkLinkMesoscopic :=
  [(10, exMeso 10 2 0 0 9), (11, exMeso 11 2 0 9 9)]

/-- The network of `exMarkMacro` with a separate bike chain. -/
def exMarkResult : NetworkMicroscopic × GoMap NetworkLinkMesoscopic :=
  match genMicroscopicNetwork exPrims exMarkMacro exMacroNodes exMarkMeso exMesoNodes true with
  | .ok r => r
  | .error _ => (⟨[], [], 0, 0⟩, [])


/-- The network of the movement example when the loop over `macroNet.links`
visits the macroscopic link 101 before the macroscopic link 100. -/
def exMoveResultRev : NetworkMicroscopic × GoMap NetworkLinkMesoscopic :=
  match genMicroscopicNetwork exPrims exMoveMacro.reverse exMacroNodes exMoveMeso exMesoNodes
    false with
  | .ok r => r
  | .error _ => (⟨[], [], 0, 0⟩, [])

/-- The macroscopic links of the movement example and, between them, a
macroscopic link without mesoscopic links. -/
def exMoveMacroIdle : GoMap NetworkLink :=
  [(100, exMacro 100 1 [10] [AgentType.AGENT_AUTO]),
   (102, exMacro 102 1 [] [AgentType.AGENT_AUTO]),
   (101, exMacro 101 1 [11] [AgentType.AGENT_AUTO])]

/-- A macroscopic link of two lanes cut into the mesoscopic links 10 and 11,
and a second macroscopic link with the mesoscopic link 13. -/
def exOwnMacro : GoMap NetworkLink :=
  [(100, exMacro 100 2 [10, 11] [AgentType.AGENT_AUTO]),
   (101, exMacro 101 2 [13] [AgentType.AGENT_AUTO])]

/-- The three mesoscopic links of two lanes, and a movement link of two lanes
from link 11 to link 13, which lies 9 m further on. -/
def exOwnMeso : GoMap NetworkLinkMesoscopic :=
  [(10, exMeso 10 2 0 0 4), (11, exMeso 11 2 0 4 4), (13, exMeso 13 2 0 17 4),
   (12, { exMeso 12 2 0 0 9 with
      movementID := 0, movementLinkIncome := 11, movementLinkOutcome := 13,
      movementIncomeLaneStart := 0, movementOutcomeLaneStart := 0 })]

/-- The network of the example with stitched lanes and a movement. -/
def exOwnResult : NetworkMicroscopic × GoMap NetworkLinkMesoscopic :=
  match genMicroscopicNetwork exPrims exOwnMacro exMacroNodes exOwnMeso exMesoNodes false with
  | .ok r => r
  | .error _ => (⟨[], [], 0, 0⟩, [])

/-- A build with the mesoscopic link 10 of the given number of lanes and 4 m,
before any node is created. -/
def exSideStart (lanes : Int) : MicroBuild :=
  ⟨[], [], 0, 0, [(10, exMeso 10 lanes 0 0 4)]⟩

/-- The build `exSideStart lanes` after the nodes of link 10 are created with a
bike chain and a walk chain. -/
def exSideBuilt (lanes : Int) : MicroBuild :=
  match createMesoNodes exPrims true true (lanes : ℚ) (exSideStart lanes) 10 with
  | .ok s => s
  | .error _ => ⟨[], [], 0, 0, []⟩

/-- One macroscopic link cut into the mesoscopic links 10 and 11. -/
def exJoinMacro : NetworkLink :=
  exMacro 100 2 [10, 11] [AgentType.AGENT_AUTO]

/-- The build before the macroscopic link `exJoinMacro` is processed: a
mesoscopic link of two lanes and one of one lane, both of 4 m. -/
def exJoin0 : MicroBuild :=
  { nodes := [], links := [], lastNodeID := 0, lastLinkID := 0,
    mesoLinks := [(10, exMeso 10 2 0 0 4), (11, exMeso 11 1 0 4 4)] }

/-- The build after the nodes of `exJoinMacro` are created, with bike and walk
chains. -/
def exJoin1 : MicroBuild :=
  match exJoinMacro.mesolinks.foldlM (createMesoNodes exPrims true true 2) exJoin0 with
  | .ok s => s
  | .error _ => exJoin0

/-- The build after the marks of `exJoinMacro`. -/
def exJoin2 : MicroBuild :=
  match markTargets exMacroNodes exJoinMacro true true exJoin1 with
  | .ok s => s
  | .error _ => exJoin0

/-- The build after the stitching loop of `exJoinMacro`. -/
def exJoin3 : MicroBuild :=
  match (adjacentPairs exJoinMacro.mesolinks).foldlM (stitchPair true true) exJoin2 with
  | .ok s => s
  | .error _ => exJoin0

/-- The build after the links of `exJoinMacro` are created. -/
def exJoin4 : MicroBuild :=
  match exJoinMacro.mesolinks.foldlM
      (createMesoLinks [AgentType.AGENT_AUTO] true true) exJoin3 with
  | .ok s => s
  | .error _ => exJoin0

/-- The macroscopic links of the movement example and a third one that lists
the movement link 12 among its mesoscopic links. -/
def exListedMacro : GoMap NetworkLink :=
  exMoveMacro ++ [(102, exMacro 102 1 [12] [AgentType.AGENT_AUTO])]

/-- The network of the movement example when a macroscopic link lists the
movement link. -/
def exListedResult : NetworkMicroscopic × GoMap NetworkLinkMesoscopic :=
  match genMicroscopicNetwork exPrims exListedMacro exMacroNodes exMoveMeso exMesoNodes
    false with
  | .ok r => r
  | .error _ => (⟨[], [], 0, 0⟩, [])

/-- A macroscopic link with the mesoscopic link 10 and a second one with the
mesoscopic links 11 and 12. -/
def exFilledMacro : GoMap NetworkLink :=
  [(100, exMacro 100 1 [10] [AgentType.AGENT_AUTO]),
   (101, exMacro 101 1 [11, 12] [AgentType.AGENT_AUTO])]

/-- Three mesoscopic links of one lane; link 11 comes with a lane list that is
not empty, the chain `[0, 1]`. -/
def exFilledMeso : GoMap NetworkLinkMesoscopic :=
  [(10, exMeso 10 1 0 0 4),
   (11, { exMeso 11 1 0 4 4 with microNodesPerLane := [[0, 1]] }),
   (12, exMeso 12 1 0 8 4)]

/-- The network of the example with a lane list that is not empty at the start. -/
def exFilledResult : NetworkMicroscopic × GoMap NetworkLinkMesoscopic :=
  match genMicroscopicNetwork exPrims exFilledMacro exMacroNodes exFilledMeso exMesoNodes
    false with
  | .ok r => r
  | .error _ => (⟨[], [], 0, 0⟩, [])
/-! ## Example data for the movements at a node -/

/-- A macroscopic link from node `s` to node `t`. -/
def exWay (id s t : Int) : NetworkLink :=
  { exShortLink with ID := id, sourceNodeID := s, targetNodeID := t }

/-- A stand-in for `getIntersectionsConnections` on the examples: every
outgoing link is connected from lane 0 to lane 0. -/
def exConnections (_ : NetworkLink) (outcomingLinksList : List NetworkLink) :
    List (List (Int × Int)) :=
  outcomingLinksList.map (fun _ => [(0, 0), (0, 0)])

/-- Node 20 with the incoming link 1 from node 10 and the one outgoing link 2
to node 30. -/
def exThroughNode : NetworkNode :=
  { ID := 20, incomingLinks := [1], outcomingLinks := [2], zoneID := -1,
    boundaryType := BoundaryType.BOUNDARY_NONE }

/-- The links at `exThroughNode`. -/
def exThroughLinks : GoMap NetworkLink :=
  [(1, exWay 1 10 20), (2, exWay 2 20 30)]

/-- Node 20 with the incoming links 1 and 3 and the outgoing links 2 and 4. -/
def exCrossNode : NetworkNode :=
  { ID := 20, incomingLinks := [1, 3], outcomingLinks := [2, 4], zoneID := -1,
    boundaryType := BoundaryType.BOUNDARY_NONE }

/-- Links at `exCrossNode` whose two outgoing links both lead to node 10, the
source of the incoming link 1. -/
def exBackLinks : GoMap NetworkLink :=
  [(1, exWay 1 10 20), (3, exWay 3 30 20), (2, exWay 2 20 10), (4, exWay 4 20 10)]

/-- Links at `exCrossNode`: link 2 leads to node 10, link 4 to node 40. -/
def exCrossLinks : GoMap NetworkLink :=
  [(1, exWay 1 10 20), (3, exWay 3 30 20), (2, exWay 2 20 10), (4, exWay 4 20 40)]


/-- Node 20 with the three incoming links 1, 3 and 5 and no outgoing link. -/
def exSinkNode : NetworkNode :=
  { ID := 20, incomingLinks := [1, 3, 5], outcomingLinks := [], zoneID := -1,
    boundaryType := BoundaryType.BOUNDARY_NONE }

/-- The links at `exSinkNode`. -/
def exSinkLinks : GoMap NetworkLink :=
  [(1, exWay 1 10 20), (3, exWay 3 30 20), (5, exWay 5 50 20)]
/-! ## Example data for the scans of `osm_loader.go` -/

/-- A stand-in for `strconv.ParseFloat` on the examples: it accepts decimal
digits only. -/
def exParseFloat (s : String) : Option ℚ :=
  if s.toList ≠ [] ∧ s.toList.all Char.isDigit then
    some ((s.toList.foldl (fun a c => 10 * a + (c.toNat - 48)) 0 : Nat) : ℚ)
  else none

/-- A way with the given tags. -/
def exOsmWay (tags : List (String × String)) : OsmWay := ⟨7, [1, 2], tags⟩

/-- A node table with the nodes 1, 2 and 3, as the nodes scan leaves it. -/
def exNodeTable : GoMap Node :=
  [(1, ⟨1, 0, 0, 0⟩), (2, ⟨2, 0, 1, 0⟩), (3, ⟨3, 0, 2, 0⟩)]


/-- A node table with the nodes 1 to 4, as the nodes scan leaves it. -/
def exNodeTable4 : GoMap Node :=
  [(1, ⟨1, 0, 0, 0⟩), (2, ⟨2, 0, 1, 0⟩), (3, ⟨3, 0, 2, 0⟩), (4, ⟨4, 0, 3, 0⟩)]

/-- The table `exNodeTable4` after the use-count stage for `exWays`. -/
def exCounted4 : GoMap Node :=
  [(1, ⟨1, 2, 0, 0⟩), (2, ⟨2, 3, 1, 0⟩), (3, ⟨3, 2, 2, 0⟩), (4, ⟨4, 2, 3, 0⟩)]

/-- A `no_left_turn` relation from way 10 to way 20 whose third member has the
role `location_hint`. -/
def exBadRelation : Relation :=
  { restriction := some "no_left_turn",
    Members := [⟨"from", 10, "way"⟩, ⟨"to", 20, "way"⟩, ⟨"location_hint", 2, "node"⟩] }

/-- The `no_left_turn` relation from way 10 to way 20 via node 2. -/
def exGoodRelation : Relation :=
  { restriction := some "no_left_turn",
    Members := [⟨"from", 10, "way"⟩, ⟨"via", 2, "node"⟩, ⟨"to", 20, "way"⟩] }

/-- An `only_straight_on` relation from way 10 to way 10 via node 2. -/
def exOtherRelation : Relation :=
  { restriction := some "only_straight_on",
    Members := [⟨"from", 10, "way"⟩, ⟨"via", 2, "node"⟩, ⟨"to", 10, "way"⟩] }

/-- The way IDs of the final expanded edges of `ImportFromOSMFile` for the
example ways with the restrictions table of the given relations. -/
def exFinalTurns (relations : List Relation) : List (Int × Int × Int) :=
  match importFromScans exLength findOutComingEdges exFindMiddlePoint exWays exNodeTable4
    (scanRelations relations).restrictions (scanRelations relations).restrictions with
  | .ok expandedEdges => expandedEdges.map (fun e => (e.ID, e.SourceOSMWayID, e.TargetOSMWayID))
  | .error _ => []
/-! ## Lemmas on the restriction stage -/

theorem foldl_append_if (keep : ExpandedEdge → Bool) (l acc : List ExpandedEdge) :
    l.foldl (fun temp expEdge => if keep expEdge then temp ++ [expEdge] else temp) acc
      = acc ++ l.filter keep := by
  induction l generalizing acc with
  | nil => simp
  | cons x xs ih =>
    simp only [List.foldl_cons, ih, List.filter_cons]
    by_cases h : keep x <;> simp [h]

theorem filterInPlace_eq_filter (keep : ExpandedEdge → Bool) (l : List ExpandedEdge) :
    filterInPlace keep l = l.filter keep := by
  simp [filterInPlace, foldl_append_if]

/-- A fold whose every step is a filter is one filter. -/
theorem foldl_filter_any {β : Type} (f : List ExpandedEdge → β → List ExpandedEdge)
    (d : β → ExpandedEdge → Bool)
    (hf : ∀ l x, f l x = l.filter (fun e => !d x e)) (xs : List β) (l : List ExpandedEdge) :
    xs.foldl f l = l.filter (fun e => !xs.any (fun x => d x e)) := by
  induction xs generalizing l with
  | nil => simp
  | cons x xs ih =>
    simp only [List.foldl_cons, ih, hf, List.filter_filter, List.any_cons]
    congr 1
    funext e
    cases d x e <;> simp

theorem noStepTo_eq (W : List Int) (f : Int) (l : List ExpandedEdge)
    (nv : restrictionComponent × restrictionComponent) :
    noStepTo W f l nv = l.filter (fun e => !dropNoTo W f nv e) := by
  unfold noStepTo dropNoTo
  cases h1 : (nv.1.Typ == "way") <;> cases h2 : (nv.2.Typ == "node") <;>
    by_cases h3 : nv.1.ID ∈ W <;>
    simp [bne, h1, h2, h3, filterInPlace_eq_filter]

theorem noStepFrom_eq (W : List Int) (l : List ExpandedEdge)
    (jv : restrictionComponent × List (restrictionComponent × restrictionComponent)) :
    noStepFrom W l jv = l.filter (fun e => !dropNoFrom W jv e) := by
  unfold noStepFrom dropNoFrom
  cases h1 : (jv.1.Typ == "way") <;> by_cases h3 : jv.1.ID ∈ W <;>
    simp [bne, h1, h3, foldl_filter_any _ _ (noStepTo_eq W jv.1.ID)]

theorem noStepTag_eq (W : List Int) (l : List ExpandedEdge)
    (ik : String × List (restrictionComponent × List (restrictionComponent × restrictionComponent))) :
    noStepTag W l ik = l.filter (fun e => !dropNoTag W ik e) := by
  unfold noStepTag dropNoTag
  by_cases h1 : isNoTag ik.1 = true <;>
    simp [h1, foldl_filter_any _ _ (noStepFrom_eq W)]

theorem onlyStepTo_eq (W : List Int) (f : Int) (l : List ExpandedEdge)
    (nv : restrictionComponent × restrictionComponent) :
    onlyStepTo W f l nv = l.filter (fun e => !dropOnlyTo W f nv e) := by
  unfold onlyStepTo dropOnlyTo
  cases h1 : (nv.1.Typ == "way") <;> cases h2 : (nv.2.Typ == "node") <;>
    by_cases h3 : nv.1.ID ∈ W <;>
    simp [bne, h1, h2, h3, filterInPlace_eq_filter]

theorem onlyStepFrom_eq (W : List Int) (l : List ExpandedEdge)
    (jv : restrictionComponent × List (restrictionComponent × restrictionComponent)) :
    onlyStepFrom W l jv = l.filter (fun e => !dropOnlyFrom W jv e) := by
  unfold onlyStepFrom dropOnlyFrom
  cases h1 : (jv.1.Typ == "way") <;> by_cases h3 : jv.1.ID ∈ W <;>
    simp [bne, h1, h3, foldl_filter_any _ _ (onlyStepTo_eq W jv.1.ID)]

theorem onlyStepTag_eq (W : List Int) (l : List ExpandedEdge)
    (ik : String × List (restrictionComponent × List (restrictionComponent × restrictionComponent))) :
    onlyStepTag W l ik = l.filter (fun e => !dropOnlyTag W ik e) := by
  unfold onlyStepTag dropOnlyTag
  by_cases h1 : isOnlyTag ik.1 = true <;>
    simp [h1, foldl_filter_any _ _ (onlyStepFrom_eq W)]

/-- The whole stage is one filter: an edge survives iff no applicable entry of
either loop deletes it. -/
theorem applyRestrictions_eq_filter (T T2 : RestrictionTable) (W : List Int)
    (es : List ExpandedEdge) :
    applyRestrictions T T2 W es
      = es.filter (fun e => !T.any (fun ik => dropNoTag W ik e)
          && !T2.any (fun ik => dropOnlyTag W ik e)) := by
  unfold applyRestrictions
  rw [foldl_filter_any _ _ (onlyStepTag_eq W), foldl_filter_any _ _ (noStepTag_eq W),
    List.filter_filter]
  congr 1
  funext e
  rw [Bool.and_comm]

/-! ## Lemmas on loops that may fail -/

/-- An invariant of the body of a loop that may fail holds after the loop. -/
theorem foldlM_option_inv {α β : Type} (P : β → Prop) (f : β → α → Option β) (xs : List α)
    (init r : β) (h0 : P init)
    (hstep : ∀ s x s', x ∈ xs → P s → f s x = some s' → P s')
    (h : xs.foldlM f init = some r) : P r := by
  induction xs generalizing init with
  | nil =>
    simp only [List.foldlM_nil] at h
    cases h
    exact h0
  | cons x xs ih =>
    rw [List.foldlM_cons] at h
    cases hx : f init x with
    | none => rw [hx] at h; cases h
    | some s1 =>
      rw [hx] at h
      exact ih s1 (hstep init x s1 (List.mem_cons_self _ _) h0 hx)
        (fun s y s' hy => hstep s y s' (List.mem_cons_of_mem _ hy)) h

/-- An invariant of the body of a loop holds after the loop. -/
theorem foldl_inv {α β : Type} (P : β → Prop) (f : β → α → β) (xs : List α)
    (init : β) (h0 : P init) (hstep : ∀ s x, x ∈ xs → P s → P (f s x)) :
    P (xs.foldl f init) := by
  induction xs generalizing init with
  | nil => exact h0
  | cons x xs ih =>
    rw [List.foldl_cons]
    exact ih (f init x) (hstep init x (List.mem_cons_self _ _) h0)
      (fun s y hy => hstep s y (List.mem_cons_of_mem _ hy))

/-! ## Lemmas on edge slicing -/

theorem IdsOk_append_one (edges : List Edge) (total : Int) (e : Edge)
    (h : IdsOk edges total) (he : e.ID = total + 1) : IdsOk (edges ++ [e]) (total + 1) := by
  obtain ⟨h1, h2⟩ := h
  refine ⟨by simp [h1], ?_⟩
  intro k x hx
  by_cases hk : k < edges.length
  · rw [List.getElem?_append_left hk] at hx
    exact h2 k x hx
  · have hk2 : edges.length ≤ k := Nat.le_of_not_lt hk
    rw [List.getElem?_append_right hk2] at hx
    have hk3 : k - edges.length = 0 := by
      by_contra hne
      have : [e][k - edges.length]? = none := by
        apply List.getElem?_eq_none
        simp
        omega
      rw [this] at hx
      cases hx
    rw [hk3] at hx
    simp at hx
    subst hx
    rw [he, h1]
    have : k = edges.length := by omega
    rw [this]

theorem sliceStep_IdsOk (gsl : List GeoPoint → ℚ) (nodes : Int → Option Node) (way : Way)
    (st : SliceState) (iw : Nat × Int) (h : IdsOk st.edges st.totalEdgesNum) :
    IdsOk (sliceStep gsl nodes way st iw).edges (sliceStep gsl nodes way st iw).totalEdgesNum := by
  unfold sliceStep
  simp only []
  split
  · exact h
  · split
    · split
      · have h1 := IdsOk_append_one st.edges st.totalEdgesNum
          (forwardEdge (st.totalEdgesNum + 1) way st.source iw.2
            (gsl (st.geometry ++ [⟨((nodes iw.2).getD Node.zero).Lon,
              ((nodes iw.2).getD Node.zero).Lat⟩]))
            (st.geometry ++ [⟨((nodes iw.2).getD Node.zero).Lon,
              ((nodes iw.2).getD Node.zero).Lat⟩])) h rfl
        have h2 := IdsOk_append_one _ _
          (reversedEdge (st.totalEdgesNum + 2) way st.source iw.2
            (gsl (st.geometry ++ [⟨((nodes iw.2).getD Node.zero).Lon,
              ((nodes iw.2).getD Node.zero).Lat⟩]))
            (st.geometry ++ [⟨((nodes iw.2).getD Node.zero).Lon,
              ((nodes iw.2).getD Node.zero).Lat⟩])) h1
          (by simp only [reversedEdge]; ring)
        have e1 : st.totalEdgesNum + 1 + 1 = st.totalEdgesNum + 2 := by ring
        rw [e1] at h2
        simpa using h2
      · exact IdsOk_append_one _ _ _ h rfl
    · exact h

theorem sliceWay_IdsOk (gsl : List GeoPoint → ℚ) (nodes : Int → Option Node)
    (acc : List Edge × Int) (way : Way) (h : IdsOk acc.1 acc.2) :
    IdsOk (sliceWay gsl nodes acc way).1 (sliceWay gsl nodes acc way).2 := by
  unfold sliceWay
  exact foldl_inv (fun st => IdsOk st.edges st.totalEdgesNum) _ _
    { edges := acc.1, totalEdgesNum := acc.2, source := 0, geometry := [] } h
    (fun st iw _ hs => sliceStep_IdsOk gsl nodes way st iw hs)

/-- Edge `k` of the list built by edge slicing has ID `k + 1`. -/
theorem prepareEdges_ids (gsl : List GeoPoint → ℚ) (nodes : Int → Option Node)
    (ways : List Way) (k : Nat) (e : Edge) (h : (prepareEdges gsl nodes ways)[k]? = some e) :
    e.ID = (k : Int) + 1 := by
  have hinv : IdsOk (ways.foldl (sliceWay gsl nodes) ([], 0)).1
      (ways.foldl (sliceWay gsl nodes) ([], 0)).2 :=
    foldl_inv (fun acc => IdsOk acc.1 acc.2) _ _ _ ⟨by simp, by intro k e h; simp at h⟩
      (fun acc way _ hs => sliceWay_IdsOk gsl nodes acc way hs)
  exact hinv.2 k e h

/-- Two edges of the sliced list with the same ID are the same edge. -/
theorem prepareEdges_id_inj (gsl : List GeoPoint → ℚ) (nodes : Int → Option Node)
    (ways : List Way) (e f : Edge) (he : e ∈ prepareEdges gsl nodes ways)
    (hf : f ∈ prepareEdges gsl nodes ways) (hid : e.ID = f.ID) : e = f := by
  obtain ⟨i, hi⟩ := List.mem_iff_getElem?.mp he
  obtain ⟨j, hj⟩ := List.mem_iff_getElem?.mp hf
  have h1 := prepareEdges_ids gsl nodes ways i e hi
  have h2 := prepareEdges_ids gsl nodes ways j f hj
  have hij : i = j := by omega
  subst hij
  rw [hi] at hj
  exact Option.some.inj hj

/-! ## Lemmas on edge expansion -/

theorem expandInner_emitted (fo : Edge → List Edge → List Int)
    (fm : List GeoPoint → Int × GeoPoint) (edges : List Edge) (e : Edge) (he : e ∈ edges)
    (st st' : ExpandState) (o : Int) (ho : o ∈ fo e edges)
    (hinv : ∀ x ∈ st.expandedEdges, ∃ e f, EmittedFor fo fm edges x e f)
    (h : expandInner fm edges e st o = some st') :
    ∀ x ∈ st'.expandedEdges, ∃ e f, EmittedFor fo fm edges x e f := by
  unfold expandInner at h
  split at h
  · rename_i hpos
    split at h
    · cases h
    · rename_i f hf
      split at h
      · cases h
      · rename_i hne
        split at h
        · cases h
          exact hinv
        · rename_i hcyc
          split at h
          · cases h
          · rename_i x hx
            cases h
            intro y hy
            simp only [List.mem_append, List.mem_singleton] at hy
            rcases hy with hy | hy
            · exact hinv y hy
            · subst hy
              simp only [Bool.or_eq_true, List.isEmpty_iff, not_or] at hne
              refine ⟨e, f, he, List.getElem?_mem hf, ⟨o, ho, hpos, hf⟩, hne.1, hne.2, ?_, _, hx⟩
              simpa using hcyc
  · cases h

/-- Every expanded edge of a successful expansion was emitted for some pair. -/
theorem expandEdges_emitted (fo : Edge → List Edge → List Int)
    (fm : List GeoPoint → Int × GeoPoint) (edges : List Edge) (out : List ExpandedEdge)
    (h : expandEdges fo fm edges = some out) :
    ∀ x ∈ out, ∃ e f, EmittedFor fo fm edges x e f := by
  unfold expandEdges at h
  rw [Option.map_eq_some'] at h
  obtain ⟨st, hst, rfl⟩ := h
  refine foldlM_option_inv (fun s => ∀ x ∈ s.expandedEdges, ∃ e f, EmittedFor fo fm edges x e f)
    _ _ _ _ (by intro x hx; simp at hx) ?_ hst
  intro s e s' he hs hstep
  unfold expandOuter at hstep
  refine foldlM_option_inv
    (fun s => ∀ x ∈ s.expandedEdges, ∃ e f, EmittedFor fo fm edges x e f)
    _ _ _ _ hs ?_ hstep
  intro t o t' ho ht hin
  exact expandInner_emitted fo fm edges e he t t' o ho ht hin

/-- What `expandPair` puts into the expanded edge. -/
theorem expandPair_some (fm : List GeoPoint → Int × GeoPoint) (id : Int) (e f : Edge)
    (x : ExpandedEdge) (h : expandPair fm id e f = some x) :
    0 ≤ (fm e.Geom).1 + 1 ∧ (fm e.Geom).1 + 1 ≤ e.Geom.length
    ∧ 0 ≤ (fm f.Geom).1 + 1 ∧ (fm f.Geom).1 + 1 ≤ f.Geom.length
    ∧ x.ID = id ∧ x.Source = e.ID ∧ x.Target = f.ID
    ∧ x.SourceOSMWayID = e.WayID ∧ x.TargetOSMWayID = f.WayID
    ∧ x.CostMeters = float64Div (float64Add e.CostMeters f.CostMeters) 2
    ∧ x.Geom = [(fm e.Geom).2] ++ e.Geom.drop ((fm e.Geom).1 + 1).toNat
        ++ f.Geom.take ((fm f.Geom).1 + 1).toNat ++ [(fm f.Geom).2] := by
  unfold expandPair at h
  simp only [] at h
  split at h
  · rename_i h1
    split at h
    · rename_i h2
      cases h
      refine ⟨h1.1, h1.2, h2.1, h2.2, rfl, rfl, rfl, rfl, rfl, rfl, ?_⟩
      simp
    · cases h
  · cases h

/-- The cost of line 327 for the costs 0.1 and 0.2, the `float64` values
`3602879701896397 / 2^55` and `3602879701896397 / 2^54`: the sum is rounded to
0.30000000000000004 and the cost is `1351079888211149 / 2^53`, which is not the
exact half of the exact sum. -/
theorem float64_half_sum_rounds :
    float64Add (3602879701896397 / 2 ^ 55) (3602879701896397 / 2 ^ 54)
        = 1351079888211149 / 2 ^ 52
    ∧ float64Div (float64Add (3602879701896397 / 2 ^ 55) (3602879701896397 / 2 ^ 54)) 2
        = 1351079888211149 / 2 ^ 53
    ∧ float64Div (float64Add (3602879701896397 / 2 ^ 55) (3602879701896397 / 2 ^ 54)) 2
        ≠ (3602879701896397 / 2 ^ 55 + 3602879701896397 / 2 ^ 54) / 2 := by
  decide!

/-- Rounding to `float64` on some exact values: 1/3 goes to the nearest
multiple of `2^(-54)`, the tie `2^53 + 1` to the even neighbour `2^53`, the tie
`2^53 + 3` to `2^53 + 4`, half of the smallest positive value to 0, and a value
that is a `float64` stays. -/
theorem float64Round_values :
    float64Round (1 / 3) = 6004799503160661 / 2 ^ 54
    ∧ float64Round (2 ^ 53 + 1) = 2 ^ 53
    ∧ float64Round (2 ^ 53 + 3) = 2 ^ 53 + 4
    ∧ float64Round (1 / 2 ^ 1075) = 0
    ∧ float64Round (3 / 2 ^ 1075) = 2 / 2 ^ 1074
    ∧ float64Round (-(3602879701896397 / 2 ^ 55)) = -(3602879701896397 / 2 ^ 55) := by
  decide!

/-- When the sum of two costs and its half are `float64` values, the cost of
line 327 is the exact half sum. -/
theorem float64_half_sum_of_exact (a b : ℚ) (h1 : float64Round (a + b) = a + b)
    (h2 : float64Round ((a + b) / 2) = (a + b) / 2) :
    float64Div (float64Add a b) 2 = (a + b) / 2 := by
  unfold float64Div float64Add
  rw [h1, h2]

/-- Sums and halves that are `float64` values are not rounded: the costs 2 and
4 give the cost 3. -/
theorem float64_half_sum_exact : float64Div (float64Add 2 4) 2 = 3 := by
  decide!


/-! ## Restrictions the stage passes over -/

/-- A tag is handled by one of the two loops iff it is one of the six. -/
theorem tag_handled_iff (tag : String) :
    (isNoTag tag = false ∧ isOnlyTag tag = false)
      ↔ (tag ≠ "no_left_turn" ∧ tag ≠ "no_right_turn" ∧ tag ≠ "no_straight_on"
          ∧ tag ≠ "only_left_turn" ∧ tag ≠ "only_right_turn" ∧ tag ≠ "only_straight_on") := by
  simp [isNoTag, isOnlyTag]
  tauto

/-- Dropping one element on which the predicate is false does not change `any`. -/
theorem any_filter_ne {α : Type} [DecidableEq α] (p : α → Bool) (a : α) (l : List α)
    (h : p a = false) :
    (l.filter (fun x => decide (x ≠ a))).any p = l.any p := by
  rw [List.any_filter]
  congr 1
  funext x
  by_cases hx : x = a
  · subst hx
    simp [h]
  · simp [hx]

/-- Under a `from` key, an ignored restriction does not count for the `no_*`
loop. -/
theorem dropNoFrom_filter (W : List Int) (j n via : restrictionComponent)
    (h : j.Typ ≠ "way" ∨ n.Typ ≠ "way" ∨ via.Typ ≠ "node" ∨ j.ID ∉ W ∨ n.ID ∉ W)
    (v : List (restrictionComponent × restrictionComponent)) (e : ExpandedEdge) :
    dropNoFrom W (j, v.filter (fun nv => decide (nv ≠ (n, via)))) e = dropNoFrom W (j, v) e := by
  unfold dropNoFrom
  by_cases hj : j.Typ = "way"
  · by_cases hjW : j.ID ∈ W
    · have hd : dropNoTo W j.ID (n, via) e = false := by
        rcases h with h | h | h | h | h
        · exact absurd hj h
        · simp [dropNoTo, h]
        · simp [dropNoTo, h]
        · exact absurd hjW h
        · simp [dropNoTo, h]
      simp only [any_filter_ne (fun nv => dropNoTo W j.ID nv e) (n, via) v hd]
    · simp [hjW]
  · have hj2 : (j.Typ == "way") = false := by simpa using hj
    simp [hj2]

/-- Under a `from` key, an ignored restriction does not count for the `only_*`
loop. -/
theorem dropOnlyFrom_filter (W : List Int) (j n via : restrictionComponent)
    (h : j.Typ ≠ "way" ∨ n.Typ ≠ "way" ∨ via.Typ ≠ "node" ∨ j.ID ∉ W ∨ n.ID ∉ W)
    (v : List (restrictionComponent × restrictionComponent)) (e : ExpandedEdge) :
    dropOnlyFrom W (j, v.filter (fun nv => decide (nv ≠ (n, via)))) e
      = dropOnlyFrom W (j, v) e := by
  unfold dropOnlyFrom
  by_cases hj : j.Typ = "way"
  · by_cases hjW : j.ID ∈ W
    · have hd : dropOnlyTo W j.ID (n, via) e = false := by
        rcases h with h | h | h | h | h
        · exact absurd hj h
        · simp [dropOnlyTo, h]
        · simp [dropOnlyTo, h]
        · exact absurd hjW h
        · simp [dropOnlyTo, h]
      simp only [any_filter_ne (fun nv => dropOnlyTo W j.ID nv e) (n, via) v hd]
    · simp [hjW]
  · have hj2 : (j.Typ == "way") = false := by simpa using hj
    simp [hj2]

/-- The `no_*` loop sees no difference when an ignored restriction is removed. -/
theorem dropNoTag_removeEntry (W : List Int) (tag : String) (j n via : restrictionComponent)
    (h : RestrictionIgnored W tag j n via) (T : RestrictionTable) (e : ExpandedEdge) :
    (removeEntry T tag j n via).any (fun ik => dropNoTag W ik e)
      = T.any (fun ik => dropNoTag W ik e) := by
  unfold removeEntry
  rw [List.any_map]
  congr 1
  funext ik
  simp only [Function.comp]
  by_cases htag : ik.1 = tag
  · simp only [htag, if_true, dropNoTag]
    rcases h with h | h
    · simp [h.1]
    · congr 1
      rw [List.any_map]
      congr 1
      funext jv
      simp only [Function.comp]
      by_cases hj : jv.1 = j
      · simp only [hj, if_true]
        have e1 := dropNoFrom_filter W j n via h jv.2 e
        have e2 : jv = (j, jv.2) := by rw [← hj]
        rw [e1]
        conv_rhs => rw [e2]
      · simp only [hj, if_false]
  · simp only [htag, if_false]

/-- The `only_*` loop sees no difference when an ignored restriction is
removed. -/
theorem dropOnlyTag_removeEntry (W : List Int) (tag : String) (j n via : restrictionComponent)
    (h : RestrictionIgnored W tag j n via) (T : RestrictionTable) (e : ExpandedEdge) :
    (removeEntry T tag j n via).any (fun ik => dropOnlyTag W ik e)
      = T.any (fun ik => dropOnlyTag W ik e) := by
  unfold removeEntry
  rw [List.any_map]
  congr 1
  funext ik
  simp only [Function.comp]
  by_cases htag : ik.1 = tag
  · simp only [htag, if_true, dropOnlyTag]
    rcases h with h | h
    · simp [h.2]
    · congr 1
      rw [List.any_map]
      congr 1
      funext jv
      simp only [Function.comp]
      by_cases hj : jv.1 = j
      · simp only [hj, if_true]
        have e1 := dropOnlyFrom_filter W j n via h jv.2 e
        have e2 : jv = (j, jv.2) := by rw [← hj]
        rw [e1]
        conv_rhs => rw [e2]
      · simp only [hj, if_false]
  · simp only [htag, if_false]
/-! ## Lemmas on the Go run-time model -/

theorem mapGet?_mapSet {V : Type} (m : GoMap V) (k k' : Int) (v : V) :
    mapGet? (mapSet m k v) k' = if k = k' then some v else mapGet? m k' := by
  induction m with
  | nil =>
    simp only [mapSet, mapGet?]
  | cons p t ih =>
    obtain ⟨a, b⟩ := p
    simp only [mapSet]
    by_cases h : a = k
    · subst h
      simp only [if_true, mapGet?]
      by_cases h2 : a = k' <;> simp [h2]
    · simp only [h, if_false, mapGet?, ih]
      by_cases h2 : a = k'
      · subst h2
        have : ¬ k = a := fun e => h e.symm
        simp [this]
      · simp [h2]

theorem mapGet?_mapSet_same {V : Type} (m : GoMap V) (k : Int) (v : V) :
    mapGet? (mapSet m k v) k = some v := by
  rw [mapGet?_mapSet]; simp

theorem mapGet?_mapSet_ne {V : Type} (m : GoMap V) (k k' : Int) (v : V) (h : k ≠ k') :
    mapGet? (mapSet m k v) k' = mapGet? m k' := by
  rw [mapGet?_mapSet]; simp [h]

theorem mapGet?_mapDelete {V : Type} (m : GoMap V) (k k' : Int) :
    mapGet? (mapDelete m k) k' = if k = k' then none else mapGet? m k' := by
  induction m with
  | nil => simp [mapDelete, mapGet?]
  | cons p t ih =>
    obtain ⟨a, b⟩ := p
    unfold mapDelete at ih ⊢
    by_cases h : a = k
    · subst h
      simp only [List.filter_cons, bne_self_eq_false, Bool.false_eq_true, if_false, ih, mapGet?]
      by_cases h2 : a = k' <;> simp [h2]
    · have hb : ((a, b).1 != k) = true := by simpa using h
      simp only [List.filter_cons, hb, if_true, mapGet?, ih]
      by_cases h2 : a = k'
      · subst h2
        have : ¬ k = a := fun e => h e.symm
        simp [this]
      · simp [h2]

theorem mapGet?_isSome_iff_mem_keys {V : Type} (m : GoMap V) (k : Int) :
    (mapGet? m k).isSome ↔ k ∈ m.map (fun kv => kv.1) := by
  induction m with
  | nil => simp [mapGet?]
  | cons p t ih =>
    obtain ⟨a, b⟩ := p
    simp only [mapGet?, List.map_cons, List.mem_cons]
    by_cases h : a = k
    · simp [h]
    · simp only [h, if_false, ih]
      constructor
      · intro hh; exact Or.inr hh
      · rintro (hh | hh)
        · exact absurd hh.symm h
        · exact hh

theorem mapSet_keys_of_mem {V : Type} (m : GoMap V) (k : Int) (v : V)
    (h : (mapGet? m k).isSome) :
    (mapSet m k v).map (fun kv => kv.1) = m.map (fun kv => kv.1) := by
  induction m with
  | nil => simp [mapGet?] at h
  | cons p t ih =>
    obtain ⟨a, b⟩ := p
    simp only [mapSet]
    by_cases h1 : a = k
    · simp [h1]
    · simp only [h1, if_false, List.map_cons]
      simp only [mapGet?, h1, if_false] at h
      rw [ih h]

theorem mapSet_keys_of_not_mem {V : Type} (m : GoMap V) (k : Int) (v : V)
    (h : mapGet? m k = none) :
    (mapSet m k v).map (fun kv => kv.1) = m.map (fun kv => kv.1) ++ [k] := by
  induction m with
  | nil => simp [mapSet]
  | cons p t ih =>
    obtain ⟨a, b⟩ := p
    simp only [mapSet]
    by_cases h1 : a = k
    · simp [mapGet?, h1] at h
    · simp only [h1, if_false, List.map_cons, List.cons_append]
      simp only [mapGet?, h1, if_false] at h
      rw [ih h]

/-- An invariant of the body of a loop that may fail holds after the loop. -/
theorem foldlM_except_inv {α β ε : Type} (Q : β → Prop) (f : β → α → Except ε β) (xs : List α)
    (init r : β) (h0 : Q init)
    (hstep : ∀ s x s', x ∈ xs → Q s → f s x = .ok s' → Q s')
    (h : xs.foldlM f init = .ok r) : Q r := by
  induction xs generalizing init with
  | nil =>
    simp only [List.foldlM_nil, pure, Except.pure] at h
    cases h
    exact h0
  | cons x xs ih =>
    rw [List.foldlM_cons] at h
    cases hx : f init x with
    | error e => rw [hx] at h; cases h
    | ok s1 =>
      rw [hx] at h
      exact ih s1 (hstep init x s1 (List.mem_cons_self _ _) h0 hx)
        (fun s y s' hy => hstep s y s' (List.mem_cons_of_mem _ hy)) h

/-- A relation between the states before and after the body of a loop that may
fail, if reflexive and transitive, holds between the states before and after the
loop. -/
theorem foldlM_except_rel {α β ε : Type} (R : β → β → Prop) (f : β → α → Except ε β)
    (xs : List α) (init r : β) (hrefl : ∀ s, R s s) (htrans : ∀ a b c, R a b → R b c → R a c)
    (hstep : ∀ s x s', x ∈ xs → f s x = .ok s' → R s s')
    (h : xs.foldlM f init = .ok r) : R init r :=
  foldlM_except_inv (fun s => R init s) f xs init r (hrefl init)
    (fun s x s' hx hs hf => htrans _ _ _ hs (hstep s x s' hx hf)) h

theorem except_bind_ok {α β ε : Type} (x : Except ε α) (f : α → Except ε β) (b : β)
    (h : (x >>= f) = .ok b) : ∃ a, x = .ok a ∧ f a = .ok b := by
  cases x with
  | error e => cases h
  | ok a => exact ⟨a, rfl, h⟩

theorem sliceAt_ok {α : Type} (s : List α) (i : Int) (a : α) (h : sliceAt s i = .ok a) :
    0 ≤ i ∧ s[i.toNat]? = some a := by
  unfold sliceAt at h
  split at h
  · rename_i hi
    split at h
    · rename_i b hb
      cases h
      exact ⟨hi, hb⟩
    · cases h
  · cases h

theorem sliceSet_ok {α : Type} (s : List α) (i : Int) (a : α) (s' : List α)
    (h : sliceSet s i a = .ok s') : 0 ≤ i ∧ i < s.length ∧ s' = s.set i.toNat a := by
  unfold sliceSet at h
  split at h
  · rename_i hi
    cases h
    exact ⟨hi.1, hi.2, rfl⟩
  · cases h

/-- Every element of the list of a loop that may fail is processed: between a
state reached from the initial state and a state from which the final state is
reached. -/
theorem foldlM_except_mem {α β ε : Type} (R : β → β → Prop) (f : β → α → Except ε β)
    (xs : List α) (init r : β) (hrefl : ∀ s, R s s) (htrans : ∀ a b c, R a b → R b c → R a c)
    (hstep : ∀ s x s', x ∈ xs → f s x = .ok s' → R s s')
    (h : xs.foldlM f init = .ok r) (x : α) (hx : x ∈ xs) :
    ∃ s s', f s x = .ok s' ∧ R init s ∧ R s' r := by
  induction xs generalizing init with
  | nil => simp at hx
  | cons y ys ih =>
    rw [List.foldlM_cons] at h
    obtain ⟨s1, h1, h2⟩ := except_bind_ok _ _ _ h
    rcases List.mem_cons.mp hx with e | hmem
    · rw [e]
      exact ⟨init, s1, h1, hrefl _, foldlM_except_rel R f ys s1 r hrefl htrans
        (fun s z s' hz hf => hstep s z s' (List.mem_cons_of_mem _ hz) hf) h2⟩
    · obtain ⟨s, s', hf, hr1, hr2⟩ := ih s1
        (fun s z s' hz hf => hstep s z s' (List.mem_cons_of_mem _ hz) hf) h2 hmem
      exact ⟨s, s', hf, htrans _ _ _ (hstep init y s1 (List.mem_cons_self _ _) h1) hr1, hr2⟩

/-! ## Lemmas on mesoscopic segmentation -/

/-- A link not longer than the resolution gets two zero breakpoints and one
segment. -/
theorem segmentLink_short (G : NetworkLink → Int) (order : List Nat → List Nat)
    (link : NetworkLink) (h : link.lengthMeters ≤ resolution) :
    segmentLink G order link = .ok { link with
      breakpoints := [0, 0]
      lanesList := [G { link with breakpoints := [0, 0] }]
      lanesChange := link.lanesChange ++ [[0, 0]] } := by
  unfold segmentLink
  simp [h, List.replicate]

theorem genMesoscopicNetwork_get (G : NetworkLink → Int) (order : List Nat → List Nat)
    (links links' : GoMap NetworkLink) (h : genMesoscopicNetwork G order links = .ok links')
    (k : Int) (link : NetworkLink) (hk : mapGet? links k = some link) :
    ∃ link', mapGet? links' k = some link' ∧ segmentLink G order link = .ok link' := by
  induction links generalizing links' with
  | nil => simp [mapGet?] at hk
  | cons p t ih =>
    obtain ⟨a, b⟩ := p
    unfold genMesoscopicNetwork at h
    split at h
    · cases h
    · rename_i b' hb
      split at h
      · cases h
      · rename_i t' ht
        cases h
        simp only [mapGet?] at hk ⊢
        by_cases ha : a = k
        · simp only [ha, if_true] at hk ⊢
          cases hk
          exact ⟨b', rfl, hb⟩
        · simp only [ha, if_false] at hk ⊢
          exact ih t' ht hk

theorem order_singleton (order : List Nat → List Nat) (horder : ∀ l, (order l).Perm l)
    (a : Nat) : order [a] = [a] :=
  List.perm_singleton.mp (horder [a])

/-- The loop of lines 29-41 on the breakpoints `[0, length]` of a link longer
than the resolution: two rounds, each of which removes the first breakpoint. -/
theorem reduceBreakpoints_long (order : List Nat → List Nat)
    (horder : ∀ l, (order l).Perm l) (len : ℚ) (h : resolution < len) (bp0 : List ℚ) :
    reduceBreakpoints order 3 [0, len] bp0 = .ok (bp0 ++ [0, len]) := by
  have h5 : (5 : ℚ) < len := h
  have r1 : (List.range 2).filter (fun idx =>
      decide ((0 : ℚ) - resolution ≤ [0, len].getD idx 0
        ∧ [0, len].getD idx 0 ≤ 0 + resolution)) = [0] := by
    have e : List.range 2 = [0, 1] := rfl
    rw [e]
    have a0 : decide ((0 : ℚ) - resolution ≤ [0, len].getD 0 0
        ∧ [0, len].getD 0 0 ≤ 0 + resolution) = true := by
      simp [resolution]
    have a1 : decide ((0 : ℚ) - resolution ≤ [0, len].getD 1 0
        ∧ [0, len].getD 1 0 ≤ 0 + resolution) = false := by
      simp only [List.getD_cons_succ, List.getD_cons_zero, resolution, decide_eq_false_iff_not,
        not_and, not_le]
      intro _
      linarith
    simp only [List.filter_cons, a0, a1, if_true, List.filter_nil]
    rfl
  have r2 : (List.range 1).filter (fun idx =>
      decide (len - resolution ≤ [len].getD idx 0
        ∧ [len].getD idx 0 ≤ len + resolution)) = [0] := by
    have e : List.range 1 = [0] := rfl
    rw [e]
    have a0 : decide (len - resolution ≤ [len].getD 0 0
        ∧ [len].getD 0 0 ≤ len + resolution) = true := by
      simp [resolution]
    simp only [List.filter_cons, a0, if_true, List.filter_nil]
  have e1 : [0, len].length = 2 := rfl
  have e2 : [len].length = 1 := rfl
  have s3 : reduceBreakpoints order 1 [] (bp0 ++ [0] ++ [len]) = .ok (bp0 ++ [0] ++ [len]) := by
    rw [reduceBreakpoints]
  have s2 : reduceBreakpoints order 2 [len] (bp0 ++ [0]) = .ok (bp0 ++ [0] ++ [len]) := by
    rw [reduceBreakpoints, e2, r2, order_singleton order horder]
    exact s3
  rw [reduceBreakpoints, e1, r1, order_singleton order horder]
  simp only [List.append_assoc, List.singleton_append] at s2
  exact s2

/-- A link longer than the resolution gets its old breakpoints together with 0
and its length, sorted, and one segment for every gap. -/
theorem segmentLink_long (G : NetworkLink → Int) (order : List Nat → List Nat)
    (horder : ∀ l, (order l).Perm l) (link : NetworkLink)
    (h : resolution < link.lengthMeters) :
    ∃ bs, bs = (link.breakpoints ++ [0, link.lengthMeters]).insertionSort (fun a b => a ≤ b)
      ∧ segmentLink G order link = .ok { link with
        breakpoints := bs
        lanesList := List.replicate (bs.length - 1) (G { link with breakpoints := bs })
        lanesChange := link.lanesChange ++ List.replicate (bs.length - 1) [0, 0] } := by
  refine ⟨_, rfl, ?_⟩
  have hlen : ((link.breakpoints ++ [0, link.lengthMeters]).insertionSort
      (fun a b => a ≤ b)).length ≠ 0 := by
    rw [List.length_insertionSort]
    simp
  unfold segmentLink
  have e : [0, link.lengthMeters].length + 1 = 3 := rfl
  simp only [not_le.mpr h, if_false, e, reduceBreakpoints_long order horder _ h, hlen]

/-- With an iteration order of the index set `remove` that visits every index
once, the body of the loop over the links does not fail. -/
theorem segmentLink_total (G : NetworkLink → Int) (order : List Nat → List Nat)
    (horder : ∀ l, (order l).Perm l) (link : NetworkLink) :
    ∃ link', segmentLink G order link = .ok link' := by
  by_cases h : link.lengthMeters ≤ resolution
  · exact ⟨_, segmentLink_short G order link h⟩
  · obtain ⟨bs, -, e⟩ := segmentLink_long G order horder link (not_le.mp h)
    exact ⟨_, e⟩

theorem genMesoscopicNetwork_total (G : NetworkLink → Int) (order : List Nat → List Nat)
    (horder : ∀ l, (order l).Perm l) (links : GoMap NetworkLink) :
    ∃ links', genMesoscopicNetwork G order links = .ok links' := by
  induction links with
  | nil => exact ⟨[], rfl⟩
  | cons p t ih =>
    obtain ⟨k, link⟩ := p
    obtain ⟨link', h1⟩ := segmentLink_total G order horder link
    obtain ⟨t', h2⟩ := ih
    refine ⟨(k, link') :: t', ?_⟩
    unfold genMesoscopicNetwork
    simp only [h1, h2]

/-- The lane lists that the body of the loop over the links leaves. -/
theorem segmentLink_lanes (G : NetworkLink → Int) (order : List Nat → List Nat)
    (link link' : NetworkLink) (h : segmentLink G order link = .ok link') :
    link'.lanesList = List.replicate (link'.breakpoints.length - 1)
        (G { link with breakpoints := link'.breakpoints })
      ∧ link'.lanesChange
        = link.lanesChange ++ List.replicate (link'.breakpoints.length - 1) [0, 0] := by
  unfold segmentLink at h
  simp only at h
  split at h
  · cases h
  · split at h
    · cases h
    · cases h
      exact ⟨rfl, rfl⟩

/-! ## The shape of the microscopic build

Every relation between build states that is reflexive and transitive and holds
for the elementary steps holds for the loops made of them. -/

theorem markTargets_rel (R : MicroBuild → MicroBuild → Prop) (hrefl : ∀ s, R s s)
    (htrans : ∀ a b c, R a b → R b c → R a c)
    (hU : ∀ z s k s', markUpstream z s k = .ok s' → R s s')
    (hD : ∀ z s k s', markDownstream z s k = .ok s' → R s s')
    (macroNodes : GoMap NetworkNode) (macroLink : NetworkLink)
    (bike walk : Bool) (st st' : MicroBuild)
    (h : markTargets macroNodes macroLink bike walk st = .ok st') : R st st' := by
  have hF : ∀ z s lane s', markLaneFirst z s lane = .ok s' → R s s' := by
    intro z s lane s' hh
    unfold markLaneFirst at hh
    split at hh
    · cases hh
    · exact hU _ _ _ _ hh
  have hL : ∀ z s lane s', markLaneLast z s lane = .ok s' → R s s' := by
    intro z s lane s' hh
    unfold markLaneLast at hh
    split at hh
    · cases hh
    · exact hD _ _ _ _ hh
  unfold markTargets at h
  split at h
  · cases h
  split at h
  · cases h
  split at h
  · cases h
  obtain ⟨st1, h1, h⟩ := except_bind_ok _ _ _ h
  have i1 : R st st1 := foldlM_except_rel R _ _ _ _ hrefl htrans
    (fun s x s' _ hf => hF _ s x s' hf) h1
  obtain ⟨st2, h2, h⟩ := except_bind_ok _ _ _ h
  have i2 : R st1 st2 := by
    split at h2
    · exact hF _ _ _ _ h2
    · cases h2; exact hrefl _
  obtain ⟨st3, h3, h⟩ := except_bind_ok _ _ _ h
  have i3 : R st2 st3 := by
    split at h3
    · exact hF _ _ _ _ h3
    · cases h3; exact hrefl _
  split at h
  · cases h
  split at h
  · cases h
  split at h
  · cases h
  obtain ⟨st4, h4, h⟩ := except_bind_ok _ _ _ h
  have i4 : R st3 st4 := foldlM_except_rel R _ _ _ _ hrefl htrans
    (fun s x s' _ hf => hL _ s x s' hf) h4
  obtain ⟨st5, h5, h⟩ := except_bind_ok _ _ _ h
  have i5 : R st4 st5 := by
    split at h5
    · exact hL _ _ _ _ h5
    · cases h5; exact hrefl _
  have i6 : R st5 st' := by
    split at h
    · exact hL _ _ _ _ h
    · cases h; exact hrefl _
  exact htrans _ _ _ (htrans _ _ _ (htrans _ _ _ (htrans _ _ _ (htrans _ _ _ i1 i2) i3) i4) i5) i6

theorem stitchPair_rel (R : MicroBuild → MicroBuild → Prop) (hrefl : ∀ s, R s s)
    (htrans : ∀ a b c, R a b → R b c → R a c) (pair : Int × Int)
    (hSL : ∀ us ds s j s', stitchLane pair.1 pair.2 us ds s j = .ok s' → R s s')
    (hSB : ∀ s s', stitchBike pair.1 pair.2 s = .ok s' → R s s')
    (hSW : ∀ s s', stitchWalk pair.1 pair.2 s = .ok s' → R s s')
    (bike walk : Bool) (st st' : MicroBuild)
    (h : stitchPair bike walk st pair = .ok st') : R st st' := by
  unfold stitchPair at h
  split at h
  · cases h
  split at h
  · cases h
  obtain ⟨r, hr, h⟩ := except_bind_ok _ _ _ h
  obtain ⟨st1, h1, h⟩ := except_bind_ok _ _ _ h
  have i1 : R st st1 := foldlM_except_rel R _ _ _ _ hrefl htrans
    (fun s x s' _ hf => hSL _ _ s x s' hf) h1
  obtain ⟨st2, h2, h⟩ := except_bind_ok _ _ _ h
  have i2 : R st1 st2 := by
    split at h2
    · exact hSB _ _ h2
    · cases h2; exact hrefl _
  have i3 : R st2 st' := by
    split at h
    · exact hSW _ _ h
    · cases h; exact hrefl _
  exact htrans _ _ _ (htrans _ _ _ i1 i2) i3

theorem consecutive_of_getElem? (chain : List Int) (j : Nat) (a b : Int)
    (ha : chain[j]? = some a) (hb : chain[j + 1]? = some b) : Consecutive chain a b := by
  unfold Consecutive
  induction chain generalizing j with
  | nil => simp at ha
  | cons x t ih =>
    cases t with
    | nil => simp at hb
    | cons y t' =>
      cases j with
      | zero =>
        simp at ha hb
        subst ha; subst hb
        simp
      | succ j' =>
        rw [List.getElem?_cons_succ] at ha hb
        have := ih j' ha hb
        simp only [List.tail_cons, List.zip_cons_cons, List.mem_cons]
        exact Or.inr this

theorem consecutive_of_sliceAt (chain : List Int) (j : Nat) (a b : Int)
    (ha : sliceAt chain (j : Int) = .ok a) (hb : sliceAt chain ((j : Int) + 1) = .ok b) :
    Consecutive chain a b := by
  have h1 := (sliceAt_ok _ _ _ ha).2
  have h2 := (sliceAt_ok _ _ _ hb).2
  have e1 : ((j : Int)).toNat = j := by simp
  have e2 : ((j : Int) + 1).toNat = j + 1 := by omega
  rw [e1] at h1
  rw [e2] at h2
  exact consecutive_of_getElem? chain j a b h1 h2

theorem linkCell_forward_rel (R : MicroBuild → MicroBuild → Prop) (m : Int) (chain : List Int)
    (hF : ∀ a b, Consecutive chain a b → ∀ ag s s',
      addMicroLink m LinkType.LINK_FORWARD ag false s a b = .ok s' → R s s')
    (ag : List AgentType) (s : MicroBuild) (j : Nat) (s' : MicroBuild)
    (hh : linkCell m LinkType.LINK_FORWARD ag chain chain s j = .ok s') : R s s' := by
  unfold linkCell at hh
  obtain ⟨a, ha, hh⟩ := except_bind_ok _ _ _ hh
  obtain ⟨b, hb, hh⟩ := except_bind_ok _ _ _ hh
  exact hF a b (consecutive_of_sliceAt chain j a b ha hb) _ _ _ hh

theorem linkCarLane_rel (R : MicroBuild → MicroBuild → Prop) (hrefl : ∀ s, R s s)
    (htrans : ∀ a b c, R a b → R b c → R a c) (m : Int) (mesoLink : NetworkLinkMesoscopic)
    (hF : ∀ chain ∈ laneChains mesoLink, ∀ a b, Consecutive chain a b → ∀ ag s s',
      addMicroLink m LinkType.LINK_FORWARD ag false s a b = .ok s' → R s s')
    (hX : ∀ ag s a b s', addMicroLink m LinkType.LINK_LANE_CHANGE ag false s a b = .ok s' → R s s')
    (ag : List AgentType) (st st' : MicroBuild) (i : Nat)
    (h : linkCarLane m mesoLink ag st i = .ok st') : R st st' := by
  have hC : ∀ ml ag lane nb s j s', linkChange m ml ag lane nb s j = .ok s' → R s s' := by
    intro ml ag lane nb s j s' hh
    unfold linkChange at hh
    obtain ⟨a, _, hh⟩ := except_bind_ok _ _ _ hh
    obtain ⟨o, _, hh⟩ := except_bind_ok _ _ _ hh
    obtain ⟨b, _, hh⟩ := except_bind_ok _ _ _ hh
    exact hX _ _ _ _ _ hh
  unfold linkCarLane at h
  obtain ⟨lane, hlane, h⟩ := except_bind_ok _ _ _ h
  have hmem : lane ∈ laneChains mesoLink := by
    unfold laneChains
    exact List.mem_append_left _ (List.getElem?_mem (sliceAt_ok _ _ _ hlane).2)
  obtain ⟨st1, h1, h⟩ := except_bind_ok _ _ _ h
  have i1 : R st st1 := foldlM_except_rel R _ _ _ _ hrefl htrans
    (fun s x s' _ hf => linkCell_forward_rel R m lane (hF lane hmem) _ s x s' hf) h1
  obtain ⟨st2, h2, h⟩ := except_bind_ok _ _ _ h
  have i2 : R st1 st2 := by
    split at h2
    · exact foldlM_except_rel R _ _ _ _ hrefl htrans
        (fun s x s' _ hf => hC _ _ _ _ s x s' hf) h2
    · cases h2; exact hrefl _
  have i3 : R st2 st' := by
    split at h
    · exact foldlM_except_rel R _ _ _ _ hrefl htrans
        (fun s x s' _ hf => hC _ _ _ _ s x s' hf) h
    · cases h; exact hrefl _
  exact htrans _ _ _ (htrans _ _ _ i1 i2) i3

/-- The links of a mesoscopic link: forward links join consecutive nodes of a
lane chain of the link as it is when the loop starts. -/
theorem createMesoLinks_rel_chain (R : MicroBuild → MicroBuild → Prop) (hrefl : ∀ s, R s s)
    (htrans : ∀ a b c, R a b → R b c → R a c) (m : Int) (st : MicroBuild)
    (hF : ∀ ml, mapGet? st.mesoLinks m = some ml → ∀ chain ∈ laneChains ml, ∀ a b,
      Consecutive chain a b → ∀ ag s s',
      addMicroLink m LinkType.LINK_FORWARD ag false s a b = .ok s' → R s s')
    (hX : ∀ ag s a b s', addMicroLink m LinkType.LINK_LANE_CHANGE ag false s a b = .ok s' → R s s')
    (ag : List AgentType) (bike walk : Bool) (st' : MicroBuild)
    (h : createMesoLinks ag bike walk st m = .ok st') : R st st' := by
  unfold createMesoLinks at h
  split at h
  · cases h
  rename_i ml hml
  have hF' := hF ml hml
  obtain ⟨st1, h1, h⟩ := except_bind_ok _ _ _ h
  have i1 : R st st1 := foldlM_except_rel R _ _ _ _ hrefl htrans
    (fun s x s' _ hf => linkCarLane_rel R hrefl htrans m ml hF' hX _ s s' x hf) h1
  obtain ⟨st2, h2, h⟩ := except_bind_ok _ _ _ h
  have i2 : R st1 st2 := by
    split at h2
    · exact foldlM_except_rel R _ _ _ _ hrefl htrans
        (fun s x s' _ hf => linkCell_forward_rel R m _
          (hF' ml.microNodesBikeLane (by simp [laneChains])) _ s x s' hf) h2
    · cases h2; exact hrefl _
  have i3 : R st2 st' := by
    split at h
    · exact foldlM_except_rel R _ _ _ _ hrefl htrans
        (fun s x s' _ hf => linkCell_forward_rel R m _
          (hF' ml.microNodesWalkLane (by simp [laneChains])) _ s x s' hf) h
    · cases h; exact hrefl _
  exact htrans _ _ _ (htrans _ _ _ i1 i2) i3

theorem createMesoLinks_rel (R : MicroBuild → MicroBuild → Prop) (hrefl : ∀ s, R s s)
    (htrans : ∀ a b c, R a b → R b c → R a c) (m : Int)
    (hL : ∀ ty ag s a b s', addMicroLink m ty ag false s a b = .ok s' → R s s')
    (ag : List AgentType) (bike walk : Bool) (st st' : MicroBuild)
    (h : createMesoLinks ag bike walk st m = .ok st') : R st st' :=
  createMesoLinks_rel_chain R hrefl htrans m st
    (fun _ _ _ _ _ _ _ ag s s' hh => hL _ ag s _ _ s' hh)
    (fun ag s a b s' hh => hL _ ag s a b s' hh) ag bike walk st' h

theorem mem_adjacentPairs_left (ms : List Int) (u d : Int) (h : (u, d) ∈ adjacentPairs ms) :
    u ∈ ms := by
  unfold adjacentPairs at h
  exact (List.of_mem_zip h).1

theorem mem_adjacentPairs_right (ms : List Int) (u d : Int) (h : (u, d) ∈ adjacentPairs ms) :
    d ∈ ms := by
  unfold adjacentPairs at h
  exact List.mem_of_mem_tail (List.of_mem_zip h).2

/-- The body of the loop over the macroscopic links in two phases: the nodes
(creation, marks, stitching), then the links. -/
theorem processMacroLink_phases (R1 R2 : MicroBuild → MicroBuild → Prop)
    (hrefl1 : ∀ s, R1 s s) (htrans1 : ∀ a b c, R1 a b → R1 b c → R1 a c)
    (hrefl2 : ∀ s, R2 s s) (htrans2 : ∀ a b c, R2 a b → R2 b c → R2 a c)
    (P : GeoPrims) (macroLink : NetworkLink)
    (hC : ∀ m ∈ macroLink.mesolinks, ∀ b w o s s',
      createMesoNodes P b w o s m = .ok s' → R1 s s')
    (hU : ∀ z s k s', markUpstream z s k = .ok s' → R1 s s')
    (hD : ∀ z s k s', markDownstream z s k = .ok s' → R1 s s')
    (hSL : ∀ u ∈ macroLink.mesolinks, ∀ d ∈ macroLink.mesolinks, ∀ us ds s j s',
      stitchLane u d us ds s j = .ok s' → R1 s s')
    (hSB : ∀ u ∈ macroLink.mesolinks, ∀ d ∈ macroLink.mesolinks, ∀ s s',
      stitchBike u d s = .ok s' → R1 s s')
    (hSW : ∀ u ∈ macroLink.mesolinks, ∀ d ∈ macroLink.mesolinks, ∀ s s',
      stitchWalk u d s = .ok s' → R1 s s')
    (hP : ∀ m ∈ macroLink.mesolinks, ∀ ag b w s s',
      createMesoLinks ag b w s m = .ok s' → R2 s s')
    (macroNodes : GoMap NetworkNode) (sep : Bool) (st st' : MicroBuild)
    (h : processMacroLink P macroNodes sep st macroLink = .ok st') :
    ∃ mid, R1 st mid ∧ R2 mid st' := by
  unfold processMacroLink at h
  simp only at h
  split at h
  · cases h
  obtain ⟨st1, h1, h⟩ := except_bind_ok _ _ _ h
  have i1 : R1 st st1 := foldlM_except_rel R1 _ _ _ _ hrefl1 htrans1
    (fun s x s' hx hf => hC x hx _ _ _ s s' hf) h1
  split at h
  · cases h; exact ⟨_, i1, hrefl2 _⟩
  obtain ⟨st2, h2, h⟩ := except_bind_ok _ _ _ h
  have i2 : R1 st1 st2 := markTargets_rel R1 hrefl1 htrans1 hU hD _ _ _ _ _ _ h2
  obtain ⟨st3, h3, h⟩ := except_bind_ok _ _ _ h
  have i3 : R1 st2 st3 := foldlM_except_rel R1 _ _ _ _ hrefl1 htrans1
    (fun s x s' hx hf => stitchPair_rel R1 hrefl1 htrans1 x
      (hSL x.1 (mem_adjacentPairs_left _ _ _ hx) x.2 (mem_adjacentPairs_right _ _ _ hx))
      (hSB x.1 (mem_adjacentPairs_left _ _ _ hx) x.2 (mem_adjacentPairs_right _ _ _ hx))
      (hSW x.1 (mem_adjacentPairs_left _ _ _ hx) x.2 (mem_adjacentPairs_right _ _ _ hx))
      _ _ s s' hf) h3
  have i4 : R2 st3 st' := foldlM_except_rel R2 _ _ _ _ hrefl2 htrans2
    (fun s x s' hx hf => hP x hx _ _ _ s s' hf) h
  exact ⟨st3, htrans1 _ _ _ (htrans1 _ _ _ i1 i2) i3, i4⟩

theorem processMacroLink_rel (R : MicroBuild → MicroBuild → Prop) (hrefl : ∀ s, R s s)
    (htrans : ∀ a b c, R a b → R b c → R a c) (P : GeoPrims) (macroLink : NetworkLink)
    (hC : ∀ m ∈ macroLink.mesolinks, ∀ b w o s s',
      createMesoNodes P b w o s m = .ok s' → R s s')
    (hU : ∀ z s k s', markUpstream z s k = .ok s' → R s s')
    (hD : ∀ z s k s', markDownstream z s k = .ok s' → R s s')
    (hSL : ∀ u ∈ macroLink.mesolinks, ∀ d ∈ macroLink.mesolinks, ∀ us ds s j s',
      stitchLane u d us ds s j = .ok s' → R s s')
    (hSB : ∀ u ∈ macroLink.mesolinks, ∀ d ∈ macroLink.mesolinks, ∀ s s',
      stitchBike u d s = .ok s' → R s s')
    (hSW : ∀ u ∈ macroLink.mesolinks, ∀ d ∈ macroLink.mesolinks, ∀ s s',
      stitchWalk u d s = .ok s' → R s s')
    (hL : ∀ m ∈ macroLink.mesolinks, ∀ ty ag s a b s',
      addMicroLink m ty ag false s a b = .ok s' → R s s')
    (macroNodes : GoMap NetworkNode) (sep : Bool) (st st' : MicroBuild)
    (h : processMacroLink P macroNodes sep st macroLink = .ok st') : R st st' := by
  obtain ⟨mid, h1, h2⟩ := processMacroLink_phases R R hrefl htrans hrefl htrans P macroLink
    hC hU hD hSL hSB hSW
    (fun m hm ag b w s s' hh => createMesoLinks_rel R hrefl htrans m (hL m hm) ag b w s s' hh)
    macroNodes sep st st' h
  exact htrans _ _ _ h1 h2

theorem connectLane_rel (R : MicroBuild → MicroBuild → Prop) (hrefl : ∀ s, R s s)
    (htrans : ∀ a b c, R a b → R b c → R a c)
    (hN : ∀ m l s pt, R s (insertMovementNode m l s pt))
    (hL : ∀ m ty ag f s a b s', addMicroLink m ty ag f s a b = .ok s' → R s s')
    (hA : ∀ key ml ids s, mapGet? s.mesoLinks key = some ml → R s (appendLaneChain key ml ids s))
    (P : GeoPrims) (key : Int) (st st' : MicroBuild) (i : Nat)
    (h : connectLane P key st i = .ok st') : R st st' := by
  have hC : ∀ m l (acc acc' : MicroBuild × Int × Bool × List Int) pt,
      connectCell m l acc pt = .ok acc' → R acc.1 acc'.1 := by
    intro m l acc acc' pt hh
    unfold connectCell at hh
    simp only at hh
    split at hh
    · cases hh
    · rename_i st2 h2
      cases hh
      exact htrans _ _ _ (hN _ _ _ _) (hL _ _ _ _ _ _ _ _ h2)
  unfold connectLane at h
  split at h
  · cases h
  split at h
  · obtain ⟨a1, _, h⟩ := except_bind_ok _ _ _ h
    obtain ⟨a2, _, h⟩ := except_bind_ok _ _ _ h
    obtain ⟨a3, _, h⟩ := except_bind_ok _ _ _ h
    obtain ⟨a4, _, h⟩ := except_bind_ok _ _ _ h
    simp only at h
    split at h
    · obtain ⟨r, hr, h⟩ := except_bind_ok _ _ _ h
      have i1 : R st r.1 :=
        foldlM_except_inv (fun acc : MicroBuild × Int × Bool × List Int => R st acc.1) _ _ _ _
          (hrefl st) (fun s x s' _ hs hf => htrans _ _ _ hs (hC _ _ s s' x hf)) hr
      obtain ⟨st2, h2, h⟩ := except_bind_ok _ _ _ h
      have i2 : R r.1 st2 := hL _ _ _ _ _ _ _ _ h2
      split at h
      · cases h
      · rename_i ml2 hml2
        cases h
        exact htrans _ _ _ (htrans _ _ _ i1 i2) (hA _ _ _ _ hml2)
    · cases h
  · cases h

theorem connectLinks_rel (R : MicroBuild → MicroBuild → Prop) (hrefl : ∀ s, R s s)
    (htrans : ∀ a b c, R a b → R b c → R a c)
    (hN : ∀ m l s pt, R s (insertMovementNode m l s pt))
    (hL : ∀ m ty ag f s a b s', addMicroLink m ty ag f s a b = .ok s' → R s s')
    (hA : ∀ key ml ids s, mapGet? s.mesoLinks key = some ml → R s (appendLaneChain key ml ids s))
    (P : GeoPrims) (st st' : MicroBuild)
    (h : connectLinks P st = .ok st') : R st st' := by
  unfold connectLinks at h
  refine foldlM_except_rel R _ _ _ _ hrefl htrans ?_ h
  intro s key s' _ hf
  unfold connectMovement at hf
  split at hf
  · cases hf
  split at hf
  · split at hf
    · cases hf
    split at hf
    · cases hf
    split at hf
    · cases hf
    split at hf
    · cases hf
    exact foldlM_except_rel R _ _ _ _ hrefl htrans
      (fun t x t' _ hx => connectLane_rel R hrefl htrans hN hL hA P key t t' x hx) hf
  · cases hf
    exact hrefl _

/-! ## Lemmas on the ID invariant of the microscopic build -/

theorem KeysBelow_mapSet_existing {V : Type} (m : GoMap V) (n k : Int) (v : V)
    (h : KeysBelow m n) (hk : (mapGet? m k).isSome) : KeysBelow (mapSet m k v) n := by
  intro k' hk'
  rw [mapGet?_mapSet] at hk'
  by_cases e : k = k'
  · subst e; exact h k hk
  · simp only [e, if_false] at hk'; exact h k' hk'

theorem KeysBelow_mapSet_new {V : Type} (m : GoMap V) (n : Int) (v : V)
    (h : KeysBelow m n) (hn : 0 ≤ n) : KeysBelow (mapSet m n v) (n + 1) := by
  intro k' hk'
  rw [mapGet?_mapSet] at hk'
  by_cases e : n = k'
  · subst e; omega
  · simp only [e, if_false] at hk'
    have := h k' hk'
    omega

theorem KeysBelow_mapDelete {V : Type} (m : GoMap V) (n k : Int)
    (h : KeysBelow m n) : KeysBelow (mapDelete m k) n := by
  intro k' hk'
  rw [mapGet?_mapDelete] at hk'
  by_cases e : k = k'
  · simp [e] at hk'
  · simp only [e, if_false] at hk'; exact h k' hk'

theorem KeysDense_mapSet_new {V : Type} (m : GoMap V) (n : Int) (v : V)
    (h : KeysDense m n) (hn : 0 ≤ n) : KeysDense (mapSet m n v) (n + 1) := by
  intro k'
  rw [mapGet?_mapSet]
  by_cases e : n = k'
  · subst e; simp; omega
  · simp only [e, if_false]
    rw [h k']
    constructor
    · intro hh; omega
    · intro hh; omega

theorem KeysUnique_mapSet {V : Type} (m : GoMap V) (k : Int) (v : V) (h : KeysUnique m) :
    KeysUnique (mapSet m k v) := by
  unfold KeysUnique at h ⊢
  cases hk : mapGet? m k with
  | none =>
    rw [mapSet_keys_of_not_mem m k v hk]
    refine List.Nodup.append h (List.nodup_singleton k) ?_
    intro x hx hx2
    simp only [List.mem_singleton] at hx2
    subst hx2
    have := (mapGet?_isSome_iff_mem_keys m x).mpr hx
    simp [hk] at this
  | some w =>
    rw [mapSet_keys_of_mem m k v (by simp [hk])]
    exact h

theorem KeysUnique_mapDelete {V : Type} (m : GoMap V) (k : Int) (h : KeysUnique m) :
    KeysUnique (mapDelete m k) := by
  unfold KeysUnique at h ⊢
  unfold mapDelete
  exact List.Nodup.sublist (List.Sublist.map _ (List.filter_sublist _)) h

theorem addLaneNode_ids (a b : Int) (acc : GoMap NetworkNodeMicroscopic × Int × List Int)
    (pt : Point × Point) (h : NodeIdsInv acc.1 acc.2.1) :
    NodeIdsInv (addLaneNode a b acc pt).1 (addLaneNode a b acc pt).2.1 := by
  obtain ⟨h1, h2, h3⟩ := h
  unfold addLaneNode
  exact ⟨KeysBelow_mapSet_new _ _ _ h1 h3, KeysUnique_mapSet _ _ _ h2, by simp only; omega⟩

theorem fold_addLaneNode_ids (a b : Int) (pts : List (Point × Point))
    (acc : GoMap NetworkNodeMicroscopic × Int × List Int) (h : NodeIdsInv acc.1 acc.2.1) :
    NodeIdsInv (pts.foldl (addLaneNode a b) acc).1 (pts.foldl (addLaneNode a b) acc).2.1 :=
  foldl_inv (fun r => NodeIdsInv r.1 r.2.1) _ _ acc h
    (fun s x _ hs => addLaneNode_ids _ _ s x hs)

theorem addCarLane_ids (g : List (List (Point × Point)))
    (acc : GoMap NetworkNodeMicroscopic × Int × NetworkLinkMesoscopic) (i : Nat)
    (h : NodeIdsInv acc.1 acc.2.1) :
    NodeIdsInv (addCarLane g acc i).1 (addCarLane g acc i).2.1 := by
  unfold addCarLane
  simp only
  exact fold_addLaneNode_ids _ _ _ (acc.1, acc.2.1, []) h

theorem fold_addCarLane_ids (g : List (List (Point × Point))) (is : List Nat)
    (acc : GoMap NetworkNodeMicroscopic × Int × NetworkLinkMesoscopic)
    (h : NodeIdsInv acc.1 acc.2.1) :
    NodeIdsInv (is.foldl (addCarLane g) acc).1 (is.foldl (addCarLane g) acc).2.1 :=
  foldl_inv (fun r => NodeIdsInv r.1 r.2.1) _ _ acc h
    (fun s x _ hs => addCarLane_ids g s x hs)

theorem buildMesoNodes_ids (P : GeoPrims) (bike walk : Bool) (o : ℚ) (lc0 : Int)
    (mesoLink : NetworkLinkMesoscopic) (nodes : GoMap NetworkNodeMicroscopic) (n : Int)
    (h : NodeIdsInv nodes n) :
    NodeIdsInv (buildMesoNodes P bike walk o lc0 mesoLink nodes n).1
      (buildMesoNodes P bike walk o lc0 mesoLink nodes n).2.1 := by
  unfold buildMesoNodes
  simp only
  exact fold_addLaneNode_ids _ _ _ _
    (fold_addLaneNode_ids _ _ _ (_, _, _) (fold_addCarLane_ids _ _ (nodes, n, mesoLink) h))

theorem createMesoNodes_ids (P : GeoPrims) (bike walk : Bool) (o : ℚ) (st st' : MicroBuild)
    (m : Int) (h : createMesoNodes P bike walk o st m = .ok st') (hinv : IdsInv st) :
    IdsInv st' := by
  unfold createMesoNodes at h
  split at h
  · cases h
  · rename_i mesoLink hm
    split at h
    · cases h
    · rename_i lc0 hlc
      simp only [Except.ok.injEq] at h
      subst h
      obtain ⟨i1, i2, i3, i4, i5, i6⟩ := hinv
      have r := buildMesoNodes_ids P bike walk o lc0 mesoLink st.nodes st.lastNodeID ⟨i2, i4, i6⟩
      exact ⟨i1, r.1, i3, r.2.1, i5, r.2.2⟩

theorem IdsInv_nodes_set (st : MicroBuild) (k : Int) (v : NetworkNodeMicroscopic)
    (h : IdsInv st) (hk : (mapGet? st.nodes k).isSome) :
    IdsInv { st with nodes := mapSet st.nodes k v } := by
  obtain ⟨i1, i2, i3, i4, i5, i6⟩ := h
  exact ⟨i1, KeysBelow_mapSet_existing _ _ _ _ i2 hk, i3, KeysUnique_mapSet _ _ _ i4, i5, i6⟩

theorem IdsInv_nodes_delete (st : MicroBuild) (k : Int) (h : IdsInv st) :
    IdsInv { st with nodes := mapDelete st.nodes k } := by
  obtain ⟨i1, i2, i3, i4, i5, i6⟩ := h
  exact ⟨i1, KeysBelow_mapDelete _ _ _ i2, i3, KeysUnique_mapDelete _ _ i4, i5, i6⟩

theorem markUpstream_ids (z : Int) (st st' : MicroBuild) (k : Int)
    (h : markUpstream z st k = .ok st') (hinv : IdsInv st) : IdsInv st' := by
  unfold markUpstream at h
  split at h
  · cases h
  · rename_i n hn
    cases h
    exact IdsInv_nodes_set st k _ hinv (by simp [hn])

theorem markDownstream_ids (z : Int) (st st' : MicroBuild) (k : Int)
    (h : markDownstream z st k = .ok st') (hinv : IdsInv st) : IdsInv st' := by
  unfold markDownstream at h
  split at h
  · cases h
  · rename_i n hn
    cases h
    exact IdsInv_nodes_set st k _ hinv (by simp [hn])

theorem stitchLane_ids (u d us ds : Int) (st : MicroBuild) (j : Nat) (st' : MicroBuild)
    (h : stitchLane u d us ds st j = .ok st') (hinv : IdsInv st) : IdsInv st' := by
  unfold stitchLane at h
  split at h
  · obtain ⟨a1, _, h⟩ := except_bind_ok _ _ _ h
    obtain ⟨a2, _, h⟩ := except_bind_ok _ _ _ h
    obtain ⟨a3, _, h⟩ := except_bind_ok _ _ _ h
    obtain ⟨a4, _, h⟩ := except_bind_ok _ _ _ h
    obtain ⟨a5, _, h⟩ := except_bind_ok _ _ _ h
    obtain ⟨a6, _, h⟩ := except_bind_ok _ _ _ h
    cases h
    exact IdsInv_nodes_delete st a2 hinv
  · cases h

theorem stitchBike_ids (u d : Int) (st st' : MicroBuild)
    (h : stitchBike u d st = .ok st') (hinv : IdsInv st) : IdsInv st' := by
  unfold stitchBike at h
  split at h
  · obtain ⟨a1, _, h⟩ := except_bind_ok _ _ _ h
    obtain ⟨a2, _, h⟩ := except_bind_ok _ _ _ h
    obtain ⟨a3, _, h⟩ := except_bind_ok _ _ _ h
    cases h
    exact IdsInv_nodes_delete st a1 hinv
  · cases h

theorem stitchWalk_ids (u d : Int) (st st' : MicroBuild)
    (h : stitchWalk u d st = .ok st') (hinv : IdsInv st) : IdsInv st' := by
  unfold stitchWalk at h
  split at h
  · obtain ⟨a1, _, h⟩ := except_bind_ok _ _ _ h
    obtain ⟨a2, _, h⟩ := except_bind_ok _ _ _ h
    obtain ⟨a3, _, h⟩ := except_bind_ok _ _ _ h
    cases h
    exact IdsInv_nodes_delete st a1 hinv
  · cases h

theorem addMicroLink_ids (m : Int) (ty : LinkType) (ag : List AgentType) (f : Bool)
    (st : MicroBuild) (a b : Int) (st' : MicroBuild)
    (h : addMicroLink m ty ag f st a b = .ok st') (hinv : IdsInv st) : IdsInv st' := by
  unfold addMicroLink at h
  split at h
  · cases h
  rename_i sn hsn
  split at h
  · cases h
  rename_i tn htn
  simp only at h
  split at h
  · cases h
  rename_i tn1 htn1
  cases h
  obtain ⟨i1, i2, i3, i4, i5, i6⟩ := hinv
  refine ⟨KeysDense_mapSet_new _ _ _ i1 i5, ?_, KeysUnique_mapSet _ _ _ i3,
    KeysUnique_mapSet _ _ _ (KeysUnique_mapSet _ _ _ i4), by simp only; omega, i6⟩
  apply KeysBelow_mapSet_existing
  · exact KeysBelow_mapSet_existing _ _ _ _ i2 (by simp [hsn])
  · simp [htn1]

theorem insertMovementNode_ids (m l : Int) (st : MicroBuild) (pt : Point × Point)
    (hinv : IdsInv st) : IdsInv (insertMovementNode m l st pt) := by
  obtain ⟨i1, i2, i3, i4, i5, i6⟩ := hinv
  unfold insertMovementNode
  exact ⟨i1, KeysBelow_mapSet_new _ _ _ i2 i6, i3, KeysUnique_mapSet _ _ _ i4, i5,
    by simp only; omega⟩

theorem appendLaneChain_ids (key : Int) (ml : NetworkLinkMesoscopic) (ids : List Int)
    (st : MicroBuild) (hinv : IdsInv st) : IdsInv (appendLaneChain key ml ids st) := hinv

/-- The ID invariant holds when `genMicroscopicNetwork` calls `connectLinks`. -/
theorem buildCells_ids (P : GeoPrims) (macroLinks : GoMap NetworkLink)
    (macroNodes : GoMap NetworkNode) (mesoLinks : GoMap NetworkLinkMesoscopic) (sep : Bool)
    (st : MicroBuild) (h : buildCells P macroLinks macroNodes mesoLinks sep = .ok st) :
    IdsInv st := by
  unfold buildCells at h
  refine foldlM_except_inv IdsInv _ _ _ _ ?_ ?_ h
  · refine ⟨?_, ?_, ?_, ?_, le_refl _, le_refl _⟩
    · intro k; simp [mapGet?]
    · intro k hk; simp [mapGet?] at hk
    · simp [KeysUnique]
    · simp [KeysUnique]
  · intro s M s' _ hs hf
    exact processMacroLink_rel (fun a b => IdsInv a → IdsInv b) (fun _ h => h)
      (fun _ _ _ h1 h2 h => h2 (h1 h)) P M
      (fun m _ b w o s s' hh hi => createMesoNodes_ids P b w o s s' m hh hi)
      (fun z s k s' hh hi => markUpstream_ids z s s' k hh hi)
      (fun z s k s' hh hi => markDownstream_ids z s s' k hh hi)
      (fun u _ d _ us ds s j s' hh hi => stitchLane_ids u d us ds s j s' hh hi)
      (fun u _ d _ s s' hh hi => stitchBike_ids u d s s' hh hi)
      (fun u _ d _ s s' hh hi => stitchWalk_ids u d s s' hh hi)
      (fun m _ ty ag s a b s' hh hi => addMicroLink_ids m ty ag false s a b s' hh hi)
      macroNodes sep s s' hf hs

/-- `connectLinks` keeps the ID invariant. -/
theorem connectLinks_ids (P : GeoPrims) (st st' : MicroBuild)
    (h : connectLinks P st = .ok st') (hinv : IdsInv st) : IdsInv st' :=
  connectLinks_rel (fun a b => IdsInv a → IdsInv b) (fun _ h => h)
    (fun _ _ _ h1 h2 h => h2 (h1 h))
    (fun m l s pt hi => insertMovementNode_ids m l s pt hi)
    (fun m ty ag f s a b s' hh hi => addMicroLink_ids m ty ag f s a b s' hh hi)
    (fun key ml ids s _ hi => appendLaneChain_ids key ml ids s hi)
    P st st' h hinv

theorem updateNodeBoundary_keys (mesoLinks : GoMap NetworkLinkMesoscopic)
    (mesoNodes : GoMap NetworkNodeMesoscopic) (nodes nodes' : GoMap NetworkNodeMicroscopic)
    (key : Int) (h : updateNodeBoundary mesoLinks mesoNodes nodes key = .ok nodes') :
    ∃ v, (mapGet? nodes key).isSome ∧ nodes' = mapSet nodes key v := by
  unfold updateNodeBoundary at h
  split at h
  · cases h
  rename_i n hn
  have hs : (mapGet? nodes key).isSome := by simp [hn]
  split at h
  · cases h; exact ⟨_, hs, rfl⟩
  split at h
  · cases h
  split at h
  · cases h
  split at h
  · cases h; exact ⟨_, hs, rfl⟩
  split at h
  · split at h
    · cases h
    · cases h; exact ⟨_, hs, rfl⟩
  · cases h; exact ⟨_, hs, rfl⟩

/-- `updateBoundaryType` keeps the key set of the node table. -/
theorem updateBoundaryType_keys (mesoLinks : GoMap NetworkLinkMesoscopic)
    (mesoNodes : GoMap NetworkNodeMesoscopic) (nodes nodes' : GoMap NetworkNodeMicroscopic)
    (h : updateBoundaryType mesoLinks mesoNodes nodes = .ok nodes') :
    (∀ k, (mapGet? nodes' k).isSome ↔ (mapGet? nodes k).isSome)
      ∧ (KeysUnique nodes → KeysUnique nodes') := by
  unfold updateBoundaryType at h
  refine foldlM_except_inv
    (fun s => (∀ k, (mapGet? s k).isSome ↔ (mapGet? nodes k).isSome)
      ∧ (KeysUnique nodes → KeysUnique s)) _ _ _ _ ⟨fun _ => Iff.rfl, fun hh => hh⟩ ?_ h
  intro s key s' _ hs hf
  obtain ⟨v, hv, rfl⟩ := updateNodeBoundary_keys _ _ _ _ _ hf
  refine ⟨?_, fun hh => KeysUnique_mapSet _ _ _ (hs.2 hh)⟩
  intro k
  rw [mapGet?_mapSet]
  by_cases e : key = k
  · subst e
    simp only [if_true, Option.isSome_some, true_iff]
    exact (hs.1 key).mp hv
  · simp only [e, if_false]
    exact hs.1 k

/-! ## Lemmas on forward links and lane chains -/

theorem createMesoNodes_frame (P : GeoPrims) (bike walk : Bool) (o : ℚ) (st st' : MicroBuild)
    (m : Int) (h : createMesoNodes P bike walk o st m = .ok st') :
    st'.links = st.links ∧ st'.lastLinkID = st.lastLinkID
      ∧ ∀ k, k ≠ m → mapGet? st'.mesoLinks k = mapGet? st.mesoLinks k := by
  unfold createMesoNodes at h
  split at h
  · cases h
  split at h
  · cases h
  cases h
  refine ⟨rfl, rfl, ?_⟩
  intro k hk
  exact mapGet?_mapSet_ne _ _ _ _ (fun e => hk e.symm)

theorem markUpstream_frame (z : Int) (st st' : MicroBuild) (k : Int)
    (h : markUpstream z st k = .ok st') :
    st'.links = st.links ∧ st'.lastLinkID = st.lastLinkID ∧ st'.mesoLinks = st.mesoLinks
      ∧ st'.lastNodeID = st.lastNodeID := by
  unfold markUpstream at h
  split at h
  · cases h
  · cases h; exact ⟨rfl, rfl, rfl, rfl⟩

theorem markDownstream_frame (z : Int) (st st' : MicroBuild) (k : Int)
    (h : markDownstream z st k = .ok st') :
    st'.links = st.links ∧ st'.lastLinkID = st.lastLinkID ∧ st'.mesoLinks = st.mesoLinks
      ∧ st'.lastNodeID = st.lastNodeID := by
  unfold markDownstream at h
  split at h
  · cases h
  · cases h; exact ⟨rfl, rfl, rfl, rfl⟩

theorem stitchLane_frame (u d us ds : Int) (st : MicroBuild) (j : Nat) (st' : MicroBuild)
    (h : stitchLane u d us ds st j = .ok st') :
    st'.links = st.links ∧ st'.lastLinkID = st.lastLinkID ∧ st'.lastNodeID = st.lastNodeID
      ∧ ∀ k, k ≠ u → mapGet? st'.mesoLinks k = mapGet? st.mesoLinks k := by
  unfold stitchLane at h
  split at h
  · obtain ⟨a1, _, h⟩ := except_bind_ok _ _ _ h
    obtain ⟨a2, _, h⟩ := except_bind_ok _ _ _ h
    obtain ⟨a3, _, h⟩ := except_bind_ok _ _ _ h
    obtain ⟨a4, _, h⟩ := except_bind_ok _ _ _ h
    obtain ⟨a5, _, h⟩ := except_bind_ok _ _ _ h
    obtain ⟨a6, _, h⟩ := except_bind_ok _ _ _ h
    cases h
    exact ⟨rfl, rfl, rfl, fun k hk => mapGet?_mapSet_ne _ _ _ _ (fun e => hk e.symm)⟩
  · cases h

theorem stitchBike_frame (u d : Int) (st st' : MicroBuild) (h : stitchBike u d st = .ok st') :
    st'.links = st.links ∧ st'.lastLinkID = st.lastLinkID ∧ st'.lastNodeID = st.lastNodeID
      ∧ ∀ k, k ≠ u → mapGet? st'.mesoLinks k = mapGet? st.mesoLinks k := by
  unfold stitchBike at h
  split at h
  · obtain ⟨a1, _, h⟩ := except_bind_ok _ _ _ h
    obtain ⟨a2, _, h⟩ := except_bind_ok _ _ _ h
    obtain ⟨a3, _, h⟩ := except_bind_ok _ _ _ h
    cases h
    exact ⟨rfl, rfl, rfl, fun k hk => mapGet?_mapSet_ne _ _ _ _ (fun e => hk e.symm)⟩
  · cases h

theorem stitchWalk_frame (u d : Int) (st st' : MicroBuild) (h : stitchWalk u d st = .ok st') :
    st'.links = st.links ∧ st'.lastLinkID = st.lastLinkID ∧ st'.lastNodeID = st.lastNodeID
      ∧ ∀ k, k ≠ u → mapGet? st'.mesoLinks k = mapGet? st.mesoLinks k := by
  unfold stitchWalk at h
  split at h
  · obtain ⟨a1, _, h⟩ := except_bind_ok _ _ _ h
    obtain ⟨a2, _, h⟩ := except_bind_ok _ _ _ h
    obtain ⟨a3, _, h⟩ := except_bind_ok _ _ _ h
    cases h
    exact ⟨rfl, rfl, rfl, fun k hk => mapGet?_mapSet_ne _ _ _ _ (fun e => hk e.symm)⟩
  · cases h

/-- What `addMicroLink` does to the state. -/
theorem addMicroLink_spec (m : Int) (ty : LinkType) (ag : List AgentType) (f : Bool)
    (st : MicroBuild) (a b : Int) (st' : MicroBuild)
    (h : addMicroLink m ty ag f st a b = .ok st') :
    ∃ sn tn tn1, mapGet? st.nodes a = some sn ∧ mapGet? st.nodes b = some tn
      ∧ mapGet? (mapSet st.nodes a
          { sn with outcomingLinks := sn.outcomingLinks ++ [st.lastLinkID] }) b = some tn1
      ∧ st' = { st with
          links := mapSet st.links st.lastLinkID
            { ID := st.lastLinkID, sourceNodeID := a, targetNodeID := b,
              geom := [sn.geom, tn.geom], geomEuclidean := [sn.geomEuclidean, tn.geomEuclidean],
              mesoLinkID := m, microLinkType := ty, allowedAgentTypes := ag,
              isFirstMovement := f }
          lastLinkID := st.lastLinkID + 1
          nodes := mapSet (mapSet st.nodes a
              { sn with outcomingLinks := sn.outcomingLinks ++ [st.lastLinkID] }) b
            { tn1 with incomingLinks := tn1.incomingLinks ++ [st.lastLinkID] } } := by
  unfold addMicroLink at h
  split at h
  · cases h
  rename_i sn hsn
  split at h
  · cases h
  rename_i tn htn
  simp only at h
  split at h
  · cases h
  rename_i tn1 htn1
  cases h
  exact ⟨sn, tn, tn1, hsn, htn, htn1, rfl⟩

/-- The link that `addMicroLink` creates. -/
theorem addMicroLink_link (m : Int) (ty : LinkType) (ag : List AgentType) (f : Bool)
    (st : MicroBuild) (a b : Int) (st' : MicroBuild)
    (h : addMicroLink m ty ag f st a b = .ok st') :
    st'.lastLinkID = st.lastLinkID + 1 ∧ st'.lastNodeID = st.lastNodeID
      ∧ st'.mesoLinks = st.mesoLinks
      ∧ ∃ link, mapGet? st'.links st.lastLinkID = some link ∧ link.sourceNodeID = a
        ∧ link.targetNodeID = b ∧ link.mesoLinkID = m ∧ link.microLinkType = ty
        ∧ link.isFirstMovement = f ∧ link.ID = st.lastLinkID := by
  obtain ⟨sn, tn, tn1, -, -, -, rfl⟩ := addMicroLink_spec _ _ _ _ _ _ _ _ h
  exact ⟨rfl, rfl, rfl, _, mapGet?_mapSet_same _ _ _, rfl, rfl, rfl, rfl, rfl, rfl⟩

theorem NodePhase_refl (ms : List Int) (s : MicroBuild) : NodePhase ms s s :=
  ⟨rfl, fun _ _ => rfl⟩

theorem NodePhase_trans (ms : List Int) (a b c : MicroBuild) (h1 : NodePhase ms a b)
    (h2 : NodePhase ms b c) : NodePhase ms a c :=
  ⟨h2.1.trans h1.1, fun k hk => (h2.2 k hk).trans (h1.2 k hk)⟩

theorem LinkPhase_refl (X : GoMap NetworkLinkMesoscopic) (ms : List Int) (s : MicroBuild) :
    LinkPhase X ms s s :=
  fun hX => ⟨hX, fun _ _ h => Or.inl h⟩

theorem LinkPhase_trans (X : GoMap NetworkLinkMesoscopic) (ms : List Int) (a b c : MicroBuild)
    (h1 : LinkPhase X ms a b) (h2 : LinkPhase X ms b c) : LinkPhase X ms a c := by
  intro hX
  obtain ⟨hb, h1'⟩ := h1 hX
  obtain ⟨hc, h2'⟩ := h2 hb
  refine ⟨hc, ?_⟩
  intro k l hl
  rcases h2' k l hl with h | h
  · exact h1' k l h
  · exact Or.inr h

theorem addMicroLink_LinkPhase (X : GoMap NetworkLinkMesoscopic) (ms : List Int) (m : Int)
    (hm : m ∈ ms) (ty : LinkType) (ag : List AgentType) (st : MicroBuild) (a b : Int)
    (st' : MicroBuild) (h : addMicroLink m ty ag false st a b = .ok st')
    (hchain : ty = LinkType.LINK_FORWARD →
      ∃ ml, mapGet? X m = some ml ∧ ∃ chain ∈ laneChains ml, Consecutive chain a b) :
    LinkPhase X ms st st' := by
  obtain ⟨sn, tn, tn1, -, -, -, rfl⟩ := addMicroLink_spec _ _ _ _ _ _ _ _ h
  intro hX
  refine ⟨hX, ?_⟩
  intro k l hl
  simp only at hl
  rw [mapGet?_mapSet] at hl
  by_cases e : st.lastLinkID = k
  · simp only [e, if_true, Option.some.injEq] at hl
    subst hl
    refine Or.inr ⟨hm, ?_⟩
    intro hty
    exact hchain hty
  · simp only [e, if_false] at hl
    exact Or.inl hl

/-- One macroscopic link keeps the forward links in lane chains, if none of its
mesoscopic links belongs to a macroscopic link processed before. -/
theorem processMacroLink_chains (P : GeoPrims) (macroNodes : GoMap NetworkNode) (sep : Bool)
    (done : List Int) (st st' : MicroBuild) (M : NetworkLink)
    (h : processMacroLink P macroNodes sep st M = .ok st')
    (hd : ∀ m ∈ M.mesolinks, m ∉ done) (hinv : ForwardInChains done st) :
    ForwardInChains (done ++ M.mesolinks) st' := by
  obtain ⟨mid, h1, h2⟩ := processMacroLink_phases (NodePhase M.mesolinks)
    (fun s s' => ∀ X, LinkPhase X M.mesolinks s s')
    (NodePhase_refl _) (NodePhase_trans _)
    (fun s X => LinkPhase_refl X _ s)
    (fun a b c h1 h2 X => LinkPhase_trans X _ a b c (h1 X) (h2 X)) P M
    (fun m hm b w o s s' hh =>
      ⟨(createMesoNodes_frame P b w o s s' m hh).1,
        fun k hk => (createMesoNodes_frame P b w o s s' m hh).2.2 k
          (fun e => hk (e ▸ hm))⟩)
    (fun z s k s' hh => ⟨(markUpstream_frame z s s' k hh).1,
      fun _ _ => by rw [(markUpstream_frame z s s' k hh).2.2.1]⟩)
    (fun z s k s' hh => ⟨(markDownstream_frame z s s' k hh).1,
      fun _ _ => by rw [(markDownstream_frame z s s' k hh).2.2.1]⟩)
    (fun u hu d _ us ds s j s' hh => ⟨(stitchLane_frame u d us ds s j s' hh).1,
      fun k hk => (stitchLane_frame u d us ds s j s' hh).2.2.2 k (fun e => hk (e ▸ hu))⟩)
    (fun u hu d _ s s' hh => ⟨(stitchBike_frame u d s s' hh).1,
      fun k hk => (stitchBike_frame u d s s' hh).2.2.2 k (fun e => hk (e ▸ hu))⟩)
    (fun u hu d _ s s' hh => ⟨(stitchWalk_frame u d s s' hh).1,
      fun k hk => (stitchWalk_frame u d s s' hh).2.2.2 k (fun e => hk (e ▸ hu))⟩)
    (fun m hm ag b w s s' hh X => by
      by_cases hX : s.mesoLinks = X
      · exact createMesoLinks_rel_chain (LinkPhase X M.mesolinks) (LinkPhase_refl X _)
          (LinkPhase_trans X _) m s
          (fun ml hml chain hc a b hab ag t t' ht =>
            addMicroLink_LinkPhase X _ m hm _ ag t a b t' ht
              (fun _ => ⟨ml, hX ▸ hml, chain, hc, hab⟩))
          (fun ag t a b t' ht =>
            addMicroLink_LinkPhase X _ m hm _ ag t a b t' ht (fun e => by cases e))
          ag b w s' hh
      · intro hX'; exact absurd hX' hX)
    macroNodes sep st st' h
  obtain ⟨hm1, hm2⟩ := h2 mid.mesoLinks rfl
  intro k l hl hfwd
  rcases hm2 k l hl with hold | hnew
  · rw [h1.1] at hold
    obtain ⟨hdone, ml, hml, hch⟩ := hinv k l hold hfwd
    refine ⟨List.mem_append_left _ hdone, ml, ?_, hch⟩
    rw [hm1, h1.2 _ (fun hmem => hd _ hmem hdone)]
    exact hml
  · refine ⟨List.mem_append_right _ hnew.1, ?_⟩
    rw [hm1]
    exact hnew.2 hfwd

theorem foldlM_processMacroLink_chains (P : GeoPrims) (macroNodes : GoMap NetworkNode)
    (sep : Bool) (Ms : List NetworkLink) (done : List Int) (st st' : MicroBuild)
    (h : Ms.foldlM (processMacroLink P macroNodes sep) st = .ok st')
    (hdisj : (Ms.map (fun M => M.mesolinks)).Pairwise List.Disjoint)
    (hd : ∀ M ∈ Ms, ∀ m ∈ M.mesolinks, m ∉ done) (hinv : ForwardInChains done st) :
    ForwardInChains (done ++ (Ms.map (fun M => M.mesolinks)).flatten) st' := by
  induction Ms generalizing done st with
  | nil =>
    simp only [List.foldlM_nil, pure, Except.pure] at h
    cases h
    simpa using hinv
  | cons M rest ih =>
    rw [List.foldlM_cons] at h
    obtain ⟨s1, h1, h⟩ := except_bind_ok _ _ _ h
    have i1 := processMacroLink_chains P macroNodes sep done st s1 M h1
      (hd M (List.mem_cons_self _ _)) hinv
    simp only [List.map_cons, List.pairwise_cons] at hdisj
    have := ih (done ++ M.mesolinks) s1 h hdisj.2 (by
      intro M' hM' m hm hmem
      rcases List.mem_append.mp hmem with hh | hh
      · exact hd M' (List.mem_cons_of_mem _ hM') m hm hh
      · exact hdisj.1 M'.mesolinks (List.mem_map_of_mem _ hM') hh hm) i1
    simpa [List.append_assoc] using this

/-- When `genMicroscopicNetwork` calls `connectLinks`, every forward link joins
consecutive nodes of a lane chain of its mesoscopic link, if no mesoscopic link
is shared between two macroscopic links. -/
theorem buildCells_chains (P : GeoPrims) (macroLinks : GoMap NetworkLink)
    (macroNodes : GoMap NetworkNode) (mesoLinks : GoMap NetworkLinkMesoscopic) (sep : Bool)
    (st : MicroBuild) (h : buildCells P macroLinks macroNodes mesoLinks sep = .ok st)
    (hdisj : (macroLinks.map (fun kv => kv.2.mesolinks)).Pairwise List.Disjoint) :
    ∀ k l, mapGet? st.links k = some l → l.microLinkType = LinkType.LINK_FORWARD →
      InLaneChain st.mesoLinks l := by
  unfold buildCells at h
  have := foldlM_processMacroLink_chains P macroNodes sep _ [] _ st h
    (by simpa [List.map_map] using hdisj) (by intro _ _ _ _ hh; simp at hh)
    (by intro k l hl; simp [mapGet?] at hl)
  intro k l hl hf
  exact (this k l hl hf).2

theorem MesoExt_refl (ml : NetworkLinkMesoscopic) : MesoExt ml ml :=
  ⟨[], by simp⟩

theorem MesoExt_trans (a b c : NetworkLinkMesoscopic) (h1 : MesoExt a b) (h2 : MesoExt b c) :
    MesoExt a c := by
  obtain ⟨e1, rfl⟩ := h1
  obtain ⟨e2, rfl⟩ := h2
  exact ⟨e1 ++ e2, by simp [List.append_assoc]⟩

theorem NodeSame_refl (n : NetworkNodeMicroscopic) : NodeSame n n :=
  ⟨n.incomingLinks, n.outcomingLinks, rfl⟩

theorem NodeSame_trans (a b c : NetworkNodeMicroscopic) (h1 : NodeSame a b)
    (h2 : NodeSame b c) : NodeSame a c := by
  obtain ⟨i1, o1, rfl⟩ := h1
  obtain ⟨i2, o2, rfl⟩ := h2
  exact ⟨i2, o2, rfl⟩

theorem Stable_refl (s : MicroBuild) : Stable s s :=
  ⟨le_refl _, le_refl _, fun _ _ => rfl, fun _ ml h => ⟨ml, h, MesoExt_refl ml⟩,
    fun _ n h => ⟨n, h, NodeSame_refl n⟩⟩

theorem Stable_trans (a b c : MicroBuild) (h1 : Stable a b) (h2 : Stable b c) : Stable a c := by
  obtain ⟨a1, a2, a3, a4, a5⟩ := h1
  obtain ⟨b1, b2, b3, b4, b5⟩ := h2
  refine ⟨le_trans a1 b1, le_trans a2 b2, ?_, ?_, ?_⟩
  · intro k hk
    rw [b3 k (lt_of_lt_of_le hk a1), a3 k hk]
  · intro key ml h
    obtain ⟨ml1, hm1, e1⟩ := a4 key ml h
    obtain ⟨ml2, hm2, e2⟩ := b4 key ml1 hm1
    exact ⟨ml2, hm2, MesoExt_trans _ _ _ e1 e2⟩
  · intro k n h
    obtain ⟨n1, hn1, e1⟩ := a5 k n h
    obtain ⟨n2, hn2, e2⟩ := b5 k n1 hn1
    exact ⟨n2, hn2, NodeSame_trans _ _ _ e1 e2⟩

theorem insertMovementNode_stable (m l : Int) (s : MicroBuild) (pt : Point × Point)
    (hinv : IdsInv s) : Stable s (insertMovementNode m l s pt) := by
  unfold insertMovementNode
  refine ⟨le_refl _, by simp only; omega, fun _ _ => rfl,
    fun _ ml h => ⟨ml, h, MesoExt_refl ml⟩, ?_⟩
  intro k n hk
  refine ⟨n, ?_, NodeSame_refl n⟩
  simp only
  rw [mapGet?_mapSet]
  have hb := hinv.2.1 k (by simp [hk])
  have : ¬ s.lastNodeID = k := by omega
  simp [this, hk]

theorem addMicroLink_stable (m : Int) (ty : LinkType) (ag : List AgentType) (f : Bool)
    (s : MicroBuild) (a b : Int) (s' : MicroBuild)
    (h : addMicroLink m ty ag f s a b = .ok s') : Stable s s' := by
  obtain ⟨sn, tn, tn1, hsn, htn, htn1, rfl⟩ := addMicroLink_spec _ _ _ _ _ _ _ _ h
  refine ⟨by simp only; omega, le_refl _, ?_, fun _ ml h => ⟨ml, h, MesoExt_refl ml⟩, ?_⟩
  · intro k hk
    simp only
    rw [mapGet?_mapSet]
    have : ¬ s.lastLinkID = k := by omega
    simp [this]
  · intro k n hk
    simp only
    rw [mapGet?_mapSet]
    by_cases e : b = k
    · subst e
      simp only [if_true]
      refine ⟨_, rfl, ?_⟩
      rw [mapGet?_mapSet] at htn1
      by_cases e2 : a = b
      · subst e2
        simp only [if_true, Option.some.injEq] at htn1
        subst htn1
        rw [hsn] at hk
        cases hk
        exact ⟨_, _, rfl⟩
      · simp only [e2, if_false] at htn1
        rw [htn1] at hk
        cases hk
        exact ⟨_, _, rfl⟩
    · simp only [e, if_false]
      rw [mapGet?_mapSet]
      by_cases e2 : a = k
      · subst e2
        simp only [if_true]
        rw [hsn] at hk
        cases hk
        exact ⟨_, rfl, _, _, rfl⟩
      · simp only [e2, if_false]
        exact ⟨n, hk, NodeSame_refl n⟩

theorem appendLaneChain_stable (key : Int) (ml : NetworkLinkMesoscopic) (ids : List Int)
    (s : MicroBuild) (hml : mapGet? s.mesoLinks key = some ml) :
    Stable s (appendLaneChain key ml ids s) := by
  unfold appendLaneChain
  refine ⟨le_refl _, le_refl _, fun _ _ => rfl, ?_, fun _ n h => ⟨n, h, NodeSame_refl n⟩⟩
  intro k ml0 hk
  simp only
  rw [mapGet?_mapSet]
  by_cases e : key = k
  · subst e
    rw [hml] at hk
    cases hk
    simp only [if_true]
    exact ⟨_, rfl, [ids], rfl⟩
  · simp only [e, if_false]
    exact ⟨ml0, hk, MesoExt_refl ml0⟩

/-- `connectLinks` keeps the ID invariant and is stable. -/
theorem connectLinks_stable (P : GeoPrims) (st st' : MicroBuild)
    (h : connectLinks P st = .ok st') (hinv : IdsInv st) : IdsInv st' ∧ Stable st st' :=
  connectLinks_rel (fun a b => IdsInv a → IdsInv b ∧ Stable a b)
    (fun s hi => ⟨hi, Stable_refl s⟩)
    (fun a b c h1 h2 hi => ⟨(h2 (h1 hi).1).1, Stable_trans a b c (h1 hi).2 (h2 (h1 hi).1).2⟩)
    (fun m l s pt hi => ⟨insertMovementNode_ids m l s pt hi, insertMovementNode_stable m l s pt hi⟩)
    (fun m ty ag f s a b s' hh hi =>
      ⟨addMicroLink_ids m ty ag f s a b s' hh hi, addMicroLink_stable m ty ag f s a b s' hh⟩)
    (fun key ml ids s hml hi =>
      ⟨appendLaneChain_ids key ml ids s hi, appendLaneChain_stable key ml ids s hml⟩)
    P st st' h hinv

theorem InLaneChain_of_stable (s s' : MicroBuild) (hs : Stable s s')
    (l : NetworkLinkMicroscopic) (h : InLaneChain s.mesoLinks l) : InLaneChain s'.mesoLinks l := by
  obtain ⟨ml, hml, chain, hc, hcons⟩ := h
  obtain ⟨ml', hml', extra, rfl⟩ := hs.2.2.2.1 _ ml hml
  refine ⟨_, hml', chain, ?_, hcons⟩
  unfold laneChains at hc ⊢
  simp only [List.mem_append] at hc ⊢
  rcases hc with hc | hc
  · exact Or.inl (Or.inl hc)
  · exact Or.inr hc

/-! ## Lemmas on the movement lanes built by `connectLinks` -/

theorem getLast?_cons_getElem? (a : Int) (l : List Int) (z : Int)
    (h : (a :: l).getLast? = some z) : (a :: l)[l.length]? = some z := by
  rw [List.getLast?_eq_getElem?] at h
  simpa using h

theorem NodeSame_fields (n n' : NetworkNodeMicroscopic) (h : NodeSame n n') :
    n'.mesoLinkID = n.mesoLinkID ∧ n'.laneID = n.laneID ∧ n'.geom = n.geom
      ∧ n'.ID = n.ID := by
  obtain ⟨i, o, rfl⟩ := h
  exact ⟨rfl, rfl, rfl, rfl⟩

theorem connectCell_path (st0 : MicroBuild) (mID laneID startID : Int)
    (acc acc' : MicroBuild × Int × Bool × List Int) (pt : Point × Point)
    (h : connectCell mID laneID acc pt = .ok acc') (hinv : PathInv st0 mID laneID startID acc) :
    PathInv st0 mID laneID startID acc' ∧ acc'.2.2.2.length = acc.2.2.2.length + 1 := by
  obtain ⟨i1, i2, i3, i4, i5, i6, i7⟩ := hinv
  unfold connectCell at h
  simp only at h
  split at h
  · cases h
  rename_i st2 h2
  cases h
  have hs1 : Stable acc.1 (insertMovementNode mID laneID acc.1 pt) :=
    insertMovementNode_stable _ _ _ _ i1
  have hi1 : IdsInv (insertMovementNode mID laneID acc.1 pt) :=
    insertMovementNode_ids _ _ _ _ i1
  have hs2 : Stable (insertMovementNode mID laneID acc.1 pt) st2 :=
    addMicroLink_stable _ _ _ _ _ _ _ _ h2
  have hi2 : IdsInv st2 := addMicroLink_ids _ _ _ _ _ _ _ _ h2 hi1
  have hs02 : Stable acc.1 st2 := Stable_trans _ _ _ hs1 hs2
  obtain ⟨hl2, -, -, link2, hk2, f1, f2, f3, f4, f5, -⟩ := addMicroLink_link _ _ _ _ _ _ _ _ h2
  have hL1 : (insertMovementNode mID laneID acc.1 pt).lastLinkID = acc.1.lastLinkID := rfl
  refine ⟨⟨hi2, Stable_trans _ _ _ i2 hs02, ?_, ?_, ?_, ?_, ?_⟩, by simp⟩
  · simp only [hl2, hL1, i3, List.length_append, List.length_singleton]
    push_cast
    ring
  · show (startID :: (acc.2.2.2 ++ [acc.1.lastNodeID])).getLast? = some acc.1.lastNodeID
    rw [← List.cons_append, List.getLast?_append]
    simp
  · simp
  · intro x hx
    simp only [List.mem_append, List.mem_singleton] at hx
    rcases hx with hx | hx
    · obtain ⟨hb, n, hn, hf1, hf2⟩ := i6 x hx
      obtain ⟨n', hn', hsame⟩ := hs02.2.2.2.2 x n hn
      have := NodeSame_fields n n' hsame
      exact ⟨hb, n', hn', this.1.trans hf1, this.2.1.trans hf2⟩
    · subst hx
      have hnew : mapGet? (insertMovementNode mID laneID acc.1 pt).nodes acc.1.lastNodeID
          = some (newMicroNode acc.1.lastNodeID pt mID laneID) := by
        unfold insertMovementNode
        simp only
        exact mapGet?_mapSet_same _ _ _
      obtain ⟨n', hn', hsame⟩ := hs2.2.2.2.2 _ _ hnew
      have := NodeSame_fields _ n' hsame
      exact ⟨i2.2.1, n', hn', this.1, this.2.1⟩
  · intro q hq
    simp only [List.length_append, List.length_singleton] at hq
    by_cases hlt : q < acc.2.2.2.length
    · obtain ⟨link, hl, e1, e2, e3, e4, e5⟩ := i7 q hlt
      refine ⟨link, ?_, ?_, ?_, e3, e4, e5⟩
      · rw [hs02.2.2.1 _ (by rw [i3]; omega)]
        exact hl
      · rw [← e1, ← List.cons_append]
        exact List.getElem?_append_left (by simp; omega)
      · rw [← e2]
        exact List.getElem?_append_left hlt
    · have hq' : q = acc.2.2.2.length := by omega
      subst hq'
      refine ⟨link2, ?_, ?_, ?_, f3, f4, ?_⟩
      · rw [hL1, i3] at hk2
        exact hk2
      · rw [f1]
        show (startID :: (acc.2.2.2 ++ [acc.1.lastNodeID]))[acc.2.2.2.length]? = some acc.2.1
        rw [← List.cons_append, List.getElem?_append_left (by simp)]
        exact getLast?_cons_getElem? _ _ _ i4
      · rw [f2]
        simp
      · rw [f5]
        exact i5

theorem foldlM_connectCell_path (st0 : MicroBuild) (mID laneID startID : Int)
    (pts : List (Point × Point)) (acc r : MicroBuild × Int × Bool × List Int)
    (h : pts.foldlM (connectCell mID laneID) acc = .ok r)
    (hinv : PathInv st0 mID laneID startID acc) :
    PathInv st0 mID laneID startID r ∧ r.2.2.2.length = acc.2.2.2.length + pts.length := by
  induction pts generalizing acc with
  | nil =>
    simp only [List.foldlM_nil, pure, Except.pure] at h
    cases h
    exact ⟨hinv, by simp⟩
  | cons pt rest ih =>
    rw [List.foldlM_cons] at h
    obtain ⟨a1, h1, h2⟩ := except_bind_ok _ _ _ h
    obtain ⟨p1, p2⟩ := connectCell_path st0 mID laneID startID acc a1 pt h1 hinv
    obtain ⟨q1, q2⟩ := ih a1 h2 p1
    refine ⟨q1, ?_⟩
    rw [q2, p2]
    simp only [List.length_cons]
    omega

theorem sliceAt_last {α : Type} (l : List α) (x : α)
    (h : sliceAt l ((l.length : Int) - 1) = .ok x) : l.getLast? = some x := by
  obtain ⟨h0, h1⟩ := sliceAt_ok _ _ _ h
  rw [List.getLast?_eq_getElem?]
  have : ((l.length : Int) - 1).toNat = l.length - 1 := by omega
  rw [this] at h1
  exact h1

theorem sliceAt_head {α : Type} (l : List α) (x : α) (h : sliceAt l 0 = .ok x) :
    l.head? = some x := by
  obtain ⟨_, h1⟩ := sliceAt_ok _ _ _ h
  cases l with
  | nil => simp at h1
  | cons a t => simpa using h1

theorem cellsNumOf_pos (x : ℚ) : 1 ≤ cellsNumOf x := by
  unfold cellsNumOf
  exact le_max_left _ _

theorem MesoExt_lane (ml ml' : NetworkLinkMesoscopic) (h : MesoExt ml ml') (p : Nat)
    (lane : List Int) (hl : ml.microNodesPerLane[p]? = some lane) :
    ml'.microNodesPerLane[p]? = some lane := by
  obtain ⟨extra, rfl⟩ := h
  simp only
  have hp : p < ml.microNodesPerLane.length := by
    by_contra hc
    rw [List.getElem?_eq_none (by omega)] at hl
    cases hl
  rw [List.getElem?_append_left hp]
  exact hl

theorem MesoExt_fields (ml ml' : NetworkLinkMesoscopic) (h : MesoExt ml ml') :
    ml'.ID = ml.ID ∧ ml'.movementID = ml.movementID ∧ ml'.lanesNum = ml.lanesNum
      ∧ ml'.movementLinkIncome = ml.movementLinkIncome
      ∧ ml'.movementLinkOutcome = ml.movementLinkOutcome
      ∧ ml'.movementIncomeLaneStart = ml.movementIncomeLaneStart
      ∧ ml'.movementOutcomeLaneStart = ml.movementOutcomeLaneStart
      ∧ ml'.microNodesBikeLane = ml.microNodesBikeLane
      ∧ ml'.microNodesWalkLane = ml.microNodesWalkLane := by
  obtain ⟨extra, rfl⟩ := h
  exact ⟨rfl, rfl, rfl, rfl, rfl, rfl, rfl, rfl, rfl⟩

/-- One lane of a movement: `connectLane` builds its path. -/
theorem connectLane_path (P : GeoPrims) (key : Int) (t t' : MicroBuild) (i : Nat)
    (h : connectLane P key t i = .ok t') (hinv : IdsInv t) :
    IdsInv t' ∧ Stable t t' ∧ ∃ ml, mapGet? t.mesoLinks key = some ml
      ∧ MovementLane P t' ml.ID ((i : Int) + 1) ml.movementLinkIncome ml.movementLinkOutcome
          (ml.movementIncomeLaneStart + (i : Int)) (ml.movementOutcomeLaneStart + (i : Int)) key
          t.lastNodeID t.lastLinkID := by
  unfold connectLane at h
  split at h
  · cases h
  rename_i ml hml
  split at h
  swap
  · cases h
  rename_i inc out hinc hout
  obtain ⟨inLane, hinLane, h⟩ := except_bind_ok _ _ _ h
  obtain ⟨outLane, houtLane, h⟩ := except_bind_ok _ _ _ h
  obtain ⟨startID, hstart, h⟩ := except_bind_ok _ _ _ h
  obtain ⟨endID, hend, h⟩ := except_bind_ok _ _ _ h
  simp only at h
  split at h
  swap
  · cases h
  rename_i startNode endNode hsn hen
  obtain ⟨r, hr, h⟩ := except_bind_ok _ _ _ h
  obtain ⟨st2, h2, h⟩ := except_bind_ok _ _ _ h
  split at h
  · cases h
  rename_i ml2 hml2
  cases h
  -- the loop over the points
  have hp0 : PathInv t ml.ID ((i : Int) + 1) startID (t, startID, true, []) :=
    ⟨hinv, Stable_refl t, by simp, by simp, by simp, by intro x hx; simp at hx,
      by intro q hq; simp at hq⟩
  obtain ⟨⟨p1, p2, p3, p4, p5, p6, p7⟩, plen⟩ :=
    foldlM_connectCell_path t ml.ID ((i : Int) + 1) startID _ _ r hr hp0
  simp only [List.length_nil, zero_add, List.length_map, List.length_range] at plen
  -- the last link
  obtain ⟨hl2, -, hm2, link2, hk2, f1, f2, f3, f4, f5, -⟩ := addMicroLink_link _ _ _ _ _ _ _ _ h2
  have hs2 : Stable r.1 st2 := addMicroLink_stable _ _ _ _ _ _ _ _ h2
  have hi2 : IdsInv st2 := addMicroLink_ids _ _ _ _ _ _ _ _ h2 p1
  have hs3 : Stable st2 (appendLaneChain key ml2 r.2.2.2 st2) :=
    appendLaneChain_stable _ _ _ _ hml2
  have hst : Stable t (appendLaneChain key ml2 r.2.2.2 st2) :=
    Stable_trans _ _ _ (Stable_trans _ _ _ p2 hs2) hs3
  have hs23 : Stable r.1 (appendLaneChain key ml2 r.2.2.2 st2) := Stable_trans _ _ _ hs2 hs3
  refine ⟨appendLaneChain_ids _ _ _ _ hi2, hst, ml, hml, ?_⟩
  obtain ⟨inc', hinc', einc⟩ := hst.2.2.2.1 _ inc hinc
  obtain ⟨out', hout', eout⟩ := hst.2.2.2.1 _ out hout
  obtain ⟨sn', hsn', esn⟩ := hst.2.2.2.2 _ startNode hsn
  obtain ⟨en', hen', een⟩ := hst.2.2.2.2 _ endNode hen
  have hcells := cellsNumOf_pos (P.lengthHaversign [startNode.geom, endNode.geom])
  refine ⟨inc', out', { ml2 with microNodesPerLane := ml2.microNodesPerLane ++ [r.2.2.2] },
    inLane, outLane, r.2.2.2, startID, endID, t.lastLinkID, sn', en',
    hinc', (sliceAt_ok _ _ _ hinLane).1,
    MesoExt_lane _ _ einc _ _ (sliceAt_ok _ _ _ hinLane).2, sliceAt_last _ _ hstart,
    hout', (sliceAt_ok _ _ _ houtLane).1,
    MesoExt_lane _ _ eout _ _ (sliceAt_ok _ _ _ houtLane).2, sliceAt_head _ _ hend,
    hsn', hen', ?_, ?_, by simp, ?_, le_refl _, ?_⟩
  · rw [(NodeSame_fields _ _ esn).2.2.1, (NodeSame_fields _ _ een).2.2.1, plen]
    omega
  · unfold appendLaneChain
    simp only
    exact mapGet?_mapSet_same _ _ _
  · intro x hx
    obtain ⟨hb, n, hn, g1, g2⟩ := p6 x hx
    obtain ⟨n', hn', hsame⟩ := hs23.2.2.2.2 x n hn
    have := NodeSame_fields n n' hsame
    exact ⟨hb, n', hn', this.1.trans g1, this.2.1.trans g2⟩
  · intro q hq
    by_cases hlt : q < r.2.2.2.length
    · obtain ⟨link, hl, e1, e2, e3, e4, e5⟩ := p7 q hlt
      refine ⟨link, ?_, e1, ?_, e3, e4, e5⟩
      · rw [hs23.2.2.1 _ (by rw [p3]; omega)]
        exact hl
      · rw [← e2]
        exact List.getElem?_append_left hlt
    · have hq' : q = r.2.2.2.length := by omega
      subst hq'
      refine ⟨link2, ?_, ?_, ?_, f3, f4, ?_⟩
      · rw [p3] at hk2
        exact hk2
      · rw [f1]
        exact getLast?_cons_getElem? _ _ _ p4
      · rw [f2]
        simp
      · rw [f5]
        exact p5

/-- The path of a movement lane stays when the build goes on. -/
theorem MovementLane_mono (P : GeoPrims) (s s' : MicroBuild) (hs : Stable s s')
    (hinv : IdsInv s) (mID laneID ik ok il ol key n0 l0 n0' l0' : Int) (hn : n0' ≤ n0)
    (hl : l0' ≤ l0) (h : MovementLane P s mID laneID ik ok il ol key n0 l0) :
    MovementLane P s' mID laneID ik ok il ol key n0' l0' := by
  obtain ⟨inc, out, mv, inLane, outLane, chain, startID, endID, fl, sn, en,
    h1, h2, h3, h4, h5, h6, h7, h8, h9, h10, h11, h12, h13, h14, h15, h16⟩ := h
  obtain ⟨inc', hinc', einc⟩ := hs.2.2.2.1 _ inc h1
  obtain ⟨out', hout', eout⟩ := hs.2.2.2.1 _ out h5
  obtain ⟨mv', hmv', emv⟩ := hs.2.2.2.1 _ mv h12
  obtain ⟨sn', hsn', esn⟩ := hs.2.2.2.2 _ sn h9
  obtain ⟨en', hen', een⟩ := hs.2.2.2.2 _ en h10
  refine ⟨inc', out', mv', inLane, outLane, chain, startID, endID, fl, sn', en',
    hinc', h2, MesoExt_lane _ _ einc _ _ h3, h4, hout', h6, MesoExt_lane _ _ eout _ _ h7, h8,
    hsn', hen', ?_, hmv', ?_, ?_, le_trans hl h15, ?_⟩
  · rw [(NodeSame_fields _ _ esn).2.2.1, (NodeSame_fields _ _ een).2.2.1]
    exact h11
  · obtain ⟨extra, rfl⟩ := emv
    exact List.mem_append_left _ h13
  · intro x hx
    obtain ⟨hb, n, hn', g1, g2⟩ := h14 x hx
    obtain ⟨n', hn'', hsame⟩ := hs.2.2.2.2 x n hn'
    have := NodeSame_fields n n' hsame
    exact ⟨le_trans hn hb, n', hn'', this.1.trans g1, this.2.1.trans g2⟩
  · intro q hq
    obtain ⟨link, hk, e⟩ := h16 q hq
    refine ⟨link, ?_, e⟩
    have hlt : fl + (q : Int) < s.lastLinkID := ((hinv.1 _).mp (by simp [hk])).2
    rw [hs.2.2.1 _ hlt]
    exact hk

theorem StableInv_trans (a b c : MicroBuild)
    (h1 : IdsInv a → IdsInv b ∧ Stable a b) (h2 : IdsInv b → IdsInv c ∧ Stable b c) :
    IdsInv a → IdsInv c ∧ Stable a c :=
  fun hi => ⟨(h2 (h1 hi).1).1, Stable_trans a b c (h1 hi).2 (h2 (h1 hi).1).2⟩

theorem connectLane_stable (P : GeoPrims) (key : Int) (t t' : MicroBuild) (i : Nat)
    (h : connectLane P key t i = .ok t') (hinv : IdsInv t) : IdsInv t' ∧ Stable t t' :=
  ⟨(connectLane_path P key t t' i h hinv).1, (connectLane_path P key t t' i h hinv).2.1⟩

theorem connectMovement_stable (P : GeoPrims) (s : MicroBuild) (key : Int) (s' : MicroBuild)
    (h : connectMovement P s key = .ok s') (hinv : IdsInv s) : IdsInv s' ∧ Stable s s' := by
  unfold connectMovement at h
  split at h
  · cases h
  split at h
  · split at h
    · cases h
    split at h
    · cases h
    split at h
    · cases h
    split at h
    · cases h
    exact foldlM_except_rel (fun a b => IdsInv a → IdsInv b ∧ Stable a b) _ _ _ _
      (fun s hi => ⟨hi, Stable_refl s⟩) StableInv_trans
      (fun t x t' _ hx hi => connectLane_stable P key t t' x hx hi) h hinv
  · cases h
    exact ⟨hinv, Stable_refl _⟩

theorem MesoExt_mem_lane (ml ml' : NetworkLinkMesoscopic) (h : MesoExt ml ml')
    (lane : List Int) (hl : lane ∈ ml.microNodesPerLane) : lane ∈ ml'.microNodesPerLane := by
  obtain ⟨extra, rfl⟩ := h
  exact List.mem_append_left _ hl

theorem InMovementPath_of_stable (s s' : MicroBuild) (hs : Stable s s')
    (l : NetworkLinkMicroscopic) (h : InMovementPath s.mesoLinks l) :
    InMovementPath s'.mesoLinks l := by
  obtain ⟨key, mv, inc, out, chain, inLane, outLane, startID, endID,
    h1, h2, h3, h4, h5, h6, h7, h8, h9, h10, h11⟩ := h
  obtain ⟨mv', hmv', emv⟩ := hs.2.2.2.1 _ mv h1
  obtain ⟨inc', hinc', einc⟩ := hs.2.2.2.1 _ inc h4
  obtain ⟨out', hout', eout⟩ := hs.2.2.2.1 _ out h7
  have fm := MesoExt_fields _ _ emv
  refine ⟨key, mv', inc', out', chain, inLane, outLane, startID, endID, hmv', ?_,
    MesoExt_mem_lane _ _ emv _ h3, ?_, MesoExt_mem_lane _ _ einc _ h5, h6, ?_,
    MesoExt_mem_lane _ _ eout _ h8, h9, ?_, h11⟩
  · rw [fm.2.1]
    exact h2
  · rw [fm.2.2.2.1]
    exact hinc'
  · rw [fm.2.2.2.2.1]
    exact hout'
  · rw [fm.1]
    exact h10

theorem LinkCover_refl (s : MicroBuild) (hinv : IdsInv s) : LinkCover s s := by
  intro k l hk hl
  have := ((hinv.1 k).mp (by simp [hl])).2
  omega

theorem LinkCover_trans (a b c : MicroBuild) (hbc : Stable b c)
    (h1 : LinkCover a b) (h2 : LinkCover b c) : LinkCover a c := by
  intro k l hk hl
  by_cases hlt : k < b.lastLinkID
  · rw [hbc.2.2.1 k hlt] at hl
    obtain ⟨g1, g2⟩ := h1 k l hk hl
    exact ⟨g1, InMovementPath_of_stable b c hbc l g2⟩
  · exact h2 k l (by omega) hl

theorem path_consecutive (startID endID : Int) (chain : List Int) (q : Nat) (a b : Int)
    (hq : q ≤ chain.length) (h1 : (startID :: chain)[q]? = some a)
    (h2 : (chain ++ [endID])[q]? = some b) :
    Consecutive (startID :: (chain ++ [endID])) a b := by
  apply consecutive_of_getElem? _ q
  · rw [← List.cons_append, List.getElem?_append_left (by simp; omega)]
    exact h1
  · rw [List.getElem?_cons_succ]
    exact h2

/-- One lane of a movement: every link that `connectLane` creates is a link of
the path of the lane. -/
theorem connectLane_cover (P : GeoPrims) (key : Int) (t t' : MicroBuild) (i : Nat)
    (h : connectLane P key t i = .ok t') (hinv : IdsInv t)
    (hmv : ∀ ml, mapGet? t.mesoLinks key = some ml → ml.movementID > -1) :
    LinkCover t t' := by
  have hinv' := (connectLane_path P key t t' i h hinv).1
  unfold connectLane at h
  split at h
  · cases h
  rename_i ml hml
  split at h
  swap
  · cases h
  rename_i inc out hinc hout
  obtain ⟨inLane, hinLane, h⟩ := except_bind_ok _ _ _ h
  obtain ⟨outLane, houtLane, h⟩ := except_bind_ok _ _ _ h
  obtain ⟨startID, hstart, h⟩ := except_bind_ok _ _ _ h
  obtain ⟨endID, hend, h⟩ := except_bind_ok _ _ _ h
  simp only at h
  split at h
  swap
  · cases h
  rename_i startNode endNode hsn hen
  obtain ⟨r, hr, h⟩ := except_bind_ok _ _ _ h
  obtain ⟨st2, h2, h⟩ := except_bind_ok _ _ _ h
  split at h
  · cases h
  rename_i ml2 hml2
  cases h
  have hp0 : PathInv t ml.ID ((i : Int) + 1) startID (t, startID, true, []) :=
    ⟨hinv, Stable_refl t, by simp, by simp, by simp, by intro x hx; simp at hx,
      by intro q hq; simp at hq⟩
  obtain ⟨⟨p1, p2, p3, p4, p5, p6, p7⟩, -⟩ :=
    foldlM_connectCell_path t ml.ID ((i : Int) + 1) startID _ _ r hr hp0
  obtain ⟨hl2, -, hm2, link2, hk2, f1, f2, f3, f4, f5, -⟩ := addMicroLink_link _ _ _ _ _ _ _ _ h2
  have hs2 : Stable r.1 st2 := addMicroLink_stable _ _ _ _ _ _ _ _ h2
  have hs3 : Stable st2 (appendLaneChain key ml2 r.2.2.2 st2) :=
    appendLaneChain_stable _ _ _ _ hml2
  have hst2 : Stable t st2 := Stable_trans _ _ _ p2 hs2
  have hst : Stable t (appendLaneChain key ml2 r.2.2.2 st2) := Stable_trans _ _ _ hst2 hs3
  obtain ⟨inc', hinc', einc⟩ := hst.2.2.2.1 _ inc hinc
  obtain ⟨out', hout', eout⟩ := hst.2.2.2.1 _ out hout
  obtain ⟨ml2', hml2', eml2⟩ := hst2.2.2.2.1 _ ml hml
  rw [hml2] at hml2'
  cases hml2'
  have fm := MesoExt_fields _ _ eml2
  have hpath : InMovementPath (appendLaneChain key ml2 r.2.2.2 st2).mesoLinks
      = InMovementPath (mapSet st2.mesoLinks key
        { ml2 with microNodesPerLane := ml2.microNodesPerLane ++ [r.2.2.2] }) := rfl
  -- every link of the lane
  have hall : ∀ (q : Nat) (l : NetworkLinkMicroscopic), q ≤ r.2.2.2.length →
      l.mesoLinkID = ml.ID → (startID :: r.2.2.2)[q]? = some l.sourceNodeID →
      (r.2.2.2 ++ [endID])[q]? = some l.targetNodeID →
      InMovementPath (appendLaneChain key ml2 r.2.2.2 st2).mesoLinks l := by
    intro q l hq e3 e1 e2
    refine ⟨key, { ml2 with microNodesPerLane := ml2.microNodesPerLane ++ [r.2.2.2] },
      inc', out', r.2.2.2, inLane, outLane, startID, endID, ?_, ?_, by simp, ?_,
      List.getElem?_mem (MesoExt_lane _ _ einc _ _ (sliceAt_ok _ _ _ hinLane).2),
      sliceAt_last _ _ hstart, ?_,
      List.getElem?_mem (MesoExt_lane _ _ eout _ _ (sliceAt_ok _ _ _ houtLane).2),
      sliceAt_head _ _ hend, ?_, path_consecutive _ _ _ q _ _ hq e1 e2⟩
    · unfold appendLaneChain
      exact mapGet?_mapSet_same _ _ _
    · show ml2.movementID > -1
      rw [fm.2.1]
      exact hmv ml hml
    · show mapGet? _ ml2.movementLinkIncome = some inc'
      rw [fm.2.2.2.1]
      exact hinc'
    · show mapGet? _ ml2.movementLinkOutcome = some out'
      rw [fm.2.2.2.2.1]
      exact hout'
    · show l.mesoLinkID = ml2.ID
      rw [fm.1]
      exact e3
  intro k l hk hl
  have hlt : k < st2.lastLinkID := ((hinv'.1 k).mp (by simp [hl])).2
  rw [hl2, p3] at hlt
  have hl' : mapGet? st2.links k = some l := hl
  by_cases hq : k < r.1.lastLinkID
  · rw [hs2.2.2.1 k hq] at hl'
    rw [p3] at hq
    obtain ⟨link, hlk, e1, e2, e3, e4, -⟩ := p7 (k - t.lastLinkID).toNat (by omega)
    have hkq : t.lastLinkID + (((k - t.lastLinkID).toNat : Nat) : Int) = k := by omega
    rw [hkq, hl'] at hlk
    cases hlk
    refine ⟨e4, hall (k - t.lastLinkID).toNat l (by omega) e3 e1 ?_⟩
    rw [← e2]
    exact List.getElem?_append_left (by omega)
  · have hk' : k = r.1.lastLinkID := by rw [p3]; rw [p3] at hq; omega
    subst hk'
    rw [hk2] at hl'
    cases hl'
    refine ⟨f4, hall r.2.2.2.length link2 (le_refl _) f3 ?_ ?_⟩
    · rw [f1]
      exact getLast?_cons_getElem? _ _ _ p4
    · rw [f2]
      simp

theorem connectMovement_cover (P : GeoPrims) (s : MicroBuild) (key : Int) (s' : MicroBuild)
    (h : connectMovement P s key = .ok s') (hinv : IdsInv s) : LinkCover s s' := by
  unfold connectMovement at h
  split at h
  · cases h
  rename_i ml hml
  split at h
  · rename_i hmv
    split at h
    · cases h
    split at h
    · cases h
    split at h
    · cases h
    split at h
    · cases h
    refine (foldlM_except_inv (fun t => IdsInv t ∧ Stable s t ∧ LinkCover s t) _ _ _ _
      ⟨hinv, Stable_refl s, LinkCover_refl s hinv⟩ ?_ h).2.2
    intro t x t' _ hq hf
    obtain ⟨qi, qs, qc⟩ := hq
    obtain ⟨ri, rs⟩ := connectLane_stable P key t t' x hf qi
    refine ⟨ri, Stable_trans _ _ _ qs rs, LinkCover_trans s t t' rs qc ?_⟩
    apply connectLane_cover P key t t' x hf qi
    intro ml' hml'
    obtain ⟨ml2, hml2, e⟩ := qs.2.2.2.1 key ml hml
    rw [hml'] at hml2
    cases hml2
    rw [(MesoExt_fields _ _ e).2.1]
    exact hmv
  · cases h
    exact LinkCover_refl _ hinv

/-- Every link that `connectLinks` creates is a link of the path of a movement
lane. -/
theorem connectLinks_cover (P : GeoPrims) (st st' : MicroBuild)
    (h : connectLinks P st = .ok st') (hinv : IdsInv st) : LinkCover st st' := by
  unfold connectLinks at h
  refine (foldlM_except_inv (fun t => IdsInv t ∧ Stable st t ∧ LinkCover st t) _ _ _ _
    ⟨hinv, Stable_refl st, LinkCover_refl st hinv⟩ ?_ h).2.2
  intro t x t' _ hq hf
  obtain ⟨qi, qs, qc⟩ := hq
  obtain ⟨ri, rs⟩ := connectMovement_stable P t x t' hf qi
  exact ⟨ri, Stable_trans _ _ _ qs rs, LinkCover_trans st t t' rs qc
    (connectMovement_cover P t x t' hf qi)⟩

/-! ## Lemmas on the stitching of adjacent mesoscopic links -/

theorem FreshIDs_nil (lo hi : Int) : FreshIDs lo hi [] :=
  ⟨List.Pairwise.nil, fun x hx => by simp at hx⟩

theorem FreshIDs_append (lo mid hi : Int) (a b : List Int) (ha : FreshIDs lo mid a)
    (hb : FreshIDs mid hi b) (h1 : lo ≤ mid) (h2 : mid ≤ hi) : FreshIDs lo hi (a ++ b) := by
  refine ⟨List.pairwise_append.mpr ⟨ha.1, hb.1, ?_⟩, ?_⟩
  · intro x hx y hy
    have := (ha.2 x hx).2
    have := (hb.2 y hy).1
    omega
  · intro x hx
    rcases List.mem_append.mp hx with hx | hx
    · have := ha.2 x hx
      omega
    · have := hb.2 x hx
      omega

theorem FreshIDs_nodup (lo hi : Int) (ids : List Int) (h : FreshIDs lo hi ids) : ids.Nodup :=
  List.Pairwise.imp (fun hab => ne_of_lt hab) h.1

/-- The nodes of one lane: the IDs are new and increase, and every one of them
is in the node table. -/
theorem fold_addLaneNode_chain (a b : Int) (pts : List (Point × Point))
    (nodes : GoMap NetworkNodeMicroscopic) (n : Int) (ids : List Int) :
    ∃ new, (pts.foldl (addLaneNode a b) (nodes, n, ids)).2.2 = ids ++ new
      ∧ (pts.foldl (addLaneNode a b) (nodes, n, ids)).2.1 = n + (pts.length : Int)
      ∧ new.length = pts.length ∧ FreshIDs n (n + (pts.length : Int)) new
      ∧ (∀ x, x < n → mapGet? (pts.foldl (addLaneNode a b) (nodes, n, ids)).1 x
          = mapGet? nodes x)
      ∧ (∀ x ∈ new, (mapGet? (pts.foldl (addLaneNode a b) (nodes, n, ids)).1 x).isSome) := by
  induction pts generalizing nodes n ids with
  | nil => exact ⟨[], by simp, by simp, rfl, FreshIDs_nil _ _, fun _ _ => rfl, by simp⟩
  | cons p rest ih =>
    obtain ⟨new, e1, e2, e3, e4, e5, e6⟩ :=
      ih (mapSet nodes n (newMicroNode n p a b)) (n + 1) (ids ++ [n])
    have hstep : (p :: rest).foldl (addLaneNode a b) (nodes, n, ids)
        = rest.foldl (addLaneNode a b)
          (mapSet nodes n (newMicroNode n p a b), n + 1, ids ++ [n]) := rfl
    rw [hstep]
    refine ⟨n :: new, ?_, ?_, by simp [e3], ⟨?_, ?_⟩, ?_, ?_⟩
    · rw [e1]
      simp
    · rw [e2]
      simp only [List.length_cons]
      push_cast
      ring
    · refine List.pairwise_cons.mpr ⟨?_, e4.1⟩
      intro y hy
      have := (e4.2 y hy).1
      omega
    · intro x hx
      simp only [List.length_cons]
      push_cast
      rcases List.mem_cons.mp hx with hx | hx
      · subst hx
        omega
      · have := e4.2 x hx
        omega
    · intro x hx
      rw [e5 x (by omega)]
      exact mapGet?_mapSet_ne _ _ _ _ (by omega)
    · intro x hx
      rcases List.mem_cons.mp hx with hx | hx
      · subst hx
        rw [e5 x (by omega), mapGet?_mapSet_same]
        rfl
      · exact e6 x hx

/-- The nodes of the car lanes of a mesoscopic link. -/
theorem fold_addCarLane_chain (g : List (List (Point × Point))) (len : Nat) (is : List Nat)
    (hlen : ∀ i ∈ is, (g.getD i []).length = len)
    (nodes : GoMap NetworkNodeMicroscopic) (n : Int) (ml : NetworkLinkMesoscopic) :
    ∃ newLanes, (is.foldl (addCarLane g) (nodes, n, ml)).2.2
        = { ml with microNodesPerLane := ml.microNodesPerLane ++ newLanes }
      ∧ newLanes.length = is.length ∧ (∀ lane ∈ newLanes, lane.length = len)
      ∧ n ≤ (is.foldl (addCarLane g) (nodes, n, ml)).2.1
      ∧ FreshIDs n (is.foldl (addCarLane g) (nodes, n, ml)).2.1 newLanes.flatten
      ∧ (∀ x, x < n → mapGet? (is.foldl (addCarLane g) (nodes, n, ml)).1 x = mapGet? nodes x)
      ∧ (∀ x ∈ newLanes.flatten,
          (mapGet? (is.foldl (addCarLane g) (nodes, n, ml)).1 x).isSome) := by
  induction is generalizing nodes n ml with
  | nil =>
    exact ⟨[], by simp, rfl, by simp, le_refl _, FreshIDs_nil _ _, fun _ _ => rfl, by simp⟩
  | cons i rest ih =>
    obtain ⟨lane, f1, f2, f3, f4, f5, f6⟩ :=
      fold_addLaneNode_chain ml.ID ((i : Int) + 1) (g.getD i []) nodes n []
    have hstep : (i :: rest).foldl (addCarLane g) (nodes, n, ml)
        = rest.foldl (addCarLane g)
          (((g.getD i []).foldl (addLaneNode ml.ID ((i : Int) + 1)) (nodes, n, [])).1,
           ((g.getD i []).foldl (addLaneNode ml.ID ((i : Int) + 1)) (nodes, n, [])).2.1,
           { ml with microNodesPerLane := ml.microNodesPerLane
              ++ [((g.getD i []).foldl (addLaneNode ml.ID ((i : Int) + 1)) (nodes, n, [])).2.2] })
        := rfl
    rw [hstep]
    generalize (g.getD i []).foldl (addLaneNode ml.ID ((i : Int) + 1)) (nodes, n, []) = r
      at f1 f2 f5 f6 ⊢
    obtain ⟨r1, r2, r3⟩ := r
    simp only [List.nil_append] at f1 f2 f5 f6 ⊢
    subst f1 f2
    obtain ⟨newLanes, e1, e2, e3, e4, e5, e6, e7⟩ :=
      ih (fun j hj => hlen j (List.mem_cons_of_mem _ hj)) r1 (n + ((g.getD i []).length : Int))
        { ml with microNodesPerLane := ml.microNodesPerLane ++ [r3] }
    refine ⟨r3 :: newLanes, ?_, by simp [e2], ?_, by omega, ?_, ?_, ?_⟩
    · rw [e1]
      simp
    · intro l hl
      rcases List.mem_cons.mp hl with hl | hl
      · subst hl
        rw [f3]
        exact hlen i (List.mem_cons_self _ _)
      · exact e3 l hl
    · rw [List.flatten_cons]
      exact FreshIDs_append _ _ _ _ _ f4 e5 (by omega) e4
    · intro x hx
      rw [e6 x (by omega)]
      exact f5 x hx
    · intro x hx
      rw [List.flatten_cons] at hx
      rcases List.mem_append.mp hx with hx | hx
      · rw [e6 x (f4.2 x hx).2]
        exact f6 x hx
      · exact e7 x hx

theorem samplePoints_length (P : GeoPrims) (ml : NetworkLinkMesoscopic) (c : Int)
    (g : LineString) : (samplePoints P ml c g).length = (c + 1).toNat := by
  unfold samplePoints
  rw [List.length_map, List.length_range]

/-- The nodes of a mesoscopic link that has no nodes yet: the lanes are as many
as `lanesNum`, every lane has at least two nodes, and the node IDs of all the
chains are new, different from each other and in the node table. -/
theorem buildMesoNodes_chains (P : GeoPrims) (bike walk : Bool) (o : ℚ) (lc0 : Int)
    (ml : NetworkLinkMesoscopic) (nodes : GoMap NetworkNodeMicroscopic) (n : Int)
    (hl : ml.microNodesPerLane = []) (hb : ml.microNodesBikeLane = [])
    (hw : ml.microNodesWalkLane = []) :
    (buildMesoNodes P bike walk o lc0 ml nodes n).2.2.lanesNum = ml.lanesNum
      ∧ (buildMesoNodes P bike walk o lc0 ml nodes n).2.2.lanesChange = ml.lanesChange
      ∧ (buildMesoNodes P bike walk o lc0 ml nodes n).2.2.microNodesPerLane.length
          = ml.lanesNum.toNat
      ∧ (∀ lane ∈ (buildMesoNodes P bike walk o lc0 ml nodes n).2.2.microNodesPerLane,
          2 ≤ lane.length)
      ∧ n ≤ (buildMesoNodes P bike walk o lc0 ml nodes n).2.1
      ∧ FreshIDs n (buildMesoNodes P bike walk o lc0 ml nodes n).2.1
          (laneChains (buildMesoNodes P bike walk o lc0 ml nodes n).2.2).flatten
      ∧ (∀ x, x < n → mapGet? (buildMesoNodes P bike walk o lc0 ml nodes n).1 x
          = mapGet? nodes x)
      ∧ (∀ x ∈ (laneChains (buildMesoNodes P bike walk o lc0 ml nodes n).2.2).flatten,
          (mapGet? (buildMesoNodes P bike walk o lc0 ml nodes n).1 x).isSome) := by
  have hlen : ∀ i ∈ List.range ml.lanesNum.toNat,
      ((((List.range ml.lanesNum.toNat).map
        (laneGeometry P ml (-1 * (o / 2 - 1 / 2 + (lc0 : ℚ))))).map
        (samplePoints P ml (cellsNumOf ml.lengthMeters))).getD i []).length
        = (cellsNumOf ml.lengthMeters + 1).toNat := by
    intro i hi
    rw [List.mem_range] at hi
    simp [List.getD_eq_getElem?_getD, List.getElem?_range hi, hi, samplePoints_length]
  obtain ⟨newLanes, e1, e2, e3, e4, e5, e6, e7⟩ := fold_addCarLane_chain _ _ _ hlen nodes n ml
  generalize hr1 : (List.range ml.lanesNum.toNat).foldl (addCarLane
    (((List.range ml.lanesNum.toNat).map
        (laneGeometry P ml (-1 * (o / 2 - 1 / 2 + (lc0 : ℚ))))).map
        (samplePoints P ml (cellsNumOf ml.lengthMeters)))) (nodes, n, ml) = r1 at e1 e4 e5 e6 e7
  obtain ⟨nodes1, n1, ml1⟩ := r1
  simp only at e1 e4 e5 e6 e7
  subst e1
  obtain ⟨newB, b1, b2, b3, b4, b5, b6⟩ := fold_addLaneNode_chain ml.ID (-1)
    (if bike then samplePoints P ml (cellsNumOf ml.lengthMeters)
      (if bike then sideGeometry P ml 0 bikeLaneWidth else []) else []) nodes1 n1 []
  generalize hr2 : (if bike then samplePoints P ml (cellsNumOf ml.lengthMeters)
      (if bike then sideGeometry P ml 0 bikeLaneWidth else []) else []).foldl
      (addLaneNode ml.ID (-1)) (nodes1, n1, []) = r2 at b1 b2 b5 b6
  obtain ⟨nodes2, n2, chainB⟩ := r2
  simp only [List.nil_append] at b1 b2 b5 b6
  subst b1
  obtain ⟨newW, w1, w2, w3, w4, w5, w6⟩ := fold_addLaneNode_chain ml.ID (-2)
    (if walk then samplePoints P ml (cellsNumOf ml.lengthMeters)
      (if walk then sideGeometry P ml 0 walkLaneWidth else []) else []) nodes2 n2 []
  generalize hr3 : (if walk then samplePoints P ml (cellsNumOf ml.lengthMeters)
      (if walk then sideGeometry P ml 0 walkLaneWidth else []) else []).foldl
      (addLaneNode ml.ID (-2)) (nodes2, n2, []) = r3 at w1 w2 w5 w6
  obtain ⟨nodes3, n3, chainW⟩ := r3
  simp only [List.nil_append] at w1 w2 w5 w6
  subst w1
  have hres : buildMesoNodes P bike walk o lc0 ml nodes n
      = (nodes3, n3,
          { ml with
            microNodesPerLane := newLanes
            microNodesBikeLane := chainB
            microNodesWalkLane := chainW }) := by
    unfold buildMesoNodes
    simp only [hb, hw, hl, List.nil_append] at hr1 hr2 hr3 ⊢
    rw [hr1]
    simp only [hr2]
    rw [hr3]
  rw [hres]
  simp only [hl, List.nil_append] at e3 e5 e7 ⊢
  have hc := cellsNumOf_pos ml.lengthMeters
  have hflat : ∀ m : NetworkLinkMesoscopic, m.microNodesPerLane = newLanes →
      m.microNodesBikeLane = chainB → m.microNodesWalkLane = chainW →
      (laneChains m).flatten = newLanes.flatten ++ (chainB ++ chainW) := by
    intro m h1 h2 h3
    unfold laneChains
    rw [h1, h2, h3]
    simp
  rw [hflat _ rfl rfl rfl]
  refine ⟨trivial, trivial, by simp [e2], ?_, by omega, ?_, ?_, ?_⟩
  · intro lane hlane
    rw [e3 lane hlane]
    omega
  · refine FreshIDs_append n n1 n3 _ _ e5 ?_ e4 (by omega)
    exact FreshIDs_append n1 n2 n3 _ _ (b2 ▸ b4) (w2 ▸ w4) (by omega) (by omega)
  · intro x hx
    rw [w5 x (by omega), b5 x (by omega), e6 x hx]
  · intro x hx
    rcases List.mem_append.mp hx with hx | hx
    · have := (e5.2 x hx).2
      rw [w5 x (by omega), b5 x (by omega)]
      exact e7 x hx
    · rcases List.mem_append.mp hx with hx | hx
      · have := (b4.2 x hx).2
        rw [w5 x (by omega)]
        exact b6 x hx
      · exact w6 x hx

theorem nodup_flatten_slot (L : List (List Int)) (h : L.flatten.Nodup) (q q' : Nat)
    (c c' : List Int) (hq : L[q]? = some c) (hq' : L[q']? = some c') (x : Int) (hx : x ∈ c)
    (hx' : x ∈ c') : q = q' := by
  induction L generalizing q q' with
  | nil => simp at hq
  | cons a t ih =>
    rw [List.flatten_cons] at h
    obtain ⟨-, h2, h3⟩ := List.nodup_append.mp h
    cases q with
    | zero =>
      cases q' with
      | zero => rfl
      | succ j' =>
        simp only [List.getElem?_cons_zero, Option.some.injEq] at hq
        rw [List.getElem?_cons_succ] at hq'
        subst hq
        exact absurd (List.mem_flatten.mpr ⟨c', List.getElem?_mem hq', hx'⟩) (h3 hx)
    | succ j =>
      cases q' with
      | zero =>
        simp only [List.getElem?_cons_zero, Option.some.injEq] at hq'
        rw [List.getElem?_cons_succ] at hq
        subst hq'
        exact absurd (List.mem_flatten.mpr ⟨c, List.getElem?_mem hq, hx⟩) (h3 hx')
      | succ j' =>
        rw [List.getElem?_cons_succ] at hq hq'
        rw [ih h2 j j' hq hq']

/-- The nodes of one more mesoscopic link. -/
theorem createMesoNodes_chains (P : GeoPrims) (bike walk : Bool) (o : ℚ) (s s' : MicroBuild)
    (m : Int) (done : List Int) (h : createMesoNodes P bike walk o s m = .ok s')
    (hm : m ∉ done) (hb : ChainsBuilt s done) (hf : NoChains s.mesoLinks [m]) :
    ChainsBuilt s' (done ++ [m]) := by
  unfold createMesoNodes at h
  split at h
  · cases h
  rename_i ml hml
  split at h
  · cases h
  rename_i lc0 hlc
  cases h
  obtain ⟨f1, f2, f3⟩ := hf m (List.mem_singleton.mpr rfl) ml hml
  obtain ⟨c1, c2, c3, c4, c5, c6, c7, c8⟩ :=
    buildMesoNodes_chains P bike walk o lc0 ml s.nodes s.lastNodeID f1 f2 f3
  generalize buildMesoNodes P bike walk o lc0 ml s.nodes s.lastNodeID = r at *
  obtain ⟨nodes1, n1, ml1⟩ := r
  simp only at c1 c2 c3 c4 c5 c6 c7 c8 ⊢
  have hold : ∀ k, k ∈ done → mapGet? (mapSet s.mesoLinks m ml1) k = mapGet? s.mesoLinks k :=
    fun k hk => mapGet?_mapSet_ne _ _ _ _ (fun e => hm (e ▸ hk))
  have hnew : mapGet? (mapSet s.mesoLinks m ml1) m = some ml1 := mapGet?_mapSet_same _ _ _
  have hlow : ∀ k ∈ done, ∀ ml', mapGet? s.mesoLinks k = some ml' →
      ∀ (q : Nat) (c : List Int) (x : Int),
      (laneChains ml')[q]? = some c → x ∈ c → x < s.lastNodeID := by
    intro k hk ml' hml' q c x hq hx
    obtain ⟨ml2, g1, -, -, g4⟩ := hb.2 k hk
    rw [hml'] at g1
    cases g1
    exact (g4 x (List.mem_flatten.mpr ⟨c, List.getElem?_mem hq, hx⟩)).2
  have hhigh : ∀ (q : Nat) (c : List Int) (x : Int),
      (laneChains ml1)[q]? = some c → x ∈ c → s.lastNodeID ≤ x :=
    fun q c x hq hx => (c6.2 x (List.mem_flatten.mpr ⟨c, List.getElem?_mem hq, hx⟩)).1
  refine ⟨?_, ?_⟩
  · intro a a' la la' q q' c c' x ha0 ha0' hla hla' hq hq' hx hx'
    simp only at hla hla'
    rcases List.mem_append.mp ha0 with ha | ha <;> rcases List.mem_append.mp ha0' with ha' | ha'
    all_goals clear ha0 ha0'
    · rw [hold a ha] at hla
      rw [hold a' ha'] at hla'
      exact hb.1 a a' la la' q q' c c' x ha ha' hla hla' hq hq' hx hx'
    · rw [List.mem_singleton] at ha'
      subst ha'
      rw [hold a ha] at hla
      rw [hnew] at hla'
      cases hla'
      have := hlow a ha la hla q c x hq hx
      have := hhigh q' c' x hq' hx'
      omega
    · rw [List.mem_singleton] at ha
      subst ha
      rw [hold a' ha'] at hla'
      rw [hnew] at hla
      cases hla
      have := hlow a' ha' la' hla' q' c' x hq' hx'
      have := hhigh q c x hq hx
      omega
    · rw [List.mem_singleton] at ha ha'
      subst ha ha'
      rw [hnew] at hla hla'
      cases hla
      cases hla'
      exact ⟨rfl, nodup_flatten_slot _ (FreshIDs_nodup _ _ _ c6) q q' c c' hq hq' x hx hx'⟩
  · intro a ha0
    rcases List.mem_append.mp ha0 with ha | ha
    · obtain ⟨ml2, g1, g2, g3, g4⟩ := hb.2 a ha
      refine ⟨ml2, ?_, g2, g3, ?_⟩
      · show mapGet? (mapSet s.mesoLinks m ml1) a = some ml2
        rw [hold a ha]
        exact g1
      · intro x hx
        obtain ⟨i1, i2⟩ := g4 x hx
        refine ⟨?_, by simp only; omega⟩
        show (mapGet? nodes1 x).isSome = true
        rw [c7 x i2]
        exact i1
    · rw [List.mem_singleton] at ha
      subst ha
      refine ⟨ml1, hnew, ?_, c4, ?_⟩
      · rw [c3, c1]
      · intro x hx
        exact ⟨c8 x hx, (c6.2 x hx).2⟩

/-- The loop that creates the nodes of the mesoscopic links of a macroscopic
link whose mesoscopic links are different and have no nodes yet. -/
theorem foldlM_createMesoNodes_chains (P : GeoPrims) (bike walk : Bool) (o : ℚ)
    (rest done : List Int) (s s' : MicroBuild)
    (h : rest.foldlM (createMesoNodes P bike walk o) s = .ok s')
    (hnd : (done ++ rest).Nodup) (hb : ChainsBuilt s done) (hf : NoChains s.mesoLinks rest) :
    ChainsBuilt s' (done ++ rest) := by
  induction rest generalizing done s with
  | nil =>
    simp only [List.foldlM_nil, pure, Except.pure] at h
    cases h
    simpa using hb
  | cons m rest ih =>
    rw [List.foldlM_cons] at h
    obtain ⟨s1, h1, h2⟩ := except_bind_ok _ _ _ h
    have hm : m ∉ done := by
      intro hmem
      exact (List.nodup_append.mp hnd).2.2 hmem (List.mem_cons_self _ _)
    have hmr : m ∉ rest := (List.nodup_cons.mp (List.nodup_append.mp hnd).2.1).1
    have hb1 := createMesoNodes_chains P bike walk o s s1 m done h1 hm hb
      (fun k hk ml hml => hf k (by rw [List.mem_singleton.mp hk]; exact List.mem_cons_self _ _)
        ml hml)
    have hf1 : NoChains s1.mesoLinks rest := by
      intro k hk ml hml
      have hne : k ≠ m := fun e => hmr (e ▸ hk)
      rw [(createMesoNodes_frame P bike walk o s s1 m h1).2.2 k hne] at hml
      exact hf k (List.mem_cons_of_mem _ hk) ml hml
    have := ih (done ++ [m]) s1 h2 (by simpa using hnd) hb1 hf1
    simpa using this

/-- The marks of `markTargets` change no lane chain and remove no node. -/
theorem markTargets_chains (macroNodes : GoMap NetworkNode) (macroLink : NetworkLink)
    (bike walk : Bool) (s s' : MicroBuild)
    (h : markTargets macroNodes macroLink bike walk s = .ok s') :
    s'.mesoLinks = s.mesoLinks ∧ s'.lastNodeID = s.lastNodeID
      ∧ ∀ x, (mapGet? s.nodes x).isSome → (mapGet? s'.nodes x).isSome := by
  refine markTargets_rel (fun a b => b.mesoLinks = a.mesoLinks ∧ b.lastNodeID = a.lastNodeID
      ∧ ∀ x, (mapGet? a.nodes x).isSome → (mapGet? b.nodes x).isSome)
    (fun a => ⟨rfl, rfl, fun _ hx => hx⟩)
    (fun a b c h1 h2 => ⟨h2.1.trans h1.1, h2.2.1.trans h1.2.1,
      fun x hx => h2.2.2 x (h1.2.2 x hx)⟩) ?_ ?_ macroNodes macroLink bike walk s s' h
  · intro z a k b hh
    unfold markUpstream at hh
    split at hh
    · cases hh
    · cases hh
      refine ⟨rfl, rfl, ?_⟩
      intro x hx
      simp only [mapGet?_mapSet]
      split
      · rfl
      · exact hx
  · intro z a k b hh
    unfold markDownstream at hh
    split at hh
    · cases hh
    · cases hh
      refine ⟨rfl, rfl, ?_⟩
      intro x hx
      simp only [mapGet?_mapSet]
      split
      · rfl
      · exact hx

/-- What one step of the lane loop of the stitching does. -/
theorem stitchLane_spec (u d us ds : Int) (s : MicroBuild) (j : Nat) (s' : MicroBuild)
    (h : stitchLane u d us ds s j = .ok s') :
    ∃ (up down : NetworkLinkMesoscopic) (upLane downLane : List Int) (old x : Int),
      mapGet? s.mesoLinks u = some up ∧ mapGet? s.mesoLinks d = some down
      ∧ 0 ≤ us + (j : Int) ∧ up.microNodesPerLane[(us + (j : Int)).toNat]? = some upLane
      ∧ upLane.getLast? = some old
      ∧ 0 ≤ ds + (j : Int) ∧ down.microNodesPerLane[(ds + (j : Int)).toNat]? = some downLane
      ∧ downLane.head? = some x
      ∧ s'.mesoLinks = mapSet s.mesoLinks u
          { up with
            microNodesPerLane :=
              up.microNodesPerLane.set (us + (j : Int)).toNat (upLane.set (upLane.length - 1) x) }
      ∧ s'.nodes = mapDelete s.nodes old := by
  unfold stitchLane at h
  split at h
  swap
  · cases h
  rename_i up down hup hdown
  obtain ⟨upLane, h1, h⟩ := except_bind_ok _ _ _ h
  obtain ⟨old, h2, h⟩ := except_bind_ok _ _ _ h
  obtain ⟨downLane, h3, h⟩ := except_bind_ok _ _ _ h
  obtain ⟨x, h4, h⟩ := except_bind_ok _ _ _ h
  obtain ⟨upLane', h5, h⟩ := except_bind_ok _ _ _ h
  obtain ⟨lanes', h6, h⟩ := except_bind_ok _ _ _ h
  cases h
  obtain ⟨a1, a2⟩ := sliceAt_ok _ _ _ h1
  obtain ⟨b1, b2⟩ := sliceAt_ok _ _ _ h3
  obtain ⟨-, -, c3⟩ := sliceSet_ok _ _ _ _ h5
  obtain ⟨-, -, d3⟩ := sliceSet_ok _ _ _ _ h6
  have e : ((upLane.length : Int) - 1).toNat = upLane.length - 1 := by omega
  rw [e] at c3
  subst c3 d3
  exact ⟨up, down, upLane, downLane, old, x, hup, hdown, a1, a2, sliceAt_last _ _ h2, b1, b2,
    sliceAt_head _ _ h4, rfl, rfl⟩

/-- The lane loop of the stitching of the pair `(u, d)`, `u ≠ d`, after `n`
lanes: the lanes `us, ..., us + n - 1` of the upstream link end in the first
nodes of the lanes `ds, ..., ds + n - 1` of the downstream link and their
former last nodes are deleted; nothing else changes. -/
theorem stitchLanes_spec (u d us ds : Int) (hne : u ≠ d) (up down : NetworkLinkMesoscopic)
    (n : Nat) (s t : MicroBuild)
    (h : (List.range n).foldlM (stitchLane u d us ds) s = .ok t)
    (hup : mapGet? s.mesoLinks u = some up) (hdown : mapGet? s.mesoLinks d = some down)
    (hus : 0 ≤ us) :
    (∀ key, key ≠ u → mapGet? t.mesoLinks key = mapGet? s.mesoLinks key)
      ∧ ∃ lanesT, mapGet? t.mesoLinks u = some { up with microNodesPerLane := lanesT }
        ∧ lanesT.length = up.microNodesPerLane.length
        ∧ (∀ p : Nat, (p < us.toNat ∨ us.toNat + n ≤ p) → lanesT[p]? = up.microNodesPerLane[p]?)
        ∧ (∀ j : Nat, j < n → ∃ (upLane downLane : List Int) (old x : Int),
            up.microNodesPerLane[us.toNat + j]? = some upLane ∧ upLane.getLast? = some old
            ∧ 0 ≤ ds + (j : Int) ∧ down.microNodesPerLane[(ds + (j : Int)).toNat]? = some downLane
            ∧ downLane.head? = some x
            ∧ lanesT[us.toNat + j]? = some (upLane.set (upLane.length - 1) x)
            ∧ mapGet? t.nodes old = none)
        ∧ (∀ y, mapGet? t.nodes y = mapGet? s.nodes y
            ∨ (mapGet? t.nodes y = none ∧ ∃ j : Nat, j < n ∧ ∃ upLane,
                up.microNodesPerLane[us.toNat + j]? = some upLane
                ∧ upLane.getLast? = some y)) := by
  induction n generalizing t with
  | zero =>
    simp only [List.range_zero, List.foldlM_nil, pure, Except.pure] at h
    cases h
    exact ⟨fun _ _ => rfl, up.microNodesPerLane, hup, rfl, fun _ _ => rfl,
      fun j hj => absurd hj (Nat.not_lt_zero j), fun y => Or.inl rfl⟩
  | succ n ih =>
    rw [List.range_succ, List.foldlM_append] at h
    obtain ⟨t0, h0, h⟩ := except_bind_ok _ _ _ h
    rw [List.foldlM_cons] at h
    obtain ⟨t1, h1, h⟩ := except_bind_ok _ _ _ h
    simp only [List.foldlM_nil, pure, Except.pure] at h
    cases h
    obtain ⟨i1, lanesT, i2, i3, i4, i5, i6⟩ := ih t0 h0
    obtain ⟨up0, down0, upLane, downLane, old, x, g1, g2, g3, g4, g5, g6, g7, g8, g9, g10⟩ :=
      stitchLane_spec u d us ds t0 n _ h1
    rw [i2] at g1
    cases g1
    rw [i1 d (fun e => hne e.symm), hdown] at g2
    cases g2
    have hidx : (us + (n : Int)).toNat = us.toNat + n := by omega
    rw [hidx] at g4 g9
    simp only at g4 g9
    have hup4 : up.microNodesPerLane[us.toNat + n]? = some upLane := by
      rw [← i4 (us.toNat + n) (Or.inr (le_refl _))]
      exact g4
    have hlt : us.toNat + n < lanesT.length := by
      by_contra hc
      rw [List.getElem?_eq_none (by omega)] at g4
      cases g4
    refine ⟨?_, lanesT.set (us.toNat + n) (upLane.set (upLane.length - 1) x), ?_, ?_, ?_, ?_, ?_⟩
    · intro key hkey
      rw [g9, mapGet?_mapSet_ne _ _ _ _ (fun e => hkey e.symm)]
      exact i1 key hkey
    · rw [g9]
      exact mapGet?_mapSet_same _ _ _
    · rw [List.length_set]
      exact i3
    · intro p hp
      rw [List.getElem?_set_ne (by omega)]
      exact i4 p (by omega)
    · intro j hj
      by_cases hjn : j < n
      · obtain ⟨upLane', downLane', old', x', k1, k2, k3, k4, k5, k6, k7⟩ := i5 j hjn
        refine ⟨upLane', downLane', old', x', k1, k2, k3, k4, k5, ?_, ?_⟩
        · rw [List.getElem?_set_ne (by omega)]
          exact k6
        · rw [g10, mapGet?_mapDelete]
          split
          · rfl
          · exact k7
      · have hj' : j = n := by omega
        subst hj'
        refine ⟨upLane, downLane, old, x, hup4, g5, g6, g7, g8, ?_, ?_⟩
        · exact List.getElem?_set_self hlt
        · rw [g10, mapGet?_mapDelete]
          simp
    · intro y
      rw [g10, mapGet?_mapDelete]
      by_cases hy : old = y
      · subst hy
        simp only [if_true]
        exact Or.inr ⟨trivial, n, by omega, upLane, hup4, g5⟩
      · simp only [hy, if_false]
        rcases i6 y with e | ⟨e, j, hj, lane, l1, l2⟩
        · exact Or.inl e
        · exact Or.inr ⟨e, j, by omega, lane, l1, l2⟩

theorem stitchBike_spec (u d : Int) (s s' : MicroBuild) (up : NetworkLinkMesoscopic)
    (h : stitchBike u d s = .ok s') (hup : mapGet? s.mesoLinks u = some up) :
    (∀ key, key ≠ u → mapGet? s'.mesoLinks key = mapGet? s.mesoLinks key)
      ∧ ∃ up', mapGet? s'.mesoLinks u = some up'
        ∧ up'.microNodesPerLane = up.microNodesPerLane ∧ up'.lanesNum = up.lanesNum
        ∧ up'.lanesChange = up.lanesChange ∧ up'.microNodesWalkLane = up.microNodesWalkLane
        ∧ ∃ old, up.microNodesBikeLane.getLast? = some old
          ∧ s'.nodes = mapDelete s.nodes old := by
  unfold stitchBike at h
  split at h
  swap
  · cases h
  rename_i up0 down0 hup0 hdown0
  rw [hup] at hup0
  cases hup0
  obtain ⟨old, h1, h⟩ := except_bind_ok _ _ _ h
  obtain ⟨x, h2, h⟩ := except_bind_ok _ _ _ h
  obtain ⟨lane', h3, h⟩ := except_bind_ok _ _ _ h
  cases h
  exact ⟨fun key hkey => mapGet?_mapSet_ne _ _ _ _ (fun e => hkey e.symm), _,
    mapGet?_mapSet_same _ _ _, rfl, rfl, rfl, rfl, old, sliceAt_last _ _ h1, rfl⟩

theorem stitchWalk_spec (u d : Int) (s s' : MicroBuild) (up : NetworkLinkMesoscopic)
    (h : stitchWalk u d s = .ok s') (hup : mapGet? s.mesoLinks u = some up) :
    (∀ key, key ≠ u → mapGet? s'.mesoLinks key = mapGet? s.mesoLinks key)
      ∧ ∃ up', mapGet? s'.mesoLinks u = some up'
        ∧ up'.microNodesPerLane = up.microNodesPerLane ∧ up'.lanesNum = up.lanesNum
        ∧ up'.lanesChange = up.lanesChange
        ∧ ∃ old, up.microNodesWalkLane.getLast? = some old
          ∧ s'.nodes = mapDelete s.nodes old := by
  unfold stitchWalk at h
  split at h
  swap
  · cases h
  rename_i up0 down0 hup0 hdown0
  rw [hup] at hup0
  cases hup0
  obtain ⟨old, h1, h⟩ := except_bind_ok _ _ _ h
  obtain ⟨x, h2, h⟩ := except_bind_ok _ _ _ h
  obtain ⟨lane', h3, h⟩ := except_bind_ok _ _ _ h
  cases h
  exact ⟨fun key hkey => mapGet?_mapSet_ne _ _ _ _ (fun e => hkey e.symm), _,
    mapGet?_mapSet_same _ _ _, rfl, rfl, rfl, old, sliceAt_last _ _ h1, rfl⟩

theorem mapDelete_cases {V : Type} (m : GoMap V) (old y : Int) :
    mapGet? (mapDelete m old) y = mapGet? m y
      ∨ (mapGet? (mapDelete m old) y = none ∧ old = y) := by
  rw [mapGet?_mapDelete]
  by_cases h : old = y
  · exact Or.inr ⟨by simp [h], h⟩
  · exact Or.inl (by simp [h])

theorem laneChains_car (ml : NetworkLinkMesoscopic) (p : Nat)
    (hp : p < ml.microNodesPerLane.length) :
    (laneChains ml)[p]? = ml.microNodesPerLane[p]? := by
  unfold laneChains
  exact List.getElem?_append_left hp

theorem laneChains_bike (ml : NetworkLinkMesoscopic) :
    (laneChains ml)[ml.microNodesPerLane.length]? = some ml.microNodesBikeLane := by
  unfold laneChains
  rw [List.getElem?_append_right (le_refl _)]
  simp

theorem laneChains_walk (ml : NetworkLinkMesoscopic) :
    (laneChains ml)[ml.microNodesPerLane.length + 1]? = some ml.microNodesWalkLane := by
  unfold laneChains
  rw [List.getElem?_append_right (by omega)]
  simp

/-- The stitching of one adjacent pair of different mesoscopic links. -/
theorem stitchPair_spec (bike walk : Bool) (s s' : MicroBuild) (u d : Int) (hne : u ≠ d)
    (h : stitchPair bike walk s (u, d) = .ok s') :
    ∃ (up down up' : NetworkLinkMesoscopic) (ul dl : Int),
      up.lanesChange.head? = some ul ∧ down.lanesChange.head? = some dl
      ∧ PairStitched s s' u d up down up' (ul - min ul dl) (dl - min ul dl)
          (min (up.lanesNum - (ul - min ul dl)) (down.lanesNum - (dl - min ul dl))) := by
  unfold stitchPair at h
  simp only at h
  split at h
  · cases h
  rename_i up hup
  split at h
  · cases h
  rename_i down hdown
  obtain ⟨r, hr, h⟩ := except_bind_ok _ _ _ h
  obtain ⟨s1, h1, h⟩ := except_bind_ok _ _ _ h
  obtain ⟨s2, h2, h3⟩ := except_bind_ok _ _ _ h
  unfold stitchRange at hr
  split at hr
  swap
  · cases hr
  rename_i ul dl hul hdl
  cases hr
  simp only at h1
  have hus : 0 ≤ ul - min ul dl := by omega
  obtain ⟨i1, lanesT, i2, i3, i4, i5, i6⟩ :=
    stitchLanes_spec u d _ _ hne up down _ s s1 h1 hup hdown hus
  -- the bike chains
  have hB : (∀ key, key ≠ u → mapGet? s2.mesoLinks key = mapGet? s1.mesoLinks key)
      ∧ ∃ up2, mapGet? s2.mesoLinks u = some up2 ∧ up2.microNodesPerLane = lanesT
        ∧ up2.lanesNum = up.lanesNum ∧ up2.lanesChange = up.lanesChange
        ∧ up2.microNodesWalkLane = up.microNodesWalkLane
        ∧ ∀ y, mapGet? s2.nodes y = mapGet? s1.nodes y
          ∨ (mapGet? s2.nodes y = none ∧ up.microNodesBikeLane.getLast? = some y) := by
    split at h2
    · obtain ⟨b1, up2, b2, b3, b4, b5, b6, old, b7, b8⟩ := stitchBike_spec u d s1 s2 _ h2 i2
      refine ⟨b1, up2, b2, b3, b4, b5, b6, ?_⟩
      intro y
      rw [b8]
      rcases mapDelete_cases s1.nodes old y with e | ⟨e, rfl⟩
      · exact Or.inl e
      · exact Or.inr ⟨e, b7⟩
    · cases h2
      exact ⟨fun _ _ => rfl, _, i2, rfl, rfl, rfl, rfl, fun y => Or.inl rfl⟩
  obtain ⟨b1, up2, b2, b3, b4, b5, b6, b7⟩ := hB
  -- the walk chains
  have hW : (∀ key, key ≠ u → mapGet? s'.mesoLinks key = mapGet? s2.mesoLinks key)
      ∧ ∃ up3, mapGet? s'.mesoLinks u = some up3 ∧ up3.microNodesPerLane = lanesT
        ∧ up3.lanesNum = up.lanesNum ∧ up3.lanesChange = up.lanesChange
        ∧ ∀ y, mapGet? s'.nodes y = mapGet? s2.nodes y
          ∨ (mapGet? s'.nodes y = none ∧ up.microNodesWalkLane.getLast? = some y) := by
    split at h3
    · obtain ⟨w1, up3, w2, w3, w4, w5, old, w7, w8⟩ := stitchWalk_spec u d s2 s' _ h3 b2
      refine ⟨w1, up3, w2, w3.trans b3, w4.trans b4, w5.trans b5, ?_⟩
      intro y
      rw [w8]
      rcases mapDelete_cases s2.nodes old y with e | ⟨e, rfl⟩
      · exact Or.inl e
      · exact Or.inr ⟨e, b6 ▸ w7⟩
    · cases h3
      exact ⟨fun _ _ => rfl, _, b2, b3, b4, b5, fun y => Or.inl rfl⟩
  obtain ⟨w1, up3, w2, w3, w4, w5, w7⟩ := hW
  have hgone : ∀ y, mapGet? s1.nodes y = none → mapGet? s'.nodes y = none := by
    intro y hy
    rcases w7 y with e | ⟨e, -⟩
    · rw [e]
      rcases b7 y with e2 | ⟨e2, -⟩
      · rw [e2]
        exact hy
      · exact e2
    · exact e
  refine ⟨up, down, up3, ul, dl, hul, hdl, hup, hdown, w2, ?_, w4, w5, ?_, ?_, ?_, ?_⟩
  · intro key hkey
    rw [w1 key hkey, b1 key hkey, i1 key hkey]
  · rw [w3]
    exact i3
  · intro j hj
    obtain ⟨upLane, downLane, old, x, k1, k2, k3, k4, k5, k6, k7⟩ := i5 j (by omega)
    have hidx : (ul - min ul dl + (j : Int)).toNat = (ul - min ul dl).toNat + j := by omega
    rw [hidx, w3]
    exact ⟨upLane, downLane, old, x, k1, k2, k4, k5, k6, hgone old k7⟩
  · intro p hp
    rw [w3]
    apply i4 p
    omega
  · intro y
    rcases w7 y with e | ⟨e, hw⟩
    · rcases b7 y with e2 | ⟨e2, hb⟩
      · rcases i6 y with e3 | ⟨e3, j, hj, lane, l1, l2⟩
        · exact Or.inl (e.trans (e2.trans e3))
        · refine Or.inr ⟨e.trans (e2.trans e3), (ul - min ul dl).toNat + j, lane, ?_, l2,
            Or.inr (by omega)⟩
          have hlt : (ul - min ul dl).toNat + j < up.microNodesPerLane.length := by
            by_contra hc
            rw [List.getElem?_eq_none (by omega)] at l1
            cases l1
          rw [laneChains_car up _ hlt]
          exact l1
      · exact Or.inr ⟨e.trans e2, _, _, laneChains_bike up, hb, Or.inl (le_refl _)⟩
    · exact Or.inr ⟨e, _, _, laneChains_walk up, hw, Or.inl (by omega)⟩

theorem LaneShape_refl (ml : NetworkLinkMesoscopic) : LaneShape ml ml :=
  ⟨rfl, rfl, rfl, fun _ lane h => ⟨lane, h, rfl, fun _ => rfl⟩⟩

theorem LaneShape_trans (a b c : NetworkLinkMesoscopic) (h1 : LaneShape a b)
    (h2 : LaneShape b c) : LaneShape a c := by
  obtain ⟨a1, a2, a3, a4⟩ := h1
  obtain ⟨b1, b2, b3, b4⟩ := h2
  refine ⟨b1.trans a1, b2.trans a2, b3.trans a3, ?_⟩
  intro p lane hl
  obtain ⟨lane1, c1, c2, c3⟩ := a4 p lane hl
  obtain ⟨lane2, d1, d2, d3⟩ := b4 p lane1 c1
  exact ⟨lane2, d1, d2.trans c2, fun hlen => (d3 (by omega)).trans (c3 hlen)⟩

theorem head?_set_last (lane : List Int) (x : Int) (h : 2 ≤ lane.length) :
    (lane.set (lane.length - 1) x).head? = lane.head? := by
  rw [List.head?_eq_getElem?, List.head?_eq_getElem?, List.getElem?_set_ne (by omega)]

theorem StitchFrame_refl (U : List Int) (s : MicroBuild) : StitchFrame U s s :=
  ⟨fun _ _ => rfl, fun _ ml h => ⟨ml, h, LaneShape_refl ml⟩, fun _ h => h, fun _ => Or.inl rfl⟩

/-- Two stitching phases with different upstream links make one. -/
theorem StitchFrame_append (U1 U2 : List Int) (a b c : MicroBuild)
    (h1 : StitchFrame U1 a b) (h2 : StitchFrame U2 b c) (hd : ∀ key ∈ U2, key ∉ U1) :
    StitchFrame (U1 ++ U2) a c := by
  obtain ⟨a1, a2, a3, a4⟩ := h1
  obtain ⟨b1, b2, b3, b4⟩ := h2
  refine ⟨?_, ?_, fun y hy => b3 y (a3 y hy), ?_⟩
  · intro key hkey
    rw [List.mem_append, not_or] at hkey
    rw [b1 key hkey.2, a1 key hkey.1]
  · intro key ml hml
    obtain ⟨ml1, c1, c2⟩ := a2 key ml hml
    obtain ⟨ml2, d1, d2⟩ := b2 key ml1 c1
    exact ⟨ml2, d1, LaneShape_trans _ _ _ c2 d2⟩
  · intro y
    rcases b4 y with e | ⟨key, hkey, ml, q, ch, e1, e2, e3⟩
    · rcases a4 y with e' | ⟨key, hkey, ml, q, ch, e1, e2, e3⟩
      · exact Or.inl (e.trans e')
      · exact Or.inr ⟨key, List.mem_append_left _ hkey, ml, q, ch, e1, e2, e3⟩
    · rw [a1 key (hd key hkey)] at e1
      exact Or.inr ⟨key, List.mem_append_right _ hkey, ml, q, ch, e1, e2, e3⟩

/-- The stitching of a pair as a stitching phase of its upstream link. -/
theorem PairStitched_frame (s s' : MicroBuild) (u d : Int)
    (up down up' : NetworkLinkMesoscopic) (us ds k : Int) (hus : 0 ≤ us)
    (h : PairStitched s s' u d up down up' us ds k) : StitchFrame [u] s s' := by
  obtain ⟨p1, p2, p3, p4, p5, p6, p7, p8, p9, p10⟩ := h
  refine ⟨?_, ?_, ?_, ?_⟩
  · intro key hkey
    exact p4 key (fun e => hkey (by simp [e]))
  · intro key ml hml
    by_cases hk : key = u
    · subst hk
      rw [p1] at hml
      cases hml
      refine ⟨up', p3, p5, p6, p7, ?_⟩
      intro p lane hl
      by_cases hm : (p : Int) < us ∨ us + k ≤ (p : Int)
      · rw [← p9 p hm] at hl
        exact ⟨lane, hl, rfl, fun _ => rfl⟩
      · obtain ⟨upLane, downLane, old, x, k1, k2, k3, k4, k5, k6⟩ :=
          p8 ((p : Int) - us).toNat (by omega)
        have hidx : (us + ((((p : Int) - us).toNat : Nat) : Int)).toNat = p := by omega
        rw [hidx] at k1 k5
        rw [hl] at k1
        cases k1
        exact ⟨_, k5, List.length_set _ _ _, head?_set_last _ _⟩
    · rw [← p4 key hk] at hml
      exact ⟨ml, hml, LaneShape_refl ml⟩
  · intro y hy
    rcases p10 y with e | ⟨e, -⟩
    · rw [e]
      exact hy
    · exact e
  · intro y
    rcases p10 y with e | ⟨e, q, c, e1, e2, -⟩
    · exact Or.inl e
    · exact Or.inr ⟨u, List.mem_singleton.mpr rfl, up, q, c, p1, e1, e2⟩

/-- The stitching of a list of pairs with different upstream links. -/
theorem foldlM_stitchPair_frame (bike walk : Bool) (ps : List (Int × Int)) (s s' : MicroBuild)
    (h : ps.foldlM (stitchPair bike walk) s = .ok s')
    (hnd : (ps.map (fun p => p.1)).Nodup) (hne : ∀ p ∈ ps, p.1 ≠ p.2) :
    StitchFrame (ps.map (fun p => p.1)) s s' := by
  induction ps generalizing s with
  | nil =>
    simp only [List.foldlM_nil, pure, Except.pure] at h
    cases h
    exact StitchFrame_refl _ _
  | cons p rest ih =>
    rw [List.foldlM_cons] at h
    obtain ⟨s1, h1, h2⟩ := except_bind_ok _ _ _ h
    obtain ⟨u, d⟩ := p
    have hud : u ≠ d := hne (u, d) (List.mem_cons_self _ _)
    obtain ⟨up, down, up', ul, dl, -, -, hp⟩ := stitchPair_spec bike walk s s1 u d hud h1
    have f1 := PairStitched_frame s s1 u d up down up' _ _ _ (by omega) hp
    rw [List.map_cons] at hnd
    have f2 := ih s1 h2 (List.nodup_cons.mp hnd).2
      (fun q hq => hne q (List.mem_cons_of_mem _ hq))
    have := StitchFrame_append [u] _ s s1 s' f1 f2 (by
      intro key hkey hmem
      rw [List.mem_singleton] at hmem
      subst hmem
      exact (List.nodup_cons.mp hnd).1 hkey)
    simpa using this

theorem zip_fst_sublist (l1 l2 : List Int) :
    List.Sublist ((l1.zip l2).map (fun p => p.1)) l1 := by
  induction l1 generalizing l2 with
  | nil => simp
  | cons a t ih =>
    cases l2 with
    | nil => simp
    | cons b t2 =>
      simp only [List.zip_cons_cons, List.map_cons]
      exact List.Sublist.cons₂ a (ih t2)

theorem adjacentPairs_fst_nodup (ms : List Int) (h : ms.Nodup) :
    ((adjacentPairs ms).map (fun p => p.1)).Nodup :=
  List.Nodup.sublist (zip_fst_sublist ms ms.tail) h

theorem adjacentPairs_ne (ms : List Int) (h : ms.Nodup) :
    ∀ p ∈ adjacentPairs ms, p.1 ≠ p.2 := by
  induction ms with
  | nil => intro p hp; simp [adjacentPairs] at hp
  | cons a t ih =>
    cases t with
    | nil => intro p hp; simp [adjacentPairs] at hp
    | cons b rest =>
      intro p hp
      have e : adjacentPairs (a :: b :: rest) = (a, b) :: adjacentPairs (b :: rest) := rfl
      rw [e] at hp
      rcases List.mem_cons.mp hp with hp | hp
      · subst hp
        intro hab
        simp only at hab
        subst hab
        exact (List.nodup_cons.mp h).1 (List.mem_cons_self _ _)
      · exact ih (List.nodup_cons.mp h).2 p hp

theorem getLast?_mem (c : List Int) (x : Int) (h : c.getLast? = some x) : x ∈ c := by
  rw [List.getLast?_eq_getElem?] at h
  exact List.getElem?_mem h

/-- The result of `prepareBikeWalkAgents` in terms of the membership of the
three standard agent types in a list that is not empty. -/
theorem prepareBikeWalkAgents_of_mem (l : List AgentType) (hne : l ≠ []) :
    prepareBikeWalkAgents l
      = if AgentType.AGENT_AUTO ∈ l ∧ AgentType.AGENT_BIKE ∈ l then
          ([AgentType.AGENT_AUTO], true, false)
        else if AgentType.AGENT_AUTO ∈ l ∧ AgentType.AGENT_WALK ∈ l then
          ([AgentType.AGENT_AUTO], false, true)
        else if AgentType.AGENT_BIKE ∈ l ∧ AgentType.AGENT_WALK ∈ l then
          ([AgentType.AGENT_BIKE], false, true)
        else ([AgentType.AGENT_AUTO], true, true) := by
  unfold prepareBikeWalkAgents
  have hlen : ¬ l.length = 0 := fun e => hne (List.length_eq_zero.mp e)
  simp [hlen]

/-- The final return `([auto], true, true)` of line 729 is the result only for
a list in which no two of the three standard agent types occur. -/
theorem prepareBikeWalkAgents_final (l : List AgentType)
    (h : prepareBikeWalkAgents l = ([AgentType.AGENT_AUTO], true, true)) :
    ¬ (AgentType.AGENT_AUTO ∈ l ∧ AgentType.AGENT_BIKE ∈ l)
    ∧ ¬ (AgentType.AGENT_AUTO ∈ l ∧ AgentType.AGENT_WALK ∈ l)
    ∧ ¬ (AgentType.AGENT_BIKE ∈ l ∧ AgentType.AGENT_WALK ∈ l) := by
  by_cases hne : l = []
  · subst hne
    simp
  · rw [prepareBikeWalkAgents_of_mem l hne] at h
    split_ifs at h with h1 h2 h3
    · simp at h
    · simp at h
    · simp at h
    · exact ⟨h1, h2, h3⟩

/-- The nodes of one lane: every ID that the loop appends is the key of the
node literal of the lane. -/
theorem fold_addLaneNode_tags (a b : Int) (pts : List (Point × Point))
    (nodes : GoMap NetworkNodeMicroscopic) (n : Int) (ids : List Int) :
    ∀ x ∈ (pts.foldl (addLaneNode a b) (nodes, n, ids)).2.2, x ∈ ids
      ∨ (n ≤ x ∧ ∃ pt, mapGet? (pts.foldl (addLaneNode a b) (nodes, n, ids)).1 x
          = some (newMicroNode x pt a b)) := by
  induction pts generalizing nodes n ids with
  | nil => intro x hx; exact Or.inl hx
  | cons p rest ih =>
    intro x hx
    have hstep : (p :: rest).foldl (addLaneNode a b) (nodes, n, ids)
        = rest.foldl (addLaneNode a b)
          (mapSet nodes n (newMicroNode n p a b), n + 1, ids ++ [n]) := rfl
    rw [hstep] at hx ⊢
    rcases ih _ _ _ x hx with h | ⟨h1, h2⟩
    · rcases List.mem_append.mp h with h | h
      · exact Or.inl h
      · rw [List.mem_singleton] at h
        subst h
        refine Or.inr ⟨le_refl _, p, ?_⟩
        obtain ⟨-, -, -, -, -, e5, -⟩ := fold_addLaneNode_chain a b rest
          (mapSet nodes x (newMicroNode x p a b)) (x + 1) (ids ++ [x])
        rw [e5 x (by omega)]
        exact mapGet?_mapSet_same _ _ _
    · exact Or.inr ⟨by omega, h2⟩

/-- The nodes of the car lanes: the lane that the `q`-th round appends holds
the keys of node literals with the lane ID of the round. -/
theorem fold_addCarLane_tags (g : List (List (Point × Point))) (len : Nat) (is : List Nat)
    (hlen : ∀ i ∈ is, (g.getD i []).length = len)
    (nodes : GoMap NetworkNodeMicroscopic) (n : Int) (ml : NetworkLinkMesoscopic) :
    ∀ (q : Nat) (lane : List Int),
      (is.foldl (addCarLane g) (nodes, n, ml)).2.2.microNodesPerLane[
        ml.microNodesPerLane.length + q]? = some lane →
      ∃ i, is[q]? = some i ∧ ∀ x ∈ lane, ∃ pt,
        mapGet? (is.foldl (addCarLane g) (nodes, n, ml)).1 x
          = some (newMicroNode x pt ml.ID ((i : Int) + 1)) := by
  induction is generalizing nodes n ml with
  | nil =>
    intro q lane hq
    simp only [List.foldl_nil] at hq
    rw [List.getElem?_eq_none (by omega)] at hq
    cases hq
  | cons i rest ih =>
    intro q lane hq
    obtain ⟨lane1, f1, f2, f3, f4, f5, f6⟩ :=
      fold_addLaneNode_chain ml.ID ((i : Int) + 1) (g.getD i []) nodes n []
    have ftag := fold_addLaneNode_tags ml.ID ((i : Int) + 1) (g.getD i []) nodes n []
    have hstep : (i :: rest).foldl (addCarLane g) (nodes, n, ml)
        = rest.foldl (addCarLane g)
          (((g.getD i []).foldl (addLaneNode ml.ID ((i : Int) + 1)) (nodes, n, [])).1,
           ((g.getD i []).foldl (addLaneNode ml.ID ((i : Int) + 1)) (nodes, n, [])).2.1,
           { ml with microNodesPerLane := ml.microNodesPerLane
              ++ [((g.getD i []).foldl (addLaneNode ml.ID ((i : Int) + 1)) (nodes, n, [])).2.2] })
        := rfl
    rw [hstep] at hq ⊢
    generalize (g.getD i []).foldl (addLaneNode ml.ID ((i : Int) + 1)) (nodes, n, []) = r
      at f1 f2 f5 f6 ftag hq ⊢
    obtain ⟨r1, r2, r3⟩ := r
    simp only [List.nil_append] at f1 f2 f5 f6 ftag hq ⊢
    subst f1 f2
    obtain ⟨newLanes, e1, e2, e3, e4, e5, e6, e7⟩ :=
      fold_addCarLane_chain g len rest (fun j hj => hlen j (List.mem_cons_of_mem _ hj)) r1
        (n + ((g.getD i []).length : Int))
        { ml with microNodesPerLane := ml.microNodesPerLane ++ [r3] }
    have ih' := ih (fun j hj => hlen j (List.mem_cons_of_mem _ hj)) r1
        (n + ((g.getD i []).length : Int))
        { ml with microNodesPerLane := ml.microNodesPerLane ++ [r3] }
    cases q with
    | zero =>
      rw [e1] at hq
      simp only [add_zero, List.append_assoc] at hq
      rw [List.getElem?_append_right (le_refl _)] at hq
      simp only [Nat.sub_self, List.singleton_append, List.getElem?_cons_zero,
        Option.some.injEq] at hq
      subst hq
      refine ⟨i, by simp, ?_⟩
      intro x hx
      rcases ftag x hx with h | ⟨-, pt, hpt⟩
      · simp at h
      · refine ⟨pt, ?_⟩
        rw [e6 x (f4.2 x hx).2]
        exact hpt
    | succ q' =>
      have hidx : ml.microNodesPerLane.length + (q' + 1)
          = (ml.microNodesPerLane ++ [r3]).length + q' := by
        simp only [List.length_append, List.length_singleton]
        omega
      rw [hidx] at hq
      obtain ⟨i', h1, h2⟩ := ih' q' lane hq
      exact ⟨i', by simpa using h1, h2⟩

/-- The nodes of a mesoscopic link that has no nodes yet: every lane has
`cellsNum + 1` node IDs, so has the bike chain and the walk chain when they are
asked for, the link changes in its three chains only, and every ID of a chain
is the key of the node literal of the chain. -/
theorem buildMesoNodes_tags (P : GeoPrims) (bike walk : Bool) (o : ℚ) (lc0 : Int)
    (ml : NetworkLinkMesoscopic) (nodes : GoMap NetworkNodeMicroscopic) (n : Int)
    (hl : ml.microNodesPerLane = []) (hb : ml.microNodesBikeLane = [])
    (hw : ml.microNodesWalkLane = []) :
    (∀ (i : Nat) (lane : List Int),
        (buildMesoNodes P bike walk o lc0 ml nodes n).2.2.microNodesPerLane[i]? = some lane →
        lane.length = (cellsNumOf ml.lengthMeters + 1).toNat ∧ ∀ x ∈ lane, ∃ pt,
          mapGet? (buildMesoNodes P bike walk o lc0 ml nodes n).1 x
            = some (newMicroNode x pt ml.ID ((i : Int) + 1)))
      ∧ (buildMesoNodes P bike walk o lc0 ml nodes n).2.2.microNodesBikeLane.length
          = (if bike then (cellsNumOf ml.lengthMeters + 1).toNat else 0)
      ∧ (∀ x ∈ (buildMesoNodes P bike walk o lc0 ml nodes n).2.2.microNodesBikeLane, ∃ pt,
          mapGet? (buildMesoNodes P bike walk o lc0 ml nodes n).1 x
            = some (newMicroNode x pt ml.ID (-1)))
      ∧ (buildMesoNodes P bike walk o lc0 ml nodes n).2.2.microNodesWalkLane.length
          = (if walk then (cellsNumOf ml.lengthMeters + 1).toNat else 0)
      ∧ (∀ x ∈ (buildMesoNodes P bike walk o lc0 ml nodes n).2.2.microNodesWalkLane, ∃ pt,
          mapGet? (buildMesoNodes P bike walk o lc0 ml nodes n).1 x
            = some (newMicroNode x pt ml.ID (-2)))
      ∧ (buildMesoNodes P bike walk o lc0 ml nodes n).2.2
          = { ml with
              microNodesPerLane :=
                (buildMesoNodes P bike walk o lc0 ml nodes n).2.2.microNodesPerLane
              microNodesBikeLane :=
                (buildMesoNodes P bike walk o lc0 ml nodes n).2.2.microNodesBikeLane
              microNodesWalkLane :=
                (buildMesoNodes P bike walk o lc0 ml nodes n).2.2.microNodesWalkLane } := by
  have hlen : ∀ i ∈ List.range ml.lanesNum.toNat,
      ((((List.range ml.lanesNum.toNat).map
        (laneGeometry P ml (-1 * (o / 2 - 1 / 2 + (lc0 : ℚ))))).map
        (samplePoints P ml (cellsNumOf ml.lengthMeters))).getD i []).length
        = (cellsNumOf ml.lengthMeters + 1).toNat := by
    intro i hi
    rw [List.mem_range] at hi
    simp [List.getD_eq_getElem?_getD, List.getElem?_range hi, hi, samplePoints_length]
  obtain ⟨newLanes, e1, e2, e3, e4, e5, e6, e7⟩ := fold_addCarLane_chain _ _ _ hlen nodes n ml
  have etag := fold_addCarLane_tags _ _ _ hlen nodes n ml
  generalize hr1 : (List.range ml.lanesNum.toNat).foldl (addCarLane
    (((List.range ml.lanesNum.toNat).map
        (laneGeometry P ml (-1 * (o / 2 - 1 / 2 + (lc0 : ℚ))))).map
        (samplePoints P ml (cellsNumOf ml.lengthMeters)))) (nodes, n, ml) = r1
    at e1 e4 e5 e6 e7 etag
  obtain ⟨nodes1, n1, ml1⟩ := r1
  simp only at e1 e4 e5 e6 e7 etag
  subst e1
  obtain ⟨newB, b1, b2, b3, b4, b5, b6⟩ := fold_addLaneNode_chain ml.ID (-1)
    (if bike then samplePoints P ml (cellsNumOf ml.lengthMeters)
      (if bike then sideGeometry P ml 0 bikeLaneWidth else []) else []) nodes1 n1 []
  have btag := fold_addLaneNode_tags ml.ID (-1)
    (if bike then samplePoints P ml (cellsNumOf ml.lengthMeters)
      (if bike then sideGeometry P ml 0 bikeLaneWidth else []) else []) nodes1 n1 []
  generalize hr2 : (if bike then samplePoints P ml (cellsNumOf ml.lengthMeters)
      (if bike then sideGeometry P ml 0 bikeLaneWidth else []) else []).foldl
      (addLaneNode ml.ID (-1)) (nodes1, n1, []) = r2 at b1 b2 b5 b6 btag
  obtain ⟨nodes2, n2, chainB⟩ := r2
  simp only [List.nil_append] at b1 b2 b5 b6 btag
  subst b1
  obtain ⟨newW, w1, w2, w3, w4, w5, w6⟩ := fold_addLaneNode_chain ml.ID (-2)
    (if walk then samplePoints P ml (cellsNumOf ml.lengthMeters)
      (if walk then sideGeometry P ml 0 walkLaneWidth else []) else []) nodes2 n2 []
  have wtag := fold_addLaneNode_tags ml.ID (-2)
    (if walk then samplePoints P ml (cellsNumOf ml.lengthMeters)
      (if walk then sideGeometry P ml 0 walkLaneWidth else []) else []) nodes2 n2 []
  generalize hr3 : (if walk then samplePoints P ml (cellsNumOf ml.lengthMeters)
      (if walk then sideGeometry P ml 0 walkLaneWidth else []) else []).foldl
      (addLaneNode ml.ID (-2)) (nodes2, n2, []) = r3 at w1 w2 w5 w6 wtag
  obtain ⟨nodes3, n3, chainW⟩ := r3
  simp only [List.nil_append] at w1 w2 w5 w6 wtag
  subst w1
  have hres : buildMesoNodes P bike walk o lc0 ml nodes n
      = (nodes3, n3,
          { ml with
            microNodesPerLane := newLanes
            microNodesBikeLane := chainB
            microNodesWalkLane := chainW }) := by
    unfold buildMesoNodes
    simp only [hb, hw, hl, List.nil_append] at hr1 hr2 hr3 ⊢
    rw [hr1]
    simp only [hr2]
    rw [hr3]
  rw [hres]
  simp only [hl, List.nil_append, List.length_nil, zero_add] at e3 e5 e7 etag ⊢
  have b2' : n1 ≤ n2 := by omega
  refine ⟨?_, ?_, ?_, ?_, ?_, trivial⟩
  · intro i lane hlane
    refine ⟨e3 lane (List.getElem?_mem hlane), ?_⟩
    obtain ⟨i', hi', htag⟩ := etag i lane hlane
    have hi'' : i' = i := by
      have hlt : i < ml.lanesNum.toNat := by
        by_contra hc
        rw [List.getElem?_eq_none (by simpa using hc)] at hi'
        cases hi'
      rw [List.getElem?_range hlt] at hi'
      cases hi'
      rfl
    subst hi''
    intro x hx
    obtain ⟨pt, hpt⟩ := htag x hx
    have hx1 : x < n1 := (e5.2 x (List.mem_flatten.mpr ⟨lane, List.getElem?_mem hlane, hx⟩)).2
    refine ⟨pt, ?_⟩
    rw [w5 x (by omega), b5 x hx1]
    exact hpt
  · rw [b3]
    split <;> simp [samplePoints_length]
  · intro x hx
    rcases btag x hx with h | ⟨-, pt, hpt⟩
    · simp at h
    · refine ⟨pt, ?_⟩
      rw [w5 x (b2 ▸ (b4.2 x hx).2)]
      exact hpt
  · rw [w3]
    split <;> simp [samplePoints_length]
  · intro x hx
    rcases wtag x hx with h | ⟨-, pt, hpt⟩
    · simp at h
    · exact ⟨pt, hpt⟩


theorem LinksAdded_nil (m : Int) (s : MicroBuild) : LinksAdded m [] s s :=
  ⟨by simp, rfl, rfl, fun _ _ => rfl, fun q spec h => by simp at h⟩

theorem LinksAdded_append (m : Int) (L1 L2 : List LinkSpec) (a b c : MicroBuild)
    (h1 : LinksAdded m L1 a b) (h2 : LinksAdded m L2 b c) : LinksAdded m (L1 ++ L2) a c := by
  obtain ⟨a1, a2, a3, a4, a5⟩ := h1
  obtain ⟨b1, b2, b3, b4, b5⟩ := h2
  refine ⟨?_, b2.trans a2, b3.trans a3, ?_, ?_⟩
  · rw [b1, a1, List.length_append]
    push_cast
    ring
  · intro k hk
    rw [b4 k (by omega), a4 k (by omega)]
  · intro q spec hq
    by_cases hlt : q < L1.length
    · rw [List.getElem?_append_left hlt] at hq
      obtain ⟨link, e1, e2⟩ := a5 q spec hq
      refine ⟨link, ?_, e2⟩
      rw [b4 _ (Or.inl (by omega))]
      exact e1
    · rw [List.getElem?_append_right (by omega)] at hq
      obtain ⟨link, e1, e2, e3⟩ := b5 (q - L1.length) spec hq
      have hk : b.lastLinkID + ((q - L1.length : Nat) : Int) = a.lastLinkID + (q : Int) := by
        omega
      rw [hk] at e1 e2
      exact ⟨link, e1, e2, e3⟩

theorem addMicroLink_added (m : Int) (ty : LinkType) (ag : List AgentType)
    (s : MicroBuild) (a b : Int) (s' : MicroBuild)
    (h : addMicroLink m ty ag false s a b = .ok s') : LinksAdded m [(a, b, ty, ag)] s s' := by
  obtain ⟨sn, tn, tn1, -, -, -, rfl⟩ := addMicroLink_spec _ _ _ _ _ _ _ _ h
  refine ⟨by simp, rfl, rfl, ?_, ?_⟩
  · intro k hk
    simp only [List.length_singleton, Nat.cast_one] at hk ⊢
    exact mapGet?_mapSet_ne _ _ _ _ (by omega)
  intro q spec hq
  cases q with
  | zero =>
    simp only [List.getElem?_cons_zero, Option.some.injEq] at hq
    subst hq
    refine Exists.intro ?w (And.intro ?h1 ?h2)
    case h1 =>
      simp only [Nat.cast_zero, add_zero]
      exact mapGet?_mapSet_same _ _ _
    case h2 => exact ⟨by simp, rfl, rfl, rfl, rfl, rfl, rfl⟩
  | succ q' => simp at hq

/-- A loop whose rounds create the links of lists creates the links of the
lists one after the other. -/
theorem foldlM_linksAdded {α : Type} (m : Int) (f : MicroBuild → α → Except Failure MicroBuild)
    (g : α → List LinkSpec) (xs : List α) (s s' : MicroBuild)
    (hstep : ∀ t x t', x ∈ xs → f t x = .ok t' → LinksAdded m (g x) t t')
    (h : xs.foldlM f s = .ok s') : LinksAdded m (xs.flatMap g) s s' := by
  induction xs generalizing s with
  | nil =>
    simp only [List.foldlM_nil, pure, Except.pure] at h
    cases h
    exact LinksAdded_nil m _
  | cons x rest ih =>
    rw [List.foldlM_cons] at h
    obtain ⟨s1, h1, h2⟩ := except_bind_ok _ _ _ h
    rw [List.flatMap_cons]
    exact LinksAdded_append m _ _ s s1 s' (hstep s x s1 (List.mem_cons_self _ _) h1)
      (ih s1 (fun t y t' hy => hstep t y t' (List.mem_cons_of_mem _ hy)) h2)

theorem sliceAt_getD {α : Type} (l : List α) (j : Nat) (a d : α)
    (h : sliceAt l (j : Int) = .ok a) : l.getD j d = a := by
  obtain ⟨-, h2⟩ := sliceAt_ok _ _ _ h
  simp only [Int.toNat_ofNat] at h2
  rw [List.getD_eq_getElem?_getD, h2]
  rfl

theorem flatMap_singleton_map {α β : Type} (f : α → β) (xs : List α) :
    xs.flatMap (fun x => [f x]) = xs.map f := by
  induction xs with
  | nil => rfl
  | cons x t ih => simp [List.flatMap_cons, ih]

/-- The links of one loop `for j := 0; j < len(lane)-1; j++` from `lane[j]` to
`other[j+1]`. -/
theorem foldlM_linkCell_added (m : Int) (ty : LinkType) (ag : List AgentType)
    (lane other : List Int) (s s' : MicroBuild)
    (h : (List.range (lane.length - 1)).foldlM (linkCell m ty ag lane other) s = .ok s') :
    LinksAdded m (specLinksBetween lane other ty ag) s s' := by
  unfold specLinksBetween
  rw [← flatMap_singleton_map]
  apply foldlM_linksAdded m _ _ _ s s' _ h
  intro t j t' _ hj
  unfold linkCell at hj
  obtain ⟨a, h1, hj⟩ := except_bind_ok _ _ _ hj
  obtain ⟨b, h2, hj⟩ := except_bind_ok _ _ _ hj
  have e1 := sliceAt_getD lane j a 0 h1
  have e2 := sliceAt_getD other (j + 1) b 0 (by simpa using h2)
  rw [e1, e2]
  exact addMicroLink_added m ty ag t a b t' hj

theorem foldlM_linkChange_added (m : Int) (ml : NetworkLinkMesoscopic) (ag : List AgentType)
    (lane : List Int) (nb : Nat) (s s' : MicroBuild)
    (h : (List.range (lane.length - 1)).foldlM (linkChange m ml ag lane (nb : Int)) s = .ok s') :
    LinksAdded m (specLinksBetween lane (ml.microNodesPerLane.getD nb [])
      LinkType.LINK_LANE_CHANGE ag) s s' := by
  unfold specLinksBetween
  rw [← flatMap_singleton_map]
  apply foldlM_linksAdded m _ _ _ s s' _ h
  intro t j t' _ hj
  unfold linkChange at hj
  obtain ⟨a, h1, hj⟩ := except_bind_ok _ _ _ hj
  obtain ⟨other, h2, hj⟩ := except_bind_ok _ _ _ hj
  obtain ⟨b, h3, hj⟩ := except_bind_ok _ _ _ hj
  have e1 := sliceAt_getD lane j a 0 h1
  have e2 := sliceAt_getD ml.microNodesPerLane nb other [] h2
  have e3 := sliceAt_getD other (j + 1) b 0 (by simpa using h3)
  rw [e1, e2, e3]
  exact addMicroLink_added m _ ag t a b t' hj

/-- The links of lane `i` (lines 379-471). -/
theorem linkCarLane_added (m : Int) (ml : NetworkLinkMesoscopic) (ag : List AgentType)
    (s s' : MicroBuild) (i : Nat) (h : linkCarLane m ml ag s i = .ok s') :
    LinksAdded m (specLaneLinks ml ag i) s s' := by
  unfold linkCarLane at h
  obtain ⟨lane, h0, h⟩ := except_bind_ok _ _ _ h
  obtain ⟨s1, h1, h⟩ := except_bind_ok _ _ _ h
  obtain ⟨s2, h2, h3⟩ := except_bind_ok _ _ _ h
  have e0 := sliceAt_getD ml.microNodesPerLane i lane [] h0
  unfold specLaneLinks
  rw [e0]
  have a1 := foldlM_linkCell_added m _ ag lane lane s s1 h1
  have a2 : LinksAdded m (if (i : Int) ≤ ml.lanesNum - 2 then
        specLinksBetween lane (ml.microNodesPerLane.getD (i + 1) [])
          LinkType.LINK_LANE_CHANGE ag
      else []) s1 s2 := by
    split at h2
    · rename_i hc
      rw [if_pos hc]
      exact foldlM_linkChange_added m ml ag lane (i + 1) s1 s2 (by simpa using h2)
    · rename_i hc
      rw [if_neg hc]
      cases h2
      exact LinksAdded_nil m _
  have a3 : LinksAdded m (if (i : Int) ≥ 1 then
        specLinksBetween lane (ml.microNodesPerLane.getD (i - 1) [])
          LinkType.LINK_LANE_CHANGE ag
      else []) s2 s' := by
    split at h3
    · rename_i hc
      rw [if_pos hc]
      have hcast : ((i : Int) - 1) = ((i - 1 : Nat) : Int) := by omega
      rw [hcast] at h3
      exact foldlM_linkChange_added m ml ag lane (i - 1) s2 s' h3
    · rename_i hc
      rw [if_neg hc]
      cases h3
      exact LinksAdded_nil m _
  exact LinksAdded_append m _ _ s s2 s' (LinksAdded_append m _ _ s s1 s2 a1 a2) a3

/-- The links of a mesoscopic link (lines 374-530) are the links that the
specification lists. -/
theorem createMesoLinks_added (ag : List AgentType) (bike walk : Bool) (s s' : MicroBuild)
    (m : Int) (ml : NetworkLinkMesoscopic) (h : createMesoLinks ag bike walk s m = .ok s')
    (hml : mapGet? s.mesoLinks m = some ml) :
    LinksAdded m (specCellLinks ml ag bike walk) s s' := by
  unfold createMesoLinks at h
  rw [hml] at h
  simp only at h
  obtain ⟨s1, h1, h⟩ := except_bind_ok _ _ _ h
  obtain ⟨s2, h2, h3⟩ := except_bind_ok _ _ _ h
  have a1 : LinksAdded m (specCarLinks ml ag) s s1 :=
    foldlM_linksAdded m _ _ _ s s1 (fun t i t' _ hi => linkCarLane_added m ml ag t t' i hi) h1
  have a2 : LinksAdded m (if bike then specLinksBetween ml.microNodesBikeLane
      ml.microNodesBikeLane LinkType.LINK_FORWARD [AgentType.AGENT_BIKE] else []) s1 s2 := by
    split at h2
    · rename_i hc
      rw [if_pos hc]
      exact foldlM_linkCell_added m _ _ _ _ s1 s2 h2
    · rename_i hc
      rw [if_neg hc]
      cases h2
      exact LinksAdded_nil m _
  have a3 : LinksAdded m (if walk then specLinksBetween ml.microNodesWalkLane
      ml.microNodesWalkLane LinkType.LINK_FORWARD [AgentType.AGENT_WALK] else []) s2 s' := by
    split at h3
    · rename_i hc
      rw [if_pos hc]
      exact foldlM_linkCell_added m _ _ _ _ s2 s' h3
    · rename_i hc
      rw [if_neg hc]
      cases h3
      exact LinksAdded_nil m _
  exact LinksAdded_append m _ _ s s2 s' (LinksAdded_append m _ _ s s1 s2 a1 a2) a3

theorem specLinksBetween_length (lane other : List Int) (ty : LinkType) (ag : List AgentType) :
    (specLinksBetween lane other ty ag).length = lane.length - 1 := by
  unfold specLinksBetween
  rw [List.length_map, List.length_range]

/-- The number of car links of the first `k` lanes of a mesoscopic link whose
lanes hold `c + 1` nodes. -/
theorem specCarLinks_length_upto (ml : NetworkLinkMesoscopic) (ag : List AgentType) (c : Nat)
    (hc : ∀ i, i < ml.lanesNum.toNat → (ml.microNodesPerLane.getD i []).length = c + 1)
    (k : Nat) (hk : k ≤ ml.lanesNum.toNat) :
    ((List.range k).flatMap (specLaneLinks ml ag)).length
      = (k + min k (ml.lanesNum.toNat - 1) + (k - 1)) * c := by
  induction k with
  | zero => simp
  | succ k ih =>
    rw [List.range_succ, List.flatMap_append, List.length_append, ih (by omega)]
    simp only [List.flatMap_cons, List.flatMap_nil, List.append_nil]
    have hlane := hc k (by omega)
    unfold specLaneLinks
    simp only [List.length_append, specLinksBetween_length, hlane, Nat.add_sub_cancel]
    by_cases h1 : (k : Int) ≤ ml.lanesNum - 2 <;> by_cases h2 : (k : Int) ≥ 1
    · simp only [h1, h2, if_true, specLinksBetween_length, hlane, Nat.add_sub_cancel]
      have e : k + 1 + min (k + 1) (ml.lanesNum.toNat - 1) + k
          = (k + min k (ml.lanesNum.toNat - 1) + (k - 1)) + 3 := by omega
      rw [e]
      ring
    · simp only [h1, h2, if_true, if_false, specLinksBetween_length, hlane,
        Nat.add_sub_cancel, List.length_nil]
      have e : k + 1 + min (k + 1) (ml.lanesNum.toNat - 1) + k
          = (k + min k (ml.lanesNum.toNat - 1) + (k - 1)) + 2 := by omega
      rw [e]
      ring
    · simp only [h1, h2, if_true, if_false, specLinksBetween_length, hlane,
        Nat.add_sub_cancel, List.length_nil]
      have e : k + 1 + min (k + 1) (ml.lanesNum.toNat - 1) + k
          = (k + min k (ml.lanesNum.toNat - 1) + (k - 1)) + 2 := by omega
      rw [e]
      ring
    · simp only [h1, h2, if_false, specLinksBetween_length, hlane,
        Nat.add_sub_cancel, List.length_nil]
      have e : k + 1 + min (k + 1) (ml.lanesNum.toNat - 1) + k
          = (k + min k (ml.lanesNum.toNat - 1) + (k - 1)) + 1 := by omega
      rw [e]
      ring

/-- A mesoscopic link of `n` lanes of `c + 1` nodes has `(3n - 2) * c` car
links. -/
theorem specCarLinks_length (ml : NetworkLinkMesoscopic) (ag : List AgentType) (c : Nat)
    (hc : ∀ i, i < ml.lanesNum.toNat → (ml.microNodesPerLane.getD i []).length = c + 1) :
    (specCarLinks ml ag).length = (3 * ml.lanesNum.toNat - 2) * c := by
  unfold specCarLinks
  rw [specCarLinks_length_upto ml ag c hc _ (le_refl _)]
  congr 1
  omega


theorem SameButBoundary_refl (n : NetworkNodeMicroscopic) : SameButBoundary n n := by
  cases n; rfl

theorem SameButBoundary_trans (a b c : NetworkNodeMicroscopic)
    (h1 : SameButBoundary a b) (h2 : SameButBoundary b c) : SameButBoundary a c := by
  unfold SameButBoundary at *
  rw [h2, h1]

theorem BoundaryStep_refl (mesoLinks : GoMap NetworkLinkMesoscopic)
    (mesoNodes : GoMap NetworkNodeMesoscopic) (s : GoMap NetworkNodeMicroscopic) :
    BoundaryStep mesoLinks mesoNodes s s :=
  fun _ => ⟨fun h => h, fun n hn => ⟨n, hn, SameButBoundary_refl n, fun h => h⟩⟩

theorem BoundaryStep_trans (mesoLinks : GoMap NetworkLinkMesoscopic)
    (mesoNodes : GoMap NetworkNodeMesoscopic) (a b c : GoMap NetworkNodeMicroscopic)
    (h1 : BoundaryStep mesoLinks mesoNodes a b) (h2 : BoundaryStep mesoLinks mesoNodes b c) :
    BoundaryStep mesoLinks mesoNodes a c := by
  intro k
  refine ⟨fun h => (h2 k).1 ((h1 k).1 h), ?_⟩
  intro n hn
  obtain ⟨n1, g1, s1, r1⟩ := (h1 k).2 n hn
  obtain ⟨n2, g2, s2, r2⟩ := (h2 k).2 n1 g1
  exact ⟨n2, g2, SameButBoundary_trans _ _ _ s1 s2, fun h => r2 (r1 h)⟩

/-- One iteration of `updateBoundaryType`: the node under `key` is replaced by
itself with the boundary type of the rule. -/
theorem updateNodeBoundary_rule (mesoLinks : GoMap NetworkLinkMesoscopic)
    (mesoNodes : GoMap NetworkNodeMesoscopic) (nodes nodes' : GoMap NetworkNodeMicroscopic)
    (key : Int) (h : updateNodeBoundary mesoLinks mesoNodes nodes key = .ok nodes') :
    ∃ n n', mapGet? nodes key = some n ∧ nodes' = mapSet nodes key n'
      ∧ SameButBoundary n n' ∧ BoundaryRule mesoLinks mesoNodes n' := by
  unfold updateNodeBoundary at h
  split at h
  · cases h
  rename_i n hn
  split at h
  · rename_i h1
    cases h
    exact ⟨n, _, hn, rfl, rfl, by simp [BoundaryRule, h1]⟩
  rename_i h1
  split at h
  · cases h
  rename_i ml hml
  split at h
  · cases h
  rename_i src hsrc
  split at h
  · rename_i h2
    cases h
    exact ⟨n, _, hn, rfl, rfl, by simp [BoundaryRule, h1, hml, h2, hsrc]⟩
  rename_i h2
  split at h
  · rename_i h3
    split at h
    · cases h
    · rename_i tgt htgt
      cases h
      exact ⟨n, _, hn, rfl, rfl, by simp [BoundaryRule, h1, hml, h2, h3, htgt]⟩
  · rename_i h3
    cases h
    exact ⟨n, _, hn, rfl, rfl, by simp [BoundaryRule, h1, hml, h2, h3]⟩

theorem updateNodeBoundary_step (mesoLinks : GoMap NetworkLinkMesoscopic)
    (mesoNodes : GoMap NetworkNodeMesoscopic) (nodes nodes' : GoMap NetworkNodeMicroscopic)
    (key : Int) (h : updateNodeBoundary mesoLinks mesoNodes nodes key = .ok nodes') :
    BoundaryStep mesoLinks mesoNodes nodes nodes' := by
  obtain ⟨n, n', hn, rfl, hs, hr⟩ := updateNodeBoundary_rule _ _ _ _ _ h
  intro k
  rw [mapGet?_mapSet]
  by_cases e : key = k
  · subst e
    simp only [if_true]
    refine ⟨fun h0 => ?_, ?_⟩
    · rw [hn] at h0; cases h0
    · intro m hm
      rw [hn] at hm
      cases hm
      exact ⟨n', rfl, hs, fun _ => hr⟩
  · simp only [e, if_false]
    exact ⟨fun h0 => h0, fun m hm => ⟨m, hm, SameButBoundary_refl m, fun h0 => h0⟩⟩

/-- After `updateBoundaryType` every node of the table is the former node up to
its boundary type, and follows the rule. -/
theorem updateBoundaryType_rule (mesoLinks : GoMap NetworkLinkMesoscopic)
    (mesoNodes : GoMap NetworkNodeMesoscopic) (nodes nodes' : GoMap NetworkNodeMicroscopic)
    (h : updateBoundaryType mesoLinks mesoNodes nodes = .ok nodes') (k : Int) :
    (mapGet? nodes k = none → mapGet? nodes' k = none)
      ∧ ∀ n, mapGet? nodes k = some n → ∃ n', mapGet? nodes' k = some n'
        ∧ SameButBoundary n n' ∧ BoundaryRule mesoLinks mesoNodes n' := by
  unfold updateBoundaryType at h
  have hall : BoundaryStep mesoLinks mesoNodes nodes nodes' :=
    foldlM_except_rel (BoundaryStep mesoLinks mesoNodes) _ _ _ _
      (BoundaryStep_refl mesoLinks mesoNodes) (BoundaryStep_trans mesoLinks mesoNodes)
      (fun s x s' _ hf => updateNodeBoundary_step _ _ _ _ _ hf) h
  refine ⟨(hall k).1, ?_⟩
  intro n hn
  have hk : k ∈ nodes.map (fun kv => kv.1) := by
    rw [← mapGet?_isSome_iff_mem_keys, hn]; rfl
  obtain ⟨s, s', hf, h1, h2⟩ := foldlM_except_mem (BoundaryStep mesoLinks mesoNodes) _ _ _ _
    (BoundaryStep_refl mesoLinks mesoNodes) (BoundaryStep_trans mesoLinks mesoNodes)
    (fun s x s' _ hf => updateNodeBoundary_step _ _ _ _ _ hf) h k hk
  obtain ⟨m, m', hm, rfl, hs, hr⟩ := updateNodeBoundary_rule _ _ _ _ _ hf
  obtain ⟨m0, g0, s0, -⟩ := (h1 k).2 n hn
  rw [hm] at g0
  cases g0
  obtain ⟨n', g', s', r'⟩ := (h2 k).2 m' (mapGet?_mapSet_same _ _ _)
  exact ⟨n', g', SameButBoundary_trans _ _ _ (SameButBoundary_trans _ _ _ s0 hs) s', r' hr⟩

/-! ## Lemmas on the movements at a node -/

theorem sliceAt_nat {α : Type} (s : List α) (i : Nat) (a : α) (h : s[i]? = some a) :
    sliceAt s (i : Int) = .ok a := by
  unfold sliceAt
  simp [h]

theorem foldlM_collectOutcoming (links : GoMap NetworkLink) (incomingLink : NetworkLink)
    (outs : List Int) (acc : List NetworkLink)
    (h : ∀ b, b ∈ outs → (mapGet? links b).isSome) :
    outs.foldlM (collectOutcoming links incomingLink) acc
      = some (acc ++ admissibleOutcoming links incomingLink outs) := by
  induction outs generalizing acc with
  | nil => simp [admissibleOutcoming]
  | cons b rest ih =>
    have hb := h b (List.mem_cons_self _ _)
    obtain ⟨y, hy⟩ := Option.isSome_iff_exists.mp hb
    have hrest : ∀ b, b ∈ rest → (mapGet? links b).isSome :=
      fun c hc => h c (List.mem_cons_of_mem _ hc)
    rw [List.foldlM_cons]
    by_cases e : incomingLink.sourceNodeID ≠ y.targetNodeID
    · have h1 : collectOutcoming links incomingLink acc b = some (acc ++ [y]) := by
        simp [collectOutcoming, hy, e]
      have h2 : admissibleOutcoming links incomingLink (b :: rest)
          = y :: admissibleOutcoming links incomingLink rest := by
        simp [admissibleOutcoming, hy, e]
      rw [h1, h2]
      simp only [Option.some_bind, Option.bind_eq_bind]
      rw [ih _ hrest]
      simp
    · have h1 : collectOutcoming links incomingLink acc b = some acc := by
        simp only [collectOutcoming, hy, e, if_false]
      have h2 : admissibleOutcoming links incomingLink (b :: rest)
          = admissibleOutcoming links incomingLink rest := by
        simp [admissibleOutcoming, hy, e]
      rw [h1, h2]
      simp only [Option.some_bind, Option.bind_eq_bind]
      rw [ih _ hrest]

theorem buildMovement_ok (nodeID a : Int) (incomingLink : NetworkLink)
    (connections : List (List (Int × Int))) (acc : Int × List Movement) (n : Nat)
    (y : NetworkLink) (cn : List (Int × Int)) (c0 c1 : Int × Int)
    (hc : connections[n]? = some cn) (hc0 : cn[0]? = some c0) (hc1 : cn[1]? = some c1) :
    ∃ m, buildMovement nodeID a incomingLink connections acc (n, y)
        = .ok (acc.1 + 1, acc.2 ++ [m])
      ∧ m.ID = acc.1 ∧ m.IncomingLinkID = a ∧ m.OutcomingLinkID = y.ID := by
  refine Exists.intro ?w (And.intro ?h1 ?h2)
  case h1 =>
    unfold buildMovement
    rw [sliceAt_nat _ _ _ hc]
    have e0 : sliceAt cn 0 = .ok c0 := sliceAt_nat cn 0 c0 hc0
    have e1 : sliceAt cn 1 = .ok c1 := sliceAt_nat cn 1 c1 hc1
    simp only [bind, Except.bind, e0, e1]
    exact rfl
  case h2 => exact ⟨rfl, rfl, rfl⟩

theorem foldlM_buildMovement (nodeID a : Int) (incomingLink : NetworkLink)
    (connections : List (List (Int × Int))) (outs : List NetworkLink) (n : Nat)
    (acc : Int × List Movement)
    (hconn : ∀ i, n ≤ i → i < n + outs.length → ∃ connection income outcome,
      connections[i]? = some connection ∧ connection[0]? = some income
        ∧ connection[1]? = some outcome) :
    ∃ ms, (outs.enumFrom n).foldlM (buildMovement nodeID a incomingLink connections) acc
        = .ok (acc.1 + (outs.length : Int), acc.2 ++ ms)
      ∧ ms.map (fun m => m.ID)
        = (List.range outs.length).map (fun (i : Nat) => acc.1 + (i : Int))
      ∧ ms.map (fun m => (m.IncomingLinkID, m.OutcomingLinkID))
        = outs.map (fun y => (a, y.ID)) := by
  induction outs generalizing n acc with
  | nil => exact ⟨[], by simp [pure, Except.pure], by simp, by simp⟩
  | cons y rest ih =>
    obtain ⟨c, c0, c1, hc, hc0, hc1⟩ := hconn n (le_refl _) (by simp)
    obtain ⟨m, hstep, hm1, hm2, hm3⟩ :=
      buildMovement_ok nodeID a incomingLink connections acc n y c c0 c1 hc hc0 hc1
    obtain ⟨ms, hf, hid, hpair⟩ := ih (n + 1) (acc.1 + 1, acc.2 ++ [m])
      (fun i h1 h2 => hconn i (by omega) (by simp only [List.length_cons]; omega))
    refine ⟨m :: ms, ?_, ?_, ?_⟩
    · rw [List.enumFrom_cons, List.foldlM_cons, hstep]
      simp only [bind, Except.bind]
      rw [hf]
      simp only [List.length_cons, List.append_assoc, List.singleton_append, Nat.cast_add,
        Nat.cast_one]
      congr 2
      ring
    · simp only [List.map_cons, List.length_cons, hid, List.range_succ_eq_map, List.map_map,
        hm1]
      refine congrArg₂ _ (by simp) ?_
      apply List.map_congr_left
      intro i _
      simp only [Function.comp, Nat.cast_succ]
      ring
    · simp only [List.map_cons, hpair, hm2, hm3]

theorem pairIncoming_ok (conn : NetworkLink → List NetworkLink → List (List (Int × Int)))
    (hconn : ConnectionsGiven conn) (node : NetworkNode) (links : GoMap NetworkLink)
    (acc : Int × List Movement) (a : Int) (incomingLink : NetworkLink)
    (hin : mapGet? links a = some incomingLink)
    (hout : ∀ b, b ∈ node.outcomingLinks → (mapGet? links b).isSome)
    (hadm : admissibleOutcoming links incomingLink node.outcomingLinks ≠ []) :
    ∃ ms, pairIncoming conn node links acc a
        = .ok (acc.1 + ((admissibleOutcoming links incomingLink node.outcomingLinks).length : Int),
            acc.2 ++ ms)
      ∧ ms.map (fun m => m.ID)
        = (List.range (admissibleOutcoming links incomingLink node.outcomingLinks).length).map
            (fun (i : Nat) => acc.1 + (i : Int))
      ∧ ms.map (fun m => (m.IncomingLinkID, m.OutcomingLinkID))
        = (admissibleOutcoming links incomingLink node.outcomingLinks).map
            (fun y => (a, y.ID)) := by
  obtain ⟨ms, hf, hid, hpair⟩ := foldlM_buildMovement node.ID a incomingLink
    (conn incomingLink (admissibleOutcoming links incomingLink node.outcomingLinks))
    (admissibleOutcoming links incomingLink node.outcomingLinks) 0 acc
    (fun i _ h2 => hconn incomingLink _ i (by omega))
  refine ⟨ms, ?_, hid, hpair⟩
  have hlen : ¬ (admissibleOutcoming links incomingLink node.outcomingLinks).length = 0 :=
    fun e => hadm (List.length_eq_zero.mp e)
  unfold pairIncoming
  simp only [hin, foldlM_collectOutcoming links incomingLink node.outcomingLinks [] hout,
    List.nil_append, hlen, if_false, List.enum, hf]

/-- The pairs that the loop over the incoming links `ins` builds. -/
theorem foldlM_pairIncoming (conn : NetworkLink → List NetworkLink → List (List (Int × Int)))
    (hconn : ConnectionsGiven conn) (node : NetworkNode) (links : GoMap NetworkLink)
    (ins : List Int) (acc : Int × List Movement)
    (hin : ∀ a, a ∈ ins → ∃ incomingLink, mapGet? links a = some incomingLink
      ∧ admissibleOutcoming links incomingLink node.outcomingLinks ≠ [])
    (hout : ∀ b, b ∈ node.outcomingLinks → (mapGet? links b).isSome) :
    ∃ ms, ins.foldlM (pairIncoming conn node links) acc
        = .ok (acc.1 + (ms.length : Int), acc.2 ++ ms)
      ∧ ms.map (fun m => m.ID) = (List.range ms.length).map (fun (i : Nat) => acc.1 + (i : Int))
      ∧ ms.map (fun m => (m.IncomingLinkID, m.OutcomingLinkID))
        = ins.flatMap (fun incomingLinkID =>
            match mapGet? links incomingLinkID with
            | some incomingLink =>
              (admissibleOutcoming links incomingLink node.outcomingLinks).map
                (fun outcomingLink => (incomingLinkID, outcomingLink.ID))
            | none => []) := by
  induction ins generalizing acc with
  | nil => exact ⟨[], by simp [pure, Except.pure], by simp, by simp⟩
  | cons a rest ih =>
    obtain ⟨inc, hinc, hadm⟩ := hin a (List.mem_cons_self _ _)
    obtain ⟨ms1, h1, hid1, hp1⟩ := pairIncoming_ok conn hconn node links acc a inc hinc hout hadm
    obtain ⟨ms2, h2, hid2, hp2⟩ := ih
      (acc.1 + ((admissibleOutcoming links inc node.outcomingLinks).length : Int), acc.2 ++ ms1)
      (fun b hb => hin b (List.mem_cons_of_mem _ hb))
    have hl1 : ms1.length = (admissibleOutcoming links inc node.outcomingLinks).length := by
      have := congrArg List.length hp1
      simpa using this
    refine ⟨ms1 ++ ms2, ?_, ?_, ?_⟩
    · rw [List.foldlM_cons, h1]
      simp only [bind, Except.bind]
      rw [h2]
      simp only [List.length_append, Nat.cast_add, List.append_assoc, hl1]
      congr 2
      ring
    · rw [List.map_append, hid1, hid2, List.length_append, List.range_add, List.map_append,
        List.map_map, hl1]
      congr 1
      apply List.map_congr_left
      intro i _
      simp only [Function.comp, Nat.cast_add]
      ring
    · rw [List.map_append, hp1, hp2, List.flatMap_cons]
      simp only [hinc]

/-! ## Lemmas on the target marks of the microscopic nodes -/

theorem FlagsSame_refl (n : NetworkNodeMicroscopic) : FlagsSame n n := ⟨rfl, rfl, rfl⟩

theorem FlagsSame_trans (a b c : NetworkNodeMicroscopic) (h1 : FlagsSame a b)
    (h2 : FlagsSame b c) : FlagsSame a c :=
  ⟨h2.1.trans h1.1, h2.2.1.trans h1.2.1, h2.2.2.trans h1.2.2⟩

theorem FlagsSame_of_NodeSame (n n' : NetworkNodeMicroscopic) (h : NodeSame n n') :
    FlagsSame n n' := by
  obtain ⟨i, o, rfl⟩ := h
  exact ⟨rfl, rfl, rfl⟩

theorem FlagsSame_of_boundary (n n' : NetworkNodeMicroscopic) (h : SameButBoundary n n') :
    FlagsSame n n' := by
  unfold SameButBoundary at h
  rw [h]
  exact ⟨rfl, rfl, rfl⟩

theorem OldKept_refl (n : Int) (s : MicroBuild) : OldKept n s s :=
  ⟨le_refl _, fun _ _ _ => ⟨fun h => h, fun nd h => ⟨nd, h, FlagsSame_refl nd⟩⟩⟩

theorem OldKept_trans (n : Int) (a b c : MicroBuild) (h1 : OldKept n a b) (h2 : OldKept n b c) :
    OldKept n a c := by
  refine ⟨le_trans h1.1 h2.1, ?_⟩
  intro hn x hx
  have k1 := h1.2 hn x hx
  have k2 := h2.2 (le_trans hn h1.1) x hx
  refine ⟨fun h => k2.1 (k1.1 h), ?_⟩
  intro nd hnd
  obtain ⟨nd1, g1, f1⟩ := k1.2 nd hnd
  obtain ⟨nd2, g2, f2⟩ := k2.2 nd1 g1
  exact ⟨nd2, g2, FlagsSame_trans _ _ _ f1 f2⟩

theorem MesoFrame_refl (ms : List Int) (s : MicroBuild) : MesoFrame ms s s := fun _ _ => rfl

theorem MesoFrame_trans (ms : List Int) (a b c : MicroBuild) (h1 : MesoFrame ms a b)
    (h2 : MesoFrame ms b c) : MesoFrame ms a c :=
  fun k hk => (h2 k hk).trans (h1 k hk)

/-- A loop that marks one node per lane, the node `sel lane`, by the idempotent
update `f`: the nodes chosen by `sel` are updated, every other node stays. -/
theorem foldlM_mark (g : MicroBuild → List Int → Except Failure MicroBuild)
    (sel : List Int → Option Int) (f : NetworkNodeMicroscopic → NetworkNodeMicroscopic)
    (hg : ∀ s lane s', g s lane = .ok s' → ∃ k n, sel lane = some k
      ∧ mapGet? s.nodes k = some n ∧ s' = { s with nodes := mapSet s.nodes k (f n) })
    (hidem : ∀ n, f (f n) = f n) (lanes : List (List Int)) (s s' : MicroBuild)
    (h : lanes.foldlM g s = .ok s') :
    s'.mesoLinks = s.mesoLinks ∧ s'.lastNodeID = s.lastNodeID
      ∧ ∀ x, (¬ (∃ c ∈ lanes, sel c = some x) → mapGet? s'.nodes x = mapGet? s.nodes x)
        ∧ ((∃ c ∈ lanes, sel c = some x) →
          ∃ n, mapGet? s.nodes x = some n ∧ mapGet? s'.nodes x = some (f n)) := by
  induction lanes generalizing s with
  | nil =>
    simp only [List.foldlM_nil, pure, Except.pure] at h
    cases h
    exact ⟨rfl, rfl, fun x => ⟨fun _ => rfl, fun hx => by simp at hx⟩⟩
  | cons lane rest ih =>
    rw [List.foldlM_cons] at h
    obtain ⟨s1, h1, h2⟩ := except_bind_ok _ _ _ h
    obtain ⟨k, n, hk, hn, rfl⟩ := hg s lane s1 h1
    obtain ⟨i1, i2, i3⟩ := ih _ h2
    refine ⟨i1, i2, ?_⟩
    intro x
    by_cases hr : ∃ c ∈ rest, sel c = some x
    · refine ⟨fun hx => ?_, fun _ => ?_⟩
      · exfalso
        obtain ⟨c, hc, e⟩ := hr
        exact hx ⟨c, List.mem_cons_of_mem _ hc, e⟩
      · obtain ⟨n1, g1, g2⟩ := (i3 x).2 hr
        simp only [mapGet?_mapSet] at g1
        by_cases e : k = x
        · subst e
          simp only [if_true, Option.some.injEq] at g1
          subst g1
          exact ⟨n, hn, by rw [g2, hidem]⟩
        · simp only [e, if_false] at g1
          exact ⟨n1, g1, g2⟩
    · have g1 := (i3 x).1 hr
      simp only [mapGet?_mapSet] at g1
      refine ⟨fun hx => ?_, fun hx => ?_⟩
      · have e : ¬ k = x := by
          intro e
          subst e
          exact hx ⟨lane, List.mem_cons_self _ _, hk⟩
        simpa [e] using g1
      · obtain ⟨c, hc, e⟩ := hx
        rcases List.mem_cons.mp hc with rfl | hc
        · rw [hk] at e
          cases e
          simp only [if_true] at g1
          exact ⟨n, hn, g1⟩
        · exact absurd ⟨c, hc, e⟩ hr

theorem markLaneFirst_step (z : Int) (s : MicroBuild) (lane : List Int) (s' : MicroBuild)
    (h : markLaneFirst z s lane = .ok s') :
    ∃ k n, lane.head? = some k ∧ mapGet? s.nodes k = some n
      ∧ s' = { s with nodes := mapSet s.nodes k (markedUp z n) } := by
  unfold markLaneFirst at h
  split at h
  · cases h
  rename_i k hk
  unfold markUpstream at h
  split at h
  · cases h
  rename_i n hn
  cases h
  exact ⟨k, n, hk, hn, rfl⟩

theorem markLaneLast_step (z : Int) (s : MicroBuild) (lane : List Int) (s' : MicroBuild)
    (h : markLaneLast z s lane = .ok s') :
    ∃ k n, lane.getLast? = some k ∧ mapGet? s.nodes k = some n
      ∧ s' = { s with nodes := mapSet s.nodes k (markedDown z n) } := by
  unfold markLaneLast at h
  split at h
  · cases h
  rename_i k hk
  unfold markDownstream at h
  split at h
  · cases h
  rename_i n hn
  cases h
  exact ⟨k, n, hk, hn, rfl⟩

/-- The three marking steps of one end of a macroscopic link as one loop over
the marked chains. -/
theorem foldlM_markedChains (g : MicroBuild → List Int → Except Failure MicroBuild)
    (bike walk : Bool) (ml : NetworkLinkMesoscopic) (s s1 s2 s3 : MicroBuild)
    (h1 : ml.microNodesPerLane.foldlM g s = .ok s1)
    (h2 : (if bike then g s1 ml.microNodesBikeLane else .ok s1) = .ok s2)
    (h3 : (if walk then g s2 ml.microNodesWalkLane else .ok s2) = .ok s3) :
    (markedChains bike walk ml).foldlM g s = .ok s3 := by
  unfold markedChains
  rw [List.foldlM_append, h1]
  simp only [bind, Except.bind]
  rw [List.foldlM_append]
  have e2 : (if bike then [ml.microNodesBikeLane] else []).foldlM g s1 = .ok s2 := by
    cases bike
    · simpa [pure, Except.pure] using h2
    · simp only [if_true] at h2 ⊢
      rw [List.foldlM_cons, h2]
      rfl
  rw [e2]
  simp only [bind, Except.bind]
  cases walk
  · simpa [pure, Except.pure] using h3
  · simp only [if_true] at h3 ⊢
    rw [List.foldlM_cons, h3]
    rfl

/-- What `markTargets` does: the first nodes of the marked chains of the first
mesoscopic link become upstream target nodes in the zone of the source node,
then the last nodes of the marked chains of the last mesoscopic link become
downstream target nodes in the zone of the target node; nothing else changes. -/
theorem markTargets_spec (macroNodes : GoMap NetworkNode) (macroLink : NetworkLink)
    (bike walk : Bool) (s s' : MicroBuild)
    (h : markTargets macroNodes macroLink bike walk s = .ok s') :
    ∃ (first last : Int) (mlF mlL : NetworkLinkMesoscopic) (src tgt : NetworkNode),
      macroLink.mesolinks.head? = some first ∧ macroLink.mesolinks.getLast? = some last
      ∧ mapGet? s.mesoLinks first = some mlF ∧ mapGet? s.mesoLinks last = some mlL
      ∧ mapGet? macroNodes macroLink.sourceNodeID = some src
      ∧ mapGet? macroNodes macroLink.targetNodeID = some tgt
      ∧ s'.mesoLinks = s.mesoLinks ∧ s'.lastNodeID = s.lastNodeID
      ∧ ∀ x,
        (¬ (∃ c ∈ markedChains bike walk mlF, c.head? = some x) →
          ¬ (∃ c ∈ markedChains bike walk mlL, c.getLast? = some x) →
          mapGet? s'.nodes x = mapGet? s.nodes x)
        ∧ ((∃ c ∈ markedChains bike walk mlF, c.head? = some x) →
          ¬ (∃ c ∈ markedChains bike walk mlL, c.getLast? = some x) →
          ∃ n, mapGet? s.nodes x = some n
            ∧ mapGet? s'.nodes x = some (markedUp src.zoneID n))
        ∧ ((∃ c ∈ markedChains bike walk mlL, c.getLast? = some x) →
          ∃ n, mapGet? s'.nodes x = some (markedDown tgt.zoneID n)) := by
  unfold markTargets at h
  split at h
  · cases h
  rename_i first hfirst
  split at h
  · cases h
  rename_i mlF hmlF
  split at h
  · cases h
  rename_i src hsrc
  obtain ⟨st1, h1, h⟩ := except_bind_ok _ _ _ h
  obtain ⟨st2, h2, h⟩ := except_bind_ok _ _ _ h
  obtain ⟨st3, h3, h⟩ := except_bind_ok _ _ _ h
  have hup := foldlM_markedChains _ bike walk mlF s st1 st2 st3 h1 h2 h3
  obtain ⟨u1, u2, u3⟩ := foldlM_mark _ List.head? (markedUp src.zoneID)
    (fun a lane b hh => markLaneFirst_step _ a lane b hh) (fun n => rfl) _ s st3 hup
  split at h
  · cases h
  rename_i last hlast
  split at h
  · cases h
  rename_i mlL hmlL
  split at h
  · cases h
  rename_i tgt htgt
  obtain ⟨st4, h4, h⟩ := except_bind_ok _ _ _ h
  obtain ⟨st5, h5, h⟩ := except_bind_ok _ _ _ h
  have hdown := foldlM_markedChains _ bike walk mlL st3 st4 st5 s' h4 h5 h
  obtain ⟨d1, d2, d3⟩ := foldlM_mark _ List.getLast? (markedDown tgt.zoneID)
    (fun a lane b hh => markLaneLast_step _ a lane b hh) (fun n => rfl) _ st3 s' hdown
  rw [u1] at hmlL
  refine ⟨first, last, mlF, mlL, src, tgt, hfirst, hlast, hmlF, hmlL, hsrc, htgt,
    d1.trans u1, d2.trans u2, ?_⟩
  intro x
  refine ⟨fun hu hd => ?_, fun hu hd => ?_, fun hd => ?_⟩
  · rw [(d3 x).1 hd, (u3 x).1 hu]
  · obtain ⟨n, g1, g2⟩ := (u3 x).2 hu
    exact ⟨n, g1, by rw [(d3 x).1 hd, g2]⟩
  · obtain ⟨n, -, g2⟩ := (d3 x).2 hd
    exact ⟨n, g2⟩

theorem PlainNode_new (x : Int) (pt : Point × Point) (m l : Int) :
    PlainNode (newMicroNode x pt m l) := ⟨rfl, rfl, rfl⟩

theorem mem_laneChains_flatten (ml : NetworkLinkMesoscopic) (x : Int)
    (h : x ∈ (laneChains ml).flatten) :
    (∃ (i : Nat) (lane : List Int), ml.microNodesPerLane[i]? = some lane ∧ x ∈ lane)
      ∨ x ∈ ml.microNodesBikeLane ∨ x ∈ ml.microNodesWalkLane := by
  unfold laneChains at h
  simp only [List.flatten_append, List.mem_append, List.mem_flatten, List.flatten_cons,
    List.flatten_nil, List.append_nil] at h
  rcases h with ⟨lane, hl, hx⟩ | hb | hw
  · obtain ⟨i, hi⟩ := List.mem_iff_getElem?.mp hl
    exact Or.inl ⟨i, lane, hi, hx⟩
  · exact Or.inr (Or.inl hb)
  · exact Or.inr (Or.inr hw)

/-- The nodes of one mesoscopic link without chains are created. -/
theorem createMesoNodes_cells (P : GeoPrims) (bike walk : Bool) (o : ℚ) (s s' : MicroBuild)
    (m : Int) (done : List Int) (n0 : Int) (h : createMesoNodes P bike walk o s m = .ok s')
    (hm : m ∉ done) (hn0 : n0 ≤ s.lastNodeID) (hb : CellsReady bike walk n0 s done)
    (hf : NoChains s.mesoLinks [m]) :
    CellsReady bike walk n0 s' (done ++ [m]) ∧ s.lastNodeID ≤ s'.lastNodeID
      ∧ (∀ x, x < s.lastNodeID → mapGet? s'.nodes x = mapGet? s.nodes x) := by
  unfold createMesoNodes at h
  split at h
  · cases h
  rename_i ml hml
  split at h
  · cases h
  rename_i lc0 hlc
  cases h
  obtain ⟨f1, f2, f3⟩ := hf m (List.mem_singleton.mpr rfl) ml hml
  obtain ⟨c1, c2, c3, c4, c5, c6, c7, c8⟩ :=
    buildMesoNodes_chains P bike walk o lc0 ml s.nodes s.lastNodeID f1 f2 f3
  obtain ⟨t1, t2, t3, t4, t5, -⟩ :=
    buildMesoNodes_tags P bike walk o lc0 ml s.nodes s.lastNodeID f1 f2 f3
  have hc := cellsNumOf_pos ml.lengthMeters
  generalize buildMesoNodes P bike walk o lc0 ml s.nodes s.lastNodeID = r at *
  obtain ⟨nodes1, n1, ml1⟩ := r
  simp only at c1 c2 c3 c4 c5 c6 c7 c8 t1 t2 t3 t4 t5 ⊢
  refine ⟨?_, c5, c7⟩
  intro k hk
  rcases List.mem_append.mp hk with hk | hk
  · obtain ⟨mlk, g1, g2, g3, g4, g5, g6⟩ := hb k hk
    have hne : m ≠ k := fun e => hm (e ▸ hk)
    refine ⟨mlk, by simpa [mapGet?_mapSet_ne _ _ _ _ hne] using g1, g2, g3, g4, g5, ?_⟩
    intro x hx
    obtain ⟨b1, b2, n, b3, b4⟩ := g6 x hx
    exact ⟨b1, lt_of_lt_of_le b2 c5, n, by rw [c7 x b2]; exact b3, b4⟩
  · rw [List.mem_singleton] at hk
    subst hk
    refine ⟨ml1, mapGet?_mapSet_same _ _ _, c4, ?_, ?_, FreshIDs_nodup _ _ _ c6, ?_⟩
    · cases bike
      · simp only [Bool.false_eq_true, if_false]
        simp only [Bool.false_eq_true, if_false] at t2
        exact List.length_eq_zero.mp t2
      · simp only [if_true]
        simp only [if_true] at t2
        rw [t2]
        omega
    · cases walk
      · simp only [Bool.false_eq_true, if_false]
        simp only [Bool.false_eq_true, if_false] at t4
        exact List.length_eq_zero.mp t4
      · simp only [if_true]
        simp only [if_true] at t4
        rw [t4]
        omega
    · intro x hx
      have hb1 := c6.2 x hx
      refine ⟨le_trans hn0 hb1.1, hb1.2, ?_⟩
      rcases mem_laneChains_flatten ml1 x hx with ⟨i, lane, hl, hxl⟩ | hxb | hxw
      · obtain ⟨pt, hpt⟩ := (t1 i lane hl).2 x hxl
        exact ⟨_, hpt, PlainNode_new _ _ _ _⟩
      · obtain ⟨pt, hpt⟩ := t3 x hxb
        exact ⟨_, hpt, PlainNode_new _ _ _ _⟩
      · obtain ⟨pt, hpt⟩ := t5 x hxw
        exact ⟨_, hpt, PlainNode_new _ _ _ _⟩

/-- The nodes of the mesoscopic links `rest` are created, one link after the
other. -/
theorem foldlM_createMesoNodes_cells (P : GeoPrims) (bike walk : Bool) (o : ℚ)
    (rest done : List Int) (s s' : MicroBuild) (n0 : Int)
    (h : rest.foldlM (createMesoNodes P bike walk o) s = .ok s')
    (hnd : (done ++ rest).Nodup) (hn0 : n0 ≤ s.lastNodeID)
    (hb : CellsReady bike walk n0 s done) (hf : NoChains s.mesoLinks rest) :
    CellsReady bike walk n0 s' (done ++ rest) ∧ s.lastNodeID ≤ s'.lastNodeID
      ∧ (∀ x, x < s.lastNodeID → mapGet? s'.nodes x = mapGet? s.nodes x) := by
  induction rest generalizing done s with
  | nil =>
    simp only [List.foldlM_nil, pure, Except.pure] at h
    cases h
    exact ⟨by simpa using hb, le_refl _, fun _ _ => rfl⟩
  | cons m rest ih =>
    rw [List.foldlM_cons] at h
    obtain ⟨s1, h1, h2⟩ := except_bind_ok _ _ _ h
    have hm : m ∉ done := by
      intro hmem
      exact (List.nodup_append.mp hnd).2.2 hmem (List.mem_cons_self _ _)
    have hmr : m ∉ rest := (List.nodup_cons.mp (List.nodup_append.mp hnd).2.1).1
    obtain ⟨b1, b2, b3⟩ := createMesoNodes_cells P bike walk o s s1 m done n0 h1 hm hn0 hb
      (fun k hk ml hml => hf k (by rw [List.mem_singleton.mp hk]; exact List.mem_cons_self _ _)
        ml hml)
    have hf1 : NoChains s1.mesoLinks rest := by
      intro k hk ml hml
      have hne : k ≠ m := fun e => hmr (e ▸ hk)
      rw [(createMesoNodes_frame P bike walk o s s1 m h1).2.2 k hne] at hml
      exact hf k (List.mem_cons_of_mem _ hk) ml hml
    obtain ⟨i1, i2, i3⟩ := ih (done ++ [m]) s1 h2 (by simpa using hnd) (le_trans hn0 b2) b1 hf1
    refine ⟨by simpa using i1, le_trans b2 i2, ?_⟩
    intro x hx
    rw [i3 x (lt_of_lt_of_le hx b2), b3 x hx]

theorem ChainShape_refl (ml : NetworkLinkMesoscopic) : ChainShape ml ml :=
  ⟨rfl, fun _ c h => ⟨c, h, rfl, fun _ => rfl⟩⟩

theorem ChainShape_trans (a b c : NetworkLinkMesoscopic) (h1 : ChainShape a b)
    (h2 : ChainShape b c) : ChainShape a c := by
  refine ⟨h2.1.trans h1.1, ?_⟩
  intro q ch hq
  obtain ⟨c1, g1, g2, g3⟩ := h1.2 q ch hq
  obtain ⟨c2, k1, k2, k3⟩ := h2.2 q c1 g1
  exact ⟨c2, k1, k2.trans g2, fun h => (k3 (by omega)).trans (g3 h)⟩

theorem StitchKeeps_refl (ms : List Int) (s : MicroBuild) : StitchKeeps ms s s :=
  ⟨rfl, fun _ ml h => ⟨ml, h, ChainShape_refl ml⟩, fun _ h => h, fun _ => Or.inl rfl⟩

theorem StitchKeeps_trans (ms : List Int) (a b c : MicroBuild) (h1 : StitchKeeps ms a b)
    (h2 : StitchKeeps ms b c) : StitchKeeps ms a c := by
  refine ⟨h2.1.trans h1.1, ?_, fun x hx => h1.2.2.1 x (h2.2.2.1 x hx), ?_⟩
  · intro key ml hml
    obtain ⟨ml1, g1, g2⟩ := h1.2.1 key ml hml
    obtain ⟨ml2, k1, k2⟩ := h2.2.1 key ml1 g1
    exact ⟨ml2, k1, ChainShape_trans _ _ _ g2 k2⟩
  · intro y
    rcases h2.2.2.2 y with e | e
    · rcases h1.2.2.2 y with e1 | e1
      · exact Or.inl (e.trans e1)
      · exact Or.inr (e.trans e1)
    · exact Or.inr e

/-- A stitching step that replaces the upstream link `u` by a link of the same
shape with nodes of the chains of `u` and `d` only. -/
theorem StitchKeeps_of_update (ms : List Int) (u d : Int) (s s' : MicroBuild)
    (up down up' : NetworkLinkMesoscopic) (hu : u ∈ ms) (hd : d ∈ ms)
    (hup : mapGet? s.mesoLinks u = some up) (hdown : mapGet? s.mesoLinks d = some down)
    (hm : s'.mesoLinks = mapSet s.mesoLinks u up') (hn : s'.lastNodeID = s.lastNodeID)
    (hshape : ChainShape up up')
    (hmem : ∀ y ∈ (laneChains up').flatten,
      y ∈ (laneChains up).flatten ∨ y ∈ (laneChains down).flatten)
    (hdel : ∃ old, s'.nodes = mapDelete s.nodes old) :
    StitchKeeps ms s s' := by
  refine ⟨hn, ?_, ?_, ?_⟩
  rotate_left 2
  · intro y
    obtain ⟨old, e⟩ := hdel
    rw [e]
    rcases mapDelete_cases s.nodes old y with h1 | h1
    · exact Or.inl h1
    · exact Or.inr h1.1
  · intro key ml hml
    rw [hm, mapGet?_mapSet]
    by_cases e : u = key
    · subst e
      rw [hup] at hml
      cases hml
      exact ⟨up', by simp, hshape⟩
    · exact ⟨ml, by simpa [e] using hml, ChainShape_refl ml⟩
  · rintro x ⟨m, hmm, ml, hml, hx⟩
    rw [hm, mapGet?_mapSet] at hml
    by_cases e : u = m
    · subst e
      simp only [if_true, Option.some.injEq] at hml
      subst hml
      rcases hmem x hx with h1 | h1
      · exact ⟨u, hu, up, hup, h1⟩
      · exact ⟨d, hd, down, hdown, h1⟩
    · simp only [e, if_false] at hml
      exact ⟨m, hmm, ml, hml, hx⟩

theorem mem_set_last (lane : List Int) (x y : Int) (h : y ∈ lane.set (lane.length - 1) x) :
    y ∈ lane ∨ y = x := by
  rcases List.mem_or_eq_of_mem_set h with h1 | h1
  · exact Or.inl h1
  · exact Or.inr h1

theorem head?_mem (c : List Int) (x : Int) (h : c.head? = some x) : x ∈ c := by
  cases c with
  | nil => simp at h
  | cons a t =>
    simp only [List.head?_cons, Option.some.injEq] at h
    subst h
    exact List.mem_cons_self _ _

theorem mem_flatten_of_chain (ml : NetworkLinkMesoscopic) (c : List Int) (x : Int)
    (hc : c ∈ laneChains ml) (hx : x ∈ c) : x ∈ (laneChains ml).flatten :=
  List.mem_flatten.mpr ⟨c, hc, hx⟩

theorem stitchLane_keeps (ms : List Int) (u d : Int) (hu : u ∈ ms) (hd : d ∈ ms)
    (us ds : Int) (s : MicroBuild) (j : Nat) (s' : MicroBuild)
    (h : stitchLane u d us ds s j = .ok s') : StitchKeeps ms s s' := by
  obtain ⟨up, down, upLane, downLane, old, x, hup, hdown, -, h1, -, -, h2, h3, hm, hdel⟩ :=
    stitchLane_spec u d us ds s j s' h
  have hn := (stitchLane_frame u d us ds s j s' h).2.2.1
  have hi : (us + (j : Int)).toNat < up.microNodesPerLane.length := by
    by_contra hc
    rw [List.getElem?_eq_none (by omega)] at h1
    cases h1
  refine StitchKeeps_of_update ms u d s s' up down _ hu hd hup hdown hm hn ?_ ?_ ⟨old, hdel⟩
  · refine ⟨by simp [laneChains], ?_⟩
    intro q c hq
    unfold laneChains at hq ⊢
    simp only
    by_cases hql : q < up.microNodesPerLane.length
    · rw [List.getElem?_append_left hql] at hq
      rw [List.getElem?_append_left (by simpa using hql), List.getElem?_set]
      by_cases e : (us + (j : Int)).toNat = q
      · subst e
        rw [h1] at hq
        cases hq
        simp only [if_true, hi]
        exact ⟨_, rfl, by simp, fun h2 => head?_set_last _ _ h2⟩
      · simp only [e, if_false]
        exact ⟨c, hq, rfl, fun _ => rfl⟩
    · rw [List.getElem?_append_right (by omega)] at hq
      rw [List.getElem?_append_right (by simp; omega)]
      simp only [List.length_set]
      exact ⟨c, hq, rfl, fun _ => rfl⟩
  · intro y hy
    unfold laneChains at hy
    simp only [List.flatten_append, List.mem_append, List.mem_flatten] at hy
    rcases hy with ⟨lane, hl, hyl⟩ | hy
    · rcases List.mem_or_eq_of_mem_set hl with hl | hl
      · exact Or.inl (mem_flatten_of_chain up lane y (by simp [laneChains, hl]) hyl)
      · subst hl
        rcases mem_set_last _ _ _ hyl with hy1 | hy1
        · exact Or.inl (mem_flatten_of_chain up upLane y
            (by simp [laneChains, List.getElem?_mem h1]) hy1)
        · subst hy1
          exact Or.inr (mem_flatten_of_chain down downLane y
            (by simp [laneChains, List.getElem?_mem h2]) (head?_mem _ _ h3))
    · refine Or.inl ?_
      unfold laneChains
      simp only [List.flatten_append, List.mem_append, List.mem_flatten]
      exact Or.inr hy

theorem stitchBike_lane (u d : Int) (s s' : MicroBuild) (h : stitchBike u d s = .ok s') :
    ∃ (up down : NetworkLinkMesoscopic) (x : Int),
      mapGet? s.mesoLinks u = some up ∧ mapGet? s.mesoLinks d = some down
      ∧ down.microNodesBikeLane.head? = some x
      ∧ s'.mesoLinks = mapSet s.mesoLinks u
          { up with
            microNodesBikeLane :=
              up.microNodesBikeLane.set (up.microNodesBikeLane.length - 1) x } := by
  unfold stitchBike at h
  split at h
  swap
  · cases h
  rename_i up down hup hdown
  obtain ⟨old, h1, h⟩ := except_bind_ok _ _ _ h
  obtain ⟨x, h2, h⟩ := except_bind_ok _ _ _ h
  obtain ⟨lane', h3, h⟩ := except_bind_ok _ _ _ h
  cases h
  obtain ⟨-, -, c3⟩ := sliceSet_ok _ _ _ _ h3
  have e : ((up.microNodesBikeLane.length : Int) - 1).toNat
      = up.microNodesBikeLane.length - 1 := by omega
  rw [e] at c3
  subst c3
  exact ⟨up, down, x, hup, hdown, sliceAt_head _ _ h2, rfl⟩

theorem stitchWalk_lane (u d : Int) (s s' : MicroBuild) (h : stitchWalk u d s = .ok s') :
    ∃ (up down : NetworkLinkMesoscopic) (x : Int),
      mapGet? s.mesoLinks u = some up ∧ mapGet? s.mesoLinks d = some down
      ∧ down.microNodesWalkLane.head? = some x
      ∧ s'.mesoLinks = mapSet s.mesoLinks u
          { up with
            microNodesWalkLane :=
              up.microNodesWalkLane.set (up.microNodesWalkLane.length - 1) x } := by
  unfold stitchWalk at h
  split at h
  swap
  · cases h
  rename_i up down hup hdown
  obtain ⟨old, h1, h⟩ := except_bind_ok _ _ _ h
  obtain ⟨x, h2, h⟩ := except_bind_ok _ _ _ h
  obtain ⟨lane', h3, h⟩ := except_bind_ok _ _ _ h
  cases h
  obtain ⟨-, -, c3⟩ := sliceSet_ok _ _ _ _ h3
  have e : ((up.microNodesWalkLane.length : Int) - 1).toNat
      = up.microNodesWalkLane.length - 1 := by omega
  rw [e] at c3
  subst c3
  exact ⟨up, down, x, hup, hdown, sliceAt_head _ _ h2, rfl⟩

theorem stitchBike_keeps (ms : List Int) (u d : Int) (hu : u ∈ ms) (hd : d ∈ ms)
    (s s' : MicroBuild) (h : stitchBike u d s = .ok s') : StitchKeeps ms s s' := by
  obtain ⟨up, down, x, hup, hdown, hx, hm⟩ := stitchBike_lane u d s s' h
  have hn := (stitchBike_frame u d s s' h).2.2.1
  obtain ⟨-, -, -, -, -, -, -, old, -, hdel⟩ := stitchBike_spec u d s s' up h hup
  refine StitchKeeps_of_update ms u d s s' up down _ hu hd hup hdown hm hn ?_ ?_ ⟨old, hdel⟩
  · refine ⟨by simp [laneChains], ?_⟩
    intro q c hq
    unfold laneChains at hq ⊢
    simp only
    by_cases hql : q < up.microNodesPerLane.length
    · rw [List.getElem?_append_left hql] at hq
      rw [List.getElem?_append_left hql]
      exact ⟨c, hq, rfl, fun _ => rfl⟩
    · rw [List.getElem?_append_right (by omega)] at hq
      rw [List.getElem?_append_right (by omega)]
      generalize q - up.microNodesPerLane.length = r at hq ⊢
      match r, hq with
      | 0, hq =>
        simp only [List.getElem?_cons_zero, Option.some.injEq] at hq
        subst hq
        exact ⟨_, rfl, by simp, fun h2 => head?_set_last _ _ h2⟩
      | 1, hq =>
        simp only [List.getElem?_cons_succ, List.getElem?_cons_zero, Option.some.injEq] at hq
        subst hq
        exact ⟨_, rfl, rfl, fun _ => rfl⟩
      | (k + 2), hq => simp at hq
  · intro y hy
    unfold laneChains at hy
    simp only [List.flatten_append, List.mem_append, List.mem_flatten, List.flatten_cons,
      List.flatten_nil, List.append_nil] at hy
    rcases hy with ⟨lane, hl, hyl⟩ | hy | hy
    · exact Or.inl (mem_flatten_of_chain up lane y (by simp [laneChains, hl]) hyl)
    · rcases mem_set_last _ _ _ hy with hy1 | hy1
      · exact Or.inl (mem_flatten_of_chain up _ y (by simp [laneChains]) hy1)
      · subst hy1
        exact Or.inr (mem_flatten_of_chain down _ y (by simp [laneChains]) (head?_mem _ _ hx))
    · exact Or.inl (mem_flatten_of_chain up _ y (by simp [laneChains]) hy)

theorem stitchWalk_keeps (ms : List Int) (u d : Int) (hu : u ∈ ms) (hd : d ∈ ms)
    (s s' : MicroBuild) (h : stitchWalk u d s = .ok s') : StitchKeeps ms s s' := by
  obtain ⟨up, down, x, hup, hdown, hx, hm⟩ := stitchWalk_lane u d s s' h
  have hn := (stitchWalk_frame u d s s' h).2.2.1
  obtain ⟨-, -, -, -, -, -, old, -, hdel⟩ := stitchWalk_spec u d s s' up h hup
  refine StitchKeeps_of_update ms u d s s' up down _ hu hd hup hdown hm hn ?_ ?_ ⟨old, hdel⟩
  · refine ⟨by simp [laneChains], ?_⟩
    intro q c hq
    unfold laneChains at hq ⊢
    simp only
    by_cases hql : q < up.microNodesPerLane.length
    · rw [List.getElem?_append_left hql] at hq
      rw [List.getElem?_append_left hql]
      exact ⟨c, hq, rfl, fun _ => rfl⟩
    · rw [List.getElem?_append_right (by omega)] at hq
      rw [List.getElem?_append_right (by omega)]
      generalize q - up.microNodesPerLane.length = r at hq ⊢
      match r, hq with
      | 0, hq =>
        simp only [List.getElem?_cons_zero, Option.some.injEq] at hq
        subst hq
        exact ⟨_, rfl, rfl, fun _ => rfl⟩
      | 1, hq =>
        simp only [List.getElem?_cons_succ, List.getElem?_cons_zero, Option.some.injEq] at hq
        subst hq
        exact ⟨_, rfl, by simp, fun h2 => head?_set_last _ _ h2⟩
      | (k + 2), hq => simp at hq
  · intro y hy
    unfold laneChains at hy
    simp only [List.flatten_append, List.mem_append, List.mem_flatten, List.flatten_cons,
      List.flatten_nil, List.append_nil] at hy
    rcases hy with ⟨lane, hl, hyl⟩ | hy | hy
    · exact Or.inl (mem_flatten_of_chain up lane y (by simp [laneChains, hl]) hyl)
    · exact Or.inl (mem_flatten_of_chain up _ y (by simp [laneChains]) hy)
    · rcases mem_set_last _ _ _ hy with hy1 | hy1
      · exact Or.inl (mem_flatten_of_chain up _ y (by simp [laneChains]) hy1)
      · subst hy1
        exact Or.inr (mem_flatten_of_chain down _ y (by simp [laneChains]) (head?_mem _ _ hx))

/-- The stitching loop of a macroscopic link keeps the shape of the chains. -/
theorem foldlM_stitchPair_keeps (ms : List Int) (bike walk : Bool) (s s' : MicroBuild)
    (h : (adjacentPairs ms).foldlM (stitchPair bike walk) s = .ok s') :
    StitchKeeps ms s s' :=
  foldlM_except_rel (StitchKeeps ms) _ _ _ _ (StitchKeeps_refl ms) (StitchKeeps_trans ms)
    (fun a p b hp hf => stitchPair_rel (StitchKeeps ms) (StitchKeeps_refl ms)
      (StitchKeeps_trans ms) p
      (fun us ds t j t' hh => stitchLane_keeps ms p.1 p.2 (mem_adjacentPairs_left _ _ _ hp)
        (mem_adjacentPairs_right _ _ _ hp) us ds t j t' hh)
      (fun t t' hh => stitchBike_keeps ms p.1 p.2 (mem_adjacentPairs_left _ _ _ hp)
        (mem_adjacentPairs_right _ _ _ hp) t t' hh)
      (fun t t' hh => stitchWalk_keeps ms p.1 p.2 (mem_adjacentPairs_left _ _ _ hp)
        (mem_adjacentPairs_right _ _ _ hp) t t' hh)
      bike walk a b hf) h

theorem LinkKeeps_refl (s : MicroBuild) : LinkKeeps s s :=
  ⟨rfl, rfl, fun _ => ⟨fun h => h, fun nd h => ⟨nd, h, FlagsSame_refl nd⟩⟩⟩

theorem LinkKeeps_trans (a b c : MicroBuild) (h1 : LinkKeeps a b) (h2 : LinkKeeps b c) :
    LinkKeeps a c := by
  refine ⟨h2.1.trans h1.1, h2.2.1.trans h1.2.1, ?_⟩
  intro x
  refine ⟨fun h => (h2.2.2 x).1 ((h1.2.2 x).1 h), ?_⟩
  intro nd hnd
  obtain ⟨nd1, g1, f1⟩ := (h1.2.2 x).2 nd hnd
  obtain ⟨nd2, g2, f2⟩ := (h2.2.2 x).2 nd1 g1
  exact ⟨nd2, g2, FlagsSame_trans _ _ _ f1 f2⟩

theorem addMicroLink_keeps (m : Int) (ty : LinkType) (ag : List AgentType) (f : Bool)
    (s : MicroBuild) (a b : Int) (s' : MicroBuild)
    (h : addMicroLink m ty ag f s a b = .ok s') : LinkKeeps s s' := by
  have hs := addMicroLink_stable m ty ag f s a b s' h
  obtain ⟨-, h2, h3, -⟩ := addMicroLink_link m ty ag f s a b s' h
  obtain ⟨sn, tn, tn1, hsn, htn, htn1, rfl⟩ := addMicroLink_spec _ _ _ _ _ _ _ _ h
  refine ⟨h3, h2, ?_⟩
  intro x
  refine ⟨fun hx => ?_, ?_⟩
  · simp only
    have e1 : ¬ a = x := by
      intro e
      subst e
      rw [hsn] at hx
      cases hx
    have e2 : ¬ b = x := by
      intro e
      subst e
      rw [htn] at hx
      cases hx
    rw [mapGet?_mapSet_ne _ _ _ _ e2, mapGet?_mapSet_ne _ _ _ _ e1]
    exact hx
  · intro nd hnd
    obtain ⟨nd', g1, g2⟩ := hs.2.2.2.2 x nd hnd
    exact ⟨nd', g1, FlagsSame_of_NodeSame _ _ g2⟩

/-- The loop that creates the links of a macroscopic link keeps the nodes. -/
theorem foldlM_createMesoLinks_keeps (ag : List AgentType) (bike walk : Bool) (ms : List Int)
    (s s' : MicroBuild) (h : ms.foldlM (createMesoLinks ag bike walk) s = .ok s') :
    LinkKeeps s s' :=
  foldlM_except_rel LinkKeeps _ _ _ _ LinkKeeps_refl LinkKeeps_trans
    (fun a m b _ hf => createMesoLinks_rel LinkKeeps LinkKeeps_refl LinkKeeps_trans m
      (fun ty ag' t x y t' hh => addMicroLink_keeps m ty ag' false t x y t' hh)
      ag bike walk a b hf) h

theorem OldKept_of_LinkKeeps (n : Int) (s s' : MicroBuild) (h : LinkKeeps s s') :
    OldKept n s s' :=
  ⟨le_of_eq h.2.1.symm, fun _ x _ => h.2.2 x⟩

/-- `connectLinks` keeps the nodes below the node counter. -/
theorem connectLinks_old (n : Int) (P : GeoPrims) (st st' : MicroBuild)
    (h : connectLinks P st = .ok st') : OldKept n st st' := by
  refine connectLinks_rel (OldKept n) (OldKept_refl n) (OldKept_trans n) ?_ ?_ ?_ P st st' h
  · intro m l s pt
    unfold insertMovementNode
    refine ⟨by simp only; omega, ?_⟩
    intro hn x hx
    simp only
    have e : ¬ s.lastNodeID = x := by omega
    rw [mapGet?_mapSet_ne _ _ _ _ e]
    exact ⟨fun h0 => h0, fun nd h0 => ⟨nd, h0, FlagsSame_refl nd⟩⟩
  · intro m ty ag f s a b s' hh
    exact OldKept_of_LinkKeeps n s s' (addMicroLink_keeps m ty ag f s a b s' hh)
  · intro key ml ids s _
    unfold appendLaneChain
    exact ⟨le_refl _, fun _ x _ => ⟨fun h0 => h0, fun nd h0 => ⟨nd, h0, FlagsSame_refl nd⟩⟩⟩

/-- One lane of a movement changes the table of mesoscopic links at most under
the key of the movement link. -/
theorem connectLane_frame (P : GeoPrims) (key : Int) (st st' : MicroBuild) (i : Nat)
    (h : connectLane P key st i = .ok st') :
    ∀ k, k ≠ key → mapGet? st'.mesoLinks k = mapGet? st.mesoLinks k := by
  have hL : ∀ m ty ag f (s : MicroBuild) a b s', addMicroLink m ty ag f s a b = .ok s' →
      s'.mesoLinks = s.mesoLinks :=
    fun m ty ag f s a b s' hh => (addMicroLink_link m ty ag f s a b s' hh).2.2.1
  have hC : ∀ m l (acc acc' : MicroBuild × Int × Bool × List Int) pt,
      connectCell m l acc pt = .ok acc' → acc'.1.mesoLinks = acc.1.mesoLinks := by
    intro m l acc acc' pt hh
    unfold connectCell at hh
    simp only at hh
    split at hh
    · cases hh
    · rename_i st2 h2
      cases hh
      have e := hL _ _ _ _ _ _ _ _ h2
      exact e
  unfold connectLane at h
  split at h
  · cases h
  split at h
  · obtain ⟨a1, _, h⟩ := except_bind_ok _ _ _ h
    obtain ⟨a2, _, h⟩ := except_bind_ok _ _ _ h
    obtain ⟨a3, _, h⟩ := except_bind_ok _ _ _ h
    obtain ⟨a4, _, h⟩ := except_bind_ok _ _ _ h
    simp only at h
    split at h
    · obtain ⟨r, hr, h⟩ := except_bind_ok _ _ _ h
      have i1 : r.1.mesoLinks = st.mesoLinks :=
        foldlM_except_inv (fun acc : MicroBuild × Int × Bool × List Int =>
          acc.1.mesoLinks = st.mesoLinks) _ _ _ _ rfl
          (fun s x s' _ hs hf => (hC _ _ s s' x hf).trans hs) hr
      obtain ⟨st2, h2, h⟩ := except_bind_ok _ _ _ h
      have i2 : st2.mesoLinks = r.1.mesoLinks := hL _ _ _ _ _ _ _ _ h2
      split at h
      · cases h
      · cases h
        intro k hk
        unfold appendLaneChain
        simp only
        rw [mapGet?_mapSet_ne _ _ _ _ (fun e => hk e.symm), i2, i1]
    · cases h
  · cases h

theorem MoveOnly_refl (s : MicroBuild) : MoveOnly s s := fun _ _ h _ => h

theorem MoveOnly_trans (a b c : MicroBuild) (h1 : MoveOnly a b) (h2 : MoveOnly b c) :
    MoveOnly a c :=
  fun k ml h hm => h2 k ml (h1 k ml h hm) hm

/-- `connectLinks` changes the movement links only. -/
theorem connectLinks_moveOnly (P : GeoPrims) (st st' : MicroBuild)
    (h : connectLinks P st = .ok st') : MoveOnly st st' := by
  unfold connectLinks at h
  refine foldlM_except_rel MoveOnly _ _ _ _ MoveOnly_refl MoveOnly_trans ?_ h
  intro s key s' _ hf
  unfold connectMovement at hf
  split at hf
  · cases hf
  rename_i mv hmv
  split at hf
  · rename_i hpos
    split at hf
    · cases hf
    split at hf
    · cases hf
    split at hf
    · cases hf
    split at hf
    · cases hf
    have hfr : ∀ k, k ≠ key → mapGet? s'.mesoLinks k = mapGet? s.mesoLinks k :=
      foldlM_except_rel
        (fun (a b : MicroBuild) => ∀ k, k ≠ key → mapGet? b.mesoLinks k = mapGet? a.mesoLinks k)
        _ _ _ _ (fun _ _ _ => rfl) (fun a b c h1 h2 k hk => (h2 k hk).trans (h1 k hk))
        (fun t x t' _ hx => connectLane_frame P key t t' x hx) hf
    intro k ml hml hno
    have hk : k ≠ key := by
      intro e
      subst e
      rw [hmv] at hml
      cases hml
      exact hno hpos
    rw [hfr k hk]
    exact hml
  · cases hf
    exact MoveOnly_refl _

/-- `updateBoundaryType` keeps the keys, the target flags and the zones. -/
theorem updateBoundaryType_flags (mesoLinks : GoMap NetworkLinkMesoscopic)
    (mesoNodes : GoMap NetworkNodeMesoscopic) (nodes nodes' : GoMap NetworkNodeMicroscopic)
    (h : updateBoundaryType mesoLinks mesoNodes nodes = .ok nodes') (x : Int) :
    (mapGet? nodes x = none → mapGet? nodes' x = none)
      ∧ ∀ nd, mapGet? nodes x = some nd →
        ∃ nd', mapGet? nodes' x = some nd' ∧ FlagsSame nd nd' := by
  obtain ⟨h1, h2⟩ := updateBoundaryType_rule mesoLinks mesoNodes nodes nodes' h x
  refine ⟨h1, ?_⟩
  intro nd hnd
  obtain ⟨nd', g1, g2, -⟩ := h2 nd hnd
  exact ⟨nd', g1, FlagsSame_of_boundary _ _ g2⟩

theorem MoveIDBack_refl (s : MicroBuild) : MoveIDBack s s := fun _ ml h => ⟨ml, h, rfl⟩

theorem MoveIDBack_trans (a b c : MicroBuild) (h1 : MoveIDBack a b) (h2 : MoveIDBack b c) :
    MoveIDBack a c := by
  intro k ml hml
  obtain ⟨ml1, g1, g2⟩ := h2 k ml hml
  obtain ⟨ml2, k1, k2⟩ := h1 k ml1 g1
  exact ⟨ml2, k1, k2.trans g2⟩

theorem MoveIDBack_of_eq (s s' : MicroBuild) (h : s'.mesoLinks = s.mesoLinks) :
    MoveIDBack s s' := by
  intro k ml hml
  rw [h] at hml
  exact ⟨ml, hml, rfl⟩

theorem MoveIDBack_of_set (s s' : MicroBuild) (u : Int) (up up' : NetworkLinkMesoscopic)
    (hup : mapGet? s.mesoLinks u = some up) (hm : s'.mesoLinks = mapSet s.mesoLinks u up')
    (hid : up'.movementID = up.movementID) : MoveIDBack s s' := by
  intro k ml hml
  rw [hm, mapGet?_mapSet] at hml
  by_cases e : u = k
  · subst e
    simp only [if_true, Option.some.injEq] at hml
    subst hml
    exact ⟨up, hup, hid.symm⟩
  · simp only [e, if_false] at hml
    exact ⟨ml, hml, rfl⟩

theorem fold_addCarLane_movementID (g : List (List (Point × Point))) (is : List Nat)
    (acc : GoMap NetworkNodeMicroscopic × Int × NetworkLinkMesoscopic) :
    (is.foldl (addCarLane g) acc).2.2.movementID = acc.2.2.movementID := by
  induction is generalizing acc with
  | nil => rfl
  | cons i rest ih =>
    rw [List.foldl_cons, ih]
    rfl

theorem buildMesoNodes_movementID (P : GeoPrims) (bike walk : Bool) (o : ℚ) (lc0 : Int)
    (ml : NetworkLinkMesoscopic) (nodes : GoMap NetworkNodeMicroscopic) (n : Int) :
    (buildMesoNodes P bike walk o lc0 ml nodes n).2.2.movementID = ml.movementID := by
  unfold buildMesoNodes
  simp only
  exact fold_addCarLane_movementID _ _ _

/-- The body of the loop over the macroscopic links adds no mesoscopic link
and changes no `movementID`. -/
theorem processMacroLink_movementID (P : GeoPrims) (macroNodes : GoMap NetworkNode) (sep : Bool)
    (st st' : MicroBuild) (macroLink : NetworkLink)
    (h : processMacroLink P macroNodes sep st macroLink = .ok st') : MoveIDBack st st' := by
  refine processMacroLink_rel MoveIDBack MoveIDBack_refl MoveIDBack_trans P macroLink
    ?_ ?_ ?_ ?_ ?_ ?_ ?_ macroNodes sep st st' h
  · intro m _ b w o s s' hh
    unfold createMesoNodes at hh
    split at hh
    · cases hh
    rename_i ml hml
    split at hh
    · cases hh
    cases hh
    exact MoveIDBack_of_set _ _ m ml _ hml rfl (buildMesoNodes_movementID _ _ _ _ _ _ _ _)
  · intro z s k s' hh
    exact MoveIDBack_of_eq _ _ (markUpstream_frame z s s' k hh).2.2.1
  · intro z s k s' hh
    exact MoveIDBack_of_eq _ _ (markDownstream_frame z s s' k hh).2.2.1
  · intro u _ d _ us ds s j s' hh
    obtain ⟨up, down, upLane, downLane, old, x, hup, -, -, -, -, -, -, -, hm, -⟩ :=
      stitchLane_spec u d us ds s j s' hh
    exact MoveIDBack_of_set _ _ u up _ hup hm rfl
  · intro u _ d _ s s' hh
    obtain ⟨up, down, x, hup, -, -, hm⟩ := stitchBike_lane u d s s' hh
    exact MoveIDBack_of_set _ _ u up _ hup hm rfl
  · intro u _ d _ s s' hh
    obtain ⟨up, down, x, hup, -, -, hm⟩ := stitchWalk_lane u d s s' hh
    exact MoveIDBack_of_set _ _ u up _ hup hm rfl
  · intro m _ ty ag s a b s' hh
    exact MoveIDBack_of_eq _ _ (addMicroLink_link m ty ag false s a b s' hh).2.2.1

/-- The body of the loop over the macroscopic links changes only the
mesoscopic links of its macroscopic link. -/
theorem processMacroLink_mesoFrame (P : GeoPrims) (macroNodes : GoMap NetworkNode) (sep : Bool)
    (st st' : MicroBuild) (macroLink : NetworkLink)
    (h : processMacroLink P macroNodes sep st macroLink = .ok st') :
    MesoFrame macroLink.mesolinks st st' := by
  refine processMacroLink_rel (MesoFrame macroLink.mesolinks) (MesoFrame_refl _)
    (MesoFrame_trans _) P macroLink ?_ ?_ ?_ ?_ ?_ ?_ ?_ macroNodes sep st st' h
  · intro m hm b w o s s' hh k hk
    exact (createMesoNodes_frame P b w o s s' m hh).2.2 k (fun e => hk (e ▸ hm))
  · intro z s k s' hh k' _
    rw [(markUpstream_frame z s s' k hh).2.2.1]
  · intro z s k s' hh k' _
    rw [(markDownstream_frame z s s' k hh).2.2.1]
  · intro u hu d _ us ds s j s' hh k hk
    exact (stitchLane_frame u d us ds s j s' hh).2.2.2 k (fun e => hk (e ▸ hu))
  · intro u hu d _ s s' hh k hk
    exact (stitchBike_frame u d s s' hh).2.2.2 k (fun e => hk (e ▸ hu))
  · intro u hu d _ s s' hh k hk
    exact (stitchWalk_frame u d s s' hh).2.2.2 k (fun e => hk (e ▸ hu))
  · intro m _ ty ag s a b s' hh k _
    rw [(addMicroLink_link m ty ag false s a b s' hh).2.2.1]

/-- The phases of the body of the loop over the macroscopic links. -/
theorem processMacroLink_steps (P : GeoPrims) (macroNodes : GoMap NetworkNode) (sep : Bool)
    (st st' : MicroBuild) (macroLink : NetworkLink)
    (h : processMacroLink P macroNodes sep st macroLink = .ok st') :
    ∃ (ag : List AgentType) (bike walk : Bool) (o : ℚ) (st1 : MicroBuild),
      macroLink.mesolinks.foldlM (createMesoNodes P bike walk o) st = .ok st1
      ∧ ((macroLink.mesolinks = [] ∧ st' = st1)
        ∨ ∃ st2 st3, markTargets macroNodes macroLink bike walk st1 = .ok st2
          ∧ (adjacentPairs macroLink.mesolinks).foldlM (stitchPair bike walk) st2 = .ok st3
          ∧ macroLink.mesolinks.foldlM (createMesoLinks ag bike walk) st3 = .ok st') := by
  unfold processMacroLink at h
  simp only at h
  split at h
  · cases h
  obtain ⟨st1, h1, h⟩ := except_bind_ok _ _ _ h
  refine ⟨(if sep then prepareBikeWalkAgents macroLink.allowedAgentTypes
    else (macroLink.allowedAgentTypes, false, false)).1, _, _, _, st1, h1, ?_⟩
  split at h
  · rename_i h0
    cases h
    exact Or.inl ⟨List.length_eq_zero.mp h0, rfl⟩
  obtain ⟨st2, h2, h⟩ := except_bind_ok _ _ _ h
  obtain ⟨st3, h3, h⟩ := except_bind_ok _ _ _ h
  exact Or.inr ⟨st2, st3, h2, h3, h⟩

/-- The marked chains and the lane chains have the same ends when a chain that
is not asked for is empty. -/
theorem markedChains_sel_iff (sel : List Int → Option Int) (hsel : sel [] = none)
    (bike walk : Bool) (ml : NetworkLinkMesoscopic) (x : Int)
    (hb : if bike then 2 ≤ ml.microNodesBikeLane.length else ml.microNodesBikeLane = [])
    (hw : if walk then 2 ≤ ml.microNodesWalkLane.length else ml.microNodesWalkLane = []) :
    (∃ c ∈ markedChains bike walk ml, sel c = some x) ↔ (∃ c ∈ laneChains ml, sel c = some x) := by
  unfold markedChains laneChains
  constructor
  · rintro ⟨c, hc, hx⟩
    refine ⟨c, ?_, hx⟩
    simp only [List.mem_append, List.mem_cons, List.mem_singleton, List.not_mem_nil,
      or_false] at hc ⊢
    rcases hc with hc | hc | hc
    · exact Or.inl hc
    · cases bike
      · simp at hc
      · simp only [if_true, List.mem_singleton] at hc
        exact Or.inr (Or.inl hc)
    · cases walk
      · simp at hc
      · simp only [if_true, List.mem_singleton] at hc
        exact Or.inr (Or.inr hc)
  · rintro ⟨c, hc, hx⟩
    simp only [List.mem_append, List.mem_cons, List.mem_singleton, List.not_mem_nil,
      or_false] at hc
    rcases hc with hc | hc | hc
    · exact ⟨c, by simp [hc], hx⟩
    · cases bike
      · simp only [Bool.false_eq_true, if_false] at hb
        rw [hc, hb, hsel] at hx
        cases hx
      · exact ⟨c, by simp [hc], hx⟩
    · cases walk
      · simp only [Bool.false_eq_true, if_false] at hw
        rw [hc, hw, hsel] at hx
        cases hx
      · exact ⟨c, by simp [hc], hx⟩

theorem head_ne_last (c : List Int) (x : Int) (hnd : c.Nodup) (h2 : 2 ≤ c.length)
    (hh : c.head? = some x) (hl : c.getLast? = some x) : False := by
  rw [List.head?_eq_getElem?] at hh
  rw [List.getLast?_eq_getElem?] at hl
  have h0 : 0 < c.length := by omega
  have h1 : c.length - 1 < c.length := by omega
  rw [List.getElem?_eq_getElem h0, Option.some.injEq] at hh
  rw [List.getElem?_eq_getElem h1, Option.some.injEq] at hl
  have := (List.Nodup.getElem_inj_iff hnd).mp (hh.trans hl.symm)
  omega

/-- A chain of a link with created nodes is empty or has at least two nodes. -/
theorem chain_two (bike walk : Bool) (ml : NetworkLinkMesoscopic) (c : List Int)
    (hl : ∀ c ∈ ml.microNodesPerLane, 2 ≤ c.length)
    (hb : if bike then 2 ≤ ml.microNodesBikeLane.length else ml.microNodesBikeLane = [])
    (hw : if walk then 2 ≤ ml.microNodesWalkLane.length else ml.microNodesWalkLane = [])
    (hc : c ∈ laneChains ml) : c = [] ∨ 2 ≤ c.length := by
  unfold laneChains at hc
  simp only [List.mem_append, List.mem_cons, List.mem_singleton, List.not_mem_nil,
    or_false] at hc
  rcases hc with hc | hc | hc
  · exact Or.inr (hl c hc)
  · subst hc
    cases bike
    · exact Or.inl (by simpa using hb)
    · exact Or.inr (by simpa using hb)
  · subst hc
    cases walk
    · exact Or.inl (by simpa using hw)
    · exact Or.inr (by simpa using hw)

theorem ChainShape_head_iff (ml ml' : NetworkLinkMesoscopic) (hs : ChainShape ml ml')
    (h2 : ∀ c ∈ laneChains ml, c = [] ∨ 2 ≤ c.length) (x : Int) :
    ChainHead ml' x ↔ ChainHead ml x := by
  constructor
  · rintro ⟨c', hc', hx⟩
    obtain ⟨q, hq⟩ := List.mem_iff_getElem?.mp hc'
    have hlt : q < (laneChains ml).length := by
      rw [← hs.1]
      by_contra hc
      rw [List.getElem?_eq_none (by omega)] at hq
      cases hq
    obtain ⟨c'', g1, g2, g3⟩ := hs.2 q _ (List.getElem?_eq_getElem hlt)
    rw [hq] at g1
    cases g1
    have hmem : (laneChains ml)[q] ∈ laneChains ml := List.getElem_mem hlt
    rcases h2 _ hmem with e | e
    · rw [e] at g2
      have e' : c' = [] := List.length_eq_zero.mp (by simpa using g2)
      rw [e'] at hx
      cases hx
    · exact ⟨_, hmem, (g3 e).symm.trans hx⟩
  · rintro ⟨c, hc, hx⟩
    obtain ⟨q, hq⟩ := List.mem_iff_getElem?.mp hc
    obtain ⟨c', g1, g2, g3⟩ := hs.2 q c hq
    rcases h2 c hc with e | e
    · rw [e] at hx
      cases hx
    · exact ⟨c', List.getElem?_mem g1, (g3 e).trans hx⟩

theorem adjacentPairs_fst (ms : List Int) :
    (adjacentPairs ms).map (fun p => p.1) = ms.dropLast := by
  induction ms with
  | nil => rfl
  | cons a t ih =>
    cases t with
    | nil => rfl
    | cons b rest =>
      have e : adjacentPairs (a :: b :: rest) = (a, b) :: adjacentPairs (b :: rest) := rfl
      rw [e, List.map_cons, ih]
      rfl

theorem last_not_upstream (ms : List Int) (l : Int) (hnd : ms.Nodup)
    (hl : ms.getLast? = some l) : l ∉ (adjacentPairs ms).map (fun p => p.1) := by
  rw [adjacentPairs_fst]
  intro hmem
  have hne : ms ≠ [] := by
    intro e
    rw [e] at hl
    cases hl
  have e := List.dropLast_append_getLast hne
  rw [List.getLast?_eq_getLast _ hne, Option.some.injEq] at hl
  rw [hl] at e
  rw [← e] at hnd
  exact (List.nodup_append.mp hnd).2.2 hmem (List.mem_singleton.mpr rfl)

theorem ChainHead_in (ml : NetworkLinkMesoscopic) (x : Int) (h : ChainHead ml x) :
    x ∈ (laneChains ml).flatten := by
  obtain ⟨c, hc, hx⟩ := h
  exact mem_flatten_of_chain ml c x hc (head?_mem c x hx)

theorem ChainLast_in (ml : NetworkLinkMesoscopic) (x : Int) (h : ChainLast ml x) :
    x ∈ (laneChains ml).flatten := by
  obtain ⟨c, hc, hx⟩ := h
  exact mem_flatten_of_chain ml c x hc (getLast?_mem c x hx)

theorem PlainNode_of_flags (n n' : NetworkNodeMicroscopic) (h : FlagsSame n n')
    (hp : PlainNode n) : PlainNode n' :=
  ⟨h.1.trans hp.1, h.2.1.trans hp.2.1, h.2.2.trans hp.2.2⟩

theorem InChains_of_eq (s s' : MicroBuild) (ms : List Int) (h : s'.mesoLinks = s.mesoLinks)
    (x : Int) (hx : InChains s' ms x) : InChains s ms x := by
  obtain ⟨m, hm, ml, hml, hxx⟩ := hx
  exact ⟨m, hm, ml, h ▸ hml, hxx⟩

/-- The first node of a chain of a link with created nodes is not the last node
of a chain of the mesoscopic links `ms`. -/
theorem head_not_last (bike walk : Bool) (n0 : Int) (s : MicroBuild) (ms : List Int)
    (hsd : SlotsDistinct s.mesoLinks ms) (hcr : CellsReady bike walk n0 s ms)
    (m key : Int) (ml mlk : NetworkLinkMesoscopic) (hm : m ∈ ms) (hkey : key ∈ ms)
    (hml : mapGet? s.mesoLinks m = some ml) (hmlk : mapGet? s.mesoLinks key = some mlk)
    (x : Int) (hh : ChainHead ml x) (hl : ChainLast mlk x) : False := by
  obtain ⟨c1, hc1, hx1⟩ := hh
  obtain ⟨c2, hc2, hx2⟩ := hl
  obtain ⟨q1, hq1⟩ := List.mem_iff_getElem?.mp hc1
  obtain ⟨q2, hq2⟩ := List.mem_iff_getElem?.mp hc2
  obtain ⟨e1, e2⟩ := hsd m key ml mlk q1 q2 c1 c2 x hm hkey hml hmlk hq1 hq2
    (head?_mem _ _ hx1) (getLast?_mem _ _ hx2)
  subst e1 e2
  rw [hml] at hmlk
  cases hmlk
  rw [hq1] at hq2
  cases hq2
  obtain ⟨ml0, f1, f2, f3, f4, f5, -⟩ := hcr m hm
  rw [hml] at f1
  cases f1
  have hnd : c1.Nodup := (List.nodup_flatten.mp f5).1 c1 hc1
  rcases chain_two bike walk ml c1 f2 f3 f4 hc1 with e | e
  · rw [e] at hx1
    cases hx1
  · exact head_ne_last c1 x hnd e hx1 hx2

/-- The last node of a chain of a mesoscopic link of `ms` is the last node of
a chain of that link only. -/
theorem last_one_link (s : MicroBuild) (ms : List Int) (hsd : SlotsDistinct s.mesoLinks ms)
    (m key : Int) (ml mlk : NetworkLinkMesoscopic) (hm : m ∈ ms) (hkey : key ∈ ms)
    (hml : mapGet? s.mesoLinks m = some ml) (hmlk : mapGet? s.mesoLinks key = some mlk)
    (x : Int) (h1 : ChainLast ml x) (h2 : ChainLast mlk x) : m = key := by
  obtain ⟨c1, hc1, hx1⟩ := h1
  obtain ⟨c2, hc2, hx2⟩ := h2
  obtain ⟨q1, hq1⟩ := List.mem_iff_getElem?.mp hc1
  obtain ⟨q2, hq2⟩ := List.mem_iff_getElem?.mp hc2
  exact (hsd m key ml mlk q1 q2 c1 c2 x hm hkey hml hmlk hq1 hq2
    (getLast?_mem _ _ hx1) (getLast?_mem _ _ hx2)).1

/-- The marks after the body of the loop over the macroscopic links, for a
macroscopic link whose mesoscopic links are different and have no nodes when
the link is processed. -/
theorem processMacroLink_marks (P : GeoPrims) (macroNodes : GoMap NetworkNode) (sep : Bool)
    (s s' : MicroBuild) (M : NetworkLink) (first last : Int)
    (h : processMacroLink P macroNodes sep s M = .ok s')
    (hnd : M.mesolinks.Nodup) (hno : NoChains s.mesoLinks M.mesolinks)
    (hfirst : M.mesolinks.head? = some first) (hlast : M.mesolinks.getLast? = some last) :
    ∃ (src tgt : NetworkNode) (mlF mlL : NetworkLinkMesoscopic),
      mapGet? macroNodes M.sourceNodeID = some src
      ∧ mapGet? macroNodes M.targetNodeID = some tgt
      ∧ mapGet? s'.mesoLinks first = some mlF ∧ mapGet? s'.mesoLinks last = some mlL
      ∧ (∀ c ∈ mlF.microNodesPerLane, 2 ≤ c.length)
      ∧ (∀ c ∈ mlL.microNodesPerLane, 2 ≤ c.length)
      ∧ TargetsMarked s'.nodes s'.mesoLinks M.mesolinks mlF mlL src.zoneID tgt.zoneID
      ∧ (∀ x, InChains s' M.mesolinks x → x < s'.lastNodeID)
      ∧ s.lastNodeID ≤ s'.lastNodeID
      ∧ (∀ m ∈ M.mesolinks, (mapGet? s'.mesoLinks m).isSome) := by
  obtain ⟨ag, bike, walk, o, st1, h1, hrest⟩ := processMacroLink_steps P macroNodes sep s s' M h
  rcases hrest with ⟨hnil, -⟩ | ⟨st2, st3, h2, h3, h4⟩
  · rw [hnil] at hfirst
    cases hfirst
  have hfm : first ∈ M.mesolinks := head?_mem _ _ hfirst
  have hlm : last ∈ M.mesolinks := getLast?_mem _ _ hlast
  -- the creation of the nodes
  have hcr0 : CellsReady bike walk s.lastNodeID s [] :=
    fun _ hm => absurd hm (List.not_mem_nil _)
  obtain ⟨cr, hle1, -⟩ := foldlM_createMesoNodes_cells P bike walk o M.mesolinks [] s st1
    s.lastNodeID h1 (by simpa using hnd) (le_refl _) hcr0 hno
  rw [List.nil_append] at cr
  have hb0 : ChainsBuilt s [] :=
    ⟨fun _ _ _ _ _ _ _ _ _ hm => absurd hm (List.not_mem_nil _),
      fun _ hm => absurd hm (List.not_mem_nil _)⟩
  have hsd : SlotsDistinct st1.mesoLinks M.mesolinks := by
    have := foldlM_createMesoNodes_chains P bike walk o M.mesolinks [] s st1 h1
      (by simpa using hnd) hb0 hno
    rw [List.nil_append] at this
    exact this.1
  -- the marks
  obtain ⟨first', last', mlF, mlL, src, tgt, e1, e2, g1, g2, g3, g4, m1, m2, m3⟩ :=
    markTargets_spec macroNodes M bike walk st1 st2 h2
  rw [hfirst] at e1
  rw [hlast] at e2
  cases e1
  cases e2
  obtain ⟨mlF0, f1, f2, f3, f4, f5, f6⟩ := cr first hfm
  rw [g1] at f1
  cases f1
  obtain ⟨mlL0, l1, l2, l3, l4, l5, l6⟩ := cr last hlm
  rw [g2] at l1
  cases l1
  have hHU : ∀ x, (∃ c ∈ markedChains bike walk mlF, c.head? = some x) ↔ ChainHead mlF x :=
    fun x => markedChains_sel_iff List.head? rfl bike walk mlF x f3 f4
  have hHD : ∀ x, (∃ c ∈ markedChains bike walk mlL, c.getLast? = some x) ↔ ChainLast mlL x :=
    fun x => markedChains_sel_iff List.getLast? rfl bike walk mlL x l3 l4
  have hdisj : ∀ x key mlk, key ∈ M.mesolinks → mapGet? st1.mesoLinks key = some mlk →
      ChainHead mlF x → ChainLast mlk x → False :=
    fun x key mlk hkey hmlk hh hl =>
      head_not_last bike walk s.lastNodeID st1 M.mesolinks hsd cr first key mlF mlk hfm hkey
        g1 hmlk x hh hl
  have A2 : ∀ x, ChainHead mlF x → ∃ n, mapGet? st2.nodes x = some n
      ∧ n.isLinkUpstreamTargetNode = true ∧ n.zoneID = src.zoneID := by
    intro x hx
    obtain ⟨n, -, k2⟩ := (m3 x).2.1 ((hHU x).mpr hx)
      (fun hd => hdisj x last mlL hlm g2 hx ((hHD x).mp hd))
    exact ⟨_, k2, rfl, rfl⟩
  have B2 : ∀ x, ChainLast mlL x → ∃ n, mapGet? st2.nodes x = some n
      ∧ n.isLinkDownstreamTargetNode = true ∧ n.zoneID = tgt.zoneID := by
    intro x hx
    obtain ⟨n, k2⟩ := (m3 x).2.2 ((hHD x).mpr hx)
    exact ⟨_, k2, rfl, rfl⟩
  have C2 : ∀ x, InChains st1 M.mesolinks x → ¬ ChainHead mlF x → ¬ ChainLast mlL x →
      ∃ n, mapGet? st2.nodes x = some n ∧ PlainNode n := by
    rintro x ⟨m, hm, ml, hml, hx⟩ hnh hnl
    obtain ⟨ml0, c1, -, -, -, -, c6⟩ := cr m hm
    rw [hml] at c1
    cases c1
    obtain ⟨-, -, n, k1, k2⟩ := c6 x hx
    refine ⟨n, ?_, k2⟩
    rw [(m3 x).1 (fun hu => hnh ((hHU x).mp hu)) (fun hd => hnl ((hHD x).mp hd))]
    exact k1
  have D2 : ∀ x, InChains st1 M.mesolinks x → x < st1.lastNodeID := by
    rintro x ⟨m, hm, ml, hml, hx⟩
    obtain ⟨ml0, c1, -, -, -, -, c6⟩ := cr m hm
    rw [hml] at c1
    cases c1
    exact (c6 x hx).2.1
  -- the stitching
  have SF := foldlM_stitchPair_frame bike walk _ st2 st3 h3
    (adjacentPairs_fst_nodup M.mesolinks hnd) (adjacentPairs_ne M.mesolinks hnd)
  have SK := foldlM_stitchPair_keeps M.mesolinks bike walk st2 st3 h3
  have hU : ∀ key ∈ (adjacentPairs M.mesolinks).map (fun p => p.1), key ∈ M.mesolinks := by
    intro key hkey
    obtain ⟨p, hp, rfl⟩ := List.mem_map.mp hkey
    exact mem_adjacentPairs_left _ p.1 p.2 hp
  obtain ⟨mlF3, k1, k2⟩ := SK.2.1 first mlF (by rw [m1]; exact g1)
  have k3 : mapGet? st3.mesoLinks last = some mlL := by
    rw [SF.1 last (last_not_upstream M.mesolinks last hnd hlast), m1]
    exact g2
  have hhead : ∀ x, ChainHead mlF3 x ↔ ChainHead mlF x :=
    fun x => ChainShape_head_iff mlF mlF3 k2
      (fun c hc => chain_two bike walk mlF c f2 f3 f4 hc) x
  have A3 : ∀ x, ChainHead mlF3 x → ∃ n, mapGet? st3.nodes x = some n
      ∧ n.isLinkUpstreamTargetNode = true ∧ n.zoneID = src.zoneID := by
    intro x hx
    have hx0 := (hhead x).mp hx
    obtain ⟨n, a1, a2, a3⟩ := A2 x hx0
    refine ⟨n, ?_, a2, a3⟩
    rcases SF.2.2.2 x with e | ⟨key, hkey, ml, q, c, c1, c2, c3⟩
    · rw [e]
      exact a1
    · rw [m1] at c1
      exact absurd (hdisj x key ml (hU key hkey) c1 hx0 ⟨c, List.getElem?_mem c2, c3⟩) id
  have B3 : ∀ x, ChainLast mlL x → ∃ n, mapGet? st3.nodes x = some n
      ∧ n.isLinkDownstreamTargetNode = true ∧ n.zoneID = tgt.zoneID := by
    intro x hx
    obtain ⟨n, a1, a2, a3⟩ := B2 x hx
    refine ⟨n, ?_, a2, a3⟩
    rcases SF.2.2.2 x with e | ⟨key, hkey, ml, q, c, c1, c2, c3⟩
    · rw [e]
      exact a1
    · rw [m1] at c1
      have := last_one_link st1 M.mesolinks hsd last key mlL ml hlm (hU key hkey) g2 c1 x hx
        ⟨c, List.getElem?_mem c2, c3⟩
      exact absurd (this ▸ hkey) (last_not_upstream M.mesolinks last hnd hlast)
  have C3 : ∀ x, InChains st3 M.mesolinks x → ¬ ChainHead mlF3 x → ¬ ChainLast mlL x →
      ∀ n, mapGet? st3.nodes x = some n → PlainNode n := by
    intro x hx hnh hnl n hn
    have hx1 : InChains st1 M.mesolinks x :=
      InChains_of_eq st1 st2 _ m1 x (SK.2.2.1 x hx)
    obtain ⟨n2, a1, a2⟩ := C2 x hx1 (fun hh => hnh ((hhead x).mpr hh)) hnl
    rcases SK.2.2.2 x with e | e
    · rw [e, a1] at hn
      cases hn
      exact a2
    · rw [e] at hn
      cases hn
  have D3 : ∀ x, InChains st3 M.mesolinks x → x < st3.lastNodeID := by
    intro x hx
    rw [SK.1, m2]
    exact D2 x (InChains_of_eq st1 st2 _ m1 x (SK.2.2.1 x hx))
  have hF2 : ∀ c ∈ mlF3.microNodesPerLane, 2 ≤ c.length := by
    intro c hc
    obtain ⟨ml', q1, q2⟩ := SF.2.1 first mlF (by rw [m1]; exact g1)
    rw [k1] at q1
    cases q1
    obtain ⟨p, hp⟩ := List.mem_iff_getElem?.mp hc
    have hlt : p < mlF.microNodesPerLane.length := by
      rw [← q2.2.2.1]
      by_contra hcon
      rw [List.getElem?_eq_none (by omega)] at hp
      cases hp
    obtain ⟨lane', r1, r2, -⟩ := q2.2.2.2 p _ (List.getElem?_eq_getElem hlt)
    rw [hp] at r1
    cases r1
    rw [r2]
    exact f2 _ (List.getElem_mem hlt)
  -- the links
  obtain ⟨v1, v2, v3⟩ := foldlM_createMesoLinks_keeps ag bike walk M.mesolinks st3 s' h4
  refine ⟨src, tgt, mlF3, mlL, g3, g4, by rw [v1]; exact k1, by rw [v1]; exact k3, hF2, l2,
    ⟨?_, ?_, ?_⟩, ?_, ?_, ?_⟩
  · intro x hx
    obtain ⟨n, a1, a2, a3⟩ := A3 x hx
    obtain ⟨n', b1, b2⟩ := (v3 x).2 n a1
    exact ⟨n', b1, b2.1.trans a2, b2.2.2.trans a3⟩
  · intro x hx
    obtain ⟨n, a1, a2, a3⟩ := B3 x hx
    obtain ⟨n', b1, b2⟩ := (v3 x).2 n a1
    exact ⟨n', b1, b2.2.1.trans a2, b2.2.2.trans a3⟩
  · intro m hm ml hml x hx hnh hnl n' hn'
    rw [v1] at hml
    cases h3n : mapGet? st3.nodes x with
    | none =>
      rw [(v3 x).1 h3n] at hn'
      cases hn'
    | some n3 =>
      obtain ⟨n'', b1, b2⟩ := (v3 x).2 n3 h3n
      rw [hn'] at b1
      cases b1
      exact PlainNode_of_flags _ _ b2 (C3 x ⟨m, hm, ml, hml, hx⟩ hnh hnl n3 h3n)
  · intro x hx
    rw [v2]
    exact D3 x (InChains_of_eq st3 s' _ v1 x hx)
  · rw [v2, SK.1, m2]
    exact hle1
  · intro m hm
    obtain ⟨ml0, c1, -⟩ := cr m hm
    obtain ⟨ml', c2, -⟩ := SK.2.1 m ml0 (by rw [m1]; exact c1)
    rw [v1, c2]
    rfl

/-- The body of the loop over the macroscopic links keeps the nodes that are
below the node counter when it starts, for a macroscopic link whose mesoscopic
links are different and have no nodes yet. -/
theorem processMacroLink_old (P : GeoPrims) (macroNodes : GoMap NetworkNode) (sep : Bool)
    (s s' : MicroBuild) (M : NetworkLink) (n : Int)
    (h : processMacroLink P macroNodes sep s M = .ok s')
    (hnd : M.mesolinks.Nodup) (hno : NoChains s.mesoLinks M.mesolinks) :
    OldKept n s s' := by
  obtain ⟨ag, bike, walk, o, st1, h1, hrest⟩ := processMacroLink_steps P macroNodes sep s s' M h
  rcases hrest with ⟨hnil, rfl⟩ | ⟨st2, st3, h2, h3, h4⟩
  · rw [hnil] at h1
    simp only [List.foldlM_nil, pure, Except.pure] at h1
    cases h1
    exact OldKept_refl n s
  have hcr0 : CellsReady bike walk s.lastNodeID s [] :=
    fun _ hm => absurd hm (List.not_mem_nil _)
  obtain ⟨cr, hle1, hold1⟩ := foldlM_createMesoNodes_cells P bike walk o M.mesolinks [] s st1
    s.lastNodeID h1 (by simpa using hnd) (le_refl _) hcr0 hno
  rw [List.nil_append] at cr
  obtain ⟨first, last, mlF, mlL, src, tgt, e1, e2, g1, g2, g3, g4, m1, m2, m3⟩ :=
    markTargets_spec macroNodes M bike walk st1 st2 h2
  have hfm : first ∈ M.mesolinks := head?_mem _ _ e1
  have hlm : last ∈ M.mesolinks := getLast?_mem _ _ e2
  have hlow : ∀ m ∈ M.mesolinks, ∀ ml, mapGet? st1.mesoLinks m = some ml →
      ∀ x ∈ (laneChains ml).flatten, s.lastNodeID ≤ x := by
    intro m hm ml hml x hx
    obtain ⟨ml0, c1, -, -, -, -, c6⟩ := cr m hm
    rw [hml] at c1
    cases c1
    exact (c6 x hx).1
  obtain ⟨mlF0, f1, f2, f3, f4, f5, f6⟩ := cr first hfm
  rw [g1] at f1
  cases f1
  obtain ⟨mlL0, l1, l2, l3, l4, l5, l6⟩ := cr last hlm
  rw [g2] at l1
  cases l1
  have SF := foldlM_stitchPair_frame bike walk _ st2 st3 h3
    (adjacentPairs_fst_nodup M.mesolinks hnd) (adjacentPairs_ne M.mesolinks hnd)
  have SK := foldlM_stitchPair_keeps M.mesolinks bike walk st2 st3 h3
  have hU : ∀ key ∈ (adjacentPairs M.mesolinks).map (fun p => p.1), key ∈ M.mesolinks := by
    intro key hkey
    obtain ⟨p, hp, rfl⟩ := List.mem_map.mp hkey
    exact mem_adjacentPairs_left _ p.1 p.2 hp
  obtain ⟨v1, v2, v3⟩ := foldlM_createMesoLinks_keeps ag bike walk M.mesolinks st3 s' h4
  refine ⟨by rw [v2, SK.1, m2]; exact hle1, ?_⟩
  intro hn x hx
  have hx0 : x < s.lastNodeID := lt_of_lt_of_le hx hn
  have q1 : mapGet? st1.nodes x = mapGet? s.nodes x := hold1 x hx0
  have q2 : mapGet? st2.nodes x = mapGet? st1.nodes x := by
    refine (m3 x).1 ?_ ?_
    · intro hu
      have hh := (markedChains_sel_iff List.head? rfl bike walk mlF x f3 f4).mp hu
      have := hlow first hfm mlF g1 x (ChainHead_in mlF x hh)
      omega
    · intro hd
      have hh := (markedChains_sel_iff List.getLast? rfl bike walk mlL x l3 l4).mp hd
      have := hlow last hlm mlL g2 x (ChainLast_in mlL x hh)
      omega
  have q3 : mapGet? st3.nodes x = mapGet? st2.nodes x := by
    rcases SF.2.2.2 x with e | ⟨key, hkey, ml, q, c, c1, c2, c3⟩
    · exact e
    · rw [m1] at c1
      have := hlow key (hU key hkey) ml c1 x
        (ChainLast_in ml x ⟨c, List.getElem?_mem c2, c3⟩)
      omega
  have q : mapGet? st3.nodes x = mapGet? s.nodes x := q3.trans (q2.trans q1)
  rw [← q]
  exact v3 x

/-- The loop over macroscopic links whose mesoscopic links are all different
and have no nodes yet keeps the older nodes and changes the mesoscopic links of
these macroscopic links only. -/
theorem foldlM_processMacroLink_old (P : GeoPrims) (macroNodes : GoMap NetworkNode)
    (sep : Bool) (xs : List NetworkLink) (s s' : MicroBuild) (n : Int)
    (h : xs.foldlM (processMacroLink P macroNodes sep) s = .ok s')
    (hnd : (xs.map (fun M => M.mesolinks)).flatten.Nodup)
    (hno : ∀ M ∈ xs, NoChains s.mesoLinks M.mesolinks) :
    OldKept n s s' ∧ MesoFrame (xs.map (fun M => M.mesolinks)).flatten s s' := by
  induction xs generalizing s with
  | nil =>
    simp only [List.foldlM_nil, pure, Except.pure] at h
    cases h
    exact ⟨OldKept_refl n _, MesoFrame_refl _ _⟩
  | cons M rest ih =>
    rw [List.foldlM_cons] at h
    obtain ⟨s1, h1, h2⟩ := except_bind_ok _ _ _ h
    rw [List.map_cons, List.flatten_cons] at hnd ⊢
    obtain ⟨n1, n2, n3⟩ := List.nodup_append.mp hnd
    have o1 := processMacroLink_old P macroNodes sep s s1 M n h1 n1
      (hno M (List.mem_cons_self _ _))
    have f1 := processMacroLink_mesoFrame P macroNodes sep s s1 M h1
    have hno1 : ∀ M' ∈ rest, NoChains s1.mesoLinks M'.mesolinks := by
      intro M' hM' k hk ml hml
      have hkr : k ∈ (rest.map (fun M => M.mesolinks)).flatten :=
        List.mem_flatten.mpr ⟨M'.mesolinks, List.mem_map.mpr ⟨M', hM', rfl⟩, hk⟩
      have hkM : k ∉ M.mesolinks := fun hm => n3 hm hkr
      rw [f1 k hkM] at hml
      exact hno M' (List.mem_cons_of_mem _ hM') k hk ml hml
    obtain ⟨o2, f2⟩ := ih s1 h2 n2 hno1
    refine ⟨OldKept_trans n _ _ _ o1 o2, ?_⟩
    intro k hk
    rw [List.mem_append, not_or] at hk
    rw [f2 k hk.2, f1 k hk.1]

/-- The target marks stay when the nodes below `n` are kept and the mesoscopic
links of the macroscopic link stay, if the nodes of its chains are below `n`. -/
theorem TargetsMarked_kept (nodes nodes' : GoMap NetworkNodeMicroscopic)
    (tbl tbl' : GoMap NetworkLinkMesoscopic) (ms : List Int)
    (mlF mlL : NetworkLinkMesoscopic) (zs zt n : Int)
    (h : TargetsMarked nodes tbl ms mlF mlL zs zt)
    (hF : ∀ x, ChainHead mlF x → x < n) (hL : ∀ x, ChainLast mlL x → x < n)
    (hb : ∀ m ∈ ms, ∀ ml, mapGet? tbl m = some ml → ∀ x ∈ (laneChains ml).flatten, x < n)
    (hk : ∀ x, x < n → (mapGet? nodes x = none → mapGet? nodes' x = none)
      ∧ ∀ nd, mapGet? nodes x = some nd →
        ∃ nd', mapGet? nodes' x = some nd' ∧ FlagsSame nd nd')
    (ht : ∀ m ∈ ms, mapGet? tbl' m = mapGet? tbl m) :
    TargetsMarked nodes' tbl' ms mlF mlL zs zt := by
  obtain ⟨a, b, c⟩ := h
  refine ⟨?_, ?_, ?_⟩
  · intro x hx
    obtain ⟨nd, g1, g2, g3⟩ := a x hx
    obtain ⟨nd', k1, k2⟩ := (hk x (hF x hx)).2 nd g1
    exact ⟨nd', k1, k2.1.trans g2, k2.2.2.trans g3⟩
  · intro x hx
    obtain ⟨nd, g1, g2, g3⟩ := b x hx
    obtain ⟨nd', k1, k2⟩ := (hk x (hL x hx)).2 nd g1
    exact ⟨nd', k1, k2.2.1.trans g2, k2.2.2.trans g3⟩
  · intro m hm ml hml x hx hnh hnl nd' hnd'
    rw [ht m hm] at hml
    have hxn := hb m hm ml hml x hx
    cases h0 : mapGet? nodes x with
    | none =>
      rw [(hk x hxn).1 h0] at hnd'
      cases hnd'
    | some nd =>
      obtain ⟨nd'', k1, k2⟩ := (hk x hxn).2 nd h0
      rw [hnd'] at k1
      cases k1
      exact PlainNode_of_flags _ _ k2 (c m hm ml hml x hx hnh hnl nd h0)

/-! ## Lemmas on the use-count stage -/

theorem SameKeys_refl (m : GoMap Node) : SameKeys m m := fun _ => Iff.rfl

theorem SameKeys_trans {a b c : GoMap Node} (h1 : SameKeys a b) (h2 : SameKeys b c) :
    SameKeys a c := fun k => (h1 k).trans (h2 k)

/-- One step of the use-count loop fails exactly on an absent node and keeps
the keys. -/
theorem countStep_spec (len : Nat) (nodes : GoMap Node) (iw : Nat × Int) :
    (countStep len nodes iw = none ↔ mapGet? nodes iw.2 = none)
    ∧ ∀ m', countStep len nodes iw = some m' → SameKeys nodes m' := by
  unfold countStep
  cases hn : mapGet? nodes iw.2 with
  | none => simp
  | some node =>
    refine ⟨by split_ifs <;> simp, ?_⟩
    intro m' hm k
    have hk : ∀ v : Node, (mapGet? (mapSet nodes iw.2 v) k = none ↔ mapGet? nodes k = none) := by
      intro v
      rw [mapGet?_mapSet]
      by_cases e : iw.2 = k
      · subst e
        simp [hn]
      · simp [e]
    simp only at hm
    split_ifs at hm <;> cases hm <;> exact (hk _).symm

/-- A run of steps fails exactly when one of its nodes is absent from the
table it starts with. -/
theorem countSteps_spec (len : Nat) (xs : List (Nat × Int)) (nodes : GoMap Node) :
    (xs.foldlM (countStep len) nodes = none ↔ ∃ iw ∈ xs, mapGet? nodes iw.2 = none)
    ∧ ∀ m', xs.foldlM (countStep len) nodes = some m' → SameKeys nodes m' := by
  induction xs generalizing nodes with
  | nil =>
    refine ⟨by simp, ?_⟩
    intro m' hm
    simp only [List.foldlM_nil] at hm
    cases hm
    exact SameKeys_refl _
  | cons x xs ih =>
    rw [List.foldlM_cons]
    cases hx : countStep len nodes x with
    | none =>
      have := (countStep_spec len nodes x).1.mp hx
      refine ⟨?_, by intro m' hm; cases hm⟩
      simp only [bind, Option.bind, true_iff]
      exact ⟨x, List.mem_cons_self _ _, this⟩
    | some m1 =>
      have hk := (countStep_spec len nodes x).2 m1 hx
      have hx0 : mapGet? nodes x.2 ≠ none := by
        intro h0
        rw [(countStep_spec len nodes x).1.mpr h0] at hx
        cases hx
      simp only [bind, Option.bind]
      refine ⟨?_, fun m' hm => SameKeys_trans hk ((ih m1).2 m' hm)⟩
      rw [(ih m1).1]
      constructor
      · rintro ⟨iw, hiw, h0⟩
        exact ⟨iw, List.mem_cons_of_mem _ hiw, (hk iw.2).mpr h0⟩
      · rintro ⟨iw, hiw, h0⟩
        rcases List.mem_cons.mp hiw with e | hiw
        · subst e
          exact absurd h0 hx0
        · exact ⟨iw, hiw, (hk iw.2).mp h0⟩

/-- The loop over one way fails exactly when one of its nodes is absent. -/
theorem countWay_spec (nodes : GoMap Node) (w : List Int) :
    (countWay nodes w = none ↔ ∃ id ∈ w, mapGet? nodes id = none)
    ∧ ∀ m', countWay nodes w = some m' → SameKeys nodes m' := by
  unfold countWay
  refine ⟨?_, (countSteps_spec _ _ _).2⟩
  rw [(countSteps_spec _ _ _).1]
  constructor
  · rintro ⟨iw, hiw, h0⟩
    exact ⟨iw.2, by
      have := List.mem_map_of_mem Prod.snd hiw
      rwa [List.enum_map_snd] at this, h0⟩
  · rintro ⟨id, hid, h0⟩
    rw [← List.enum_map_snd w, List.mem_map] at hid
    obtain ⟨iw, hiw, rfl⟩ := hid
    exact ⟨iw, hiw, h0⟩

/-- The use-count stage fails exactly when a node of some way is absent from
the node table; otherwise it returns a table with the same keys. -/
theorem countUseCases_spec (ways : List (List Int)) (nodes : GoMap Node) :
    (countUseCases nodes ways = none ↔ ∃ w ∈ ways, ∃ id ∈ w, mapGet? nodes id = none)
    ∧ ∀ m', countUseCases nodes ways = some m' → SameKeys nodes m' := by
  unfold countUseCases
  induction ways generalizing nodes with
  | nil =>
    refine ⟨by simp, ?_⟩
    intro m' hm
    simp only [List.foldlM_nil] at hm
    cases hm
    exact SameKeys_refl _
  | cons w ws ih =>
    rw [List.foldlM_cons]
    cases hw : countWay nodes w with
    | none =>
      obtain ⟨id, hid, h0⟩ := (countWay_spec nodes w).1.mp hw
      refine ⟨?_, by intro m' hm; cases hm⟩
      simp only [bind, Option.bind, true_iff]
      exact ⟨w, List.mem_cons_self _ _, id, hid, h0⟩
    | some m1 =>
      have hk := (countWay_spec nodes w).2 m1 hw
      have hw0 : ¬ ∃ id ∈ w, mapGet? nodes id = none := by
        intro h0
        rw [(countWay_spec nodes w).1.mpr h0] at hw
        cases hw
      simp only [bind, Option.bind]
      refine ⟨?_, fun m' hm => SameKeys_trans hk ((ih m1).2 m' hm)⟩
      rw [(ih m1).1]
      constructor
      · rintro ⟨v, hv, id, hid, h0⟩
        exact ⟨v, List.mem_cons_of_mem _ hv, id, hid, (hk id).mpr h0⟩
      · rintro ⟨v, hv, id, hid, h0⟩
        rcases List.mem_cons.mp hv with e | hv
        · subst e
          exact absurd ⟨id, hid, h0⟩ hw0
        · exact ⟨v, hv, id, hid, (hk id).mp h0⟩

/-! ## Lemmas on the way preparation of `readOSM` -/

theorem SameWay_trans {a b c : WayWithNodes} (h1 : SameWay a b) (h2 : SameWay b c) :
    SameWay a c := by
  obtain ⟨a1, a2, a3, a4, a5⟩ := h1
  obtain ⟨b1, b2, b3, b4, b5⟩ := h2
  exact ⟨b1.trans a1, b2.trans a2, b3.trans a3, b4.trans a4, b5.trans a5⟩

theorem flattenNames_same (way : WayWithNodes) : SameWay way (flattenNames way) :=
  ⟨rfl, rfl, rfl, rfl, rfl⟩

theorem flattenLanes_same (way : WayWithNodes) : SameWay way (flattenLanes way) := by
  unfold flattenLanes
  simp only
  split_ifs
  · split <;> exact ⟨rfl, rfl, rfl, rfl, rfl⟩
  · exact ⟨rfl, rfl, rfl, rfl, rfl⟩
  · exact ⟨rfl, rfl, rfl, rfl, rfl⟩

theorem flattenLanesForward_same (way : WayWithNodes) :
    SameWay way (flattenLanesForward way) := by
  unfold flattenLanesForward
  simp only
  split_ifs
  · split <;> exact ⟨rfl, rfl, rfl, rfl, rfl⟩
  · exact ⟨rfl, rfl, rfl, rfl, rfl⟩

theorem flattenLanesBackward_same (way : WayWithNodes) :
    SameWay way (flattenLanesBackward way) := by
  unfold flattenLanesBackward
  simp only
  split_ifs
  · split <;> exact ⟨rfl, rfl, rfl, rfl, rfl⟩
  · exact ⟨rfl, rfl, rfl, rfl, rfl⟩

theorem flattenMaxSpeed_same (ParseFloat : String → Option ℚ) (way : WayWithNodes) :
    SameWay way (flattenMaxSpeed ParseFloat way) := by
  unfold flattenMaxSpeed
  simp only
  split_ifs <;> exact ⟨rfl, rfl, rfl, rfl, rfl⟩

theorem flattenRest_same (way : WayWithNodes) : SameWay way (flattenRest way) :=
  ⟨rfl, rfl, rfl, rfl, rfl⟩

/-- `flattenTags` leaves the direction flags, the node list and the tags as
they are. -/
theorem flattenTags_flags (ParseFloat : String → Option ℚ) (way : WayWithNodes) :
    (flattenTags ParseFloat way).Oneway = way.Oneway
    ∧ (flattenTags ParseFloat way).OnewayDefault = way.OnewayDefault
    ∧ (flattenTags ParseFloat way).IsReversed = way.IsReversed
    ∧ (flattenTags ParseFloat way).Nodes = way.Nodes
    ∧ (flattenTags ParseFloat way).TagMap = way.TagMap :=
  (SameWay_trans (SameWay_trans (SameWay_trans (SameWay_trans (SameWay_trans
    (flattenNames_same way) (flattenLanes_same _)) (flattenLanesForward_same _))
    (flattenLanesBackward_same _)) (flattenMaxSpeed_same ParseFloat _)) (flattenRest_same _))

/-- The flags of the prepared way are those of `classifyOneway`. -/
theorem prepareWay_flags (onewayReversible junctionTypes : List String)
    (ParseFloat : String → Option ℚ) (way : OsmWay) :
    ((prepareWay onewayReversible junctionTypes ParseFloat way).Oneway,
      (prepareWay onewayReversible junctionTypes ParseFloat way).OnewayDefault,
      (prepareWay onewayReversible junctionTypes ParseFloat way).IsReversed)
      = classifyOneway onewayReversible junctionTypes way.Tags := by
  unfold prepareWay
  simp only [(flattenTags_flags ParseFloat _).1, (flattenTags_flags ParseFloat _).2.1,
    (flattenTags_flags ParseFloat _).2.2.1]

/-- A key that no tag has is looked up as the empty string. -/
theorem Find_absent (tags : List (String × String)) (key : String)
    (h : ∀ v, (key, v) ∉ tags) : Find tags key = "" := by
  unfold Find
  cases hf : tags.find? (fun t => t.1 == key) with
  | none => rfl
  | some t =>
    exfalso
    have h1 := List.find?_some hf
    have h2 := List.mem_of_find?_eq_some hf
    simp only [beq_iff_eq] at h1
    exact h t.2 (by rw [← h1]; exact h2)

/-! ## Lemmas on the numeric tags -/

theorem flattenNames_fields (way : WayWithNodes) :
    (flattenNames way).lanes = way.lanes ∧ (flattenNames way).lanesForward = way.lanesForward
    ∧ (flattenNames way).lanesBackward = way.lanesBackward
    ∧ (flattenNames way).maxSpeed = way.maxSpeed := ⟨rfl, rfl, rfl, rfl⟩

theorem flattenRest_fields (way : WayWithNodes) :
    (flattenRest way).lanes = way.lanes ∧ (flattenRest way).lanesForward = way.lanesForward
    ∧ (flattenRest way).lanesBackward = way.lanesBackward
    ∧ (flattenRest way).maxSpeed = way.maxSpeed := ⟨rfl, rfl, rfl, rfl⟩

theorem flattenLanes_fields (way : WayWithNodes) :
    (flattenLanes way).lanesForward = way.lanesForward
    ∧ (flattenLanes way).lanesBackward = way.lanesBackward
    ∧ (flattenLanes way).maxSpeed = way.maxSpeed := by
  unfold flattenLanes
  simp only
  split_ifs
  · split <;> exact ⟨rfl, rfl, rfl⟩
  · exact ⟨rfl, rfl, rfl⟩
  · exact ⟨rfl, rfl, rfl⟩

theorem flattenLanesForward_fields (way : WayWithNodes) :
    (flattenLanesForward way).lanes = way.lanes
    ∧ (flattenLanesForward way).lanesBackward = way.lanesBackward
    ∧ (flattenLanesForward way).maxSpeed = way.maxSpeed := by
  unfold flattenLanesForward
  simp only
  split_ifs
  · split <;> exact ⟨rfl, rfl, rfl⟩
  · exact ⟨rfl, rfl, rfl⟩

theorem flattenLanesBackward_fields (way : WayWithNodes) :
    (flattenLanesBackward way).lanes = way.lanes
    ∧ (flattenLanesBackward way).lanesForward = way.lanesForward
    ∧ (flattenLanesBackward way).maxSpeed = way.maxSpeed := by
  unfold flattenLanesBackward
  simp only
  split_ifs
  · split <;> exact ⟨rfl, rfl, rfl⟩
  · exact ⟨rfl, rfl, rfl⟩

theorem flattenMaxSpeed_fields (ParseFloat : String → Option ℚ) (way : WayWithNodes) :
    (flattenMaxSpeed ParseFloat way).lanes = way.lanes
    ∧ (flattenMaxSpeed ParseFloat way).lanesForward = way.lanesForward
    ∧ (flattenMaxSpeed ParseFloat way).lanesBackward = way.lanesBackward := by
  unfold flattenMaxSpeed
  simp only
  split_ifs <;> exact ⟨rfl, rfl, rfl⟩

/-- The field `lanes` after the block of the tag `lanes`. -/
theorem flattenLanes_lanes (way : WayWithNodes) :
    (flattenLanes way).lanes
      = if Find way.TagMap "lanes" ≠ "" ∧ lanesRegExpFindString (Find way.TagMap "lanes") ≠ ""
        then (Atoi (Find way.TagMap "lanes")).getD (-1) else way.lanes := by
  unfold flattenLanes
  simp only
  by_cases h1 : Find way.TagMap "lanes" = ""
  · simp [h1]
  · by_cases h2 : lanesRegExpFindString (Find way.TagMap "lanes") = ""
    · simp [h1, h2]
    · simp only [ne_eq, h1, not_false_eq_true, h2, if_true, and_self]
      split <;> rename_i h <;> simp [h]

/-- The field `lanesForward` after the block of the tag `lanes:forward`. -/
theorem flattenLanesForward_lanesForward (way : WayWithNodes) :
    (flattenLanesForward way).lanesForward
      = if Find way.TagMap "lanes:forward" ≠ ""
        then (Atoi (Find way.TagMap "lanes:forward")).getD (-1) else way.lanesForward := by
  unfold flattenLanesForward
  simp only
  by_cases h1 : Find way.TagMap "lanes:forward" = ""
  · simp [h1]
  · simp only [ne_eq, h1, not_false_eq_true, if_true]
    split <;> rename_i h <;> simp [h]

/-- The field `lanesBackward` after the block of the tag `lanes:backward`. -/
theorem flattenLanesBackward_lanesBackward (way : WayWithNodes) :
    (flattenLanesBackward way).lanesBackward
      = if Find way.TagMap "lanes:backward" ≠ ""
        then (Atoi (Find way.TagMap "lanes:backward")).getD (-1) else way.lanesBackward := by
  unfold flattenLanesBackward
  simp only
  by_cases h1 : Find way.TagMap "lanes:backward" = ""
  · simp [h1]
  · simp only [ne_eq, h1, not_false_eq_true, if_true]
    split <;> rename_i h <;> simp [h]

/-- A text that starts with a digit has a number at its head. -/
theorem matchNumber_digit (c : Char) (cs : List Char) (h : c.isDigit = true) :
    ∃ m, matchNumber (c :: cs) = some m ∧ m.1 ≠ [] := by
  unfold matchNumber
  have hd : (c :: cs).takeWhile Char.isDigit = c :: cs.takeWhile Char.isDigit := by
    simp [List.takeWhile_cons, h]
  simp only [hd]
  rw [if_neg (by simp)]
  split
  · exact ⟨_, rfl, by simp⟩
  · exact ⟨_, rfl, by simp⟩

/-- A text with a digit has a match of the number pattern. -/
theorem findNumber_ne_nil (cs : List Char) (h : ∃ c ∈ cs, c.isDigit = true) :
    findNumber cs ≠ [] := by
  induction cs with
  | nil =>
    obtain ⟨c, hc, _⟩ := h
    cases hc
  | cons c cs ih =>
    unfold findNumber
    by_cases hc : c.isDigit = true
    · obtain ⟨m, hm, hne⟩ := matchNumber_digit c cs hc
      simp only [hm]
      exact hne
    · have hnone : matchNumber (c :: cs) = none := by
        unfold matchNumber
        simp [List.takeWhile_cons, hc]
      simp only [hnone]
      apply ih
      obtain ⟨d, hd, hdig⟩ := h
      rcases List.mem_cons.mp hd with e | hd
      · subst e
        exact absurd hdig hc
      · exact ⟨d, hd, hdig⟩

/-- Whatever `Atoi` accepts has a digit. -/
theorem Atoi_some_digit (s : String) (n : Int) (h : Atoi s = some n) :
    ∃ c ∈ s.toList, c.isDigit = true := by
  unfold Atoi at h
  simp only at h
  split at h
  · cases h
  · split at h
    · rename_i hne hall
      have hsub : ∀ c ∈ (match s.toList with
          | '+' :: t => (false, t)
          | '-' :: t => (true, t)
          | t => (false, t)).2, c ∈ s.toList := by
        intro c hc
        split at hc
        · rename_i t e
          rw [e]; exact List.mem_cons_of_mem _ hc
        · rename_i t e
          rw [e]; exact List.mem_cons_of_mem _ hc
        · exact hc
      obtain ⟨c, hc⟩ := List.exists_mem_of_ne_nil _ hne
      exact ⟨c, hsub c hc, (List.all_eq_true.mp hall) c hc⟩
    · cases h

/-- On a plain decimal integer `Atoi` returns its number. -/
theorem Atoi_plain (s : String) (n : Int) (h : PlainInteger s n) : Atoi s = some n := by
  obtain ⟨hne, hall, hn, hmax⟩ := h
  unfold Atoi
  have hsig : (match s.toList with
      | '+' :: t => (false, t)
      | '-' :: t => (true, t)
      | t => (false, t)) = (false, s.toList) := by
    split
    · rename_i t e
      rw [e] at hall
      simp at hall
    · rename_i t e
      rw [e] at hall
      simp at hall
    · rfl
  simp only [hsig, hne, if_false, hall, if_true, Bool.false_eq_true]
  have h0 : (0 : Int) ≤ (decimalValue s.toList : Int) := Int.natCast_nonneg _
  have e : (List.foldl (fun a c => 10 * a + (c.toNat - 48)) 0 s.toList : Nat)
      = decimalValue s.toList := rfl
  have hlow : -(2 : Int) ^ 63 ≤ n := by rw [hn]; omega
  rw [e, ← hn, if_pos ⟨hlow, hmax⟩]

/-- On a text without a digit `Atoi` returns its error. -/
theorem Atoi_noDigit (s : String) (h : NoDigit s) : Atoi s = none := by
  cases ha : Atoi s with
  | none => rfl
  | some n =>
    obtain ⟨c, hc, hd⟩ := Atoi_some_digit s n ha
    rw [h c hc] at hd
    cases hd

/-- The tags that the blocks of `flattenTags` read are those of the way. -/
theorem flatten_tags_kept (way : WayWithNodes) :
    (flattenNames way).TagMap = way.TagMap
    ∧ (flattenLanes (flattenNames way)).TagMap = way.TagMap
    ∧ (flattenLanesForward (flattenLanes (flattenNames way))).TagMap = way.TagMap
    ∧ (flattenLanesBackward (flattenLanesForward (flattenLanes (flattenNames way)))).TagMap
        = way.TagMap :=
  ⟨rfl, (flattenLanes_same _).2.2.2.2,
    (SameWay_trans (flattenLanes_same _) (flattenLanesForward_same _)).2.2.2.2,
    (SameWay_trans (SameWay_trans (flattenLanes_same _) (flattenLanesForward_same _))
      (flattenLanesBackward_same _)).2.2.2.2⟩

/-- The field `lanes` of a flattened way that started with `lanes = -1`. -/
theorem flattenTags_lanes (ParseFloat : String → Option ℚ) (way : WayWithNodes)
    (h : way.lanes = -1) :
    (flattenTags ParseFloat way).lanes = (Atoi (Find way.TagMap "lanes")).getD (-1) := by
  unfold flattenTags
  rw [(flattenRest_fields _).1, (flattenMaxSpeed_fields _ _).1,
    (flattenLanesBackward_fields _).1, (flattenLanesForward_fields _).1, flattenLanes_lanes,
    (flatten_tags_kept way).1, (flattenNames_fields way).1, h]
  split_ifs with hc
  · rfl
  · cases ha : Atoi (Find way.TagMap "lanes") with
    | none => rfl
    | some n =>
      exfalso
      apply hc
      obtain ⟨c, hcm, hd⟩ := Atoi_some_digit _ n ha
      refine ⟨?_, ?_⟩
      · intro e0
        rw [e0] at hcm
        cases hcm
      · intro e0
        have := findNumber_ne_nil _ ⟨c, hcm, hd⟩
        apply this
        unfold lanesRegExpFindString at e0
        exact congrArg String.data e0

/-- The field `lanesForward` of a flattened way that started with -1. -/
theorem flattenTags_lanesForward (ParseFloat : String → Option ℚ) (way : WayWithNodes)
    (h : way.lanesForward = -1) :
    (flattenTags ParseFloat way).lanesForward
      = (Atoi (Find way.TagMap "lanes:forward")).getD (-1) := by
  unfold flattenTags
  rw [(flattenRest_fields _).2.1, (flattenMaxSpeed_fields _ _).2.1,
    (flattenLanesBackward_fields _).2.1, flattenLanesForward_lanesForward,
    (flatten_tags_kept way).2.1, (flattenLanes_fields _).1, (flattenNames_fields way).2.1, h]
  split_ifs with hc
  · rfl
  · have e0 : Find way.TagMap "lanes:forward" = "" := by simpa using hc
    rw [e0]
    rfl

/-- The field `lanesBackward` of a flattened way that started with -1. -/
theorem flattenTags_lanesBackward (ParseFloat : String → Option ℚ) (way : WayWithNodes)
    (h : way.lanesBackward = -1) :
    (flattenTags ParseFloat way).lanesBackward
      = (Atoi (Find way.TagMap "lanes:backward")).getD (-1) := by
  unfold flattenTags
  rw [(flattenRest_fields _).2.2.1, (flattenMaxSpeed_fields _ _).2.2,
    flattenLanesBackward_lanesBackward, (flatten_tags_kept way).2.2.1,
    (flattenLanesForward_fields _).2.1, (flattenLanes_fields _).2.1,
    (flattenNames_fields way).2.2.1, h]
  split_ifs with hc
  · rfl
  · have e0 : Find way.TagMap "lanes:backward" = "" := by simpa using hc
    rw [e0]
    rfl

/-- A match of a number with a unit ends with the unit. -/
theorem findWithUnit_unit (unit cs : List Char) :
    findWithUnit unit cs = [] ∨ ∃ m, findWithUnit unit cs = m ++ unit := by
  induction cs with
  | nil => exact Or.inl rfl
  | cons c cs ih =>
    unfold findWithUnit
    split
    · split_ifs
      · exact Or.inr ⟨_, rfl⟩
      · exact ih
    · exact ih

/-- With a `ParseFloat` that takes no text with a blank, the block of the tag
`maxspeed` leaves -1 in a field that was -1. -/
theorem flattenMaxSpeed_minus_one (ParseFloat : String → Option ℚ)
    (hPF : ∀ s : String, ' ' ∈ s.toList → ParseFloat s = none) (way : WayWithNodes)
    (h : way.maxSpeed = -1) : (flattenMaxSpeed ParseFloat way).maxSpeed = -1 := by
  have hk : ∀ (unit cs : List Char), ' ' ∈ unit → findWithUnit unit cs ≠ [] →
      ParseFloat (String.mk (findWithUnit unit cs)) = none := by
    intro unit cs hu hne
    apply hPF
    rcases findWithUnit_unit unit cs with e | ⟨m, e⟩
    · exact absurd e hne
    · show ' ' ∈ findWithUnit unit cs
      rw [e]
      exact List.mem_append_right _ hu
  have hs : ∀ l : List Char, String.mk l ≠ "" → l ≠ [] := by
    intro l hl e
    apply hl
    rw [e]
  unfold flattenMaxSpeed
  simp only
  split_ifs with h1 h2 h3
  · unfold kmhRegExpFindString at h2
    have e := hk _ _ (by decide) (hs _ h2)
    simp only [kmhRegExpFindString, e]
  · unfold mphRegExpFindString at h3
    have e := hk _ _ (by decide) (hs _ h3)
    simp only [mphRegExpFindString, e]
  · rfl
  · exact h

/-- With such a `ParseFloat` a flattened way that started with `maxSpeed = -1`
has `maxSpeed = -1`. -/
theorem flattenTags_maxSpeed (ParseFloat : String → Option ℚ)
    (hPF : ∀ s : String, ' ' ∈ s.toList → ParseFloat s = none) (way : WayWithNodes)
    (h : way.maxSpeed = -1) : (flattenTags ParseFloat way).maxSpeed = -1 := by
  unfold flattenTags
  rw [(flattenRest_fields _).2.2.2]
  apply flattenMaxSpeed_minus_one ParseFloat hPF
  rw [(flattenLanesBackward_fields _).2.2, (flattenLanesForward_fields _).2.2,
    (flattenLanes_fields _).2.2, (flattenNames_fields way).2.2.2, h]

/-- The stand-in `exParseFloat` takes no text with a blank. -/
theorem exParseFloat_blank (s : String) (h : ' ' ∈ s.toList) : exParseFloat s = none := by
  unfold exParseFloat
  rw [if_neg]
  rintro ⟨_, hall⟩
  have := (List.all_eq_true.mp hall) ' ' h
  exact absurd this (by decide)


/-! ## Lemmas on use counts and slices -/

theorem CountedFrom_refl (m : GoMap Node) : CountedFrom m m :=
  fun _ => ⟨fun h => h, fun n h => ⟨n, h, le_refl _⟩⟩

theorem CountedFrom_trans {a b c : GoMap Node} (h1 : CountedFrom a b) (h2 : CountedFrom b c) :
    CountedFrom a c := by
  intro k
  refine ⟨fun h => (h2 k).1 ((h1 k).1 h), ?_⟩
  intro n hn
  obtain ⟨n1, hn1, hle1⟩ := (h1 k).2 n hn
  obtain ⟨n2, hn2, hle2⟩ := (h2 k).2 n1 hn1
  exact ⟨n2, hn2, le_trans hle1 hle2⟩

theorem CountedFrom_nonneg {a b : GoMap Node} (h : CountedFrom a b) (ha : CountsNonNeg a) :
    CountsNonNeg b := by
  intro k n' hn'
  cases hk : mapGet? a k with
  | none =>
    rw [(h k).1 hk] at hn'
    cases hn'
  | some n =>
    obtain ⟨n2, hn2, hle⟩ := (h k).2 n hk
    rw [hn'] at hn2
    cases hn2
    exact le_trans (ha k n hk) hle

/-- One step of the use-count loop: counts grow, and the first and the last
node of the way gain 2. -/
theorem countStep_counted (len : Nat) (m m' : GoMap Node) (iw : Nat × Int)
    (h : countStep len m iw = some m') :
    CountedFrom m m'
    ∧ (iw.1 = 0 ∨ (iw.1 : Int) = (len : Int) - 1 →
        ∃ n n', mapGet? m iw.2 = some n ∧ mapGet? m' iw.2 = some n'
          ∧ n.useCount + 2 ≤ n'.useCount) := by
  unfold countStep at h
  cases hn : mapGet? m iw.2 with
  | none =>
    rw [hn] at h
    cases h
  | some node =>
    rw [hn] at h
    simp only at h
    have hgrow : ∀ c : Int, 0 ≤ c →
        CountedFrom m (mapSet m iw.2 { node with useCount := node.useCount + c }) := by
      intro c hc k
      rw [mapGet?_mapSet]
      by_cases e : iw.2 = k
      · subst e
        rw [if_pos rfl, hn]
        refine ⟨(fun h0 => by cases h0), ?_⟩
        intro n h1
        cases h1
        exact ⟨_, rfl, by simp only; omega⟩
      · simp only [e, if_false]
        exact ⟨fun h0 => h0, fun n h1 => ⟨n, h1, le_refl _⟩⟩
    split_ifs at h with hc
    · cases h
      refine ⟨hgrow 2 (by norm_num), fun _ => ⟨node, _, rfl, mapGet?_mapSet_same _ _ _, ?_⟩⟩
      simp
    · cases h
      exact ⟨hgrow 1 (by norm_num), fun hh => absurd hh hc⟩

/-- A run of steps: counts grow, and every first or last node met gains 2. -/
theorem countSteps_counted (len : Nat) (xs : List (Nat × Int)) (m m' : GoMap Node)
    (h : xs.foldlM (countStep len) m = some m') :
    CountedFrom m m'
    ∧ ∀ iw ∈ xs, (iw.1 = 0 ∨ (iw.1 : Int) = (len : Int) - 1) →
        ∃ n n', mapGet? m iw.2 = some n ∧ mapGet? m' iw.2 = some n'
          ∧ n.useCount + 2 ≤ n'.useCount := by
  induction xs generalizing m with
  | nil =>
    simp only [List.foldlM_nil] at h
    cases h
    exact ⟨CountedFrom_refl _, fun iw hiw => by cases hiw⟩
  | cons x xs ih =>
    rw [List.foldlM_cons] at h
    cases hx : countStep len m x with
    | none =>
      rw [hx] at h
      cases h
    | some m1 =>
      rw [hx] at h
      simp only [bind, Option.bind] at h
      obtain ⟨hc1, hs1⟩ := countStep_counted len m m1 x hx
      obtain ⟨hc2, hs2⟩ := ih m1 h
      refine ⟨CountedFrom_trans hc1 hc2, ?_⟩
      intro iw hiw hends
      rcases List.mem_cons.mp hiw with e | hiw
      · subst e
        obtain ⟨n, n1, hn, hn1, hle⟩ := hs1 hends
        obtain ⟨n2, hn2, hle2⟩ := (hc2 iw.2).2 n1 hn1
        exact ⟨n, n2, hn, hn2, by omega⟩
      · obtain ⟨n1, n2, hn1, hn2, hle⟩ := hs2 iw hiw hends
        cases hk : mapGet? m iw.2 with
        | none =>
          rw [(hc1 iw.2).1 hk] at hn1
          cases hn1
        | some n =>
          obtain ⟨n1', hn1', hle1⟩ := (hc1 iw.2).2 n hk
          rw [hn1] at hn1'
          cases hn1'
          exact ⟨n, n2, rfl, hn2, by omega⟩

/-- After the loop over a way that starts with `a` and ends with `b`, both are
split nodes. -/
theorem countWay_ends (m m' : GoMap Node) (a b : Int) (mid : List Int)
    (hm : CountsNonNeg m) (h : countWay m (a :: (mid ++ [b])) = some m') :
    CountedFrom m m' ∧ SplitIn m' a ∧ SplitIn m' b := by
  unfold countWay at h
  obtain ⟨hc, hs⟩ := countSteps_counted _ _ m m' h
  refine ⟨hc, ?_, ?_⟩
  · obtain ⟨n, n', hn, hn', hle⟩ := hs (0, a) (by simp [List.enum_cons]) (Or.inl rfl)
    exact ⟨n', hn', by have := hm a n hn; omega⟩
  · have hmem : (mid.length + 1, b) ∈ (a :: (mid ++ [b])).enum := by
      rw [List.mem_iff_getElem?]
      refine ⟨mid.length + 1, ?_⟩
      rw [List.enum_eq_zip_range, List.getElem?_zip_eq_some]
      constructor
      · simp
      · simp
    obtain ⟨n, n', hn, hn', hle⟩ := hs (mid.length + 1, b) hmem
      (Or.inr (by simp))
    exact ⟨n', hn', by have := hm b n hn; omega⟩

/-- The loop over a way makes the counts grow. -/
theorem countWay_counted (m m' : GoMap Node) (w : List Int) (h : countWay m w = some m') :
    CountedFrom m m' := (countSteps_counted _ _ m m' h).1

/-- A split node stays a split node. -/
theorem SplitIn_mono {m m' : GoMap Node} (h : CountedFrom m m') (id : Int)
    (hs : SplitIn m id) : SplitIn m' id := by
  obtain ⟨n, hn, h2⟩ := hs
  obtain ⟨n', hn', hle⟩ := (h id).2 n hn
  exact ⟨n', hn', le_trans h2 hle⟩

/-- The whole stage makes the counts grow. -/
theorem countUseCases_counted (ways : List (List Int)) (m m' : GoMap Node)
    (h : countUseCases m ways = some m') : CountedFrom m m' := by
  unfold countUseCases at h
  induction ways generalizing m with
  | nil =>
    simp only [List.foldlM_nil] at h
    cases h
    exact CountedFrom_refl _
  | cons w ws ih =>
    rw [List.foldlM_cons] at h
    cases hw : countWay m w with
    | none =>
      rw [hw] at h
      cases h
    | some m1 =>
      rw [hw] at h
      simp only [bind, Option.bind] at h
      exact CountedFrom_trans (countWay_counted m m1 w hw) (ih m1 h)

/-- After the use-count stage the first and the last node of every way with at
least two nodes are split nodes. -/
theorem countUseCases_ends (ways : List (List Int)) (m m' : GoMap Node)
    (hm : CountsNonNeg m) (h : countUseCases m ways = some m')
    (a b : Int) (mid : List Int) (hw : (a :: (mid ++ [b])) ∈ ways) :
    SplitIn m' a ∧ SplitIn m' b := by
  induction ways generalizing m with
  | nil => cases hw
  | cons w ws ih =>
    have h' := h
    unfold countUseCases at h
    rw [List.foldlM_cons] at h
    cases hw1 : countWay m w with
    | none =>
      rw [hw1] at h
      cases h
    | some m1 =>
      rw [hw1] at h
      simp only [bind, Option.bind] at h
      have hc1 := countWay_counted m m1 w hw1
      rcases List.mem_cons.mp hw with e | hw
      · subst e
        obtain ⟨_, ha, hb⟩ := countWay_ends m m1 a b mid hm hw1
        have hc2 := countUseCases_counted ws m1 m' h
        exact ⟨SplitIn_mono hc2 a ha, SplitIn_mono hc2 b hb⟩
      · exact ih m1 (CountedFrom_nonneg hc1 hm) h hw

/-- The test `node.useCount > 1` of the slicing loop holds exactly for the
split nodes of the table. -/
theorem split_test (m : GoMap Node) (id : Int) :
    ((mapGet? m id).getD Node.zero).useCount > 1 ↔ SplitIn m id := by
  unfold SplitIn
  cases h : mapGet? m id with
  | none => simp [Node.zero]
  | some n =>
    simp only [Option.getD_some, Option.some.injEq, exists_eq_left']
    omega

theorem LeadsFrom_append (F : List Edge) (a b : Int) (e : Edge) (h : LeadsFrom F a b)
    (he : e.SourceNodeID = b) : LeadsFrom (F ++ [e]) a e.TargetNodeID := by
  induction F generalizing a with
  | nil =>
    simp only [LeadsFrom] at h
    simp only [List.nil_append, LeadsFrom, and_true]
    rw [he, h]
  | cons x xs ih =>
    simp only [LeadsFrom] at h
    simp only [List.cons_append, LeadsFrom]
    exact ⟨h.1, ih _ h.2⟩

/-- What `LeadsFrom` says by positions. -/
theorem LeadsFrom_positions (F : List Edge) (a b : Int) (h : LeadsFrom F a b) :
    (∀ e, F[0]? = some e → e.SourceNodeID = a)
    ∧ (∀ (i : Nat) (e f : Edge), F[i]? = some e → F[i + 1]? = some f →
        e.TargetNodeID = f.SourceNodeID)
    ∧ (∀ e, F.getLast? = some e → e.TargetNodeID = b) := by
  induction F generalizing a with
  | nil =>
    refine ⟨?_, ?_, ?_⟩
    · intro e he; simp at he
    · intro i e f he; simp at he
    · intro e he; simp at he
  | cons x xs ih =>
    simp only [LeadsFrom] at h
    obtain ⟨h1, h2, h3⟩ := ih _ h.2
    refine ⟨?_, ?_, ?_⟩
    · intro e he
      simp only [List.getElem?_cons_zero, Option.some.injEq] at he
      rw [← he]
      exact h.1
    · intro i e f he hf
      cases i with
      | zero =>
        simp only [List.getElem?_cons_zero, Option.some.injEq] at he
        simp only [zero_add, List.getElem?_cons_succ] at hf
        rw [← he]
        exact (h1 f hf).symm
      | succ j =>
        simp only [List.getElem?_cons_succ] at he hf
        exact h2 j e f he hf
    · intro e he
      cases xs with
      | nil =>
        simp only [List.getLast?_singleton, Option.some.injEq] at he
        simp only [LeadsFrom] at h
        rw [← he]
        exact h.2
      | cons y ys =>
        rw [List.getLast?_cons_cons] at he
        exact h3 e he

theorem emittedEdges_append (way : Way) (F : List Edge) (e : Edge) :
    emittedEdges way (F ++ [e])
      = emittedEdges way F ++ (if way.Oneway then [e] else [e, swappedEdge e]) := by
  unfold emittedEdges
  by_cases h : way.Oneway = true <;> simp [h]

/-- A step of the slicing loop after the first node keeps the invariant; at a
split node it emits a forward edge that ends there. -/
theorem sliceStep_inv (gsl : List GeoPoint → ℚ) (m : GoMap Node) (way : Way)
    (base : List Edge) (first : Int) (st : SliceState) (iw : Nat × Int) (hi : iw.1 ≠ 0)
    (h : SliceInv m way base first st) :
    SliceInv m way base first (sliceStep gsl (mapGet? m) way st iw)
    ∧ (SplitIn m iw.2 →
        ∃ F : List Edge, F ≠ []
          ∧ (sliceStep gsl (mapGet? m) way st iw).edges = base ++ emittedEdges way F
          ∧ LeadsFrom F first iw.2
          ∧ ∀ e ∈ F, SplitIn m e.SourceNodeID ∧ SplitIn m e.TargetNodeID) := by
  obtain ⟨F, hE, hL, hS, hsrc⟩ := h
  unfold sliceStep
  simp only [hi, if_false]
  by_cases hs : ((mapGet? m iw.2).getD Node.zero).useCount > 1
  · have hsp : SplitIn m iw.2 := (split_test m iw.2).mp hs
    simp only [hs, if_true]
    have key : ∀ (cost : ℚ) (geometry : List GeoPoint),
        LeadsFrom (F ++ [forwardEdge (st.totalEdgesNum + 1) way st.source iw.2 cost geometry])
          first iw.2
        ∧ (∀ e ∈ F ++ [forwardEdge (st.totalEdgesNum + 1) way st.source iw.2 cost geometry],
            SplitIn m e.SourceNodeID ∧ SplitIn m e.TargetNodeID) := by
      intro cost geometry
      refine ⟨LeadsFrom_append F first st.source _ hL rfl, ?_⟩
      intro e he
      rcases List.mem_append.mp he with he | he
      · exact hS e he
      · simp only [List.mem_singleton] at he
        subst he
        exact ⟨hsrc, hsp⟩
    have hrev : ∀ (cost : ℚ) (geometry : List GeoPoint),
        reversedEdge (st.totalEdgesNum + 2) way st.source iw.2 cost geometry
          = swappedEdge (forwardEdge (st.totalEdgesNum + 1) way st.source iw.2 cost geometry) := by
      intro cost geometry
      simp only [reversedEdge, swappedEdge, forwardEdge, reverseLine, copyLine, Edge.mk.injEq,
        and_true, true_and]
      ring
    generalize st.geometry ++ [(⟨((mapGet? m iw.2).getD Node.zero).Lon,
      ((mapGet? m iw.2).getD Node.zero).Lat⟩ : GeoPoint)] = geometry
    generalize gsl geometry = cost
    have hem := emittedEdges_append way F
      (forwardEdge (st.totalEdgesNum + 1) way st.source iw.2 cost geometry)
    by_cases ho : way.Oneway = true
    · simp only [ho, Bool.not_true, Bool.false_eq_true, if_false]
      simp only [ho, if_true] at hem
      have hE2 : st.edges ++ [forwardEdge (st.totalEdgesNum + 1) way st.source iw.2 cost geometry]
          = base ++ emittedEdges way
              (F ++ [forwardEdge (st.totalEdgesNum + 1) way st.source iw.2 cost geometry]) := by
        simp only [hem, hE, List.append_assoc]
      exact ⟨⟨F ++ [forwardEdge (st.totalEdgesNum + 1) way st.source iw.2 cost geometry],
          hE2, (key cost geometry).1, (key cost geometry).2, hsp⟩,
        fun _ => ⟨F ++ [forwardEdge (st.totalEdgesNum + 1) way st.source iw.2 cost geometry],
          by simp, hE2, (key cost geometry).1, (key cost geometry).2⟩⟩
    · have ho' : way.Oneway = false := by simpa using ho
      simp only [ho', Bool.not_false, if_true]
      simp only [ho', Bool.false_eq_true, if_false] at hem
      have hE2 : st.edges ++ [forwardEdge (st.totalEdgesNum + 1) way st.source iw.2 cost geometry,
            reversedEdge (st.totalEdgesNum + 2) way st.source iw.2 cost geometry]
          = base ++ emittedEdges way
              (F ++ [forwardEdge (st.totalEdgesNum + 1) way st.source iw.2 cost geometry]) := by
        simp only [hem, hE, List.append_assoc, hrev]
      exact ⟨⟨F ++ [forwardEdge (st.totalEdgesNum + 1) way st.source iw.2 cost geometry],
          hE2, (key cost geometry).1, (key cost geometry).2, hsp⟩,
        fun _ => ⟨F ++ [forwardEdge (st.totalEdgesNum + 1) way st.source iw.2 cost geometry],
          by simp, hE2, (key cost geometry).1, (key cost geometry).2⟩⟩
  · simp only [hs, if_false]
    refine ⟨⟨F, hE, hL, hS, hsrc⟩, fun hsp => absurd ((split_test m iw.2).mpr hsp) hs⟩

/-- A list with at least two entries has a first and a last one. -/
theorem two_ends {α : Type} (l : List α) (h : 2 ≤ l.length) :
    ∃ a mid b, l = a :: (mid ++ [b]) := by
  cases l with
  | nil => simp at h
  | cons a t =>
    have ht : t ≠ [] := by
      intro e
      rw [e] at h
      simp at h
    exact ⟨a, t.dropLast, t.getLast ht, by rw [List.dropLast_append_getLast ht]⟩

/-- The edges that the slicing loop emits for a way whose first and last nodes
are split nodes. -/
theorem sliceWay_chain (gsl : List GeoPoint → ℚ) (m : GoMap Node) (way : Way)
    (acc : List Edge × Int) (a b : Int) (mid : List Int) (hw : way.Nodes = a :: (mid ++ [b]))
    (ha : SplitIn m a) (hb : SplitIn m b) :
    ∃ F : List Edge, F ≠ []
      ∧ (sliceWay gsl (mapGet? m) acc way).1 = acc.1 ++ emittedEdges way F
      ∧ LeadsFrom F a b
      ∧ ∀ e ∈ F, SplitIn m e.SourceNodeID ∧ SplitIn m e.TargetNodeID := by
  unfold sliceWay
  simp only [hw, List.enum_cons, List.foldl_cons, List.enumFrom_append, List.foldl_append,
    List.enumFrom_cons, List.enumFrom_nil, List.foldl_nil]
  have h1 : SliceInv m way acc.1 a
      (sliceStep gsl (mapGet? m) way
        { edges := acc.1, totalEdgesNum := acc.2, source := 0, geometry := [] } (0, a)) := by
    refine ⟨[], ?_, ?_, ?_, ?_⟩
    · simp [sliceStep, emittedEdges]
    · simp [sliceStep, LeadsFrom]
    · intro e he; cases he
    · simpa [sliceStep] using ha
  have h2 := foldl_inv (SliceInv m way acc.1 a) (sliceStep gsl (mapGet? m) way)
    (List.enumFrom 1 mid) _ h1
    (fun st iw hiw hs => (sliceStep_inv gsl m way acc.1 a st iw
      (by have := List.le_fst_of_mem_enumFrom hiw; omega) hs).1)
  exact (sliceStep_inv gsl m way acc.1 a _ (1 + mid.length, b) (by simp) h2).2 hb

/-! ## Lemmas on the relations scan -/

theorem mem_putIfAbsent {κ V : Type} [DecidableEq κ] (m : List (κ × V)) (k : κ) (v : V)
    (x : κ × V) :
    x ∈ putIfAbsent m k v ↔ x ∈ m ∨ (x = (k, v) ∧ ∀ y ∈ m, y.1 ≠ k) := by
  unfold putIfAbsent
  by_cases h : m.any (fun kv => decide (kv.1 = k)) = true
  · rw [if_pos h]
    constructor
    · exact fun hx => Or.inl hx
    · rintro (hx | ⟨_, habs⟩)
      · exact hx
      · exfalso
        obtain ⟨y, hy, hk⟩ := List.any_eq_true.mp h
        exact habs y hy (by simpa using hk)
  · rw [if_neg h]
    have habs : ∀ y ∈ m, y.1 ≠ k := by
      intro y hy hk
      apply h
      exact List.any_eq_true.mpr ⟨y, hy, by simpa using hk⟩
    simp only [List.mem_append, List.mem_singleton]
    constructor
    · rintro (hx | hx)
      · exact Or.inl hx
      · exact Or.inr ⟨hx, habs⟩
    · rintro (hx | ⟨hx, _⟩)
      · exact Or.inl hx
      · exact Or.inr hx

theorem nodup_putIfAbsent {κ V : Type} [DecidableEq κ] (m : List (κ × V)) (k : κ) (v : V)
    (h : (m.map Prod.fst).Nodup) : ((putIfAbsent m k v).map Prod.fst).Nodup := by
  unfold putIfAbsent
  by_cases hk : m.any (fun kv => decide (kv.1 = k)) = true
  · rw [if_pos hk]
    exact h
  · rw [if_neg hk]
    rw [List.map_append, List.nodup_append]
    refine ⟨h, by simp, ?_⟩
    intro a ha hb
    simp only [List.map_cons, List.map_nil, List.mem_singleton] at hb
    subst hb
    obtain ⟨y, hy, rfl⟩ := List.mem_map.mp ha
    apply hk
    exact List.any_eq_true.mpr ⟨y, hy, by simp⟩

theorem keys_modifyKey {κ V : Type} [DecidableEq κ] (m : List (κ × V)) (k : κ) (f : V → V) :
    (modifyKey m k f).map Prod.fst = m.map Prod.fst := by
  unfold modifyKey
  rw [List.map_map]
  apply List.map_congr_left
  intro y _
  simp only [Function.comp]
  split_ifs <;> rfl

/-- The entries of a map after `m[k]` was made if missing (as `d`) and then
changed by `g`. -/
theorem mem_upsert {κ V : Type} [DecidableEq κ] (m : List (κ × V)) (k : κ) (d : V)
    (g : V → V) (k' : κ) (a : V) :
    (k', a) ∈ modifyKey (putIfAbsent m k d) k g
      ↔ (k' ≠ k ∧ (k', a) ∈ m)
        ∨ (k' = k ∧ ((∃ b, (k, b) ∈ m ∧ a = g b) ∨ ((∀ y ∈ m, y.1 ≠ k) ∧ a = g d))) := by
  unfold modifyKey
  simp only [List.mem_map, mem_putIfAbsent]
  constructor
  · rintro ⟨y, hy, hya⟩
    by_cases hk : y.1 = k
    · rw [if_pos hk] at hya
      have e1 : k' = k := by rw [← hk]; exact (congrArg Prod.fst hya).symm
      have e2 : a = g y.2 := (congrArg Prod.snd hya).symm
      refine Or.inr ⟨e1, ?_⟩
      rcases hy with hy | ⟨hy, habs⟩
      · exact Or.inl ⟨y.2, by rw [← hk]; exact hy, e2⟩
      · refine Or.inr ⟨habs, ?_⟩
        rw [e2, hy]
    · rw [if_neg hk] at hya
      subst hya
      rcases hy with hy | ⟨hy, _⟩
      · exact Or.inl ⟨hk, hy⟩
      · exact absurd (congrArg Prod.fst hy) hk
  · rintro (⟨hne, hm⟩ | ⟨rfl, ⟨b, hb, rfl⟩ | ⟨habs, rfl⟩⟩)
    · exact ⟨(k', a), Or.inl hm, by rw [if_neg hne]⟩
    · exact ⟨(k', b), Or.inl hb, by rw [if_pos rfl]⟩
    · exact ⟨(k', d), Or.inr ⟨rfl, habs⟩, by rw [if_pos rfl]⟩

/-- In a map without double keys a key has one value. -/
theorem nodup_keys_unique {κ V : Type} (m : List (κ × V)) (h : (m.map Prod.fst).Nodup)
    (k : κ) (a b : V) (ha : (k, a) ∈ m) (hb : (k, b) ∈ m) : a = b := by
  induction m with
  | nil => cases ha
  | cons x xs ih =>
    rw [List.map_cons, List.nodup_cons] at h
    rcases List.mem_cons.mp ha with ea | ha
    · rcases List.mem_cons.mp hb with eb | hb
      · rw [← eb] at ea
        exact (congrArg Prod.snd ea)
      · exfalso
        apply h.1
        rw [← ea]
        have hmem := List.mem_map_of_mem Prod.fst hb
        exact hmem
    · rcases List.mem_cons.mp hb with eb | hb
      · exfalso
        apply h.1
        rw [← eb]
        have hmem := List.mem_map_of_mem Prod.fst ha
        exact hmem
      · exact ih h.2 ha hb

/-- The value under the key `k` after `m[k]` was made if missing and changed:
`g` of the old value, or of the default when the key was missing. -/
theorem mem_upsert_same {κ V : Type} [DecidableEq κ] (m : List (κ × V)) (k : κ) (d : V)
    (g : V → V) (a : V) :
    (k, a) ∈ modifyKey (putIfAbsent m k d) k g
      ↔ ∃ b, ((k, b) ∈ m ∨ ((∀ y ∈ m, y.1 ≠ k) ∧ b = d)) ∧ a = g b := by
  rw [mem_upsert]
  constructor
  · rintro (⟨hne, _⟩ | ⟨_, ⟨b, hb, rfl⟩ | ⟨habs, rfl⟩⟩)
    · exact absurd rfl hne
    · exact ⟨b, Or.inl hb, rfl⟩
    · exact ⟨d, Or.inr ⟨habs, rfl⟩, rfl⟩
  · rintro ⟨b, hb | ⟨habs, rfl⟩, rfl⟩
    · exact Or.inr ⟨rfl, Or.inl ⟨b, hb, rfl⟩⟩
    · exact Or.inr ⟨rfl, Or.inr ⟨habs, rfl⟩⟩

theorem mem_upsert_other {κ V : Type} [DecidableEq κ] (m : List (κ × V)) (k : κ) (d : V)
    (g : V → V) (k' : κ) (a : V) (hne : k' ≠ k) :
    (k', a) ∈ modifyKey (putIfAbsent m k d) k g ↔ (k', a) ∈ m := by
  rw [mem_upsert]
  constructor
  · rintro (⟨_, h⟩ | ⟨e, _⟩)
    · exact h
    · exact absurd e hne
  · exact fun h => Or.inl ⟨hne, h⟩

/-- The entries of the table after `insertRestriction`: the old ones, and the
new one when its key was free. -/
theorem entry_insertRestriction (T : RestrictionTable) (hT : WellKeyed T) (tag : String)
    (f t v : restrictionComponent) (tag' : String) (f' t' v' : restrictionComponent) :
    EntryIn (insertRestriction T tag f t v) tag' f' t' v'
      ↔ EntryIn T tag' f' t' v' ∨ (tag' = tag ∧ f' = f ∧ t' = t ∧ v' = v ∧ ¬ KeyIn T tag f t) := by
  unfold insertRestriction
  constructor
  · rintro ⟨k, vv, hk, hvv, hv⟩
    by_cases htag : tag' = tag
    · subst htag
      rw [mem_upsert_same] at hk
      obtain ⟨b, hb, rfl⟩ := hk
      by_cases hf : f' = f
      · subst hf
        rw [mem_upsert_same] at hvv
        obtain ⟨c, hc, rfl⟩ := hvv
        rw [mem_putIfAbsent] at hv
        rcases hv with hv | ⟨hv, habs⟩
        · left
          rcases hb with hb | ⟨_, rfl⟩
          · rcases hc with hc | ⟨_, rfl⟩
            · exact ⟨b, c, hb, hc, hv⟩
            · cases hv
          · rcases hc with hc | ⟨_, rfl⟩
            · cases hc
            · cases hv
        · right
          have e1 : t' = t := congrArg Prod.fst hv
          have e2 : v' = v := congrArg Prod.snd hv
          refine ⟨rfl, rfl, e1, e2, ?_⟩
          rintro ⟨v2, k2, vv2, h1, h2, h3⟩
          rcases hb with hb | ⟨hbabs, rfl⟩
          · have ek : k2 = b := nodup_keys_unique T hT.1 tag' k2 b h1 hb
            subst ek
            rcases hc with hc | ⟨hcabs, rfl⟩
            · have ev : vv2 = c :=
                nodup_keys_unique k2 (hT.2 (tag', k2) hb).1 f' vv2 c h2 hc
              subst ev
              exact habs (t, v2) h3 rfl
            · exact hcabs (f', vv2) h2 rfl
          · exact hbabs (tag', k2) h1 rfl
      · rw [mem_upsert_other _ _ _ _ _ _ hf] at hvv
        left
        rcases hb with hb | ⟨_, rfl⟩
        · exact ⟨b, vv, hb, hvv, hv⟩
        · cases hvv
    · rw [mem_upsert_other _ _ _ _ _ _ htag] at hk
      exact Or.inl ⟨k, vv, hk, hvv, hv⟩
  · rintro (⟨k, vv, hk, hvv, hv⟩ | ⟨rfl, rfl, rfl, rfl, hnew⟩)
    · by_cases htag : tag' = tag
      · subst htag
        by_cases hf : f' = f
        · subst hf
          refine ⟨_, _, (mem_upsert_same _ _ _ _ _).mpr ⟨k, Or.inl hk, rfl⟩,
            (mem_upsert_same _ _ _ _ _).mpr ⟨vv, Or.inl hvv, rfl⟩, ?_⟩
          exact (mem_putIfAbsent _ _ _ _).mpr (Or.inl hv)
        · refine ⟨_, vv, (mem_upsert_same _ _ _ _ _).mpr ⟨k, Or.inl hk, rfl⟩,
            (mem_upsert_other _ _ _ _ _ _ hf).mpr hvv, hv⟩
      · exact ⟨k, vv, (mem_upsert_other _ _ _ _ _ _ htag).mpr hk, hvv, hv⟩
    · have hb : ∃ b, ((tag', b) ∈ T ∨ ((∀ y ∈ T, y.1 ≠ tag') ∧ b = [])) := by
        by_cases h : ∃ b, (tag', b) ∈ T
        · obtain ⟨b, hb⟩ := h
          exact ⟨b, Or.inl hb⟩
        · refine ⟨[], Or.inr ⟨?_, rfl⟩⟩
          intro y hy e
          exact h ⟨y.2, by rw [← e]; exact hy⟩
      obtain ⟨b, hb⟩ := hb
      have hc : ∃ c, ((f', c) ∈ b ∨ ((∀ y ∈ b, y.1 ≠ f') ∧ c = [])) := by
        by_cases h : ∃ c, (f', c) ∈ b
        · obtain ⟨c, hc⟩ := h
          exact ⟨c, Or.inl hc⟩
        · refine ⟨[], Or.inr ⟨?_, rfl⟩⟩
          intro y hy e
          exact h ⟨y.2, by rw [← e]; exact hy⟩
      obtain ⟨c, hc⟩ := hc
      refine ⟨_, _, (mem_upsert_same _ _ _ _ _).mpr ⟨b, hb, rfl⟩,
        (mem_upsert_same _ _ _ _ _).mpr ⟨c, hc, rfl⟩, ?_⟩
      rw [mem_putIfAbsent]
      right
      refine ⟨rfl, ?_⟩
      intro y hy e
      apply hnew
      rcases hb with hb | ⟨_, rfl⟩
      · rcases hc with hc | ⟨_, rfl⟩
        · exact ⟨y.2, b, c, hb, hc, by rw [← e]; exact hy⟩
        · cases hy
      · rcases hc with hc | ⟨_, rfl⟩
        · cases hc
        · cases hy

/-- `insertRestriction` keeps the table a map of maps of maps. -/
theorem wellKeyed_insertRestriction (T : RestrictionTable) (hT : WellKeyed T) (tag : String)
    (f t v : restrictionComponent) : WellKeyed (insertRestriction T tag f t v) := by
  unfold insertRestriction
  refine ⟨?_, ?_⟩
  · rw [keys_modifyKey]
    exact nodup_putIfAbsent T tag [] hT.1
  · rintro ⟨tag', k⟩ hp
    by_cases htag : tag' = tag
    · subst htag
      rw [mem_upsert_same] at hp
      obtain ⟨b, hb, rfl⟩ := hp
      have hbk : (b.map Prod.fst).Nodup ∧ ∀ q ∈ b, (q.2.map Prod.fst).Nodup := by
        rcases hb with hb | ⟨_, rfl⟩
        · exact hT.2 (tag', b) hb
        · exact ⟨List.nodup_nil, fun q hq => by cases hq⟩
      refine ⟨?_, ?_⟩
      · show ((modifyKey (putIfAbsent b f []) f
            (fun v_1 => putIfAbsent v_1 t v)).map Prod.fst).Nodup
        rw [keys_modifyKey]
        exact nodup_putIfAbsent b f [] hbk.1
      · rintro ⟨f', vv⟩ hq
        have hq' : (f', vv) ∈ modifyKey (putIfAbsent b f []) f
            (fun v_1 => putIfAbsent v_1 t v) := hq
        by_cases hf : f' = f
        · subst hf
          rw [mem_upsert_same] at hq'
          obtain ⟨c, hc, rfl⟩ := hq'
          apply nodup_putIfAbsent
          rcases hc with hc | ⟨_, rfl⟩
          · exact hbk.2 (f', c) hc
          · exact List.nodup_nil
        · rw [mem_upsert_other _ _ _ _ _ _ hf] at hq'
          exact hbk.2 (f', vv) hq'
    · rw [mem_upsert_other _ _ _ _ _ _ htag] at hp
      exact hT.2 (tag', k) hp

/-- The `no_*` loop deletes `e` exactly when the table has an entry that
deletes it. -/
theorem any_dropNoTag_iff (W : List Int) (T : RestrictionTable) (e : ExpandedEdge) :
    T.any (fun ik => dropNoTag W ik e) = true
      ↔ ∃ tag f t v, EntryIn T tag f t v ∧ isNoTag tag = true ∧ f.Typ = "way" ∧ f.ID ∈ W
          ∧ dropNoTo W f.ID (t, v) e = true := by
  simp only [List.any_eq_true, dropNoTag, dropNoFrom, Bool.and_eq_true, beq_iff_eq,
    List.contains_eq_any_beq, EntryIn]
  constructor
  · rintro ⟨⟨tag, k⟩, hk, htag, ⟨f, vv⟩, hvv, ⟨hf, ⟨w, hw, hwe⟩⟩, ⟨t, v⟩, hv, hd⟩
    exact ⟨tag, f, t, v, ⟨k, vv, hk, hvv, hv⟩, htag, hf, (show f.ID ∈ W from (show f.ID = w from hwe) ▸ hw), hd⟩
  · rintro ⟨tag, f, t, v, ⟨k, vv, hk, hvv, hv⟩, htag, hf, hw, hd⟩
    exact ⟨(tag, k), hk, htag, (f, vv), hvv, ⟨hf, ⟨f.ID, hw, rfl⟩⟩, (t, v), hv, hd⟩

/-- The `only_*` loop deletes `e` exactly when the table has an entry that
deletes it. -/
theorem any_dropOnlyTag_iff (W : List Int) (T : RestrictionTable) (e : ExpandedEdge) :
    T.any (fun ik => dropOnlyTag W ik e) = true
      ↔ ∃ tag f t v, EntryIn T tag f t v ∧ isOnlyTag tag = true ∧ f.Typ = "way" ∧ f.ID ∈ W
          ∧ dropOnlyTo W f.ID (t, v) e = true := by
  simp only [List.any_eq_true, dropOnlyTag, dropOnlyFrom, Bool.and_eq_true, beq_iff_eq,
    List.contains_eq_any_beq, EntryIn]
  constructor
  · rintro ⟨⟨tag, k⟩, hk, htag, ⟨f, vv⟩, hvv, ⟨hf, ⟨w, hw, hwe⟩⟩, ⟨t, v⟩, hv, hd⟩
    exact ⟨tag, f, t, v, ⟨k, vv, hk, hvv, hv⟩, htag, hf, (show f.ID ∈ W from (show f.ID = w from hwe) ▸ hw), hd⟩
  · rintro ⟨tag, f, t, v, ⟨k, vv, hk, hvv, hv⟩, htag, hf, hw, hd⟩
    exact ⟨(tag, k), hk, htag, (f, vv), hvv, ⟨hf, ⟨f.ID, hw, rfl⟩⟩, (t, v), hv, hd⟩

/-- An entry with a member of the wrong type deletes nothing. -/
theorem dead_entry_drops_nothing (W : List Int) (f t v : restrictionComponent)
    (e : ExpandedEdge) (h : f.Typ ≠ "way" ∨ t.Typ ≠ "way" ∨ v.Typ ≠ "node") :
    ¬ (f.Typ = "way" ∧ f.ID ∈ W ∧ dropNoTo W f.ID (t, v) e = true)
    ∧ ¬ (f.Typ = "way" ∧ f.ID ∈ W ∧ dropOnlyTo W f.ID (t, v) e = true) := by
  rcases h with h | h | h
  · exact ⟨fun hh => h hh.1, fun hh => h hh.1⟩
  · constructor <;> rintro ⟨_, _, hd⟩ <;> simp [dropNoTo, dropOnlyTo, h] at hd
  · constructor <;> rintro ⟨_, _, hd⟩ <;> simp [dropNoTo, dropOnlyTo, h] at hd

/-- Two tables that differ at most in one entry with a member of the wrong
type give the same list. -/
theorem applyRestrictions_dead (A B : RestrictionTable) (W : List Int)
    (es : List ExpandedEdge) (tag : String) (f t v : restrictionComponent) (c : Prop)
    (hdead : f.Typ ≠ "way" ∨ t.Typ ≠ "way" ∨ v.Typ ≠ "node")
    (h : ∀ tag' f' t' v', EntryIn A tag' f' t' v'
      ↔ EntryIn B tag' f' t' v' ∨ (tag' = tag ∧ f' = f ∧ t' = t ∧ v' = v ∧ c)) :
    applyRestrictions A A W es = applyRestrictions B B W es := by
  rw [applyRestrictions_eq_filter, applyRestrictions_eq_filter]
  congr 1
  funext e
  have h1 : A.any (fun ik => dropNoTag W ik e) = B.any (fun ik => dropNoTag W ik e) := by
    rw [Bool.eq_iff_iff, any_dropNoTag_iff, any_dropNoTag_iff]
    constructor
    · rintro ⟨tag', f', t', v', hE, h1, h2, h3, h4⟩
      rcases (h tag' f' t' v').mp hE with hB | ⟨rfl, rfl, rfl, rfl, _⟩
      · exact ⟨tag', f', t', v', hB, h1, h2, h3, h4⟩
      · exact absurd ⟨h2, h3, h4⟩ (dead_entry_drops_nothing W f' t' v' e hdead).1
    · rintro ⟨tag', f', t', v', hE, h1, h2, h3, h4⟩
      exact ⟨tag', f', t', v', (h tag' f' t' v').mpr (Or.inl hE), h1, h2, h3, h4⟩
  have h2 : A.any (fun ik => dropOnlyTag W ik e) = B.any (fun ik => dropOnlyTag W ik e) := by
    rw [Bool.eq_iff_iff, any_dropOnlyTag_iff, any_dropOnlyTag_iff]
    constructor
    · rintro ⟨tag', f', t', v', hE, h1, h2, h3, h4⟩
      rcases (h tag' f' t' v').mp hE with hB | ⟨rfl, rfl, rfl, rfl, _⟩
      · exact ⟨tag', f', t', v', hB, h1, h2, h3, h4⟩
      · exact absurd ⟨h2, h3, h4⟩ (dead_entry_drops_nothing W f' t' v' e hdead).2
    · rintro ⟨tag', f', t', v', hE, h1, h2, h3, h4⟩
      exact ⟨tag', f', t', v', (h tag' f' t' v').mpr (Or.inl hE), h1, h2, h3, h4⟩
  rw [h1, h2]

/-- The three `switch` blocks started with the counter `c`: the members found
do not depend on `c`, and the counter grows by the number of unsupported
roles. -/
theorem memberStep_three (c : Int) (m0 m1 m2 : Member) :
    memberStep (memberStep (memberStep (startVars c) m0) m1) m2
      = { firstMember := (memberVars m0 m1 m2).firstMember,
          secondMember := (memberVars m0 m1 m2).secondMember,
          thirdMember := (memberVars m0 m1 m2).thirdMember,
          unsupportedRestrictionRoles := c + unsupportedCount [m0, m1, m2] } := by
  have step : ∀ (v : RoleVars) (m : Member),
      memberStep v m
        = { firstMember := (memberStep { v with unsupportedRestrictionRoles := 0 } m).firstMember,
            secondMember :=
              (memberStep { v with unsupportedRestrictionRoles := 0 } m).secondMember,
            thirdMember := (memberStep { v with unsupportedRestrictionRoles := 0 } m).thirdMember,
            unsupportedRestrictionRoles :=
              v.unsupportedRestrictionRoles + unsupportedCount [m] } := by
    intro v m
    unfold memberStep unsupportedCount UnsupportedRole
    by_cases h1 : m.Role = "from"
    · simp [h1]
    · by_cases h2 : m.Role = "via"
      · simp [h2]
      · by_cases h3 : m.Role = "to"
        · simp [h3]
        · simp [h1, h2, h3]
  have hcount : ∀ (a b d : Member), unsupportedCount [a, b, d]
      = unsupportedCount [a] + unsupportedCount [b] + unsupportedCount [d] := by
    intro a b d
    unfold unsupportedCount
    simp only [List.filter_cons, List.filter_nil]
    split_ifs <;> simp
  unfold memberVars startVars
  rw [step _ m2, step _ m1, step _ m0]
  conv_rhs => rw [step _ m2, step _ m1, step _ m0]
  simp only [hcount, RoleVars.mk.injEq, true_and, zero_add]
  ring

/-- A `switch` block assigns at most one of the three variables, and none for
an unsupported role. -/
theorem memberStep_assigned (v : RoleVars) (m : Member) :
    assignedVars (memberStep v m) ≤ assignedVars v + 1
    ∧ (UnsupportedRole m → assignedVars (memberStep v m) = assignedVars v) := by
  unfold memberStep UnsupportedRole assignedVars
  by_cases h1 : m.Role = "from"
  · simp only [h1, if_true]
    refine ⟨?_, fun h => absurd rfl h.1⟩
    split_ifs <;> omega
  · by_cases h2 : m.Role = "via"
    · simp only [h1, h2, if_true, if_false]
      refine ⟨?_, fun h => absurd rfl h.2.1⟩
      split_ifs <;> omega
    · by_cases h3 : m.Role = "to"
      · simp only [h1, h2, h3, if_true, if_false]
        refine ⟨?_, fun h => absurd rfl h.2.2⟩
        split_ifs <;> omega
      · simp only [h1, h2, h3, if_false]
        exact ⟨by omega, fun _ => trivial⟩

/-- With a member of an unsupported role, one of `firstMember`, `secondMember`,
`thirdMember` keeps its start value. -/
theorem memberVars_default (m0 m1 m2 : Member)
    (h : UnsupportedRole m0 ∨ UnsupportedRole m1 ∨ UnsupportedRole m2) :
    (memberVars m0 m1 m2).firstMember = ⟨-1, ""⟩
    ∨ (memberVars m0 m1 m2).secondMember = ⟨-1, ""⟩
    ∨ (memberVars m0 m1 m2).thirdMember = ⟨-1, ""⟩ := by
  have h0 : assignedVars (startVars 0) = 0 := by
    simp [assignedVars, startVars]
  have hle : assignedVars (memberVars m0 m1 m2) ≤ 2 := by
    unfold memberVars
    have a0 := memberStep_assigned (startVars 0) m0
    have a1 := memberStep_assigned (memberStep (startVars 0) m0) m1
    have a2 := memberStep_assigned (memberStep (memberStep (startVars 0) m0) m1) m2
    rcases h with h | h | h
    · have := a0.2 h; omega
    · have := a1.2 h; omega
    · have := a2.2 h; omega
  unfold assignedVars at hle
  by_contra hne
  simp only [not_or] at hne
  rw [if_neg hne.1, if_neg hne.2.1, if_neg hne.2.2] at hle
  omega

/-- An entry that keeps a start value has a member of the wrong type. -/
theorem default_is_dead (f t v : restrictionComponent)
    (h : f = ⟨-1, ""⟩ ∨ t = ⟨-1, ""⟩ ∨ v = ⟨-1, ""⟩) :
    f.Typ ≠ "way" ∨ t.Typ ≠ "way" ∨ v.Typ ≠ "node" := by
  rcases h with h | h | h
  · exact Or.inl (by rw [h]; decide)
  · exact Or.inr (Or.inl (by rw [h]; decide))
  · exact Or.inr (Or.inr (by rw [h]; decide))

/-- The scan of a relation with the tag `restriction` and three members. -/
theorem scanRelation_three (st : RelationScan) (tag : String) (m0 m1 m2 : Member) :
    scanRelation st { restriction := some tag, Members := [m0, m1, m2] }
      = { skippedRestrictions := st.skippedRestrictions
          unsupportedRestrictionRoles :=
            st.unsupportedRestrictionRoles + unsupportedCount [m0, m1, m2]
          restrictions :=
            insertRestriction st.restrictions tag (memberVars m0 m1 m2).firstMember
              (memberVars m0 m1 m2).secondMember (memberVars m0 m1 m2).thirdMember } := by
  unfold scanRelation
  simp only [memberStep_three]

/-- What the scan of a relation does to the counters does not depend on the
table, and what it does to the table does not depend on the counters: it
inserts one entry under the key of the relation, or nothing. -/
theorem scanRelation_effect (relation : Relation) :
    ∃ (ds du : Int) (ins : Option (String × restrictionComponent × restrictionComponent
        × restrictionComponent)),
      relationKey relation = ins.map (fun x => (x.1, x.2.1, x.2.2.1))
      ∧ ∀ st : RelationScan,
        (scanRelation st relation).skippedRestrictions = st.skippedRestrictions + ds
        ∧ (scanRelation st relation).unsupportedRestrictionRoles
            = st.unsupportedRestrictionRoles + du
        ∧ (scanRelation st relation).restrictions
            = match ins with
              | none => st.restrictions
              | some x => insertRestriction st.restrictions x.1 x.2.1 x.2.2.1 x.2.2.2 := by
  obtain ⟨r, ms⟩ := relation
  cases r with
  | none =>
    exact ⟨0, 0, none, by simp [relationKey],
      fun st => ⟨by simp [scanRelation], by simp [scanRelation], by simp [scanRelation]⟩⟩
  | some tag =>
    rcases ms with _ | ⟨m0, _ | ⟨m1, _ | ⟨m2, _ | ⟨m3, rest⟩⟩⟩⟩
    · exact ⟨1, 0, none, by simp [relationKey],
        fun st => ⟨by simp [scanRelation], by simp [scanRelation], by simp [scanRelation]⟩⟩
    · exact ⟨1, 0, none, by simp [relationKey],
        fun st => ⟨by simp [scanRelation], by simp [scanRelation], by simp [scanRelation]⟩⟩
    · exact ⟨1, 0, none, by simp [relationKey],
        fun st => ⟨by simp [scanRelation], by simp [scanRelation], by simp [scanRelation]⟩⟩
    · refine ⟨0, unsupportedCount [m0, m1, m2],
        some (tag, (memberVars m0 m1 m2).firstMember, (memberVars m0 m1 m2).secondMember,
          (memberVars m0 m1 m2).thirdMember), rfl, fun st => ?_⟩
      rw [scanRelation_three]
      exact ⟨by simp, rfl, rfl⟩
    · exact ⟨1, 0, none, by simp [relationKey],
        fun st => ⟨by simp [scanRelation], by simp [scanRelation], by simp [scanRelation]⟩⟩

/-- The tables of the scan are maps of maps of maps. -/
theorem scanRelation_wellKeyed (st : RelationScan) (relation : Relation)
    (h : WellKeyed st.restrictions) : WellKeyed (scanRelation st relation).restrictions := by
  obtain ⟨ds, du, ins, _, hst⟩ := scanRelation_effect relation
  rw [(hst st).2.2]
  cases ins with
  | none => exact h
  | some x => exact wellKeyed_insertRestriction _ h _ _ _ _

theorem scanFrom_wellKeyed (relations : List Relation) (st : RelationScan)
    (h : WellKeyed st.restrictions) :
    WellKeyed (relations.foldl scanRelation st).restrictions := by
  induction relations generalizing st with
  | nil => exact h
  | cons r rs ih => exact ih _ (scanRelation_wellKeyed st r h)

/-- Two scans of the same relations, the one started with one more entry than
the other under a key that none of the relations has, and with other
counters: the difference stays. -/
theorem scanFrom_pair (relations : List Relation) (tag : String) (f t v : restrictionComponent)
    (c : Prop) (hkey : ∀ r ∈ relations, relationKey r ≠ some (tag, f, t))
    (A B : RelationScan) (ds du : Int)
    (hA : WellKeyed A.restrictions) (hB : WellKeyed B.restrictions)
    (hs : A.skippedRestrictions = B.skippedRestrictions + ds)
    (hu : A.unsupportedRestrictionRoles = B.unsupportedRestrictionRoles + du)
    (hE : ∀ tag' f' t' v', EntryIn A.restrictions tag' f' t' v'
      ↔ EntryIn B.restrictions tag' f' t' v' ∨ (tag' = tag ∧ f' = f ∧ t' = t ∧ v' = v ∧ c)) :
    (relations.foldl scanRelation A).skippedRestrictions
        = (relations.foldl scanRelation B).skippedRestrictions + ds
    ∧ (relations.foldl scanRelation A).unsupportedRestrictionRoles
        = (relations.foldl scanRelation B).unsupportedRestrictionRoles + du
    ∧ ∀ tag' f' t' v', EntryIn (relations.foldl scanRelation A).restrictions tag' f' t' v'
      ↔ EntryIn (relations.foldl scanRelation B).restrictions tag' f' t' v'
        ∨ (tag' = tag ∧ f' = f ∧ t' = t ∧ v' = v ∧ c) := by
  induction relations generalizing A B with
  | nil => exact ⟨hs, hu, hE⟩
  | cons r rs ih =>
    simp only [List.foldl_cons]
    obtain ⟨es, eu, ins, hins, hst⟩ := scanRelation_effect r
    have hr : relationKey r ≠ some (tag, f, t) := hkey r (List.mem_cons_self _ _)
    apply ih (fun q hq => hkey q (List.mem_cons_of_mem _ hq))
    · exact scanRelation_wellKeyed A r hA
    · exact scanRelation_wellKeyed B r hB
    · rw [(hst A).1, (hst B).1, hs]; ring
    · rw [(hst A).2.1, (hst B).2.1, hu]; ring
    · intro tag' f' t' v'
      rw [(hst A).2.2, (hst B).2.2]
      cases ins with
      | none => exact hE tag' f' t' v'
      | some x =>
        obtain ⟨tg, ff, tt, vv⟩ := x
        simp only
        have hne : ¬ (tg = tag ∧ ff = f ∧ tt = t) := by
          rintro ⟨rfl, rfl, rfl⟩
          exact hr hins
        have hkeyAB : KeyIn A.restrictions tg ff tt ↔ KeyIn B.restrictions tg ff tt := by
          constructor
          · rintro ⟨w, hw⟩
            rcases (hE tg ff tt w).mp hw with hb | ⟨e1, e2, e3, _, _⟩
            · exact ⟨w, hb⟩
            · exact absurd ⟨e1, e2, e3⟩ hne
          · rintro ⟨w, hw⟩
            exact ⟨w, (hE tg ff tt w).mpr (Or.inl hw)⟩
        rw [entry_insertRestriction _ hA, entry_insertRestriction _ hB, hE, hkeyAB]
        have key : ∀ P Q R : Prop, ((P ∨ Q) ∨ R) ↔ ((P ∨ R) ∨ Q) := by
          intro P Q R
          tauto
        exact key _ _ _
/-! ## Lemmas on the orders of iteration -/

/-- A loop that may fail skips the elements on which its body does nothing. -/
theorem foldlM_filter_skip {α β ε : Type} (f : β → α → Except ε β) (keep : α → Bool)
    (I : β → Prop) (xs : List α)
    (hI : ∀ s a s', a ∈ xs → I s → f s a = .ok s' → I s')
    (hskip : ∀ s a, a ∈ xs → I s → keep a = false → f s a = .ok s)
    (s : β) (hs : I s) : xs.foldlM f s = (xs.filter keep).foldlM f s := by
  induction xs generalizing s with
  | nil => rfl
  | cons a xs ih =>
    have ih' : ∀ t, I t → xs.foldlM f t = (xs.filter keep).foldlM f t := fun t ht =>
      ih (fun s b s' hb => hI s b s' (List.mem_cons_of_mem _ hb))
        (fun s b hb => hskip s b (List.mem_cons_of_mem _ hb)) t ht
    rw [List.foldlM_cons]
    by_cases hk : keep a = true
    · rw [List.filter_cons_of_pos hk, List.foldlM_cons]
      cases hf : f s a with
      | error e => rfl
      | ok s' =>
        exact ih' s' (hI s a s' (List.mem_cons_self _ _) hs hf)
    · have hk' : keep a = false := by simpa using hk
      rw [List.filter_cons_of_neg hk, hskip s a (List.mem_cons_self _ _) hs hk']
      exact ih' s hs

/-- The body of the loop over the macroscopic links does nothing for a link
without mesoscopic links. -/
theorem processMacroLink_idle (P : GeoPrims) (macroNodes : GoMap NetworkNode) (sep : Bool)
    (st : MicroBuild) (macroLink : NetworkLink) (h : macroLinkActs macroLink = false) :
    processMacroLink P macroNodes sep st macroLink = .ok st := by
  unfold macroLinkActs at h
  simp only [decide_eq_false_iff_not, not_or, not_not] at h
  obtain ⟨hm, hl⟩ := h
  unfold processMacroLink
  simp only [hm]
  cases hh : macroLink.lanesList.head? with
  | none =>
    exfalso
    apply hl
    cases hlist : macroLink.lanesList with
    | nil => rfl
    | cons a t => rw [hlist] at hh; cases hh
  | some lanes0 => rfl

theorem MesoSteady_refl (s : MicroBuild) : MesoSteady s s :=
  ⟨rfl, fun _ ml h => ⟨ml, h, rfl, rfl⟩⟩

theorem MesoSteady_trans (a b c : MicroBuild) (h1 : MesoSteady a b) (h2 : MesoSteady b c) :
    MesoSteady a c := by
  refine ⟨h2.1.trans h1.1, ?_⟩
  intro k ml hml
  obtain ⟨ml1, hml1, e1, e2⟩ := h1.2 k ml hml
  obtain ⟨ml2, hml2, e3, e4⟩ := h2.2 k ml1 hml1
  exact ⟨ml2, hml2, e3.trans e1, e4.trans e2⟩

theorem MesoSteady_of_eq (s s' : MicroBuild) (h : s'.mesoLinks = s.mesoLinks) :
    MesoSteady s s' := by
  refine ⟨by rw [h], ?_⟩
  intro k ml hml
  exact ⟨ml, by rw [h]; exact hml, rfl, rfl⟩

theorem MesoSteady_of_set (s s' : MicroBuild) (u : Int) (up up' : NetworkLinkMesoscopic)
    (hup : mapGet? s.mesoLinks u = some up) (hm : s'.mesoLinks = mapSet s.mesoLinks u up')
    (hid : up'.ID = up.ID) (hmv : up'.movementID = up.movementID) : MesoSteady s s' := by
  refine ⟨?_, ?_⟩
  · rw [hm]
    apply mapSet_keys_of_mem
    rw [hup]
    rfl
  · intro k ml hml
    rw [hm, mapGet?_mapSet]
    by_cases e : u = k
    · subst e
      rw [hup] at hml
      cases hml
      exact ⟨up', by simp, hid, hmv⟩
    · exact ⟨ml, by simp [e, hml], rfl, rfl⟩

theorem fold_addCarLane_ID (g : List (List (Point × Point))) (is : List Nat)
    (acc : GoMap NetworkNodeMicroscopic × Int × NetworkLinkMesoscopic) :
    (is.foldl (addCarLane g) acc).2.2.ID = acc.2.2.ID := by
  induction is generalizing acc with
  | nil => rfl
  | cons i rest ih =>
    rw [List.foldl_cons, ih]
    rfl

theorem buildMesoNodes_ID (P : GeoPrims) (bike walk : Bool) (o : ℚ) (lc0 : Int)
    (ml : NetworkLinkMesoscopic) (nodes : GoMap NetworkNodeMicroscopic) (n : Int) :
    (buildMesoNodes P bike walk o lc0 ml nodes n).2.2.ID = ml.ID := by
  unfold buildMesoNodes
  simp only
  exact fold_addCarLane_ID _ _ _

/-- The body of the loop over the macroscopic links keeps the keys, the `ID`s
and the `movementID`s of the mesoscopic links. -/
theorem processMacroLink_steady (P : GeoPrims) (macroNodes : GoMap NetworkNode) (sep : Bool)
    (st st' : MicroBuild) (macroLink : NetworkLink)
    (h : processMacroLink P macroNodes sep st macroLink = .ok st') : MesoSteady st st' := by
  refine processMacroLink_rel MesoSteady MesoSteady_refl MesoSteady_trans P macroLink
    ?_ ?_ ?_ ?_ ?_ ?_ ?_ macroNodes sep st st' h
  · intro m _ b w o s s' hh
    unfold createMesoNodes at hh
    split at hh
    · cases hh
    rename_i ml hml
    split at hh
    · cases hh
    cases hh
    exact MesoSteady_of_set _ _ m ml _ hml rfl (buildMesoNodes_ID _ _ _ _ _ _ _ _)
      (buildMesoNodes_movementID _ _ _ _ _ _ _ _)
  · intro z s k s' hh
    exact MesoSteady_of_eq _ _ (markUpstream_frame z s s' k hh).2.2.1
  · intro z s k s' hh
    exact MesoSteady_of_eq _ _ (markDownstream_frame z s s' k hh).2.2.1
  · intro u _ d _ us ds s j s' hh
    obtain ⟨up, down, upLane, downLane, old, x, hup, -, -, -, -, -, -, -, hm, -⟩ :=
      stitchLane_spec u d us ds s j s' hh
    exact MesoSteady_of_set _ _ u up _ hup hm rfl rfl
  · intro u _ d _ s s' hh
    obtain ⟨up, down, x, hup, -, -, hm⟩ := stitchBike_lane u d s s' hh
    exact MesoSteady_of_set _ _ u up _ hup hm rfl rfl
  · intro u _ d _ s s' hh
    obtain ⟨up, down, x, hup, -, -, hm⟩ := stitchWalk_lane u d s s' hh
    exact MesoSteady_of_set _ _ u up _ hup hm rfl rfl
  · intro m _ ty ag s a b s' hh
    exact MesoSteady_of_eq _ _ (addMicroLink_link m ty ag false s a b s' hh).2.2.1

/-- A step of `connectLinks` keeps the keys, the `ID`s and the `movementID`s of
the mesoscopic links. -/
theorem connectMovement_steady (P : GeoPrims) (s : MicroBuild) (key : Int) (s' : MicroBuild)
    (h : connectMovement P s key = .ok s') : MesoSteady s s' := by
  have hN : ∀ m l (t : MicroBuild) pt, MesoSteady t (insertMovementNode m l t pt) :=
    fun m l t pt => MesoSteady_of_eq _ _ rfl
  have hL : ∀ m ty ag f (t : MicroBuild) a b t', addMicroLink m ty ag f t a b = .ok t' →
      MesoSteady t t' :=
    fun m ty ag f t a b t' hh => MesoSteady_of_eq _ _ (addMicroLink_link m ty ag f t a b t' hh).2.2.1
  have hA : ∀ k ml ids (t : MicroBuild), mapGet? t.mesoLinks k = some ml →
      MesoSteady t (appendLaneChain k ml ids t) :=
    fun k ml ids t hk => MesoSteady_of_set _ _ k ml _ hk rfl rfl rfl
  unfold connectMovement at h
  split at h
  · cases h
  split at h
  · split at h
    · cases h
    split at h
    · cases h
    split at h
    · cases h
    split at h
    · cases h
    exact foldlM_except_rel MesoSteady _ _ _ _ MesoSteady_refl MesoSteady_trans
      (fun t x t' _ hx => connectLane_rel MesoSteady MesoSteady_refl MesoSteady_trans hN hL hA
        P key t t' x hx) h
  · cases h
    exact MesoSteady_refl _

/-- The loop over the macroscopic links keeps the keys, the `ID`s and the
`movementID`s of the mesoscopic links. -/
theorem foldlM_processMacroLink_steady (P : GeoPrims) (macroNodes : GoMap NetworkNode)
    (sep : Bool) (ls : List NetworkLink) (st st' : MicroBuild)
    (h : ls.foldlM (processMacroLink P macroNodes sep) st = .ok st') : MesoSteady st st' :=
  foldlM_except_rel MesoSteady _ _ _ _ MesoSteady_refl MesoSteady_trans
    (fun s x s' _ hf => processMacroLink_steady P macroNodes sep s s' x hf) h

/-- A step of `connectLinks` does nothing for a key whose link is not a
movement link. -/
theorem connectMovement_idle (P : GeoPrims) (s : MicroBuild) (key : Int)
    (ml : NetworkLinkMesoscopic) (hml : mapGet? s.mesoLinks key = some ml)
    (hmv : ¬ ml.movementID > -1) : connectMovement P s key = .ok s := by
  unfold connectMovement
  simp only [hml, hmv, if_false]

/-- The model of `genMicroscopicNetwork` visits the macroscopic links and the
keys of the mesoscopic links in the order of its tables. -/
theorem genMicroscopicNetwork_eq_In (P : GeoPrims) (macroLinks : GoMap NetworkLink)
    (macroNodes : GoMap NetworkNode) (mesoLinks : GoMap NetworkLinkMesoscopic)
    (mesoNodes : GoMap NetworkNodeMesoscopic) (sep : Bool) :
    genMicroscopicNetwork P macroLinks macroNodes mesoLinks mesoNodes sep
      = genMicroscopicNetworkIn P (macroLinks.map (fun kv => kv.2))
          (mesoLinks.map (fun kv => kv.1)) macroNodes mesoLinks mesoNodes sep := by
  unfold genMicroscopicNetwork genMicroscopicNetworkIn buildCells
  cases hb : (macroLinks.map (fun kv => kv.2)).foldlM (processMacroLink P macroNodes sep)
      { nodes := [], links := [], lastNodeID := 0, lastLinkID := 0, mesoLinks := mesoLinks } with
  | error e => rfl
  | ok st =>
    have hk := (foldlM_processMacroLink_steady P macroNodes sep _ _ st hb).1
    simp only [bind, Except.bind]
    unfold connectLinks connectLinksIn
    rw [hk]

/-- Two orders that visit the links for which the loops do something in the
same order give the same result. -/
theorem genMicroscopicNetworkIn_idle (P : GeoPrims) (macroNodes : GoMap NetworkNode)
    (mesoLinks : GoMap NetworkLinkMesoscopic) (mesoNodes : GoMap NetworkNodeMesoscopic)
    (sep : Bool) (macro1 macro2 : List NetworkLink) (meso1 meso2 : List Int)
    (hacts : macro1.filter macroLinkActs = macro2.filter macroLinkActs)
    (hkeys1 : ∀ k ∈ meso1, (mapGet? mesoLinks k).isSome)
    (hkeys2 : ∀ k ∈ meso2, (mapGet? mesoLinks k).isSome)
    (hmeso : meso1.filter (isMovementKey mesoLinks) = meso2.filter (isMovementKey mesoLinks)) :
    genMicroscopicNetworkIn P macro1 meso1 macroNodes mesoLinks mesoNodes sep
      = genMicroscopicNetworkIn P macro2 meso2 macroNodes mesoLinks mesoNodes sep := by
  unfold genMicroscopicNetworkIn
  have hb : ∀ ls : List NetworkLink,
      ls.foldlM (processMacroLink P macroNodes sep)
        { nodes := [], links := [], lastNodeID := 0, lastLinkID := 0, mesoLinks := mesoLinks }
      = (ls.filter macroLinkActs).foldlM (processMacroLink P macroNodes sep)
        { nodes := [], links := [], lastNodeID := 0, lastLinkID := 0,
          mesoLinks := mesoLinks } := by
    intro ls
    exact foldlM_filter_skip _ macroLinkActs (fun _ => True) ls (fun _ _ _ _ _ _ => trivial)
      (fun s a _ _ ha => processMacroLink_idle P macroNodes sep s a ha) _ trivial
  rw [hb macro1, hb macro2, hacts]
  cases hst : (macro2.filter macroLinkActs).foldlM (processMacroLink P macroNodes sep)
      { nodes := [], links := [], lastNodeID := 0, lastLinkID := 0, mesoLinks := mesoLinks } with
  | error e => rfl
  | ok st =>
    have hsteady := foldlM_processMacroLink_steady P macroNodes sep _ _ st hst
    have hc : ∀ (order : List Int), (∀ k ∈ order, (mapGet? mesoLinks k).isSome) →
        connectLinksIn P order st
          = connectLinksIn P (order.filter (isMovementKey mesoLinks)) st := by
      intro order hkeys
      unfold connectLinksIn
      refine foldlM_filter_skip _ (isMovementKey mesoLinks)
        (fun s => ∀ k ml, mapGet? mesoLinks k = some ml →
          ∃ ml', mapGet? s.mesoLinks k = some ml' ∧ ml'.movementID = ml.movementID)
        order ?_ ?_ st ?_
      · intro s a s' _ hs hf k ml hml
        obtain ⟨ml1, hml1, e1⟩ := hs k ml hml
        obtain ⟨ml2, hml2, _, e2⟩ := (connectMovement_steady P s a s' hf).2 k ml1 hml1
        exact ⟨ml2, hml2, e2.trans e1⟩
      · intro s a ha hs hkeep
        obtain ⟨ml, hml⟩ := Option.isSome_iff_exists.mp (hkeys a ha)
        obtain ⟨ml1, hml1, e1⟩ := hs a ml hml
        apply connectMovement_idle P s a ml1 hml1
        rw [e1]
        unfold isMovementKey at hkeep
        rw [hml] at hkeep
        simpa using hkeep
      · intro k ml hml
        obtain ⟨ml', hml', _, e⟩ := hsteady.2 k ml hml
        exact ⟨ml', hml', e⟩
    simp only [bind, Except.bind]
    rw [hc meso1 hkeys1, hc meso2 hkeys2, hmeso]

/-! ## Lemmas on the lanes that own the microscopic nodes -/

theorem mapGet?_mem {V : Type} (m : GoMap V) (k : Int) (v : V) (h : mapGet? m k = some v) :
    (k, v) ∈ m := by
  induction m with
  | nil => simp [mapGet?] at h
  | cons p t ih =>
    obtain ⟨a, b⟩ := p
    simp only [mapGet?] at h
    by_cases e : a = k
    · simp only [e, if_true, Option.some.injEq] at h
      subst e h
      exact List.mem_cons_self _ _
    · simp only [e, if_false] at h
      exact List.mem_cons_of_mem _ (ih h)

theorem OwnerKept_refl (s : MicroBuild) : OwnerKept s s :=
  ⟨rfl, fun _ n h => ⟨n, h, rfl, rfl⟩⟩

theorem OwnerKept_trans (a b c : MicroBuild) (h1 : OwnerKept a b) (h2 : OwnerKept b c) :
    OwnerKept a c := by
  refine ⟨by rw [h2.1, h1.1], ?_⟩
  intro k n'' h
  obtain ⟨n', g1, g2, g3⟩ := h2.2 k n'' h
  obtain ⟨n, f1, f2, f3⟩ := h1.2 k n' g1
  exact ⟨n, f1, by rw [f2, g2], by rw [f3, g3]⟩

theorem fold_addCarLane_lanes (g : List (List (Point × Point))) (is : List Nat)
    (nodes : GoMap NetworkNodeMicroscopic) (n : Int) (ml : NetworkLinkMesoscopic) :
    ∃ newLanes, (is.foldl (addCarLane g) (nodes, n, ml)).2.2
      = { ml with microNodesPerLane := ml.microNodesPerLane ++ newLanes } := by
  induction is generalizing nodes n ml with
  | nil => exact ⟨[], by simp⟩
  | cons i rest ih =>
    have hstep : (i :: rest).foldl (addCarLane g) (nodes, n, ml)
        = rest.foldl (addCarLane g) (addCarLane g (nodes, n, ml) i) := rfl
    rw [hstep]
    obtain ⟨new, e⟩ := ih (addCarLane g (nodes, n, ml) i).1 (addCarLane g (nodes, n, ml) i).2.1
      (addCarLane g (nodes, n, ml) i).2.2
    refine ⟨[((g.getD i []).foldl (addLaneNode ml.ID ((i : Int) + 1)) (nodes, n, [])).2.2]
      ++ new, ?_⟩
    rw [e]
    simp [addCarLane]

/-- What one step of the use-count loop adds to the count of the node `id`. -/
theorem countStep_exact (len : Nat) (m m' : GoMap Node) (iw : Nat × Int)
    (h : countStep len m iw = some m') (id : Int) (n : Node) (hn : mapGet? m id = some n) :
    ∃ n', mapGet? m' id = some n'
      ∧ n'.useCount = n.useCount
          + (if iw.2 = id then (if isEndPosition len iw.1 then 2 else 1) else 0) := by
  unfold countStep at h
  cases hnode : mapGet? m iw.2 with
  | none =>
    rw [hnode] at h
    cases h
  | some node =>
    rw [hnode] at h
    simp only at h
    have hend : (iw.1 = 0 ∨ (iw.1 : Int) = (len : Int) - 1) ↔ isEndPosition len iw.1 = true := by
      unfold isEndPosition
      simp only [decide_eq_true_eq]
      constructor
      · rintro (h0 | h0)
        · exact Or.inl h0
        · exact Or.inr (by omega)
      · rintro (h0 | h0)
        · exact Or.inl h0
        · exact Or.inr (by omega)
    by_cases e : iw.2 = id
    · rw [e] at hnode
      rw [hn] at hnode
      cases hnode
      simp only [e, if_true]
      by_cases hc : iw.1 = 0 ∨ (iw.1 : Int) = (len : Int) - 1
      · rw [if_pos hc] at h
        cases h
        rw [if_pos (hend.mp hc)]
        exact ⟨{ n with useCount := n.useCount + 2 }, by rw [mapGet?_mapSet, if_pos e], rfl⟩
      · rw [if_neg hc] at h
        cases h
        rw [if_neg (fun hh => hc (hend.mpr hh))]
        exact ⟨{ n with useCount := n.useCount + 1 }, by rw [mapGet?_mapSet, if_pos e], rfl⟩
    · simp only [e, if_false, add_zero]
      split_ifs at h <;> cases h <;>
        exact ⟨n, by rw [mapGet?_mapSet_ne _ _ _ _ e]; exact hn, rfl⟩

/-- What a run of steps adds to the count of the node `id`. -/
theorem countSteps_exact (len : Nat) (xs : List (Nat × Int)) (m m' : GoMap Node)
    (h : xs.foldlM (countStep len) m = some m') (id : Int) (n : Node)
    (hn : mapGet? m id = some n) :
    ∃ n', mapGet? m' id = some n'
      ∧ n'.useCount = n.useCount
          + ((xs.filter (fun iw => decide (iw.2 = id) && !isEndPosition len iw.1)).length : Int)
          + 2 * ((xs.filter (fun iw => decide (iw.2 = id) && isEndPosition len iw.1)).length
              : Int) := by
  induction xs generalizing m n with
  | nil =>
    simp only [List.foldlM_nil] at h
    cases h
    exact ⟨n, hn, by simp⟩
  | cons x xs ih =>
    rw [List.foldlM_cons] at h
    cases hx : countStep len m x with
    | none =>
      rw [hx] at h
      cases h
    | some m1 =>
      rw [hx] at h
      simp only [bind, Option.bind] at h
      obtain ⟨n1, hn1, e1⟩ := countStep_exact len m m1 x hx id n hn
      obtain ⟨n2, hn2, e2⟩ := ih m1 h n1 hn1
      refine ⟨n2, hn2, ?_⟩
      rw [e2, e1]
      by_cases e : x.2 = id
      · by_cases hp : isEndPosition len x.1 = true
        · simp only [List.filter_cons, e, hp, decide_True, Bool.true_and, Bool.not_true,
            if_true, Bool.false_eq_true, if_false, List.length_cons]
          push_cast
          ring
        · have hp' : isEndPosition len x.1 = false := by simpa using hp
          simp only [List.filter_cons, e, hp', decide_True, Bool.true_and, Bool.not_false,
            if_true, Bool.false_eq_true, if_false, List.length_cons]
          push_cast
          ring
      · simp only [List.filter_cons, e, decide_False, Bool.false_and, Bool.false_eq_true,
          if_false]
        ring

/-- What the loop over one way adds to the count of the node `id`. -/
theorem countWay_exact (m m' : GoMap Node) (w : List Int) (h : countWay m w = some m')
    (id : Int) (n : Node) (hn : mapGet? m id = some n) :
    ∃ n', mapGet? m' id = some n'
      ∧ n'.useCount = n.useCount + ((interiorUses id w : Int) + 2 * (endUses id w : Int)) := by
  unfold countWay at h
  obtain ⟨n', hn', e⟩ := countSteps_exact _ _ m m' h id n hn
  refine ⟨n', hn', ?_⟩
  rw [e]
  unfold interiorUses endUses
  ring

/-- The use count of every node after the use-count stage. -/
theorem countUseCases_exact (ways : List (List Int)) (m m' : GoMap Node)
    (h : countUseCases m ways = some m') (id : Int) (n : Node) (hn : mapGet? m id = some n) :
    ∃ n', mapGet? m' id = some n' ∧ n'.useCount = n.useCount + specUseCount id ways := by
  unfold countUseCases at h
  induction ways generalizing m n with
  | nil =>
    simp only [List.foldlM_nil] at h
    cases h
    exact ⟨n, hn, by simp [specUseCount]⟩
  | cons w ws ih =>
    rw [List.foldlM_cons] at h
    cases hw : countWay m w with
    | none =>
      rw [hw] at h
      cases h
    | some m1 =>
      rw [hw] at h
      simp only [bind, Option.bind] at h
      obtain ⟨n1, hn1, e1⟩ := countWay_exact m m1 w hw id n hn
      obtain ⟨n2, hn2, e2⟩ := ih m1 h n1 hn1
      refine ⟨n2, hn2, ?_⟩
      rw [e2, e1]
      unfold specUseCount
      simp only [List.map_cons, List.sum_cons]
      ring

theorem specUseCount_nonneg (id : Int) (ways : List (List Int)) : 0 ≤ specUseCount id ways := by
  unfold specUseCount
  apply List.sum_nonneg
  intro x hx
  obtain ⟨w, -, rfl⟩ := List.mem_map.mp hx
  positivity

/-- The count that the specification gives a node that is the first or the
last node of one of the ways is at least 2. -/
theorem specUseCount_end (ways : List (List Int)) (w : List Int) (hw : w ∈ ways) (a : Int)
    (ha : w.head? = some a ∨ w.getLast? = some a) : 2 ≤ specUseCount a ways := by
  have hend : 1 ≤ endUses a w := by
    unfold endUses
    rw [Nat.succ_le_iff, List.length_pos_iff_exists_mem]
    rcases ha with ha | ha
    · refine ⟨(0, a), ?_⟩
      rw [List.mem_filter]
      refine ⟨?_, by simp [isEndPosition]⟩
      cases w with
      | nil => cases ha
      | cons b t =>
        simp only [List.head?_cons, Option.some.injEq] at ha
        subst ha
        simp [List.enum_cons]
    · refine ⟨(w.length - 1, a), ?_⟩
      have hne : w ≠ [] := by
        intro e
        rw [e] at ha
        cases ha
      have hpos : 0 < w.length := List.length_pos.mpr hne
      rw [List.mem_filter]
      refine ⟨?_, ?_⟩
      · rw [List.mem_iff_getElem?]
        refine ⟨w.length - 1, ?_⟩
        rw [List.getLast?_eq_getElem?] at ha
        rw [List.enum_eq_zip_range, List.getElem?_zip_eq_some]
        exact ⟨List.getElem?_range (by omega), ha⟩
      · simp only [isEndPosition, decide_True, Bool.true_and, decide_eq_true_eq]
        exact Or.inr (by omega)
  unfold specUseCount
  have hsplit : ∃ pre post, ways = pre ++ w :: post := List.append_of_mem hw
  obtain ⟨pre, post, rfl⟩ := hsplit
  simp only [List.map_append, List.map_cons, List.sum_append, List.sum_cons]
  have h1 := specUseCount_nonneg a pre
  have h2 := specUseCount_nonneg a post
  unfold specUseCount at h1 h2
  have h3 : (0 : Int) ≤ (interiorUses a w : Int) := by positivity
  have h4 : (1 : Int) ≤ (endUses a w : Int) := by exact_mod_cast hend
  linarith

/-- The two components of the expanded edge of a pair of edges. -/
theorem expandPair_components (fm : List GeoPoint → Int × GeoPoint) (id : Int) (e f : Edge)
    (x : ExpandedEdge) (h : expandPair fm id e f = some x) :
    x.SourceComponent
        = { SourceNodeID := e.SourceNodeID, TargetNodeID := e.TargetNodeID, Tags := [],
            CostMeters := 0 }
    ∧ x.TargetComponent
        = { SourceNodeID := f.SourceNodeID, TargetNodeID := f.TargetNodeID, Tags := [],
            CostMeters := 0 } := by
  unfold expandPair at h
  simp only [] at h
  split at h
  · split at h
    · cases h
      exact ⟨rfl, rfl⟩
    · cases h
  · cases h

/-- Tables with the same members have the same entries, whatever the order
of the members and however often a member occurs. -/
theorem EntryIn_of_mem_iff (T T' : RestrictionTable) (h : ∀ x, x ∈ T' ↔ x ∈ T)
    (tag : String) (f t v : restrictionComponent) :
    EntryIn T' tag f t v ↔ EntryIn T tag f t v := by
  unfold EntryIn
  constructor
  · rintro ⟨k, vv, a, b, c⟩
    exact ⟨k, vv, (h _).mp a, b, c⟩
  · rintro ⟨k, vv, a, b, c⟩
    exact ⟨k, vv, (h _).mpr a, b, c⟩

/-- Whether the `no_*` loop and the `only_*` loop delete an edge depends on the
entries of the table only. -/
theorem any_drop_of_entries (W : List Int) (T T' : RestrictionTable)
    (h : ∀ tag f t v, EntryIn T' tag f t v ↔ EntryIn T tag f t v) (e : ExpandedEdge) :
    T'.any (fun ik => dropNoTag W ik e) = T.any (fun ik => dropNoTag W ik e)
    ∧ T'.any (fun ik => dropOnlyTag W ik e) = T.any (fun ik => dropOnlyTag W ik e) := by
  constructor
  · rw [Bool.eq_iff_iff, any_dropNoTag_iff, any_dropNoTag_iff]
    constructor
    · rintro ⟨tag, f, t, v, a, b⟩
      exact ⟨tag, f, t, v, (h tag f t v).mp a, b⟩
    · rintro ⟨tag, f, t, v, a, b⟩
      exact ⟨tag, f, t, v, (h tag f t v).mpr a, b⟩
  · rw [Bool.eq_iff_iff, any_dropOnlyTag_iff, any_dropOnlyTag_iff]
    constructor
    · rintro ⟨tag, f, t, v, a, b⟩
      exact ⟨tag, f, t, v, (h tag f t v).mp a, b⟩
    · rintro ⟨tag, f, t, v, a, b⟩
      exact ⟨tag, f, t, v, (h tag f t v).mpr a, b⟩

theorem not_any_eq_all_not {α : Type} (l : List α) (p : α → Bool) :
    (!l.any p) = l.all (fun x => !p x) := by
  induction l with
  | nil => rfl
  | cons a t ih => simp only [List.any_cons, List.all_cons, Bool.not_or, ih]

/-- One round of the loop of lines 29-41: the candidates of `removeCandidates`
are removed in the order of `order`, and the first breakpoint is appended to the
breakpoints of the link. -/
theorem reduceBreakpoints_round (order : List Nat → List Nat) (fuel : Nat) (target : ℚ)
    (rest linkBreakpoints : List ℚ) :
    reduceBreakpoints order (fuel + 1) (target :: rest) linkBreakpoints
      = match (order (removeCandidates (target :: rest))).foldlM removeBreakpoint
          (target :: rest) with
        | .error e => .error e
        | .ok left => reduceBreakpoints order fuel left (linkBreakpoints ++ [target]) := by
  rw [reduceBreakpoints]
  rfl

theorem reduceBreakpoints_nil (order : List Nat → List Nat) (fuel : Nat)
    (linkBreakpoints : List ℚ) :
    reduceBreakpoints order fuel [] linkBreakpoints = .ok linkBreakpoints := by
  cases fuel with
  | zero => rw [reduceBreakpoints]; rfl
  | succ n => rw [reduceBreakpoints]

theorem removeCandidates_first (len : ℚ) (h : resolution < len) :
    removeCandidates [0, len] = [0] := by
  have h5 : (5 : ℚ) < len := h
  unfold removeCandidates
  have e : List.range [0, len].length = [0, 1] := rfl
  rw [e]
  have a0 : decide ((0 : ℚ) - resolution ≤ [0, len].getD 0 0
      ∧ [0, len].getD 0 0 ≤ 0 + resolution) = true := by
    simp [resolution]
  have a1 : decide ((0 : ℚ) - resolution ≤ [0, len].getD 1 0
      ∧ [0, len].getD 1 0 ≤ 0 + resolution) = false := by
    simp only [List.getD_cons_succ, List.getD_cons_zero, resolution, decide_eq_false_iff_not,
      not_and, not_le]
    intro _
    linarith
  simp only [List.filter_cons, a0, a1, if_true, List.filter_nil]
  rfl

theorem removeCandidates_second (len : ℚ) : removeCandidates [len] = [0] := by
  unfold removeCandidates
  have e : List.range [len].length = [0] := rfl
  rw [e]
  have a0 : decide (len - resolution ≤ [len].getD 0 0
      ∧ [len].getD 0 0 ≤ len + resolution) = true := by
    simp [resolution]
  simp only [List.filter_cons, a0, if_true, List.filter_nil]

/-- The arithmetic of lines 346-350 on Go's 64-bit `int`: with left changes
below `2^62` in absolute value and lane counts between 0 and `2^62`, every value
that the lines compute lies in the range of `int`, so the machine arithmetic
agrees with that of the integers. -/
theorem stitchRange_fits_int (a b lu ld : Int)
    (ha : -4611686018427387904 < a ∧ a < 4611686018427387904)
    (hb : -4611686018427387904 < b ∧ b < 4611686018427387904)
    (hu : 0 ≤ lu ∧ lu ≤ 4611686018427387904) (hd : 0 ≤ ld ∧ ld ≤ 4611686018427387904) :
    (-9223372036854775808 ≤ a - min a b ∧ a - min a b ≤ 9223372036854775807)
    ∧ (-9223372036854775808 ≤ b - min a b ∧ b - min a b ≤ 9223372036854775807)
    ∧ (-9223372036854775808 ≤ lu - (a - min a b) ∧ lu - (a - min a b) ≤ 9223372036854775807)
    ∧ (-9223372036854775808 ≤ ld - (b - min a b)
        ∧ ld - (b - min a b) ≤ 9223372036854775807) := by
  refine ⟨⟨?_, ?_⟩, ⟨?_, ?_⟩, ⟨?_, ?_⟩, ⟨?_, ?_⟩⟩ <;> omega

/-! ## Lemmas on the bike chain and the walk chain -/

theorem laneGeometry_offset (P : GeoPrims) (ml : NetworkLinkMesoscopic) (o : ℚ) (lc0 : Int)
    (i : Nat) :
    laneGeometry P ml (-1 * (o / 2 - 1 / 2 + (lc0 : ℚ))) i
      = offsetLine P ml (carLaneOffset P o lc0 i) := rfl

theorem sideGeometry_offset (P : GeoPrims) (ml : NetworkLinkMesoscopic) (laneOffset width : ℚ) :
    sideGeometry P ml laneOffset width = offsetLine P ml (laneOffset + width) := rfl

/-- The nodes of one lane with their points: the loop appends the IDs `n`,
`n + 1`, ..., and the node of the ID `n + j` is the node literal at point `j`. -/
theorem fold_addLaneNode_points (a b : Int) (pts : List (Point × Point))
    (nodes : GoMap NetworkNodeMicroscopic) (n : Int) (ids : List Int) :
    (pts.foldl (addLaneNode a b) (nodes, n, ids)).2.2
        = ids ++ (List.range pts.length).map (fun (j : Nat) => n + (j : Int))
    ∧ ∀ (j : Nat) (pt : Point × Point), pts[j]? = some pt →
        mapGet? (pts.foldl (addLaneNode a b) (nodes, n, ids)).1 (n + (j : Int))
          = some (newMicroNode (n + (j : Int)) pt a b) := by
  induction pts generalizing nodes n ids with
  | nil =>
    refine ⟨by simp, ?_⟩
    intro j pt h
    simp at h
  | cons p rest ih =>
    have hstep : (p :: rest).foldl (addLaneNode a b) (nodes, n, ids)
        = rest.foldl (addLaneNode a b)
          (mapSet nodes n (newMicroNode n p a b), n + 1, ids ++ [n]) := rfl
    rw [hstep]
    obtain ⟨i1, i2⟩ := ih (mapSet nodes n (newMicroNode n p a b)) (n + 1) (ids ++ [n])
    refine ⟨?_, ?_⟩
    · rw [i1, List.length_cons, List.range_succ_eq_map, List.map_cons, List.map_map,
        List.append_assoc]
      congr 1
      simp only [Nat.cast_zero, add_zero, List.singleton_append, List.cons.injEq, true_and]
      apply List.map_congr_left
      intro j _
      simp only [Function.comp, Nat.cast_succ]
      ring
    · intro j pt hj
      cases j with
      | zero =>
        simp only [List.getElem?_cons_zero, Option.some.injEq] at hj
        subst hj
        obtain ⟨-, -, -, -, -, e5, -⟩ := fold_addLaneNode_chain a b rest
          (mapSet nodes n (newMicroNode n p a b)) (n + 1) (ids ++ [n])
        simp only [Nat.cast_zero, add_zero]
        rw [e5 n (by omega)]
        exact mapGet?_mapSet_same _ _ _
      | succ j' =>
        simp only [List.getElem?_cons_succ] at hj
        have := i2 j' pt hj
        have e : n + ((j' + 1 : Nat) : Int) = n + 1 + (j' : Int) := by push_cast; ring
        rw [e]
        exact this

theorem samplePoints_get (P : GeoPrims) (ml : NetworkLinkMesoscopic) (line : LineString)
    (j : Nat) (pt : Point × Point)
    (h : (samplePoints P ml (cellsNumOf ml.lengthMeters) line)[j]? = some pt) :
    pt.1 = cellPoint P ml line j := by
  unfold samplePoints at h
  rw [List.getElem?_map] at h
  have hlt : j < (cellsNumOf ml.lengthMeters + 1).toNat := by
    by_contra hc
    rw [List.getElem?_eq_none (by simpa using hc)] at h
    cases h
  rw [List.getElem?_range hlt] at h
  simp only [Option.map_some', Option.some.injEq] at h
  rw [← h]
  rfl

/-- The nodes of the bike chain and of the walk chain of a mesoscopic link
without such chains: the node of position `j` lies at the point of cell `j` on
the geometry of the link moved by `0 + bikeLaneWidth` and by `0 + walkLaneWidth`,
with the value 0 of the variable `laneOffset` of line 67. -/
theorem buildMesoNodes_side_points (P : GeoPrims) (bike walk : Bool) (o : ℚ) (lc0 : Int)
    (ml : NetworkLinkMesoscopic) (nodes : GoMap NetworkNodeMicroscopic) (n : Int)
    (hb : ml.microNodesBikeLane = []) (hw : ml.microNodesWalkLane = []) :
    (bike = true → ∀ (j : Nat) (x : Int),
        (buildMesoNodes P bike walk o lc0 ml nodes n).2.2.microNodesBikeLane[j]? = some x →
        ∃ nd, mapGet? (buildMesoNodes P bike walk o lc0 ml nodes n).1 x = some nd
          ∧ nd.laneID = -1
          ∧ nd.geom = cellPoint P ml (offsetLine P ml (0 + bikeLaneWidth)) j)
    ∧ (walk = true → ∀ (j : Nat) (x : Int),
        (buildMesoNodes P bike walk o lc0 ml nodes n).2.2.microNodesWalkLane[j]? = some x →
        ∃ nd, mapGet? (buildMesoNodes P bike walk o lc0 ml nodes n).1 x = some nd
          ∧ nd.laneID = -2
          ∧ nd.geom = cellPoint P ml (offsetLine P ml (0 + walkLaneWidth)) j) := by
  unfold buildMesoNodes
  simp only
  have hB : ∀ acc : GoMap NetworkNodeMicroscopic × Int × NetworkLinkMesoscopic,
      ((List.range ml.lanesNum.toNat).foldl (addCarLane
        (((List.range ml.lanesNum.toNat).map
          (laneGeometry P ml (-1 * (o / 2 - 1 / 2 + (lc0 : ℚ))))).map
          (samplePoints P ml (cellsNumOf ml.lengthMeters)))) (nodes, n, ml)).2.2.microNodesBikeLane
        = [] := by
    intro _
    obtain ⟨new, e⟩ := fold_addCarLane_lanes _ (List.range ml.lanesNum.toNat) nodes n ml
    rw [e]
    exact hb
  have hW : ((List.range ml.lanesNum.toNat).foldl (addCarLane
        (((List.range ml.lanesNum.toNat).map
          (laneGeometry P ml (-1 * (o / 2 - 1 / 2 + (lc0 : ℚ))))).map
          (samplePoints P ml (cellsNumOf ml.lengthMeters)))) (nodes, n, ml)).2.2.microNodesWalkLane
        = [] := by
    obtain ⟨new, e⟩ := fold_addCarLane_lanes _ (List.range ml.lanesNum.toNat) nodes n ml
    rw [e]
    exact hw
  rw [hB (nodes, n, ml), hW]
  generalize (List.range ml.lanesNum.toNat).foldl (addCarLane
        (((List.range ml.lanesNum.toNat).map
          (laneGeometry P ml (-1 * (o / 2 - 1 / 2 + (lc0 : ℚ))))).map
          (samplePoints P ml (cellsNumOf ml.lengthMeters)))) (nodes, n, ml) = r1
  constructor
  · intro hbike
    subst hbike
    simp only [if_true]
    intro j x hx
    obtain ⟨p1, p2⟩ := fold_addLaneNode_points ml.ID (-1)
      (samplePoints P ml (cellsNumOf ml.lengthMeters) (sideGeometry P ml 0 bikeLaneWidth))
      r1.1 r1.2.1 []
    obtain ⟨newB, b1, b2, b3, b4, b5, b6⟩ := fold_addLaneNode_chain ml.ID (-1)
      (samplePoints P ml (cellsNumOf ml.lengthMeters) (sideGeometry P ml 0 bikeLaneWidth))
      r1.1 r1.2.1 []
    obtain ⟨newW, w1, w2, w3, w4, w5, w6⟩ := fold_addLaneNode_chain ml.ID (-2)
      (if walk = true then samplePoints P ml (cellsNumOf ml.lengthMeters)
        (if walk = true then sideGeometry P ml 0 walkLaneWidth else []) else [])
      ((samplePoints P ml (cellsNumOf ml.lengthMeters)
        (sideGeometry P ml 0 bikeLaneWidth)).foldl (addLaneNode ml.ID (-1))
        (r1.1, r1.2.1, [])).1
      ((samplePoints P ml (cellsNumOf ml.lengthMeters)
        (sideGeometry P ml 0 bikeLaneWidth)).foldl (addLaneNode ml.ID (-1))
        (r1.1, r1.2.1, [])).2.1 []
    rw [p1, List.nil_append, List.getElem?_map] at hx
    have hlt : j < (samplePoints P ml (cellsNumOf ml.lengthMeters)
        (sideGeometry P ml 0 bikeLaneWidth)).length := by
      by_contra hc
      rw [List.getElem?_eq_none (by simpa using hc)] at hx
      cases hx
    rw [List.getElem?_range hlt] at hx
    simp only [Option.map_some', Option.some.injEq] at hx
    subst hx
    have hpt := List.getElem?_eq_getElem hlt
    have hnode := p2 j _ hpt
    refine ⟨newMicroNode (r1.2.1 + (j : Int)) ((samplePoints P ml (cellsNumOf ml.lengthMeters)
      (sideGeometry P ml 0 bikeLaneWidth))[j]) ml.ID (-1), ?_, rfl, ?_⟩
    · rw [w5 _ (by rw [b2]; omega)]
      exact hnode
    · show ((samplePoints P ml (cellsNumOf ml.lengthMeters)
        (sideGeometry P ml 0 bikeLaneWidth))[j]).1 = _
      rw [samplePoints_get P ml _ j _ hpt, sideGeometry_offset]
  · intro hwalk
    subst hwalk
    simp only [if_true]
    intro j x hx
    obtain ⟨p1, p2⟩ := fold_addLaneNode_points ml.ID (-2)
      (samplePoints P ml (cellsNumOf ml.lengthMeters) (sideGeometry P ml 0 walkLaneWidth))
      ((if bike = true then samplePoints P ml (cellsNumOf ml.lengthMeters)
        (if bike = true then sideGeometry P ml 0 bikeLaneWidth else []) else []).foldl
        (addLaneNode ml.ID (-1)) (r1.1, r1.2.1, [])).1
      ((if bike = true then samplePoints P ml (cellsNumOf ml.lengthMeters)
        (if bike = true then sideGeometry P ml 0 bikeLaneWidth else []) else []).foldl
        (addLaneNode ml.ID (-1)) (r1.1, r1.2.1, [])).2.1 []
    rw [p1, List.nil_append, List.getElem?_map] at hx
    have hlt : j < (samplePoints P ml (cellsNumOf ml.lengthMeters)
        (sideGeometry P ml 0 walkLaneWidth)).length := by
      by_contra hc
      rw [List.getElem?_eq_none (by simpa using hc)] at hx
      cases hx
    rw [List.getElem?_range hlt] at hx
    simp only [Option.map_some', Option.some.injEq] at hx
    subst hx
    have hpt := List.getElem?_eq_getElem hlt
    have hnode := p2 j _ hpt
    refine ⟨newMicroNode (_ + (j : Int)) ((samplePoints P ml (cellsNumOf ml.lengthMeters)
      (sideGeometry P ml 0 walkLaneWidth))[j]) ml.ID (-2), hnode, rfl, ?_⟩
    show ((samplePoints P ml (cellsNumOf ml.lengthMeters)
      (sideGeometry P ml 0 walkLaneWidth))[j]).1 = _
    rw [samplePoints_get P ml _ j _ hpt, sideGeometry_offset]

/-! ## Lemmas on the nodes of the chains after the stitching -/

theorem laneChains_length (ml : NetworkLinkMesoscopic) :
    (laneChains ml).length = ml.microNodesPerLane.length + 2 := by
  unfold laneChains
  simp

theorem laneChains_cases (ml : NetworkLinkMesoscopic) (q : Nat) (c : List Int)
    (h : (laneChains ml)[q]? = some c) :
    (q < ml.microNodesPerLane.length ∧ ml.microNodesPerLane[q]? = some c)
      ∨ (q = ml.microNodesPerLane.length ∧ c = ml.microNodesBikeLane)
      ∨ (q = ml.microNodesPerLane.length + 1 ∧ c = ml.microNodesWalkLane) := by
  by_cases h1 : q < ml.microNodesPerLane.length
  · rw [laneChains_car ml q h1] at h
    exact Or.inl ⟨h1, h⟩
  · by_cases h2 : q = ml.microNodesPerLane.length
    · subst h2
      rw [laneChains_bike] at h
      cases h
      exact Or.inr (Or.inl ⟨rfl, rfl⟩)
    · by_cases h3 : q = ml.microNodesPerLane.length + 1
      · subst h3
        rw [laneChains_walk] at h
        cases h
        exact Or.inr (Or.inr ⟨rfl, rfl⟩)
      · rw [List.getElem?_eq_none (by rw [laneChains_length]; omega)] at h
        cases h

/-- The stitching of one adjacent pair of different mesoscopic links, chain by
chain: every chain of the upstream link is as it was or has the first node of a
chain of the downstream link in its last slot, and a node is deleted only if
it was the last node of a chain of the second kind. -/
theorem stitchPair_spliced (bike walk : Bool) (s s' : MicroBuild) (u d : Int) (hne : u ≠ d)
    (h : stitchPair bike walk s (u, d) = .ok s') :
    ∃ (up down up' : NetworkLinkMesoscopic),
      mapGet? s.mesoLinks u = some up ∧ mapGet? s.mesoLinks d = some down
      ∧ mapGet? s'.mesoLinks u = some up'
      ∧ (∀ key, key ≠ u → mapGet? s'.mesoLinks key = mapGet? s.mesoLinks key)
      ∧ ChainsSpliced (ChainHead down) up up'
      ∧ ∀ y, mapGet? s'.nodes y = mapGet? s.nodes y
          ∨ ∃ (q : Nat) (c : List Int) (x : Int), (laneChains up)[q]? = some c
              ∧ c.getLast? = some y ∧ ChainHead down x
              ∧ (laneChains up')[q]? = some (c.set (c.length - 1) x) := by
  unfold stitchPair at h
  simp only at h
  split at h
  · cases h
  rename_i up hup
  split at h
  · cases h
  rename_i down hdown
  obtain ⟨r, hr, h⟩ := except_bind_ok _ _ _ h
  obtain ⟨s1, h1, h⟩ := except_bind_ok _ _ _ h
  obtain ⟨s2, h2, h3⟩ := except_bind_ok _ _ _ h
  unfold stitchRange at hr
  split at hr
  swap
  · cases hr
  rename_i ul dl hul hdl
  cases hr
  simp only at h1
  have hus : 0 ≤ ul - min ul dl := by omega
  obtain ⟨i1, lanesT, i2, i3, i4, i5, i6⟩ :=
    stitchLanes_spec u d _ _ hne up down _ s s1 h1 hup hdown hus
  have hd1 : mapGet? s1.mesoLinks d = some down := by
    rw [i1 d (Ne.symm hne)]
    exact hdown
  -- the bike chains
  have hB : ∃ bk, mapGet? s2.mesoLinks u
        = some { up with microNodesPerLane := lanesT, microNodesBikeLane := bk }
      ∧ (∀ key, key ≠ u → mapGet? s2.mesoLinks key = mapGet? s1.mesoLinks key)
      ∧ ((bk = up.microNodesBikeLane ∧ s2.nodes = s1.nodes)
        ∨ ∃ x old, down.microNodesBikeLane.head? = some x
            ∧ bk = up.microNodesBikeLane.set (up.microNodesBikeLane.length - 1) x
            ∧ up.microNodesBikeLane.getLast? = some old
            ∧ s2.nodes = mapDelete s1.nodes old) := by
    split at h2
    · obtain ⟨up1, down1, x, e1, e2, e3, e4⟩ := stitchBike_lane u d s1 s2 h2
      rw [i2] at e1
      cases e1
      rw [hd1] at e2
      cases e2
      obtain ⟨b1, up2, b2, b3, b4, b5, b6, old, b7, b8⟩ := stitchBike_spec u d s1 s2 _ h2 i2
      refine ⟨_, ?_, b1, Or.inr ⟨x, old, e3, rfl, b7, b8⟩⟩
      rw [e4]
      exact mapGet?_mapSet_same _ _ _
    · cases h2
      exact ⟨up.microNodesBikeLane, i2, fun _ _ => rfl, Or.inl ⟨rfl, rfl⟩⟩
  obtain ⟨bk, b1, b2, b3⟩ := hB
  have hd2 : mapGet? s2.mesoLinks d = some down := by
    rw [b2 d (Ne.symm hne)]
    exact hd1
  -- the walk chains
  have hW : ∃ wk, mapGet? s'.mesoLinks u
        = some { up with microNodesPerLane := lanesT, microNodesBikeLane := bk,
                         microNodesWalkLane := wk }
      ∧ (∀ key, key ≠ u → mapGet? s'.mesoLinks key = mapGet? s2.mesoLinks key)
      ∧ ((wk = up.microNodesWalkLane ∧ s'.nodes = s2.nodes)
        ∨ ∃ x old, down.microNodesWalkLane.head? = some x
            ∧ wk = up.microNodesWalkLane.set (up.microNodesWalkLane.length - 1) x
            ∧ up.microNodesWalkLane.getLast? = some old
            ∧ s'.nodes = mapDelete s2.nodes old) := by
    split at h3
    · obtain ⟨up1, down1, x, e1, e2, e3, e4⟩ := stitchWalk_lane u d s2 s' h3
      rw [b1] at e1
      cases e1
      rw [hd2] at e2
      cases e2
      obtain ⟨w1, up3, w2, w3, w4, w5, old, w7, w8⟩ := stitchWalk_spec u d s2 s' _ h3 b1
      refine ⟨_, ?_, w1, Or.inr ⟨x, old, e3, rfl, w7, w8⟩⟩
      rw [e4]
      exact mapGet?_mapSet_same _ _ _
    · cases h3
      exact ⟨up.microNodesWalkLane, b1, fun _ _ => rfl, Or.inl ⟨rfl, rfl⟩⟩
  obtain ⟨wk, w1, w2, w3⟩ := hW
  obtain ⟨up3, w1, g0, g1, g2, g3⟩ : ∃ up3, mapGet? s'.mesoLinks u = some up3
      ∧ up3.lanesNum = up.lanesNum ∧ up3.microNodesPerLane = lanesT
      ∧ up3.microNodesBikeLane = bk ∧ up3.microNodesWalkLane = wk :=
    ⟨_, w1, rfl, rfl, rfl, rfl⟩
  -- the chains of the upstream link after the pair
  have hcar : ∀ (q : Nat) (c : List Int), q < up.microNodesPerLane.length →
      up.microNodesPerLane[q]? = some c →
      lanesT[q]? = some c ∨ ∃ x, ChainHead down x ∧ lanesT[q]? = some (c.set (c.length - 1) x)
        ∧ mapGet? s1.nodes (c.getLast?.getD 0) = none := by
    intro q c hq hc
    by_cases hin : (ul - min ul dl).toNat ≤ q
        ∧ q < (ul - min ul dl).toNat
          + (min (up.lanesNum - (ul - min ul dl)) (down.lanesNum - (dl - min ul dl))).toNat
    · obtain ⟨upLane, downLane, old, x, k1, k2, k3, k4, k5, k6, k7⟩ :=
        i5 (q - (ul - min ul dl).toNat) (by omega)
      have hidx : (ul - min ul dl).toNat + (q - (ul - min ul dl).toNat) = q := by omega
      rw [hidx] at k1 k6
      rw [hc] at k1
      cases k1
      refine Or.inr ⟨x, ⟨downLane, ?_, k5⟩, k6, ?_⟩
      · unfold laneChains
        exact List.mem_append_left _ (List.getElem?_mem k4)
      · rw [k2]
        exact k7
    · exact Or.inl ((i4 q (by omega)).trans hc)
  have hchain : ∀ q, q < up.microNodesPerLane.length →
      (laneChains up3)[q]? = lanesT[q]? := by
    intro q hq
    rw [← g1]
    exact laneChains_car _ q (by rw [g1, i3]; exact hq)
  have hbk : (laneChains up3)[up.microNodesPerLane.length]?
        = some bk := by
    have := laneChains_bike up3
    rw [g1, i3, g2] at this
    exact this
  have hwk : (laneChains up3)[up.microNodesPerLane.length + 1]?
        = some wk := by
    have := laneChains_walk up3
    rw [g1, i3, g3] at this
    exact this
  have hbhead : ∀ x, down.microNodesBikeLane.head? = some x → ChainHead down x :=
    fun x hx => ⟨_, by simp [laneChains], hx⟩
  have hwhead : ∀ x, down.microNodesWalkLane.head? = some x → ChainHead down x :=
    fun x hx => ⟨_, by simp [laneChains], hx⟩
  refine ⟨up, down, up3, hup, hdown, w1, ?_, ⟨g0, by rw [g1, i3], ?_⟩, ?_⟩
  · intro key hkey
    rw [w2 key hkey, b2 key hkey, i1 key hkey]
  · intro q c hq
    rcases laneChains_cases up q c hq with ⟨hlt, hc⟩ | ⟨rfl, rfl⟩ | ⟨rfl, rfl⟩
    · rw [hchain q hlt]
      rcases hcar q c hlt hc with e | ⟨x, e1, e2, -⟩
      · exact Or.inl e
      · exact Or.inr ⟨x, e1, e2⟩
    · rw [hbk]
      rcases b3 with ⟨e, -⟩ | ⟨x, old, e1, e2, -, -⟩
      · exact Or.inl (by rw [e])
      · exact Or.inr ⟨x, hbhead x e1, by rw [e2]⟩
    · rw [hwk]
      rcases w3 with ⟨e, -⟩ | ⟨x, old, e1, e2, -, -⟩
      · exact Or.inl (by rw [e])
      · exact Or.inr ⟨x, hwhead x e1, by rw [e2]⟩
  · intro y
    have hlanes : mapGet? s1.nodes y = mapGet? s.nodes y
        ∨ ∃ (q : Nat) (c : List Int) (x : Int), (laneChains up)[q]? = some c
              ∧ c.getLast? = some y ∧ ChainHead down x
              ∧ (laneChains up3)[q]?
                  = some (c.set (c.length - 1) x) := by
      rcases i6 y with e | ⟨e, j, hj, lane, l1, l2⟩
      · exact Or.inl e
      · have hlt : (ul - min ul dl).toNat + j < up.microNodesPerLane.length := by
          by_contra hc
          rw [List.getElem?_eq_none (by omega)] at l1
          cases l1
        obtain ⟨upLane, downLane, old, x, k1, k2, k3, k4, k5, k6, k7⟩ := i5 j hj
        rw [l1] at k1
        cases k1
        refine Or.inr ⟨_, lane, x, (laneChains_car up _ hlt).trans l1, l2, ⟨downLane, ?_, k5⟩, ?_⟩
        · unfold laneChains
          exact List.mem_append_left _ (List.getElem?_mem k4)
        · rw [hchain _ hlt]
          exact k6
    have hbike : mapGet? s2.nodes y = mapGet? s1.nodes y
        ∨ ∃ (q : Nat) (c : List Int) (x : Int), (laneChains up)[q]? = some c
              ∧ c.getLast? = some y ∧ ChainHead down x
              ∧ (laneChains up3)[q]?
                  = some (c.set (c.length - 1) x) := by
      rcases b3 with ⟨-, e⟩ | ⟨x, old, e1, e2, e3, e4⟩
      · exact Or.inl (by rw [e])
      · rw [e4]
        rcases mapDelete_cases s1.nodes old y with e | ⟨-, rfl⟩
        · exact Or.inl e
        · exact Or.inr ⟨_, _, x, laneChains_bike up, e3, hbhead x e1, by rw [hbk, e2]⟩
    have hwalk : mapGet? s'.nodes y = mapGet? s2.nodes y
        ∨ ∃ (q : Nat) (c : List Int) (x : Int), (laneChains up)[q]? = some c
              ∧ c.getLast? = some y ∧ ChainHead down x
              ∧ (laneChains up3)[q]?
                  = some (c.set (c.length - 1) x) := by
      rcases w3 with ⟨-, e⟩ | ⟨x, old, e1, e2, e3, e4⟩
      · exact Or.inl (by rw [e])
      · rw [e4]
        rcases mapDelete_cases s2.nodes old y with e | ⟨-, rfl⟩
        · exact Or.inl e
        · exact Or.inr ⟨_, _, x, laneChains_walk up, e3, hwhead x e1, by rw [hwk, e2]⟩
    rcases hwalk with e3 | e3
    · rcases hbike with e2 | e2
      · rcases hlanes with e1 | e1
        · exact Or.inl (e3.trans (e2.trans e1))
        · exact Or.inr e1
      · exact Or.inr e2
    · exact Or.inr e3

theorem Spliced_start (ms : List Int) (b : MicroBuild) : Spliced ms [] b b :=
  ⟨fun _ _ => rfl, fun _ ml' h => ⟨ml', h, rfl, rfl, fun _ _ hq => Or.inl hq⟩,
    fun _ => Or.inl rfl⟩

/-- The first node of a chain whose last slot may have been overwritten is the
first node of the chain as it was. -/
theorem head_of_spliced (H : Int → Prop) (ml ml' : NetworkLinkMesoscopic)
    (hs : ChainsSpliced H ml ml') (h2 : ∀ c ∈ laneChains ml, c = [] ∨ 2 ≤ c.length) (x : Int)
    (hx : ChainHead ml' x) : ChainHead ml x := by
  obtain ⟨c', hc', hh⟩ := hx
  obtain ⟨q, hq⟩ := List.mem_iff_getElem?.mp hc'
  have hlt : q < (laneChains ml).length := by
    rw [laneChains_length, ← hs.2.1, ← laneChains_length]
    by_contra hc
    rw [List.getElem?_eq_none (by omega)] at hq
    cases hq
  have hmem : (laneChains ml)[q] ∈ laneChains ml := List.getElem_mem hlt
  rcases hs.2.2 q _ (List.getElem?_eq_getElem hlt) with e | ⟨y, -, e⟩
  · rw [hq] at e
    cases e
    exact ⟨_, hmem, hh⟩
  · rw [hq] at e
    cases e
    rcases h2 _ hmem with e0 | e2
    · rw [e0] at hh
      simp at hh
    · rw [head?_set_last _ _ e2] at hh
      exact ⟨_, hmem, hh⟩

/-- The stitching loop over adjacent pairs with different upstream links. -/
theorem foldlM_stitchPair_spliced (ms : List Int) (bike walk : Bool) (b : MicroBuild)
    (hb2 : ∀ m ∈ ms, ∀ ml, mapGet? b.mesoLinks m = some ml →
      ∀ c ∈ laneChains ml, c = [] ∨ 2 ≤ c.length)
    (ps : List (Int × Int)) (U : List Int) (s s' : MicroBuild)
    (h : ps.foldlM (stitchPair bike walk) s = .ok s')
    (hnd : (U ++ ps.map (fun p => p.1)).Nodup) (hne : ∀ p ∈ ps, p.1 ≠ p.2)
    (hms : ∀ p ∈ ps, p.1 ∈ ms ∧ p.2 ∈ ms)
    (hs : Spliced ms U b s) : Spliced ms (U ++ ps.map (fun p => p.1)) b s' := by
  induction ps generalizing U s with
  | nil =>
    simp only [List.foldlM_nil, pure, Except.pure] at h
    cases h
    simpa using hs
  | cons p rest ih =>
    rw [List.foldlM_cons] at h
    obtain ⟨s1, h1, h2⟩ := except_bind_ok _ _ _ h
    obtain ⟨u, d⟩ := p
    have hud : u ≠ d := hne (u, d) (List.mem_cons_self _ _)
    obtain ⟨hum, hdm⟩ := hms (u, d) (List.mem_cons_self _ _)
    have huU : u ∉ U := by
      intro hm
      exact (List.nodup_append.mp hnd).2.2 hm (by simp)
    obtain ⟨up, down, up', p1, p2, p3, p4, p5, p6⟩ :=
      stitchPair_spliced bike walk s s1 u d hud h1
    obtain ⟨r1, r2, r3⟩ := hs
    have hupb : mapGet? b.mesoLinks u = some up := by
      rw [← r1 u huU]
      exact p1
    obtain ⟨downb, hdb, hds⟩ := r2 d down p2
    have hhead : ∀ x, ChainHead down x → HeadIn b.mesoLinks ms x := fun x hx =>
      ⟨d, hdm, downb, hdb, head_of_spliced _ downb down hds (hb2 d hdm downb hdb) x hx⟩
    have hs1 : Spliced ms (U ++ [u]) b s1 := by
      refine ⟨?_, ?_, ?_⟩
      · intro key hkey
        rw [List.mem_append, not_or, List.mem_singleton] at hkey
        rw [p4 key hkey.2, r1 key hkey.1]
      · intro key ml' hml'
        by_cases e : key = u
        · subst e
          rw [p3] at hml'
          cases hml'
          refine ⟨up, hupb, p5.1, p5.2.1, ?_⟩
          intro q c hq
          rcases p5.2.2 q c hq with e1 | ⟨x, e1, e2⟩
          · exact Or.inl e1
          · exact Or.inr ⟨x, hhead x e1, e2⟩
        · rw [p4 key e] at hml'
          exact r2 key ml' hml'
      · intro y
        rcases p6 y with e | ⟨q, c, x, e1, e2, e3, e4⟩
        · rcases r3 y with e' | ⟨key, hkey, ml, ml', q, c, x, e1, e2, e3, e4, e5, e6⟩
          · exact Or.inl (e.trans e')
          · by_cases ek : key = u
            · subst ek
              rw [p1] at e2
              cases e2
              rw [hupb] at e1
              cases e1
              rcases p5.2.2 q c e3 with f | ⟨x', f1, f2⟩
              · refine Or.inr ⟨key, hkey, up, up', q, c, x, hupb, p3, e3, e4, e5, ?_⟩
                rw [f, ← e6, e3]
              · exact Or.inr ⟨key, hkey, up, up', q, c, x', hupb, p3, e3, e4, hhead x' f1, f2⟩
            · exact Or.inr ⟨key, hkey, ml, ml', q, c, x, e1, (p4 key ek).trans e2, e3, e4, e5,
                e6⟩
        · exact Or.inr ⟨u, hum, up, up', q, c, x, hupb, p3, e1, e2, hhead x e3, e4⟩
    have := ih (U ++ [u]) s1 h2 (by simpa using hnd)
      (fun q hq => hne q (List.mem_cons_of_mem _ hq))
      (fun q hq => hms q (List.mem_cons_of_mem _ hq)) hs1
    simpa using this

theorem mem_set_last_pos (lane : List Int) (x y : Int)
    (h : y ∈ lane.set (lane.length - 1) x) :
    y = x ∨ ∃ p, p + 1 < lane.length ∧ lane[p]? = some y := by
  obtain ⟨i, hi⟩ := List.mem_iff_getElem?.mp h
  rw [List.getElem?_set] at hi
  split at hi
  · split at hi
    · cases hi
      exact Or.inl rfl
    · cases hi
  · rename_i hne
    have hlt : i < lane.length := by
      by_contra hc
      rw [List.getElem?_eq_none (by omega)] at hi
      cases hi
    exact Or.inr ⟨i, by omega, hi⟩

theorem inner_ne_last (c : List Int) (x : Int) (p : Nat) (hnd : c.Nodup)
    (hp : p + 1 < c.length) (h1 : (c)[p]? = some x) (h2 : c.getLast? = some x) : False := by
  rw [List.getLast?_eq_getElem?] at h2
  have hp1 : p < c.length := by omega
  have hp2 : c.length - 1 < c.length := by omega
  rw [List.getElem?_eq_getElem hp1, Option.some.injEq] at h1
  rw [List.getElem?_eq_getElem hp2, Option.some.injEq] at h2
  have := (List.Nodup.getElem_inj_iff hnd).mp (h1.trans h2.symm)
  omega

/-- In a build of the stitching loop every node ID of a chain is a key of the
node table: a deleted node was the last node of a chain whose last slot holds
another node, and it was in no other slot. -/
theorem spliced_present (bike walk : Bool) (n0 : Int) (ms U : List Int) (b1 b s : MicroBuild)
    (hmeso : b.mesoLinks = b1.mesoLinks)
    (hkept : ∀ x, (mapGet? b1.nodes x).isSome → (mapGet? b.nodes x).isSome)
    (hsd : SlotsDistinct b1.mesoLinks ms) (hcr : CellsReady bike walk n0 b1 ms)
    (hs : Spliced ms U b s) : ChainNodesPresent s ms := by
  obtain ⟨r1, r2, r3⟩ := hs
  rw [hmeso] at r2 r3
  intro m hm ml' hml' c' hc' x hx
  obtain ⟨mlb, hmlb, -, hlen, hch⟩ := r2 m ml' hml'
  obtain ⟨q', hq'⟩ := List.mem_iff_getElem?.mp hc'
  have hlt : q' < (laneChains mlb).length := by
    rw [laneChains_length, ← hlen, ← laneChains_length]
    by_contra hc
    rw [List.getElem?_eq_none (by omega)] at hq'
    cases hq'
  obtain ⟨c, hcq⟩ : ∃ c, (laneChains mlb)[q']? = some c := ⟨_, List.getElem?_eq_getElem hlt⟩
  have hx' : x ∈ c ∨ HeadIn b1.mesoLinks ms x := by
    rcases hch q' c hcq with e | ⟨h, e1, e2⟩
    · rw [hq'] at e
      cases e
      exact Or.inl hx
    · rw [hq'] at e2
      cases e2
      rcases mem_set_last c h x hx with e3 | e3
      · exact Or.inl e3
      · exact Or.inr (e3 ▸ e1)
  obtain ⟨ml0, f1, f2, f3, f4, f5, f6⟩ := hcr m hm
  rw [hmlb] at f1
  cases f1
  have hxb : (mapGet? b.nodes x).isSome := by
    apply hkept
    rcases hx' with e | ⟨m2, hm2, ml2, hml2, c2, hc2, hh⟩
    · obtain ⟨-, -, n, hn, -⟩ := f6 x (mem_flatten_of_chain _ c x (List.getElem?_mem hcq) e)
      rw [hn]
      rfl
    · obtain ⟨ml3, g1, -, -, -, -, g6⟩ := hcr m2 hm2
      rw [hml2] at g1
      cases g1
      obtain ⟨-, -, n, hn, -⟩ := g6 x (mem_flatten_of_chain _ c2 x hc2 (head?_mem _ _ hh))
      rw [hn]
      rfl
  rcases r3 x with e | ⟨key, hkey, mlk, mlk', q, c0, h0, e1, e2, e3, e4, e5, e6⟩
  · rw [e]
    exact hxb
  · exfalso
    have hlast : ChainLast mlk x := ⟨c0, List.getElem?_mem e3, e4⟩
    rcases hx' with e | hh
    · obtain ⟨em, eq⟩ := hsd m key mlb mlk q' q c c0 x hm hkey hmlb e1 hcq e3 e
        (getLast?_mem _ _ e4)
      subst em eq
      rw [hmlb] at e1
      cases e1
      rw [hcq] at e3
      cases e3
      rw [hml'] at e2
      cases e2
      rw [hq'] at e6
      cases e6
      have hnd : c.Nodup := (List.nodup_flatten.mp f5).1 c (List.getElem?_mem hcq)
      rcases mem_set_last_pos c h0 x hx with e7 | ⟨p, hp, e7⟩
      · subst e7
        obtain ⟨m2, hm2, ml2, hml2, hch2⟩ := e5
        exact head_not_last bike walk n0 b1 ms hsd hcr m2 m ml2 mlb hm2 hm hml2 hmlb x hch2 hlast
      · exact inner_ne_last c x p hnd hp e7 e4
    · obtain ⟨m2, hm2, ml2, hml2, hch2⟩ := hh
      exact head_not_last bike walk n0 b1 ms hsd hcr m2 key ml2 mlk hm2 hkey hml2 e1 x hch2 hlast

/-- The lanes of a mesoscopic link whose nodes are created have one length. -/
theorem createMesoNodes_even (P : GeoPrims) (bike walk : Bool) (o : ℚ) (s s' : MicroBuild)
    (m : Int) (ms : List Int) (h : createMesoNodes P bike walk o s m = .ok s')
    (hf : NoChains s.mesoLinks [m]) (he : EvenLanes s.mesoLinks ms) :
    EvenLanes s'.mesoLinks ms := by
  unfold createMesoNodes at h
  split at h
  · cases h
  rename_i ml hml
  split at h
  · cases h
  rename_i lc0 hlc
  cases h
  obtain ⟨f1, f2, f3⟩ := hf m (List.mem_singleton.mpr rfl) ml hml
  obtain ⟨t1, -⟩ := buildMesoNodes_tags P bike walk o lc0 ml s.nodes s.lastNodeID f1 f2 f3
  intro k hk mlk hmlk a ha c hc
  simp only at hmlk
  by_cases e : m = k
  · subst e
    rw [mapGet?_mapSet_same] at hmlk
    cases hmlk
    obtain ⟨i, hi⟩ := List.mem_iff_getElem?.mp ha
    obtain ⟨j, hj⟩ := List.mem_iff_getElem?.mp hc
    rw [(t1 i a hi).1, (t1 j c hj).1]
  · rw [mapGet?_mapSet_ne _ _ _ _ e] at hmlk
    exact he k hk mlk hmlk a ha c hc

theorem foldlM_createMesoNodes_even (P : GeoPrims) (bike walk : Bool) (o : ℚ)
    (rest ms : List Int) (s s' : MicroBuild)
    (h : rest.foldlM (createMesoNodes P bike walk o) s = .ok s')
    (hnd : rest.Nodup) (hf : NoChains s.mesoLinks rest) (he : EvenLanes s.mesoLinks ms) :
    EvenLanes s'.mesoLinks ms := by
  induction rest generalizing s with
  | nil =>
    simp only [List.foldlM_nil, pure, Except.pure] at h
    cases h
    exact he
  | cons m rest ih =>
    rw [List.foldlM_cons] at h
    obtain ⟨s1, h1, h2⟩ := except_bind_ok _ _ _ h
    have hmr : m ∉ rest := (List.nodup_cons.mp hnd).1
    have he1 := createMesoNodes_even P bike walk o s s1 m ms h1
      (fun k hk ml hml => hf k (by rw [List.mem_singleton.mp hk]; exact List.mem_cons_self _ _)
        ml hml) he
    have hf1 : NoChains s1.mesoLinks rest := by
      intro k hk ml hml
      have hne : k ≠ m := fun e => hmr (e ▸ hk)
      rw [(createMesoNodes_frame P bike walk o s s1 m h1).2.2 k hne] at hml
      exact hf k (List.mem_cons_of_mem _ hk) ml hml
    exact ih s1 h2 (List.nodup_cons.mp hnd).2 hf1 he1

/-- A loop whose body returns a build that keeps the invariant returns a build. -/
theorem foldlM_except_total {α β ε : Type} (Q : β → Prop) (f : β → α → Except ε β)
    (xs : List α) (init : β) (h0 : Q init)
    (hstep : ∀ s x, x ∈ xs → Q s → ∃ s', f s x = .ok s' ∧ Q s') :
    ∃ r, xs.foldlM f init = .ok r ∧ Q r := by
  induction xs generalizing init with
  | nil => exact ⟨init, rfl, h0⟩
  | cons x xs ih =>
    obtain ⟨s1, h1, q1⟩ := hstep init x (List.mem_cons_self _ _) h0
    obtain ⟨r, h2, q2⟩ := ih s1 q1 (fun s y hy hs => hstep s y (List.mem_cons_of_mem _ hy) hs)
    refine ⟨r, ?_, q2⟩
    rw [List.foldlM_cons, h1]
    exact h2

theorem sliceAt_of_lt {α : Type} (s : List α) (i : Nat) (h : i < s.length) :
    sliceAt s (i : Int) = .ok s[i] := by
  unfold sliceAt
  rw [if_pos (by omega)]
  simp [List.getElem?_eq_getElem h]

/-- A link between two nodes of the node table is created. -/
theorem addMicroLink_total (m : Int) (ty : LinkType) (ag : List AgentType) (f : Bool)
    (s : MicroBuild) (a b : Int) (ha : (mapGet? s.nodes a).isSome)
    (hb : (mapGet? s.nodes b).isSome) :
    ∃ s', addMicroLink m ty ag f s a b = .ok s' ∧ LinkKeeps s s' := by
  obtain ⟨na, hna⟩ := Option.isSome_iff_exists.mp ha
  obtain ⟨nb, hnb⟩ := Option.isSome_iff_exists.mp hb
  have hex : ∃ s', addMicroLink m ty ag f s a b = .ok s' := by
    unfold addMicroLink
    rw [hna]
    simp only
    rw [hnb]
    simp only
    rw [mapGet?_mapSet]
    split
    · rename_i hnone
      split at hnone
      · cases hnone
      · rw [hnb] at hnone
        cases hnone
    · exact ⟨_, rfl⟩
  obtain ⟨s', hs'⟩ := hex
  exact ⟨s', hs', addMicroLink_keeps m ty ag f s a b s' hs'⟩

theorem present_of_keeps (s t : MicroBuild) (h : LinkKeeps s t) (x : Int)
    (hx : (mapGet? s.nodes x).isSome) : (mapGet? t.nodes x).isSome := by
  obtain ⟨n, hn⟩ := Option.isSome_iff_exists.mp hx
  obtain ⟨n', hn', -⟩ := (h.2.2 x).2 n hn
  rw [hn']
  rfl

/-- The loop over the cells of a lane that links `lane[j]` to `other[j+1]`
returns when the lane `other` is as long as `lane` and the nodes of both are
in the node table. -/
theorem foldlM_linkCell_total (m : Int) (ty : LinkType) (ag : List AgentType)
    (lane other : List Int) (s : MicroBuild) (hlen : other.length = lane.length)
    (hl : ∀ x ∈ lane, (mapGet? s.nodes x).isSome)
    (ho : ∀ x ∈ other, (mapGet? s.nodes x).isSome) :
    ∃ s', (List.range (lane.length - 1)).foldlM (linkCell m ty ag lane other) s = .ok s'
      ∧ LinkKeeps s s' := by
  apply foldlM_except_total (fun t => LinkKeeps s t) _ _ _ (LinkKeeps_refl s)
  intro t j hj ht
  rw [List.mem_range] at hj
  have h1 : j < lane.length := by omega
  have h2 : j + 1 < other.length := by omega
  unfold linkCell
  have e2 : sliceAt other ((j : Int) + 1) = .ok other[j + 1] := by
    have := sliceAt_of_lt other (j + 1) h2
    rw [Nat.cast_add, Nat.cast_one] at this
    exact this
  rw [sliceAt_of_lt lane j h1, e2]
  obtain ⟨t', g1, g2⟩ := addMicroLink_total m ty ag false t lane[j] other[j + 1]
    (present_of_keeps s t ht _ (hl _ (List.getElem_mem h1)))
    (present_of_keeps s t ht _ (ho _ (List.getElem_mem h2)))
  exact ⟨t', g1, LinkKeeps_trans _ _ _ ht g2⟩

/-- The lane-change loop of a lane returns when the neighbour lane exists and is
as long as the lane, and the nodes of both are in the node table. -/
theorem foldlM_linkChange_total (m : Int) (ml : NetworkLinkMesoscopic) (ag : List AgentType)
    (lane : List Int) (nb : Nat) (s : MicroBuild) (hnb : nb < ml.microNodesPerLane.length)
    (hlen : (ml.microNodesPerLane[nb]).length = lane.length)
    (hl : ∀ x ∈ lane, (mapGet? s.nodes x).isSome)
    (ho : ∀ x ∈ ml.microNodesPerLane[nb], (mapGet? s.nodes x).isSome) :
    ∃ s', (List.range (lane.length - 1)).foldlM (linkChange m ml ag lane (nb : Int)) s = .ok s'
      ∧ LinkKeeps s s' := by
  apply foldlM_except_total (fun t => LinkKeeps s t) _ _ _ (LinkKeeps_refl s)
  intro t j hj ht
  rw [List.mem_range] at hj
  have h1 : j < lane.length := by omega
  have h2 : j + 1 < (ml.microNodesPerLane[nb]).length := by omega
  unfold linkChange
  have e2 : sliceAt ml.microNodesPerLane[nb] ((j : Int) + 1)
      = .ok (ml.microNodesPerLane[nb])[j + 1] := by
    have := sliceAt_of_lt ml.microNodesPerLane[nb] (j + 1) h2
    rw [Nat.cast_add, Nat.cast_one] at this
    exact this
  rw [sliceAt_of_lt lane j h1, sliceAt_of_lt ml.microNodesPerLane nb hnb]
  simp only [bind, Except.bind]
  rw [e2]
  obtain ⟨t', g1, g2⟩ := addMicroLink_total m LinkType.LINK_LANE_CHANGE ag false t lane[j]
    (ml.microNodesPerLane[nb])[j + 1]
    (present_of_keeps s t ht _ (hl _ (List.getElem_mem h1)))
    (present_of_keeps s t ht _ (ho _ (List.getElem_mem h2)))
  exact ⟨t', g1, LinkKeeps_trans _ _ _ ht g2⟩

theorem except_bind_total {α β ε : Type} (x : Except ε α) (f : α → Except ε β) (a : α) (b : β)
    (h1 : x = .ok a) (h2 : f a = .ok b) : (x >>= f) = .ok b := by
  rw [h1]
  exact h2

/-- The links of one lane of a mesoscopic link are created when the link has
as many lanes as `lanesNum`, of one length, with nodes in the node table. -/
theorem linkCarLane_total (m : Int) (ml : NetworkLinkMesoscopic) (ag : List AgentType)
    (s : MicroBuild) (i : Nat) (hi : i < ml.microNodesPerLane.length)
    (hnum : ml.microNodesPerLane.length = ml.lanesNum.toNat)
    (heven : ∀ a ∈ ml.microNodesPerLane, ∀ c ∈ ml.microNodesPerLane, a.length = c.length)
    (hpres : ∀ lane ∈ ml.microNodesPerLane, ∀ x ∈ lane, (mapGet? s.nodes x).isSome) :
    ∃ s', linkCarLane m ml ag s i = .ok s' ∧ LinkKeeps s s' := by
  have hlane : ml.microNodesPerLane[i] ∈ ml.microNodesPerLane := List.getElem_mem hi
  obtain ⟨s1, h1, k1⟩ := foldlM_linkCell_total m LinkType.LINK_FORWARD ag
    ml.microNodesPerLane[i] ml.microNodesPerLane[i] s rfl (hpres _ hlane) (hpres _ hlane)
  have hp1 : ∀ lane ∈ ml.microNodesPerLane, ∀ x ∈ lane, (mapGet? s1.nodes x).isSome :=
    fun lane hl x hx => present_of_keeps s s1 k1 x (hpres lane hl x hx)
  have hA : ∃ s2, (if (i : Int) ≤ ml.lanesNum - 2 then
      (List.range ((ml.microNodesPerLane[i]).length - 1)).foldlM
        (linkChange m ml ag ml.microNodesPerLane[i] ((i : Int) + 1)) s1
      else .ok s1) = .ok s2 ∧ LinkKeeps s1 s2 := by
    split
    · rename_i hc
      have hnb : i + 1 < ml.microNodesPerLane.length := by omega
      have hmem : ml.microNodesPerLane[i + 1] ∈ ml.microNodesPerLane := List.getElem_mem hnb
      have := foldlM_linkChange_total m ml ag ml.microNodesPerLane[i] (i + 1) s1 hnb
        (heven _ hmem _ hlane) (hp1 _ hlane) (hp1 _ hmem)
      rw [Nat.cast_add, Nat.cast_one] at this
      exact this
    · exact ⟨s1, rfl, LinkKeeps_refl s1⟩
  obtain ⟨s2, h2, k2⟩ := hA
  have hp2 : ∀ lane ∈ ml.microNodesPerLane, ∀ x ∈ lane, (mapGet? s2.nodes x).isSome :=
    fun lane hl x hx => present_of_keeps s1 s2 k2 x (hp1 lane hl x hx)
  have hB : ∃ s3, (if (i : Int) ≥ 1 then
      (List.range ((ml.microNodesPerLane[i]).length - 1)).foldlM
        (linkChange m ml ag ml.microNodesPerLane[i] ((i : Int) - 1)) s2
      else .ok s2) = .ok s3 ∧ LinkKeeps s2 s3 := by
    split
    · rename_i hc
      have hnb : i - 1 < ml.microNodesPerLane.length := by omega
      have hmem : ml.microNodesPerLane[i - 1] ∈ ml.microNodesPerLane := List.getElem_mem hnb
      have := foldlM_linkChange_total m ml ag ml.microNodesPerLane[i] (i - 1) s2 hnb
        (heven _ hmem _ hlane) (hp2 _ hlane) (hp2 _ hmem)
      have e : ((i - 1 : Nat) : Int) = (i : Int) - 1 := by omega
      rw [e] at this
      exact this
    · exact ⟨s2, rfl, LinkKeeps_refl s2⟩
  obtain ⟨s3, h3, k3⟩ := hB
  refine ⟨s3, ?_, LinkKeeps_trans _ _ _ k1 (LinkKeeps_trans _ _ _ k2 k3)⟩
  unfold linkCarLane
  exact except_bind_total _ _ _ _ (sliceAt_of_lt _ i hi)
    (except_bind_total _ _ _ _ h1 (except_bind_total _ _ _ _ h2 h3))

/-- The links of a mesoscopic link are created when the link has as many lanes
as `lanesNum`, of one length, and the nodes of its chains are in the node
table. -/
theorem createMesoLinks_total (ag : List AgentType) (bike walk : Bool) (s : MicroBuild)
    (m : Int) (ml : NetworkLinkMesoscopic) (hml : mapGet? s.mesoLinks m = some ml)
    (hnum : ml.microNodesPerLane.length = ml.lanesNum.toNat)
    (heven : ∀ a ∈ ml.microNodesPerLane, ∀ c ∈ ml.microNodesPerLane, a.length = c.length)
    (hpres : ∀ c ∈ laneChains ml, ∀ x ∈ c, (mapGet? s.nodes x).isSome) :
    ∃ s', createMesoLinks ag bike walk s m = .ok s' ∧ LinkKeeps s s' := by
  have hcar : ∀ lane ∈ ml.microNodesPerLane, lane ∈ laneChains ml := by
    intro lane hl
    unfold laneChains
    exact List.mem_append_left _ hl
  have hbm : ml.microNodesBikeLane ∈ laneChains ml := by simp [laneChains]
  have hwm : ml.microNodesWalkLane ∈ laneChains ml := by simp [laneChains]
  obtain ⟨s1, h1, k1⟩ : ∃ s1, (List.range ml.lanesNum.toNat).foldlM
      (linkCarLane m ml ag) s = .ok s1 ∧ LinkKeeps s s1 := by
    apply foldlM_except_total (fun t => LinkKeeps s t) _ _ _ (LinkKeeps_refl s)
    intro t i hi ht
    rw [List.mem_range] at hi
    obtain ⟨t', g1, g2⟩ := linkCarLane_total m ml ag t i (by omega) hnum heven
      (fun lane hl x hx => present_of_keeps s t ht x (hpres lane (hcar lane hl) x hx))
    exact ⟨t', g1, LinkKeeps_trans _ _ _ ht g2⟩
  obtain ⟨s2, h2, k2⟩ : ∃ s2, (if bike then
      (List.range (ml.microNodesBikeLane.length - 1)).foldlM
        (linkCell m LinkType.LINK_FORWARD [AgentType.AGENT_BIKE]
          ml.microNodesBikeLane ml.microNodesBikeLane) s1
      else .ok s1) = .ok s2 ∧ LinkKeeps s1 s2 := by
    split
    · exact foldlM_linkCell_total m _ _ _ _ s1 rfl
        (fun x hx => present_of_keeps s s1 k1 x (hpres _ hbm x hx))
        (fun x hx => present_of_keeps s s1 k1 x (hpres _ hbm x hx))
    · exact ⟨s1, rfl, LinkKeeps_refl s1⟩
  have k12 := LinkKeeps_trans _ _ _ k1 k2
  obtain ⟨s3, h3, k3⟩ : ∃ s3, (if walk then
      (List.range (ml.microNodesWalkLane.length - 1)).foldlM
        (linkCell m LinkType.LINK_FORWARD [AgentType.AGENT_WALK]
          ml.microNodesWalkLane ml.microNodesWalkLane) s2
      else .ok s2) = .ok s3 ∧ LinkKeeps s2 s3 := by
    split
    · exact foldlM_linkCell_total m _ _ _ _ s2 rfl
        (fun x hx => present_of_keeps s s2 k12 x (hpres _ hwm x hx))
        (fun x hx => present_of_keeps s s2 k12 x (hpres _ hwm x hx))
    · exact ⟨s2, rfl, LinkKeeps_refl s2⟩
  refine ⟨s3, ?_, LinkKeeps_trans _ _ _ k12 k3⟩
  unfold createMesoLinks
  rw [hml]
  exact except_bind_total _ _ _ _ h1 (except_bind_total _ _ _ _ h2 h3)

/-- The loop that creates the links of a macroscopic link returns when every
mesoscopic link has as many lanes as `lanesNum`, of one length, and the nodes
of all chains are in the node table. -/
theorem foldlM_createMesoLinks_total (ag : List AgentType) (bike walk : Bool) (ms : List Int)
    (s : MicroBuild)
    (hready : ∀ m ∈ ms, ∃ ml, mapGet? s.mesoLinks m = some ml
      ∧ ml.microNodesPerLane.length = ml.lanesNum.toNat
      ∧ ∀ a ∈ ml.microNodesPerLane, ∀ c ∈ ml.microNodesPerLane, a.length = c.length)
    (hpres : ChainNodesPresent s ms) :
    ∃ s', ms.foldlM (createMesoLinks ag bike walk) s = .ok s' ∧ LinkKeeps s s' := by
  apply foldlM_except_total (fun t => LinkKeeps s t) _ _ _ (LinkKeeps_refl s)
  intro t m hm ht
  obtain ⟨ml, g1, g2, g3⟩ := hready m hm
  obtain ⟨t', f1, f2⟩ := createMesoLinks_total ag bike walk t m ml (by rw [ht.1]; exact g1) g2 g3
    (fun c hc x hx => present_of_keeps s t ht x (hpres m hm ml g1 c hc x hx))
  exact ⟨t', f1, LinkKeeps_trans _ _ _ ht f2⟩

/-- The builds of a macroscopic link whose mesoscopic links are different and
have no nodes at the start: after the stitching loop every node ID of a chain
is a key of the node table, and the loop that creates the links returns. -/
theorem stitched_links_total (P : GeoPrims) (macroNodes : GoMap NetworkNode)
    (macroLink : NetworkLink) (ag : List AgentType) (bike walk : Bool) (o : ℚ)
    (st0 st1 st2 st3 : MicroBuild)
    (h1 : macroLink.mesolinks.foldlM (createMesoNodes P bike walk o) st0 = .ok st1)
    (h2 : markTargets macroNodes macroLink bike walk st1 = .ok st2)
    (h3 : (adjacentPairs macroLink.mesolinks).foldlM (stitchPair bike walk) st2 = .ok st3)
    (hnd : macroLink.mesolinks.Nodup) (hfresh : NoChains st0.mesoLinks macroLink.mesolinks) :
    ChainNodesPresent st3 macroLink.mesolinks
      ∧ ∃ st4, macroLink.mesolinks.foldlM (createMesoLinks ag bike walk) st3 = .ok st4 := by
  have hb0 : ChainsBuilt st0 [] :=
    ⟨fun _ _ _ _ _ _ _ _ _ hm => absurd hm (List.not_mem_nil _),
      fun _ hm => absurd hm (List.not_mem_nil _)⟩
  have hb1 : ChainsBuilt st1 macroLink.mesolinks := by
    have := foldlM_createMesoNodes_chains P bike walk o macroLink.mesolinks [] st0 st1 h1
      (by simpa using hnd) hb0 hfresh
    simpa using this
  have hcr0 : CellsReady bike walk st0.lastNodeID st0 [] :=
    fun _ hm => absurd hm (List.not_mem_nil _)
  obtain ⟨cr, -, -⟩ := foldlM_createMesoNodes_cells P bike walk o macroLink.mesolinks [] st0 st1
    st0.lastNodeID h1 (by simpa using hnd) (le_refl _) hcr0 hfresh
  rw [List.nil_append] at cr
  have he1 : EvenLanes st1.mesoLinks macroLink.mesolinks := by
    apply foldlM_createMesoNodes_even P bike walk o macroLink.mesolinks macroLink.mesolinks st0
      st1 h1 hnd hfresh
    intro m hm ml hml a ha
    rw [(hfresh m hm ml hml).1] at ha
    cases ha
  obtain ⟨m1, m2, m3⟩ := markTargets_chains macroNodes macroLink bike walk st1 st2 h2
  have hb2 : ∀ m ∈ macroLink.mesolinks, ∀ ml, mapGet? st2.mesoLinks m = some ml →
      ∀ c ∈ laneChains ml, c = [] ∨ 2 ≤ c.length := by
    intro m hm ml hml c hc
    obtain ⟨ml0, f1, f2, f3, f4, -, -⟩ := cr m hm
    rw [m1, f1] at hml
    cases hml
    exact chain_two bike walk _ c f2 f3 f4 hc
  have hms : ∀ p ∈ adjacentPairs macroLink.mesolinks,
      p.1 ∈ macroLink.mesolinks ∧ p.2 ∈ macroLink.mesolinks :=
    fun p hp => ⟨mem_adjacentPairs_left _ p.1 p.2 hp, mem_adjacentPairs_right _ p.1 p.2 hp⟩
  have hsp := foldlM_stitchPair_spliced macroLink.mesolinks bike walk st2 hb2
    (adjacentPairs macroLink.mesolinks) [] st2 st3 h3
    (by simpa using adjacentPairs_fst_nodup macroLink.mesolinks hnd)
    (adjacentPairs_ne macroLink.mesolinks hnd) hms (Spliced_start _ st2)
  have hpres : ChainNodesPresent st3 macroLink.mesolinks :=
    spliced_present bike walk st0.lastNodeID macroLink.mesolinks _ st1 st2 st3 m1 m3 hb1.1 cr hsp
  refine ⟨hpres, ?_⟩
  have SF := foldlM_stitchPair_frame bike walk _ st2 st3 h3
    (adjacentPairs_fst_nodup macroLink.mesolinks hnd) (adjacentPairs_ne macroLink.mesolinks hnd)
  have hready : ∀ m ∈ macroLink.mesolinks, ∃ ml, mapGet? st3.mesoLinks m = some ml
      ∧ ml.microNodesPerLane.length = ml.lanesNum.toNat
      ∧ ∀ a ∈ ml.microNodesPerLane, ∀ c ∈ ml.microNodesPerLane, a.length = c.length := by
    intro m hm
    obtain ⟨ml1, g1, g2, -, -⟩ := hb1.2 m hm
    rw [← m1] at g1
    obtain ⟨ml3, k1, k2, k3, k4, k5⟩ := SF.2.1 m ml1 g1
    refine ⟨ml3, k1, by rw [k4, k2, g2], ?_⟩
    have hlen : ∀ a ∈ ml3.microNodesPerLane, ∃ a1 ∈ ml1.microNodesPerLane,
        a.length = a1.length := by
      intro a ha
      obtain ⟨p, hp⟩ := List.mem_iff_getElem?.mp ha
      have hlt : p < ml1.microNodesPerLane.length := by
        rw [← k4]
        by_contra hc
        rw [List.getElem?_eq_none (by omega)] at hp
        cases hp
      obtain ⟨a', e1, e2, -⟩ := k5 p _ (List.getElem?_eq_getElem hlt)
      rw [hp] at e1
      cases e1
      exact ⟨_, List.getElem_mem hlt, e2⟩
    intro a ha c hc
    obtain ⟨a1, ha1, ea⟩ := hlen a ha
    obtain ⟨c1, hc1, ec⟩ := hlen c hc
    rw [ea, ec]
    rw [m1] at g1
    exact he1 m hm ml1 g1 a1 ha1 c1 hc1
  obtain ⟨st4, h4, -⟩ := foldlM_createMesoLinks_total ag bike walk macroLink.mesolinks st3
    hready hpres
  exact ⟨st4, h4⟩

/-! ## Lemmas on the incidence lists of the microscopic nodes -/

theorem EdgesSame_refl (n : NetworkNodeMicroscopic) : EdgesSame n n := ⟨rfl, rfl, rfl⟩

theorem EdgesSame_trans (a b c : NetworkNodeMicroscopic) (h1 : EdgesSame a b)
    (h2 : EdgesSame b c) : EdgesSame a c :=
  ⟨h2.1.trans h1.1, h2.2.1.trans h1.2.1, h2.2.2.trans h1.2.2⟩

theorem NodeStep_refl (s : MicroBuild) : NodeStep s s :=
  ⟨rfl, rfl, fun _ n h => Or.inl ⟨n, h, EdgesSame_refl n⟩,
    fun _ n h => Or.inl ⟨n, h, EdgesSame_refl n⟩⟩

theorem NodeStep_trans (a b c : MicroBuild) (h1 : NodeStep a b) (h2 : NodeStep b c) :
    NodeStep a c := by
  obtain ⟨a1, a2, a3, a4⟩ := h1
  obtain ⟨b1, b2, b3, b4⟩ := h2
  refine ⟨b1.trans a1, b2.trans a2, ?_, ?_⟩
  · intro y n hn
    rcases a3 y n hn with ⟨n1, g1, g2⟩ | g
    · rcases b3 y n1 g1 with ⟨n2, k1, k2⟩ | k
      · exact Or.inl ⟨n2, k1, EdgesSame_trans _ _ _ g2 k2⟩
      · exact Or.inr ⟨by rw [← g2.2.1]; exact k.1, by rw [← g2.2.2]; exact k.2⟩
    · exact Or.inr g
  · intro y n2 hn2
    rcases b4 y n2 hn2 with ⟨n1, g1, g2⟩ | g
    · rcases a4 y n1 g1 with ⟨n, k1, k2⟩ | k
      · exact Or.inl ⟨n, k1, EdgesSame_trans _ _ _ k2 g2⟩
      · exact Or.inr ⟨g2.1.trans k.1, g2.2.1.trans k.2.1, g2.2.2.trans k.2.2⟩
    · exact Or.inr g

/-- The agreement of the incidence lists with the links is kept by the steps
that keep the links and the incidence lists. -/
theorem Incident_of_nodeStep (s s' : MicroBuild) (h : NodeStep s s')
    (hI : Incident s.nodes s.links) : Incident s'.nodes s'.links := by
  obtain ⟨a1, a2, a3, a4⟩ := h
  obtain ⟨i1, i2⟩ := hI
  rw [a1]
  refine ⟨?_, ?_⟩
  · intro k l hl
    obtain ⟨e, ⟨ns, g1, g2⟩, ⟨nt, k1, k2⟩⟩ := i1 k l hl
    refine ⟨e, ?_, ?_⟩
    · rcases a3 _ ns g1 with ⟨n', f1, f2⟩ | f
      · exact ⟨n', f1, by rw [f2.2.2]; exact g2⟩
      · rw [f.2] at g2
        simp at g2
    · rcases a3 _ nt k1 with ⟨n', f1, f2⟩ | f
      · exact ⟨n', f1, by rw [f2.2.1]; exact k2⟩
      · rw [f.1] at k2
        simp at k2
  · intro x n' hn'
    rcases a4 x n' hn' with ⟨n, g1, g2⟩ | g
    · obtain ⟨e, o, i⟩ := i2 x n g1
      refine ⟨g2.1.trans e, ?_, ?_⟩
      · rw [g2.2.2]
        exact o
      · rw [g2.2.1]
        exact i
    · refine ⟨g.1, ?_, ?_⟩
      · rw [g.2.2]
        intro k hk
        simp at hk
      · rw [g.2.1]
        intro k hk
        simp at hk

theorem IncStep_refl (s : MicroBuild) : IncStep s s := fun h => h

theorem IncStep_trans (a b c : MicroBuild) (h1 : IncStep a b) (h2 : IncStep b c) :
    IncStep a c := fun h => h2 (h1 h)

/-- The nodes after `addMicroLink`: the source node has the new link ID at the
end of `outcomingLinks`, the target node at the end of `incomingLinks`, and
nothing else changes. -/
theorem addMicroLink_nodes (m : Int) (ty : LinkType) (ag : List AgentType) (f : Bool)
    (st : MicroBuild) (a b : Int) (st' : MicroBuild)
    (h : addMicroLink m ty ag f st a b = .ok st') :
    (∀ x n, mapGet? st.nodes x = some n → ∃ n', mapGet? st'.nodes x = some n'
        ∧ n'.ID = n.ID
        ∧ n'.outcomingLinks
            = (if a = x then n.outcomingLinks ++ [st.lastLinkID] else n.outcomingLinks)
        ∧ n'.incomingLinks
            = (if b = x then n.incomingLinks ++ [st.lastLinkID] else n.incomingLinks))
      ∧ (∀ x, mapGet? st.nodes x = none → mapGet? st'.nodes x = none)
      ∧ (mapGet? st.nodes a).isSome ∧ (mapGet? st.nodes b).isSome
      ∧ ∃ link, st'.links = mapSet st.links st.lastLinkID link ∧ link.ID = st.lastLinkID
          ∧ link.sourceNodeID = a ∧ link.targetNodeID = b := by
  obtain ⟨sn, tn, tn1, hsn, htn, htn1, rfl⟩ := addMicroLink_spec _ _ _ _ _ _ _ _ h
  refine ⟨?_, ?_, by rw [hsn]; rfl, by rw [htn]; rfl, _, rfl, rfl, rfl, rfl⟩
  · intro x n hn
    simp only
    rw [mapGet?_mapSet]
    by_cases hb : b = x
    · subst hb
      rw [if_pos rfl]
      rw [mapGet?_mapSet] at htn1
      by_cases ha : a = b
      · subst ha
        rw [if_pos rfl] at htn1
        cases htn1
        rw [hsn] at hn
        cases hn
        exact ⟨_, rfl, rfl, by simp, by simp⟩
      · rw [if_neg ha, htn] at htn1
        cases htn1
        rw [htn] at hn
        cases hn
        exact ⟨_, rfl, rfl, by simp [ha], by simp⟩
    · rw [if_neg hb, mapGet?_mapSet]
      by_cases ha : a = x
      · subst ha
        rw [if_pos rfl]
        rw [hsn] at hn
        cases hn
        exact ⟨_, rfl, rfl, by simp, by simp [hb]⟩
      · rw [if_neg ha, hn]
        exact ⟨_, rfl, rfl, by simp [ha], by simp [hb]⟩
  · intro x hx
    simp only
    have ha : ¬ a = x := by
      intro e
      subst e
      rw [hsn] at hx
      cases hx
    have hb : ¬ b = x := by
      intro e
      subst e
      rw [htn] at hx
      cases hx
    rw [mapGet?_mapSet, if_neg hb, mapGet?_mapSet, if_neg ha]
    exact hx

/-- A new link keeps the agreement of the incidence lists with the links. -/
theorem addMicroLink_incident (m : Int) (ty : LinkType) (ag : List AgentType) (f : Bool)
    (st : MicroBuild) (a b : Int) (st' : MicroBuild)
    (h : addMicroLink m ty ag f st a b = .ok st') : IncStep st st' := by
  intro hinv
  obtain ⟨hids, i1, i2⟩ := hinv
  refine ⟨addMicroLink_ids m ty ag f st a b st' h hids, ?_⟩
  obtain ⟨n1, n2, n3, n4, link, hl, hid, hsrc, htgt⟩ := addMicroLink_nodes m ty ag f st a b st' h
  have hfresh : mapGet? st.links st.lastLinkID = none := by
    have hd := hids.1 st.lastLinkID
    cases hlk : mapGet? st.links st.lastLinkID with
    | none => rfl
    | some v =>
      rw [hlk] at hd
      have := hd.mp rfl
      omega
  have hout : ∀ x n, mapGet? st.nodes x = some n → st.lastLinkID ∉ n.outcomingLinks := by
    intro x n hn hmem
    obtain ⟨l, hl', -⟩ := (i2 x n hn).2.1 _ hmem
    rw [hfresh] at hl'
    cases hl'
  have hin : ∀ x n, mapGet? st.nodes x = some n → st.lastLinkID ∉ n.incomingLinks := by
    intro x n hn hmem
    obtain ⟨l, hl', -⟩ := (i2 x n hn).2.2 _ hmem
    rw [hfresh] at hl'
    cases hl'
  have hback : ∀ x n', mapGet? st'.nodes x = some n' → ∃ n, mapGet? st.nodes x = some n
      ∧ n'.ID = n.ID
      ∧ n'.outcomingLinks
          = (if a = x then n.outcomingLinks ++ [st.lastLinkID] else n.outcomingLinks)
      ∧ n'.incomingLinks
          = (if b = x then n.incomingLinks ++ [st.lastLinkID] else n.incomingLinks) := by
    intro x n' hn'
    cases hx : mapGet? st.nodes x with
    | none =>
      rw [n2 x hx] at hn'
      cases hn'
    | some n =>
      obtain ⟨n'', g1, g2⟩ := n1 x n hx
      rw [hn'] at g1
      cases g1
      exact ⟨n, rfl, g2⟩
  rw [hl]
  refine ⟨?_, ?_⟩
  · intro k l hkl
    rw [mapGet?_mapSet] at hkl
    by_cases hk : st.lastLinkID = k
    · subst hk
      rw [if_pos rfl] at hkl
      cases hkl
      refine ⟨hid, ?_, ?_⟩
      · rw [hsrc]
        obtain ⟨na, hna⟩ := Option.isSome_iff_exists.mp n3
        obtain ⟨n', g1, -, g3, -⟩ := n1 a na hna
        refine ⟨n', g1, ?_⟩
        rw [g3, if_pos rfl, List.count_append, List.count_eq_zero_of_not_mem (hout a na hna)]
        simp
      · rw [htgt]
        obtain ⟨nb, hnb⟩ := Option.isSome_iff_exists.mp n4
        obtain ⟨n', g1, -, -, g4⟩ := n1 b nb hnb
        refine ⟨n', g1, ?_⟩
        rw [g4, if_pos rfl, List.count_append, List.count_eq_zero_of_not_mem (hin b nb hnb)]
        simp
    · rw [if_neg hk] at hkl
      obtain ⟨e, ⟨ns, s1, s2⟩, ⟨nt, t1, t2⟩⟩ := i1 k l hkl
      have hk' : ¬ k = st.lastLinkID := fun e' => hk e'.symm
      refine ⟨e, ?_, ?_⟩
      · obtain ⟨n', g1, -, g3, -⟩ := n1 _ ns s1
        refine ⟨n', g1, ?_⟩
        rw [g3]
        split
        · rw [List.count_append, s2]
          simp [hk']
        · exact s2
      · obtain ⟨n', g1, -, -, g4⟩ := n1 _ nt t1
        refine ⟨n', g1, ?_⟩
        rw [g4]
        split
        · rw [List.count_append, t2]
          simp [hk']
        · exact t2
  · intro x n' hn'
    obtain ⟨n, g0, g1, g2, g3⟩ := hback x n' hn'
    obtain ⟨e, o, i⟩ := i2 x n g0
    refine ⟨g1.trans e, ?_, ?_⟩
    · intro k hk
      rw [g2] at hk
      have hold : k ∈ n.outcomingLinks → ∃ l, mapGet? (mapSet st.links st.lastLinkID link) k
          = some l ∧ l.sourceNodeID = x := by
        intro hm
        obtain ⟨l, q1, q2⟩ := o k hm
        refine ⟨l, ?_, q2⟩
        rw [mapGet?_mapSet_ne _ _ _ _ (fun e' => by rw [← e', hfresh] at q1; cases q1)]
        exact q1
      split at hk
      · rename_i hax
        rcases List.mem_append.mp hk with hm | hm
        · exact hold hm
        · rw [List.mem_singleton] at hm
          subst hm
          exact ⟨link, mapGet?_mapSet_same _ _ _, hsrc.trans hax⟩
      · exact hold hk
    · intro k hk
      rw [g3] at hk
      have hold : k ∈ n.incomingLinks → ∃ l, mapGet? (mapSet st.links st.lastLinkID link) k
          = some l ∧ l.targetNodeID = x := by
        intro hm
        obtain ⟨l, q1, q2⟩ := i k hm
        refine ⟨l, ?_, q2⟩
        rw [mapGet?_mapSet_ne _ _ _ _ (fun e' => by rw [← e', hfresh] at q1; cases q1)]
        exact q1
      split at hk
      · rename_i hbx
        rcases List.mem_append.mp hk with hm | hm
        · exact hold hm
        · rw [List.mem_singleton] at hm
          subst hm
          exact ⟨link, mapGet?_mapSet_same _ _ _, htgt.trans hbx⟩
      · exact hold hk

theorem fold_addLaneNode_bare (a b : Int) (pts : List (Point × Point))
    (nodes : GoMap NetworkNodeMicroscopic) (n : Int) (ids : List Int) (k : Int)
    (v : NetworkNodeMicroscopic)
    (h : mapGet? (pts.foldl (addLaneNode a b) (nodes, n, ids)).1 k = some v) :
    mapGet? nodes k = some v ∨ BareNode k v := by
  induction pts generalizing nodes n ids with
  | nil => exact Or.inl h
  | cons p rest ih =>
    have hstep : (p :: rest).foldl (addLaneNode a b) (nodes, n, ids)
        = rest.foldl (addLaneNode a b)
          (mapSet nodes n (newMicroNode n p a b), n + 1, ids ++ [n]) := rfl
    rw [hstep] at h
    rcases ih _ _ _ h with h1 | h1
    · rw [mapGet?_mapSet] at h1
      by_cases e : n = k
      · subst e
        simp only [if_true, Option.some.injEq] at h1
        subst h1
        exact Or.inr ⟨rfl, rfl, rfl⟩
      · simp only [e, if_false] at h1
        exact Or.inl h1
    · exact Or.inr h1

theorem fold_addCarLane_bare (g : List (List (Point × Point))) (is : List Nat)
    (nodes : GoMap NetworkNodeMicroscopic) (n : Int) (ml : NetworkLinkMesoscopic) (k : Int)
    (v : NetworkNodeMicroscopic)
    (h : mapGet? (is.foldl (addCarLane g) (nodes, n, ml)).1 k = some v) :
    mapGet? nodes k = some v ∨ BareNode k v := by
  induction is generalizing nodes n ml with
  | nil => exact Or.inl h
  | cons i rest ih =>
    have hstep : (i :: rest).foldl (addCarLane g) (nodes, n, ml)
        = rest.foldl (addCarLane g) (addCarLane g (nodes, n, ml) i) := rfl
    rw [hstep] at h
    have hnodes : (addCarLane g (nodes, n, ml) i).1
        = ((g.getD i []).foldl (addLaneNode ml.ID ((i : Int) + 1)) (nodes, n, [])).1 := rfl
    rcases ih (addCarLane g (nodes, n, ml) i).1 (addCarLane g (nodes, n, ml) i).2.1
      (addCarLane g (nodes, n, ml) i).2.2 h with h1 | h1
    · rw [hnodes] at h1
      exact fold_addLaneNode_bare _ _ _ _ _ _ k v h1
    · exact Or.inr h1

/-- An entry of the node table after `buildMesoNodes` is an entry of the table
before or a node without incident links stored under its ID. -/
theorem buildMesoNodes_bare (P : GeoPrims) (bike walk : Bool) (o : ℚ) (lc0 : Int)
    (ml : NetworkLinkMesoscopic) (nodes : GoMap NetworkNodeMicroscopic) (n : Int) (k : Int)
    (v : NetworkNodeMicroscopic)
    (h : mapGet? (buildMesoNodes P bike walk o lc0 ml nodes n).1 k = some v) :
    mapGet? nodes k = some v ∨ BareNode k v := by
  unfold buildMesoNodes at h
  simp only at h
  rcases fold_addLaneNode_bare _ _ _ _ _ _ k v h with h1 | h1
  swap
  · exact Or.inr h1
  rcases fold_addLaneNode_bare _ _ _ _ _ _ k v h1 with h2 | h2
  swap
  · exact Or.inr h2
  exact fold_addCarLane_bare _ _ _ _ _ k v h2

/-- The creation of the nodes of a mesoscopic link without nodes keeps the
nodes and adds nodes without incident links. -/
theorem createMesoNodes_nodeStep (P : GeoPrims) (bike walk : Bool) (o : ℚ) (s s' : MicroBuild)
    (m : Int) (h : createMesoNodes P bike walk o s m = .ok s')
    (hf : NoChains s.mesoLinks [m]) (hk : KeysBelow s.nodes s.lastNodeID) : NodeStep s s' := by
  unfold createMesoNodes at h
  split at h
  · cases h
  rename_i ml hml
  split at h
  · cases h
  rename_i lc0 hlc
  cases h
  obtain ⟨f1, f2, f3⟩ := hf m (List.mem_singleton.mpr rfl) ml hml
  obtain ⟨-, -, -, -, -, -, c7, -⟩ :=
    buildMesoNodes_chains P bike walk o lc0 ml s.nodes s.lastNodeID f1 f2 f3
  refine ⟨rfl, rfl, ?_, ?_⟩
  · intro y n hn
    refine Or.inl ⟨n, ?_, EdgesSame_refl n⟩
    simp only
    rw [c7 y (hk y (by rw [hn]; rfl)).2]
    exact hn
  · intro y n' hn'
    rcases buildMesoNodes_bare P bike walk o lc0 ml s.nodes s.lastNodeID y n' hn' with e | e
    · exact Or.inl ⟨n', e, EdgesSame_refl n'⟩
    · exact Or.inr e

theorem foldlM_createMesoNodes_nodeStep (P : GeoPrims) (bike walk : Bool) (o : ℚ)
    (rest : List Int) (s s' : MicroBuild)
    (h : rest.foldlM (createMesoNodes P bike walk o) s = .ok s')
    (hnd : rest.Nodup) (hf : NoChains s.mesoLinks rest) (hids : IdsInv s) :
    NodeStep s s' ∧ IdsInv s' := by
  induction rest generalizing s with
  | nil =>
    simp only [List.foldlM_nil, pure, Except.pure] at h
    cases h
    exact ⟨NodeStep_refl _, hids⟩
  | cons m rest ih =>
    rw [List.foldlM_cons] at h
    obtain ⟨s1, h1, h2⟩ := except_bind_ok _ _ _ h
    have hmr : m ∉ rest := (List.nodup_cons.mp hnd).1
    have n1 := createMesoNodes_nodeStep P bike walk o s s1 m h1
      (fun k hk ml hml => hf k (by rw [List.mem_singleton.mp hk]; exact List.mem_cons_self _ _)
        ml hml) hids.2.1
    have hf1 : NoChains s1.mesoLinks rest := by
      intro k hk ml hml
      have hne : k ≠ m := fun e => hmr (e ▸ hk)
      rw [(createMesoNodes_frame P bike walk o s s1 m h1).2.2 k hne] at hml
      exact hf k (List.mem_cons_of_mem _ hk) ml hml
    obtain ⟨n2, i2⟩ := ih s1 h2 (List.nodup_cons.mp hnd).2 hf1
      (createMesoNodes_ids P bike walk o s s1 m h1 hids)
    exact ⟨NodeStep_trans _ _ _ n1 n2, i2⟩

theorem markUpstream_nodeStep (z : Int) (s : MicroBuild) (k : Int) (s' : MicroBuild)
    (h : markUpstream z s k = .ok s') : NodeStep s s' := by
  unfold markUpstream at h
  split at h
  · cases h
  rename_i n hn
  cases h
  refine ⟨rfl, rfl, ?_, ?_⟩
  · intro y v hv
    simp only
    rw [mapGet?_mapSet]
    by_cases e : k = y
    · subst e
      rw [hn] at hv
      cases hv
      exact Or.inl ⟨{ n with isLinkUpstreamTargetNode := true, zoneID := z },
        by rw [if_pos rfl], rfl, rfl, rfl⟩
    · rw [if_neg e]
      exact Or.inl ⟨v, hv, EdgesSame_refl v⟩
  · intro y v' hv'
    simp only at hv'
    rw [mapGet?_mapSet] at hv'
    by_cases e : k = y
    · subst e
      rw [if_pos rfl] at hv'
      cases hv'
      exact Or.inl ⟨n, hn, rfl, rfl, rfl⟩
    · rw [if_neg e] at hv'
      exact Or.inl ⟨v', hv', EdgesSame_refl v'⟩

theorem markDownstream_nodeStep (z : Int) (s : MicroBuild) (k : Int) (s' : MicroBuild)
    (h : markDownstream z s k = .ok s') : NodeStep s s' := by
  unfold markDownstream at h
  split at h
  · cases h
  rename_i n hn
  cases h
  refine ⟨rfl, rfl, ?_, ?_⟩
  · intro y v hv
    simp only
    rw [mapGet?_mapSet]
    by_cases e : k = y
    · subst e
      rw [hn] at hv
      cases hv
      exact Or.inl ⟨{ n with isLinkDownstreamTargetNode := true, zoneID := z },
        by rw [if_pos rfl], rfl, rfl, rfl⟩
    · rw [if_neg e]
      exact Or.inl ⟨v, hv, EdgesSame_refl v⟩
  · intro y v' hv'
    simp only at hv'
    rw [mapGet?_mapSet] at hv'
    by_cases e : k = y
    · subst e
      rw [if_pos rfl] at hv'
      cases hv'
      exact Or.inl ⟨n, hn, rfl, rfl, rfl⟩
    · rw [if_neg e] at hv'
      exact Or.inl ⟨v', hv', EdgesSame_refl v'⟩

/-- The stitching loop keeps the links and the link counter. -/
theorem foldlM_stitchPair_links (ms : List Int) (bike walk : Bool) (s s' : MicroBuild)
    (h : (adjacentPairs ms).foldlM (stitchPair bike walk) s = .ok s') :
    s'.links = s.links ∧ s'.lastLinkID = s.lastLinkID := by
  have hrefl : ∀ a : MicroBuild, a.links = a.links ∧ a.lastLinkID = a.lastLinkID :=
    fun _ => ⟨rfl, rfl⟩
  have htrans : ∀ a b c : MicroBuild, (b.links = a.links ∧ b.lastLinkID = a.lastLinkID) →
      (c.links = b.links ∧ c.lastLinkID = b.lastLinkID) →
      (c.links = a.links ∧ c.lastLinkID = a.lastLinkID) :=
    fun _ _ _ h1 h2 => ⟨h2.1.trans h1.1, h2.2.trans h1.2⟩
  refine foldlM_except_rel
    (fun (a b : MicroBuild) => b.links = a.links ∧ b.lastLinkID = a.lastLinkID) _ _ _ _
    hrefl htrans ?_ h
  intro a p b _ hf
  refine stitchPair_rel
    (fun (a b : MicroBuild) => b.links = a.links ∧ b.lastLinkID = a.lastLinkID)
    hrefl htrans p ?_ ?_ ?_ bike walk a b hf
  · intro us ds t j t' hh
    exact ⟨(stitchLane_frame p.1 p.2 us ds t j t' hh).1,
      (stitchLane_frame p.1 p.2 us ds t j t' hh).2.1⟩
  · intro t t' hh
    exact ⟨(stitchBike_frame p.1 p.2 t t' hh).1, (stitchBike_frame p.1 p.2 t t' hh).2.1⟩
  · intro t t' hh
    exact ⟨(stitchWalk_frame p.1 p.2 t t' hh).1, (stitchWalk_frame p.1 p.2 t t' hh).2.1⟩

/-- The body of the loop over the macroscopic links keeps the agreement of the
incidence lists with the links, for a macroscopic link whose mesoscopic links
are different and have no nodes yet. -/
theorem processMacroLink_incident (P : GeoPrims) (macroNodes : GoMap NetworkNode) (sep : Bool)
    (s s' : MicroBuild) (M : NetworkLink)
    (h : processMacroLink P macroNodes sep s M = .ok s')
    (hnd : M.mesolinks.Nodup) (hno : NoChains s.mesoLinks M.mesolinks) : IncStep s s' := by
  intro hinv
  obtain ⟨hids, hI⟩ := hinv
  obtain ⟨ag, bike, walk, o, st1, h1, hrest⟩ := processMacroLink_steps P macroNodes sep s s' M h
  obtain ⟨ns1, ids1⟩ := foldlM_createMesoNodes_nodeStep P bike walk o M.mesolinks s st1 h1 hnd
    hno hids
  rcases hrest with ⟨-, rfl⟩ | ⟨st2, st3, h2, h3, h4⟩
  · exact ⟨ids1, Incident_of_nodeStep s _ ns1 hI⟩
  -- the marks
  have ns2 : NodeStep st1 st2 := markTargets_rel NodeStep NodeStep_refl NodeStep_trans
    (fun z a k b hh => markUpstream_nodeStep z a k b hh)
    (fun z a k b hh => markDownstream_nodeStep z a k b hh) macroNodes M bike walk st1 st2 h2
  have ids2 : IdsInv st2 := markTargets_rel (fun a b => IdsInv a → IdsInv b) (fun _ hh => hh)
    (fun _ _ _ g1 g2 hh => g2 (g1 hh))
    (fun z a k b hh hi => markUpstream_ids z a b k hh hi)
    (fun z a k b hh hi => markDownstream_ids z a b k hh hi) macroNodes M bike walk st1 st2 h2
    ids1
  -- the nodes of the chains are new and have no incident links
  have hcr0 : CellsReady bike walk s.lastNodeID s [] :=
    fun _ hm => absurd hm (List.not_mem_nil _)
  obtain ⟨cr, -, -⟩ := foldlM_createMesoNodes_cells P bike walk o M.mesolinks [] s st1
    s.lastNodeID h1 (by simpa using hnd) (le_refl _) hcr0 hno
  rw [List.nil_append] at cr
  obtain ⟨m1, -, -⟩ := markTargets_chains macroNodes M bike walk st1 st2 h2
  have hbare2 : ∀ x n, mapGet? st2.nodes x = some n → s.lastNodeID ≤ x → BareNode x n := by
    intro x n hn hx
    rcases (NodeStep_trans _ _ _ ns1 ns2).2.2.2 x n hn with ⟨n0, g1, -⟩ | g
    · have := (hids.2.1 x (by rw [g1]; rfl)).2
      omega
    · exact g
  -- the stitching
  have SF := foldlM_stitchPair_frame bike walk _ st2 st3 h3
    (adjacentPairs_fst_nodup M.mesolinks hnd) (adjacentPairs_ne M.mesolinks hnd)
  have hU : ∀ key ∈ (adjacentPairs M.mesolinks).map (fun p => p.1), key ∈ M.mesolinks := by
    intro key hkey
    obtain ⟨p, hp, rfl⟩ := List.mem_map.mp hkey
    exact mem_adjacentPairs_left _ p.1 p.2 hp
  obtain ⟨l3, k3⟩ := foldlM_stitchPair_links M.mesolinks bike walk st2 st3 h3
  have ns3 : NodeStep st2 st3 := by
    refine ⟨l3, k3, ?_, ?_⟩
    · intro y n hn
      rcases SF.2.2.2 y with e | ⟨key, hkey, ml, q, c, c1, c2, c3⟩
      · exact Or.inl ⟨n, e.trans hn, EdgesSame_refl n⟩
      · rw [m1] at c1
        obtain ⟨ml0, d1, -, -, -, -, d6⟩ := cr key (hU key hkey)
        rw [c1] at d1
        cases d1
        have hlow := (d6 y (ChainLast_in ml y ⟨c, List.getElem?_mem c2, c3⟩)).1
        exact Or.inr (hbare2 y n hn hlow).2
    · intro y n' hn'
      rcases (foldlM_stitchPair_keeps M.mesolinks bike walk st2 st3 h3).2.2.2 y with e | e
      · exact Or.inl ⟨n', by rw [← e]; exact hn', EdgesSame_refl n'⟩
      · rw [e] at hn'
        cases hn'
  have ids3 : IdsInv st3 := foldlM_except_inv IdsInv _ _ _ _ ids2
    (fun a p b _ ha hf => stitchPair_rel (fun a b => IdsInv a → IdsInv b) (fun _ hh => hh)
      (fun _ _ _ g1 g2 hh => g2 (g1 hh)) p
      (fun us ds t j t' hh hi => stitchLane_ids p.1 p.2 us ds t j t' hh hi)
      (fun t t' hh hi => stitchBike_ids p.1 p.2 t t' hh hi)
      (fun t t' hh hi => stitchWalk_ids p.1 p.2 t t' hh hi) bike walk a b hf ha) h3
  have hI3 : Incident st3.nodes st3.links :=
    Incident_of_nodeStep s st3 (NodeStep_trans _ _ _ (NodeStep_trans _ _ _ ns1 ns2) ns3) hI
  -- the links
  exact foldlM_except_rel IncStep _ _ _ _ IncStep_refl IncStep_trans
    (fun a m b _ hf => createMesoLinks_rel IncStep IncStep_refl IncStep_trans m
      (fun ty ag' t x y t' hh => addMicroLink_incident m ty ag' false t x y t' hh)
      ag bike walk a b hf) h4 ⟨ids3, hI3⟩

/-- The loop over macroscopic links whose mesoscopic links are all different
and have no nodes yet keeps the agreement of the incidence lists with the
links. -/
theorem foldlM_processMacroLink_incident (P : GeoPrims) (macroNodes : GoMap NetworkNode)
    (sep : Bool) (xs : List NetworkLink) (s s' : MicroBuild)
    (h : xs.foldlM (processMacroLink P macroNodes sep) s = .ok s')
    (hnd : (xs.map (fun M => M.mesolinks)).flatten.Nodup)
    (hno : ∀ M ∈ xs, NoChains s.mesoLinks M.mesolinks) : IncStep s s' := by
  induction xs generalizing s with
  | nil =>
    simp only [List.foldlM_nil, pure, Except.pure] at h
    cases h
    exact IncStep_refl _
  | cons M rest ih =>
    rw [List.foldlM_cons] at h
    obtain ⟨s1, h1, h2⟩ := except_bind_ok _ _ _ h
    rw [List.map_cons, List.flatten_cons] at hnd
    obtain ⟨n1, n2, n3⟩ := List.nodup_append.mp hnd
    have o1 := processMacroLink_incident P macroNodes sep s s1 M h1 n1
      (hno M (List.mem_cons_self _ _))
    have f1 := processMacroLink_mesoFrame P macroNodes sep s s1 M h1
    have hno1 : ∀ M' ∈ rest, NoChains s1.mesoLinks M'.mesolinks := by
      intro M' hM' k hk ml hml
      have hkr : k ∈ (rest.map (fun M => M.mesolinks)).flatten :=
        List.mem_flatten.mpr ⟨M'.mesolinks, List.mem_map.mpr ⟨M', hM', rfl⟩, hk⟩
      have hkM : k ∉ M.mesolinks := fun hm => n3 hm hkr
      rw [f1 k hkM] at hml
      exact hno M' (List.mem_cons_of_mem _ hM') k hk ml hml
    exact IncStep_trans _ _ _ o1 (ih s1 h2 n2 hno1)

/-- A new node of a movement lane keeps the agreement of the incidence lists
with the links. -/
theorem insertMovementNode_incident (m l : Int) (s : MicroBuild) (pt : Point × Point) :
    IncStep s (insertMovementNode m l s pt) := by
  intro hinv
  obtain ⟨hids, hI⟩ := hinv
  refine ⟨insertMovementNode_ids m l s pt hids, ?_⟩
  apply Incident_of_nodeStep s _ _ hI
  unfold insertMovementNode
  refine ⟨rfl, rfl, ?_, ?_⟩
  · intro y n hn
    have hlt := (hids.2.1 y (by rw [hn]; rfl)).2
    refine Or.inl ⟨n, ?_, EdgesSame_refl n⟩
    simp only
    rw [mapGet?_mapSet_ne _ _ _ _ (by omega)]
    exact hn
  · intro y n' hn'
    simp only at hn'
    rw [mapGet?_mapSet] at hn'
    by_cases e : s.lastNodeID = y
    · subst e
      rw [if_pos rfl] at hn'
      cases hn'
      exact Or.inr ⟨rfl, rfl, rfl⟩
    · rw [if_neg e] at hn'
      exact Or.inl ⟨n', hn', EdgesSame_refl n'⟩

/-- The method `connectLinks` keeps the agreement of the incidence lists with
the links. -/
theorem connectLinks_incident (P : GeoPrims) (st st' : MicroBuild)
    (h : connectLinks P st = .ok st') : IncStep st st' :=
  connectLinks_rel IncStep IncStep_refl IncStep_trans
    (fun m l s pt => insertMovementNode_incident m l s pt)
    (fun m ty ag f s a b s' hh => addMicroLink_incident m ty ag f s a b s' hh)
    (fun _ _ _ _ _ hi => hi)
    P st st' h

/-- The method `updateBoundaryType` keeps the agreement of the incidence lists
with the links. -/
theorem updateBoundaryType_incident (mesoLinks : GoMap NetworkLinkMesoscopic)
    (mesoNodes : GoMap NetworkNodeMesoscopic) (nodes nodes' : GoMap NetworkNodeMicroscopic)
    (links : GoMap NetworkLinkMicroscopic)
    (h : updateBoundaryType mesoLinks mesoNodes nodes = .ok nodes')
    (hI : Incident nodes links) : Incident nodes' links := by
  have hrule := updateBoundaryType_rule mesoLinks mesoNodes nodes nodes' h
  have hsame : ∀ n n' : NetworkNodeMicroscopic, SameButBoundary n n' → EdgesSame n n' := by
    intro n n' hs
    unfold SameButBoundary at hs
    rw [hs]
    exact ⟨rfl, rfl, rfl⟩
  refine Incident_of_nodeStep ⟨nodes, links, 0, 0, []⟩ ⟨nodes', links, 0, 0, []⟩
    ⟨rfl, rfl, ?_, ?_⟩ hI
  · intro y n hn
    obtain ⟨n', g1, g2, -⟩ := (hrule y).2 n hn
    exact Or.inl ⟨n', g1, hsame n n' g2⟩
  · intro y n' hn'
    simp only at hn' ⊢
    cases hy : mapGet? nodes y with
    | none =>
      rw [(hrule y).1 hy] at hn'
      cases hn'
    | some n =>
      obtain ⟨n'', g1, g2, -⟩ := (hrule y).2 n hy
      rw [hn'] at g1
      cases g1
      exact Or.inl ⟨n, rfl, hsame n n' g2⟩

/-- The network of `genMicroscopicNetwork` for macroscopic links whose
mesoscopic links are all different and have no nodes at the start: the
incidence lists agree with the links. -/
theorem genMicroscopicNetwork_incident (P : GeoPrims) (macroLinks : GoMap NetworkLink)
    (macroNodes : GoMap NetworkNode) (mesoLinks : GoMap NetworkLinkMesoscopic)
    (mesoNodes : GoMap NetworkNodeMesoscopic) (sep : Bool) (net : NetworkMicroscopic)
    (mesoLinks' : GoMap NetworkLinkMesoscopic)
    (h : genMicroscopicNetwork P macroLinks macroNodes mesoLinks mesoNodes sep
      = .ok (net, mesoLinks'))
    (hno : ∀ kv ∈ mesoLinks, kv.2.microNodesPerLane = [] ∧ kv.2.microNodesBikeLane = []
      ∧ kv.2.microNodesWalkLane = [])
    (hnd : ((macroLinks.map (fun kv => kv.2)).map (fun M => M.mesolinks)).flatten.Nodup) :
    Incident net.nodes net.links := by
  unfold genMicroscopicNetwork at h
  obtain ⟨st, hb, h⟩ := except_bind_ok _ _ _ h
  obtain ⟨st', hc, h⟩ := except_bind_ok _ _ _ h
  obtain ⟨nodes, hu, h⟩ := except_bind_ok _ _ _ h
  cases h
  unfold buildCells at hb
  have h0 : IncInv (⟨[], [], 0, 0, mesoLinks⟩ : MicroBuild) := by
    refine ⟨⟨?_, ?_, ?_, ?_, le_refl _, le_refl _⟩, ?_, ?_⟩
    · intro k; simp [mapGet?]
    · intro k hk; simp [mapGet?] at hk
    · simp [KeysUnique]
    · simp [KeysUnique]
    · intro k l hl
      cases hl
    · intro x n hn
      cases hn
  have i1 : IncInv st := foldlM_processMacroLink_incident P macroNodes sep _ _ st hb hnd
    (fun M _ m _ ml hml => hno (m, ml) (mapGet?_mem _ _ _ hml)) h0
  have i2 : IncInv st' := connectLinks_incident P st st' hc i1
  exact updateBoundaryType_incident _ mesoNodes _ nodes _ hu i2.2

/-! ## Theorems on the restriction stage -/

/-- C1: for an entry `(way from, way to, node via)` of a `no_*` tag with both
ways in the extract, no edge with `SourceOSMWayID == from` and
`TargetOSMWayID == to` survives the restriction stage, the stage only deletes
(its output is a sublist of its input: kept edges are unmodified and in order),
the deletion step run for the entry turns any current list into exactly the
list of its edges that do not go from `from` to `to`, and so does the whole
stage when the entry is the table. -/
theorem no_restriction_removes_exactly
    (T T2 : RestrictionTable) (W : List Int) (es : List ExpandedEdge)
    (tag : String) (k : List (restrictionComponent × List (restrictionComponent × restrictionComponent)))
    (j : restrictionComponent) (v : List (restrictionComponent × restrictionComponent))
    (n via : restrictionComponent)
    (hT : (tag, k) ∈ T) (hk : (j, v) ∈ k) (hv : (n, via) ∈ v)
    (htag : tag = "no_left_turn" ∨ tag = "no_right_turn" ∨ tag = "no_straight_on")
    (hj : j.Typ = "way") (hn : n.Typ = "way") (hvia : via.Typ = "node")
    (hjW : j.ID ∈ W) (hnW : n.ID ∈ W) :
    (∀ e ∈ applyRestrictions T T2 W es,
        ¬ (e.SourceOSMWayID = j.ID ∧ e.TargetOSMWayID = n.ID))
    ∧ (applyRestrictions T T2 W es).Sublist es
    ∧ (∀ cur : List ExpandedEdge, noStepTo W j.ID cur (n, via)
        = cur.filter (fun e => decide (¬ (e.SourceOSMWayID = j.ID ∧ e.TargetOSMWayID = n.ID))))
    ∧ applyRestrictions [(tag, [(j, [(n, via)])])] [(tag, [(j, [(n, via)])])] W es
        = es.filter (fun e => decide (¬ (e.SourceOSMWayID = j.ID ∧ e.TargetOSMWayID = n.ID))) := by
  have hno : isNoTag tag = true := by
    rcases htag with h | h | h <;> subst h <;> decide
  have honly : isOnlyTag tag = false := by
    rcases htag with h | h | h <;> subst h <;> decide
  refine ⟨?_, ?_, ?_, ?_⟩
  · intro e he ⟨h1, h2⟩
    rw [applyRestrictions_eq_filter, List.mem_filter] at he
    have hdrop : T.any (fun ik => dropNoTag W ik e) = true := by
      rw [List.any_eq_true]
      refine ⟨(tag, k), hT, ?_⟩
      simp only [dropNoTag, hno, Bool.true_and, List.any_eq_true]
      refine ⟨(j, v), hk, ?_⟩
      simp only [dropNoFrom, Bool.and_eq_true, List.any_eq_true]
      refine ⟨⟨by simp [hj], by simpa using hjW⟩, (n, via), hv, ?_⟩
      simp [dropNoTo, keepNo, hn, hvia, hnW, h1, h2]
    simp [hdrop] at he
  · rw [applyRestrictions_eq_filter]
    exact List.filter_sublist _
  · intro cur
    rw [noStepTo_eq]
    congr 1
    funext e
    simp [dropNoTo, keepNo, hn, hvia, hnW]
    tauto
  · rw [applyRestrictions_eq_filter]
    congr 1
    funext e
    simp [dropNoTag, dropOnlyTag, dropNoFrom, dropNoTo, keepNo, hno, honly, hj, hn, hvia, hjW,
      hnW]
    tauto

/-- Witness of C1: `no_left_turn` from way 10 to way 20 via node 5. -/
theorem no_restriction_removes_exactly_witness :
    applyRestrictions [("no_left_turn", [(⟨10, "way"⟩, [(⟨20, "way"⟩, ⟨5, "node"⟩)])])]
        [("no_left_turn", [(⟨10, "way"⟩, [(⟨20, "way"⟩, ⟨5, "node"⟩)])])] [10, 20, 30] exEdges
      = exEdges.filter (fun e => decide (¬ (e.SourceOSMWayID = 10 ∧ e.TargetOSMWayID = 20)))
    ∧ exEdges.filter (fun e => decide (¬ (e.SourceOSMWayID = 10 ∧ e.TargetOSMWayID = 20)))
      = [exEdge 2 10 30 5, exEdge 3 20 10 5, exEdge 4 10 30 6] :=
  ⟨(no_restriction_removes_exactly
    [("no_left_turn", [(⟨10, "way"⟩, [(⟨20, "way"⟩, ⟨5, "node"⟩)])])]
    [("no_left_turn", [(⟨10, "way"⟩, [(⟨20, "way"⟩, ⟨5, "node"⟩)])])] [10, 20, 30] exEdges
    "no_left_turn" [(⟨10, "way"⟩, [(⟨20, "way"⟩, ⟨5, "node"⟩)])] ⟨10, "way"⟩
    [(⟨20, "way"⟩, ⟨5, "node"⟩)] ⟨20, "way"⟩ ⟨5, "node"⟩
    (by simp) (by simp) (by simp) (Or.inl rfl) rfl rfl rfl (by decide) (by decide)).2.2.2,
   by decide⟩

/-- C2: for an entry `(way from, way to, node via)` of an `only_*` tag with both
ways in the extract, no edge with `SourceOSMWayID == from`,
`TargetOSMWayID != to` and `SourceComponent.TargetNodeID == via` survives the
restriction stage, the deletion step run for the entry turns any current list
into exactly the list of its edges that are not of that kind (so it keeps every
edge from `from` to `to` and every edge leaving `from` at another node), and so
does the whole stage when the entry is the table. -/
theorem only_restriction_removes_exactly
    (T T2 : RestrictionTable) (W : List Int) (es : List ExpandedEdge)
    (tag : String) (k : List (restrictionComponent × List (restrictionComponent × restrictionComponent)))
    (j : restrictionComponent) (v : List (restrictionComponent × restrictionComponent))
    (n via : restrictionComponent)
    (hT : (tag, k) ∈ T2) (hk : (j, v) ∈ k) (hv : (n, via) ∈ v)
    (htag : tag = "only_left_turn" ∨ tag = "only_right_turn" ∨ tag = "only_straight_on")
    (hj : j.Typ = "way") (hn : n.Typ = "way") (hvia : via.Typ = "node")
    (hjW : j.ID ∈ W) (hnW : n.ID ∈ W) :
    (∀ e ∈ applyRestrictions T T2 W es,
        ¬ (e.SourceOSMWayID = j.ID ∧ e.TargetOSMWayID ≠ n.ID
            ∧ e.SourceComponent.TargetNodeID = via.ID))
    ∧ (∀ cur : List ExpandedEdge, onlyStepTo W j.ID cur (n, via)
        = cur.filter (fun e => decide (¬ (e.SourceOSMWayID = j.ID ∧ e.TargetOSMWayID ≠ n.ID
            ∧ e.SourceComponent.TargetNodeID = via.ID))))
    ∧ (∀ cur : List ExpandedEdge, ∀ e ∈ cur,
        (e.TargetOSMWayID = n.ID ∨ e.SourceComponent.TargetNodeID ≠ via.ID) →
          e ∈ onlyStepTo W j.ID cur (n, via))
    ∧ applyRestrictions [(tag, [(j, [(n, via)])])] [(tag, [(j, [(n, via)])])] W es
        = es.filter (fun e => decide (¬ (e.SourceOSMWayID = j.ID ∧ e.TargetOSMWayID ≠ n.ID
            ∧ e.SourceComponent.TargetNodeID = via.ID))) := by
  have hno : isNoTag tag = false := by
    rcases htag with h | h | h <;> subst h <;> decide
  have honly : isOnlyTag tag = true := by
    rcases htag with h | h | h <;> subst h <;> decide
  have hstep : ∀ cur : List ExpandedEdge, onlyStepTo W j.ID cur (n, via)
        = cur.filter (fun e => decide (¬ (e.SourceOSMWayID = j.ID ∧ e.TargetOSMWayID ≠ n.ID
            ∧ e.SourceComponent.TargetNodeID = via.ID))) := by
    intro cur
    rw [onlyStepTo_eq]
    congr 1
    funext e
    simp [dropOnlyTo, keepOnly, hn, hvia, hnW]
    by_cases a : e.SourceOSMWayID = j.ID <;> by_cases b : e.TargetOSMWayID = n.ID <;>
      by_cases c : e.SourceComponent.TargetNodeID = via.ID <;> simp [a, b, c]
  refine ⟨?_, hstep, ?_, ?_⟩
  · intro e he ⟨h1, h2, h3⟩
    rw [applyRestrictions_eq_filter, List.mem_filter] at he
    have hdrop : T2.any (fun ik => dropOnlyTag W ik e) = true := by
      rw [List.any_eq_true]
      refine ⟨(tag, k), hT, ?_⟩
      simp only [dropOnlyTag, honly, Bool.true_and, List.any_eq_true]
      refine ⟨(j, v), hk, ?_⟩
      simp only [dropOnlyFrom, Bool.and_eq_true, List.any_eq_true]
      refine ⟨⟨by simp [hj], by simpa using hjW⟩, (n, via), hv, ?_⟩
      simp [dropOnlyTo, keepOnly, hn, hvia, hnW, h1, h2, h3]
    simp [hdrop] at he
  · intro cur e he hor
    rw [hstep, List.mem_filter]
    refine ⟨he, ?_⟩
    rcases hor with h | h <;> simp [h]
  · rw [applyRestrictions_eq_filter]
    congr 1
    funext e
    simp [dropNoTag, dropOnlyTag, dropOnlyFrom, dropOnlyTo, keepOnly, hno, honly, hj, hn, hvia,
      hjW, hnW]
    by_cases a : e.SourceOSMWayID = j.ID <;> by_cases b : e.TargetOSMWayID = n.ID <;>
      by_cases c : e.SourceComponent.TargetNodeID = via.ID <;> simp [a, b, c]

/-- Witness of C2: `only_straight_on` from way 10 to way 30 via node 5 deletes
the turn 10 → 20 at node 5 and keeps the rest. -/
theorem only_restriction_removes_exactly_witness :
    applyRestrictions [("only_straight_on", [(⟨10, "way"⟩, [(⟨30, "way"⟩, ⟨5, "node"⟩)])])]
        [("only_straight_on", [(⟨10, "way"⟩, [(⟨30, "way"⟩, ⟨5, "node"⟩)])])] [10, 20, 30]
        (exEdge 5 10 20 6 :: exEdges)
      = (exEdge 5 10 20 6 :: exEdges).filter (fun e => decide (¬ (e.SourceOSMWayID = 10
          ∧ e.TargetOSMWayID ≠ 30 ∧ e.SourceComponent.TargetNodeID = 5)))
    ∧ (exEdge 5 10 20 6 :: exEdges).filter (fun e => decide (¬ (e.SourceOSMWayID = 10
          ∧ e.TargetOSMWayID ≠ 30 ∧ e.SourceComponent.TargetNodeID = 5)))
      = [exEdge 5 10 20 6, exEdge 2 10 30 5, exEdge 3 20 10 5, exEdge 4 10 30 6] :=
  ⟨(only_restriction_removes_exactly
    [("only_straight_on", [(⟨10, "way"⟩, [(⟨30, "way"⟩, ⟨5, "node"⟩)])])]
    [("only_straight_on", [(⟨10, "way"⟩, [(⟨30, "way"⟩, ⟨5, "node"⟩)])])] [10, 20, 30]
    (exEdge 5 10 20 6 :: exEdges)
    "only_straight_on" [(⟨10, "way"⟩, [(⟨30, "way"⟩, ⟨5, "node"⟩)])] ⟨10, "way"⟩
    [(⟨30, "way"⟩, ⟨5, "node"⟩)] ⟨30, "way"⟩ ⟨5, "node"⟩
    (by simp) (by simp) (by simp) (Or.inr (Or.inr rfl)) rfl rfl rfl (by decide) (by decide)).2.2.2,
   by decide⟩

theorem exSliced_expanded :
    expandEdges findOutComingEdges exFindMiddlePoint exSliced = some [exExpanded] := rfl

/-! ## Theorems on edge expansion -/

/-- C3: every expanded edge produced by edge expansion was emitted for a pair
of edges `e` (source) and `f` (target) of the edge list, and its `CostMeters`
is `(e.CostMeters + f.CostMeters) / 2`, the `float64` value of this expression:
the sum of the two costs rounded to `float64`, halved and rounded. -/
theorem expanded_cost_is_half_sum (fo : Edge → List Edge → List Int)
    (fm : List GeoPoint → Int × GeoPoint) (edges : List Edge) (out : List ExpandedEdge)
    (h : expandEdges fo fm edges = some out) (x : ExpandedEdge) (hx : x ∈ out) :
    ∃ e f, EmittedFor fo fm edges x e f ∧ x.Source = e.ID ∧ x.Target = f.ID
      ∧ x.CostMeters = float64Div (float64Add e.CostMeters f.CostMeters) 2 := by
  obtain ⟨e, f, hef⟩ := expandEdges_emitted fo fm edges out h x hx
  obtain ⟨id, hid⟩ := hef.2.2.2.2.2.2
  have hp := expandPair_some fm id e f x hid
  exact ⟨e, f, hef, hp.2.2.2.2.2.1, hp.2.2.2.2.2.2.1, hp.2.2.2.2.2.2.2.2.2.1⟩

/-- Witness of C3: the turn from edge 1 (cost 2) into edge 3 (cost 4). -/
theorem expanded_cost_is_half_sum_witness :
    ∃ e f, EmittedFor findOutComingEdges exFindMiddlePoint exSliced exExpanded e f
      ∧ exExpanded.Source = e.ID ∧ exExpanded.Target = f.ID
      ∧ exExpanded.CostMeters = float64Div (float64Add e.CostMeters f.CostMeters) 2 :=
  expanded_cost_is_half_sum findOutComingEdges exFindMiddlePoint exSliced [exExpanded]
    exSliced_expanded exExpanded (List.mem_singleton.mpr rfl)

/-- C4: no expanded edge is emitted for a pair `e`, `f` with
`e.Geom[first] == f.Geom[last]` and `e.Geom[last] == f.Geom[first]`; and on the
edge list built by edge slicing no expanded edge goes from the forward edge of
a slice to the reversed edge emitted for the same slice, or back. -/
theorem no_uturn_expanded_edge (fo : Edge → List Edge → List Int)
    (fm : List GeoPoint → Int × GeoPoint) :
    (∀ (edges : List Edge) (out : List ExpandedEdge), expandEdges fo fm edges = some out →
      ∀ x ∈ out, ∃ e f, EmittedFor fo fm edges x e f ∧ x.Source = e.ID ∧ x.Target = f.ID
        ∧ ¬ (e.Geom.head? = f.Geom.getLast? ∧ e.Geom.getLast? = f.Geom.head?))
    ∧ (∀ (gsl : List GeoPoint → ℚ) (nodes : Int → Option Node) (ways : List Way)
        (out : List ExpandedEdge),
        expandEdges fo fm (prepareEdges gsl nodes ways) = some out →
        ∀ (id : Int) (way : Way) (s t : Int) (c : ℚ) (g : List GeoPoint),
          forwardEdge id way s t c g ∈ prepareEdges gsl nodes ways →
          reversedEdge (id + 1) way s t c g ∈ prepareEdges gsl nodes ways →
          ∀ x ∈ out, ¬ (x.Source = id ∧ x.Target = id + 1)
            ∧ ¬ (x.Source = id + 1 ∧ x.Target = id)) := by
  constructor
  · intro edges out h x hx
    obtain ⟨e, f, hef⟩ := expandEdges_emitted fo fm edges out h x hx
    obtain ⟨id, hid⟩ := hef.2.2.2.2.2.2
    have hp := expandPair_some fm id e f x hid
    refine ⟨e, f, hef, hp.2.2.2.2.2.1, hp.2.2.2.2.2.2.1, ?_⟩
    have hc := hef.2.2.2.2.2.1
    intro hcyc
    simp [isCycle, hcyc.1, hcyc.2] at hc
  · intro gsl nodes ways out h id way s t c g hfwd hrev x hx
    obtain ⟨e, f, hef⟩ := expandEdges_emitted fo fm _ out h x hx
    obtain ⟨id2, hid⟩ := hef.2.2.2.2.2.2
    have hp := expandPair_some fm id2 e f x hid
    have hc := hef.2.2.2.2.2.1
    have hS : x.Source = e.ID := hp.2.2.2.2.2.1
    have hT : x.Target = f.ID := hp.2.2.2.2.2.2.1
    constructor
    · rintro ⟨h1, h2⟩
      have he : e = forwardEdge id way s t c g :=
        prepareEdges_id_inj gsl nodes ways _ _ hef.1 hfwd (by rw [← hS, h1]; rfl)
      have hf : f = reversedEdge (id + 1) way s t c g :=
        prepareEdges_id_inj gsl nodes ways _ _ hef.2.1 hrev (by rw [← hT, h2]; rfl)
      rw [he, hf] at hc
      simp [isCycle, forwardEdge, reversedEdge, copyLine, reverseLine] at hc
    · rintro ⟨h1, h2⟩
      have he : e = reversedEdge (id + 1) way s t c g :=
        prepareEdges_id_inj gsl nodes ways _ _ hef.1 hrev (by rw [← hS, h1]; rfl)
      have hf : f = forwardEdge id way s t c g :=
        prepareEdges_id_inj gsl nodes ways _ _ hef.2.1 hfwd (by rw [← hT, h2]; rfl)
      rw [he, hf] at hc
      simp [isCycle, forwardEdge, reversedEdge, copyLine, reverseLine] at hc

theorem exWays_expanded :
    expandEdges findOutComingEdges exFindMiddlePoint (prepareEdges exLength exNodes exWays)
      = some exWaysExpanded := rfl

theorem exWays_sliced :
    prepareEdges exLength exNodes exWays
      = [⟨1, 10, 1, 2, 2, [⟨0, 0⟩, ⟨2, 0⟩], false⟩, ⟨2, 10, 2, 1, 2, [⟨2, 0⟩, ⟨0, 0⟩], false⟩,
         ⟨3, 10, 2, 3, 2, [⟨2, 0⟩, ⟨4, 0⟩], false⟩, ⟨4, 10, 3, 2, 2, [⟨4, 0⟩, ⟨2, 0⟩], false⟩,
         ⟨5, 20, 2, 4, 2, [⟨2, 0⟩, ⟨2, 2⟩], true⟩] := by
  decide

/-- Witness of C4: on the sliced `exWays` the turns are 1 → 3, 1 → 5, 4 → 2 and
4 → 5; none goes from edge 1 to its reverse 2 or back. -/
theorem no_uturn_expanded_edge_witness :
    exWaysExpanded.map (fun x => (x.Source, x.Target)) = [(1, 3), (1, 5), (4, 2), (4, 5)]
    ∧ ∀ x ∈ exWaysExpanded, ¬ (x.Source = 1 ∧ x.Target = 1 + 1)
        ∧ ¬ (x.Source = 1 + 1 ∧ x.Target = 1) :=
  ⟨by decide,
   (no_uturn_expanded_edge findOutComingEdges exFindMiddlePoint).2 exLength exNodes exWays
    exWaysExpanded exWays_expanded 1 ⟨10, false, [1, 2, 3], []⟩ 1 2 2 [⟨0, 0⟩, ⟨2, 0⟩]
    (by rw [exWays_sliced]; decide) (by rw [exWays_sliced]; decide)⟩

/-- C5: every expanded edge produced by edge expansion was emitted for a pair
`e`, `f` with `findMiddlePoint(e.Geom) = (bi, me)` and
`findMiddlePoint(f.Geom) = (bj, mf)` such that its `Geom` is
`[me] ++ e.Geom[bi+1:] ++ f.Geom[:bj+1] ++ [mf]` (both slices within bounds);
its first point is `me` and its last point is `mf`. -/
theorem expanded_geom_composed (fo : Edge → List Edge → List Int)
    (fm : List GeoPoint → Int × GeoPoint) (edges : List Edge) (out : List ExpandedEdge)
    (h : expandEdges fo fm edges = some out) (x : ExpandedEdge) (hx : x ∈ out) :
    ∃ e f, EmittedFor fo fm edges x e f ∧ x.Source = e.ID ∧ x.Target = f.ID
      ∧ 0 ≤ (fm e.Geom).1 + 1 ∧ (fm e.Geom).1 + 1 ≤ e.Geom.length
      ∧ 0 ≤ (fm f.Geom).1 + 1 ∧ (fm f.Geom).1 + 1 ≤ f.Geom.length
      ∧ x.Geom = [(fm e.Geom).2] ++ e.Geom.drop ((fm e.Geom).1 + 1).toNat
          ++ f.Geom.take ((fm f.Geom).1 + 1).toNat ++ [(fm f.Geom).2]
      ∧ x.Geom.head? = some (fm e.Geom).2 ∧ x.Geom.getLast? = some (fm f.Geom).2 := by
  obtain ⟨e, f, hef⟩ := expandEdges_emitted fo fm edges out h x hx
  obtain ⟨id, hid⟩ := hef.2.2.2.2.2.2
  have hp := expandPair_some fm id e f x hid
  obtain ⟨b1, b2, b3, b4, -, hS, hT, -, -, -, hG⟩ := hp
  refine ⟨e, f, hef, hS, hT, b1, b2, b3, b4, hG, ?_, ?_⟩
  · rw [hG]; simp
  · rw [hG, List.getLast?_append]; simp

/-- Witness of C5: the geometry of the turn from edge 1 into edge 3. -/
theorem expanded_geom_composed_witness :
    ∃ e f, EmittedFor findOutComingEdges exFindMiddlePoint exSliced exExpanded e f
      ∧ exExpanded.Source = e.ID ∧ exExpanded.Target = f.ID
      ∧ 0 ≤ (exFindMiddlePoint e.Geom).1 + 1 ∧ (exFindMiddlePoint e.Geom).1 + 1 ≤ e.Geom.length
      ∧ 0 ≤ (exFindMiddlePoint f.Geom).1 + 1 ∧ (exFindMiddlePoint f.Geom).1 + 1 ≤ f.Geom.length
      ∧ exExpanded.Geom = [(exFindMiddlePoint e.Geom).2]
          ++ e.Geom.drop ((exFindMiddlePoint e.Geom).1 + 1).toNat
          ++ f.Geom.take ((exFindMiddlePoint f.Geom).1 + 1).toNat ++ [(exFindMiddlePoint f.Geom).2]
      ∧ exExpanded.Geom.head? = some (exFindMiddlePoint e.Geom).2
      ∧ exExpanded.Geom.getLast? = some (exFindMiddlePoint f.Geom).2 :=
  expanded_geom_composed findOutComingEdges exFindMiddlePoint exSliced [exExpanded]
    exSliced_expanded exExpanded (List.mem_singleton.mpr rfl)


/-- C25: a restriction whose tag is none of `no_left_turn`, `no_right_turn`,
`no_straight_on`, `only_left_turn`, `only_right_turn`, `only_straight_on`, or
whose `from` or `to` member is not a way, or whose `via` member is not a node,
or whose `from` way or `to` way is not among the ways seen, leaves the
expanded-edge list unchanged: the bodies of both loops run for it return
every current list as it is, so does the whole stage when the restriction is
the table, and in any table the stage gives the same list with the restriction
as without it. -/
theorem ignored_restriction_is_frame
    (W : List Int) (tag : String) (j n via : restrictionComponent)
    (h : (tag ≠ "no_left_turn" ∧ tag ≠ "no_right_turn" ∧ tag ≠ "no_straight_on"
          ∧ tag ≠ "only_left_turn" ∧ tag ≠ "only_right_turn" ∧ tag ≠ "only_straight_on")
        ∨ j.Typ ≠ "way" ∨ n.Typ ≠ "way" ∨ via.Typ ≠ "node" ∨ j.ID ∉ W ∨ n.ID ∉ W) :
    (∀ cur : List ExpandedEdge,
        noStepTag W cur (tag, [(j, [(n, via)])]) = cur
        ∧ onlyStepTag W cur (tag, [(j, [(n, via)])]) = cur)
    ∧ (∀ es : List ExpandedEdge,
        applyRestrictions [(tag, [(j, [(n, via)])])] [(tag, [(j, [(n, via)])])] W es = es)
    ∧ (∀ (T T2 : RestrictionTable) (es : List ExpandedEdge),
        applyRestrictions T T2 W es
          = applyRestrictions (removeEntry T tag j n via) (removeEntry T2 tag j n via) W es) := by
  have hI : RestrictionIgnored W tag j n via := by
    rcases h with h | h
    · exact Or.inl ((tag_handled_iff tag).mpr h)
    · exact Or.inr h
  have hno : ∀ e, dropNoTag W (tag, [(j, [(n, via)])]) e = false := by
    intro e
    rcases hI with h | h | h | h | h | h
    · simp [dropNoTag, h.1]
    all_goals simp [dropNoTag, dropNoFrom, dropNoTo, h]
  have honly : ∀ e, dropOnlyTag W (tag, [(j, [(n, via)])]) e = false := by
    intro e
    rcases hI with h | h | h | h | h | h
    · simp [dropOnlyTag, h.2]
    all_goals simp [dropOnlyTag, dropOnlyFrom, dropOnlyTo, h]
  refine ⟨?_, ?_, ?_⟩
  · intro cur
    rw [noStepTag_eq, onlyStepTag_eq]
    simp [hno, honly]
  · intro es
    rw [applyRestrictions_eq_filter]
    simp [hno, honly]
  · intro T T2 es
    rw [applyRestrictions_eq_filter, applyRestrictions_eq_filter]
    congr 1
    funext e
    rw [dropNoTag_removeEntry W tag j n via hI, dropOnlyTag_removeEntry W tag j n via hI]

/-- Witness of C25: a `no_u_turn` restriction from way 10 to way 20 via node 5
leaves the example list as it is. -/
theorem ignored_restriction_is_frame_witness :
    applyRestrictions [("no_u_turn", [(⟨10, "way"⟩, [(⟨20, "way"⟩, ⟨5, "node"⟩)])])]
        [("no_u_turn", [(⟨10, "way"⟩, [(⟨20, "way"⟩, ⟨5, "node"⟩)])])] [10, 20, 30] exEdges
      = exEdges :=
  (ignored_restriction_is_frame [10, 20, 30] "no_u_turn" ⟨10, "way"⟩ ⟨20, "way"⟩ ⟨5, "node"⟩
    (Or.inl ⟨by decide, by decide, by decide, by decide, by decide, by decide⟩)).2.1 exEdges
/-! ## Theorems on mesoscopic segmentation -/

theorem exShortLink_segmented :
    genMesoscopicNetwork (fun _ => 1) (fun l => l) [(1, exShortLink)]
      = .ok [(1, { exShortLink with
          breakpoints := [0, 0], lanesList := [1], lanesChange := [[0, 0]] })] := by
  unfold genMesoscopicNetwork
  rw [segmentLink_short _ _ _ (show exShortLink.lengthMeters ≤ resolution by decide)]
  rfl

/-- C10, as stated, fails: the link of 3 m is left with the breakpoint list
`[0, 0]`, which is not empty. -/
theorem short_link_breakpoints_not_empty :
    exShortLink.lengthMeters ≤ resolution
    ∧ genMesoscopicNetwork (fun _ => 1) (fun l => l) [(1, exShortLink)]
        = .ok [(1, { exShortLink with
            breakpoints := [0, 0], lanesList := [1], lanesChange := [[0, 0]] })]
    ∧ ({ exShortLink with
          breakpoints := [0, 0], lanesList := [1], lanesChange := [[0, 0]] }).breakpoints ≠ [] := by
  exact ⟨by decide, exShortLink_segmented, by simp⟩

/-- C10, amended: after `genMesoscopicNetwork` every macroscopic link whose
length is at most the resolution has a breakpoint list of two entries and
hence exactly one segment (one entry of `lanesList`, with the lane count of the
link). -/
theorem short_link_two_breakpoints (G : NetworkLink → Int) (order : List Nat → List Nat)
    (links links' : GoMap NetworkLink) (h : genMesoscopicNetwork G order links = .ok links')
    (k : Int) (link : NetworkLink) (hk : mapGet? links k = some link)
    (hshort : link.lengthMeters ≤ resolution) :
    ∃ link', mapGet? links' k = some link' ∧ link'.breakpoints.length = 2
      ∧ link'.lanesList = [G { link with breakpoints := link'.breakpoints }] := by
  obtain ⟨link', h1, h2⟩ := genMesoscopicNetwork_get G order links links' h k link hk
  rw [segmentLink_short G order link hshort] at h2
  cases h2
  exact ⟨_, h1, rfl, rfl⟩

/-- Witness of the amended C10 on the link of 3 m. -/
theorem short_link_two_breakpoints_witness :
    ∃ link', mapGet? [(1, { exShortLink with
          breakpoints := [0, 0], lanesList := [1], lanesChange := [[0, 0]] })] 1 = some link'
      ∧ link'.breakpoints.length = 2
      ∧ link'.lanesList
        = [(fun _ => 1) { exShortLink with breakpoints := link'.breakpoints }] :=
  short_link_two_breakpoints (fun _ => 1) (fun l => l) [(1, exShortLink)] _
    exShortLink_segmented 1 exShortLink (by simp [mapGet?]) (by decide)

/-- C11 fails on the code for a link of 3 m without breakpoints: the claim asks
for a last breakpoint equal to the length, 3, and `genMesoscopicNetwork` leaves
the breakpoints `[0, 0]`, whose last element is 0 (line 27 makes a list of the
length of `{0, length}` and does not copy it). -/
theorem short_link_last_breakpoint_zero :
    exShortLink.breakpoints = [] ∧ exShortLink.lengthMeters = 3
    ∧ ∃ link', genMesoscopicNetwork (fun _ => 1) (fun l => l) [(1, exShortLink)]
        = .ok [(1, link')]
      ∧ link'.breakpoints = [0, 0] ∧ link'.breakpoints.getLast? = some 0
      ∧ link'.breakpoints.getLast? ≠ some link'.lengthMeters :=
  ⟨rfl, rfl, _, exShortLink_segmented, rfl, rfl, by decide⟩

/-- C11 on the links for which the code agrees with it: for a macroscopic link
without breakpoints whose length is 0 or more than the resolution,
`genMesoscopicNetwork` (which returns for every table, if the iteration over
the index set `remove` visits every index once) leaves a breakpoint list that
is sorted ascending, begins with 0 and ends with the length of the link. -/
theorem breakpoints_span_link (G : NetworkLink → Int) (order : List Nat → List Nat)
    (horder : ∀ l, (order l).Perm l) (links : GoMap NetworkLink) (k : Int)
    (link : NetworkLink) (hk : mapGet? links k = some link) (hbp : link.breakpoints = [])
    (hlen : link.lengthMeters = 0 ∨ resolution < link.lengthMeters) :
    ∃ links' link', genMesoscopicNetwork G order links = .ok links'
      ∧ mapGet? links' k = some link'
      ∧ link'.breakpoints.Pairwise (fun a b => a ≤ b)
      ∧ link'.breakpoints.head? = some 0
      ∧ link'.breakpoints.getLast? = some link.lengthMeters := by
  obtain ⟨links', h⟩ := genMesoscopicNetwork_total G order horder links
  obtain ⟨link', h1, h2⟩ := genMesoscopicNetwork_get G order links links' h k link hk
  refine ⟨links', link', h, h1, ?_⟩
  rcases hlen with h0 | hlong
  · rw [segmentLink_short G order link (by rw [h0]; decide)] at h2
    cases h2
    simp [h0]
  · obtain ⟨bs, hbs, e⟩ := segmentLink_long G order horder link hlong
    rw [e] at h2
    cases h2
    have h5 : (5 : ℚ) < link.lengthMeters := hlong
    have hpos : (0 : ℚ) ≤ link.lengthMeters := by linarith
    have hsort : bs = [0, link.lengthMeters] := by
      rw [hbs, hbp]
      simp [List.insertionSort, List.orderedInsert, hpos]
    simp [hsort, hpos]

/-- Witness of `breakpoints_span_link`: a link of 12 m. -/
theorem breakpoints_span_link_witness :
    ∃ links' link', genMesoscopicNetwork (fun _ => 1) (fun l => l) [(2, exLongLink)] = .ok links'
      ∧ mapGet? links' 2 = some link'
      ∧ link'.breakpoints.Pairwise (fun a b => a ≤ b)
      ∧ link'.breakpoints.head? = some 0
      ∧ link'.breakpoints.getLast? = some exLongLink.lengthMeters :=
  breakpoints_span_link (fun _ => 1) (fun l => l) (fun l => List.Perm.refl l) [(2, exLongLink)] 2
    exLongLink (by simp [mapGet?]) rfl (Or.inr (by decide!))

/-- C12: for every macroscopic link that starts with an empty `lanesChange`,
`genMesoscopicNetwork` (which returns for every table, if the iteration over
the index set `remove` visits every index once) leaves
`len(lanesList) = max(0, len(breakpoints) - 1) = len(lanesChange)` (the
subtraction of natural numbers stops at 0), every entry of `lanesList` is the
value of `GetLanes` on the link and every entry of `lanesChange` is `[0, 0]`. -/
theorem lanes_lists_match_breakpoints (G : NetworkLink → Int) (order : List Nat → List Nat)
    (horder : ∀ l, (order l).Perm l) (links : GoMap NetworkLink) (k : Int)
    (link : NetworkLink) (hk : mapGet? links k = some link) (hlc : link.lanesChange = []) :
    ∃ links' link', genMesoscopicNetwork G order links = .ok links'
      ∧ mapGet? links' k = some link'
      ∧ link'.lanesList.length = link'.breakpoints.length - 1
      ∧ link'.lanesChange.length = link'.breakpoints.length - 1
      ∧ (∀ x ∈ link'.lanesList, x = G { link with breakpoints := link'.breakpoints })
      ∧ (∀ c ∈ link'.lanesChange, c = [0, 0]) := by
  obtain ⟨links', h⟩ := genMesoscopicNetwork_total G order horder links
  obtain ⟨link', h1, h2⟩ := genMesoscopicNetwork_get G order links links' h k link hk
  obtain ⟨e1, e2⟩ := segmentLink_lanes G order link link' h2
  rw [hlc, List.nil_append] at e2
  refine ⟨links', link', h, h1, ?_, ?_, ?_, ?_⟩
  · rw [e1, List.length_replicate]
  · rw [e2, List.length_replicate]
  · intro x hx
    rw [e1] at hx
    exact List.eq_of_mem_replicate hx
  · intro c hc
    rw [e2] at hc
    exact List.eq_of_mem_replicate hc

/-- Witness of C12: the link of 12 m gets one segment. -/
theorem lanes_lists_match_breakpoints_witness :
    ∃ links' link', genMesoscopicNetwork (fun _ => 1) (fun l => l) [(2, exLongLink)] = .ok links'
      ∧ mapGet? links' 2 = some link'
      ∧ link'.lanesList.length = link'.breakpoints.length - 1
      ∧ link'.lanesChange.length = link'.breakpoints.length - 1
      ∧ (∀ x ∈ link'.lanesList,
          x = (fun _ => 1) { exLongLink with breakpoints := link'.breakpoints })
      ∧ (∀ c ∈ link'.lanesChange, c = [0, 0]) :=
  lanes_lists_match_breakpoints (fun _ => 1) (fun l => l) (fun l => List.Perm.refl l)
    [(2, exLongLink)] 2 exLongLink (by simp [mapGet?]) rfl

/-! ## Theorems on the microscopic cell graph -/

theorem exTwoSegRun_ok : exTwoSegRun = .ok exTwoSegResult := by
  with_unfolding_all rfl

/-- C9, as stated, fails: on a macroscopic link of two mesoscopic links the
node counter ends at 4, but stitching has deleted node 1: the node IDs are 0, 2
and 3. -/
theorem node_ids_not_dense :
    exTwoSegRun.toOption.map (fun r => (r.1.maxNodeID, r.1.nodes.map (fun kv => kv.1),
        (mapGet? r.1.nodes 1).isNone, r.1.maxLinkID, r.1.links.map (fun kv => kv.1)))
      = some (4, [0, 2, 3], true, 2, [0, 1]) := by
  decide!

/-- C9, amended: in the network returned by `genMicroscopicNetwork` the key set
of the link map is exactly `{0, ..., maxLinkID - 1}`, every key of the node map
lies in `{0, ..., maxNodeID - 1}`, and no ID is the key of two entries. -/
theorem ids_unique_links_dense (P : GeoPrims) (macroLinks : GoMap NetworkLink)
    (macroNodes : GoMap NetworkNode) (mesoLinks : GoMap NetworkLinkMesoscopic)
    (mesoNodes : GoMap NetworkNodeMesoscopic) (sep : Bool) (net : NetworkMicroscopic)
    (mesoLinks' : GoMap NetworkLinkMesoscopic)
    (h : genMicroscopicNetwork P macroLinks macroNodes mesoLinks mesoNodes sep
      = .ok (net, mesoLinks')) :
    KeysDense net.links net.maxLinkID ∧ KeysBelow net.nodes net.maxNodeID
      ∧ KeysUnique net.links ∧ KeysUnique net.nodes := by
  unfold genMicroscopicNetwork at h
  obtain ⟨st, h1, h⟩ := except_bind_ok _ _ _ h
  obtain ⟨st', h2, h⟩ := except_bind_ok _ _ _ h
  obtain ⟨nodes, h3, h⟩ := except_bind_ok _ _ _ h
  cases h
  obtain ⟨i1, i2, i3, i4, -, -⟩ := connectLinks_ids P st st' h2 (buildCells_ids _ _ _ _ _ _ h1)
  obtain ⟨k1, k2⟩ := updateBoundaryType_keys _ _ _ _ h3
  refine ⟨i1, ?_, i3, k2 i4⟩
  intro k hk
  exact i2 k ((k1 k).mp hk)

/-- Witness of the amended C9 on `exTwoSegRun`. -/
theorem ids_unique_links_dense_witness :
    KeysDense exTwoSegResult.1.links exTwoSegResult.1.maxLinkID
      ∧ KeysBelow exTwoSegResult.1.nodes exTwoSegResult.1.maxNodeID
      ∧ KeysUnique exTwoSegResult.1.links ∧ KeysUnique exTwoSegResult.1.nodes :=
  ids_unique_links_dense exPrims _ _ _ _ false exTwoSegResult.1 exTwoSegResult.2 exTwoSegRun_ok

/-- C7: for every movement mesoscopic link of the table (`movementID > -1`) and
every lane `i` of it, after `connectLinks` the build holds the path of the lane
(see `MovementLane`): `cellsNum - 1` new intermediate nodes, with
`cellsNum = max(1, round(laneLength / 4.5))`, and `cellsNum` new forward links
with consecutive IDs that lead from the last node of income lane
`movementIncomeLaneStart + i` over the intermediate nodes to the first node of
outcome lane `movementOutcomeLaneStart + i`; every link has the `mesoLinkID` of
the movement link, exactly the first has `isFirstMovement`, and the
intermediate node IDs are one lane chain of the movement link.  The build
has the ID invariant, as it has when `genMicroscopicNetwork` calls
`connectLinks`. -/
theorem movement_lane_paths (P : GeoPrims) (st st' : MicroBuild)
    (h : connectLinks P st = .ok st') (hinv : IdsInv st) (key : Int)
    (ml : NetworkLinkMesoscopic) (hml : mapGet? st.mesoLinks key = some ml)
    (hmv : ml.movementID > -1) (i : Nat) (hi : (i : Int) < ml.lanesNum) :
    MovementLane P st' ml.ID ((i : Int) + 1) ml.movementLinkIncome ml.movementLinkOutcome
      (ml.movementIncomeLaneStart + (i : Int)) (ml.movementOutcomeLaneStart + (i : Int)) key
      st.lastNodeID st.lastLinkID := by
  unfold connectLinks at h
  have hkey : key ∈ st.mesoLinks.map (fun kv => kv.1) :=
    (mapGet?_isSome_iff_mem_keys _ _).mp (by simp [hml])
  obtain ⟨s, s', hstep, hr1, hr2⟩ := foldlM_except_mem
    (fun a b => IdsInv a → IdsInv b ∧ Stable a b) _ _ _ _
    (fun s hi => ⟨hi, Stable_refl s⟩) StableInv_trans
    (fun s x s' _ hx hi => connectMovement_stable P s x s' hx hi) h key hkey
  obtain ⟨is, ss⟩ := hr1 hinv
  obtain ⟨ml1, hml1, e1⟩ := ss.2.2.2.1 key ml hml
  have f1 := MesoExt_fields ml ml1 e1
  unfold connectMovement at hstep
  rw [hml1] at hstep
  simp only at hstep
  rw [if_pos (by rw [f1.2.1]; exact hmv)] at hstep
  split at hstep
  · cases hstep
  split at hstep
  · cases hstep
  split at hstep
  · cases hstep
  split at hstep
  · cases hstep
  have hmem : i ∈ List.range ml1.lanesNum.toNat := by
    rw [List.mem_range, f1.2.2.1]
    omega
  obtain ⟨t, t', hlane, hq1, hq2⟩ := foldlM_except_mem
    (fun a b => IdsInv a → IdsInv b ∧ Stable a b) _ _ _ _
    (fun s hi => ⟨hi, Stable_refl s⟩) StableInv_trans
    (fun t x t' _ hx hi => connectLane_stable P key t t' x hx hi) hstep i hmem
  obtain ⟨it, sst⟩ := hq1 is
  obtain ⟨it', stt', mlt, hmlt, hpath⟩ := connectLane_path P key t t' i hlane it
  obtain ⟨mlt', hmlt', et⟩ := sst.2.2.2.1 key ml1 hml1
  rw [hmlt] at hmlt'
  cases hmlt'
  have f2 := MesoExt_fields ml1 mlt et
  rw [f2.1, f1.1, f2.2.2.2.1, f1.2.2.2.1, f2.2.2.2.2.1, f1.2.2.2.2.1, f2.2.2.2.2.2.1,
    f1.2.2.2.2.2.1, f2.2.2.2.2.2.2.1, f1.2.2.2.2.2.2.1] at hpath
  obtain ⟨is', ss'⟩ := hq2 it'
  obtain ⟨_, sfin⟩ := hr2 is'
  have hst : Stable st t := Stable_trans _ _ _ ss sst
  exact MovementLane_mono P t' st' (Stable_trans _ _ _ ss' sfin) it' _ _ _ _ _ _ _ _ _ _ _
    hst.2.1 hst.1 hpath

theorem exMoveMid_ok :
    buildCells exPrims exMoveMacro exMacroNodes exMoveMeso false = .ok exMoveMid := by
  with_unfolding_all rfl

theorem exMoveBuilt_ok : connectLinks exPrims exMoveMid = .ok exMoveBuilt := by
  with_unfolding_all rfl

theorem exMoveResult_ok :
    genMicroscopicNetwork exPrims exMoveMacro exMacroNodes exMoveMeso exMesoNodes false
      = .ok exMoveResult := by
  with_unfolding_all rfl

/-- Witness of C7: the movement of one lane from mesoscopic link 10 to
mesoscopic link 11, 9 m apart: one intermediate node and two links. -/
theorem movement_lane_paths_witness :
    MovementLane exPrims exMoveBuilt exMove.ID (((0 : Nat) : Int) + 1) exMove.movementLinkIncome
      exMove.movementLinkOutcome (exMove.movementIncomeLaneStart + ((0 : Nat) : Int))
      (exMove.movementOutcomeLaneStart + ((0 : Nat) : Int)) 12
      exMoveMid.lastNodeID exMoveMid.lastLinkID :=
  movement_lane_paths exPrims exMoveMid exMoveBuilt exMoveBuilt_ok
    (buildCells_ids _ _ _ _ _ _ exMoveMid_ok) 12 exMove (by decide!) (by decide) 0 (by decide)

/-- C8, as stated, fails: in the movement example link 2 is a forward link from
node 1 to node 4, and no lane chain of any mesoscopic link holds 1 and 4 at
consecutive positions: node 1 ends the chain of link 10 and node 4 is the chain
of the movement link 12.  It also fails without a movement when two macroscopic
links list the same mesoscopic link: in the second example link 1 is a forward
link from node 2 to node 3, made for the first macroscopic link, and the
stitching of the second one has put node 6 into the slot of node 3. -/
theorem movement_link_not_in_chain :
    ((mapGet? exMoveResult.1.links 2).map
        (fun l => (l.sourceNodeID, l.targetNodeID, l.microLinkType))
      = some (1, 4, LinkType.LINK_FORWARD)
    ∧ exMoveResult.2.map (fun kv => (kv.1, laneChains kv.2))
      = [(10, [[0, 1], [], []]), (11, [[2, 3], [], []]), (12, [[4], [], []])]
    ∧ ∀ kv ∈ exMoveResult.2, ∀ chain ∈ laneChains kv.2, ¬ Consecutive chain 1 4)
    ∧ ((mapGet? exSharedResult.1.links 1).map
        (fun l => (l.sourceNodeID, l.targetNodeID, l.microLinkType))
      = some (2, 3, LinkType.LINK_FORWARD)
    ∧ exSharedResult.2.map (fun kv => (kv.1, laneChains kv.2))
      = [(10, [[0, 2], [], []]), (11, [[2, 6], [4, 5], [], []]), (12, [[6, 7], [], []])]
    ∧ ∀ kv ∈ exSharedResult.2, ∀ chain ∈ laneChains kv.2, ¬ Consecutive chain 2 3) := by
  refine ⟨⟨by decide!, by decide!, by decide!⟩, ⟨by decide!, by decide!, by decide!⟩⟩

/-- C8, amended: in the network returned by `genMicroscopicNetwork`, if no
mesoscopic link is shared between two macroscopic links, every microscopic link
of type forward either has its source and target at consecutive positions of a
lane chain (an entry of `microNodesPerLane`, the bike chain or the walk chain)
of its mesoscopic link, or is a link created by `connectLinks` and has its
source and target at consecutive positions of the path of a movement lane: a
lane chain of the movement link that owns it, with the last node of a lane of
the income link in front and the first node of a lane of the outcome link
behind. -/
theorem forward_links_in_chains_or_paths (P : GeoPrims) (macroLinks : GoMap NetworkLink)
    (macroNodes : GoMap NetworkNode) (mesoLinks : GoMap NetworkLinkMesoscopic)
    (mesoNodes : GoMap NetworkNodeMesoscopic) (sep : Bool)
    (net : NetworkMicroscopic) (mesoLinks' : GoMap NetworkLinkMesoscopic)
    (h : genMicroscopicNetwork P macroLinks macroNodes mesoLinks mesoNodes sep
      = .ok (net, mesoLinks'))
    (hdisj : (macroLinks.map (fun kv => kv.2.mesolinks)).Pairwise List.Disjoint)
    (k : Int) (l : NetworkLinkMicroscopic) (hl : mapGet? net.links k = some l)
    (hf : l.microLinkType = LinkType.LINK_FORWARD) :
    InLaneChain mesoLinks' l ∨ InMovementPath mesoLinks' l := by
  unfold genMicroscopicNetwork at h
  obtain ⟨mid, hmid, h⟩ := except_bind_ok _ _ _ h
  obtain ⟨st', h2, h⟩ := except_bind_ok _ _ _ h
  obtain ⟨nodes, h3, h⟩ := except_bind_ok _ _ _ h
  cases h
  have hinv := buildCells_ids _ _ _ _ _ _ hmid
  obtain ⟨-, hs⟩ := connectLinks_stable P mid st' h2 hinv
  simp only at hl
  by_cases hk : k < mid.lastLinkID
  · rw [hs.2.2.1 k hk] at hl
    exact Or.inl (InLaneChain_of_stable mid st' hs l
      (buildCells_chains P macroLinks macroNodes mesoLinks sep mid hmid hdisj k l hl hf))
  · exact Or.inr (connectLinks_cover P mid st' h2 hinv k l (by omega) hl).2

/-- Witness of the amended C8: link 2 of the movement example, the first link
of the movement, from node 1 to node 4. -/
theorem forward_links_in_chains_or_paths_witness :
    InLaneChain exMoveResult.2
        { ID := 2, sourceNodeID := 1, targetNodeID := 4, geom := [(4, 0), (17 / 2, 0)],
          geomEuclidean := [(4, 0), (17 / 2, 0)], mesoLinkID := 12,
          microLinkType := LinkType.LINK_FORWARD, allowedAgentTypes := [],
          isFirstMovement := true }
      ∨ InMovementPath exMoveResult.2
        { ID := 2, sourceNodeID := 1, targetNodeID := 4, geom := [(4, 0), (17 / 2, 0)],
          geomEuclidean := [(4, 0), (17 / 2, 0)], mesoLinkID := 12,
          microLinkType := LinkType.LINK_FORWARD, allowedAgentTypes := [],
          isFirstMovement := true } :=
  forward_links_in_chains_or_paths exPrims exMoveMacro exMacroNodes exMoveMeso exMesoNodes false
    exMoveResult.1 exMoveResult.2 exMoveResult_ok
    (by simp [exMoveMacro, exMacro, List.Disjoint]) 2 _ (by decide!) rfl

/-- C13 on the list `[auto, bike, walk]`: `prepareBikeWalkAgents` returns
`([auto], true, false)`, with `walk = false`, and not `([auto], true, true)`: the
test for auto and bike of line 721 comes first. -/
theorem all_three_modes_walk_false :
    prepareBikeWalkAgents [AgentType.AGENT_AUTO, AgentType.AGENT_BIKE, AgentType.AGENT_WALK]
      = ([AgentType.AGENT_AUTO], true, false)
    ∧ prepareBikeWalkAgents [AgentType.AGENT_AUTO, AgentType.AGENT_BIKE, AgentType.AGENT_WALK]
      ≠ ([AgentType.AGENT_AUTO], true, true) := by
  decide

/-- C13 on every list of the claim: for every agent-type list whose set of
types is exactly {auto, bike, walk}, in any order, `prepareBikeWalkAgents`
returns `main = [auto]` and `bike = true`, as the claim says, and
`walk = false`: the list takes the branch of line 721 and never reaches the
final return `([auto], true, true)` of line 729. -/
theorem all_three_modes_split (l : List AgentType)
    (h : ∀ a, a ∈ l ↔ a = AgentType.AGENT_AUTO ∨ a = AgentType.AGENT_BIKE
      ∨ a = AgentType.AGENT_WALK) :
    prepareBikeWalkAgents l = ([AgentType.AGENT_AUTO], true, false) := by
  have ha : AgentType.AGENT_AUTO ∈ l := (h _).mpr (Or.inl rfl)
  have hb : AgentType.AGENT_BIKE ∈ l := (h _).mpr (Or.inr (Or.inl rfl))
  rw [prepareBikeWalkAgents_of_mem l (List.ne_nil_of_mem ha)]
  simp [ha, hb]

/-- Witness of C13 on every list of the claim: the list `[walk, bike, auto, walk]`. -/
theorem all_three_modes_split_witness :
    prepareBikeWalkAgents [AgentType.AGENT_WALK, AgentType.AGENT_BIKE, AgentType.AGENT_AUTO,
      AgentType.AGENT_WALK] = ([AgentType.AGENT_AUTO], true, false) :=
  all_three_modes_split _ (by
    intro a
    simp only [List.mem_cons, List.mem_singleton, List.not_mem_nil, or_false]
    tauto)

/-- C14: for every agent-type list, in any order and with repetitions, whose
set of types is exactly {auto, bike}, `prepareBikeWalkAgents` returns
`([auto], true, false)`; exactly {auto, walk} gives `([auto], false, true)`;
exactly {bike, walk} gives `([bike], false, true)`. -/
theorem two_modes_split (l : List AgentType) :
    ((∀ a, a ∈ l ↔ a = AgentType.AGENT_AUTO ∨ a = AgentType.AGENT_BIKE) →
      prepareBikeWalkAgents l = ([AgentType.AGENT_AUTO], true, false))
    ∧ ((∀ a, a ∈ l ↔ a = AgentType.AGENT_AUTO ∨ a = AgentType.AGENT_WALK) →
      prepareBikeWalkAgents l = ([AgentType.AGENT_AUTO], false, true))
    ∧ ((∀ a, a ∈ l ↔ a = AgentType.AGENT_BIKE ∨ a = AgentType.AGENT_WALK) →
      prepareBikeWalkAgents l = ([AgentType.AGENT_BIKE], false, true)) := by
  refine ⟨?_, ?_, ?_⟩
  · intro h
    have ha : AgentType.AGENT_AUTO ∈ l := (h _).mpr (Or.inl rfl)
    have hb : AgentType.AGENT_BIKE ∈ l := (h _).mpr (Or.inr rfl)
    rw [prepareBikeWalkAgents_of_mem l (List.ne_nil_of_mem ha)]
    simp [ha, hb]
  · intro h
    have ha : AgentType.AGENT_AUTO ∈ l := (h _).mpr (Or.inl rfl)
    have hw : AgentType.AGENT_WALK ∈ l := (h _).mpr (Or.inr rfl)
    have hb : AgentType.AGENT_BIKE ∉ l := by
      intro hm
      rcases (h _).mp hm with e | e <;> cases e
    rw [prepareBikeWalkAgents_of_mem l (List.ne_nil_of_mem ha)]
    simp [ha, hw, hb]
  · intro h
    have hb : AgentType.AGENT_BIKE ∈ l := (h _).mpr (Or.inl rfl)
    have hw : AgentType.AGENT_WALK ∈ l := (h _).mpr (Or.inr rfl)
    have ha : AgentType.AGENT_AUTO ∉ l := by
      intro hm
      rcases (h _).mp hm with e | e <;> cases e
    rw [prepareBikeWalkAgents_of_mem l (List.ne_nil_of_mem hb)]
    simp [ha, hw, hb]

/-- Witness of C14: `[bike, auto, bike]`, `[walk, auto]` and `[walk, bike, walk]`. -/
theorem two_modes_split_witness :
    prepareBikeWalkAgents [AgentType.AGENT_BIKE, AgentType.AGENT_AUTO, AgentType.AGENT_BIKE]
      = ([AgentType.AGENT_AUTO], true, false)
    ∧ prepareBikeWalkAgents [AgentType.AGENT_WALK, AgentType.AGENT_AUTO]
      = ([AgentType.AGENT_AUTO], false, true)
    ∧ prepareBikeWalkAgents [AgentType.AGENT_WALK, AgentType.AGENT_BIKE, AgentType.AGENT_WALK]
      = ([AgentType.AGENT_BIKE], false, true) :=
  ⟨(two_modes_split _).1 (by
      intro a
      simp only [List.mem_cons, List.mem_singleton, List.not_mem_nil, or_false]
      tauto),
    (two_modes_split _).2.1 (by
      intro a
      simp only [List.mem_cons, List.mem_singleton, List.not_mem_nil, or_false]
      tauto),
    (two_modes_split _).2.2 (by
      intro a
      simp only [List.mem_cons, List.mem_singleton, List.not_mem_nil, or_false]
      tauto)⟩

theorem exCell1_ok : createMesoNodes exPrims false false 1 exCell0 10 = .ok exCell1 := by
  with_unfolding_all rfl

/-- C15: for a mesoscopic link `ml` of a macroscopic link that has no nodes yet,
the body of the first loop over `macroLink.mesolinks` (`createMesoNodes`,
lines 53-235) leaves it with exactly `lanesNum` lane chains of `cellsNum + 1`
node IDs each, `cellsNum = max(1, round(lengthMeters / 4.5))`; the node of an ID
of lane `i` is the node literal with lane ID `i + 1` and owner `ml.ID`; when
`bike` is set `microNodesBikeLane` is one chain of `cellsNum + 1` IDs of nodes
with lane ID -1, when `walk` is set `microNodesWalkLane` is one of nodes with
lane ID -2, and otherwise these chains are empty; the IDs of all chains are
freshly allocated: they increase along the chains and lie between the old and
the new node counter, and the nodes below the old counter stay. -/
theorem lane_chains_created (P : GeoPrims) (bike walk : Bool) (o : ℚ) (st st' : MicroBuild)
    (m : Int) (ml : NetworkLinkMesoscopic)
    (h : createMesoNodes P bike walk o st m = .ok st')
    (hml : mapGet? st.mesoLinks m = some ml)
    (hl : ml.microNodesPerLane = []) (hb : ml.microNodesBikeLane = [])
    (hw : ml.microNodesWalkLane = []) :
    ∃ ml', mapGet? st'.mesoLinks m = some ml'
      ∧ ml'.microNodesPerLane.length = ml.lanesNum.toNat
      ∧ (∀ (i : Nat) (lane : List Int), ml'.microNodesPerLane[i]? = some lane →
          (lane.length : Int) = cellsNumOf ml.lengthMeters + 1
          ∧ ∀ x ∈ lane, IsCellNode st'.nodes x ml.ID ((i : Int) + 1))
      ∧ (ml'.microNodesBikeLane.length : Int)
          = (if bike then cellsNumOf ml.lengthMeters + 1 else 0)
      ∧ (∀ x ∈ ml'.microNodesBikeLane, IsCellNode st'.nodes x ml.ID (-1))
      ∧ (ml'.microNodesWalkLane.length : Int)
          = (if walk then cellsNumOf ml.lengthMeters + 1 else 0)
      ∧ (∀ x ∈ ml'.microNodesWalkLane, IsCellNode st'.nodes x ml.ID (-2))
      ∧ FreshIDs st.lastNodeID st'.lastNodeID (laneChains ml').flatten
      ∧ (∀ x, x < st.lastNodeID → mapGet? st'.nodes x = mapGet? st.nodes x) := by
  unfold createMesoNodes at h
  rw [hml] at h
  simp only at h
  split at h
  · cases h
  rename_i lc0 hlc
  cases h
  obtain ⟨c1, c2, c3, c4, c5, c6, c7, c8⟩ :=
    buildMesoNodes_chains P bike walk o lc0 ml st.nodes st.lastNodeID hl hb hw
  obtain ⟨t1, t2, t3, t4, t5, -⟩ :=
    buildMesoNodes_tags P bike walk o lc0 ml st.nodes st.lastNodeID hl hb hw
  have hc := cellsNumOf_pos ml.lengthMeters
  refine ⟨_, mapGet?_mapSet_same _ _ _, c3, ?_, ?_, t3, ?_, t5, c6, c7⟩
  · intro i lane hlane
    obtain ⟨g1, g2⟩ := t1 i lane hlane
    refine ⟨?_, g2⟩
    rw [g1]
    omega
  · rw [t2]
    split
    · omega
    · rfl
  · rw [t4]
    split
    · omega
    · rfl

/-- Witness of C15: a mesoscopic link of 3 m with one lane gets one lane chain
of two nodes, and the network of its macroscopic link has the nodes 0 and 1 and
one forward link from 0 to 1. -/
theorem lane_chains_created_witness :
    (∃ ml', mapGet? exCell1.mesoLinks 10 = some ml'
      ∧ ml'.microNodesPerLane.length = (exMeso 10 1 0 0 3).lanesNum.toNat
      ∧ (∀ (i : Nat) (lane : List Int), ml'.microNodesPerLane[i]? = some lane →
          (lane.length : Int) = cellsNumOf (exMeso 10 1 0 0 3).lengthMeters + 1
          ∧ ∀ x ∈ lane, IsCellNode exCell1.nodes x (exMeso 10 1 0 0 3).ID ((i : Int) + 1))
      ∧ (ml'.microNodesBikeLane.length : Int)
          = (if false then cellsNumOf (exMeso 10 1 0 0 3).lengthMeters + 1 else 0)
      ∧ (∀ x ∈ ml'.microNodesBikeLane, IsCellNode exCell1.nodes x (exMeso 10 1 0 0 3).ID (-1))
      ∧ (ml'.microNodesWalkLane.length : Int)
          = (if false then cellsNumOf (exMeso 10 1 0 0 3).lengthMeters + 1 else 0)
      ∧ (∀ x ∈ ml'.microNodesWalkLane, IsCellNode exCell1.nodes x (exMeso 10 1 0 0 3).ID (-2))
      ∧ FreshIDs exCell0.lastNodeID exCell1.lastNodeID (laneChains ml').flatten
      ∧ (∀ x, x < exCell0.lastNodeID → mapGet? exCell1.nodes x = mapGet? exCell0.nodes x))
    ∧ (cellsNumOf (exMeso 10 1 0 0 3).lengthMeters = 1
      ∧ exCell1.mesoLinks.map (fun kv => (kv.1, kv.2.microNodesPerLane)) = [(10, [[0, 1]])]
      ∧ exCellResult.1.nodes.map (fun kv => (kv.1, kv.2.laneID, kv.2.mesoLinkID))
        = [(0, 1, 10), (1, 1, 10)]
      ∧ exCellResult.1.links.map (fun kv =>
          (kv.1, kv.2.sourceNodeID, kv.2.targetNodeID, kv.2.microLinkType))
        = [(0, 0, 1, LinkType.LINK_FORWARD)]) :=
  ⟨lane_chains_created exPrims false false 1 exCell0 exCell1 10 (exMeso 10 1 0 0 3) exCell1_ok
      rfl rfl rfl rfl,
    by decide!⟩


theorem exStitchLinks_ok :
    createMesoLinks [AgentType.AGENT_AUTO] false false exStitch3 10 = .ok exStitchLinks := by
  with_unfolding_all rfl

theorem exStitchUp_get : mapGet? exStitch3.mesoLinks 10 = some exStitchUp := by
  decide!

/-- C17: the body of the last loop over `macroLink.mesolinks`
(`createMesoLinks`, lines 374-530) creates for the mesoscopic link `ml` exactly
the links of the list `specCellLinks`, with the IDs from the link counter on and
`ml` as owner: for every lane `i < lanesNum` the forward links
`node[i][j] -> node[i][j+1]`, the lane changes `node[i][j] -> node[i+1][j+1]` if
`i ≤ lanesNum - 2` and the lane changes `node[i][j] -> node[i-1][j+1]` if
`i ≥ 1`, for every `j` below the number of nodes of lane `i` less one, all with
the multimodal agent types of the link; then, if `bike` is set, the forward
links of the bike chain with the allowed types `[bike]`, and if `walk` is set,
those of the walk chain with `[walk]`.  With `n` lanes of `c + 1` nodes the car
links are `(3n - 2) * c`. -/
theorem cell_links_created (ag : List AgentType) (bike walk : Bool) (st st' : MicroBuild)
    (m : Int) (ml : NetworkLinkMesoscopic)
    (h : createMesoLinks ag bike walk st m = .ok st')
    (hml : mapGet? st.mesoLinks m = some ml) :
    LinksAdded m (specCellLinks ml ag bike walk) st st'
      ∧ ∀ c : Nat,
        (∀ i, i < ml.lanesNum.toNat → (ml.microNodesPerLane.getD i []).length = c + 1) →
        (specCarLinks ml ag).length = (3 * ml.lanesNum.toNat - 2) * c :=
  ⟨createMesoLinks_added ag bike walk st st' m ml h hml,
    fun c hc => specCarLinks_length ml ag c hc⟩

/-- Witness of C17: the first segment of `exStitchMacro`, three lanes of two
nodes: 3 forward links and 4 lane changes. -/
theorem cell_links_created_witness :
    (LinksAdded 10 (specCellLinks exStitchUp [AgentType.AGENT_AUTO] false false)
        exStitch3 exStitchLinks
      ∧ ∀ c : Nat,
        (∀ i, i < exStitchUp.lanesNum.toNat →
          (exStitchUp.microNodesPerLane.getD i []).length = c + 1) →
        (specCarLinks exStitchUp [AgentType.AGENT_AUTO]).length
          = (3 * exStitchUp.lanesNum.toNat - 2) * c)
    ∧ specCellLinks exStitchUp [AgentType.AGENT_AUTO] false false
      = [(0, 8, LinkType.LINK_FORWARD, [AgentType.AGENT_AUTO]),
         (0, 10, LinkType.LINK_LANE_CHANGE, [AgentType.AGENT_AUTO]),
         (2, 10, LinkType.LINK_FORWARD, [AgentType.AGENT_AUTO]),
         (2, 5, LinkType.LINK_LANE_CHANGE, [AgentType.AGENT_AUTO]),
         (2, 8, LinkType.LINK_LANE_CHANGE, [AgentType.AGENT_AUTO]),
         (4, 5, LinkType.LINK_FORWARD, [AgentType.AGENT_AUTO]),
         (4, 10, LinkType.LINK_LANE_CHANGE, [AgentType.AGENT_AUTO])]
    ∧ exStitchLinks.links.map (fun kv => (kv.1, kv.2.sourceNodeID, kv.2.targetNodeID,
        kv.2.microLinkType))
      = [(0, 0, 8, LinkType.LINK_FORWARD), (1, 0, 10, LinkType.LINK_LANE_CHANGE),
         (2, 2, 10, LinkType.LINK_FORWARD), (3, 2, 5, LinkType.LINK_LANE_CHANGE),
         (4, 2, 8, LinkType.LINK_LANE_CHANGE), (5, 4, 5, LinkType.LINK_FORWARD),
         (6, 4, 10, LinkType.LINK_LANE_CHANGE)] :=
  ⟨cell_links_created [AgentType.AGENT_AUTO] false false exStitch3 exStitchLinks 10 exStitchUp
      exStitchLinks_ok exStitchUp_get,
    by decide!, by decide!⟩

theorem cellsNumOf_ten : cellsNumOf 10 = 2 := by decide!

/-- Counterexample to C16: on the macroscopic link for auto, bike and walk with
one lane and one mesoscopic link of 10 m, `genMicroscopicNetwork` with
`separateBikeWalk = true` returns a network with 3 car nodes, 3 bike nodes and
no walk node, 2 forward car links, 2 forward bike links and no walk link:
`cellsNum = max(1, round(10 / 4.5)) = 2`, and `prepareBikeWalkAgents` returns
`walk = false` for the three modes. -/
theorem ten_metre_three_nodes_no_walk :
    genMicroscopicNetwork exPrims exTenMacro exMacroNodes exTenMeso exMesoNodes true
      = .ok exTenResult
    ∧ cellsNumOf 10 = 2
    ∧ (carNodes exTenResult.1).length = 3 ∧ (bikeNodes exTenResult.1).length = 3
    ∧ (walkNodes exTenResult.1).length = 0
    ∧ (forwardLinks exTenResult.1 AgentType.AGENT_AUTO).length = 2
    ∧ (forwardLinks exTenResult.1 AgentType.AGENT_BIKE).length = 2
    ∧ (forwardLinks exTenResult.1 AgentType.AGENT_WALK).length = 0
    ∧ ¬ ((carNodes exTenResult.1).length = 2 ∧ (bikeNodes exTenResult.1).length = 2
        ∧ (walkNodes exTenResult.1).length = 2
        ∧ (forwardLinks exTenResult.1 AgentType.AGENT_AUTO).length = 1
        ∧ (forwardLinks exTenResult.1 AgentType.AGENT_BIKE).length = 1
        ∧ (forwardLinks exTenResult.1 AgentType.AGENT_WALK).length = 1) :=
  ⟨by with_unfolding_all rfl, by decide!, by decide!, by decide!, by decide!, by decide!,
    by decide!, by decide!, by decide!⟩

/-- C16 (amended): for the macroscopic link with the allowed modes auto, bike
and walk, one lane and a single mesoscopic link of 10 m, `genMicroscopicNetwork`
with `separateBikeWalk = true` returns, for all geometric primitives, a network
with exactly 3 car nodes and 3 bike nodes, and exactly 2 forward car links and
2 forward bike links: a chain of the link has `cellsNum + 1 = 3` nodes and
`cellsNum = 2` forward links. -/
theorem ten_metre_three_modes_counts (P : GeoPrims) :
    ∃ net mesoLinks,
      genMicroscopicNetwork P exTenMacro exMacroNodes exTenMeso exMesoNodes true
        = .ok (net, mesoLinks)
      ∧ (carNodes net).length = 3 ∧ (bikeNodes net).length = 3
      ∧ (forwardLinks net AgentType.AGENT_AUTO).length = 2
      ∧ (forwardLinks net AgentType.AGENT_BIKE).length = 2 := by
  simp [genMicroscopicNetwork, buildCells, exTenMacro, connectLinks, connectMovement,
    updateBoundaryType, updateNodeBoundary, exMesoNodes, carNodes, bikeNodes,
    forwardLinks, processMacroLink, exMacro, prepareBikeWalkAgents, createMesoNodes,
    buildMesoNodes, exTenMeso, exMeso, mapGet?, cellsNumOf_ten, samplePoints, addCarLane,
    addLaneNode, List.range, List.range.loop, mapSet, markTargets, exMacroNodes, markLaneFirst,
    markLaneLast, markUpstream, markDownstream, adjacentPairs, createMesoLinks, linkCarLane,
    linkCell, linkChange, addMicroLink, sliceAt, bind, Except.bind, pure, Except.pure,
    newMicroNode]

theorem exBoundaryResult_ok :
    updateBoundaryType exCellMeso exBoundaryMesoNodes exBoundaryNodes = .ok exBoundaryResult := by
  with_unfolding_all rfl

/-- C18: when `updateBoundaryType` returns without error, every node `n'` of
the resulting table follows `BoundaryRule`: its boundary type is none if
`n'.mesoLinkID = -1`; otherwise that of the source node of its mesoscopic link if
`n'.isLinkUpstreamTargetNode`; otherwise that of the target node of that link if
`n'.isLinkDownstreamTargetNode`; otherwise none.  The node is the node `n` stored
under the same key before, with no field but `boundaryType` changed, and no key
is added to or removed from the table. -/
theorem boundary_type_by_rule (mesoLinks : GoMap NetworkLinkMesoscopic)
    (mesoNodes : GoMap NetworkNodeMesoscopic) (nodes nodes' : GoMap NetworkNodeMicroscopic)
    (h : updateBoundaryType mesoLinks mesoNodes nodes = .ok nodes') :
    (∀ k n', mapGet? nodes' k = some n' →
        BoundaryRule mesoLinks mesoNodes n'
          ∧ ∃ n, mapGet? nodes k = some n ∧ n' = { n with boundaryType := n'.boundaryType })
      ∧ (∀ k, mapGet? nodes' k = none ↔ mapGet? nodes k = none) := by
  have key := updateBoundaryType_rule mesoLinks mesoNodes nodes nodes' h
  refine ⟨?_, ?_⟩
  · intro k n' hn'
    cases hk : mapGet? nodes k with
    | none =>
      rw [(key k).1 hk] at hn'
      cases hn'
    | some n =>
      obtain ⟨m, hm, hs, hr⟩ := (key k).2 n hk
      rw [hm] at hn'
      cases hn'
      exact ⟨hr, n, rfl, hs⟩
  · intro k
    refine ⟨fun h0 => ?_, (key k).1⟩
    cases hk : mapGet? nodes k with
    | none => rfl
    | some n =>
      obtain ⟨m, hm, -, -⟩ := (key k).2 n hk
      rw [hm] at h0
      cases h0

/-- Witness of C18: on a table of four nodes that come with the boundary type
`other 9`, the upstream node takes the type of the source node, the downstream
node that of the target node, the inner node and the node without mesoscopic
link (though marked upstream) take none. -/
theorem boundary_type_by_rule_witness :
    ((∀ k n', mapGet? exBoundaryResult k = some n' →
        BoundaryRule exCellMeso exBoundaryMesoNodes n'
          ∧ ∃ n, mapGet? exBoundaryNodes k = some n
            ∧ n' = { n with boundaryType := n'.boundaryType })
      ∧ (∀ k, mapGet? exBoundaryResult k = none ↔ mapGet? exBoundaryNodes k = none))
    ∧ exBoundaryResult.map (fun kv => (kv.1, kv.2.boundaryType))
      = [(0, BoundaryType.other 2), (1, BoundaryType.other 1),
         (2, BoundaryType.BOUNDARY_NONE), (3, BoundaryType.BOUNDARY_NONE)] :=
  ⟨boundary_type_by_rule exCellMeso exBoundaryMesoNodes exBoundaryNodes exBoundaryResult
      exBoundaryResult_ok,
    by decide!⟩

/-! ## Theorems on the movements at a node -/

/-- Counterexample to C20.  At a node with one incoming and one outgoing link
that form an admissible pair, `genMovement` returns true and leaves the counter
at 5 (branch `outcome == 1`, line 76).  At a node with two outgoing links that
both lead back to the source of the first incoming link, it returns false at
that incoming link (line 91) and leaves the counter at 5, though the second
incoming link forms two admissible pairs. -/
theorem movement_counter_unchanged :
    genMovement exConnections exThroughNode (some 5) exThroughLinks = .ok (true, some 5, [])
    ∧ admissiblePairs exThroughNode exThroughLinks = [(1, 2)]
    ∧ genMovement exConnections exCrossNode (some 5) exBackLinks = .ok (false, some 5, [])
    ∧ admissiblePairs exCrossNode exBackLinks = [(3, 2), (3, 4)] :=
  ⟨by with_unfolding_all rfl, by decide!, by with_unfolding_all rfl, by decide!⟩

/-- C20 (amended): for every node with at least one incoming and at least two
outgoing links, all link IDs resolving, in which every incoming link has an
outgoing link that does not lead back to its source node, `genMovement` returns
true, pairs each incoming link with each outgoing link except those that lead
back to the source node of the incoming link, and gives each such pair the next
movement ID: the counter increases by exactly the number of admissible pairs.
The helper `getIntersectionsConnections` is assumed to return the lane ranges
of every outgoing link it is given. -/
theorem movement_counter_counts_pairs
    (conn : NetworkLink → List NetworkLink → List (List (Int × Int)))
    (hconn : ConnectionsGiven conn) (node : NetworkNode) (links : GoMap NetworkLink) (id : Int)
    (hincome : 1 ≤ node.incomingLinks.length) (houtcome : 2 ≤ node.outcomingLinks.length)
    (hin : ∀ a, a ∈ node.incomingLinks → (mapGet? links a).isSome)
    (hout : ∀ b, b ∈ node.outcomingLinks → (mapGet? links b).isSome)
    (hadm : ∀ a incomingLink, a ∈ node.incomingLinks → mapGet? links a = some incomingLink →
      admissibleOutcoming links incomingLink node.outcomingLinks ≠ []) :
    ∃ built,
      genMovement conn node (some id) links
        = .ok (true, some (id + ((admissiblePairs node links).length : Int)), built)
      ∧ built.map (fun m => (m.IncomingLinkID, m.OutcomingLinkID)) = admissiblePairs node links
      ∧ built.map (fun m => m.ID)
        = (List.range (admissiblePairs node links).length).map
            (fun (i : Nat) => id + (i : Int)) := by
  obtain ⟨ms, hf, hid, hpair⟩ := foldlM_pairIncoming conn hconn node links node.incomingLinks
    (id, [])
    (fun a ha => by
      obtain ⟨inc, hinc⟩ := Option.isSome_iff_exists.mp (hin a ha)
      exact ⟨inc, hinc, hadm a inc ha hinc⟩)
    hout
  have hlen : ms.length = (admissiblePairs node links).length := by
    have := congrArg List.length hpair
    simpa [admissiblePairs] using this
  refine ⟨ms, ?_, hpair, ?_⟩
  · unfold genMovement
    have h0 : ¬ (node.incomingLinks.length = 0 ∨ node.outcomingLinks.length = 0) := by omega
    have h1 : ¬ node.outcomingLinks.length = 1 := by omega
    simp only [h0, h1, if_false, hf, List.nil_append, hlen]
  · rw [← hlen]
    exact hid

/-- Witness of C20 (amended): node 20 with the incoming links 1 (from node 10)
and 3 (from node 30) and the outgoing links 2 (to node 10) and 4 (to node 40):
the pairs (1, 4), (3, 2) and (3, 4) get the IDs 5, 6 and 7. -/
theorem movement_counter_counts_pairs_witness :
    (∃ built,
      genMovement exConnections exCrossNode (some 5) exCrossLinks
        = .ok (true, some (5 + ((admissiblePairs exCrossNode exCrossLinks).length : Int)), built)
      ∧ built.map (fun m => (m.IncomingLinkID, m.OutcomingLinkID))
        = admissiblePairs exCrossNode exCrossLinks
      ∧ built.map (fun m => m.ID)
        = (List.range (admissiblePairs exCrossNode exCrossLinks).length).map
            (fun (i : Nat) => (5 : Int) + (i : Int)))
    ∧ admissiblePairs exCrossNode exCrossLinks = [(1, 4), (3, 2), (3, 4)] :=
  ⟨movement_counter_counts_pairs exConnections
      (fun _ outs i hi =>
        ⟨[(0, 0), (0, 0)], (0, 0), (0, 0), by simp [exConnections, hi], rfl, rfl⟩)
      exCrossNode exCrossLinks 5 (by decide) (by decide) (by decide) (by decide)
      (fun a inc ha hinc => by
        simp only [exCrossNode, List.mem_cons, List.mem_singleton, List.not_mem_nil,
          or_false] at ha
        rcases ha with rfl | rfl
        · cases hinc; decide
        · cases hinc; decide),
    by decide!⟩


/-- C21: for a node that has no incoming links or no outgoing links
`genMovement` returns false, leaves the counter `*movementID` as it was and
builds no movement, whatever the links and the connection helper are. -/
theorem no_movement_at_dead_end
    (getIntersectionsConnections : NetworkLink → List NetworkLink → List (List (Int × Int)))
    (node : NetworkNode) (movementID : Option Int) (links : GoMap NetworkLink)
    (h : node.incomingLinks = [] ∨ node.outcomingLinks = []) :
    genMovement getIntersectionsConnections node movementID links
      = .ok (false, movementID, []) := by
  cases movementID with
  | none => rfl
  | some id =>
    have h0 : node.incomingLinks.length = 0 ∨ node.outcomingLinks.length = 0 := by
      rcases h with h | h <;> simp [h]
    simp only [genMovement, h0, if_true]

/-- Witness of C21: node 20 with three incoming links and no outgoing link;
the counter stays 7. -/
theorem no_movement_at_dead_end_witness :
    exSinkNode.incomingLinks.length = 3 ∧ exSinkNode.outcomingLinks = []
    ∧ genMovement exConnections exSinkNode (some 7) exSinkLinks = .ok (false, some 7, []) :=
  ⟨rfl, rfl, no_movement_at_dead_end exConnections exSinkNode (some 7) exSinkLinks (Or.inr rfl)⟩
/-! ## Theorems on the target marks of the microscopic nodes -/

theorem exMarkResult_ok :
    genMicroscopicNetwork exPrims exMarkMacro exMacroNodes exMarkMeso exMesoNodes true
      = .ok (exMarkResult.1, exMarkResult.2) := by
  with_unfolding_all rfl

theorem exMarkMeso_fresh : ∀ kv ∈ exMarkMacro, NoChains exMarkMeso kv.2.mesolinks := by
  intro kv hkv
  simp only [exMarkMacro, List.mem_singleton] at hkv
  subst hkv
  intro m hm ml hml
  simp only [exMacro, List.mem_cons, List.mem_singleton, List.not_mem_nil, or_false] at hm
  rcases hm with rfl | rfl
  · cases hml
    exact ⟨rfl, rfl, rfl⟩
  · cases hml
    exact ⟨rfl, rfl, rfl⟩

theorem exMarkMeso_segments : ∀ kv ∈ exMarkMacro, ∀ m ∈ kv.2.mesolinks, ∀ ml,
    mapGet? exMarkMeso m = some ml → ¬ ml.movementID > -1 := by
  intro kv hkv
  simp only [exMarkMacro, List.mem_singleton] at hkv
  subst hkv
  intro m hm ml hml
  simp only [exMacro, List.mem_cons, List.mem_singleton, List.not_mem_nil, or_false] at hm
  rcases hm with rfl | rfl
  · cases hml
    decide
  · cases hml
    decide

/-- Counterexample to C19: three runs of `genMicroscopicNetwork` that return a
network in which a chain of a last (or first) segment begins or ends with a
node without the mark.  In the first run the macroscopic links 100 and 101 both
list the mesoscopic link 11: the last segment of link 100 is link 11, its chain
is `[2, 6]` in the end, and node 6 is no downstream target node (the marked node
3 was deleted by the stitching of link 101).  In the second run the macroscopic
link 102 lists the movement link 12: `connectLinks` appends the chain `[7]` to
its lane lists, and node 7 has neither mark.  In the third run the mesoscopic
link 11 comes with the lane list `[[0, 1]]`: the stitching of link 101 deletes
node 1, the last node of the chain `[0, 1]` of link 10, the last segment of the
macroscopic link 100. -/
theorem last_node_without_mark :
    (genMicroscopicNetwork exPrims
        [(100, exMacro 100 1 [10, 11] [AgentType.AGENT_AUTO]),
         (101, exMacro 101 1 [11, 12] [AgentType.AGENT_AUTO])]
        exMacroNodes [(10, exMeso 10 1 0 0 4), (11, exMeso 11 1 0 4 4), (12, exMeso 12 1 0 8 4)]
        exMesoNodes false = .ok exSharedResult
      ∧ exSharedResult.2.map (fun kv => (kv.1, laneChains kv.2))
        = [(10, [[0, 2], [], []]), (11, [[2, 6], [4, 5], [], []]), (12, [[6, 7], [], []])]
      ∧ (mapGet? exSharedResult.1.nodes 6).map (fun n => n.isLinkDownstreamTargetNode)
        = some false)
    ∧ (genMicroscopicNetwork exPrims exListedMacro exMacroNodes exMoveMeso exMesoNodes false
        = .ok exListedResult
      ∧ exListedResult.2.map (fun kv => (kv.1, laneChains kv.2))
        = [(10, [[0, 1], [], []]), (11, [[2, 3], [], []]), (12, [[4, 5, 6], [7], [], []])]
      ∧ (mapGet? exListedResult.1.nodes 7).map
          (fun n => (n.isLinkUpstreamTargetNode, n.isLinkDownstreamTargetNode))
        = some (false, false))
    ∧ (genMicroscopicNetwork exPrims exFilledMacro exMacroNodes exFilledMeso exMesoNodes false
        = .ok exFilledResult
      ∧ exFilledResult.2.map (fun kv => (kv.1, laneChains kv.2))
        = [(10, [[0, 1], [], []]), (11, [[0, 4], [2, 3], [], []]), (12, [[4, 5], [], []])]
      ∧ (mapGet? exFilledResult.1.nodes 1).isSome = false) :=
  ⟨⟨by with_unfolding_all rfl, by decide!, by decide!⟩,
    ⟨by with_unfolding_all rfl, by decide!, by decide!⟩,
    ⟨by with_unfolding_all rfl, by decide!, by decide!⟩⟩

/-- C19 as amended: in the network returned by `genMicroscopicNetwork`, for every
macroscopic link `M` with a first mesoscopic link `first` and a last one `last`,
the first node of every lane chain of `first` (lanes, bike chain, walk chain) is
an upstream target node with the zone of the macroscopic source node, the last
node of every chain of `last` is a downstream target node with the zone of the
macroscopic target node, and every other node of a chain of a mesoscopic link
of `M` that is in the network has both flags false and the zone -1.  The lanes
of `first` and `last` have at least two nodes.  The preconditions of the amended
claim: no mesoscopic link occurs twice in the lists `mesolinks` of the
macroscopic links, these mesoscopic links come without microscopic nodes, and
none of them is a movement link. -/
theorem target_marks_in_network (P : GeoPrims) (macroLinks : GoMap NetworkLink)
    (macroNodes : GoMap NetworkNode) (mesoLinks : GoMap NetworkLinkMesoscopic)
    (mesoNodes : GoMap NetworkNodeMesoscopic) (sep : Bool) (net : NetworkMicroscopic)
    (mesoLinks' : GoMap NetworkLinkMesoscopic)
    (h : genMicroscopicNetwork P macroLinks macroNodes mesoLinks mesoNodes sep
      = .ok (net, mesoLinks'))
    (hnd : ((macroLinks.map (fun kv => kv.2)).map (fun M => M.mesolinks)).flatten.Nodup)
    (hno : ∀ kv ∈ macroLinks, NoChains mesoLinks kv.2.mesolinks)
    (hmv : ∀ kv ∈ macroLinks, ∀ m ∈ kv.2.mesolinks, ∀ ml, mapGet? mesoLinks m = some ml →
      ¬ ml.movementID > -1)
    (key : Int) (M : NetworkLink) (hM : (key, M) ∈ macroLinks) (first last : Int)
    (hfirst : M.mesolinks.head? = some first) (hlast : M.mesolinks.getLast? = some last) :
    ∃ (src tgt : NetworkNode) (mlF mlL : NetworkLinkMesoscopic),
      mapGet? macroNodes M.sourceNodeID = some src
      ∧ mapGet? macroNodes M.targetNodeID = some tgt
      ∧ mapGet? mesoLinks' first = some mlF ∧ mapGet? mesoLinks' last = some mlL
      ∧ (∀ c ∈ mlF.microNodesPerLane, 2 ≤ c.length)
      ∧ (∀ c ∈ mlL.microNodesPerLane, 2 ≤ c.length)
      ∧ (∀ x, ChainHead mlF x → ∃ n, mapGet? net.nodes x = some n
          ∧ n.isLinkUpstreamTargetNode = true ∧ n.zoneID = src.zoneID)
      ∧ (∀ x, ChainLast mlL x → ∃ n, mapGet? net.nodes x = some n
          ∧ n.isLinkDownstreamTargetNode = true ∧ n.zoneID = tgt.zoneID)
      ∧ (∀ m ∈ M.mesolinks, ∀ ml, mapGet? mesoLinks' m = some ml →
          ∀ x ∈ (laneChains ml).flatten, ¬ ChainHead mlF x → ¬ ChainLast mlL x →
          ∀ n, mapGet? net.nodes x = some n →
            n.isLinkUpstreamTargetNode = false ∧ n.isLinkDownstreamTargetNode = false
              ∧ n.zoneID = -1) := by
  unfold genMicroscopicNetwork at h
  obtain ⟨st, hb, h⟩ := except_bind_ok _ _ _ h
  obtain ⟨st', hc, h⟩ := except_bind_ok _ _ _ h
  obtain ⟨nodes, hu, h⟩ := except_bind_ok _ _ _ h
  cases h
  unfold buildCells at hb
  -- the macroscopic links before and after `M`
  have hMx : M ∈ macroLinks.map (fun kv => kv.2) := List.mem_map.mpr ⟨(key, M), hM, rfl⟩
  have hno' : ∀ M' ∈ macroLinks.map (fun kv => kv.2), NoChains mesoLinks M'.mesolinks := by
    intro M' hM'
    obtain ⟨kv, hkv, rfl⟩ := List.mem_map.mp hM'
    exact hno kv hkv
  have hmv' : ∀ m ∈ M.mesolinks, ∀ ml, mapGet? mesoLinks m = some ml → ¬ ml.movementID > -1 :=
    hmv (key, M) hM
  have hback : MoveIDBack
      { nodes := [], links := [], lastNodeID := 0, lastLinkID := 0, mesoLinks := mesoLinks } st :=
    foldlM_except_rel MoveIDBack _ _ _ _ MoveIDBack_refl MoveIDBack_trans
      (fun a x b _ hf => processMacroLink_movementID P macroNodes sep a b x hf) hb
  obtain ⟨pre, post, hsplit⟩ := List.append_of_mem hMx
  rw [hsplit] at hb hnd hno'
  rw [List.foldlM_append] at hb
  obtain ⟨sA, hA, hb⟩ := except_bind_ok _ _ _ hb
  rw [List.foldlM_cons] at hb
  obtain ⟨sB, hB, hC⟩ := except_bind_ok _ _ _ hb
  rw [List.map_append, List.map_cons, List.flatten_append, List.flatten_cons] at hnd
  obtain ⟨n1, n2, n3⟩ := List.nodup_append.mp hnd
  obtain ⟨n4, n5, n6⟩ := List.nodup_append.mp n2
  obtain ⟨-, fA⟩ := foldlM_processMacroLink_old P macroNodes sep pre _ sA 0 hA n1
    (fun M' hM' => hno' M' (by simp [hM']))
  have hnoA : NoChains sA.mesoLinks M.mesolinks := by
    intro k hk ml hml
    have hkp : k ∉ (pre.map (fun M => M.mesolinks)).flatten :=
      fun hm => n3 hm (List.mem_append_left _ hk)
    rw [fA k hkp] at hml
    exact hno' M (by simp) k hk ml hml
  obtain ⟨src, tgt, mlF, mlL, g1, g2, g3, g4, g5, g6, g7, g8, -, g10⟩ :=
    processMacroLink_marks P macroNodes sep sA sB M first last hB n4 hnoA hfirst hlast
  have fB := processMacroLink_mesoFrame P macroNodes sep sA sB M hB
  have hnoB : ∀ M' ∈ post, NoChains sB.mesoLinks M'.mesolinks := by
    intro M' hM' k hk ml hml
    have hkpost : k ∈ (post.map (fun M => M.mesolinks)).flatten :=
      List.mem_flatten.mpr ⟨M'.mesolinks, List.mem_map.mpr ⟨M', hM', rfl⟩, hk⟩
    have hkM : k ∉ M.mesolinks := fun hm => n6 hm hkpost
    have hkp : k ∉ (pre.map (fun M => M.mesolinks)).flatten :=
      fun hm => n3 hm (List.mem_append_right _ hkpost)
    rw [fB k hkM, fA k hkp] at hml
    exact hno' M' (by simp [hM']) k hk ml hml
  obtain ⟨oC, fC⟩ := foldlM_processMacroLink_old P macroNodes sep post sB st sB.lastNodeID hC
    n5 hnoB
  have oD := connectLinks_old sB.lastNodeID P st st' hc
  have mD := connectLinks_moveOnly P st st' hc
  have oCD := OldKept_trans _ _ _ _ oC oD
  -- the mesoscopic links of `M` in the result
  have htbl : ∀ m ∈ M.mesolinks, mapGet? st'.mesoLinks m = mapGet? sB.mesoLinks m := by
    intro m hm
    have hmpost : m ∉ (post.map (fun M => M.mesolinks)).flatten := fun hp => n6 hm hp
    have e1 : mapGet? st.mesoLinks m = mapGet? sB.mesoLinks m := fC m hmpost
    obtain ⟨ml, hml⟩ := Option.isSome_iff_exists.mp (g10 m hm)
    rw [hml] at e1
    obtain ⟨ml0, k1, k2⟩ := hback m ml e1
    have hnm : ¬ ml.movementID > -1 := by
      rw [← k2]
      exact hmv' m hm ml0 k1
    rw [mD m ml e1 hnm, hml]
  -- the nodes of `M` in the result
  have hk : ∀ x, x < sB.lastNodeID →
      (mapGet? sB.nodes x = none → mapGet? nodes x = none)
        ∧ ∀ nd, mapGet? sB.nodes x = some nd →
          ∃ nd', mapGet? nodes x = some nd' ∧ FlagsSame nd nd' := by
    intro x hx
    obtain ⟨q1, q2⟩ := oCD.2 (le_refl _) x hx
    obtain ⟨r1, r2⟩ := updateBoundaryType_flags st'.mesoLinks mesoNodes st'.nodes nodes hu x
    refine ⟨fun h0 => r1 (q1 h0), ?_⟩
    intro nd hnd
    obtain ⟨nd1, a1, a2⟩ := q2 nd hnd
    obtain ⟨nd2, b1, b2⟩ := r2 nd1 a1
    exact ⟨nd2, b1, FlagsSame_trans _ _ _ a2 b2⟩
  have hfm : first ∈ M.mesolinks := head?_mem _ _ hfirst
  have hlm : last ∈ M.mesolinks := getLast?_mem _ _ hlast
  have hin : ∀ m ∈ M.mesolinks, ∀ ml, mapGet? sB.mesoLinks m = some ml →
      ∀ x ∈ (laneChains ml).flatten, x < sB.lastNodeID :=
    fun m hm ml hml x hx => g8 x ⟨m, hm, ml, hml, hx⟩
  obtain ⟨t1, t2, t3⟩ := TargetsMarked_kept sB.nodes nodes sB.mesoLinks st'.mesoLinks
    M.mesolinks mlF mlL src.zoneID tgt.zoneID sB.lastNodeID g7
    (fun x hx => hin first hfm mlF g3 x (ChainHead_in mlF x hx))
    (fun x hx => hin last hlm mlL g4 x (ChainLast_in mlL x hx)) hin hk htbl
  exact ⟨src, tgt, mlF, mlL, g1, g2, by rw [htbl first hfm]; exact g3,
    by rw [htbl last hlm]; exact g4, g5, g6, t1, t2, t3⟩

/-- Witness of C19 as amended: a macroscopic link of two lanes and a bike chain with two
mesoscopic links of three nodes per chain.  The first nodes 0, 3 and 6 of the
chains of the first link are upstream target nodes in zone 7, the last nodes 11,
14 and 17 of the chains of the last link are downstream target nodes in zone 8,
and the other nodes have no mark; the nodes 2, 5 and 8 are deleted by the
stitching. -/
theorem target_marks_in_network_witness :
    (∃ (src tgt : NetworkNode) (mlF mlL : NetworkLinkMesoscopic),
      mapGet? exMacroNodes
          (exMacro 100 2 [10, 11] [AgentType.AGENT_AUTO, AgentType.AGENT_BIKE]).sourceNodeID
        = some src
      ∧ mapGet? exMacroNodes
          (exMacro 100 2 [10, 11] [AgentType.AGENT_AUTO, AgentType.AGENT_BIKE]).targetNodeID
        = some tgt
      ∧ mapGet? exMarkResult.2 10 = some mlF ∧ mapGet? exMarkResult.2 11 = some mlL
      ∧ (∀ c ∈ mlF.microNodesPerLane, 2 ≤ c.length)
      ∧ (∀ c ∈ mlL.microNodesPerLane, 2 ≤ c.length)
      ∧ (∀ x, ChainHead mlF x → ∃ n, mapGet? exMarkResult.1.nodes x = some n
          ∧ n.isLinkUpstreamTargetNode = true ∧ n.zoneID = src.zoneID)
      ∧ (∀ x, ChainLast mlL x → ∃ n, mapGet? exMarkResult.1.nodes x = some n
          ∧ n.isLinkDownstreamTargetNode = true ∧ n.zoneID = tgt.zoneID)
      ∧ (∀ m ∈ (exMacro 100 2 [10, 11]
            [AgentType.AGENT_AUTO, AgentType.AGENT_BIKE]).mesolinks,
          ∀ ml, mapGet? exMarkResult.2 m = some ml →
          ∀ x ∈ (laneChains ml).flatten, ¬ ChainHead mlF x → ¬ ChainLast mlL x →
          ∀ n, mapGet? exMarkResult.1.nodes x = some n →
            n.isLinkUpstreamTargetNode = false ∧ n.isLinkDownstreamTargetNode = false
              ∧ n.zoneID = -1))
    ∧ exMarkResult.2.map (fun kv => (kv.1, laneChains kv.2))
      = [(10, [[0, 1, 9], [3, 4, 12], [6, 7, 15], []]),
         (11, [[9, 10, 11], [12, 13, 14], [15, 16, 17], []])]
    ∧ exMarkResult.1.nodes.map (fun kv => (kv.1, kv.2.isLinkUpstreamTargetNode,
        kv.2.isLinkDownstreamTargetNode, kv.2.zoneID))
      = [(0, true, false, 7), (1, false, false, -1), (3, true, false, 7),
         (4, false, false, -1), (6, true, false, 7), (7, false, false, -1),
         (9, false, false, -1), (10, false, false, -1), (11, false, true, 8),
         (12, false, false, -1), (13, false, false, -1), (14, false, true, 8),
         (15, false, false, -1), (16, false, false, -1), (17, false, true, 8)] :=
  ⟨target_marks_in_network exPrims exMarkMacro exMacroNodes exMarkMeso exMesoNodes true
      exMarkResult.1 exMarkResult.2 exMarkResult_ok (by decide) exMarkMeso_fresh
      exMarkMeso_segments 100
      (exMacro 100 2 [10, 11] [AgentType.AGENT_AUTO, AgentType.AGENT_BIKE])
      (List.mem_singleton.mpr rfl) 10 11 rfl rfl,
    by decide!, by decide!⟩

/-! ## Theorems on the way preparation of `readOSM` -/

/-- C22: the direction flags of the way that `readOSM` prepares, by the text
`t` that `Find` returns for the key `oneway` (the empty string when the way has
no such tag): `yes` or `1` gives `Oneway = true` and `IsReversed = false`; `no`
or `0` gives `Oneway = false`, whatever the `junction` tag is; `-1` gives
`Oneway = true` and `IsReversed = true`; a value of the set `onewayReversible`
(other than the values above) gives `Oneway = false`; when the tag is absent
`Oneway` is true exactly when the text of the `junction` tag is in the set
`junctionTypes`; and `OnewayDefault` is true exactly when the tag is absent
and the `junction` text is not in that set. -/
theorem oneway_flags_by_tag (onewayReversible junctionTypes : List String)
    (ParseFloat : String → Option ℚ) (way : OsmWay) :
    ((∀ v, ("oneway", v) ∉ way.Tags) → Find way.Tags "oneway" = "")
    ∧ (Find way.Tags "oneway" = "yes" ∨ Find way.Tags "oneway" = "1" →
        (prepareWay onewayReversible junctionTypes ParseFloat way).Oneway = true
        ∧ (prepareWay onewayReversible junctionTypes ParseFloat way).IsReversed = false)
    ∧ (Find way.Tags "oneway" = "no" ∨ Find way.Tags "oneway" = "0" →
        (prepareWay onewayReversible junctionTypes ParseFloat way).Oneway = false)
    ∧ (Find way.Tags "oneway" = "-1" →
        (prepareWay onewayReversible junctionTypes ParseFloat way).Oneway = true
        ∧ (prepareWay onewayReversible junctionTypes ParseFloat way).IsReversed = true)
    ∧ (Find way.Tags "oneway" ∈ onewayReversible → Find way.Tags "oneway" ≠ "" →
        Find way.Tags "oneway" ≠ "yes" → Find way.Tags "oneway" ≠ "1" →
        Find way.Tags "oneway" ≠ "-1" →
        (prepareWay onewayReversible junctionTypes ParseFloat way).Oneway = false)
    ∧ (Find way.Tags "oneway" = "" →
        ((prepareWay onewayReversible junctionTypes ParseFloat way).Oneway = true
          ↔ Find way.Tags "junction" ∈ junctionTypes))
    ∧ ((prepareWay onewayReversible junctionTypes ParseFloat way).OnewayDefault = true
        ↔ Find way.Tags "oneway" = "" ∧ Find way.Tags "junction" ∉ junctionTypes) := by
  have hf := prepareWay_flags onewayReversible junctionTypes ParseFloat way
  simp only [Prod.ext_iff] at hf
  obtain ⟨h1, h2, h3⟩ := hf
  rw [h1, h2, h3]
  refine ⟨Find_absent way.Tags "oneway", ?_, ?_, ?_, ?_, ?_, ?_⟩
  · rintro (h | h) <;> simp [classifyOneway, h]
  · rintro (h | h) <;> simp [classifyOneway, h]
  · intro h
    simp [classifyOneway, h]
  · intro _ h0 hy h1 hm
    unfold classifyOneway
    simp only [h0, hy, h1, hm, ne_eq, not_false_eq_true, if_true, or_self, if_false]
    split_ifs <;> rfl
  · intro h
    simp only [classifyOneway, h, ne_eq, not_true_eq_false, if_false]
    split_ifs with hj <;> simpa using hj
  · unfold classifyOneway
    by_cases h0 : Find way.Tags "oneway" = ""
    · simp only [h0, ne_eq, not_true_eq_false, if_false, true_and]
      split_ifs with hj <;> simpa using hj
    · simp only [h0, ne_eq, not_false_eq_true, if_true, false_and, iff_false]
      split_ifs <;> simp

/-- Witness of C22: a way tagged `oneway = -1` on a roundabout is one-way and
reversed, and a way tagged `oneway = no` on a roundabout is not one-way. -/
theorem oneway_flags_by_tag_witness :
    ((prepareWay ["reversible", "alternating"] ["roundabout", "circular"] exParseFloat
        (exOsmWay [("oneway", "-1"), ("junction", "roundabout")])).Oneway = true
      ∧ (prepareWay ["reversible", "alternating"] ["roundabout", "circular"] exParseFloat
        (exOsmWay [("oneway", "-1"), ("junction", "roundabout")])).IsReversed = true)
    ∧ (prepareWay ["reversible", "alternating"] ["roundabout", "circular"] exParseFloat
        (exOsmWay [("junction", "roundabout"), ("oneway", "no")])).Oneway = false :=
  ⟨(oneway_flags_by_tag ["reversible", "alternating"] ["roundabout", "circular"] exParseFloat
      (exOsmWay [("oneway", "-1"), ("junction", "roundabout")])).2.2.2.1 (by decide),
   (oneway_flags_by_tag ["reversible", "alternating"] ["roundabout", "circular"] exParseFloat
      (exOsmWay [("junction", "roundabout"), ("oneway", "no")])).2.2.1 (Or.inl (by decide))⟩

/-! ## Theorems on the use-count stage -/

/-- C27: with the scans done, the use-count stage returns its error exactly
when some accepted way has a node ID that is absent from the node table, and
then `ImportFromOSMFile` and `readOSM` return `nil` with the error (no edges,
no data); when every node is in the table the stage returns a table and
`readOSM` returns the data with it. -/
theorem missing_node_is_fatal (getSphericalLength : List GeoPoint → ℚ)
    (findOutComingEdges : Edge → List Edge → List Int)
    (findMiddlePoint : List GeoPoint → Int × GeoPoint)
    (ways : List Way) (nodes : GoMap Node) (restrictionsNo restrictionsOnly : RestrictionTable)
    (preparedWays : List WayWithNodes) (restrictions : RestrictionTable) :
    (countUseCases nodes (ways.map (fun way => way.Nodes)) = none
      ↔ ∃ way ∈ ways, ∃ id ∈ way.Nodes, mapGet? nodes id = none)
    ∧ (importFromScans getSphericalLength findOutComingEdges findMiddlePoint ways nodes
          restrictionsNo restrictionsOnly = .error .error
      ↔ ∃ way ∈ ways, ∃ id ∈ way.Nodes, mapGet? nodes id = none)
    ∧ (readOSMFromScans preparedWays nodes restrictions = .error .error
      ↔ ∃ way ∈ preparedWays, ∃ id ∈ way.Nodes, mapGet? nodes id = none)
    ∧ ((¬ ∃ way ∈ preparedWays, ∃ id ∈ way.Nodes, mapGet? nodes id = none) →
        ∃ counted, countUseCases nodes (preparedWays.map (fun way => way.Nodes)) = some counted
          ∧ readOSMFromScans preparedWays nodes restrictions
            = .ok { restrictions := restrictions, nodes := counted, ways := preparedWays }) := by
  have hA : (countUseCases nodes (ways.map (fun way => way.Nodes)) = none
      ↔ ∃ way ∈ ways, ∃ id ∈ way.Nodes, mapGet? nodes id = none) := by
    rw [(countUseCases_spec _ nodes).1]
    simp only [List.mem_map, exists_exists_and_eq_and]
  have hB : (countUseCases nodes (preparedWays.map (fun way => way.Nodes)) = none
      ↔ ∃ way ∈ preparedWays, ∃ id ∈ way.Nodes, mapGet? nodes id = none) := by
    rw [(countUseCases_spec _ nodes).1]
    simp only [List.mem_map, exists_exists_and_eq_and]
  refine ⟨hA, ?_, ?_, ?_⟩
  · rw [← hA]
    unfold importFromScans
    cases hc : countUseCases nodes (ways.map (fun way => way.Nodes)) with
    | none => simp
    | some counted =>
      simp only
      split <;> simp
  · rw [← hB]
    unfold readOSMFromScans
    cases hc : countUseCases nodes (preparedWays.map (fun way => way.Nodes)) with
    | none => simp
    | some counted => simp
  · intro hno
    rw [← hB] at hno
    unfold readOSMFromScans
    cases hc : countUseCases nodes (preparedWays.map (fun way => way.Nodes)) with
    | none => exact absurd hc hno
    | some counted => exact ⟨counted, rfl, rfl⟩

/-- Witness of C27: way 20 of the example ways runs over node 4, which is not in
the table of the nodes 1, 2 and 3: `ImportFromOSMFile` returns the error. -/
theorem missing_node_is_fatal_witness :
    importFromScans exLength findOutComingEdges exFindMiddlePoint exWays exNodeTable [] []
      = .error .error :=
  (missing_node_is_fatal exLength findOutComingEdges exFindMiddlePoint exWays exNodeTable [] []
    [] []).2.1.mpr ⟨⟨20, true, [2, 4], []⟩, by simp [exWays], 4, by simp, by decide⟩

/-- C23, the failing input: for the value `50 km/h` the pattern matches the
text `50 km/h`, unit included, this text is what `ParseFloat` is called on, and
the field `maxSpeed` is -1, not 50; likewise `30 mph` gives -1. -/
theorem maxspeed_with_unit_is_lost :
    kmhRegExpFindString "50 km/h" = "50 km/h"
    ∧ (prepareWay ["reversible", "alternating"] ["roundabout", "circular"] exParseFloat
        (exOsmWay [("maxspeed", "50 km/h")])).maxSpeed = -1
    ∧ mphRegExpFindString "30 mph" = "30 mph"
    ∧ (prepareWay ["reversible", "alternating"] ["roundabout", "circular"] exParseFloat
        (exOsmWay [("maxspeed", "30 mph")])).maxSpeed = -1 := by
  refine ⟨by decide, by decide!, by decide, by decide!⟩

/-- C23, where the code agrees with the claim: `strconv.ParseFloat` takes no
text with a blank in it, and with such a `ParseFloat` the prepared way has
`maxSpeed = -1` for every value of the tag `maxspeed`, so for every value that
is not of the form `<N> km/h` or `<N> mph`. -/
theorem maxspeed_other_values (onewayReversible junctionTypes : List String)
    (ParseFloat : String → Option ℚ)
    (hPF : ∀ s : String, ' ' ∈ s.toList → ParseFloat s = none) (way : OsmWay) :
    (prepareWay onewayReversible junctionTypes ParseFloat way).maxSpeed = -1 := by
  unfold prepareWay
  exact flattenTags_maxSpeed ParseFloat hPF _ rfl

/-- Witness of C23: the value `fast` gives -1. -/
theorem maxspeed_other_values_witness :
    (prepareWay ["reversible", "alternating"] ["roundabout", "circular"] exParseFloat
      (exOsmWay [("maxspeed", "fast")])).maxSpeed = -1 :=
  maxspeed_other_values ["reversible", "alternating"] ["roundabout", "circular"] exParseFloat
    exParseFloat_blank (exOsmWay [("maxspeed", "fast")])

/-- C24, the failing input: in the value `2 lanes` the pattern finds the digits
`2`, but `Atoi` is called on the whole value and the field `lanes` is -1, not
2; the tags `lanes:forward` and `lanes:backward` are parsed as they are, and
their fields are -1 as well. -/
theorem lanes_digits_not_extracted :
    lanesRegExpFindString "2 lanes" = "2"
    ∧ (prepareWay ["reversible", "alternating"] ["roundabout", "circular"] exParseFloat
        (exOsmWay [("lanes", "2 lanes"), ("lanes:forward", "2 lanes"),
          ("lanes:backward", "1 lane")])).lanes = -1
    ∧ (prepareWay ["reversible", "alternating"] ["roundabout", "circular"] exParseFloat
        (exOsmWay [("lanes", "2 lanes"), ("lanes:forward", "2 lanes"),
          ("lanes:backward", "1 lane")])).lanesForward = -1
    ∧ (prepareWay ["reversible", "alternating"] ["roundabout", "circular"] exParseFloat
        (exOsmWay [("lanes", "2 lanes"), ("lanes:forward", "2 lanes"),
          ("lanes:backward", "1 lane")])).lanesBackward = -1 := by
  refine ⟨by decide, by decide, by decide, by decide⟩

/-- C24, where the code agrees with the claim: for each of the tags `lanes`,
`lanes:forward` and `lanes:backward` the field of the prepared way is the
number of the value when the value is a plain decimal integer, and -1 when the
value has no digit (also when the tag is absent). -/
theorem lanes_plain_integer (onewayReversible junctionTypes : List String)
    (ParseFloat : String → Option ℚ) (way : OsmWay) :
    (∀ n, PlainInteger (Find way.Tags "lanes") n →
        (prepareWay onewayReversible junctionTypes ParseFloat way).lanes = n)
    ∧ (NoDigit (Find way.Tags "lanes") →
        (prepareWay onewayReversible junctionTypes ParseFloat way).lanes = -1)
    ∧ (∀ n, PlainInteger (Find way.Tags "lanes:forward") n →
        (prepareWay onewayReversible junctionTypes ParseFloat way).lanesForward = n)
    ∧ (NoDigit (Find way.Tags "lanes:forward") →
        (prepareWay onewayReversible junctionTypes ParseFloat way).lanesForward = -1)
    ∧ (∀ n, PlainInteger (Find way.Tags "lanes:backward") n →
        (prepareWay onewayReversible junctionTypes ParseFloat way).lanesBackward = n)
    ∧ (NoDigit (Find way.Tags "lanes:backward") →
        (prepareWay onewayReversible junctionTypes ParseFloat way).lanesBackward = -1) := by
  unfold prepareWay
  refine ⟨?_, ?_, ?_, ?_, ?_, ?_⟩
  · intro n hn
    rw [flattenTags_lanes _ _ rfl]
    show (Atoi (Find way.Tags "lanes")).getD (-1) = n
    rw [Atoi_plain _ n hn]
    rfl
  · intro hn
    rw [flattenTags_lanes _ _ rfl]
    show (Atoi (Find way.Tags "lanes")).getD (-1) = -1
    rw [Atoi_noDigit _ hn]
    rfl
  · intro n hn
    rw [flattenTags_lanesForward _ _ rfl]
    show (Atoi (Find way.Tags "lanes:forward")).getD (-1) = n
    rw [Atoi_plain _ n hn]
    rfl
  · intro hn
    rw [flattenTags_lanesForward _ _ rfl]
    show (Atoi (Find way.Tags "lanes:forward")).getD (-1) = -1
    rw [Atoi_noDigit _ hn]
    rfl
  · intro n hn
    rw [flattenTags_lanesBackward _ _ rfl]
    show (Atoi (Find way.Tags "lanes:backward")).getD (-1) = n
    rw [Atoi_plain _ n hn]
    rfl
  · intro hn
    rw [flattenTags_lanesBackward _ _ rfl]
    show (Atoi (Find way.Tags "lanes:backward")).getD (-1) = -1
    rw [Atoi_noDigit _ hn]
    rfl

/-- Witness of C24: `lanes = 2` gives 2 and `lanes:forward = two` gives -1. -/
theorem lanes_plain_integer_witness :
    (prepareWay ["reversible", "alternating"] ["roundabout", "circular"] exParseFloat
        (exOsmWay [("lanes", "2"), ("lanes:forward", "two")])).lanes = 2
    ∧ (prepareWay ["reversible", "alternating"] ["roundabout", "circular"] exParseFloat
        (exOsmWay [("lanes", "2"), ("lanes:forward", "two")])).lanesForward = -1 :=
  ⟨(lanes_plain_integer ["reversible", "alternating"] ["roundabout", "circular"] exParseFloat
      (exOsmWay [("lanes", "2"), ("lanes:forward", "two")])).1 2
      ⟨by decide, by decide, by decide, by decide⟩,
   (lanes_plain_integer ["reversible", "alternating"] ["roundabout", "circular"] exParseFloat
      (exOsmWay [("lanes", "2"), ("lanes:forward", "two")])).2.2.2.1
      (by unfold NoDigit; decide)⟩


/-! ## Theorems on edge slicing -/

/-- C30: after the use-count stage (run on a node table without negative
counts), for every way with at least two nodes the slicing loop appends to the
edge list the edges of a non-empty list `F` of forward edges, in this order;
the first edge of `F` starts at the first node of the way, every edge of `F`
ends where the next one starts, the last one ends at the last node of the way,
and every endpoint is in the table with a use count of at least 2.  If the way
is one-way the appended edges are `F` itself; if not, every forward edge is
followed at once by `swappedEdge` of it: source and target swapped, the same
cost, the geometry reversed (by `reverseLine`). -/
theorem slices_form_chain (getSphericalLength : List GeoPoint → ℚ)
    (nodes counted : GoMap Node) (ways : List Way) (way : Way) (acc : List Edge × Int)
    (hnodes : ∀ k n, mapGet? nodes k = some n → 0 ≤ n.useCount)
    (hcount : countUseCases nodes (ways.map (fun w => w.Nodes)) = some counted)
    (hway : way ∈ ways) (hlen : 2 ≤ way.Nodes.length) :
    ∃ F : List Edge, F ≠ []
      ∧ (sliceWay getSphericalLength (mapGet? counted) acc way).1
          = acc.1 ++ (if way.Oneway then F else F.flatMap (fun e => [e, swappedEdge e]))
      ∧ (∀ e, F[0]? = some e → some e.SourceNodeID = way.Nodes.head?)
      ∧ (∀ (i : Nat) (e f : Edge), F[i]? = some e → F[i + 1]? = some f →
          e.TargetNodeID = f.SourceNodeID)
      ∧ (∀ e, F.getLast? = some e → some e.TargetNodeID = way.Nodes.getLast?)
      ∧ (∀ e ∈ F, (∃ n, mapGet? counted e.SourceNodeID = some n ∧ 2 ≤ n.useCount)
          ∧ ∃ n, mapGet? counted e.TargetNodeID = some n ∧ 2 ≤ n.useCount)
      ∧ (∀ e : Edge, (swappedEdge e).SourceNodeID = e.TargetNodeID
          ∧ (swappedEdge e).TargetNodeID = e.SourceNodeID
          ∧ (swappedEdge e).CostMeters = e.CostMeters
          ∧ (swappedEdge e).Geom = e.Geom.reverse) := by
  obtain ⟨a, mid, b, hw⟩ := two_ends way.Nodes hlen
  have hmem : (a :: (mid ++ [b])) ∈ ways.map (fun w => w.Nodes) := by
    rw [← hw]
    exact List.mem_map_of_mem _ hway
  obtain ⟨ha, hb⟩ := countUseCases_ends _ nodes counted hnodes hcount a b mid hmem
  obtain ⟨F, hF, hE, hL, hS⟩ := sliceWay_chain getSphericalLength counted way acc a b mid hw ha hb
  obtain ⟨h1, h2, h3⟩ := LeadsFrom_positions F a b hL
  refine ⟨F, hF, hE, ?_, h2, ?_, hS, fun e => ⟨rfl, rfl, rfl, rfl⟩⟩
  · intro e he
    rw [hw, h1 e he]
    rfl
  · intro e he
    rw [hw, h3 e he, ← List.cons_append, List.getLast?_append]
    rfl

/-- Witness of C30: way 10 of the example ways, over the nodes 1, 2, 3, after
the use-count stage on the table of the nodes 1 to 4. -/
theorem slices_form_chain_witness :
    ∃ F : List Edge, F ≠ []
      ∧ (sliceWay exLength (mapGet? exCounted4) ([], 0) ⟨10, false, [1, 2, 3], []⟩).1
          = [] ++ (if (⟨10, false, [1, 2, 3], []⟩ : Way).Oneway then F
              else F.flatMap (fun e => [e, swappedEdge e]))
      ∧ (∀ e, F[0]? = some e →
          some e.SourceNodeID = (⟨10, false, [1, 2, 3], []⟩ : Way).Nodes.head?)
      ∧ (∀ (i : Nat) (e f : Edge), F[i]? = some e → F[i + 1]? = some f →
          e.TargetNodeID = f.SourceNodeID)
      ∧ (∀ e, F.getLast? = some e →
          some e.TargetNodeID = (⟨10, false, [1, 2, 3], []⟩ : Way).Nodes.getLast?)
      ∧ (∀ e ∈ F, (∃ n, mapGet? exCounted4 e.SourceNodeID = some n ∧ 2 ≤ n.useCount)
          ∧ ∃ n, mapGet? exCounted4 e.TargetNodeID = some n ∧ 2 ≤ n.useCount)
      ∧ (∀ e : Edge, (swappedEdge e).SourceNodeID = e.TargetNodeID
          ∧ (swappedEdge e).TargetNodeID = e.SourceNodeID
          ∧ (swappedEdge e).CostMeters = e.CostMeters
          ∧ (swappedEdge e).Geom = e.Geom.reverse) :=
  slices_form_chain exLength exNodeTable4 exCounted4 exWays ⟨10, false, [1, 2, 3], []⟩ ([], 0)
    (fun k n h => by
      unfold exNodeTable4 at h
      simp only [mapGet?] at h
      split_ifs at h <;> cases h <;> decide)
    (by decide!) (by simp [exWays]) (by decide)

/-! ## Theorems on the relations scan -/

/-- C26, the counterexample: a `no_left_turn` relation from way 10 to way 20
whose third member has the role `location_hint` is counted, but it is entered
into the restrictions table with `{-1, ""}` as its `via`; the relation from way
10 to way 20 via node 2 that follows it finds its key taken and is not
entered, so the two turns from way 10 to way 20 stay in the final list, which
has them deleted when the first relation is absent. -/
theorem unsupported_role_is_entered :
    (scanRelations [exBadRelation]).unsupportedRestrictionRoles = 1
    ∧ (scanRelations [exBadRelation]).restrictions
        = [("no_left_turn", [(⟨10, "way"⟩, [(⟨20, "way"⟩, ⟨-1, ""⟩)])])]
    ∧ (scanRelations [exBadRelation, exGoodRelation]).restrictions
        = [("no_left_turn", [(⟨10, "way"⟩, [(⟨20, "way"⟩, ⟨-1, ""⟩)])])]
    ∧ (scanRelations [exGoodRelation]).restrictions
        = [("no_left_turn", [(⟨10, "way"⟩, [(⟨20, "way"⟩, ⟨2, "node"⟩)])])]
    ∧ exFinalTurns [exBadRelation, exGoodRelation]
        = [(1, 10, 10), (2, 10, 20), (3, 10, 10), (4, 10, 20)]
    ∧ exFinalTurns [exGoodRelation] = [(1, 10, 10), (3, 10, 10)] := by
  refine ⟨by decide, by decide, by decide, by decide, by decide!, by decide!⟩

/-- C26 (amended): a restriction relation with three members of which at least
one has a role other than `from`, `to` and `via` is counted and entered, not
dropped: in the scan of the relations `pre`, the relation, `post`, the counter
of unsupported roles ends higher by the number of such members (at least one)
than in the scan of `pre`, `post`, the counter of skipped relations ends the
same, the relation is entered into the table (unless its key is taken) with
the start value `{-1, ""}` left in `from`, `to` or `via`, and when no relation
of `post` has the same tag, `from` and `to`, `ImportFromOSMFile` returns the
same with the table of the one scan as with the table of the other. -/
theorem unsupported_role_counted_and_entered
    (getSphericalLength : List GeoPoint → ℚ)
    (findOutComingEdges : Edge → List Edge → List Int)
    (findMiddlePoint : List GeoPoint → Int × GeoPoint)
    (ways : List Way) (nodes : GoMap Node)
    (pre post : List Relation) (tag : String) (m0 m1 m2 : Member)
    (hbad : UnsupportedRole m0 ∨ UnsupportedRole m1 ∨ UnsupportedRole m2)
    (hpost : ∀ r ∈ post, relationKey r
      ≠ some (tag, (memberVars m0 m1 m2).firstMember, (memberVars m0 m1 m2).secondMember)) :
    1 ≤ unsupportedCount [m0, m1, m2]
    ∧ (scanRelations (pre ++ { restriction := some tag, Members := [m0, m1, m2] } :: post)
        ).unsupportedRestrictionRoles
        = (scanRelations (pre ++ post)).unsupportedRestrictionRoles
          + unsupportedCount [m0, m1, m2]
    ∧ (scanRelations (pre ++ { restriction := some tag, Members := [m0, m1, m2] } :: post)
        ).skippedRestrictions
        = (scanRelations (pre ++ post)).skippedRestrictions
    ∧ (∀ st : RelationScan,
        (scanRelation st { restriction := some tag, Members := [m0, m1, m2] }).restrictions
          = insertRestriction st.restrictions tag (memberVars m0 m1 m2).firstMember
              (memberVars m0 m1 m2).secondMember (memberVars m0 m1 m2).thirdMember)
    ∧ ((memberVars m0 m1 m2).firstMember = ⟨-1, ""⟩
        ∨ (memberVars m0 m1 m2).secondMember = ⟨-1, ""⟩
        ∨ (memberVars m0 m1 m2).thirdMember = ⟨-1, ""⟩)
    ∧ importFromScans getSphericalLength findOutComingEdges findMiddlePoint ways nodes
        (scanRelations (pre ++ { restriction := some tag, Members := [m0, m1, m2] } :: post)
          ).restrictions
        (scanRelations (pre ++ { restriction := some tag, Members := [m0, m1, m2] } :: post)
          ).restrictions
      = importFromScans getSphericalLength findOutComingEdges findMiddlePoint ways nodes
          (scanRelations (pre ++ post)).restrictions
          (scanRelations (pre ++ post)).restrictions := by
  have hdef := memberVars_default m0 m1 m2 hbad
  have hdead := default_is_dead _ _ _ hdef
  have hinit : WellKeyed ([] : RestrictionTable) :=
    ⟨List.nodup_nil, fun p hp => by cases hp⟩
  have hS : WellKeyed (pre.foldl scanRelation
      { skippedRestrictions := 0, unsupportedRestrictionRoles := 0,
        restrictions := [] }).restrictions :=
    scanFrom_wellKeyed pre _ hinit
  have hpair := scanFrom_pair post tag (memberVars m0 m1 m2).firstMember
    (memberVars m0 m1 m2).secondMember (memberVars m0 m1 m2).thirdMember
    (¬ KeyIn (pre.foldl scanRelation
      { skippedRestrictions := 0, unsupportedRestrictionRoles := 0,
        restrictions := [] }).restrictions tag (memberVars m0 m1 m2).firstMember
        (memberVars m0 m1 m2).secondMember) hpost
    (scanRelation (pre.foldl scanRelation
      { skippedRestrictions := 0, unsupportedRestrictionRoles := 0, restrictions := [] })
      { restriction := some tag, Members := [m0, m1, m2] })
    (pre.foldl scanRelation
      { skippedRestrictions := 0, unsupportedRestrictionRoles := 0, restrictions := [] })
    0 (unsupportedCount [m0, m1, m2])
    (scanRelation_wellKeyed _ _ hS) hS
    (by rw [scanRelation_three]; simp)
    (by rw [scanRelation_three])
    (by
      intro tag' f' t' v'
      rw [scanRelation_three]
      exact entry_insertRestriction _ hS _ _ _ _ _ _ _ _)
  have hscanA : scanRelations (pre ++ { restriction := some tag, Members := [m0, m1, m2] }
      :: post)
      = post.foldl scanRelation (scanRelation (pre.foldl scanRelation
          { skippedRestrictions := 0, unsupportedRestrictionRoles := 0, restrictions := [] })
          { restriction := some tag, Members := [m0, m1, m2] }) := by
    unfold scanRelations
    rw [List.foldl_append, List.foldl_cons]
  have hscanB : scanRelations (pre ++ post)
      = post.foldl scanRelation (pre.foldl scanRelation
          { skippedRestrictions := 0, unsupportedRestrictionRoles := 0,
            restrictions := [] }) := by
    unfold scanRelations
    rw [List.foldl_append]
  rw [hscanA, hscanB]
  refine ⟨?_, hpair.2.1, by rw [hpair.1]; ring, fun st => by rw [scanRelation_three], hdef, ?_⟩
  · unfold unsupportedCount
    have hlen : 0 < ([m0, m1, m2].filter (fun member => decide (UnsupportedRole member))).length := by
      apply List.length_pos_of_mem (a := if UnsupportedRole m0 then m0
        else if UnsupportedRole m1 then m1 else m2)
      rw [List.mem_filter]
      rcases hbad with h | h | h
      · simp [h]
      · by_cases h0 : UnsupportedRole m0 <;> simp [h0, h]
      · by_cases h0 : UnsupportedRole m0 <;> by_cases h1 : UnsupportedRole m1 <;>
          simp [h0, h1, h]
    omega
  · unfold importFromScans
    cases countUseCases nodes (ways.map (fun way => way.Nodes)) with
    | none => rfl
    | some counted =>
      simp only
      cases expandEdges findOutComingEdges findMiddlePoint
        (prepareEdges getSphericalLength (mapGet? counted) ways) with
      | none => rfl
      | some expanded =>
        simp only
        rw [applyRestrictions_dead _ _ _ _ tag _ _ _ _ hdead hpair.2.2]

/-- Witness of C26 (amended): the relation with the role `location_hint`
before an `only_straight_on` relation: one unsupported role is counted and
`ImportFromOSMFile` returns what it returns for the other relation alone. -/
theorem unsupported_role_counted_and_entered_witness :
    (scanRelations ([] ++ exBadRelation :: [exOtherRelation])).unsupportedRestrictionRoles
        = (scanRelations ([] ++ [exOtherRelation])).unsupportedRestrictionRoles
          + unsupportedCount exBadRelation.Members
    ∧ unsupportedCount exBadRelation.Members = 1
    ∧ importFromScans exLength findOutComingEdges exFindMiddlePoint exWays exNodeTable4
        (scanRelations ([] ++ exBadRelation :: [exOtherRelation])).restrictions
        (scanRelations ([] ++ exBadRelation :: [exOtherRelation])).restrictions
      = importFromScans exLength findOutComingEdges exFindMiddlePoint exWays exNodeTable4
          (scanRelations ([] ++ [exOtherRelation])).restrictions
          (scanRelations ([] ++ [exOtherRelation])).restrictions :=
  ⟨(unsupported_role_counted_and_entered exLength findOutComingEdges exFindMiddlePoint exWays
      exNodeTable4 [] [exOtherRelation] "no_left_turn" ⟨"from", 10, "way"⟩ ⟨"to", 20, "way"⟩
      ⟨"location_hint", 2, "node"⟩ (Or.inr (Or.inr (by decide)))
      (fun r hr => by
        rw [List.mem_singleton] at hr
        subst hr
        decide)).2.1,
   by decide,
   (unsupported_role_counted_and_entered exLength findOutComingEdges exFindMiddlePoint exWays
      exNodeTable4 [] [exOtherRelation] "no_left_turn" ⟨"from", 10, "way"⟩ ⟨"to", 20, "way"⟩
      ⟨"location_hint", 2, "node"⟩ (Or.inr (Or.inr (by decide)))
      (fun r hr => by
        rw [List.mem_singleton] at hr
        subst hr
        decide)).2.2.2.2.2⟩
/-! ## Theorems on the orders of iteration -/

/-- C28, the counterexample: the two macroscopic links of the movement example,
visited in the one order and in the other.  The lane of the mesoscopic link 10
gets the node IDs 0 and 1 when its macroscopic link is visited first, and the
node IDs 2 and 3 when it is visited second. -/
theorem ids_follow_iteration_order :
    exMoveMacro.reverse = [(101, exMacro 101 1 [11] [AgentType.AGENT_AUTO]),
      (100, exMacro 100 1 [10] [AgentType.AGENT_AUTO])]
    ∧ genMicroscopicNetwork exPrims exMoveMacro exMacroNodes exMoveMeso exMesoNodes false
        = .ok exMoveResult
    ∧ genMicroscopicNetwork exPrims exMoveMacro.reverse exMacroNodes exMoveMeso exMesoNodes false
        = .ok exMoveResultRev
    ∧ exMoveResult.2.map (fun kv => (kv.1, kv.2.microNodesPerLane))
        = [(10, [[0, 1]]), (11, [[2, 3]]), (12, [[4]])]
    ∧ exMoveResultRev.2.map (fun kv => (kv.1, kv.2.microNodesPerLane))
        = [(10, [[2, 3]]), (11, [[0, 1]]), (12, [[4]])] := by
  refine ⟨by decide, by with_unfolding_all rfl, by with_unfolding_all rfl, by decide!, by decide!⟩

/-- C28 (amended): the result of `genMicroscopicNetwork` is the same for every
two orders of iteration that visit in the same order the macroscopic links
with mesoscopic links (or without `lanesList`) and the movement links; where
the orders visit the other links, for which the loops do nothing, does not
matter.  `genMicroscopicNetworkIn` is `genMicroscopicNetwork` with the orders
given; the statement compares any such orders with the orders of the tables. -/
theorem idle_links_order_is_free (P : GeoPrims) (macroLinks : GoMap NetworkLink)
    (macroNodes : GoMap NetworkNode) (mesoLinks : GoMap NetworkLinkMesoscopic)
    (mesoNodes : GoMap NetworkNodeMesoscopic) (separateBikeWalk : Bool)
    (macroOrder : List NetworkLink) (mesoOrder : List Int)
    (hacts : macroOrder.filter macroLinkActs
      = (macroLinks.map (fun kv => kv.2)).filter macroLinkActs)
    (hkeys : ∀ k ∈ mesoOrder, (mapGet? mesoLinks k).isSome)
    (hmeso : mesoOrder.filter (isMovementKey mesoLinks)
      = (mesoLinks.map (fun kv => kv.1)).filter (isMovementKey mesoLinks)) :
    genMicroscopicNetworkIn P macroOrder mesoOrder macroNodes mesoLinks mesoNodes
        separateBikeWalk
      = genMicroscopicNetwork P macroLinks macroNodes mesoLinks mesoNodes separateBikeWalk := by
  rw [genMicroscopicNetwork_eq_In]
  exact genMicroscopicNetworkIn_idle P macroNodes mesoLinks mesoNodes separateBikeWalk _ _ _ _
    hacts hkeys (fun k hk => (mapGet?_isSome_iff_mem_keys mesoLinks k).mpr hk) hmeso

/-- Witness of C28 (amended): the movement example with a macroscopic link
without mesoscopic links: the idle link is visited first instead of second,
and the keys of the mesoscopic links are visited backwards. -/
theorem idle_links_order_is_free_witness :
    genMicroscopicNetworkIn exPrims
        [exMacro 102 1 [] [AgentType.AGENT_AUTO], exMacro 100 1 [10] [AgentType.AGENT_AUTO],
          exMacro 101 1 [11] [AgentType.AGENT_AUTO]]
        [12, 11, 10] exMacroNodes exMoveMeso exMesoNodes false
      = genMicroscopicNetwork exPrims exMoveMacroIdle exMacroNodes exMoveMeso exMesoNodes false :=
  idle_links_order_is_free exPrims exMoveMacroIdle exMacroNodes exMoveMeso exMesoNodes false
    [exMacro 102 1 [] [AgentType.AGENT_AUTO], exMacro 100 1 [10] [AgentType.AGENT_AUTO],
      exMacro 101 1 [11] [AgentType.AGENT_AUTO]]
    [12, 11, 10] (by decide!) (by decide) (by decide!)

/-! ## Theorems on the lanes that own the microscopic nodes -/

theorem exOwnResult_ok :
    genMicroscopicNetwork exPrims exOwnMacro exMacroNodes exOwnMeso exMesoNodes false
      = .ok exOwnResult := by
  with_unfolding_all rfl

/-- C31: after the use-count stage over a list of ways, the use count of every
node of the table is its count before (0 after the nodes scan) plus the number
of its occurrences at interior positions of ways plus twice the number of way
positions at which it is the first or the last node (a position that is both
counts once, as 2); no node comes into the table; consequently the first and
the last node of every way are in the table with a use count of at least 2
(when their count was not negative before), so they are split nodes. -/
theorem use_count_by_position (nodes counted : GoMap Node) (ways : List (List Int))
    (h : countUseCases nodes ways = some counted) :
    (∀ id n, mapGet? nodes id = some n →
        ∃ n', mapGet? counted id = some n'
          ∧ n'.useCount = n.useCount + specUseCount id ways
          ∧ (n.useCount = 0 → n'.useCount = specUseCount id ways))
    ∧ (∀ id, mapGet? nodes id = none → mapGet? counted id = none)
    ∧ (∀ w ∈ ways, ∀ a, (w.head? = some a ∨ w.getLast? = some a) →
        ∃ n n', mapGet? nodes a = some n ∧ mapGet? counted a = some n'
          ∧ (0 ≤ n.useCount → 2 ≤ n'.useCount ∧ n'.useCount > 1)) := by
  refine ⟨?_, ?_, ?_⟩
  · intro id n hn
    obtain ⟨n', hn', e⟩ := countUseCases_exact ways nodes counted h id n hn
    exact ⟨n', hn', e, fun h0 => by rw [e, h0, zero_add]⟩
  · intro id hid
    exact ((countUseCases_counted ways nodes counted h) id).1 hid
  · intro w hw a ha
    have hmem : a ∈ w := by
      rcases ha with ha | ha
      · exact head?_mem _ _ ha
      · exact getLast?_mem _ _ ha
    have hsome : ∃ n, mapGet? nodes a = some n := by
      cases hn : mapGet? nodes a with
      | some n => exact ⟨n, rfl⟩
      | none =>
        have hnone := ((countUseCases_spec ways nodes).1).mpr ⟨w, hw, a, hmem, hn⟩
        rw [hnone] at h
        cases h
    obtain ⟨n, hn⟩ := hsome
    obtain ⟨n', hn', e⟩ := countUseCases_exact ways nodes counted h a n hn
    refine ⟨n, n', hn, hn', ?_⟩
    intro h0
    have h2 := specUseCount_end ways w hw a ha
    constructor <;> omega

/-- Witness of C31: the ways 1-2-3 and 2-4 over the nodes 1 to 4 with counts 0:
node 2 is interior to the first way and the first node of the second, its count
is 1 + 2 = 3; the nodes 1, 3 and 4 are ends once and have the count 2. -/
theorem use_count_by_position_witness :
    countUseCases exNodeTable4 [[1, 2, 3], [2, 4]] = some exCounted4
    ∧ exCounted4.map (fun kv => (kv.1, kv.2.useCount)) = [(1, 2), (2, 3), (3, 2), (4, 2)]
    ∧ specUseCount 2 [[1, 2, 3], [2, 4]] = 3
    ∧ (∀ id n, mapGet? exNodeTable4 id = some n →
        ∃ n', mapGet? exCounted4 id = some n'
          ∧ n'.useCount = n.useCount + specUseCount id [[1, 2, 3], [2, 4]]
          ∧ (n.useCount = 0 → n'.useCount = specUseCount id [[1, 2, 3], [2, 4]])) :=
  ⟨by decide, by decide, by decide,
    (use_count_by_position exNodeTable4 exCounted4 [[1, 2, 3], [2, 4]] (by decide)).1⟩

/-- C32: for every `k`, the edge stored at index `k` of the edge list built by
edge slicing has the ID `k + 1`; hence for every edge `e` of the list the lookup
`edges[e.ID - 1]` of edge expansion (line 297) is in range and returns `e`. -/
theorem edge_id_is_index_plus_one (getSphericalLength : List GeoPoint → ℚ)
    (nodes : Int → Option Node) (ways : List Way) :
    (∀ (k : Nat) (e : Edge), (prepareEdges getSphericalLength nodes ways)[k]? = some e →
        e.ID = (k : Int) + 1)
    ∧ ∀ e ∈ prepareEdges getSphericalLength nodes ways,
        0 ≤ e.ID - 1 ∧ (e.ID - 1).toNat < (prepareEdges getSphericalLength nodes ways).length
        ∧ (prepareEdges getSphericalLength nodes ways)[(e.ID - 1).toNat]? = some e := by
  refine ⟨fun k e h => prepareEdges_ids getSphericalLength nodes ways k e h, ?_⟩
  intro e he
  obtain ⟨k, hk⟩ := List.mem_iff_getElem?.mp he
  have hid := prepareEdges_ids getSphericalLength nodes ways k e hk
  have e1 : (e.ID - 1).toNat = k := by omega
  have hlt : k < (prepareEdges getSphericalLength nodes ways).length := by
    by_contra hge
    rw [List.getElem?_eq_none (not_lt.mp hge)] at hk
    cases hk
  rw [e1]
  exact ⟨by omega, hlt, hk⟩

/-- Witness of C32: the five edges sliced from the ways of `exWays` have the
IDs 1 to 5 in the order of the list. -/
theorem edge_id_is_index_plus_one_witness :
    (prepareEdges exLength exNodes exWays).map (fun e => e.ID) = [1, 2, 3, 4, 5]
    ∧ (∀ (k : Nat) (e : Edge), (prepareEdges exLength exNodes exWays)[k]? = some e →
        e.ID = (k : Int) + 1)
    ∧ ∀ e ∈ prepareEdges exLength exNodes exWays,
        0 ≤ e.ID - 1 ∧ (e.ID - 1).toNat < (prepareEdges exLength exNodes exWays).length
        ∧ (prepareEdges exLength exNodes exWays)[(e.ID - 1).toNat]? = some e :=
  ⟨by decide, edge_id_is_index_plus_one exLength exNodes exWays⟩

/-- Counterexample to C33: the turn from edge 1 (cost 2) into edge 3 (cost 4)
of the sliced example is emitted with the cost 0 in both components, not with
the costs 2 and 4 of the underlying edges. -/
theorem component_cost_is_zero :
    expandEdges findOutComingEdges exFindMiddlePoint exSliced = some [exExpanded]
    ∧ exSliced[0]? = some ⟨1, 10, 1, 2, 2, [⟨0, 0⟩, ⟨2, 0⟩], false⟩
    ∧ exSliced[2]? = some ⟨3, 20, 2, 4, 4, [⟨2, 0⟩, ⟨2, 1⟩, ⟨2, 2⟩], true⟩
    ∧ exExpanded.Source = 1 ∧ exExpanded.Target = 3
    ∧ exExpanded.SourceComponent = ⟨1, 2, [], 0⟩
    ∧ exExpanded.TargetComponent = ⟨2, 4, [], 0⟩
    ∧ exExpanded.SourceComponent.CostMeters ≠ 2
    ∧ exExpanded.TargetComponent.CostMeters ≠ 4 := by
  refine ⟨rfl, rfl, rfl, rfl, rfl, rfl, rfl, ?_, ?_⟩
  · decide
  · decide

/-- C33 as amended: every expanded edge produced by edge expansion was emitted
for a pair of edges `e` (source) and `f` (target) of the edge list, and each of
its two components carries the source node ID and the target node ID of its
underlying edge, no tags and the cost 0. -/
theorem components_carry_node_ids (fo : Edge → List Edge → List Int)
    (fm : List GeoPoint → Int × GeoPoint) (edges : List Edge) (out : List ExpandedEdge)
    (h : expandEdges fo fm edges = some out) (x : ExpandedEdge) (hx : x ∈ out) :
    ∃ e f, EmittedFor fo fm edges x e f ∧ x.Source = e.ID ∧ x.Target = f.ID
      ∧ x.SourceComponent
          = { SourceNodeID := e.SourceNodeID, TargetNodeID := e.TargetNodeID, Tags := [],
              CostMeters := 0 }
      ∧ x.TargetComponent
          = { SourceNodeID := f.SourceNodeID, TargetNodeID := f.TargetNodeID, Tags := [],
              CostMeters := 0 } := by
  obtain ⟨e, f, hef⟩ := expandEdges_emitted fo fm edges out h x hx
  obtain ⟨id, hid⟩ := hef.2.2.2.2.2.2
  have hp := expandPair_some fm id e f x hid
  obtain ⟨hs, ht⟩ := expandPair_components fm id e f x hid
  exact ⟨e, f, hef, hp.2.2.2.2.2.1, hp.2.2.2.2.2.2.1, hs, ht⟩

/-- Witness of C33 as amended: the turn from edge 1 into edge 3. -/
theorem components_carry_node_ids_witness :
    ∃ e f, EmittedFor findOutComingEdges exFindMiddlePoint exSliced exExpanded e f
      ∧ exExpanded.Source = e.ID ∧ exExpanded.Target = f.ID
      ∧ exExpanded.SourceComponent
          = { SourceNodeID := e.SourceNodeID, TargetNodeID := e.TargetNodeID, Tags := [],
              CostMeters := 0 }
      ∧ exExpanded.TargetComponent
          = { SourceNodeID := f.SourceNodeID, TargetNodeID := f.TargetNodeID, Tags := [],
              CostMeters := 0 } :=
  components_carry_node_ids findOutComingEdges exFindMiddlePoint exSliced [exExpanded]
    (by rfl) exExpanded (List.mem_singleton.mpr rfl)

/-- C35: the expanded-edge list that the restriction stage produces does not
depend on the order in which the two loops visit the restrictions table, nor on
how often they visit an entry: whenever the table `noOrder` visited by the
`no_*` loop and the table `onlyOrder` visited by the `only_*` loop have the
entries of the table `T`, the stage returns the original list filtered once by
the conjunction of the keep-predicates of all entries of `T` (an edge is kept
by an entry that does not apply or does not delete it). -/
theorem restriction_order_is_free (W : List Int) (T noOrder onlyOrder : RestrictionTable)
    (es : List ExpandedEdge)
    (hno : ∀ tag f t v, EntryIn noOrder tag f t v ↔ EntryIn T tag f t v)
    (honly : ∀ tag f t v, EntryIn onlyOrder tag f t v ↔ EntryIn T tag f t v) :
    applyRestrictions noOrder onlyOrder W es
      = es.filter (fun e => T.all (fun ik => !dropNoTag W ik e)
          && T.all (fun ik => !dropOnlyTag W ik e)) := by
  rw [applyRestrictions_eq_filter]
  congr 1
  funext e
  rw [(any_drop_of_entries W T noOrder hno e).1, (any_drop_of_entries W T onlyOrder honly e).2,
    not_any_eq_all_not, not_any_eq_all_not]

/-- Witness of C35: the `no_*` loop visits the table backwards and then once
more forwards, the `only_*` loop visits it backwards; the result is that of the
one filter, the two turns that no restriction deletes. -/
theorem restriction_order_is_free_witness :
    applyRestrictions (exTurnTable.reverse ++ exTurnTable) exTurnTable.reverse [10, 20, 30]
        (exEdge 5 20 30 5 :: exEdges)
      = (exEdge 5 20 30 5 :: exEdges).filter (fun e =>
          exTurnTable.all (fun ik => !dropNoTag [10, 20, 30] ik e)
            && exTurnTable.all (fun ik => !dropOnlyTag [10, 20, 30] ik e))
    ∧ (exEdge 5 20 30 5 :: exEdges).filter (fun e =>
          exTurnTable.all (fun ik => !dropNoTag [10, 20, 30] ik e)
            && exTurnTable.all (fun ik => !dropOnlyTag [10, 20, 30] ik e))
      = [exEdge 2 10 30 5, exEdge 3 20 10 5, exEdge 4 10 30 6] :=
  ⟨restriction_order_is_free [10, 20, 30] exTurnTable (exTurnTable.reverse ++ exTurnTable)
      exTurnTable.reverse (exEdge 5 20 30 5 :: exEdges)
      (EntryIn_of_mem_iff exTurnTable _ (fun x => by simp))
      (EntryIn_of_mem_iff exTurnTable _ (fun x => by simp)),
    by decide⟩

/-! ## Theorems on the breakpoint loop, the stitching range and the mode split -/

/-- C36: for a macroscopic link longer than the resolution, the loop of
lines 29-41, started with the breakpoints `[0, length]` and no breakpoints of
the link, takes exactly two rounds: the first round has the one candidate
index 0 and leaves `[length]`, the second round has the one candidate index 0
and leaves no breakpoint; a bound of one round is not enough, and with every
bound of at least two rounds the loop ends with the breakpoint list
`[0, length]`.  The order `order` in which `range remove` visits the candidates
visits every one of them once. -/
theorem breakpoint_loop_two_rounds (order : List Nat → List Nat)
    (horder : ∀ l, (order l).Perm l) (length : ℚ) (h : resolution < length) :
    removeCandidates [0, length] = [0]
    ∧ (order (removeCandidates [0, length])).foldlM removeBreakpoint [0, length]
        = .ok [length]
    ∧ removeCandidates [length] = [0]
    ∧ (order (removeCandidates [length])).foldlM removeBreakpoint [length] = .ok []
    ∧ reduceBreakpoints order 1 [0, length] [] = .error .panic
    ∧ ∀ fuel, 2 ≤ fuel → reduceBreakpoints order fuel [0, length] [] = .ok [0, length] := by
  have r1 := removeCandidates_first length h
  have r2 := removeCandidates_second length
  have s1 : (order (removeCandidates [0, length])).foldlM removeBreakpoint [0, length]
      = .ok [length] := by
    rw [r1, order_singleton order horder]
    rfl
  have s2 : (order (removeCandidates [length])).foldlM removeBreakpoint [length] = .ok [] := by
    rw [r2, order_singleton order horder]
    rfl
  refine ⟨r1, s1, r2, s2, ?_, ?_⟩
  · rw [reduceBreakpoints_round, s1]
    simp only
    rw [reduceBreakpoints]
    simp
  · intro fuel hfuel
    obtain ⟨f, rfl⟩ : ∃ f, fuel = f + 1 + 1 := ⟨fuel - 2, by omega⟩
    rw [reduceBreakpoints_round, s1]
    simp only
    rw [reduceBreakpoints_round, s2]
    simp only
    rw [reduceBreakpoints_nil]
    rfl

/-- Witness of C36: a link of 12 m, with the candidates visited in the order of
their indices. -/
theorem breakpoint_loop_two_rounds_witness :
    removeCandidates [0, 12] = [0]
    ∧ (removeCandidates [0, 12]).foldlM removeBreakpoint [0, 12] = .ok [12]
    ∧ removeCandidates [12] = [0]
    ∧ (removeCandidates [12]).foldlM removeBreakpoint [12] = .ok []
    ∧ reduceBreakpoints (fun l => l) 1 [0, 12] [] = .error .panic
    ∧ ∀ fuel, 2 ≤ fuel → reduceBreakpoints (fun l => l) fuel [0, 12] [] = .ok [0, 12] :=
  breakpoint_loop_two_rounds (fun l => l) (fun l => List.Perm.refl l) 12
    (by unfold resolution; norm_num)

/-- C37: for all lane counts and all left-change values `a`, `b` of two
adjacent segments, `stitchRange` returns `upStart`, `downStart` and `k` as
lines 343-350 compute them; both starts are non-negative, at least one of them
is 0, and for every `j` in `[0, k)`: `upStart + j < upstream.lanesNum` and
`downStart + j < downstream.lanesNum`.  So when each segment holds `lanesNum`
lane chains, the two lane look-ups of every round of the stitching loop
(lines 354-355) are in range. -/
theorem stitch_lane_indices_in_range (upstream downstream : NetworkLinkMesoscopic) (a b : Int)
    (ha : upstream.lanesChange.head? = some a) (hb : downstream.lanesChange.head? = some b) :
    ∃ upStart downStart k,
      stitchRange upstream downstream = .ok (upStart, downStart, k)
      ∧ upStart = a - min a b ∧ downStart = b - min a b
      ∧ k = min (upstream.lanesNum - upStart) (downstream.lanesNum - downStart)
      ∧ 0 ≤ upStart ∧ 0 ≤ downStart ∧ (upStart = 0 ∨ downStart = 0)
      ∧ (∀ j : Nat, (j : Int) < k →
          upStart + (j : Int) < upstream.lanesNum ∧ downStart + (j : Int) < downstream.lanesNum)
      ∧ (upstream.microNodesPerLane.length = upstream.lanesNum.toNat →
          downstream.microNodesPerLane.length = downstream.lanesNum.toNat →
          ∀ j : Nat, (j : Int) < k →
            ∃ upLane downLane,
              sliceAt upstream.microNodesPerLane (upStart + (j : Int)) = .ok upLane
              ∧ sliceAt downstream.microNodesPerLane (downStart + (j : Int)) = .ok downLane) := by
  refine ⟨a - min a b, b - min a b,
    min (upstream.lanesNum - (a - min a b)) (downstream.lanesNum - (b - min a b)), ?_, rfl, rfl,
    rfl, ?_, ?_, ?_, ?_, ?_⟩
  · unfold stitchRange
    rw [ha, hb]
  · omega
  · omega
  · omega
  · intro j hj
    omega
  · intro hu hd j hj
    have h1 : 0 ≤ a - min a b + (j : Int) := by omega
    have h2 : 0 ≤ b - min a b + (j : Int) := by omega
    have h3 : (a - min a b + (j : Int)).toNat < upstream.microNodesPerLane.length := by
      rw [hu]; omega
    have h4 : (b - min a b + (j : Int)).toNat < downstream.microNodesPerLane.length := by
      rw [hd]; omega
    refine ⟨upstream.microNodesPerLane[(a - min a b + (j : Int)).toNat],
      downstream.microNodesPerLane[(b - min a b + (j : Int)).toNat], ?_, ?_⟩
    · unfold sliceAt
      simp [h1, List.getElem?_eq_getElem h3]
    · unfold sliceAt
      simp [h2, List.getElem?_eq_getElem h4]

/-- Witness of C37: an upstream segment of three lanes with left change 1 and a
downstream segment of two lanes with left change 0: the lanes 1 and 2 of the
upstream segment meet the lanes 0 and 1 of the downstream segment. -/
theorem stitch_lane_indices_in_range_witness :
    ∃ upStart downStart k,
      stitchRange { exMeso 10 3 1 0 4 with microNodesPerLane := [[0, 1], [2, 3], [4, 5]] }
          { exMeso 11 2 0 4 4 with microNodesPerLane := [[6, 7], [8, 9]] }
        = .ok (upStart, downStart, k)
      ∧ upStart = 1 - min 1 0 ∧ downStart = 0 - min 1 0
      ∧ k = min ((3 : Int) - upStart) ((2 : Int) - downStart)
      ∧ 0 ≤ upStart ∧ 0 ≤ downStart ∧ (upStart = 0 ∨ downStart = 0)
      ∧ (∀ j : Nat, (j : Int) < k →
          upStart + (j : Int) < 3 ∧ downStart + (j : Int) < 2)
      ∧ (([[0, 1], [2, 3], [4, 5]] : List (List Int)).length = (3 : Int).toNat →
          ([[6, 7], [8, 9]] : List (List Int)).length = (2 : Int).toNat →
          ∀ j : Nat, (j : Int) < k →
            ∃ upLane downLane,
              sliceAt ([[0, 1], [2, 3], [4, 5]] : List (List Int)) (upStart + (j : Int))
                = .ok upLane
              ∧ sliceAt ([[6, 7], [8, 9]] : List (List Int)) (downStart + (j : Int))
                = .ok downLane) :=
  stitch_lane_indices_in_range
    { exMeso 10 3 1 0 4 with microNodesPerLane := [[0, 1], [2, 3], [4, 5]] }
    { exMeso 11 2 0 4 4 with microNodesPerLane := [[6, 7], [8, 9]] } 1 0 rfl rfl

/-- Counterexample to C40: for the list `[auto]` the bike flag and the walk flag
are true though neither bike nor walk is among the input types, and for the list
`[bike]` the main list is `[auto]` though auto is not among the input types. -/
theorem fallback_ignores_input :
    prepareBikeWalkAgents [AgentType.AGENT_AUTO] = ([AgentType.AGENT_AUTO], true, true)
    ∧ AgentType.AGENT_BIKE ∉ [AgentType.AGENT_AUTO]
    ∧ AgentType.AGENT_WALK ∉ [AgentType.AGENT_AUTO]
    ∧ prepareBikeWalkAgents [AgentType.AGENT_BIKE] = ([AgentType.AGENT_AUTO], true, true)
    ∧ AgentType.AGENT_AUTO ∉ [AgentType.AGENT_BIKE] := by
  decide

/-- C40 as amended: for every agent-type list that is empty or holds at least
two of the types auto, bike and walk, every agent type in the main list returned
by `prepareBikeWalkAgents` is one of the input agent types, the bike flag is
true only if bike is among the input types, and the walk flag is true only if
walk is among the input types.  For every other list the function returns its
fallback `([auto], true, true)`. -/
theorem agents_from_input_or_fallback (agentTypes : List AgentType) :
    ((agentTypes = []
        ∨ (AgentType.AGENT_AUTO ∈ agentTypes ∧ AgentType.AGENT_BIKE ∈ agentTypes)
        ∨ (AgentType.AGENT_AUTO ∈ agentTypes ∧ AgentType.AGENT_WALK ∈ agentTypes)
        ∨ (AgentType.AGENT_BIKE ∈ agentTypes ∧ AgentType.AGENT_WALK ∈ agentTypes)) →
      (∀ a ∈ (prepareBikeWalkAgents agentTypes).1, a ∈ agentTypes)
        ∧ ((prepareBikeWalkAgents agentTypes).2.1 = true → AgentType.AGENT_BIKE ∈ agentTypes)
        ∧ ((prepareBikeWalkAgents agentTypes).2.2 = true → AgentType.AGENT_WALK ∈ agentTypes))
    ∧ (¬ (agentTypes = []
        ∨ (AgentType.AGENT_AUTO ∈ agentTypes ∧ AgentType.AGENT_BIKE ∈ agentTypes)
        ∨ (AgentType.AGENT_AUTO ∈ agentTypes ∧ AgentType.AGENT_WALK ∈ agentTypes)
        ∨ (AgentType.AGENT_BIKE ∈ agentTypes ∧ AgentType.AGENT_WALK ∈ agentTypes)) →
      prepareBikeWalkAgents agentTypes = ([AgentType.AGENT_AUTO], true, true)) := by
  by_cases hne : agentTypes = []
  · subst hne
    refine ⟨fun _ => ⟨?_, ?_, ?_⟩, fun h => absurd (Or.inl rfl) h⟩
    · intro a ha
      simp [prepareBikeWalkAgents] at ha
    · intro h
      simp [prepareBikeWalkAgents] at h
    · intro h
      simp [prepareBikeWalkAgents] at h
  rw [prepareBikeWalkAgents_of_mem agentTypes hne]
  by_cases h1 : AgentType.AGENT_AUTO ∈ agentTypes ∧ AgentType.AGENT_BIKE ∈ agentTypes
  · rw [if_pos h1]
    refine ⟨fun _ => ⟨?_, fun _ => h1.2, (fun h => by cases h)⟩,
      fun h => absurd (Or.inr (Or.inl h1)) h⟩
    intro a ha
    rw [List.mem_singleton.mp ha]
    exact h1.1
  rw [if_neg h1]
  by_cases h2 : AgentType.AGENT_AUTO ∈ agentTypes ∧ AgentType.AGENT_WALK ∈ agentTypes
  · rw [if_pos h2]
    refine ⟨fun _ => ⟨?_, (fun h => by cases h), fun _ => h2.2⟩,
      fun h => absurd (Or.inr (Or.inr (Or.inl h2))) h⟩
    intro a ha
    rw [List.mem_singleton.mp ha]
    exact h2.1
  rw [if_neg h2]
  by_cases h3 : AgentType.AGENT_BIKE ∈ agentTypes ∧ AgentType.AGENT_WALK ∈ agentTypes
  · rw [if_pos h3]
    refine ⟨fun _ => ⟨?_, (fun h => by cases h), fun _ => h3.2⟩,
      fun h => absurd (Or.inr (Or.inr (Or.inr h3))) h⟩
    intro a ha
    rw [List.mem_singleton.mp ha]
    exact h3.1
  rw [if_neg h3]
  refine ⟨fun h => ?_, fun _ => rfl⟩
  rcases h with h | h | h | h
  · exact absurd h hne
  · exact absurd h h1
  · exact absurd h h2
  · exact absurd h h3

/-- Witness of C40 as amended: the list `[walk, auto]` gives `([auto], false,
true)`, with auto and walk among the input types; the list `[walk]` gives the
fallback. -/
theorem agents_from_input_or_fallback_witness :
    ((∀ a ∈ (prepareBikeWalkAgents [AgentType.AGENT_WALK, AgentType.AGENT_AUTO]).1,
          a ∈ [AgentType.AGENT_WALK, AgentType.AGENT_AUTO])
        ∧ ((prepareBikeWalkAgents [AgentType.AGENT_WALK, AgentType.AGENT_AUTO]).2.1 = true →
            AgentType.AGENT_BIKE ∈ [AgentType.AGENT_WALK, AgentType.AGENT_AUTO])
        ∧ ((prepareBikeWalkAgents [AgentType.AGENT_WALK, AgentType.AGENT_AUTO]).2.2 = true →
            AgentType.AGENT_WALK ∈ [AgentType.AGENT_WALK, AgentType.AGENT_AUTO]))
    ∧ prepareBikeWalkAgents [AgentType.AGENT_WALK] = ([AgentType.AGENT_AUTO], true, true) :=
  ⟨(agents_from_input_or_fallback [AgentType.AGENT_WALK, AgentType.AGENT_AUTO]).1
      (Or.inr (Or.inr (Or.inl ⟨by decide, by decide⟩))),
    (agents_from_input_or_fallback [AgentType.AGENT_WALK]).2 (by decide)⟩

/-! ## Theorems on the bike chain and the walk chain -/

/-- C34 (counterexample): with lanes of 3 m, the outermost of the two car lanes
of a link lies at the offset 3/2 and its nodes at y = -3/2, yet the nodes of the
bike chain lie at y = -1/2, the offset 0 + 0.5, and not at y = -2, the offset
3/2 + 0.5; and on a link of one lane, whose car lane has the offset 0, the
nodes of the walk chain lie at y = -1/2 as the nodes of the bike chain do, the
offset 0 + 0.5, and not at y = -1. -/
theorem side_offset_not_stacked :
    carLaneOffset exPrims 2 0 1 = 3 / 2
    ∧ createMesoNodes exPrims true true 2 (exSideStart 2) 10 = .ok (exSideBuilt 2)
    ∧ (exSideBuilt 2).mesoLinks.map
        (fun kv => (kv.2.microNodesPerLane, kv.2.microNodesBikeLane, kv.2.microNodesWalkLane))
        = [([[0, 1], [2, 3]], [4, 5], [6, 7])]
    ∧ (exSideBuilt 2).nodes.map (fun kv => (kv.1, kv.2.laneID, kv.2.geom))
        = [(0, 1, (0, 3 / 2)), (1, 1, (4, 3 / 2)), (2, 2, (0, -3 / 2)), (3, 2, (4, -3 / 2)),
           (4, -1, (0, -1 / 2)), (5, -1, (4, -1 / 2)), (6, -2, (0, -1 / 2)), (7, -2, (4, -1 / 2))]
    ∧ cellPoint exPrims (exMeso 10 2 0 0 4)
        (offsetLine exPrims (exMeso 10 2 0 0 4) (carLaneOffset exPrims 2 0 1 + bikeLaneWidth)) 0
        = (0, -2)
    ∧ carLaneOffset exPrims 1 0 0 = 0
    ∧ createMesoNodes exPrims true true 1 (exSideStart 1) 10 = .ok (exSideBuilt 1)
    ∧ (exSideBuilt 1).mesoLinks.map
        (fun kv => (kv.2.microNodesPerLane, kv.2.microNodesBikeLane, kv.2.microNodesWalkLane))
        = [([[0, 1]], [2, 3], [4, 5])]
    ∧ (exSideBuilt 1).nodes.map (fun kv => (kv.1, kv.2.laneID, kv.2.geom))
        = [(0, 1, (0, 0)), (1, 1, (4, 0)), (2, -1, (0, -1 / 2)), (3, -1, (4, -1 / 2)),
           (4, -2, (0, -1 / 2)), (5, -2, (4, -1 / 2))]
    ∧ cellPoint exPrims (exMeso 10 1 0 0 4) (offsetLine exPrims (exMeso 10 1 0 0 4) 1) 0
        = (0, -1) := by
  refine ⟨by decide!, by with_unfolding_all rfl, by decide!, by decide!, by decide!, by decide!,
    by with_unfolding_all rfl, by decide!, by decide!, by decide!⟩

/-- C34 (amended): when the outermost car lane of a mesoscopic link has the
offset 0, the nodes of the bike chain lie on the geometry of the link moved by
that offset plus 0.5 m and the nodes of the walk chain on the geometry moved by
that offset plus 0.5 m, also when both chains are created; both offsets are
0.5 m, and the geometry of car lane `i` is the geometry of the link moved by
`carLaneOffset`. -/
theorem side_chains_next_to_centre (P : GeoPrims) (bike walk : Bool) (o : ℚ)
    (st st' : MicroBuild) (m : Int) (ml : NetworkLinkMesoscopic) (lc0 : Int)
    (h : createMesoNodes P bike walk o st m = .ok st')
    (hml : mapGet? st.mesoLinks m = some ml)
    (hb : ml.microNodesBikeLane = []) (hw : ml.microNodesWalkLane = [])
    (hlc : ml.lanesChange.head? = some lc0)
    (hlanes : 1 ≤ ml.lanesNum)
    (hout : carLaneOffset P o lc0 (ml.lanesNum - 1).toNat = 0) :
    ∃ ml', mapGet? st'.mesoLinks m = some ml'
      ∧ (∀ i : Nat, laneGeometry P ml (-1 * (o / 2 - 1 / 2 + (lc0 : ℚ))) i
          = offsetLine P ml (carLaneOffset P o lc0 i))
      ∧ (bike = true → ∀ (j : Nat) (x : Int), ml'.microNodesBikeLane[j]? = some x →
          ∃ nd, mapGet? st'.nodes x = some nd ∧ nd.laneID = -1
            ∧ nd.geom = cellPoint P ml (offsetLine P ml
                (carLaneOffset P o lc0 (ml.lanesNum - 1).toNat + bikeLaneWidth)) j)
      ∧ (walk = true → ∀ (j : Nat) (x : Int), ml'.microNodesWalkLane[j]? = some x →
          ∃ nd, mapGet? st'.nodes x = some nd ∧ nd.laneID = -2
            ∧ nd.geom = cellPoint P ml (offsetLine P ml
                (carLaneOffset P o lc0 (ml.lanesNum - 1).toNat + walkLaneWidth)) j)
      ∧ carLaneOffset P o lc0 (ml.lanesNum - 1).toNat + bikeLaneWidth = 1 / 2
      ∧ carLaneOffset P o lc0 (ml.lanesNum - 1).toNat + walkLaneWidth = 1 / 2 := by
  have _ := hlanes
  unfold createMesoNodes at h
  rw [hml] at h
  simp only [hlc] at h
  cases h
  obtain ⟨sb, sw⟩ := buildMesoNodes_side_points P bike walk o lc0 ml st.nodes st.lastNodeID hb hw
  rw [hout]
  refine ⟨_, mapGet?_mapSet_same _ _ _, fun i => laneGeometry_offset P ml o lc0 i, sb, sw, ?_, ?_⟩
  · norm_num [bikeLaneWidth]
  · norm_num [walkLaneWidth]

/-- The amended C34 on a link of one lane with a bike chain and a walk chain. -/
theorem side_chains_next_to_centre_witness :
    ∃ ml', mapGet? (exSideBuilt 1).mesoLinks 10 = some ml'
      ∧ (∀ i : Nat, laneGeometry exPrims (exMeso 10 1 0 0 4)
            (-1 * ((1 : ℚ) / 2 - 1 / 2 + ((0 : Int) : ℚ))) i
          = offsetLine exPrims (exMeso 10 1 0 0 4) (carLaneOffset exPrims 1 0 i))
      ∧ (true = true → ∀ (j : Nat) (x : Int), ml'.microNodesBikeLane[j]? = some x →
          ∃ nd, mapGet? (exSideBuilt 1).nodes x = some nd ∧ nd.laneID = -1
            ∧ nd.geom = cellPoint exPrims (exMeso 10 1 0 0 4) (offsetLine exPrims (exMeso 10 1 0 0 4)
                (carLaneOffset exPrims 1 0 ((exMeso 10 1 0 0 4).lanesNum - 1).toNat
                  + bikeLaneWidth)) j)
      ∧ (true = true → ∀ (j : Nat) (x : Int), ml'.microNodesWalkLane[j]? = some x →
          ∃ nd, mapGet? (exSideBuilt 1).nodes x = some nd ∧ nd.laneID = -2
            ∧ nd.geom = cellPoint exPrims (exMeso 10 1 0 0 4) (offsetLine exPrims (exMeso 10 1 0 0 4)
                (carLaneOffset exPrims 1 0 ((exMeso 10 1 0 0 4).lanesNum - 1).toNat
                  + walkLaneWidth)) j)
      ∧ carLaneOffset exPrims 1 0 ((exMeso 10 1 0 0 4).lanesNum - 1).toNat + bikeLaneWidth = 1 / 2
      ∧ carLaneOffset exPrims 1 0 ((exMeso 10 1 0 0 4).lanesNum - 1).toNat + walkLaneWidth
          = 1 / 2 :=
  side_chains_next_to_centre exPrims true true 1 (exSideStart 1) (exSideBuilt 1) 10
    (exMeso 10 1 0 0 4) 0 (by with_unfolding_all rfl) (by decide!) rfl rfl rfl (by decide) (by decide!)

/-! ## Theorems on the nodes of the chains after the stitching -/

theorem exJoin0_fresh : NoChains exJoin0.mesoLinks exJoinMacro.mesolinks := by
  intro m hm ml hml
  simp only [exJoinMacro, exMacro, List.mem_cons, List.mem_singleton, List.not_mem_nil,
    or_false] at hm
  rcases hm with rfl | rfl
  · simp only [exJoin0, mapGet?, if_true, Option.some.injEq] at hml
    subst hml
    exact ⟨rfl, rfl, rfl⟩
  · simp only [exJoin0, mapGet?] at hml
    norm_num at hml
    subst hml
    exact ⟨rfl, rfl, rfl⟩

/-- C38: for a macroscopic link whose mesoscopic links are listed once each and
have no nodes when the link is processed (they resolve, else the loop that
creates the nodes does not return `st1`), with `st1`, `st2` and `st3` the builds
after the creation of the nodes, after the marks and after the stitching loop
of the loop body `processMacroLink` (lines 53-371): every node ID of a car lane,
of the bike chain and of the walk chain of each of its mesoscopic links is a
key of the node table of `st3`; and the loop that creates the links (lines
374-530) returns a build from `st3`, so it takes none of its error branches, in
particular its result is not the error of a mesoscopic link or microscopic node
that is not found. -/
theorem chain_nodes_are_keys (P : GeoPrims) (macroNodes : GoMap NetworkNode)
    (macroLink : NetworkLink) (ag : List AgentType) (bike walk : Bool) (o : ℚ)
    (st0 st1 st2 st3 : MicroBuild)
    (h1 : macroLink.mesolinks.foldlM (createMesoNodes P bike walk o) st0 = .ok st1)
    (h2 : markTargets macroNodes macroLink bike walk st1 = .ok st2)
    (h3 : (adjacentPairs macroLink.mesolinks).foldlM (stitchPair bike walk) st2 = .ok st3)
    (hnd : macroLink.mesolinks.Nodup) (hfresh : NoChains st0.mesoLinks macroLink.mesolinks) :
    (∀ m ∈ macroLink.mesolinks, ∃ ml, mapGet? st3.mesoLinks m = some ml
        ∧ (∀ lane ∈ ml.microNodesPerLane, ∀ x ∈ lane, (mapGet? st3.nodes x).isSome)
        ∧ (∀ x ∈ ml.microNodesBikeLane, (mapGet? st3.nodes x).isSome)
        ∧ (∀ x ∈ ml.microNodesWalkLane, (mapGet? st3.nodes x).isSome))
      ∧ (∃ st4, macroLink.mesolinks.foldlM (createMesoLinks ag bike walk) st3 = .ok st4)
      ∧ macroLink.mesolinks.foldlM (createMesoLinks ag bike walk) st3 ≠ .error .error := by
  obtain ⟨hp, st4, h4⟩ := stitched_links_total P macroNodes macroLink ag bike walk o st0 st1 st2
    st3 h1 h2 h3 hnd hfresh
  refine ⟨?_, ⟨st4, h4⟩, by rw [h4]; intro hc; cases hc⟩
  intro m hm
  have hb0 : ChainsBuilt st0 [] :=
    ⟨fun _ _ _ _ _ _ _ _ _ hm => absurd hm (List.not_mem_nil _),
      fun _ hm => absurd hm (List.not_mem_nil _)⟩
  have hb1 : ChainsBuilt st1 macroLink.mesolinks := by
    have := foldlM_createMesoNodes_chains P bike walk o macroLink.mesolinks [] st0 st1 h1
      (by simpa using hnd) hb0 hfresh
    simpa using this
  obtain ⟨ml1, g1, -⟩ := hb1.2 m hm
  rw [← (markTargets_chains macroNodes macroLink bike walk st1 st2 h2).1] at g1
  obtain ⟨ml3, k1, -⟩ := (foldlM_stitchPair_keeps macroLink.mesolinks bike walk st2 st3 h3).2.1
    m ml1 g1
  refine ⟨ml3, k1, ?_, ?_, ?_⟩
  · intro lane hl x hx
    exact hp m hm ml3 k1 lane (by unfold laneChains; exact List.mem_append_left _ hl) x hx
  · intro x hx
    exact hp m hm ml3 k1 _ (by simp [laneChains]) x hx
  · intro x hx
    exact hp m hm ml3 k1 _ (by simp [laneChains]) x hx

/-- Witness of C38: a link of two lanes before a link of one lane, both with a
bike and a walk chain.  The stitching loop deletes the nodes 1, 5 and 7, whose
slots take the nodes 8, 10 and 12, and the nine links are created. -/
theorem chain_nodes_are_keys_witness :
    ((∀ m ∈ exJoinMacro.mesolinks, ∃ ml, mapGet? exJoin3.mesoLinks m = some ml
        ∧ (∀ lane ∈ ml.microNodesPerLane, ∀ x ∈ lane, (mapGet? exJoin3.nodes x).isSome)
        ∧ (∀ x ∈ ml.microNodesBikeLane, (mapGet? exJoin3.nodes x).isSome)
        ∧ (∀ x ∈ ml.microNodesWalkLane, (mapGet? exJoin3.nodes x).isSome))
      ∧ (∃ st4, exJoinMacro.mesolinks.foldlM
          (createMesoLinks [AgentType.AGENT_AUTO] true true) exJoin3 = .ok st4)
      ∧ exJoinMacro.mesolinks.foldlM (createMesoLinks [AgentType.AGENT_AUTO] true true) exJoin3
          ≠ .error .error)
    ∧ (exJoin2.mesoLinks.map (fun kv => (kv.1, laneChains kv.2))
        = [(10, [[0, 1], [2, 3], [4, 5], [6, 7]]), (11, [[8, 9], [10, 11], [12, 13]])]
      ∧ exJoin3.mesoLinks.map (fun kv => (kv.1, laneChains kv.2))
        = [(10, [[0, 8], [2, 3], [4, 10], [6, 12]]), (11, [[8, 9], [10, 11], [12, 13]])]
      ∧ exJoin3.nodes.map (fun kv => kv.1) = [0, 2, 3, 4, 6, 8, 9, 10, 11, 12, 13]
      ∧ exJoin4.links.map (fun kv => (kv.1, kv.2.sourceNodeID, kv.2.targetNodeID))
        = [(0, 0, 8), (1, 0, 3), (2, 2, 3), (3, 2, 8), (4, 4, 10), (5, 6, 12), (6, 8, 9),
           (7, 10, 11), (8, 12, 13)]) :=
  ⟨chain_nodes_are_keys exPrims exMacroNodes exJoinMacro [AgentType.AGENT_AUTO] true true 2
      exJoin0 exJoin1 exJoin2 exJoin3 (by with_unfolding_all rfl) (by with_unfolding_all rfl)
      (by with_unfolding_all rfl) (by decide) exJoin0_fresh,
    by decide!⟩

/-! ## Theorems on the incidence lists of the microscopic nodes -/

/-- Counterexample to C39: two runs of `genMicroscopicNetwork` that return a
network with a link whose target node is not in the node table.  In the first
run the macroscopic links 100 and 101 both list the mesoscopic link 11: link 1
goes from node 2 to node 3, and the stitching of link 101 has deleted node 3.
In the second run the mesoscopic link 11 comes with the lane list `[[0, 1]]`,
the nodes of link 10: link 0 goes from node 0 to node 1, and the stitching of
link 101 has deleted node 1. -/
theorem link_to_deleted_node :
    (genMicroscopicNetwork exPrims
        [(100, exMacro 100 1 [10, 11] [AgentType.AGENT_AUTO]),
         (101, exMacro 101 1 [11, 12] [AgentType.AGENT_AUTO])]
        exMacroNodes [(10, exMeso 10 1 0 0 4), (11, exMeso 11 1 0 4 4), (12, exMeso 12 1 0 8 4)]
        exMesoNodes false = .ok exSharedResult
      ∧ (mapGet? exSharedResult.1.links 1).map (fun l => (l.sourceNodeID, l.targetNodeID))
        = some (2, 3)
      ∧ (mapGet? exSharedResult.1.nodes 3).isSome = false)
    ∧ (genMicroscopicNetwork exPrims exFilledMacro exMacroNodes exFilledMeso exMesoNodes false
        = .ok exFilledResult
      ∧ (mapGet? exFilledResult.1.links 0).map (fun l => (l.sourceNodeID, l.targetNodeID))
        = some (0, 1)
      ∧ (mapGet? exFilledResult.1.nodes 1).isSome = false) :=
  ⟨⟨by with_unfolding_all rfl, by decide!, by decide!⟩,
    ⟨by with_unfolding_all rfl, by decide!, by decide!⟩⟩

/-- C39 as amended: in the network returned by `genMicroscopicNetwork` the
incidence lists of the nodes agree with the links.  Every microscopic link `l` is stored under
its ID; the node `l.sourceNodeID` is in the node table and `l.ID` occurs exactly
once in its `outcomingLinks`; the node `l.targetNodeID` is in the node table and
`l.ID` occurs exactly once in its `incomingLinks`.  Every node is stored under
its ID, and every ID in its `outcomingLinks` (`incomingLinks`) is the ID of a
link of the link table whose source (target) is that node.  The preconditions
of the amended claim: the mesoscopic links come without microscopic nodes and no
mesoscopic link occurs twice in the lists `mesolinks` of the macroscopic links,
as in the output of `genMesoscopicNetwork`. -/
theorem incidence_lists_agree (P : GeoPrims) (macroLinks : GoMap NetworkLink)
    (macroNodes : GoMap NetworkNode) (mesoLinks : GoMap NetworkLinkMesoscopic)
    (mesoNodes : GoMap NetworkNodeMesoscopic) (sep : Bool) (net : NetworkMicroscopic)
    (mesoLinks' : GoMap NetworkLinkMesoscopic)
    (h : genMicroscopicNetwork P macroLinks macroNodes mesoLinks mesoNodes sep
      = .ok (net, mesoLinks'))
    (hno : ∀ kv ∈ mesoLinks, kv.2.microNodesPerLane = [] ∧ kv.2.microNodesBikeLane = []
      ∧ kv.2.microNodesWalkLane = [])
    (hnd : ((macroLinks.map (fun kv => kv.2)).map (fun M => M.mesolinks)).flatten.Nodup) :
    (∀ k l, mapGet? net.links k = some l → l.ID = k
        ∧ (∃ n, mapGet? net.nodes l.sourceNodeID = some n ∧ n.ID = l.sourceNodeID
            ∧ n.outcomingLinks.count l.ID = 1)
        ∧ (∃ n, mapGet? net.nodes l.targetNodeID = some n ∧ n.ID = l.targetNodeID
            ∧ n.incomingLinks.count l.ID = 1))
      ∧ (∀ x n, mapGet? net.nodes x = some n → n.ID = x
        ∧ (∀ k ∈ n.outcomingLinks, ∃ l, mapGet? net.links k = some l ∧ l.ID = k
            ∧ l.sourceNodeID = n.ID)
        ∧ (∀ k ∈ n.incomingLinks, ∃ l, mapGet? net.links k = some l ∧ l.ID = k
            ∧ l.targetNodeID = n.ID)) := by
  obtain ⟨i1, i2⟩ := genMicroscopicNetwork_incident P macroLinks macroNodes mesoLinks mesoNodes
    sep net mesoLinks' h hno hnd
  refine ⟨?_, ?_⟩
  · intro k l hl
    obtain ⟨e, ⟨ns, s1, s2⟩, ⟨nt, t1, t2⟩⟩ := i1 k l hl
    exact ⟨e, ⟨ns, s1, (i2 _ ns s1).1, by rw [e]; exact s2⟩,
      ⟨nt, t1, (i2 _ nt t1).1, by rw [e]; exact t2⟩⟩
  · intro x n hn
    obtain ⟨e, o, i⟩ := i2 x n hn
    refine ⟨e, ?_, ?_⟩
    · intro k hk
      obtain ⟨l, g1, g2⟩ := o k hk
      exact ⟨l, g1, (i1 k l g1).1, by rw [e]; exact g2⟩
    · intro k hk
      obtain ⟨l, g1, g2⟩ := i k hk
      exact ⟨l, g1, (i1 k l g1).1, by rw [e]; exact g2⟩

/-- Witness of C39 as amended: two segments of two lanes whose lanes are stitched, a third
segment, and a movement of two lanes.  The node 4, which the segments 10 and 11
share, has the incoming links 0 and 3 and the outgoing links 4 and 5. -/
theorem incidence_lists_agree_witness :
    ((∀ k l, mapGet? exOwnResult.1.links k = some l → l.ID = k
        ∧ (∃ n, mapGet? exOwnResult.1.nodes l.sourceNodeID = some n ∧ n.ID = l.sourceNodeID
            ∧ n.outcomingLinks.count l.ID = 1)
        ∧ (∃ n, mapGet? exOwnResult.1.nodes l.targetNodeID = some n ∧ n.ID = l.targetNodeID
            ∧ n.incomingLinks.count l.ID = 1))
      ∧ (∀ x n, mapGet? exOwnResult.1.nodes x = some n → n.ID = x
        ∧ (∀ k ∈ n.outcomingLinks, ∃ l, mapGet? exOwnResult.1.links k = some l ∧ l.ID = k
            ∧ l.sourceNodeID = n.ID)
        ∧ (∀ k ∈ n.incomingLinks, ∃ l, mapGet? exOwnResult.1.links k = some l ∧ l.ID = k
            ∧ l.targetNodeID = n.ID)))
    ∧ (exOwnResult.1.links.map (fun kv => (kv.1, kv.2.ID, kv.2.sourceNodeID, kv.2.targetNodeID))
        = [(0, 0, 0, 4), (1, 1, 0, 6), (2, 2, 2, 6), (3, 3, 2, 4), (4, 4, 4, 5), (5, 5, 4, 7),
           (6, 6, 6, 7), (7, 7, 6, 5), (8, 8, 8, 9), (9, 9, 8, 11), (10, 10, 10, 11),
           (11, 11, 10, 9), (12, 12, 5, 12), (13, 13, 12, 8), (14, 14, 7, 13), (15, 15, 13, 10)]
      ∧ exOwnResult.1.nodes.map (fun kv => (kv.1, kv.2.ID, kv.2.incomingLinks,
          kv.2.outcomingLinks))
        = [(0, 0, [], [0, 1]), (2, 2, [], [2, 3]), (4, 4, [0, 3], [4, 5]), (5, 5, [4, 7], [12]),
           (6, 6, [1, 2], [6, 7]), (7, 7, [5, 6], [14]), (8, 8, [13], [8, 9]),
           (9, 9, [8, 11], []), (10, 10, [15], [10, 11]), (11, 11, [9, 10], []),
           (12, 12, [12], [13]), (13, 13, [14], [15])]) :=
  ⟨incidence_lists_agree exPrims exOwnMacro exMacroNodes exOwnMeso exMesoNodes false
      exOwnResult.1 exOwnResult.2 exOwnResult_ok (by decide) (by decide),
    by with_unfolding_all rfl, by with_unfolding_all rfl⟩

end Osm2ch
